import Mathlib

/-!
# Mantle: archetype-based entity/component database

A shallow embedding of `MantleDB.h`, `MantleDB.cpp`, `MantleQueries.h` and
`MantleQueries.cpp`.

Modelling conventions.

* `TMap K V` is an association list in insertion order; `TArray` is a `List`
  (`Add` appends at the end). `AvailableChunkIds` is used only as a stack
  (`Add`, `Top`, `Pop`), so it is stored with the top of the stack at the head.
* `FGuid` is a natural number, `0` being the invalid default `FGuid()`.
  `FGuid::NewGuid()` draws from a counter kept in the master record, so every
  new guid is non-zero and differs from all earlier ones.
* `int32` counters and indices that the code only ever produces from
  `TArray::Num()` are natural numbers; sizes, alignments and the chunk byte
  budget are integers, with the truncating division of C++.
* `UE_LOG(..., Fatal, ...)` aborts the process: operations return
  `Except Failure`, and `Failure.Fatal` carries the message. Dereferencing a
  null record pointer is a crash as well. `while` loops that the code does not
  bound take a fuel argument and answer `Failure.OutOfFuel` when it runs out.
* The raw byte blob of a chunk is modelled column by column: `Blob T i` is the
  content of the struct of component type `T` stored in slot `i`. A pointer to
  a struct is modelled by the content it points to; an array view by the list
  of the contents it spans at the time it is built.
-/

namespace Mantle

abbrev FString := String
abbrev FGuid := Nat
abbrev TBitArray := List Bool
/-- Content of one component struct (the bytes of an `FInstancedStruct`). -/
abbrev Payload := Nat

inductive Failure where
  | Fatal (msg : String)
  | OutOfFuel
  deriving DecidableEq, Repr

/-! ## Containers -/

abbrev TMap (K V : Type) := List (K × V)

namespace TMap

variable {K V : Type} [DecidableEq K]

def Find : TMap K V → K → Option V
  | [], _ => none
  | (k', v) :: rest, k => if k' = k then some v else Find rest k

def Contains (m : TMap K V) (k : K) : Bool := (Find m k).isSome

/-- `TMap::Add`: replaces the value of an existing key, else appends the pair. -/
def Add (m : TMap K V) (k : K) (v : V) : TMap K V :=
  if Contains m k then m.map (fun p => if p.1 = k then (k, v) else p) else m ++ [(k, v)]

def Remove (m : TMap K V) (k : K) : TMap K V := m.filter (fun p => decide (p.1 ≠ k))

end TMap

/-- `TSet::Add`. -/
def TSetAdd {K : Type} [DecidableEq K] (s : List K) (k : K) : List K :=
  if k ∈ s then s else s ++ [k]

/-! ## Bit arrays -/

/-- `TBitArray<>(false, n)`. -/
def ZeroBits (n : Nat) : TBitArray := List.replicate n false

/-- `UAnankeBitArrayLibrary::IsZero`: no bit is set. -/
def IsZero (a : TBitArray) : Bool := a.all (fun b => !b)

/-- `Archetype[i]` as an rvalue. -/
def GetBit (a : TBitArray) (i : Nat) : Bool := a.getD i false

/-- `Archetype[i] = b`. -/
def SetBit (a : TBitArray) (i : Nat) (b : Bool) : TBitArray := a.set i b

/-- `TBitArray<>::BitwiseAND(a, b, EBitwiseOperatorFlags::MinSize)`. -/
def BitwiseAND (a b : TBitArray) : TBitArray := List.zipWith (fun x y => x && y) a b

/-! ## Data model (`MantleDB.h`) -/

def kDefaultChunkSize : Int := 128 * 1024
def kMinChunkSize : Int := 1 * 1024

structure FMantleEntity where
  Id : FGuid
  Archetype : TBitArray
  ChunkId : FGuid
  Index : Nat
  deriving DecidableEq, Repr

structure FMantleComponentInfo where
  Name : FString := ""
  ArchetypeIndex : Nat := 0
  StructSize : Int := -1
  StructAlignment : Int := -1
  deriving DecidableEq, Repr

/-- A component type as `Initialize` sees it: `GetName`, `GetStructureSize`, `GetMinAlignment`. -/
structure UScriptStruct where
  Name : FString
  StructureSize : Int
  MinAlignment : Int
  deriving DecidableEq, Repr

/-- The payload template handed to `AddEntities` / `UpdateEntities`. -/
structure FInstancedStruct where
  TypeName : FString
  Memory : Payload
  deriving DecidableEq, Repr

structure FMantleDBVersion where
  VersionNumber : Nat := 0
  bIsValid : Bool := false
  deriving DecidableEq, Repr

/-- `VersionNumber++` on a `uint32`. -/
def FMantleDBVersion.Update (v : FMantleDBVersion) : FMantleDBVersion :=
  { VersionNumber := (v.VersionNumber + 1) % 2 ^ 32, bIsValid := true }

def FMantleDBVersion.Invalidate (v : FMantleDBVersion) : FMantleDBVersion :=
  { v with bIsValid := false }

def FMantleDBVersion.IsValid (v : FMantleDBVersion) : Bool := v.bIsValid

structure FMantleCachedEntry where
  Archetype : TBitArray := []
  /-- `[type] -> [chunk][entityComponent]` -/
  ChunkedComponents : TMap FString (List (List Payload)) := []
  /-- `[chunk][entity]` -/
  ChunkedEntityIds : List (List FGuid) := []
  MatchingQueries : List TBitArray := []
  bIsValid : Bool := false
  deriving DecidableEq, Repr

def FMantleCachedEntry.NumChunks (e : FMantleCachedEntry) : Nat := e.ChunkedEntityIds.length

structure FMantleCachedQuery where
  QueryArchetype : TBitArray := []
  MatchingEntries : List FMantleCachedEntry := []
  Version : FMantleDBVersion := {}
  deriving DecidableEq, Repr

def FMantleCachedQuery.ClearData (q : FMantleCachedQuery) : FMantleCachedQuery :=
  { q with MatchingEntries := [] }

structure FMantleDBMasterRecord where
  ChunkComponentBlobSize : Int := 0
  ComponentInfoMap : TMap FString FMantleComponentInfo := []
  EntitiesById : TMap FGuid FMantleEntity := []
  CachedQueries : TMap TBitArray FMantleCachedQuery := []
  CachedEntries : TMap TBitArray FMantleCachedEntry := []
  /-- Source of `FGuid::NewGuid()`: the next guid to hand out. -/
  NextGuid : Nat := 1

structure FMantleDBChunk where
  ChunkId : FGuid
  Archetype : TBitArray
  TotalCapacity : Nat := 0
  EntityIds : List FGuid := []
  ComponentTypeInfo : TMap FString FMantleComponentInfo := []
  /-- `ComponentBlob != nullptr`. -/
  bBlobAllocated : Bool := false
  /-- Content of the blob, by column and slot. -/
  Blob : FString → Nat → Payload := fun _ _ => 0

structure FMantleDBEntry where
  Archetype : TBitArray
  ComponentTypes : List FString := []
  Chunks : TMap FGuid FMantleDBChunk := []
  /-- Stack of chunk ids, top at the head. -/
  AvailableChunkIds : List FGuid := []
  AllChunkIds : List FGuid := []

structure UMantleDB where
  EntriesByArchetype : TMap TBitArray FMantleDBEntry := []
  ActiveArchetypes : List TBitArray := []
  MasterRecord : FMantleDBMasterRecord := {}
  bIsInitialized : Bool := false

/-! ## `FMantleDBMasterRecord` -/

/-- `FGuid::NewGuid()`. -/
def FMantleDBMasterRecord.NewGuid (mr : FMantleDBMasterRecord) : FGuid × FMantleDBMasterRecord :=
  (mr.NextGuid, { mr with NextGuid := mr.NextGuid + 1 })

def FMantleDBMasterRecord.RegisterEntity (mr : FMantleDBMasterRecord) (Archetype : TBitArray)
    (ChunkId : FGuid) (ChunkIndex : Nat) : FGuid × FMantleDBMasterRecord :=
  let NewEntity : FMantleEntity :=
    { Id := mr.NewGuid.1, Archetype := Archetype, ChunkId := ChunkId, Index := ChunkIndex }
  (NewEntity.Id,
    { mr.NewGuid.2 with EntitiesById := mr.NewGuid.2.EntitiesById.Add NewEntity.Id NewEntity })

def FMantleDBMasterRecord.RemoveEntity (mr : FMantleDBMasterRecord) (EntityId : FGuid) :
    FMantleDBMasterRecord :=
  if mr.EntitiesById.Contains EntityId then
    { mr with EntitiesById := mr.EntitiesById.Remove EntityId }
  else mr

/-- `FindOrAddCachedEntry`: the master record in which the cached entry of `Archetype` exists. -/
def FMantleDBMasterRecord.FindOrAddCachedEntry (mr : FMantleDBMasterRecord) (Archetype : TBitArray) :
    FMantleDBMasterRecord :=
  match mr.CachedEntries.Find Archetype with
  | none => { mr with CachedEntries := mr.CachedEntries.Add Archetype { Archetype := Archetype } }
  | some _ => mr

/-- The cached entry `FindOrAddCachedEntry` returns a reference to. -/
def FMantleDBMasterRecord.CachedEntryOf (mr : FMantleDBMasterRecord) (Archetype : TBitArray) :
    FMantleCachedEntry :=
  (mr.CachedEntries.Find Archetype).getD { Archetype := Archetype }

def FMantleDBMasterRecord.ArchetypeHasComponent (mr : FMantleDBMasterRecord) (Archetype : TBitArray)
    (ComponentType : FString) : Bool :=
  match mr.ComponentInfoMap.Find ComponentType with
  | none => false
  | some ComponentInfo => GetBit Archetype ComponentInfo.ArchetypeIndex

/-! ## `FMantleDBChunk` -/

namespace FMantleDBChunk

def GetRemainingCapacity (c : FMantleDBChunk) : Nat := c.TotalCapacity - c.EntityIds.length

def IsEmpty (c : FMantleDBChunk) : Bool := c.EntityIds.length == 0

def ValidateComponentInfo (Info : FMantleComponentInfo) : Bool :=
  decide (Info.Name ≠ "") && decide (Info.StructSize > 0) && decide (Info.StructAlignment > 0)

/-- The registry entries the constructor keeps: valid ones whose bit is set in the archetype. -/
def PresentTypes (NewArchetype : TBitArray) (mr : FMantleDBMasterRecord) :
    TMap FString FMantleComponentInfo :=
  mr.ComponentInfoMap.filter
    (fun p => ValidateComponentInfo p.2 && GetBit NewArchetype p.2.ArchetypeIndex)

/-- `BytesPerEntity` after the constructor's loop. -/
def BytesPerEntity (NewArchetype : TBitArray) (mr : FMantleDBMasterRecord) : Int :=
  ((PresentTypes NewArchetype mr).map (fun p => p.2.StructSize)).sum

/-- `MaxPossibleAlignmentPadding` after the constructor's loop. -/
def MaxPossibleAlignmentPadding (NewArchetype : TBitArray) (mr : FMantleDBMasterRecord) : Int :=
  ((PresentTypes NewArchetype mr).map (fun p => p.2.StructAlignment)).sum

/-- The constructor `FMantleDBChunk::FMantleDBChunk`. -/
def Ctor (NewChunkId : FGuid) (NewArchetype : TBitArray) (mr : FMantleDBMasterRecord) :
    Except Failure FMantleDBChunk :=
  let c : FMantleDBChunk :=
    { ChunkId := NewChunkId, Archetype := NewArchetype,
      ComponentTypeInfo := PresentTypes NewArchetype mr }
  if BytesPerEntity NewArchetype mr > 0 then
    let TotalCapacity : Int :=
      Int.tdiv (mr.ChunkComponentBlobSize - MaxPossibleAlignmentPadding NewArchetype mr)
        (BytesPerEntity NewArchetype mr)
    if TotalCapacity ≤ 0 then
      .error (.Fatal "MantleDB does not support entity size.")
    else
      .ok { c with TotalCapacity := TotalCapacity.toNat }
  else
    .ok c

/-- `MaybeAllocateBlob`. The column bases it computes are not part of this model; its fatal
branch (a column running past `MaxLocation`) is excluded by the capacity computed in `Ctor`. -/
def MaybeAllocateBlob (c : FMantleDBChunk) : FMantleDBChunk := { c with bBlobAllocated := true }

def DeallocateBlob (c : FMantleDBChunk) : FMantleDBChunk := { c with bBlobAllocated := false }

/-- `LocationIsValid` for an address computed from a column base and a slot: the null checks.
The range check against `[ComponentBlob, MaxLocation]` is a property of the column layout. -/
def LocationIsValid (c : FMantleDBChunk) : Bool := c.bBlobAllocated

/-- `GetComponentInternal`: `none` is `nullptr`, `some v` a pointer to a struct with content `v`. -/
def GetComponentInternal (c : FMantleDBChunk) (TypeName : FString) (EntityIndex : Nat) :
    Option Payload :=
  match c.ComponentTypeInfo.Find TypeName with
  | none => none
  | some _ => some (c.Blob TypeName EntityIndex)

def GetComponent (c : FMantleDBChunk) (TypeName : FString) (Entity : FMantleEntity) :
    Option Payload :=
  c.GetComponentInternal TypeName Entity.Index

/-- An `FAnankeUntypedArrayView(ChunkLocation + Start * StructSize, Num)` read out. -/
def ColumnView (c : FMantleDBChunk) (TypeName : FString) (Start Num : Nat) : List Payload :=
  (List.range Num).map (fun k => c.Blob TypeName (Start + k))

/-- The loop of `RegisterEntities`: `Count` more iterations, the next one with index `EntityIndex`. -/
def RegisterEntitiesLoop (EntityIndexOffset : Nat) :
    Nat → Nat → FMantleDBChunk → FMantleDBMasterRecord → FMantleDBChunk × FMantleDBMasterRecord
  | 0, _, c, mr => (c, mr)
  | Count + 1, EntityIndex, c, mr =>
    let r := mr.RegisterEntity c.Archetype c.ChunkId (EntityIndexOffset + EntityIndex)
    RegisterEntitiesLoop EntityIndexOffset Count (EntityIndex + 1)
      { c with EntityIds := c.EntityIds ++ [r.1] } r.2

def RegisterEntities (c : FMantleDBChunk) (mr : FMantleDBMasterRecord) (NumEntities : Nat)
    (OutResult : FMantleCachedEntry) :
    FMantleDBChunk × FMantleDBMasterRecord × FMantleCachedEntry :=
  let StartIndex := c.EntityIds.length
  let r := RegisterEntitiesLoop c.EntityIds.length NumEntities 0 c mr
  let EntitiesAdded := r.1.EntityIds.length - StartIndex
  if EntitiesAdded ≤ 0 then
    (r.1, r.2, { OutResult with ChunkedEntityIds := OutResult.ChunkedEntityIds ++ [[]] })
  else
    (r.1, r.2, { OutResult with
      ChunkedEntityIds :=
        OutResult.ChunkedEntityIds ++ [(r.1.EntityIds.drop StartIndex).take EntitiesAdded] })

/-- The inner loop of `AddEntities` for one payload: the template is copied into
`Num` consecutive slots of column `TypeName`, starting at slot `Start`. -/
def WriteSlots (Blob : FString → Nat → Payload) (TypeName : FString) (Start Num : Nat)
    (Src : Payload) : FString → Nat → Payload :=
  fun t i => if t = TypeName ∧ Start ≤ i ∧ i < Start + Num then Src else Blob t i

/-- `OutResult.ChunkedComponents.FindOrAdd(TypeName).Add(View)`. -/
def AppendView (m : TMap FString (List (List Payload))) (TypeName : FString)
    (View : List Payload) : TMap FString (List (List Payload)) :=
  m.Add TypeName ((m.Find TypeName).getD [] ++ [View])

/-- The loop of `AddEntities` over `ComponentsToAdd` (lines 119-155). -/
def AddComponentsLoop (NumExistingEntities NumEntitiesToAdd : Nat) :
    List FInstancedStruct → FMantleDBChunk → FMantleCachedEntry →
      Except Failure (FMantleDBChunk × FMantleCachedEntry)
  | [], c, OutResult => .ok (c, OutResult)
  | ComponentInstance :: rest, c, OutResult =>
    match c.ComponentTypeInfo.Find ComponentInstance.TypeName with
    | none => .error (.Fatal "AddEntities: ComponentInfo is invalid.")
    | some _ =>
      if NumEntitiesToAdd > 0 ∧ c.LocationIsValid = false then
        .error (.Fatal "Attempted to copy to memory address outside of chunk range.")
      else
        let c1 : FMantleDBChunk :=
          { c with Blob := WriteSlots c.Blob ComponentInstance.TypeName NumExistingEntities
                      NumEntitiesToAdd ComponentInstance.Memory }
        AddComponentsLoop NumExistingEntities NumEntitiesToAdd rest c1
          { OutResult with
            ChunkedComponents := AppendView OutResult.ChunkedComponents ComponentInstance.TypeName
              (c1.ColumnView ComponentInstance.TypeName NumExistingEntities NumEntitiesToAdd) }

/-- `FMantleDBChunk::AddEntities`; the first component is the returned count. -/
def AddEntities (c : FMantleDBChunk) (mr : FMantleDBMasterRecord)
    (ComponentsToAdd : List FInstancedStruct) (NumEntities : Nat)
    (OutResult : FMantleCachedEntry) :
    Except Failure (Nat × FMantleDBChunk × FMantleDBMasterRecord × FMantleCachedEntry) :=
  if NumEntities ≤ 0 then .ok (0, c, mr, OutResult)
  else if IsZero c.Archetype then
    let r := c.RegisterEntities mr NumEntities OutResult
    .ok (NumEntities, r.1, r.2.1, r.2.2)
  else
    let c0 := c.MaybeAllocateBlob
    let NumExistingEntities := c0.EntityIds.length
    let NumEntitiesToAdd := min NumEntities c0.GetRemainingCapacity
    let r := c0.RegisterEntities mr NumEntitiesToAdd OutResult
    match AddComponentsLoop NumExistingEntities NumEntitiesToAdd ComponentsToAdd r.1 r.2.2 with
    | .error f => .error f
    | .ok (c1, Out1) => .ok (NumEntitiesToAdd, c1, r.2.1, Out1)

end FMantleDBChunk

/-- `FMantleDBEntry::MakeAvailable`. -/
def FMantleDBEntry.MakeAvailable (e : FMantleDBEntry) (ChunkId : FGuid) : FMantleDBEntry :=
  if e.Chunks.Contains ChunkId = false then e
  else { e with AvailableChunkIds := ChunkId :: e.AvailableChunkIds }

namespace FMantleDBChunk

/-- The `Memcpy` loop of `RemoveEntity`: every column of the chunk gets slot `Last` copied
into slot `Swap`. -/
def CopySlot (c : FMantleDBChunk) (Last Swap : Nat) : FString → Nat → Payload :=
  fun t i => if c.ComponentTypeInfo.Contains t = true ∧ i = Swap then c.Blob t Last else c.Blob t i

/-- `FMantleDBChunk::RemoveEntity`. `Entry` is the entry the chunk's back-pointer refers to;
the caller stores the returned chunk back into that entry. -/
def RemoveEntity (c : FMantleDBChunk) (Entry : FMantleDBEntry) (mr : FMantleDBMasterRecord)
    (ToRemove : FMantleEntity) (_bEntityWasMoved : Bool) :
    Except Failure (FMantleDBChunk × FMantleDBEntry × FMantleDBMasterRecord) :=
  if ToRemove.Index ≥ c.EntityIds.length then .ok (c, Entry, mr)
  else
    let bWasFull := c.GetRemainingCapacity == 0
    let SwapIndex := ToRemove.Index
    let LastEntityIndex := c.EntityIds.length - 1
    let c1 : FMantleDBChunk :=
      { c with EntityIds :=
          (c.EntityIds.set SwapIndex (c.EntityIds.getD LastEntityIndex 0)).dropLast }
    if SwapIndex = LastEntityIndex then
      if LastEntityIndex > 0 then .ok (c1, Entry, mr)
      else
        .ok (c1.DeallocateBlob, if bWasFull then Entry.MakeAvailable c.ChunkId else Entry, mr)
    else
      match mr.EntitiesById.Find (c1.EntityIds.getD SwapIndex 0) with
      | none => .error (.Fatal "RemoveEntity: SwapEntity is null.")
      | some SwapEntity =>
        let c2 : FMantleDBChunk := { c1 with Blob := c1.CopySlot LastEntityIndex SwapIndex }
        let mr1 : FMantleDBMasterRecord :=
          { mr with
            EntitiesById :=
              mr.EntitiesById.Add (c1.EntityIds.getD SwapIndex 0)
                { SwapEntity with Index := SwapIndex } }
        .ok (c2,
          if bWasFull ∧ c2.GetRemainingCapacity > 0 then Entry.MakeAvailable c.ChunkId else Entry,
          mr1)

/-- `FindOrAdd(TypeName)` followed by the conditional `Add` of a view of size 0
(lines 319-323 and 352-356). -/
def RecordPlaceholder (m : TMap FString (List (List Payload))) (TypeName : FString)
    (ResultChunkIndex : Nat) : TMap FString (List (List Payload)) :=
  let m1 := if m.Contains TypeName then m else m ++ [(TypeName, [])]
  if ((m1.Find TypeName).getD []).length = ResultChunkIndex then
    m1.Add TypeName ((m1.Find TypeName).getD [] ++ [[]])
  else m1

/-- Accumulator of the body of the `TakeEntities` loop for one entity. -/
structure TakeAcc where
  Chunk : FMantleDBChunk
  OutResult : FMantleCachedEntry
  TypesUpdated : List FString

/-- Lines 281-324: the columns present in both chunks are copied from the old slot. -/
def CopyOldColumns (OldChunk : FMantleDBChunk) (Entity : FMantleEntity)
    (NewEntityIndex ResultChunkIndex : Nat) :
    List (FString × FMantleComponentInfo) → TakeAcc → Except Failure TakeAcc
  | [], acc => .ok acc
  | (TypeName, OldTypeInfo) :: rest, acc =>
    match acc.Chunk.ComponentTypeInfo.Find TypeName with
    | none => CopyOldColumns OldChunk Entity NewEntityIndex ResultChunkIndex rest acc
    | some LocalComponentInfo =>
      if OldTypeInfo.StructSize ≠ LocalComponentInfo.StructSize then
        .error (.Fatal "TakeEntities: Struct size mismatch.")
      else if acc.Chunk.LocationIsValid = false then
        .error (.Fatal "TakeEntities: New location is invalid.")
      else if OldChunk.LocationIsValid = false then
        .error (.Fatal "TakeEntities: OldChunk location is invalid.")
      else
        CopyOldColumns OldChunk Entity NewEntityIndex ResultChunkIndex rest
          { Chunk := { acc.Chunk with
              Blob := WriteSlots acc.Chunk.Blob TypeName NewEntityIndex 1
                        (OldChunk.Blob TypeName Entity.Index) },
            OutResult := { acc.OutResult with
              ChunkedComponents :=
                RecordPlaceholder acc.OutResult.ChunkedComponents TypeName ResultChunkIndex },
            TypesUpdated := TSetAdd acc.TypesUpdated TypeName }

/-- Lines 325-357: the payloads of `ComponentsToAdd` are written into the new slot. -/
def WriteNewColumns (NewEntityIndex ResultChunkIndex : Nat) :
    List FInstancedStruct → TakeAcc → Except Failure TakeAcc
  | [], acc => .ok acc
  | ComponentInstance :: rest, acc =>
    match acc.Chunk.ComponentTypeInfo.Find ComponentInstance.TypeName with
    | none => .error (.Fatal "AddEntities: ComponentInfo is invalid.")
    | some _ =>
      if acc.Chunk.LocationIsValid = false then
        .error (.Fatal "Attempted to copy to memory address outside of chunk range.")
      else
        WriteNewColumns NewEntityIndex ResultChunkIndex rest
          { Chunk := { acc.Chunk with
              Blob := WriteSlots acc.Chunk.Blob ComponentInstance.TypeName NewEntityIndex 1
                        ComponentInstance.Memory },
            OutResult := { acc.OutResult with
              ChunkedComponents :=
                RecordPlaceholder acc.OutResult.ChunkedComponents ComponentInstance.TypeName
                  ResultChunkIndex },
            TypesUpdated := TSetAdd acc.TypesUpdated ComponentInstance.TypeName }

/-- Lines 278-371: the data of one entity is brought into slot `EntityIds.Num()` of this
chunk, and every column of this chunk must have been written. -/
def TakeEntityData (c OldChunk : FMantleDBChunk) (Entity : FMantleEntity)
    (ComponentsToAdd : List FInstancedStruct) (OutResult : FMantleCachedEntry)
    (ResultChunkIndex : Nat) : Except Failure (FMantleDBChunk × FMantleCachedEntry) :=
  let NewEntityIndex := c.EntityIds.length
  match CopyOldColumns OldChunk Entity NewEntityIndex ResultChunkIndex OldChunk.ComponentTypeInfo
      { Chunk := c, OutResult := OutResult, TypesUpdated := [] } with
  | .error f => .error f
  | .ok acc1 =>
    match WriteNewColumns NewEntityIndex ResultChunkIndex ComponentsToAdd acc1 with
    | .error f => .error f
    | .ok acc2 =>
      if acc2.Chunk.ComponentTypeInfo.all (fun p => decide (p.1 ∈ acc2.TypesUpdated)) then
        .ok (acc2.Chunk, acc2.OutResult)
      else .error (.Fatal "Expected type to be updated.")

/-- The `for` loop of `TakeEntities` (lines 259-379), from the current id on. -/
def TakeEntitiesLoop (ComponentsToAdd : List FInstancedStruct) (ResultChunkIndex : Nat) :
    List FGuid → FMantleDBChunk → FMantleDBEntry → FMantleDBMasterRecord → FMantleCachedEntry →
      Nat → Except Failure
        (FMantleDBChunk × FMantleDBEntry × FMantleDBMasterRecord × FMantleCachedEntry × Nat)
  | [], c, TakeFrom, mr, OutResult, EntitiesSkipped =>
    .ok (c, TakeFrom, mr, OutResult, EntitiesSkipped)
  | Id :: rest, c, TakeFrom, mr, OutResult, EntitiesSkipped =>
    if c.GetRemainingCapacity > 0 then
      match mr.EntitiesById.Find Id with
      | none =>
        TakeEntitiesLoop ComponentsToAdd ResultChunkIndex rest c TakeFrom mr OutResult
          (EntitiesSkipped + 1)
      | some Entity =>
        match TakeFrom.Chunks.Find Entity.ChunkId with
        | none =>
          TakeEntitiesLoop ComponentsToAdd ResultChunkIndex rest c TakeFrom mr OutResult
            (EntitiesSkipped + 1)
        | some OldChunk =>
          match c.TakeEntityData OldChunk Entity ComponentsToAdd OutResult ResultChunkIndex with
          | .error f => .error f
          | .ok (c1, Out1) =>
            match OldChunk.RemoveEntity TakeFrom mr Entity true with
            | .error f => .error f
            | .ok (OldChunk1, TakeFrom1, mr1) =>
              let TakeFrom2 : FMantleDBEntry :=
                { TakeFrom1 with Chunks := TakeFrom1.Chunks.Add Entity.ChunkId OldChunk1 }
              let mr2 : FMantleDBMasterRecord :=
                { mr1 with
                  EntitiesById :=
                    mr1.EntitiesById.Add Id
                      { Id := Entity.Id, Archetype := c.Archetype, ChunkId := c.ChunkId,
                        Index := c.EntityIds.length } }
              TakeEntitiesLoop ComponentsToAdd ResultChunkIndex rest
                { c1 with EntityIds := c1.EntityIds ++ [Entity.Id] } TakeFrom2 mr2 Out1
                EntitiesSkipped
    else .ok (c, TakeFrom, mr, OutResult, EntitiesSkipped)

/-- Lines 391-401: every view recorded at `ResultChunkIndex` gets its size set. The views were
recorded for the first entity taken by this call, so they start at slot `OldEntityCount`. -/
def SetViewSizes (c : FMantleDBChunk) (OldEntityCount EntitiesAdded ResultChunkIndex : Nat)
    (m : TMap FString (List (List Payload))) : TMap FString (List (List Payload)) :=
  m.map (fun p =>
    if ResultChunkIndex ≥ p.2.length then p
    else (p.1, p.2.set ResultChunkIndex (c.ColumnView p.1 OldEntityCount EntitiesAdded)))

/-- The loop of `TakeBareArchetypeEntities` (lines 472-492). -/
def TakeBareLoop :
    List FGuid → FMantleDBChunk → FMantleDBEntry → FMantleDBMasterRecord → Nat →
      Except Failure (FMantleDBChunk × FMantleDBEntry × FMantleDBMasterRecord × Nat)
  | [], c, TakeFrom, mr, EntitiesSkipped => .ok (c, TakeFrom, mr, EntitiesSkipped)
  | EntityId :: rest, c, TakeFrom, mr, EntitiesSkipped =>
    match mr.EntitiesById.Find EntityId with
    | none => TakeBareLoop rest c TakeFrom mr (EntitiesSkipped + 1)
    | some Entity =>
      match TakeFrom.Chunks.Find Entity.ChunkId with
      | none => TakeBareLoop rest c TakeFrom mr (EntitiesSkipped + 1)
      | some TakeFromChunk =>
        match TakeFromChunk.RemoveEntity TakeFrom mr Entity true with
        | .error f => .error f
        | .ok (TakeFromChunk1, TakeFrom1, mr1) =>
          TakeBareLoop rest { c with EntityIds := c.EntityIds ++ [EntityId] }
            { TakeFrom1 with Chunks := TakeFrom1.Chunks.Add Entity.ChunkId TakeFromChunk1 }
            mr1 EntitiesSkipped

/-- `FMantleDBChunk::TakeBareArchetypeEntities`. -/
def TakeBareArchetypeEntities (c : FMantleDBChunk) (IdsToTake : List FGuid)
    (TakeFrom : FMantleDBEntry) (mr : FMantleDBMasterRecord) (OutResult : FMantleCachedEntry) :
    Except Failure
      (Nat × FMantleDBChunk × FMantleDBEntry × FMantleDBMasterRecord × FMantleCachedEntry) :=
  let StartIndex := c.EntityIds.length
  match TakeBareLoop IdsToTake c TakeFrom mr 0 with
  | .error f => .error f
  | .ok (c1, TakeFrom1, mr1, EntitiesSkipped) =>
    let EntitiesAdded := c1.EntityIds.length - StartIndex
    if EntitiesAdded ≤ 0 then
      .ok (0, c1, TakeFrom1, mr1,
        { OutResult with ChunkedEntityIds := OutResult.ChunkedEntityIds ++ [[]] })
    else
      .ok (EntitiesAdded + EntitiesSkipped, c1, TakeFrom1, mr1,
        { OutResult with
          ChunkedEntityIds :=
            OutResult.ChunkedEntityIds ++ [(c1.EntityIds.drop StartIndex).take EntitiesAdded] })

/-- `FMantleDBChunk::TakeEntities`; the first component is the returned count. -/
def TakeEntities (c : FMantleDBChunk) (IdsToTake : List FGuid) (TakeFrom : FMantleDBEntry)
    (mr : FMantleDBMasterRecord) (ComponentsToAdd : List FInstancedStruct)
    (OutResult : FMantleCachedEntry) :
    Except Failure
      (Nat × FMantleDBChunk × FMantleDBEntry × FMantleDBMasterRecord × FMantleCachedEntry) :=
  if IdsToTake.length = 0 then .ok (0, c, TakeFrom, mr, OutResult)
  else if IsZero c.Archetype then c.TakeBareArchetypeEntities IdsToTake TakeFrom mr OutResult
  else
    let c0 := c.MaybeAllocateBlob
    let OldEntityCount := c0.EntityIds.length
    let ResultChunkIndex := OutResult.ChunkedEntityIds.length
    match TakeEntitiesLoop ComponentsToAdd ResultChunkIndex IdsToTake c0 TakeFrom mr OutResult 0 with
    | .error f => .error f
    | .ok (c1, TakeFrom1, mr1, Out1, EntitiesSkipped) =>
      let EntitiesAdded := c1.EntityIds.length - OldEntityCount
      if EntitiesAdded ≤ 0 then .ok (0, c1, TakeFrom1, mr1, Out1)
      else
        .ok (EntitiesAdded + EntitiesSkipped, c1, TakeFrom1, mr1,
          { Out1 with
            ChunkedEntityIds :=
              Out1.ChunkedEntityIds ++ [(c1.EntityIds.drop OldEntityCount).take EntitiesAdded],
            ChunkedComponents :=
              SetViewSizes c1 OldEntityCount EntitiesAdded ResultChunkIndex
                Out1.ChunkedComponents })

end FMantleDBChunk

/-! ## `FMantleDBEntry` -/

namespace FMantleDBEntry

/-- The constructor `FMantleDBEntry::FMantleDBEntry`. -/
def Ctor (NewArchetype : TBitArray) (mr : FMantleDBMasterRecord) : FMantleDBEntry :=
  { Archetype := NewArchetype,
    ComponentTypes :=
      (mr.ComponentInfoMap.filter (fun p => GetBit NewArchetype p.2.ArchetypeIndex)).map
        (fun p => p.2.Name) }

/-- The `while` loop of `GetAvailableChunk`: ids of chunks that no longer exist are popped
until the top of the stack names an existing chunk. -/
def FindExistingChunk (Chunks : TMap FGuid FMantleDBChunk) :
    List FGuid → Option (FGuid × FMantleDBChunk) × List FGuid
  | [] => (none, [])
  | Top :: rest =>
    match Chunks.Find Top with
    | some ExistingChunk => (some (Top, ExistingChunk), Top :: rest)
    | none => FindExistingChunk Chunks rest

/-- `FMantleDBEntry::GetAvailableChunk`; the chunk returned by reference is named by its id. -/
def GetAvailableChunk (e : FMantleDBEntry) (mr : FMantleDBMasterRecord) :
    Except Failure (FGuid × FMantleDBChunk × FMantleDBEntry × FMantleDBMasterRecord) :=
  let r := FindExistingChunk e.Chunks e.AvailableChunkIds
  let e1 : FMantleDBEntry := { e with AvailableChunkIds := r.2 }
  match r.1 with
  | some (Top, ExistingChunk) => .ok (Top, ExistingChunk, e1, mr)
  | none =>
    let NewChunkId := mr.NewGuid.1
    match FMantleDBChunk.Ctor NewChunkId e1.Archetype mr.NewGuid.2 with
    | .error f => .error f
    | .ok NewChunk =>
      .ok (NewChunkId, NewChunk,
        { e1 with
          Chunks := e1.Chunks.Add NewChunkId NewChunk,
          AllChunkIds := e1.AllChunkIds ++ [NewChunkId],
          AvailableChunkIds := NewChunkId :: e1.AvailableChunkIds },
        mr.NewGuid.2)

/-- Lines 536-540 and 568-572: a chunk without remaining capacity leaves the stack,
unless the archetype is the bare one. -/
def PopIfFull (e : FMantleDBEntry) (CurrentChunk : FMantleDBChunk) : FMantleDBEntry :=
  if CurrentChunk.GetRemainingCapacity ≤ 0 ∧ IsZero e.Archetype = false then
    { e with AvailableChunkIds := e.AvailableChunkIds.tail }
  else e

/-- `FMantleDBEntry::AddEntities`; the first argument bounds the iterations of the loop. -/
def AddEntities : Nat → FMantleDBEntry → FMantleDBMasterRecord → List FInstancedStruct → Nat →
    FMantleCachedEntry → Except Failure (FMantleDBEntry × FMantleDBMasterRecord × FMantleCachedEntry)
  | _, e, mr, _, 0, OutResult => .ok (e, mr, OutResult)
  | 0, _, _, _, _ + 1, _ => .error .OutOfFuel
  | fuel + 1, e, mr, ComponentsToAdd, PendingAllocations + 1, OutResult =>
    match e.GetAvailableChunk mr with
    | .error f => .error f
    | .ok (CurrentId, CurrentChunk, e1, mr1) =>
      match CurrentChunk.AddEntities mr1 ComponentsToAdd (PendingAllocations + 1) OutResult with
      | .error f => .error f
      | .ok (Added, CurrentChunk1, mr2, Out1) =>
        AddEntities fuel
          (PopIfFull { e1 with Chunks := e1.Chunks.Add CurrentId CurrentChunk1 } CurrentChunk1)
          mr2 ComponentsToAdd (PendingAllocations + 1 - Added) Out1

/-- `FMantleDBEntry::TakeEntities` on the entry `e`, taking from `TakeFrom`;
`EntitiesToTake` is the loop variable and the first argument bounds the iterations. -/
def TakeEntitiesLoop (EntityIds : List FGuid) (ComponentsToAdd : List FInstancedStruct) :
    Nat → Nat → FMantleDBEntry → FMantleDBEntry → FMantleDBMasterRecord → FMantleCachedEntry →
      Except Failure (FMantleDBEntry × FMantleDBEntry × FMantleDBMasterRecord × FMantleCachedEntry)
  | _, 0, e, TakeFrom, mr, OutResult => .ok (e, TakeFrom, mr, OutResult)
  | 0, _ + 1, _, _, _, _ => .error .OutOfFuel
  | fuel + 1, EntitiesToTake + 1, e, TakeFrom, mr, OutResult =>
    match e.GetAvailableChunk mr with
    | .error f => .error f
    | .ok (CurrentId, CurrentChunk, e1, mr1) =>
      if EntityIds.length < EntitiesToTake + 1 then
        .error (.Fatal "TakeEntities: IdIndex is invalid.")
      else
        let RemainingIds := EntityIds.drop (EntityIds.length - (EntitiesToTake + 1))
        match CurrentChunk.TakeEntities RemainingIds TakeFrom mr1 ComponentsToAdd OutResult with
        | .error f => .error f
        | .ok (Taken, CurrentChunk1, TakeFrom1, mr2, Out1) =>
          TakeEntitiesLoop EntityIds ComponentsToAdd fuel (EntitiesToTake + 1 - Taken)
            (PopIfFull { e1 with Chunks := e1.Chunks.Add CurrentId CurrentChunk1 } CurrentChunk1)
            TakeFrom1 mr2 Out1

def TakeEntities (fuel : Nat) (e : FMantleDBEntry) (EntityIds : List FGuid)
    (TakeFrom : FMantleDBEntry) (mr : FMantleDBMasterRecord)
    (ComponentsToAdd : List FInstancedStruct) (OutResult : FMantleCachedEntry) :
    Except Failure (FMantleDBEntry × FMantleDBEntry × FMantleDBMasterRecord × FMantleCachedEntry) :=
  TakeEntitiesLoop EntityIds ComponentsToAdd fuel EntityIds.length e TakeFrom mr OutResult

end FMantleDBEntry

/-! ## Iterators and queries (`MantleQueries.h`, `MantleQueries.cpp`) -/

structure FMantleComponentQuery where
  RequiredComponents : List FString := []
  /-- Empty (of length 0) until the query has been compiled. -/
  CachedArchetype : TBitArray := []
  deriving DecidableEq, Repr

/-- `AddRequiredComponent<T>()`, with `T` given by its name. -/
def FMantleComponentQuery.AddRequiredComponent (q : FMantleComponentQuery)
    (ComponentName : FString) : FMantleComponentQuery :=
  if ComponentName ∈ q.RequiredComponents then q
  else { RequiredComponents := q.RequiredComponents ++ [ComponentName], CachedArchetype := [] }

structure FMantleIterator where
  EntryIndex : Int := -1
  ChunkIndex : Int := 0
  LocalCache : FMantleCachedQuery := {}
  /-- `MasterRecord != nullptr`; the record itself is passed to the functions that read it. -/
  bHasMasterRecord : Bool := false
  deriving DecidableEq, Repr

namespace FMantleIterator

def IsValid (it : FMantleIterator) (mr : FMantleDBMasterRecord) : Bool :=
  if it.bHasMasterRecord = false then false
  else
    match mr.CachedQueries.Find it.LocalCache.QueryArchetype with
    | none => false
    | some DBCachedQuery =>
      DBCachedQuery.Version.IsValid &&
        decide (DBCachedQuery.Version.VersionNumber = it.LocalCache.Version.VersionNumber)

/-- `MatchingEntries[EntryIndex]` for an index known to be in range. -/
def EntryAt (it : FMantleIterator) (i : Int) : FMantleCachedEntry :=
  it.LocalCache.MatchingEntries.getD i.toNat {}

def GetEntities (it : FMantleIterator) (mr : FMantleDBMasterRecord) : List FGuid :=
  if it.IsValid mr = false then []
  else if it.EntryIndex < 0 ∨ it.EntryIndex ≥ it.LocalCache.MatchingEntries.length then []
  else if (it.EntryAt it.EntryIndex).ChunkedEntityIds.length = 0 then []
  else if it.ChunkIndex < 0 ∨ it.ChunkIndex ≥ (it.EntryAt it.EntryIndex).ChunkedEntityIds.length
    then []
  else (it.EntryAt it.EntryIndex).ChunkedEntityIds.getD it.ChunkIndex.toNat []

/-- `Next`: the returned flag and the iterator after the call. -/
def Next (it : FMantleIterator) (mr : FMantleDBMasterRecord) : Bool × FMantleIterator :=
  if it.IsValid mr = false then (false, it)
  else
    let NumEntries : Int := it.LocalCache.MatchingEntries.length
    if it.EntryIndex ≥ NumEntries then (false, it)
    else
      let it1 : FMantleIterator :=
        if it.EntryIndex ≥ 0 then
          if it.ChunkIndex < ((it.EntryAt it.EntryIndex).NumChunks : Int) - 1 then
            { it with ChunkIndex := it.ChunkIndex + 1 }
          else { it with EntryIndex := it.EntryIndex + 1, ChunkIndex := 0 }
        else { it with EntryIndex := 0 }
      (decide (it1.EntryIndex < NumEntries), it1)

def Reset (it : FMantleIterator) : FMantleIterator := { it with EntryIndex := -1, ChunkIndex := 0 }

def GetArrayViewInternal (it : FMantleIterator) (mr : FMantleDBMasterRecord)
    (ComponentName : FString) (TargetEntryIndex TargetChunkIndex : Int) : List Payload :=
  if it.IsValid mr = false then []
  else if TargetEntryIndex < 0 ∨ TargetEntryIndex ≥ it.LocalCache.MatchingEntries.length ∨
      TargetChunkIndex < 0 then []
  else if (it.EntryAt TargetEntryIndex).ChunkedEntityIds.length = 0 then []
  else
    match (it.EntryAt TargetEntryIndex).ChunkedComponents.Find ComponentName with
    | none => []
    | some Chunks =>
      if Chunks.length = 0 then []
      else if TargetChunkIndex ≥ Chunks.length then []
      else Chunks.getD TargetChunkIndex.toNat []

/-- `GetArrayView<T>()`, with `T` given by its name. -/
def GetArrayView (it : FMantleIterator) (mr : FMantleDBMasterRecord) (ComponentName : FString) :
    List Payload :=
  it.GetArrayViewInternal mr ComponentName it.EntryIndex it.ChunkIndex

/-- The caller's loop `while (It.Next()) { ... GetEntities() ... GetArrayView<T>() ... }`:
what it sees at each position, for the component types `Names`, within `fuel` calls. -/
def Collect (mr : FMantleDBMasterRecord) (Names : List FString) :
    Nat → FMantleIterator → List (List FGuid × List (List Payload))
  | 0, _ => []
  | fuel + 1, it =>
    if (it.Next mr).1 then
      ((it.Next mr).2.GetEntities mr, Names.map (fun T => (it.Next mr).2.GetArrayView mr T)) ::
        Collect mr Names fuel (it.Next mr).2
    else []

end FMantleIterator

/-! ## `UMantleDB` -/

namespace UMantleDB

/-- The loop of `FillArchetype` over `ToAdd` (`Value = true`) or `ToRemove` (`Value = false`):
names missing from the registry are skipped. -/
def FillArchetypeLoop (mr : FMantleDBMasterRecord) (Value : Bool) :
    List FString → TBitArray → TBitArray
  | [], Archetype => Archetype
  | ComponentType :: rest, Archetype =>
    match mr.ComponentInfoMap.Find ComponentType with
    | none => FillArchetypeLoop mr Value rest Archetype
    | some ComponentInfo =>
      FillArchetypeLoop mr Value rest (SetBit Archetype ComponentInfo.ArchetypeIndex Value)

def FillArchetype (db : UMantleDB) (Archetype : TBitArray) (ToAdd : List FString)
    (ToRemove : List FString := []) : TBitArray :=
  FillArchetypeLoop db.MasterRecord false ToRemove
    (FillArchetypeLoop db.MasterRecord true ToAdd Archetype)

def GetEntry (db : UMantleDB) (Archetype : TBitArray) : Option FMantleDBEntry :=
  db.EntriesByArchetype.Find Archetype

def GetChunk (db : UMantleDB) (Archetype : TBitArray) (ChunkId : FGuid) : Option FMantleDBChunk :=
  match db.EntriesByArchetype.Find Archetype with
  | none => none
  | some Entry => Entry.Chunks.Find ChunkId

/-- The query archetypes the loop of `GetOrCreateEntry` (lines 973-984) selects. -/
def MatchedQueries (mr : FMantleDBMasterRecord) (Archetype : TBitArray) : List TBitArray :=
  (mr.CachedQueries.filter (fun p => decide (BitwiseAND Archetype p.1 = p.1))).map (fun p => p.1)

/-- `GetOrCreateEntry`: the database after the call and the entry returned. -/
def GetOrCreateEntry (db : UMantleDB) (Archetype : TBitArray) : UMantleDB × FMantleDBEntry :=
  match db.EntriesByArchetype.Find Archetype with
  | some ExistingEntry => (db, ExistingEntry)
  | none =>
    let NewEntry := FMantleDBEntry.Ctor Archetype db.MasterRecord
    let mr1 := db.MasterRecord.FindOrAddCachedEntry Archetype
    let CachedEntry := mr1.CachedEntryOf Archetype
    let CachedEntry1 : FMantleCachedEntry :=
      { CachedEntry with
        MatchingQueries := (MatchedQueries mr1 Archetype).foldl TSetAdd CachedEntry.MatchingQueries }
    ({ db with
        EntriesByArchetype := db.EntriesByArchetype.Add Archetype NewEntry,
        ActiveArchetypes := db.ActiveArchetypes ++ [Archetype],
        MasterRecord :=
          { mr1 with
            CachedEntries := mr1.CachedEntries.Add Archetype CachedEntry1,
            CachedQueries :=
              mr1.CachedQueries.map (fun p =>
                if BitwiseAND Archetype p.1 = p.1 then
                  (p.1, { p.2 with Version := p.2.Version.Invalidate })
                else p) } },
      NewEntry)

/-- The loop of `Initialize` over `ComponentTypes` (lines 646-662); `none` is a null pointer. -/
def RegisterComponentTypes :
    List (Option UScriptStruct) → Nat → TMap FString FMantleComponentInfo →
      TMap FString FMantleComponentInfo
  | [], _, m => m
  | none :: rest, NextArchetypeIndex, m => RegisterComponentTypes rest NextArchetypeIndex m
  | some ComponentType :: rest, NextArchetypeIndex, m =>
    RegisterComponentTypes rest (NextArchetypeIndex + 1)
      (m.Add ComponentType.Name
        { Name := ComponentType.Name, ArchetypeIndex := NextArchetypeIndex,
          StructSize := ComponentType.StructureSize,
          StructAlignment := ComponentType.MinAlignment })

def Initialize (db : UMantleDB) (ComponentTypes : List (Option UScriptStruct))
    (ChunkSizeBytes : Int := kDefaultChunkSize) : Except Failure UMantleDB :=
  if db.bIsInitialized then .ok db
  else if ChunkSizeBytes < kMinChunkSize then
    .error (.Fatal "DB chunk size must be at least kMinChunkSize bytes")
  else
    let db1 : UMantleDB :=
      { db with
        MasterRecord :=
          { db.MasterRecord with
            ChunkComponentBlobSize := ChunkSizeBytes,
            ComponentInfoMap :=
              RegisterComponentTypes ComponentTypes 0 db.MasterRecord.ComponentInfoMap } }
    if db1.MasterRecord.ComponentInfoMap.length ≤ 0 then .ok db1
    else
      .ok { (db1.GetOrCreateEntry (ZeroBits db1.MasterRecord.ComponentInfoMap.length)).1 with
            bIsInitialized := true }

/-- The body of the loop of `RefreshCachedEntry` over `Entry->ComponentTypes` for one chunk
(lines 1058-1071); `none` is the `return false`. -/
def RefreshChunkColumns (Chunk : FMantleDBChunk) :
    List FString → TMap FString (List (List Payload)) → Option (TMap FString (List (List Payload)))
  | [], m => some m
  | ComponentType :: rest, m =>
    match Chunk.ComponentTypeInfo.Find ComponentType with
    | none => none
    | some _ =>
      RefreshChunkColumns Chunk rest
        (FMantleDBChunk.AppendView m ComponentType
          (Chunk.ColumnView ComponentType 0 Chunk.EntityIds.length))

/-- The loop of `RefreshCachedEntry` over `Entry->AllChunkIds` (lines 1041-1072); the flag is
`false` when the loop was left by `return false`. -/
def RefreshChunks (Entry : FMantleDBEntry) :
    List FGuid → FMantleCachedEntry → FMantleCachedEntry × Bool
  | [], CachedEntry => (CachedEntry, true)
  | ChunkId :: rest, CachedEntry =>
    match Entry.Chunks.Find ChunkId with
    | none => RefreshChunks Entry rest CachedEntry
    | some Chunk =>
      if Chunk.IsEmpty then RefreshChunks Entry rest CachedEntry
      else
        let CachedEntry1 : FMantleCachedEntry :=
          { CachedEntry with ChunkedEntityIds := CachedEntry.ChunkedEntityIds ++ [Chunk.EntityIds] }
        match RefreshChunkColumns Chunk Entry.ComponentTypes CachedEntry1.ChunkedComponents with
        | none => (CachedEntry1, false)
        | some m => RefreshChunks Entry rest { CachedEntry1 with ChunkedComponents := m }

/-- `RefreshCachedEntry`: the cached entry after the call and the returned flag. -/
def RefreshCachedEntry (db : UMantleDB) (CachedEntry : FMantleCachedEntry) :
    FMantleCachedEntry × Bool :=
  let CachedEntry0 : FMantleCachedEntry :=
    { CachedEntry with ChunkedComponents := [], ChunkedEntityIds := [] }
  match db.EntriesByArchetype.Find CachedEntry0.Archetype with
  | none => (CachedEntry0, false)
  | some Entry =>
    let r := RefreshChunks Entry Entry.AllChunkIds CachedEntry0
    if r.2 then ({ r.1 with bIsValid := true }, true) else r

/-- The loop of `RunQueryInternal` over `ActiveArchetypes` (lines 1003-1018). `CachedQuery` is
the query being rebuilt; it is stored in the master record by the caller. The flag is `false`
when the loop was left by `return FMantleIterator()`. -/
def RunQueryLoop (QueryArchetype : TBitArray) :
    List TBitArray → UMantleDB → FMantleCachedQuery → UMantleDB × FMantleCachedQuery × Bool
  | [], db, CachedQuery => (db, CachedQuery, true)
  | Archetype :: rest, db, CachedQuery =>
    if BitwiseAND Archetype QueryArchetype ≠ QueryArchetype then
      RunQueryLoop QueryArchetype rest db CachedQuery
    else
      let mr1 := db.MasterRecord.FindOrAddCachedEntry Archetype
      let CachedEntry := mr1.CachedEntryOf Archetype
      let r := if CachedEntry.bIsValid then (CachedEntry, true) else db.RefreshCachedEntry CachedEntry
      if r.2 = false then
        ({ db with MasterRecord := { mr1 with CachedEntries := mr1.CachedEntries.Add Archetype r.1 } },
          CachedQuery, false)
      else
        RunQueryLoop QueryArchetype rest
          { db with
            MasterRecord :=
              { mr1 with
                CachedEntries :=
                  mr1.CachedEntries.Add Archetype
                    { r.1 with
                      MatchingQueries := TSetAdd r.1.MatchingQueries CachedQuery.QueryArchetype } } }
          { CachedQuery with MatchingEntries := CachedQuery.MatchingEntries ++ [r.1] }

def RunQueryInternal (db : UMantleDB) (QueryArchetype : TBitArray) : UMantleDB × FMantleIterator :=
  let Found := db.MasterRecord.CachedQueries.Find QueryArchetype
  if (Found.map (fun q => q.Version.IsValid)).getD false then
    (db, { LocalCache := Found.getD {}, bHasMasterRecord := true })
  else
    let CachedQuery : FMantleCachedQuery :=
      (Found.getD { QueryArchetype := QueryArchetype }).ClearData
    let db1 : UMantleDB :=
      { db with
        MasterRecord :=
          { db.MasterRecord with
            CachedQueries := db.MasterRecord.CachedQueries.Add QueryArchetype CachedQuery } }
    let r := RunQueryLoop QueryArchetype db1.ActiveArchetypes db1 CachedQuery
    if r.2.2 = false then
      ({ r.1 with
          MasterRecord :=
            { r.1.MasterRecord with
              CachedQueries := r.1.MasterRecord.CachedQueries.Add QueryArchetype r.2.1 } },
        {})
    else
      let CachedQuery1 : FMantleCachedQuery := { r.2.1 with Version := r.2.1.Version.Update }
      ({ r.1 with
          MasterRecord :=
            { r.1.MasterRecord with
              CachedQueries := r.1.MasterRecord.CachedQueries.Add QueryArchetype CachedQuery1 } },
        { LocalCache := CachedQuery1, bHasMasterRecord := true })

/-- `RunQuery`: the query object after the call (its mask compiled), the database and the
iterator. -/
def RunQuery (db : UMantleDB) (Query : FMantleComponentQuery) :
    FMantleComponentQuery × UMantleDB × FMantleIterator :=
  let Query1 : FMantleComponentQuery :=
    if Query.CachedArchetype.length = 0 then
      { Query with
        CachedArchetype :=
          db.FillArchetype (ZeroBits db.MasterRecord.ComponentInfoMap.length)
            Query.RequiredComponents }
    else Query
  (Query1, db.RunQueryInternal Query1.CachedArchetype)

def EntryWasModified (db : UMantleDB) (EntryArchetype : TBitArray) : UMantleDB :=
  match db.MasterRecord.CachedEntries.Find EntryArchetype with
  | none => db
  | some CachedEntry =>
    { db with
      MasterRecord :=
        { db.MasterRecord with
          CachedEntries :=
            db.MasterRecord.CachedEntries.Add EntryArchetype { CachedEntry with bIsValid := false },
          CachedQueries :=
            db.MasterRecord.CachedQueries.map (fun p =>
              if p.1 ∈ CachedEntry.MatchingQueries then
                (p.1, { p.2 with Version := p.2.Version.Invalidate })
              else p) } }

/-- `RefreshCachedQuery`: the database after the call and the returned flag. -/
def RefreshCachedQuery (db : UMantleDB) (Archetype : TBitArray) : UMantleDB × Bool :=
  let db1 :=
    if ((db.MasterRecord.CachedQueries.Find Archetype).map (fun q => q.Version.IsValid)).getD false
    then db
    else (db.RunQueryInternal Archetype).1
  (db1, db1.MasterRecord.CachedQueries.Contains Archetype)

/-- `AddEntities`; `fuel` bounds the loop of `FMantleDBEntry::AddEntities`. -/
def AddEntities (fuel : Nat) (db : UMantleDB) (InitialComposition : List FInstancedStruct)
    (NumEntities : Nat) : Except Failure (UMantleDB × FMantleIterator) :=
  let ComponentTypes := InitialComposition.map (fun ComponentInstance => ComponentInstance.TypeName)
  let Archetype :=
    db.FillArchetype (ZeroBits db.MasterRecord.ComponentInfoMap.length) ComponentTypes
  let g := db.GetOrCreateEntry Archetype
  match g.2.AddEntities fuel g.1.MasterRecord InitialComposition NumEntities
      { Archetype := Archetype } with
  | .error f => .error f
  | .ok (DBEntry1, mr1, OutResult) =>
    let db2 : UMantleDB :=
      { g.1 with
        EntriesByArchetype := g.1.EntriesByArchetype.Add Archetype DBEntry1,
        MasterRecord := mr1 }
    let r := (db2.EntryWasModified Archetype).RefreshCachedQuery Archetype
    if r.2 = false then .ok (r.1, {})
    else
      .ok (r.1,
        { LocalCache :=
            { QueryArchetype := Archetype, MatchingEntries := [OutResult],
              Version := ((r.1.MasterRecord.CachedQueries.Find Archetype).getD {}).Version },
          bHasMasterRecord := true })

def AddEntityAndIterate (fuel : Nat) (db : UMantleDB) (InitialComposition : List FInstancedStruct) :
    Except Failure (UMantleDB × FMantleIterator) :=
  db.AddEntities fuel InitialComposition 1

/-- `AddEntity`; the invalid guid `0` is returned when the addition failed. -/
def AddEntity (fuel : Nat) (db : UMantleDB) (InitialComposition : List FInstancedStruct) :
    Except Failure (UMantleDB × FGuid) :=
  match db.AddEntityAndIterate fuel InitialComposition with
  | .error f => .error f
  | .ok (db1, Result) =>
    let r := Result.Next db1.MasterRecord
    if r.1 = false ∨ (r.2.GetEntities db1.MasterRecord).length ≠ 1 then .ok (db1, 0)
    else .ok (db1, (r.2.GetEntities db1.MasterRecord).getD 0 0)

/-- The loop of `RemoveEntities` over `EntityIds` (lines 729-755), with the set of modified
archetypes it collects. -/
def RemoveEntitiesLoop :
    List FGuid → UMantleDB → List TBitArray → Except Failure (UMantleDB × List TBitArray)
  | [], db, ModifiedArchetypes => .ok (db, ModifiedArchetypes)
  | EntityId :: rest, db, ModifiedArchetypes =>
    if EntityId = 0 then RemoveEntitiesLoop rest db ModifiedArchetypes
    else
      match db.MasterRecord.EntitiesById.Find EntityId with
      | none => RemoveEntitiesLoop rest db ModifiedArchetypes
      | some Entity =>
        match db.EntriesByArchetype.Find Entity.Archetype with
        | none => RemoveEntitiesLoop rest db ModifiedArchetypes
        | some Entry =>
          match Entry.Chunks.Find Entity.ChunkId with
          | none => RemoveEntitiesLoop rest db ModifiedArchetypes
          | some Chunk =>
            match Chunk.RemoveEntity Entry db.MasterRecord Entity false with
            | .error f => .error f
            | .ok (Chunk1, Entry1, mr1) =>
              RemoveEntitiesLoop rest
                { db with
                  EntriesByArchetype :=
                    db.EntriesByArchetype.Add Entity.Archetype
                      { Entry1 with Chunks := Entry1.Chunks.Add Entity.ChunkId Chunk1 },
                  MasterRecord := mr1.RemoveEntity Entity.Id }
                (TSetAdd ModifiedArchetypes Chunk1.Archetype)

def RemoveEntities (db : UMantleDB) (EntityIds : List FGuid) : Except Failure UMantleDB :=
  match RemoveEntitiesLoop EntityIds db [] with
  | .error f => .error f
  | .ok (db1, ModifiedArchetypes) => .ok (ModifiedArchetypes.foldl EntryWasModified db1)

def RemoveEntity (db : UMantleDB) (EntityId : FGuid) : Except Failure UMantleDB :=
  db.RemoveEntities [EntityId]

/-- The loop of `UpdateEntities` over `EntityIds` (lines 796-823): `none` is the rejection of a
batch of mixed archetypes, otherwise `OldArchetype` and `ValidEntities`. -/
def CollectValidEntities (mr : FMantleDBMasterRecord) :
    List FGuid → TBitArray → List FGuid → Option (TBitArray × List FGuid)
  | [], OldArchetype, ValidEntities => some (OldArchetype, ValidEntities)
  | EntityId :: rest, OldArchetype, ValidEntities =>
    match mr.EntitiesById.Find EntityId with
    | none => CollectValidEntities mr rest OldArchetype ValidEntities
    | some CurrentEntity =>
      if CurrentEntity.Archetype.length = 0 then
        CollectValidEntities mr rest OldArchetype ValidEntities
      else if OldArchetype.length = 0 then
        CollectValidEntities mr rest CurrentEntity.Archetype (ValidEntities ++ [EntityId])
      else if CurrentEntity.Archetype ≠ OldArchetype then none
      else CollectValidEntities mr rest OldArchetype (ValidEntities ++ [EntityId])

/-- `UpdateEntities`; `none` entries of `ComponentsToRemove` are null pointers, and `fuel`
bounds the loop of `FMantleDBEntry::TakeEntities`. -/
def UpdateEntities (fuel : Nat) (db : UMantleDB) (EntityIds : List FGuid)
    (ComponentsToAdd : List FInstancedStruct) (ComponentsToRemove : List (Option FString)) :
    Except Failure (UMantleDB × FMantleIterator) :=
  if EntityIds.length = 0 then .ok (db, {})
  else
    match CollectValidEntities db.MasterRecord EntityIds [] [] with
    | none => .ok (db, {})
    | some (OldArchetype, ValidEntities) =>
      if ValidEntities.length = 0 then .ok (db, {})
      else
        let ToAddNames := ComponentsToAdd.map (fun ComponentInstance => ComponentInstance.TypeName)
        let ToRemoveNames := ComponentsToRemove.filterMap id
        let NewArchetype := db.FillArchetype OldArchetype ToAddNames ToRemoveNames
        if NewArchetype = OldArchetype then .ok (db, {})
        else
          match db.GetEntry OldArchetype with
          | none => .ok (db, {})
          | some OldEntry =>
            let g := db.GetOrCreateEntry NewArchetype
            match g.2.TakeEntities fuel ValidEntities OldEntry g.1.MasterRecord
                ComponentsToAdd { Archetype := NewArchetype } with
            | .error f => .error f
            | .ok (NewEntry1, OldEntry1, mr1, OutResult) =>
              let db2 : UMantleDB :=
                { g.1 with
                  EntriesByArchetype :=
                    (g.1.EntriesByArchetype.Add OldArchetype OldEntry1).Add NewArchetype NewEntry1,
                  MasterRecord := mr1 }
              let r :=
                ((db2.EntryWasModified OldArchetype).EntryWasModified
                  NewArchetype).RefreshCachedQuery NewArchetype
              if r.2 = false then .ok (r.1, {})
              else
                .ok (r.1,
                  { LocalCache :=
                      { QueryArchetype := NewArchetype, MatchingEntries := [OutResult],
                        Version :=
                          ((r.1.MasterRecord.CachedQueries.Find NewArchetype).getD {}).Version },
                    bHasMasterRecord := true })

/-- `GetComponent<T>(EntityId)`, with `T` given by its name. -/
def GetComponent (db : UMantleDB) (ComponentName : FString) (EntityId : FGuid) : Option Payload :=
  match db.MasterRecord.EntitiesById.Find EntityId with
  | none => none
  | some Entity =>
    if db.MasterRecord.ArchetypeHasComponent Entity.Archetype ComponentName = false then none
    else
      match db.GetChunk Entity.Archetype Entity.ChunkId with
      | none => none
      | some Chunk => Chunk.GetComponent ComponentName Entity

def HasEntity (db : UMantleDB) (EntityId : FGuid) : Bool :=
  decide (EntityId ≠ 0) && db.MasterRecord.EntitiesById.Contains EntityId

/-- `HasComponent<T>(EntityId)`, with `T` given by its name. -/
def HasComponent (db : UMantleDB) (ComponentName : FString) (EntityId : FGuid) : Bool :=
  match db.MasterRecord.EntitiesById.Find EntityId with
  | none => false
  | some Entity => db.MasterRecord.ArchetypeHasComponent Entity.Archetype ComponentName

end UMantleDB

/-! ## Quantities and predicates the statements below are phrased with -/

/-- The registry entries of the component types present in `Archetype`. -/
def TypesPresentIn (Archetype : TBitArray) (mr : FMantleDBMasterRecord) :
    List FMantleComponentInfo :=
  (mr.ComponentInfoMap.map (fun p => p.2)).filter (fun Info => GetBit Archetype Info.ArchetypeIndex)

/-- `B`: the sum of the byte sizes of the types present in `Archetype`. -/
def ArchetypeByteSize (Archetype : TBitArray) (mr : FMantleDBMasterRecord) : Int :=
  ((TypesPresentIn Archetype mr).map (fun Info => Info.StructSize)).sum

/-- `P`: the sum of the alignments of the types present in `Archetype`. -/
def ArchetypeAlignmentSum (Archetype : TBitArray) (mr : FMantleDBMasterRecord) : Int :=
  ((TypesPresentIn Archetype mr).map (fun Info => Info.StructAlignment)).sum

/-- The capacity law as the specification words it: `floor((chunk_byte_budget - P) / B)`. -/
def SpecCapacity (Archetype : TBitArray) (mr : FMantleDBMasterRecord) : Int :=
  ⌊((mr.ChunkComponentBlobSize - ArchetypeAlignmentSum Archetype mr : ℚ)) /
    (ArchetypeByteSize Archetype mr : ℚ)⌋

/-- The registry of `Test_AddEntity`: a 96-byte type aligned to 16 and a 24-byte type aligned
to 8, with the default chunk byte budget. -/
def TestRecord : FMantleDBMasterRecord :=
  { ChunkComponentBlobSize := 128 * 1024,
    ComponentInfoMap :=
      [("FakeTransformComponent",
          { Name := "FakeTransformComponent", ArchetypeIndex := 0, StructSize := 96,
            StructAlignment := 16 }),
        ("FakeItemComponent",
          { Name := "FakeItemComponent", ArchetypeIndex := 1, StructSize := 24,
            StructAlignment := 8 }),
        ("FakeTargetingComponent",
          { Name := "FakeTargetingComponent", ArchetypeIndex := 2, StructSize := 24,
            StructAlignment := 8 })] }

/-! ## Concrete runs -/

/-- A database with the single component type `Position` (12 bytes, alignment 4) and a chunk
byte budget of 1024, in which one entity with a `Position` is created (it gets the id 2, its
chunk the id 1) and then has its `Position` removed by `UpdateEntities`. -/
def StripRun : Except Failure (UMantleDB × FMantleIterator) :=
  match ({} : UMantleDB).Initialize [some ⟨"Position", 12, 4⟩] 1024 with
  | .error f => .error f
  | .ok db0 =>
    match db0.AddEntities 2 [⟨"Position", 7⟩] 1 with
    | .error f => .error f
    | .ok (db1, _) => db1.UpdateEntities 2 [2] [] [some "Position"]

/-- The database `StripRun` ends with. -/
def StripDB : UMantleDB :=
  match StripRun with
  | .ok (db, _) => db
  | .error _ => {}

/-- The iterator `StripRun` returns. -/
def StripIterator : FMantleIterator :=
  match StripRun with
  | .ok (_, It) => It
  | .error _ => {}

/-- The query requiring `Position`, run on `StripDB`: the database and the iterator. -/
def StripQuery : UMantleDB × FMantleIterator :=
  (StripDB.RunQuery { RequiredComponents := ["Position"] }).2

/-- The query requiring nothing, run on `StripDB`: the database and the iterator. -/
def StripQueryAll : UMantleDB × FMantleIterator :=
  (StripDB.RunQuery { RequiredComponents := [] }).2

/-- A database with the single component type `Big` (400 bytes, alignment 8) and a chunk byte
budget of 1024, so that a chunk holds two entities; two entities are created (ids 2 and 3, in
the chunk with id 1), which fills the chunk. -/
def FullChunkRun : Except Failure UMantleDB :=
  match ({} : UMantleDB).Initialize [some ⟨"Big", 400, 8⟩] 1024 with
  | .error f => .error f
  | .ok db0 =>
    match db0.AddEntities 2 [⟨"Big", 7⟩] 2 with
    | .error f => .error f
    | .ok (db1, _) => .ok db1

/-- The stack of available chunk ids of the entry of `Archetype`. -/
def AvailableChunkIdsOf (db : UMantleDB) (Archetype : TBitArray) : List FGuid :=
  ((db.GetEntry Archetype).map (fun Entry => Entry.AvailableChunkIds)).getD []

/-- A chunk of capacity 3 holding the entities 2, 3 and 4, whose column `Big` holds the value
`100 + i` in slot `i`. -/
def SwapChunk : FMantleDBChunk :=
  { ChunkId := 1, Archetype := [true], TotalCapacity := 3, EntityIds := [2, 3, 4],
    ComponentTypeInfo :=
      [("Big", { Name := "Big", ArchetypeIndex := 0, StructSize := 300, StructAlignment := 8 })],
    bBlobAllocated := true,
    Blob := fun _ i => 100 + i }

/-- The entry that owns `SwapChunk`. -/
def SwapEntry : FMantleDBEntry :=
  { Archetype := [true], ComponentTypes := ["Big"], Chunks := [(1, SwapChunk)],
    AvailableChunkIds := [], AllChunkIds := [1] }

/-- The master record that goes with `SwapChunk`. -/
def SwapRecord : FMantleDBMasterRecord :=
  { ChunkComponentBlobSize := 1024,
    ComponentInfoMap :=
      [("Big", { Name := "Big", ArchetypeIndex := 0, StructSize := 300, StructAlignment := 8 })],
    EntitiesById :=
      [(2, { Id := 2, Archetype := [true], ChunkId := 1, Index := 0 }),
        (3, { Id := 3, Archetype := [true], ChunkId := 1, Index := 1 }),
        (4, { Id := 4, Archetype := [true], ChunkId := 1, Index := 2 })],
    NextGuid := 5 }

/-! ## Invariants -/

/-- Well-formedness of the entity index: every record is stored under its own id. -/
def EntityIndexKeyed (db : UMantleDB) : Prop :=
  ∀ Id Entity, db.MasterRecord.EntitiesById.Find Id = some Entity → Entity.Id = Id

/-- The entity-location invariant: the record of every live entity names a chunk that exists
in the entry of the record's archetype and holds the entity's id at the record's slot index;
and every id held by a chunk has a record that points back at that chunk and slot. -/
structure EntityLocationInv (db : UMantleDB) : Prop where
  record_located : ∀ Id Entity, db.MasterRecord.EntitiesById.Find Id = some Entity →
    ∃ Chunk, db.GetChunk Entity.Archetype Entity.ChunkId = some Chunk ∧
      Chunk.EntityIds[Entity.Index]? = some Id
  slot_recorded : ∀ Archetype ChunkId Chunk i Id,
    db.GetChunk Archetype ChunkId = some Chunk →
    Chunk.EntityIds[i]? = some Id →
    ∃ Entity, db.MasterRecord.EntitiesById.Find Id = some Entity ∧
      Entity.Archetype = Archetype ∧ Entity.ChunkId = ChunkId ∧ Entity.Index = i

/-- The entity ids the caller's loop over `It.Next()` sees, within `fuel` calls of `Next`. -/
def FMantleIterator.AllEntities (it : FMantleIterator) (mr : FMantleDBMasterRecord)
    (fuel : Nat) : List FGuid :=
  ((it.Collect mr [] fuel).map (fun p => p.1)).flatten

/-- The database `FullChunkRun` ends with. -/
def FullChunkDB : UMantleDB :=
  match FullChunkRun with
  | .ok db => db
  | .error _ => {}

/-- Every occupied slot of each column named by a template of `Components` holds the
template's content. -/
def ChunkUniform (Components : List FInstancedStruct) (c : FMantleDBChunk) : Prop :=
  ∀ p ∈ Components, ∀ i, i < c.EntityIds.length → c.Blob p.TypeName i = p.Memory

/-- The view sizes of the spill law: as many full views of `c` entities as fit into `n`,
then the remainder if there is one. -/
def SpillSizes (n c : Nat) : List Nat :=
  List.replicate (n / c) c ++ (if n % c = 0 then [] else [n % c])

/-- What the spill law needs of the chunks of an entry whose chunks hold `c` entities: each was
built by the constructor for the entry's archetype (capacity, columns), got its id from the
guid source, and holds the templates `Components` in its occupied slots. -/
def EntryChunksOk (c : Nat) (Components : List FInstancedStruct) (e : FMantleDBEntry)
    (mr : FMantleDBMasterRecord) : Prop :=
  ∀ Id Chunk, e.Chunks.Find Id = some Chunk →
    Chunk.TotalCapacity = c ∧ Chunk.Archetype = e.Archetype ∧
    Chunk.ComponentTypeInfo = FMantleDBChunk.PresentTypes e.Archetype mr ∧
    Id < mr.NextGuid ∧ ChunkUniform Components Chunk

/-- The state of an entry of a non-bare archetype in which the spill law is stated: the
constructor gives chunks of capacity `c >= 1` whose columns include those of the templates,
the chunks are as `EntryChunksOk` says, and the stack of available chunks names no chunk
twice and only chunks that hold no entity. -/
structure EntryPoolInv (c : Nat) (Components : List FInstancedStruct) (e : FMantleDBEntry)
    (mr : FMantleDBMasterRecord) : Prop where
  not_bare : IsZero e.Archetype = false
  cap_pos : 1 ≤ c
  ctor_ok : ∃ Chunk, FMantleDBChunk.Ctor 0 e.Archetype mr = .ok Chunk ∧ Chunk.TotalCapacity = c
  columns : ∀ p ∈ Components,
    ∃ Info, (FMantleDBChunk.PresentTypes e.Archetype mr).Find p.TypeName = some Info
  chunks_ok : EntryChunksOk c Components e mr
  stack_nodup : e.AvailableChunkIds.Nodup
  stack_empty : ∀ Id ∈ e.AvailableChunkIds, ∀ Chunk, e.Chunks.Find Id = some Chunk →
    Chunk.EntityIds = []

/-- `AllChunkIds` lists the chunks of the entry, each once. -/
structure EntryIdsOk (e : FMantleDBEntry) : Prop where
  nodup : e.AllChunkIds.Nodup
  mem_iff : ∀ Id, Id ∈ e.AllChunkIds ↔ e.Chunks.Contains Id = true

/-- The number of entities held by the chunks of the entry. -/
def EntryCount (e : FMantleDBEntry) : Nat :=
  (e.AllChunkIds.map
    (fun Id => ((e.Chunks.Find Id).map (fun Chunk => Chunk.EntityIds.length)).getD 0)).sum

/-- The registry of `Test_AddEntities` (a 960-byte type and a 96-byte type aligned to 16, a
24-byte type aligned to 8) with the default chunk byte budget; no entity exists yet. -/
def SpillRecord : FMantleDBMasterRecord :=
  { ChunkComponentBlobSize := 128 * 1024,
    ComponentInfoMap :=
      [("FakeTransformComponent",
          { Name := "FakeTransformComponent", ArchetypeIndex := 0, StructSize := 96,
            StructAlignment := 16 }),
        ("FakeItemComponent",
          { Name := "FakeItemComponent", ArchetypeIndex := 1, StructSize := 24,
            StructAlignment := 8 }),
        ("FakeBigComponent",
          { Name := "FakeBigComponent", ArchetypeIndex := 2, StructSize := 960,
            StructAlignment := 16 })] }

/-- The templates of `Test_AddEntities`. -/
def SpillComponents : List FInstancedStruct :=
  [⟨"FakeBigComponent", 10⟩, ⟨"FakeTransformComponent", 5⟩, ⟨"FakeItemComponent", 2⟩]

/-- The newly created entry of the archetype of `SpillComponents`. -/
def SpillEntry : FMantleDBEntry := FMantleDBEntry.Ctor [true, true, true] SpillRecord

/-- The registry `Initialize` builds from component types of pairwise different names, the
first of them getting the archetype index `k`. -/
def RegistryOf : List UScriptStruct → Nat → TMap FString FMantleComponentInfo
  | [], _ => []
  | T :: rest, k =>
    (T.Name,
      { Name := T.Name, ArchetypeIndex := k, StructSize := T.StructureSize,
        StructAlignment := T.MinAlignment }) :: RegistryOf rest (k + 1)

/-- The component types among `ComponentTypes` that the templates `S` name. -/
def TemplateTypes (ComponentTypes : List (Option UScriptStruct)) (S : List FInstancedStruct) :
    List UScriptStruct :=
  (ComponentTypes.filterMap id).filter
    (fun T => decide (T.Name ∈ S.map (fun p => p.TypeName)))

/-- The bytes one entity with the templates `S` takes of the chunk byte budget in the count of
the chunk constructor: the byte size and the alignment of every type that `S` names. -/
def TemplateBytes (ComponentTypes : List (Option UScriptStruct)) (S : List FInstancedStruct) :
    Int :=
  ((TemplateTypes ComponentTypes S).map (fun T => T.StructureSize)).sum +
    ((TemplateTypes ComponentTypes S).map (fun T => T.MinAlignment)).sum

/-- What the caller's loop `while (It.Next())` sees of `It = RunQuery(Query)`, where `Query`
requires the component types `Names`: at each position the entity ids and, for each of
`Names`, the array view of the column; `fuel` bounds the calls of `Next`. -/
def UMantleDB.QueryRows (db : UMantleDB) (Names : List FString) (fuel : Nat) :
    List (List FGuid × List (List Payload)) :=
  (db.RunQuery { RequiredComponents := Names }).2.2.Collect
    (db.RunQuery { RequiredComponents := Names }).2.1.MasterRecord Names fuel

/-- The shape of a registry that `Initialize` built from types of pairwise different names:
one entry per name, stored under its own name, with archetype indexes that are in range and
pairwise different. -/
structure RegistryOk (m : TMap FString FMantleComponentInfo) : Prop where
  keys_nodup : (m.map (fun p => p.1)).Nodup
  name_eq : ∀ p ∈ m, p.2.Name = p.1
  index_lt : ∀ p ∈ m, p.2.ArchetypeIndex < m.length
  index_inj : ∀ p ∈ m, ∀ q ∈ m, p.2.ArchetypeIndex = q.2.ArchetypeIndex → p = q

/-- What an iterator shows at chunk position `c` of the cached entry `CE`: the entity ids of
the view and, for each of `Names`, the array view of the column. -/
def FMantleCachedEntry.RowAt (CE : FMantleCachedEntry) (Names : List FString) (c : Nat) :
    List FGuid × List (List Payload) :=
  (CE.ChunkedEntityIds.getD c [],
    Names.map (fun T =>
      if CE.ChunkedEntityIds.length = 0 then []
      else ((CE.ChunkedComponents.Find T).getD []).getD c []))

/-! ## Well-formed stores and what a migration does to an entity -/

/-- The number of entities stored in the chunks of the entry of `Archetype`. -/
def UMantleDB.StoredCount (db : UMantleDB) (Archetype : TBitArray) : Nat :=
  match db.EntriesByArchetype.Find Archetype with
  | none => 0
  | some Entry => (Entry.Chunks.map (fun p => p.2.EntityIds.length)).sum

/-- The length of the stack of available chunks of the entry of `Archetype`. -/
def UMantleDB.StackDepth (db : UMantleDB) (Archetype : TBitArray) : Nat :=
  match db.EntriesByArchetype.Find Archetype with
  | none => 0
  | some Entry => Entry.AvailableChunkIds.length

/-- A chunk as the constructor and the operations on chunks leave it: stored under its own
id, of the archetype of its entry, with the columns of that archetype, with a blob when it
holds entities and has columns, and with an id the guid source has handed out. -/
structure ChunkOk (X : TBitArray) (mr : FMantleDBMasterRecord) (Id : FGuid)
    (Chunk : FMantleDBChunk) : Prop where
  id_eq : Chunk.ChunkId = Id
  archetype_eq : Chunk.Archetype = X
  columns : Chunk.ComponentTypeInfo = FMantleDBChunk.PresentTypes X mr
  allocated : Chunk.EntityIds ≠ [] → Chunk.ComponentTypeInfo ≠ [] → Chunk.bBlobAllocated = true
  id_lt : Id < mr.NextGuid

/-- An entry stored under the archetype `X`: it is of that archetype, its chunk map has no key
twice, and its chunks are as `ChunkOk` says. -/
structure EntryOk (X : TBitArray) (mr : FMantleDBMasterRecord) (e : FMantleDBEntry) : Prop where
  archetype_eq : e.Archetype = X
  keys_nodup : (e.Chunks.map (fun p => p.1)).Nodup
  chunks : ∀ Id Chunk, e.Chunks.Find Id = some Chunk → ChunkOk X mr Id Chunk

/-- A well-formed store: the registry is as `Initialize` builds it, every record is stored under
its own id, the entity-location invariant holds, and every entry is as `EntryOk` says. -/
structure StoreOk (db : UMantleDB) : Prop where
  registry : RegistryOk db.MasterRecord.ComponentInfoMap
  keyed : EntityIndexKeyed db
  located : EntityLocationInv db
  entries : ∀ X e, db.EntriesByArchetype.Find X = some e → EntryOk X db.MasterRecord e

/-- The database in which the entries of the archetypes `A` and `B` and the master record are
replaced, as `UpdateEntities` leaves it after the entities were taken. -/
def UMantleDB.WithEntries (db : UMantleDB) (A B : TBitArray) (eA eB : FMantleDBEntry)
    (mr : FMantleDBMasterRecord) : UMantleDB :=
  { db with
    EntriesByArchetype := (db.EntriesByArchetype.Add A eA).Add B eB,
    MasterRecord := mr }

/-- The entity `Id` is the same in `db1` as in `db`: same archetype, same components. -/
def Untouched (db db1 : UMantleDB) (Id : FGuid) : Prop :=
  (db1.MasterRecord.EntitiesById.Find Id).map (fun e => e.Archetype) =
      (db.MasterRecord.EntitiesById.Find Id).map (fun e => e.Archetype) ∧
    ∀ T, db1.GetComponent T Id = db.GetComponent T Id

/-- The entity `Id` of `db` is in `db1` an entity of the archetype `B`: the components named by
`ComponentsToAdd` hold the payloads, the other components of `B` hold what they held in `db`,
and there is no other component. -/
def Migrated (db db1 : UMantleDB) (B : TBitArray) (ComponentsToAdd : List FInstancedStruct)
    (Id : FGuid) : Prop :=
  (db1.MasterRecord.EntitiesById.Find Id).map (fun e => e.Archetype) = some B ∧
    (∀ p ∈ ComponentsToAdd, db1.GetComponent p.TypeName Id = some p.Memory) ∧
    ∀ T, T ∉ ComponentsToAdd.map (fun p => p.TypeName) →
      db1.GetComponent T Id =
        if db.MasterRecord.ArchetypeHasComponent B T = true then db.GetComponent T Id else none

/-- What a migration from the archetype `A` to the archetype `B` with the payloads `S` needs of
the columns: the payloads are of pairwise different types that are columns of `B`; every
column of `B` is a column of `A` or gets a payload; a column of both has one size; and a
component of `B` without a payload is a component of `A`, stored in a column of `B` exactly
when it is stored in a column of `A`. -/
structure MigrationCols (mr : FMantleDBMasterRecord) (A B : TBitArray)
    (S : List FInstancedStruct) : Prop where
  names_nodup : (S.map (fun p => p.TypeName)).Nodup
  added : ∀ p ∈ S,
    (∃ Info, (FMantleDBChunk.PresentTypes B mr).Find p.TypeName = some Info) ∧
      mr.ArchetypeHasComponent B p.TypeName = true
  covered : ∀ q ∈ FMantleDBChunk.PresentTypes B mr,
    q.1 ∈ (FMantleDBChunk.PresentTypes A mr).map (fun p => p.1) ∨
      q.1 ∈ S.map (fun p => p.TypeName)
  sizes : ∀ q ∈ FMantleDBChunk.PresentTypes A mr, ∀ Info,
    (FMantleDBChunk.PresentTypes B mr).Find q.1 = some Info → q.2.StructSize = Info.StructSize
  carried : ∀ T, T ∉ S.map (fun p => p.TypeName) → mr.ArchetypeHasComponent B T = true →
    mr.ArchetypeHasComponent A T = true ∧
      ((FMantleDBChunk.PresentTypes B mr).Find T).isSome =
        ((FMantleDBChunk.PresentTypes A mr).Find T).isSome

/-! ## Iterator traversal, and a database with two archetypes -/

/-- The positions `(entry, chunk)` that a traversal of a snapshot visits, in order, when its
entries hold `cs[0]`, `cs[1]`, ... chunks: all chunks of an entry before those of the next
entry, and one position for an entry that has no chunk. -/
def TraversalPositions : List Nat → List (Nat × Nat)
  | [] => []
  | c :: rest =>
    (List.range (max c 1)).map (fun i => (0, i)) ++
      (TraversalPositions rest).map (fun p => (p.1 + 1, p.2))

/-- The position after `p` in the traversal of a snapshot whose entries hold `cs` chunks; the
position past the last entry is final. -/
def StepPosition (cs : List Nat) (p : Nat × Nat) : Nat × Nat :=
  if cs.length ≤ p.1 then p
  else if p.2 + 1 < cs.getD p.1 0 then (p.1, p.2 + 1)
  else (p.1 + 1, 0)

/-- The iterator after `n` calls of `Next`. -/
def FMantleIterator.NextN (mr : FMantleDBMasterRecord) : Nat → FMantleIterator → FMantleIterator
  | 0, it => it
  | n + 1, it => FMantleIterator.NextN mr n (it.Next mr).2

/-- A database with the component types `Position` and `Velocity` (12 bytes each, alignment 4)
and a chunk byte budget of 1024, in which one entity with a `Position` (id 2, in the chunk
with id 1) and then one entity with a `Position` and a `Velocity` (id 4, in the chunk with
id 3) are created. -/
def TwoTypeRun : Except Failure UMantleDB :=
  match ({} : UMantleDB).Initialize [some ⟨"Position", 12, 4⟩, some ⟨"Velocity", 12, 4⟩] 1024 with
  | .error f => .error f
  | .ok db0 =>
    match db0.AddEntities 1 [⟨"Position", 10⟩] 1 with
    | .error f => .error f
    | .ok (db1, _) =>
      match db1.AddEntities 1 [⟨"Position", 20⟩, ⟨"Velocity", 21⟩] 1 with
      | .error f => .error f
      | .ok (db2, _) => .ok db2

/-- The database `TwoTypeRun` ends with. -/
def TwoTypeDB : UMantleDB :=
  match TwoTypeRun with
  | .ok db => db
  | .error _ => {}

/-- The query requiring nothing, run on `TwoTypeDB`: the database and the iterator. Its
snapshot holds the bare archetype without a chunk and the two other archetypes with one chunk
each. -/
def TwoTypeQueryAll : UMantleDB × FMantleIterator :=
  (TwoTypeDB.RunQuery { RequiredComponents := [] }).2

/-- The query requiring a `Position`, run on `TwoTypeDB`: the database and the iterator, whose
mask is `[true, false]`. -/
def TwoTypeQueryPosition : UMantleDB × FMantleIterator :=
  (TwoTypeDB.RunQuery { RequiredComponents := ["Position"] }).2

/-- The query requiring a `Position` and a `Velocity`, run on `TwoTypeDB`: the database and
the iterator, whose mask is `[true, true]`. -/
def TwoTypeQueryBoth : UMantleDB × FMantleIterator :=
  (TwoTypeDB.RunQuery { RequiredComponents := ["Position", "Velocity"] }).2

/-- A run of `k` calls of `AddEntities` with a `Position` template and zero entities, one
after the other. -/
def AddNothingRun : Nat → UMantleDB → Except Failure UMantleDB
  | 0, db => .ok db
  | k + 1, db =>
    match db.AddEntities 0 [⟨"Position", 0⟩] 0 with
    | .error f => .error f
    | .ok (db1, _) => AddNothingRun k db1

/-! ## The cache protocol: what a query shows, the recomputation from scratch, and the
invariants of the reachable states -/

/-- What a cached entry shows to a caller: the archetype, the entity ids of each chunk view
and the column views of each component type. -/
def FMantleCachedEntry.Data (CE : FMantleCachedEntry) :
    TBitArray × List (List FGuid) × TMap FString (List (List Payload)) :=
  (CE.Archetype, CE.ChunkedEntityIds, CE.ChunkedComponents)

/-- The database with every cache erased: no cached query and no cached entry. -/
def UMantleDB.ClearCaches (db : UMantleDB) : UMantleDB :=
  { db with MasterRecord := { db.MasterRecord with CachedQueries := [], CachedEntries := [] } }

/-- The entity-id lists of the non-empty chunks of an entry, in the order of its chunk ids. -/
def FMantleDBEntry.ScanEntityIds (e : FMantleDBEntry) : List (List FGuid) :=
  ((e.AllChunkIds.filterMap (fun Id => e.Chunks.Find Id)).filter (fun c => !c.IsEmpty)).map
    (fun c => c.EntityIds)

/-- The result of a query recomputed by scanning all active archetypes that are supersets of
the query mask `Q` and all their non-empty chunks: the matching archetypes, each with its
per-chunk entity-id lists. -/
def UMantleDB.ScanQuery (db : UMantleDB) (Q : TBitArray) :
    List (TBitArray × List (List FGuid)) :=
  (db.ActiveArchetypes.filter (fun X => decide (BitwiseAND X Q = Q))).map
    (fun X => (X, ((db.EntriesByArchetype.Find X).map FMantleDBEntry.ScanEntityIds).getD []))

/-- What an iterator shows of its snapshot: per matching entry the archetype and the
per-chunk entity-id lists. -/
def FMantleIterator.Snapshot (it : FMantleIterator) : List (TBitArray × List (List FGuid)) :=
  it.LocalCache.MatchingEntries.map (fun e => (e.Archetype, e.ChunkedEntityIds))

/-- The cached entry of the archetype `X` rebuilt from the entry alone, with the flag of
`RefreshCachedEntry`. -/
def UMantleDB.FreshEntry (db : UMantleDB) (X : TBitArray) : FMantleCachedEntry × Bool :=
  db.RefreshCachedEntry { Archetype := X }

/-- The data a rebuild of the query `Q` over the archetypes of the list collects when every
matching archetype is refreshed from its entry; `none` when a refresh fails. -/
def UMantleDB.ScratchLoop (db : UMantleDB) (Q : TBitArray) :
    List TBitArray →
      Option (List (TBitArray × List (List FGuid) × TMap FString (List (List Payload))))
  | [] => some []
  | X :: rest =>
    if BitwiseAND X Q ≠ Q then UMantleDB.ScratchLoop db Q rest
    else if (db.FreshEntry X).2 = false then none
    else (UMantleDB.ScratchLoop db Q rest).map (fun l => (db.FreshEntry X).1.Data :: l)

/-- An entry stored under the archetype `X` carries `X`, and so do its chunks. -/
def EntryWf (X : TBitArray) (e : FMantleDBEntry) : Prop :=
  e.Archetype = X ∧ ∀ Id c, e.Chunks.Find Id = some c → c.Archetype = X

/-- Every entity record is stored under its own id. -/
def RecordsKeyed (mr : FMantleDBMasterRecord) : Prop :=
  ∀ Id E, mr.EntitiesById.Find Id = some E → E.Id = Id

/-- The caches of `mr1` are those of `mr`. -/
def CachesKept (mr mr1 : FMantleDBMasterRecord) : Prop :=
  mr1.CachedQueries = mr.CachedQueries ∧ mr1.CachedEntries = mr.CachedEntries

/-- The records of `mr1` are records of `mr` up to the slot index. -/
def RecordsFrom (mr mr1 : FMantleDBMasterRecord) : Prop :=
  ∀ Id E1, mr1.EntitiesById.Find Id = some E1 →
    ∃ E, mr.EntitiesById.Find Id = some E ∧ E.Archetype = E1.Archetype ∧ E.ChunkId = E1.ChunkId

/-- A valid cached entry is stored under its archetype and shows what a refresh from the entry
would show. -/
def EntriesCoherent (db : UMantleDB) : Prop :=
  ∀ X CE, db.MasterRecord.CachedEntries.Find X = some CE →
    CE.Archetype = X ∧
      (CE.bIsValid = true → (db.FreshEntry X).2 = true ∧ (db.FreshEntry X).1.Data = CE.Data)

/-- A cached query is stored under its mask, and with a valid version it holds what a rebuild
from the entries would collect. -/
def QueriesCoherent (db : UMantleDB) : Prop :=
  ∀ Q CQ, db.MasterRecord.CachedQueries.Find Q = some CQ →
    CQ.QueryArchetype = Q ∧
      (CQ.Version.bIsValid = true →
        db.ScratchLoop Q db.ActiveArchetypes =
          some (CQ.MatchingEntries.map FMantleCachedEntry.Data))

/-- A cached query with a valid version is listed in the cached entry of every active
archetype that is a superset of its mask. -/
def BackComplete (db : UMantleDB) : Prop :=
  ∀ Q CQ, db.MasterRecord.CachedQueries.Find Q = some CQ →
    CQ.Version.bIsValid = true → ∀ X ∈ db.ActiveArchetypes, BitwiseAND X Q = Q →
      ∃ CE, db.MasterRecord.CachedEntries.Find X = some CE ∧ Q ∈ CE.MatchingQueries

/-- A cached entry lists only queries whose mask its archetype is a superset of. -/
def BackSound (db : UMantleDB) : Prop :=
  ∀ X CE, db.MasterRecord.CachedEntries.Find X = some CE →
    ∀ Q ∈ CE.MatchingQueries, BitwiseAND X Q = Q

/-- The invariant of the cache protocol: records are stored under their ids, entries and
chunks carry the archetype they are stored under, every entry is listed as active, and the
cached entries and cached queries are coherent with the entries and with each other. -/
structure CacheInv (db : UMantleDB) : Prop where
  keyed : RecordsKeyed db.MasterRecord
  entry_wf : ∀ X e, db.EntriesByArchetype.Find X = some e → EntryWf X e
  entry_active : ∀ X e, db.EntriesByArchetype.Find X = some e → X ∈ db.ActiveArchetypes
  entry_coherent : EntriesCoherent db
  query_coherent : QueriesCoherent db
  back_complete : BackComplete db
  back_sound : BackSound db

/-- The database `db1` differs from `db` in its caches at most. -/
def SameStore (db db1 : UMantleDB) : Prop :=
  db1.EntriesByArchetype = db.EntriesByArchetype ∧ db1.ActiveArchetypes = db.ActiveArchetypes ∧
    db1.bIsInitialized = db.bIsInitialized ∧
    db1.MasterRecord.EntitiesById = db.MasterRecord.EntitiesById ∧
    db1.MasterRecord.ComponentInfoMap = db.MasterRecord.ComponentInfoMap ∧
    db1.MasterRecord.ChunkComponentBlobSize = db.MasterRecord.ChunkComponentBlobSize ∧
    db1.MasterRecord.NextGuid = db.MasterRecord.NextGuid

/-- Every cached entry of `db` is still cached in `db1`, listing at least the same queries. -/
def MatchingGrows (db db1 : UMantleDB) : Prop :=
  ∀ X CE, db.MasterRecord.CachedEntries.Find X = some CE →
    ∃ CE1, db1.MasterRecord.CachedEntries.Find X = some CE1 ∧
      ∀ q ∈ CE.MatchingQueries, q ∈ CE1.MatchingQueries

/-- The database in which `CE` has been stored as the cached entry of `X` after
`FindOrAddCachedEntry(X)`. -/
def UMantleDB.WithCachedEntry (db : UMantleDB) (X : TBitArray) (CE : FMantleCachedEntry) :
    UMantleDB :=
  { db with
    MasterRecord :=
      { db.MasterRecord.FindOrAddCachedEntry X with
        CachedEntries := (db.MasterRecord.FindOrAddCachedEntry X).CachedEntries.Add X CE } }

/-- The database in which `CQ` has been stored as the cached query of the mask `Q`. -/
def UMantleDB.StoreQuery (db : UMantleDB) (Q : TBitArray) (CQ : FMantleCachedQuery) :
    UMantleDB :=
  { db with
    MasterRecord :=
      { db.MasterRecord with CachedQueries := db.MasterRecord.CachedQueries.Add Q CQ } }

/-- The database `db1` is `db` after `EntryWasModified` was called for the archetypes of `L`:
the store is the same; every cached entry and cached query of `db1` is one of `db` with the
same content, and is valid only if it was valid and no archetype of `L` concerns it; and a
cached query that no cached entry of an archetype of `L` lists is unchanged. -/
def Invalidated (L : List TBitArray) (db db1 : UMantleDB) : Prop :=
  SameStore db db1 ∧
    (∀ X CE1, db1.MasterRecord.CachedEntries.Find X = some CE1 →
      ∃ CE, db.MasterRecord.CachedEntries.Find X = some CE ∧ CE1.Data = CE.Data ∧
        CE1.MatchingQueries = CE.MatchingQueries ∧
        (CE1.bIsValid = true → CE.bIsValid = true ∧ X ∉ L)) ∧
    (∀ Q CQ1, db1.MasterRecord.CachedQueries.Find Q = some CQ1 →
      ∃ CQ, db.MasterRecord.CachedQueries.Find Q = some CQ ∧
        CQ1.QueryArchetype = CQ.QueryArchetype ∧ CQ1.MatchingEntries = CQ.MatchingEntries ∧
        CQ1.Version.VersionNumber = CQ.Version.VersionNumber ∧
        (CQ1.Version.bIsValid = true →
          CQ.Version.bIsValid = true ∧
            ∀ X ∈ L, ∀ CE, db.MasterRecord.CachedEntries.Find X = some CE →
              Q ∉ CE.MatchingQueries)) ∧
    (∀ X CE, db.MasterRecord.CachedEntries.Find X = some CE →
      ∃ CE1, db1.MasterRecord.CachedEntries.Find X = some CE1) ∧
    (∀ Q, (∀ X ∈ L, ∀ CE, db.MasterRecord.CachedEntries.Find X = some CE →
        Q ∉ CE.MatchingQueries) →
      db1.MasterRecord.CachedQueries.Find Q = db.MasterRecord.CachedQueries.Find Q) ∧
    (∀ Q CQ, db.MasterRecord.CachedQueries.Find Q = some CQ →
      ∃ CQ1, db1.MasterRecord.CachedQueries.Find Q = some CQ1)

/-- What the loop of `RemoveEntities`, run on `db` over `ids` with the set `M` collected so
far, has done when it ends with the database `db1` and the set `M1`: it kept the active
archetypes, the caches, the keys of the entity index and the shape of the entries; it changed
only entries of archetypes of `M1`; `M1` extends `M` by archetypes of records of listed ids
only; and `M1` holds the archetype of every listed live entity whose chunk exists. -/
def RemoveTrace (ids : List FGuid) (db : UMantleDB) (M : List TBitArray) (db1 : UMantleDB)
    (M1 : List TBitArray) : Prop :=
  db1.ActiveArchetypes = db.ActiveArchetypes ∧
    CachesKept db.MasterRecord db1.MasterRecord ∧
    RecordsKeyed db1.MasterRecord ∧
    (∀ X e, db1.EntriesByArchetype.Find X = some e → EntryWf X e) ∧
    (∀ X, X ∉ M1 → db1.EntriesByArchetype.Find X = db.EntriesByArchetype.Find X) ∧
    (∀ X, (db1.EntriesByArchetype.Find X).isSome = (db.EntriesByArchetype.Find X).isSome) ∧
    (∀ X ∈ M, X ∈ M1) ∧
    RecordsFrom db.MasterRecord db1.MasterRecord ∧
    (∀ X ∈ M1, X ∈ M ∨
      ∃ id ∈ ids, ∃ E, db.MasterRecord.EntitiesById.Find id = some E ∧ E.Archetype = X) ∧
    (∀ id ∈ ids, id ≠ 0 → ∀ E, db.MasterRecord.EntitiesById.Find id = some E →
      (∃ c, db.GetChunk E.Archetype E.ChunkId = some c) → E.Archetype ∈ M1)

/-- The states of a database that calls of the public operations reach from a new database:
`Initialize`, `AddEntities`, `RemoveEntities`, `UpdateEntities` and `RunQuery`, each with any
arguments, whenever the call returns (a fatal error ends the run). -/
inductive Reachable : UMantleDB → Prop
  | fresh : Reachable {}
  | init (db db1 : UMantleDB) (ComponentTypes : List (Option UScriptStruct))
      (ChunkSizeBytes : Int) :
      Reachable db → db.Initialize ComponentTypes ChunkSizeBytes = .ok db1 → Reachable db1
  | add (db db1 : UMantleDB) (fuel : Nat) (InitialComposition : List FInstancedStruct)
      (NumEntities : Nat) (It : FMantleIterator) :
      Reachable db → db.AddEntities fuel InitialComposition NumEntities = .ok (db1, It) →
      Reachable db1
  | remove (db db1 : UMantleDB) (EntityIds : List FGuid) :
      Reachable db → db.RemoveEntities EntityIds = .ok db1 → Reachable db1
  | update (db db1 : UMantleDB) (fuel : Nat) (EntityIds : List FGuid)
      (ComponentsToAdd : List FInstancedStruct) (ComponentsToRemove : List (Option FString))
      (It : FMantleIterator) :
      Reachable db →
      db.UpdateEntities fuel EntityIds ComponentsToAdd ComponentsToRemove = .ok (db1, It) →
      Reachable db1
  | query (db : UMantleDB) (Query : FMantleComponentQuery) :
      Reachable db → Reachable (db.RunQuery Query).2.1

/-! ## What `AddEntity` relies on -/

/-- What `AddEntity` relies on beyond `StoreOk`: every entry lists component types that the
chunks of its archetype have columns for, every active archetype has an entry, the chunks on
the stack of available chunks of an entry with components have room, and the guid source is
ahead of every live entity id. -/
structure PoolOk (db : UMantleDB) : Prop where
  entry_types : ∀ X e, db.EntriesByArchetype.Find X = some e → ∀ T ∈ e.ComponentTypes,
    ∃ Info, (FMantleDBChunk.PresentTypes X db.MasterRecord).Find T = some Info
  active_entry : ∀ X ∈ db.ActiveArchetypes, ∃ e, db.EntriesByArchetype.Find X = some e
  stack_room : ∀ X e, db.EntriesByArchetype.Find X = some e → IsZero X = false →
    ∀ Id ∈ e.AvailableChunkIds, ∀ Chunk, e.Chunks.Find Id = some Chunk →
      Chunk.EntityIds.length < Chunk.TotalCapacity
  guid_pos : 0 < db.MasterRecord.NextGuid
  ids_lt : ∀ Id E, db.MasterRecord.EntitiesById.Find Id = some E →
    Id < db.MasterRecord.NextGuid

/-- The database `db1` answers every lookup of the store as `db` does: the entry of every
archetype, the active archetypes, the entity index, the registry, the chunk byte budget and
the guid source are the same. The caches may differ. -/
def SameLookups (db db1 : UMantleDB) : Prop :=
  (∀ X, db1.EntriesByArchetype.Find X = db.EntriesByArchetype.Find X) ∧
    db1.ActiveArchetypes = db.ActiveArchetypes ∧
    db1.MasterRecord.EntitiesById = db.MasterRecord.EntitiesById ∧
    db1.MasterRecord.ComponentInfoMap = db.MasterRecord.ComponentInfoMap ∧
    db1.MasterRecord.ChunkComponentBlobSize = db.MasterRecord.ChunkComponentBlobSize ∧
    db1.MasterRecord.NextGuid = db.MasterRecord.NextGuid

/-- The version number the cached query of `Q` is stored with in `db`; `0` when the query is
not stored. -/
def UMantleDB.StoredNumber (db : UMantleDB) (Q : TBitArray) : Nat :=
  ((db.MasterRecord.CachedQueries.Find Q).map (fun CQ => CQ.Version.VersionNumber)).getD 0

/-- From `db` to `db1` the cached query of `Q` kept its version number (it is stored in both or
in neither), and it is valid in `db1` only if it was valid in `db`. -/
def VersionsKept (db db1 : UMantleDB) (Q : TBitArray) : Prop :=
  (db1.MasterRecord.CachedQueries.Find Q).map (fun CQ => CQ.Version.VersionNumber) =
      (db.MasterRecord.CachedQueries.Find Q).map (fun CQ => CQ.Version.VersionNumber) ∧
    ∀ CQ1, db1.MasterRecord.CachedQueries.Find Q = some CQ1 → CQ1.Version.bIsValid = true →
      ∃ CQ, db.MasterRecord.CachedQueries.Find Q = some CQ ∧ CQ.Version.bIsValid = true

/-! ## Further scenarios -/

/-- The scenario of a tag component: the types `Position` (12 bytes, alignment 4) and `Tag`
(of the given size and alignment) are registered with a chunk byte budget of 1024, 5 entities
with a `Position` and then 5 entities with a `Position` and a `Tag` are added, and the query
requiring a `Tag` is run. The result is the database and the iterator of the query. -/
def TagRun (TagSize TagAlignment : Int) : Except Failure (UMantleDB × FMantleIterator) :=
  match ({} : UMantleDB).Initialize
      [some ⟨"Position", 12, 4⟩, some ⟨"Tag", TagSize, TagAlignment⟩] 1024 with
  | .error f => .error f
  | .ok db0 =>
    match db0.AddEntities 1 [⟨"Position", 1⟩] 5 with
    | .error f => .error f
    | .ok (db1, _) =>
      match db1.AddEntities 1 [⟨"Position", 2⟩, ⟨"Tag", 3⟩] 5 with
      | .error f => .error f
      | .ok (db2, _) => .ok (db2.RunQuery { RequiredComponents := ["Tag"] }).2

/-- A run on a database with the types `Position` (12 bytes, alignment 4) and `Big`
(600 bytes, alignment 8) and a chunk byte budget of 1024, so that a chunk of the archetype
with both types holds one entity: one entity with a `Position` is created (id 2, in the chunk
with id 1). -/
def CrampedRun : Except Failure UMantleDB :=
  match ({} : UMantleDB).Initialize [some ⟨"Position", 12, 4⟩, some ⟨"Big", 600, 8⟩] 1024 with
  | .error f => .error f
  | .ok db0 =>
    match db0.AddEntities 1 [⟨"Position", 10⟩] 1 with
    | .error f => .error f
    | .ok (db1, _) => .ok db1

/-- The database `CrampedRun` ends with. -/
def CrampedDB : UMantleDB :=
  match CrampedRun with
  | .ok db => db
  | .error _ => {}

/-- The component types of the test suite, as `InitDB` registers them: a transform (96 bytes,
alignment 16), an item (24 bytes, alignment 8), a targeting component (24 bytes, alignment 8),
a component of ten transforms and an empty struct. -/
def TestComponentTypes : List (Option UScriptStruct) :=
  [some ⟨"FakeTransformComponent", 96, 16⟩, some ⟨"FakeItemComponent", 24, 8⟩,
    some ⟨"FakeTargetingComponent", 24, 8⟩, some ⟨"FakeBigComponent", 960, 16⟩,
    some ⟨"FakeEmptyComponent", 1, 1⟩]

/-- The set-up `InitDBWithEntities` of the test suite: a chunk byte budget of 1024, then 10
entities with a transform, 20 with a transform and a targeting component, 30 with a transform
and an item, and 40 with all three. -/
def MultiArchetypeRun : Except Failure UMantleDB :=
  match ({} : UMantleDB).Initialize TestComponentTypes 1024 with
  | .error f => .error f
  | .ok db0 =>
    match db0.AddEntities 10 [⟨"FakeTransformComponent", 1⟩] 10 with
    | .error f => .error f
    | .ok (db1, _) =>
      match db1.AddEntities 20
          [⟨"FakeTransformComponent", 2⟩, ⟨"FakeTargetingComponent", 2⟩] 20 with
      | .error f => .error f
      | .ok (db2, _) =>
        match db2.AddEntities 30 [⟨"FakeTransformComponent", 3⟩, ⟨"FakeItemComponent", 3⟩] 30 with
        | .error f => .error f
        | .ok (db3, _) =>
          match db3.AddEntities 40
              [⟨"FakeTransformComponent", 4⟩, ⟨"FakeItemComponent", 4⟩,
                ⟨"FakeTargetingComponent", 4⟩] 40 with
          | .error f => .error f
          | .ok (db4, _) => .ok db4

/-- The database `MultiArchetypeRun` ends with. -/
def MultiArchetypeDB : UMantleDB :=
  match MultiArchetypeRun with
  | .ok db => db
  | .error _ => {}

/-- The query of `Test_MultiArchetypeQuery`, requiring a transform and an item, run on
`MultiArchetypeDB`: the database and the iterator. -/
def MultiArchetypeQuery : UMantleDB × FMantleIterator :=
  (MultiArchetypeDB.RunQuery
    { RequiredComponents := ["FakeTransformComponent", "FakeItemComponent"] }).2

/-- On `TwoTypeDB` the entity 2 has its `Position` removed by `UpdateEntities`, so that it is
moved into the chunk of the bare archetype. -/
def StaleRun : Except Failure (UMantleDB × FMantleIterator) :=
  TwoTypeDB.UpdateEntities 1 [2] [] [some "Position"]

/-- The database `StaleRun` ends with. -/
def StaleDB : UMantleDB :=
  match StaleRun with
  | .ok (db, _) => db
  | .error _ => {}

/-! ## The shape of the entries and what an operation keeps of it -/

/-- The entry of the bare archetype as the operations leave it: it owns at most one chunk,
lists at most as many chunk ids as it owns chunks, and when it owns a chunk, the id of an
existing chunk is on its stack of available chunks. -/
def BareOk (e : FMantleDBEntry) : Prop :=
  e.Chunks.length ≤ 1 ∧ e.AllChunkIds.length ≤ e.Chunks.length ∧
    (e.Chunks ≠ [] → ∃ Id ∈ e.AvailableChunkIds, (e.Chunks.Find Id).isSome = true)

/-- The shape of an entry with respect to a registry: an entry of the bare archetype is as
`BareOk` says, and the chunks have columns for registered component types only. -/
structure EntryShape (Registry : TMap FString FMantleComponentInfo) (e : FMantleDBEntry) :
    Prop where
  bare : IsZero e.Archetype = true → BareOk e
  columns : ∀ Id c, e.Chunks.Find Id = some c → ∀ T,
    (c.ComponentTypeInfo.Find T).isSome = true → (Registry.Find T).isSome = true

/-- From `e` to `e1` the entry kept its archetype and its list of component types, and its
list of chunk ids grew at the end only. -/
def EntryGrows (e e1 : FMantleDBEntry) : Prop :=
  e1.Archetype = e.Archetype ∧ e1.ComponentTypes = e.ComponentTypes ∧
    e.AllChunkIds <+: e1.AllChunkIds

/-- From `e` to `e1` the entry kept its archetype, its list of component types, its list of
chunk ids and the ids under which it stores chunks; no id left the stack of available chunks;
and every chunk kept its columns. -/
def EntryKeeps (e e1 : FMantleDBEntry) : Prop :=
  e1.Archetype = e.Archetype ∧ e1.ComponentTypes = e.ComponentTypes ∧
    e1.AllChunkIds = e.AllChunkIds ∧ e1.Chunks.length = e.Chunks.length ∧
    (∀ Id, (e1.Chunks.Find Id).isSome = (e.Chunks.Find Id).isSome) ∧
    (∀ Id ∈ e.AvailableChunkIds, Id ∈ e1.AvailableChunkIds) ∧
    ∀ Id c1, e1.Chunks.Find Id = some c1 →
      ∃ c, e.Chunks.Find Id = some c ∧ c1.ComponentTypeInfo = c.ComponentTypeInfo

/-- The invariant of the shape of the store: every entry is as `EntryShape` says, the list of
active archetypes has no archetype twice, and every active archetype has an entry. -/
structure ShapeInv (db : UMantleDB) : Prop where
  entries : ∀ X e, db.EntriesByArchetype.Find X = some e →
    EntryShape db.MasterRecord.ComponentInfoMap e
  active_nodup : db.ActiveArchetypes.Nodup
  active_entry : ∀ X ∈ db.ActiveArchetypes, (db.EntriesByArchetype.Find X).isSome = true

/-- From `db` to `db1` the history is kept: the list of active archetypes grew at the end
only, and every entry is still there, with its list of chunk ids grown at the end only. -/
def Grows (db db1 : UMantleDB) : Prop :=
  db.ActiveArchetypes <+: db1.ActiveArchetypes ∧
    ∀ X e, db.EntriesByArchetype.Find X = some e →
      ∃ e1, db1.EntriesByArchetype.Find X = some e1 ∧ EntryGrows e e1

/-- One call of a public operation that returns: `db1` is the database after the call on
`db`. -/
inductive Step : UMantleDB → UMantleDB → Prop
  | init (db db1 : UMantleDB) (ComponentTypes : List (Option UScriptStruct))
      (ChunkSizeBytes : Int) :
      db.Initialize ComponentTypes ChunkSizeBytes = .ok db1 → Step db db1
  | add (db db1 : UMantleDB) (fuel : Nat) (InitialComposition : List FInstancedStruct)
      (NumEntities : Nat) (It : FMantleIterator) :
      db.AddEntities fuel InitialComposition NumEntities = .ok (db1, It) → Step db db1
  | remove (db db1 : UMantleDB) (EntityIds : List FGuid) :
      db.RemoveEntities EntityIds = .ok db1 → Step db db1
  | update (db db1 : UMantleDB) (fuel : Nat) (EntityIds : List FGuid)
      (ComponentsToAdd : List FInstancedStruct) (ComponentsToRemove : List (Option FString))
      (It : FMantleIterator) :
      db.UpdateEntities fuel EntityIds ComponentsToAdd ComponentsToRemove = .ok (db1, It) →
      Step db db1
  | query (db : UMantleDB) (Query : FMantleComponentQuery) : Step db (db.RunQuery Query).2.1

/-! ## The column layout of a chunk (`MaybeAllocateBlob`, `LocationIsValid`)

Addresses are 64-bit unsigned integers; the `int32` sizes, alignments and capacities are the
unbounded integers of the rest of the model. -/

/-- `Align(Val, Alignment)` of the engine on a 64-bit address:
`(Val + Alignment - 1) & ~(Alignment - 1)` in `uint64` arithmetic. -/
def Align (Val : Nat) (Alignment : Int) : Nat :=
  let AlignmentMinusOne : Nat := ((Alignment % 2 ^ 64).toNat + (2 ^ 64 - 1)) % 2 ^ 64
  ((Val + AlignmentMinusOne) % 2 ^ 64) &&& (2 ^ 64 - 1 - AlignmentMinusOne)

/-- Pointer arithmetic on a 64-bit address: `Location + Offset`. -/
def AddressAdd (Location : Nat) (Offset : Int) : Nat :=
  (((Location : Int) + Offset) % 2 ^ 64).toNat

/-- The loop of `MaybeAllocateBlob` over the columns (lines 415-428), from
`NextSubchunkLocation` on: the column bases `ChunkLocation`, in the order of the columns. -/
def ColumnBasesLoop (MaxLocation TotalCapacity : Nat) :
    List (FString × FMantleComponentInfo) → Nat → Except Failure (List Nat)
  | [], _ => .ok []
  | (_, ComponentInfo) :: rest, NextSubchunkLocation =>
    let ChunkLocation := Align NextSubchunkLocation ComponentInfo.StructAlignment
    let Next := AddressAdd ChunkLocation (ComponentInfo.StructSize * TotalCapacity)
    if Next > MaxLocation then .error (.Fatal "Subchunk location exceeds max location.")
    else
      match ColumnBasesLoop MaxLocation TotalCapacity rest Next with
      | .error f => .error f
      | .ok Bases => .ok (ChunkLocation :: Bases)

/-- The column bases that `MaybeAllocateBlob` computes when `Malloc` returns the address
`ComponentBlob`; `MaxLocation` is `ComponentBlob + ChunkComponentBlobSize`. -/
def FMantleDBChunk.ColumnBases (c : FMantleDBChunk) (mr : FMantleDBMasterRecord)
    (ComponentBlob : Nat) : Except Failure (List Nat) :=
  ColumnBasesLoop (AddressAdd ComponentBlob mr.ChunkComponentBlobSize) c.TotalCapacity
    c.ComponentTypeInfo ComponentBlob

/-- The address of the slot `EntityIndex` of a column:
`ChunkLocation + EntityIndex * StructSize` (`GetComponentInternal`, `StartingLocation`). -/
def SlotLocation (ChunkLocation : Nat) (StructSize : Int) (EntityIndex : Nat) : Nat :=
  AddressAdd ChunkLocation (EntityIndex * StructSize)

/-- `LocationIsValid` on addresses; the address 0 is the null pointer. -/
def LocationInRange (ComponentBlob MaxLocation Location : Nat) : Bool :=
  if Location = 0 ∨ ComponentBlob = 0 ∨ MaxLocation = 0 then false
  else decide (ComponentBlob ≤ Location) && decide (Location ≤ MaxLocation)

/-! ## Runs of operations and the version number of a cached query -/

/-- From `db` to `db1` the version number that the cached query of `Q` is stored with is the
same, and the query has a valid version in `db1` only if it had one in `db`. -/
def NumberKept (db db1 : UMantleDB) (Q : TBitArray) : Prop :=
  db1.StoredNumber Q = db.StoredNumber Q ∧
    ∀ CQ1, db1.MasterRecord.CachedQueries.Find Q = some CQ1 → CQ1.Version.bIsValid = true →
      ∃ CQ, db.MasterRecord.CachedQueries.Find Q = some CQ ∧ CQ.Version.bIsValid = true

/-- A run of calls of the public operations that leads from `db` to `db1`, with a bound `k` on
the number of its calls that rebuild the cached query of the mask `Q`: a call that is not
counted keeps the version number of the query and does not make its version valid. -/
inductive RunWith (Q : TBitArray) (db : UMantleDB) : UMantleDB → Nat → Prop
  | done : RunWith Q db db 0
  | keep (db1 db2 : UMantleDB) (k : Nat) :
      RunWith Q db db1 k → Step db1 db2 → NumberKept db1 db2 Q → RunWith Q db db2 k
  | rebuild (db1 db2 : UMantleDB) (k : Nat) :
      RunWith Q db db1 k → Step db1 db2 → RunWith Q db db2 (k + 1)

/-! ## The stack of available chunks of an entry -/

/-- The chunks of an entry and its stack of available chunks as the operations leave them for
an archetype with components: every chunk is stored under its own id, carries the archetype of
the entry and holds at most as many entities as its capacity; the stack names no chunk twice,
and every id on it names a chunk of the entry with remaining capacity. -/
structure StackShape (e : FMantleDBEntry) : Prop where
  chunk_id : ∀ Id c, e.Chunks.Find Id = some c → c.ChunkId = Id
  chunk_archetype : ∀ Id c, e.Chunks.Find Id = some c → c.Archetype = e.Archetype
  chunk_bound : ∀ Id c, e.Chunks.Find Id = some c → c.EntityIds.length ≤ c.TotalCapacity
  stack_nodup : e.AvailableChunkIds.Nodup
  stack_room : ∀ Id ∈ e.AvailableChunkIds,
    ∃ c, e.Chunks.Find Id = some c ∧ 0 < c.GetRemainingCapacity

/-- The entry between `GetAvailableChunk`, which handed out the chunk `c` under the id `Id`,
and the pop of the chunk when it is full: as `StackShape` says, except that the chunk on top
of the stack, which is `c`, may be without remaining capacity. -/
structure HeadShape (e : FMantleDBEntry) (Id : FGuid) (c : FMantleDBChunk) : Prop where
  chunk_id : ∀ Id1 c1, e.Chunks.Find Id1 = some c1 → c1.ChunkId = Id1
  chunk_archetype : ∀ Id1 c1, e.Chunks.Find Id1 = some c1 → c1.Archetype = e.Archetype
  chunk_bound : ∀ Id1 c1, e.Chunks.Find Id1 = some c1 → c1.EntityIds.length ≤ c1.TotalCapacity
  stack_nodup : e.AvailableChunkIds.Nodup
  head : e.AvailableChunkIds.head? = some Id
  found : e.Chunks.Find Id = some c
  rest_room : ∀ Id1 ∈ e.AvailableChunkIds.tail,
    ∃ c1, e.Chunks.Find Id1 = some c1 ∧ 0 < c1.GetRemainingCapacity

/-- An entry of an archetype with components is as `StackShape` says; nothing is said of the
entry of the bare archetype, whose single chunk stays on the stack. -/
def EntryStack (e : FMantleDBEntry) : Prop := IsZero e.Archetype = false → StackShape e

/-- The invariant of the stacks of available chunks: every entry is as `EntryStack` says. -/
def StackInv (db : UMantleDB) : Prop :=
  ∀ X e, db.EntriesByArchetype.Find X = some e → EntryStack e

/-! ## The capacity of a new chunk, and a registry with a type of 0 bytes -/

/-- The capacity the constructor of a chunk computes for an archetype with at least one valid
component type (lines 71-73). -/
def FMantleDBChunk.CtorCapacity (NewArchetype : TBitArray) (mr : FMantleDBMasterRecord) : Nat :=
  (Int.tdiv (mr.ChunkComponentBlobSize - FMantleDBChunk.MaxPossibleAlignmentPadding NewArchetype mr)
    (FMantleDBChunk.BytesPerEntity NewArchetype mr)).toNat

/-- A run with a `Tag` type of 0 bytes and a chunk byte budget of 1024: one entity without
components is created (id 2, in the chunk with id 1 of the bare archetype). -/
def ZeroTagRun : Except Failure UMantleDB :=
  match ({} : UMantleDB).Initialize [some ⟨"Tag", 0, 1⟩] 1024 with
  | .error f => .error f
  | .ok db0 =>
    match db0.AddEntities 1 [] 1 with
    | .error f => .error f
    | .ok (db1, _) => .ok db1

/-- The database `ZeroTagRun` ends with. -/
def ZeroTagDB : UMantleDB :=
  match ZeroTagRun with
  | .ok db => db
  | .error _ => {}

/-! ## Lemmas on the containers -/

namespace TMap

variable {K V : Type} [DecidableEq K]

@[simp] theorem Find_nil (k : K) : Find ([] : TMap K V) k = none := rfl

theorem Find_cons (k' : K) (v : V) (m : TMap K V) (k : K) :
    Find ((k', v) :: m) k = if k' = k then some v else Find m k := rfl

theorem Find_append (m₁ m₂ : TMap K V) (k : K) :
    Find (m₁ ++ m₂) k = (Find m₁ k).orElse (fun _ => Find m₂ k) := by
  induction m₁ with
  | nil => simp [Find]
  | cons p m ih =>
    obtain ⟨k', v⟩ := p
    simp only [List.cons_append, Find_cons]
    split
    · rfl
    · exact ih

theorem Find_map_replace (m : TMap K V) (k : K) (v : V) (k₀ : K) :
    Find (m.map (fun p => if p.1 = k then (k, v) else p)) k₀ =
      if k₀ = k then (Find m k).map (fun _ => v) else Find m k₀ := by
  induction m with
  | nil => simp [Find]
  | cons p m ih =>
    obtain ⟨k', v'⟩ := p
    simp only [List.map_cons, Find_cons]
    by_cases h1 : k' = k
    · subst h1
      by_cases h2 : k₀ = k'
      · subst h2; simp [Find_cons]
      · have h3 : ¬ k' = k₀ := fun h => h2 h.symm
        simp only [if_true, Find_cons, h3, if_false, h2] at ih ⊢
        exact ih
    · by_cases h2 : k₀ = k
      · subst h2
        simp only [h1, if_false, Find_cons, if_true] at ih ⊢
        exact ih
      · simp only [h1, if_false, Find_cons, h2] at ih ⊢
        by_cases h3 : k' = k₀
        · simp [h3]
        · simp only [h3, if_false]; exact ih

@[simp] theorem Find_Add_self (m : TMap K V) (k : K) (v : V) : Find (Add m k v) k = some v := by
  unfold Add
  by_cases h : Contains m k = true
  · rw [if_pos h, Find_map_replace]
    simp only [if_true]
    unfold Contains at h
    cases hf : Find m k with
    | none => rw [hf] at h; simp at h
    | some x => rfl
  · rw [if_neg h, Find_append]
    unfold Contains at h
    cases hf : Find m k with
    | none => simp [Find_cons, Option.orElse]
    | some x => rw [hf] at h; simp at h

theorem Find_Add_of_ne (m : TMap K V) (k k' : K) (v : V) (h : k' ≠ k) :
    Find (Add m k v) k' = Find m k' := by
  unfold Add
  split
  · rw [Find_map_replace, if_neg h]
  · rw [Find_append]
    have h2 : ¬ k = k' := fun e => h e.symm
    cases hf : Find m k' with
    | none => simp [Find_cons, Option.orElse, h2]
    | some x => simp [Option.orElse]

theorem Find_Add (m : TMap K V) (k k' : K) (v : V) :
    Find (Add m k v) k' = if k' = k then some v else Find m k' := by
  by_cases h : k' = k
  · subst h; simp
  · rw [Find_Add_of_ne _ _ _ _ h, if_neg h]

theorem Remove_cons (k' : K) (v : V) (m : TMap K V) (k : K) :
    Remove ((k', v) :: m) k = if k' = k then Remove m k else (k', v) :: Remove m k := by
  unfold Remove
  by_cases h : k' = k
  · simp [List.filter_cons, h]
  · simp [List.filter_cons, h]

@[simp] theorem Find_Remove_self (m : TMap K V) (k : K) : Find (Remove m k) k = none := by
  induction m with
  | nil => rfl
  | cons p m ih =>
    obtain ⟨k', v⟩ := p
    rw [Remove_cons]
    by_cases h : k' = k
    · rw [if_pos h]; exact ih
    · rw [if_neg h, Find_cons, if_neg h]; exact ih

theorem Find_Remove_of_ne (m : TMap K V) (k k' : K) (h : k' ≠ k) :
    Find (Remove m k) k' = Find m k' := by
  induction m with
  | nil => rfl
  | cons p m ih =>
    obtain ⟨k₁, v⟩ := p
    rw [Remove_cons]
    by_cases h1 : k₁ = k
    · subst h1
      have h2 : ¬ k₁ = k' := fun e => h e.symm
      rw [if_pos rfl, Find_cons, if_neg h2]; exact ih
    · rw [if_neg h1, Find_cons, Find_cons, ih]

theorem Find_Remove (m : TMap K V) (k k' : K) :
    Find (Remove m k) k' = if k' = k then none else Find m k' := by
  by_cases h : k' = k
  · subst h; simp
  · rw [Find_Remove_of_ne _ _ _ h, if_neg h]

theorem Contains_eq_true_iff (m : TMap K V) (k : K) :
    Contains m k = true ↔ ∃ v, Find m k = some v := by
  unfold Contains
  cases Find m k <;> simp

theorem Contains_eq_false_iff (m : TMap K V) (k : K) :
    Contains m k = false ↔ Find m k = none := by
  unfold Contains
  cases Find m k <;> simp

theorem Contains_of_Find {m : TMap K V} {k : K} {v : V} (h : Find m k = some v) :
    Contains m k = true := by
  unfold Contains; rw [h]; rfl

theorem Find_mem {m : TMap K V} {k : K} {v : V} (h : Find m k = some v) : (k, v) ∈ m := by
  induction m with
  | nil => simp at h
  | cons p m ih =>
    obtain ⟨k', v'⟩ := p
    rw [Find_cons] at h
    split at h
    · rename_i hk
      injection h with h
      subst hk; subst h
      exact List.mem_cons_self _ _
    · exact List.mem_cons_of_mem _ (ih h)

theorem Find_eq_none_iff (m : TMap K V) (k : K) : Find m k = none ↔ ∀ p ∈ m, p.1 ≠ k := by
  induction m with
  | nil => simp
  | cons p m ih =>
    obtain ⟨k', v'⟩ := p
    rw [Find_cons]
    by_cases h : k' = k
    · simp [h]
    · simp [h, ih]

end TMap

/-! ## Arithmetic of the capacity law -/

theorem floor_ratio_eq_ediv (n b : ℤ) (hb : 0 < b) : ⌊(n : ℚ) / (b : ℚ)⌋ = n / b := by
  have h := Rat.floor_intCast_div_natCast n b.toNat
  have hcast : ((b.toNat : ℤ)) = b := Int.toNat_of_nonneg hb.le
  have hq : ((b.toNat : ℕ) : ℚ) = (b : ℚ) := by
    have h2 : (((b.toNat : ℕ) : ℤ) : ℚ) = (b : ℚ) := by rw [hcast]
    rw [← h2, Int.cast_natCast]
  rw [hq, hcast] at h
  exact h

theorem tdiv_pos_imp_nonneg (a b : ℤ) (hb : 0 < b) (h : 0 < a.tdiv b) : 0 ≤ a := by
  by_contra hneg
  push_neg at hneg
  have h1 : 0 ≤ (-a).tdiv b := Int.tdiv_nonneg (by omega) hb.le
  rw [Int.neg_tdiv] at h1
  omega

theorem PresentTypes_map_snd (A : TBitArray) (mr : FMantleDBMasterRecord)
    (hvalid : ∀ Info ∈ TypesPresentIn A mr,
      Info.Name ≠ "" ∧ 0 < Info.StructSize ∧ 0 < Info.StructAlignment) :
    (FMantleDBChunk.PresentTypes A mr).map (fun p => p.2) = TypesPresentIn A mr := by
  unfold FMantleDBChunk.PresentTypes TypesPresentIn
  rw [List.filter_map]
  congr 1
  apply List.filter_congr
  intro p hp
  by_cases hbit : GetBit A p.2.ArchetypeIndex = true
  · have hmem : p.2 ∈ TypesPresentIn A mr := by
      unfold TypesPresentIn
      rw [List.mem_filter]
      exact ⟨List.mem_map.2 ⟨p, hp, rfl⟩, hbit⟩
    obtain ⟨h1, h2, h3⟩ := hvalid _ hmem
    simp [FMantleDBChunk.ValidateComponentInfo, h1, h2, h3, hbit]
  · simp [hbit]

theorem BytesPerEntity_eq (A : TBitArray) (mr : FMantleDBMasterRecord)
    (hvalid : ∀ Info ∈ TypesPresentIn A mr,
      Info.Name ≠ "" ∧ 0 < Info.StructSize ∧ 0 < Info.StructAlignment) :
    FMantleDBChunk.BytesPerEntity A mr = ArchetypeByteSize A mr := by
  unfold FMantleDBChunk.BytesPerEntity ArchetypeByteSize
  rw [← PresentTypes_map_snd A mr hvalid, List.map_map]
  rfl

theorem MaxPossibleAlignmentPadding_eq (A : TBitArray) (mr : FMantleDBMasterRecord)
    (hvalid : ∀ Info ∈ TypesPresentIn A mr,
      Info.Name ≠ "" ∧ 0 < Info.StructSize ∧ 0 < Info.StructAlignment) :
    FMantleDBChunk.MaxPossibleAlignmentPadding A mr = ArchetypeAlignmentSum A mr := by
  unfold FMantleDBChunk.MaxPossibleAlignmentPadding ArchetypeAlignmentSum
  rw [← PresentTypes_map_snd A mr hvalid, List.map_map]
  rfl

theorem ArchetypeByteSize_pos (A : TBitArray) (mr : FMantleDBMasterRecord)
    (hne : TypesPresentIn A mr ≠ [])
    (hvalid : ∀ Info ∈ TypesPresentIn A mr,
      Info.Name ≠ "" ∧ 0 < Info.StructSize ∧ 0 < Info.StructAlignment) :
    0 < ArchetypeByteSize A mr := by
  unfold ArchetypeByteSize
  apply List.sum_pos
  · intro x hx
    obtain ⟨Info, hInfo, rfl⟩ := List.mem_map.1 hx
    exact (hvalid Info hInfo).2.1
  · simpa using hne

/-- C3. Capacity law: for an archetype with at least one component type, all of them valid
(non-empty name, size > 0, alignment > 0), every chunk the constructor yields has
`TotalCapacity = floor((chunk_byte_budget - P) / B)`, with `B` the sum of the byte sizes and `P`
the sum of the alignments of the types present; and the constructor does yield a chunk whenever
that floor is at least 1 (otherwise it ends in the fatal error). -/
theorem C3_capacity_law (NewChunkId : FGuid) (A : TBitArray) (mr : FMantleDBMasterRecord)
    (hne : TypesPresentIn A mr ≠ [])
    (hvalid : ∀ Info ∈ TypesPresentIn A mr,
      Info.Name ≠ "" ∧ 0 < Info.StructSize ∧ 0 < Info.StructAlignment) :
    (∀ c, FMantleDBChunk.Ctor NewChunkId A mr = .ok c →
        (c.TotalCapacity : ℤ) = SpecCapacity A mr) ∧
      (1 ≤ SpecCapacity A mr → ∃ c, FMantleDBChunk.Ctor NewChunkId A mr = .ok c) := by
  have hB := ArchetypeByteSize_pos A mr hne hvalid
  have hfloor : SpecCapacity A mr =
      (mr.ChunkComponentBlobSize - ArchetypeAlignmentSum A mr) / ArchetypeByteSize A mr := by
    unfold SpecCapacity
    have := floor_ratio_eq_ediv (mr.ChunkComponentBlobSize - ArchetypeAlignmentSum A mr)
      (ArchetypeByteSize A mr) hB
    push_cast at this
    exact this
  constructor
  · intro c hc
    unfold FMantleDBChunk.Ctor at hc
    rw [BytesPerEntity_eq A mr hvalid, MaxPossibleAlignmentPadding_eq A mr hvalid] at hc
    simp only [gt_iff_lt, hB, if_true] at hc
    split at hc
    · exact absurd hc (by simp)
    · rename_i hpos
      push_neg at hpos
      have hnn := tdiv_pos_imp_nonneg _ _ hB hpos
      injection hc with hc
      subst hc
      simp only
      rw [Int.toNat_of_nonneg hpos.le, Int.tdiv_eq_ediv hnn hB.le, hfloor]
  · intro h1
    rw [hfloor] at h1
    have hnn : 0 ≤ mr.ChunkComponentBlobSize - ArchetypeAlignmentSum A mr := by
      by_contra hneg
      push_neg at hneg
      have := Int.ediv_neg' hneg hB
      omega
    unfold FMantleDBChunk.Ctor
    rw [BytesPerEntity_eq A mr hvalid, MaxPossibleAlignmentPadding_eq A mr hvalid]
    simp only [gt_iff_lt, hB, if_true]
    rw [Int.tdiv_eq_ediv hnn hB.le]
    have : ¬ ((mr.ChunkComponentBlobSize - ArchetypeAlignmentSum A mr) /
        ArchetypeByteSize A mr ≤ 0) := by omega
    simp only [this, if_false]
    exact ⟨_, rfl⟩

/-- C3, at the archetype of `Test_AddEntity`: budget 131072, sizes 96 + 24, alignments 16 + 8
give a capacity of 1092. -/
theorem C3_capacity_law_witness :
    SpecCapacity [true, false, true] TestRecord = 1092 ∧
      ∃ c, FMantleDBChunk.Ctor 1 [true, false, true] TestRecord = .ok c ∧
        (c.TotalCapacity : ℤ) = 1092 := by
  have hspec : SpecCapacity [true, false, true] TestRecord = 1092 := by
    unfold SpecCapacity
    rw [Int.floor_eq_iff]
    norm_num [ArchetypeAlignmentSum, ArchetypeByteSize, TypesPresentIn, TestRecord, GetBit]
  have h := C3_capacity_law 1 [true, false, true] TestRecord (by decide) (by decide)
  refine ⟨hspec, ?_⟩
  obtain ⟨c, hc⟩ := h.2 (by rw [hspec]; norm_num)
  exact ⟨c, hc, by rw [h.1 c hc, hspec]⟩

/-! ## Swap-remove in a chunk -/

/-- The id list after `EntityIds[SwapIndex] = EntityIds[Last]; EntityIds.Pop()`. -/
theorem swap_pop_getElem? (l : List FGuid) (i j : Nat) (hi : i < l.length) :
    ((l.set i (l.getD (l.length - 1) 0)).dropLast)[j]? =
      if j < l.length - 1 then (if j = i then l[l.length - 1]? else l[j]?) else none := by
  rw [List.getElem?_dropLast, List.length_set]
  by_cases hj : j < l.length - 1
  · rw [if_pos hj, if_pos hj, List.getElem?_set]
    by_cases hji : j = i
    · subst hji
      rw [if_pos rfl, if_pos rfl, if_pos hi, List.getD_eq_getElem?_getD,
        List.getElem?_eq_getElem (by omega : l.length - 1 < l.length)]
      rfl
    · rw [if_neg (fun h => hji h.symm), if_neg hji]
  · rw [if_neg hj, if_neg hj]

theorem swap_pop_length (l : List FGuid) (i : Nat) (x : FGuid) :
    ((l.set i x).dropLast).length = l.length - 1 := by
  rw [List.length_dropLast, List.length_set]

/-- C5. Swap-remove: in a chunk holding `k >= 2` distinct entities, removing the entity of slot
`i < k - 1` (when the entity of the last slot has a record) succeeds; afterwards the entity
that was at slot `k - 1` is at slot `i`, its record is the old one with slot index `i`, and its
value in every column is the one it had; every other slot `j < k - 1` keeps its entity, that
entity's record and its column values; and the chunk holds `k - 1` entities. -/
theorem C5_swap_remove (c : FMantleDBChunk) (Entry : FMantleDBEntry)
    (mr : FMantleDBMasterRecord) (ToRemove : FMantleEntity) (bEntityWasMoved : Bool)
    (k : Nat) (hk : c.EntityIds.length = k) (h2 : 2 ≤ k) (hi : ToRemove.Index < k - 1)
    (hnodup : c.EntityIds.Nodup)
    (LastId : FGuid) (LastEntity : FMantleEntity)
    (hlast : c.EntityIds[k - 1]? = some LastId)
    (hrec : mr.EntitiesById.Find LastId = some LastEntity) :
    ∃ c1 Entry1 mr1,
      c.RemoveEntity Entry mr ToRemove bEntityWasMoved = .ok (c1, Entry1, mr1) ∧
      c1.EntityIds.length = k - 1 ∧
      c1.EntityIds[ToRemove.Index]? = some LastId ∧
      mr1.EntitiesById.Find LastId = some { LastEntity with Index := ToRemove.Index } ∧
      (∀ T, c1.GetComponentInternal T ToRemove.Index = c.GetComponentInternal T (k - 1)) ∧
      (∀ j, j < k - 1 → j ≠ ToRemove.Index →
        c1.EntityIds[j]? = c.EntityIds[j]? ∧
        (∀ Id, c.EntityIds[j]? = some Id →
          mr1.EntitiesById.Find Id = mr.EntitiesById.Find Id) ∧
        (∀ T, c1.GetComponentInternal T j = c.GetComponentInternal T j)) := by
  subst hk
  have hlt : ¬ ToRemove.Index ≥ c.EntityIds.length := by omega
  have hne : ¬ ToRemove.Index = c.EntityIds.length - 1 := by omega
  have hswap : ((c.EntityIds.set ToRemove.Index
      (c.EntityIds.getD (c.EntityIds.length - 1) 0)).dropLast).getD ToRemove.Index 0 = LastId := by
    rw [List.getD_eq_getElem?_getD, swap_pop_getElem? _ _ _ (by omega), if_pos hi, if_pos rfl,
      hlast]
    rfl
  unfold FMantleDBChunk.RemoveEntity
  simp only [hlt, if_false, hne, hswap, hrec]
  refine ⟨_, _, _, rfl, ?_, ?_, ?_, ?_, ?_⟩
  · exact swap_pop_length _ _ _
  · show ((c.EntityIds.set ToRemove.Index
      (c.EntityIds.getD (c.EntityIds.length - 1) 0)).dropLast)[ToRemove.Index]? = some LastId
    rw [swap_pop_getElem? _ _ _ (by omega), if_pos hi, if_pos rfl, hlast]
  · simp
  · intro T
    simp only [FMantleDBChunk.GetComponentInternal, FMantleDBChunk.CopySlot]
    cases hT : c.ComponentTypeInfo.Find T with
    | none => rfl
    | some Info => simp [TMap.Contains_of_Find hT]
  · intro j hj hji
    refine ⟨?_, ?_, ?_⟩
    · show ((c.EntityIds.set ToRemove.Index
        (c.EntityIds.getD (c.EntityIds.length - 1) 0)).dropLast)[j]? = c.EntityIds[j]?
      rw [swap_pop_getElem? _ _ _ (by omega), if_pos hj, if_neg hji]
    · intro Id hId
      have hidne : Id ≠ LastId := by
        intro h
        subst h
        have := List.getElem?_inj (by omega : j < c.EntityIds.length) hnodup (hId.trans hlast.symm)
        omega
      simp [TMap.Find_Add_of_ne _ _ _ _ hidne]
    · intro T
      simp only [FMantleDBChunk.GetComponentInternal, FMantleDBChunk.CopySlot]
      cases hT : c.ComponentTypeInfo.Find T with
      | none => rfl
      | some Info => simp [hji]

/-- C5, on a chunk holding the entities 2, 3, 4: removing slot 0 brings entity 4, with its
value 102, into slot 0. -/
theorem C5_swap_remove_witness :
    ∃ c1 Entry1 mr1,
      SwapChunk.RemoveEntity SwapEntry SwapRecord
          { Id := 2, Archetype := [true], ChunkId := 1, Index := 0 } false =
        .ok (c1, Entry1, mr1) ∧
      c1.EntityIds.length = 2 ∧ c1.EntityIds[0]? = some 4 ∧
      mr1.EntitiesById.Find 4 = some { Id := 4, Archetype := [true], ChunkId := 1, Index := 0 } ∧
      c1.GetComponentInternal "Big" 0 = some 102 ∧
      c1.EntityIds[1]? = some 3 ∧ c1.GetComponentInternal "Big" 1 = some 101 := by
  obtain ⟨c1, Entry1, mr1, h, hl, h0, hr, hc, hrest⟩ :=
    C5_swap_remove SwapChunk SwapEntry SwapRecord
      { Id := 2, Archetype := [true], ChunkId := 1, Index := 0 } false 3 rfl (by decide)
      (by decide) (by decide) 4 { Id := 4, Archetype := [true], ChunkId := 1, Index := 2 } rfl rfl
  obtain ⟨h1, _, hc1⟩ := hrest 1 (by decide) (by decide)
  exact ⟨c1, Entry1, mr1, h, hl, h0, hr, by rw [hc]; rfl, by rw [h1]; rfl, by rw [hc1]; rfl⟩

/-- C6 (the code departs from it). In a full chunk of two entities, removing the entity of the
last slot leaves the chunk with free capacity 1 but does not put its id back on the stack of
available chunks, so the next insertion allocates a second chunk; removing the entity of the
first slot does put the id back. -/
theorem C6_last_slot_removal_not_made_available :
    ∃ db dbLast dbFirst dbNext It,
      FullChunkRun = .ok db ∧
      (db.GetChunk [true] 1).map (fun c => (c.EntityIds, c.GetRemainingCapacity)) =
        some ([2, 3], 0) ∧
      db.RemoveEntities [3] = .ok dbLast ∧
      (dbLast.GetChunk [true] 1).map (fun c => (c.EntityIds, c.GetRemainingCapacity)) =
        some ([2], 1) ∧
      AvailableChunkIdsOf dbLast [true] = [] ∧
      dbLast.AddEntities 2 [⟨"Big", 8⟩] 1 = .ok (dbNext, It) ∧
      (dbNext.GetEntry [true]).map (fun e => e.AllChunkIds) = some [1, 4] ∧
      db.RemoveEntities [2] = .ok dbFirst ∧
      AvailableChunkIdsOf dbFirst [true] = [1] := by
  refine ⟨_, _, _, _, _, rfl, ?_, rfl, ?_, ?_, rfl, ?_, rfl, ?_⟩ <;> rfl

/-! ### What `RemoveEntity` leaves alone -/

theorem MakeAvailable_Chunks (e : FMantleDBEntry) (ChunkId : FGuid) :
    (e.MakeAvailable ChunkId).Chunks = e.Chunks ∧
      (e.MakeAvailable ChunkId).Archetype = e.Archetype ∧
      (e.MakeAvailable ChunkId).ComponentTypes = e.ComponentTypes ∧
      (e.MakeAvailable ChunkId).AllChunkIds = e.AllChunkIds := by
  unfold FMantleDBEntry.MakeAvailable
  split <;> simp

/-- Everything but the id list, the blob content, the stack of available chunks and the
entity index is left as it was. -/
theorem RemoveEntity_frame {c : FMantleDBChunk} {Entry : FMantleDBEntry}
    {mr : FMantleDBMasterRecord} {ToRemove : FMantleEntity} {b : Bool}
    {c1 : FMantleDBChunk} {Entry1 : FMantleDBEntry} {mr1 : FMantleDBMasterRecord}
    (h : c.RemoveEntity Entry mr ToRemove b = .ok (c1, Entry1, mr1)) :
    c1.ComponentTypeInfo = c.ComponentTypeInfo ∧ c1.Archetype = c.Archetype ∧
      c1.ChunkId = c.ChunkId ∧ c1.TotalCapacity = c.TotalCapacity ∧
      Entry1.Chunks = Entry.Chunks ∧ Entry1.Archetype = Entry.Archetype ∧
      Entry1.ComponentTypes = Entry.ComponentTypes ∧ Entry1.AllChunkIds = Entry.AllChunkIds ∧
      mr1.ComponentInfoMap = mr.ComponentInfoMap ∧
      mr1.ChunkComponentBlobSize = mr.ChunkComponentBlobSize ∧
      mr1.CachedQueries = mr.CachedQueries ∧ mr1.CachedEntries = mr.CachedEntries ∧
      mr1.NextGuid = mr.NextGuid := by
  unfold FMantleDBChunk.RemoveEntity at h
  split at h
  · cases h; simp
  · simp only at h
    split at h
    · split at h
      · cases h; simp
      · cases h
        simp only [FMantleDBChunk.DeallocateBlob, true_and]
        split <;> simp [MakeAvailable_Chunks]
    · split at h
      · cases h
      · cases h
        simp only [true_and]
        split <;> simp [MakeAvailable_Chunks]

/-- The result of `RemoveEntity` on the entity of the last slot. -/
theorem RemoveEntity_last {c : FMantleDBChunk} {Entry : FMantleDBEntry}
    {mr : FMantleDBMasterRecord} {ToRemove : FMantleEntity} {b : Bool}
    (hlen : 0 < c.EntityIds.length) (hi : ToRemove.Index = c.EntityIds.length - 1) :
    ∃ c1 Entry1, c.RemoveEntity Entry mr ToRemove b = .ok (c1, Entry1, mr) ∧
      c1.EntityIds = c.EntityIds.dropLast ∧ c1.Blob = c.Blob := by
  have hlt : ¬ c.EntityIds.length - 1 ≥ c.EntityIds.length := by omega
  have hids : (c.EntityIds.set (c.EntityIds.length - 1)
      (c.EntityIds.getD (c.EntityIds.length - 1) 0)).dropLast = c.EntityIds.dropLast := by
    apply List.ext_getElem?
    intro j
    rw [swap_pop_getElem? _ _ _ (by omega), List.getElem?_dropLast]
    by_cases hj : j < c.EntityIds.length - 1
    · rw [if_pos hj, if_pos hj, if_neg (by omega)]
    · rw [if_neg hj, if_neg hj]
  unfold FMantleDBChunk.RemoveEntity
  simp only [hi, hlt, if_false, if_true, hids]
  by_cases hpos : c.EntityIds.length - 1 > 0
  · rw [if_pos hpos]
    exact ⟨_, _, rfl, rfl, rfl⟩
  · rw [if_neg hpos]
    exact ⟨_, _, rfl, rfl, rfl⟩

/-- The result of `RemoveEntity` on an entity that is not in the last slot. -/
theorem RemoveEntity_inner {c : FMantleDBChunk} {Entry : FMantleDBEntry}
    {mr : FMantleDBMasterRecord} {ToRemove : FMantleEntity} {b : Bool}
    {LastId : FGuid} {LastEntity : FMantleEntity}
    (hi : ToRemove.Index < c.EntityIds.length - 1)
    (hlast : c.EntityIds[c.EntityIds.length - 1]? = some LastId)
    (hrec : mr.EntitiesById.Find LastId = some LastEntity) :
    ∃ c1 Entry1 mr1, c.RemoveEntity Entry mr ToRemove b = .ok (c1, Entry1, mr1) ∧
      c1.EntityIds =
        (c.EntityIds.set ToRemove.Index (c.EntityIds.getD (c.EntityIds.length - 1) 0)).dropLast ∧
      c1.Blob = c.CopySlot (c.EntityIds.length - 1) ToRemove.Index ∧
      mr1.EntitiesById =
        mr.EntitiesById.Add LastId { LastEntity with Index := ToRemove.Index } := by
  have hlt : ¬ ToRemove.Index ≥ c.EntityIds.length := by omega
  have hne : ¬ ToRemove.Index = c.EntityIds.length - 1 := by omega
  have hswap : ((c.EntityIds.set ToRemove.Index
      (c.EntityIds.getD (c.EntityIds.length - 1) 0)).dropLast).getD ToRemove.Index 0 = LastId := by
    rw [List.getD_eq_getElem?_getD, swap_pop_getElem? _ _ _ (by omega), if_pos hi, if_pos rfl,
      hlast]
    rfl
  unfold FMantleDBChunk.RemoveEntity
  simp only [hlt, if_false, hne, hswap, hrec]
  exact ⟨_, _, _, rfl, rfl, rfl, rfl⟩

/-! ## Stripping every component leaves the entity record behind -/

/-- C8 (the code departs from it). One entity with a `Position` has the `Position` removed by
`UpdateEntities`; the call succeeds (it returns a valid iterator over the bare archetype that
holds the entity), the entity is now listed by the chunk of the bare archetype, but its record
still carries the old archetype, chunk and slot: `HasComponent<Position>` is still true and
`GetComponent<Position>` is not null. -/
theorem C8_strip_to_bare_keeps_old_record :
    StripRun = .ok (StripDB, StripIterator) ∧
      StripIterator.IsValid StripDB.MasterRecord = true ∧
      StripIterator.LocalCache.QueryArchetype = [false] ∧
      StripIterator.LocalCache.MatchingEntries.map (fun e => e.ChunkedEntityIds) = [[[2]]] ∧
      StripDB.MasterRecord.EntitiesById.Find 2 =
        some { Id := 2, Archetype := [true], ChunkId := 1, Index := 0 } ∧
      StripDB.HasEntity 2 = true ∧
      StripDB.HasComponent "Position" 2 = true ∧
      StripDB.GetComponent "Position" 2 = some 7 := by
  refine ⟨rfl, ?_, ?_, ?_, ?_, ?_, ?_, ?_⟩ <;> rfl

/-- C7 (the code departs from it). The state reached by creating one entity with a
`Position` and removing the `Position` by `UpdateEntities` violates the entity-location
invariant: the record of entity 2 names slot 0 of chunk 1 of the old archetype, which holds no
entity, while the chunk of the bare archetype, which holds the id, is not the one recorded. -/
theorem C7_strip_to_bare_breaks_location_invariant :
    StripRun = .ok (StripDB, StripIterator) ∧
      (StripDB.GetChunk [true] 1).map (fun c => c.EntityIds) = some [] ∧
      (StripDB.GetChunk [false] 3).map (fun c => c.EntityIds) = some [2] ∧
      ¬ EntityLocationInv StripDB := by
  refine ⟨rfl, rfl, rfl, ?_⟩
  intro h
  obtain ⟨Chunk, hc, hslot⟩ :=
    h.record_located 2 { Id := 2, Archetype := [true], ChunkId := 1, Index := 0 } rfl
  have hids : (StripDB.GetChunk [true] 1).map (fun c => c.EntityIds) = some [] := rfl
  rw [show StripDB.GetChunk [true] 1 = some Chunk from hc] at hids
  simp only [Option.map_some', Option.some.injEq] at hids
  rw [hids] at hslot
  simp at hslot

theorem StripQuery_entities (fuel : Nat) :
    StripQuery.2.AllEntities StripQuery.1.MasterRecord fuel = [] := by
  match fuel with
  | 0 => rfl
  | 1 => rfl
  | n + 2 => rfl

theorem StripQueryAll_entities (fuel : Nat) :
    StripQueryAll.2.AllEntities StripQueryAll.1.MasterRecord (fuel + 3) = [2] := rfl

/-- C1 (the code departs from it). After one entity with a `Position` had the `Position`
removed by `UpdateEntities`, the entity is live and `HasComponent<Position>` holds for it, yet
the (valid) result of the query requiring `Position` never yields it, however long it is
iterated; the query requiring nothing yields it. -/
theorem C1_query_misses_stripped_entity :
    StripRun = .ok (StripDB, StripIterator) ∧
      StripDB.HasEntity 2 = true ∧ StripDB.HasComponent "Position" 2 = true ∧
      StripQuery.2.IsValid StripQuery.1.MasterRecord = true ∧
      (∀ fuel, 2 ∉ StripQuery.2.AllEntities StripQuery.1.MasterRecord fuel) ∧
      (∀ fuel, StripQueryAll.2.AllEntities StripQueryAll.1.MasterRecord (fuel + 3) = [2]) := by
  refine ⟨rfl, rfl, rfl, rfl, ?_, StripQueryAll_entities⟩
  intro fuel
  rw [StripQuery_entities]
  simp

/-! ## `RemoveEntities` -/

/-- `RemoveEntity` on an entity of the chunk, in one statement for both branches. -/
theorem RemoveEntity_spec {c : FMantleDBChunk} {Entry : FMantleDBEntry}
    {mr : FMantleDBMasterRecord} {ToRemove : FMantleEntity} {b : Bool}
    {LastId : FGuid} {LastEntity : FMantleEntity}
    (hi : ToRemove.Index < c.EntityIds.length)
    (hlast : c.EntityIds[c.EntityIds.length - 1]? = some LastId)
    (hrec : mr.EntitiesById.Find LastId = some LastEntity) :
    ∃ c1 Entry1 mr1, c.RemoveEntity Entry mr ToRemove b = .ok (c1, Entry1, mr1) ∧
      c1.EntityIds =
        (c.EntityIds.set ToRemove.Index (c.EntityIds.getD (c.EntityIds.length - 1) 0)).dropLast ∧
      (∀ T j, c1.Blob T j =
        if ToRemove.Index < c.EntityIds.length - 1 ∧ c.ComponentTypeInfo.Contains T = true ∧
            j = ToRemove.Index
        then c.Blob T (c.EntityIds.length - 1) else c.Blob T j) ∧
      (∀ k, mr1.EntitiesById.Find k =
        if ToRemove.Index < c.EntityIds.length - 1 ∧ k = LastId
        then some { LastEntity with Index := ToRemove.Index } else mr.EntitiesById.Find k) := by
  by_cases hcase : ToRemove.Index < c.EntityIds.length - 1
  · obtain ⟨c1, Entry1, mr1, h, hids, hblob, hmr⟩ :=
      @RemoveEntity_inner c Entry mr ToRemove b LastId LastEntity hcase hlast hrec
    refine ⟨c1, Entry1, mr1, h, hids, ?_, ?_⟩
    · intro T j
      rw [hblob]
      simp only [FMantleDBChunk.CopySlot, hcase, true_and]
    · intro k
      rw [hmr, TMap.Find_Add]
      simp only [hcase, true_and]
  · have hi2 : ToRemove.Index = c.EntityIds.length - 1 := by omega
    obtain ⟨c1, Entry1, h, hids, hblob⟩ :=
      @RemoveEntity_last c Entry mr ToRemove b (by omega) hi2
    refine ⟨c1, Entry1, mr, h, ?_, ?_, ?_⟩
    · rw [hids]
      apply List.ext_getElem?
      intro j
      rw [swap_pop_getElem? _ _ _ hi, List.getElem?_dropLast]
      by_cases hj : j < c.EntityIds.length - 1
      · rw [if_pos hj, if_pos hj, if_neg (by omega)]
      · rw [if_neg hj, if_neg hj]
    · intro T j
      rw [hblob]
      simp only [hcase, false_and, if_false]
    · intro k
      simp only [hcase, false_and, if_false]

theorem MasterRecord_RemoveEntity_Find (mr : FMantleDBMasterRecord) (Id k : FGuid) :
    (mr.RemoveEntity Id).EntitiesById.Find k =
      if k = Id then none else mr.EntitiesById.Find k := by
  unfold FMantleDBMasterRecord.RemoveEntity
  by_cases hc : mr.EntitiesById.Contains Id = true
  · rw [if_pos hc]
    exact TMap.Find_Remove _ _ _
  · rw [if_neg hc]
    by_cases hk : k = Id
    · subst hk
      rw [if_pos rfl]
      exact (TMap.Contains_eq_false_iff _ _).1 (by simpa using hc)
    · rw [if_neg hk]

theorem MasterRecord_RemoveEntity_frame (mr : FMantleDBMasterRecord) (Id : FGuid) :
    (mr.RemoveEntity Id).ComponentInfoMap = mr.ComponentInfoMap := by
  unfold FMantleDBMasterRecord.RemoveEntity
  split <;> rfl

theorem GetChunk_eq_some_iff (db : UMantleDB) (A : TBitArray) (ChunkId : FGuid)
    (Chunk : FMantleDBChunk) :
    db.GetChunk A ChunkId = some Chunk ↔
      ∃ Entry, db.EntriesByArchetype.Find A = some Entry ∧ Entry.Chunks.Find ChunkId = some Chunk := by
  unfold UMantleDB.GetChunk
  cases h : db.EntriesByArchetype.Find A with
  | none => simp
  | some Entry => simp

theorem getElem?_lt_of_eq_some {α : Type} {l : List α} {i : Nat} {x : α} (h : l[i]? = some x) :
    i < l.length := by
  by_contra hn
  rw [List.getElem?_eq_none (by omega)] at h
  cases h

/-- Under the entity-location invariant an id sits in one slot only: the one its record names. -/
theorem EntityLocationInv.slot_unique {db : UMantleDB} (hinv : EntityLocationInv db)
    {A : TBitArray} {ChunkId : FGuid} {Chunk : FMantleDBChunk} {j : Nat} {k : FGuid}
    {Entity : FMantleEntity}
    (hc : db.GetChunk A ChunkId = some Chunk) (hj : Chunk.EntityIds[j]? = some k)
    (hk : db.MasterRecord.EntitiesById.Find k = some Entity) :
    Entity.Archetype = A ∧ Entity.ChunkId = ChunkId ∧ Entity.Index = j := by
  obtain ⟨E, hE, h1, h2, h3⟩ := hinv.slot_recorded A ChunkId Chunk j k hc hj
  rw [hk] at hE
  cases hE
  exact ⟨h1, h2, h3⟩

theorem GetComponent_of_record {db : UMantleDB} {T : FString} {k : FGuid} {E : FMantleEntity}
    (h : db.MasterRecord.EntitiesById.Find k = some E) :
    db.GetComponent T k =
      if db.MasterRecord.ArchetypeHasComponent E.Archetype T = false then none
      else (db.GetChunk E.Archetype E.ChunkId).bind
        (fun Chunk => Chunk.GetComponentInternal T E.Index) := by
  unfold UMantleDB.GetComponent
  rw [h]
  simp only
  split
  · rfl
  · cases db.GetChunk E.Archetype E.ChunkId <;> rfl

theorem GetComponent_of_no_record {db : UMantleDB} {T : FString} {k : FGuid}
    (h : db.MasterRecord.EntitiesById.Find k = none) : db.GetComponent T k = none := by
  unfold UMantleDB.GetComponent
  rw [h]

theorem ArchetypeHasComponent_congr {mr1 mr : FMantleDBMasterRecord}
    (h : mr1.ComponentInfoMap = mr.ComponentInfoMap) (A : TBitArray) (T : FString) :
    mr1.ArchetypeHasComponent A T = mr.ArchetypeHasComponent A T := by
  unfold FMantleDBMasterRecord.ArchetypeHasComponent
  rw [h]

/-- The state a removal step produces, described by its lookups: the record of `Id` is gone,
the record of the entity `LastId` that sat in the last slot carries the slot index of `Id`
(when `Id` was not itself in the last slot), the chunk is swap-removed, all else is as before.
Such a step keeps the invariants and the components of all other entities. -/
theorem removal_step_sound {db db1 : UMantleDB} (hkey : EntityIndexKeyed db)
    (hinv : EntityLocationInv db) {Id : FGuid} {Entity : FMantleEntity}
    (hfind : db.MasterRecord.EntitiesById.Find Id = some Entity)
    {C c1 : FMantleDBChunk} (hC : db.GetChunk Entity.Archetype Entity.ChunkId = some C)
    {LastId : FGuid} {LastEntity : FMantleEntity}
    (hlast : C.EntityIds[C.EntityIds.length - 1]? = some LastId)
    (hrec : db.MasterRecord.EntitiesById.Find LastId = some LastEntity)
    (hinfo : db1.MasterRecord.ComponentInfoMap = db.MasterRecord.ComponentInfoMap)
    (hcti : c1.ComponentTypeInfo = C.ComponentTypeInfo)
    (hids : c1.EntityIds =
      (C.EntityIds.set Entity.Index (C.EntityIds.getD (C.EntityIds.length - 1) 0)).dropLast)
    (hblob : ∀ T j, c1.Blob T j =
      if Entity.Index < C.EntityIds.length - 1 ∧ C.ComponentTypeInfo.Contains T = true ∧
          j = Entity.Index
      then C.Blob T (C.EntityIds.length - 1) else C.Blob T j)
    (hFind1 : ∀ k, db1.MasterRecord.EntitiesById.Find k =
      if k = Id then none
      else if Entity.Index < C.EntityIds.length - 1 ∧ k = LastId
        then some { LastEntity with Index := Entity.Index }
        else db.MasterRecord.EntitiesById.Find k)
    (hGet1 : ∀ A ChunkId, db1.GetChunk A ChunkId =
      if A = Entity.Archetype ∧ ChunkId = Entity.ChunkId then some c1
      else db.GetChunk A ChunkId) :
    EntityIndexKeyed db1 ∧ EntityLocationInv db1 ∧
      db1.MasterRecord.EntitiesById.Find Id = none ∧
      (∀ k, k ≠ Id →
        (db1.MasterRecord.EntitiesById.Find k).map (fun e => e.Archetype) =
          (db.MasterRecord.EntitiesById.Find k).map (fun e => e.Archetype) ∧
        ∀ T, db1.GetComponent T k = db.GetComponent T k) := by
  obtain ⟨C', hC', hslot⟩ := hinv.record_located Id Entity hfind
  rw [hC] at hC'
  cases hC'
  have hi : Entity.Index < C.EntityIds.length := getElem?_lt_of_eq_some hslot
  obtain ⟨hLA, hLC, hLI⟩ := hinv.slot_unique hC hlast hrec
  -- the ids of the chunk after the step
  have hids1 : ∀ j, c1.EntityIds[j]? =
      if j < C.EntityIds.length - 1 then
        (if j = Entity.Index then C.EntityIds[C.EntityIds.length - 1]? else C.EntityIds[j]?)
      else none := by
    intro j
    rw [hids, swap_pop_getElem? _ _ _ hi]
  -- an id in another slot of the chunk is another id
  have hother : ∀ j k, C.EntityIds[j]? = some k → j ≠ Entity.Index → k ≠ Id := by
    intro j k hj hne hk
    subst hk
    exact hne (hinv.slot_unique hC hj hfind).2.2.symm
  have hlastne : Entity.Index < C.EntityIds.length - 1 → LastId ≠ Id :=
    fun h => hother _ _ hlast (by omega)
  have hnotlast : ∀ j k, C.EntityIds[j]? = some k → j < C.EntityIds.length - 1 → k ≠ LastId := by
    intro j k hj hlt hk
    subst hk
    have := (hinv.slot_unique hC hj hrec).2.2
    omega
  refine ⟨?_, ⟨?_, ?_⟩, ?_, ?_⟩
  · -- keyed
    intro k E hk
    rw [hFind1] at hk
    split at hk
    · cases hk
    · split at hk
      · rename_i hcond
        cases hk
        simp only
        rw [hcond.2]
        exact hkey _ _ hrec
      · exact hkey _ _ hk
  · -- record_located
    intro k E hk
    rw [hFind1] at hk
    split at hk
    · cases hk
    · rename_i hkid
      split at hk
      · rename_i hcond
        cases hk
        simp only
        refine ⟨c1, ?_, ?_⟩
        · rw [hGet1, hLA, hLC, if_pos ⟨rfl, rfl⟩]
        · rw [hids1, if_pos hcond.1, if_pos rfl, hlast, hcond.2]
      · rename_i hcond
        obtain ⟨Ck, hCk, hslotk⟩ := hinv.record_located k E hk
        by_cases hsame : E.Archetype = Entity.Archetype ∧ E.ChunkId = Entity.ChunkId
        · refine ⟨c1, ?_, ?_⟩
          · rw [hGet1, if_pos hsame]
          · rw [hsame.1, hsame.2, hC] at hCk
            cases hCk
            have hne : E.Index ≠ Entity.Index := by
              intro he
              rw [he, hslot] at hslotk
              cases hslotk
              exact hkid rfl
            have hlt := getElem?_lt_of_eq_some hslotk
            have hne2 : E.Index ≠ C.EntityIds.length - 1 := by
              intro he
              rw [he, hlast] at hslotk
              cases hslotk
              apply hcond
              refine ⟨?_, rfl⟩
              omega
            rw [hids1, if_pos (by omega), if_neg hne]
            exact hslotk
        · refine ⟨Ck, ?_, hslotk⟩
          rw [hGet1, if_neg hsame]
          exact hCk
  · -- slot_recorded
    intro A ChunkId Chunk j k hc hj
    rw [hGet1] at hc
    split at hc
    · rename_i hsame
      cases hc
      rw [hids1] at hj
      split at hj
      · rename_i hjlt
        split at hj
        · rename_i hji
          rw [hlast] at hj
          cases hj
          subst hji
          refine ⟨{ LastEntity with Index := Entity.Index }, ?_, ?_, ?_, rfl⟩
          · rw [hFind1, if_neg (hlastne hjlt), if_pos ⟨hjlt, rfl⟩]
          · simp only; rw [hLA, hsame.1]
          · simp only; rw [hLC, hsame.2]
        · rename_i hji
          obtain ⟨E, hE, h1, h2, h3⟩ :=
            hinv.slot_recorded Entity.Archetype Entity.ChunkId C j k hC hj
          refine ⟨E, ?_, by rw [h1, hsame.1], by rw [h2, hsame.2], h3⟩
          rw [hFind1, if_neg (hother j k hj hji), if_neg]
          · exact hE
          · intro hcond
            exact hnotlast j k hj hjlt hcond.2
      · cases hj
    · rename_i hsame
      obtain ⟨E, hE, h1, h2, h3⟩ := hinv.slot_recorded A ChunkId Chunk j k hc hj
      refine ⟨E, ?_, h1, h2, h3⟩
      have hk1 : k ≠ Id := by
        intro hk
        subst hk
        rw [hfind] at hE
        cases hE
        exact hsame ⟨h1.symm, h2.symm⟩
      have hk2 : k ≠ LastId := by
        intro hk
        subst hk
        rw [hrec] at hE
        cases hE
        exact hsame ⟨h1.symm.trans hLA, h2.symm.trans hLC⟩
      rw [hFind1, if_neg hk1, if_neg (fun hcond => hk2 hcond.2)]
      exact hE
  · rw [hFind1, if_pos rfl]
  · intro k hk
    constructor
    · rw [hFind1, if_neg hk]
      by_cases hcond : Entity.Index < C.EntityIds.length - 1 ∧ k = LastId
      · rw [if_pos hcond, hcond.2, hrec]
        rfl
      · rw [if_neg hcond]
    · intro T
      by_cases hcond : Entity.Index < C.EntityIds.length - 1 ∧ k = LastId
      · have h1 : db1.MasterRecord.EntitiesById.Find k =
            some { LastEntity with Index := Entity.Index } := by
          rw [hFind1, if_neg hk, if_pos hcond]
        have h0 : db.MasterRecord.EntitiesById.Find k = some LastEntity := by
          rw [hcond.2]; exact hrec
        have hch1 : db1.GetChunk LastEntity.Archetype LastEntity.ChunkId = some c1 := by
          rw [hGet1, if_pos ⟨hLA, hLC⟩]
        have hch0 : db.GetChunk LastEntity.Archetype LastEntity.ChunkId = some C := by
          rw [hLA, hLC]; exact hC
        have hci : c1.GetComponentInternal T Entity.Index =
            C.GetComponentInternal T LastEntity.Index := by
          simp only [FMantleDBChunk.GetComponentInternal, hcti]
          cases hT : C.ComponentTypeInfo.Find T with
          | none => rfl
          | some Info =>
            simp only [hLI]
            rw [hblob, if_pos ⟨hcond.1, TMap.Contains_of_Find hT, rfl⟩]
        rw [GetComponent_of_record h1, GetComponent_of_record h0,
          ArchetypeHasComponent_congr hinfo]
        simp only [hch1, hch0, Option.some_bind, hci]
      · have h1 : db1.MasterRecord.EntitiesById.Find k = db.MasterRecord.EntitiesById.Find k := by
          rw [hFind1, if_neg hk, if_neg hcond]
        cases hE : db.MasterRecord.EntitiesById.Find k with
        | none =>
          rw [hE] at h1
          rw [GetComponent_of_no_record h1, GetComponent_of_no_record hE]
        | some E =>
          rw [hE] at h1
          rw [GetComponent_of_record h1, GetComponent_of_record hE,
            ArchetypeHasComponent_congr hinfo, hGet1]
          by_cases hsame : E.Archetype = Entity.Archetype ∧ E.ChunkId = Entity.ChunkId
          · have hch0 : db.GetChunk E.Archetype E.ChunkId = some C := by
              rw [hsame.1, hsame.2]; exact hC
            have hne : E.Index ≠ Entity.Index := by
              intro he
              obtain ⟨Ck, hCk, hslotk⟩ := hinv.record_located k E hE
              rw [hch0] at hCk
              cases hCk
              rw [he, hslot] at hslotk
              cases hslotk
              exact hk rfl
            have hci : c1.GetComponentInternal T E.Index = C.GetComponentInternal T E.Index := by
              simp only [FMantleDBChunk.GetComponentInternal, hcti]
              cases hT : C.ComponentTypeInfo.Find T with
              | none => rfl
              | some Info =>
                simp only
                rw [hblob, if_neg (fun hc3 => hne hc3.2.2)]
            rw [if_pos hsame, hch0]
            simp only [Option.some_bind, hci]
          · rw [if_neg hsame]

/-- One turn of the loop of `RemoveEntities` on a known id, under the invariants. -/
theorem RemoveEntitiesLoop_step {db : UMantleDB} (hkey : EntityIndexKeyed db)
    (hinv : EntityLocationInv db) {Id : FGuid} (hid : Id ≠ 0) {Entity : FMantleEntity}
    (hfind : db.MasterRecord.EntitiesById.Find Id = some Entity) :
    ∃ db1 A,
      (∀ rest M, UMantleDB.RemoveEntitiesLoop (Id :: rest) db M =
        UMantleDB.RemoveEntitiesLoop rest db1 (TSetAdd M A)) ∧
      db1.MasterRecord.ComponentInfoMap = db.MasterRecord.ComponentInfoMap ∧
      EntityIndexKeyed db1 ∧ EntityLocationInv db1 ∧
      db1.MasterRecord.EntitiesById.Find Id = none ∧
      (∀ k, k ≠ Id →
        (db1.MasterRecord.EntitiesById.Find k).map (fun e => e.Archetype) =
          (db.MasterRecord.EntitiesById.Find k).map (fun e => e.Archetype) ∧
        ∀ T, db1.GetComponent T k = db.GetComponent T k) := by
  obtain ⟨C, hC, hslot⟩ := hinv.record_located Id Entity hfind
  obtain ⟨E, hE, hEC⟩ := (GetChunk_eq_some_iff _ _ _ _).1 hC
  have hi : Entity.Index < C.EntityIds.length := getElem?_lt_of_eq_some hslot
  obtain ⟨LastId, hlast⟩ : ∃ y, C.EntityIds[C.EntityIds.length - 1]? = some y :=
    ⟨_, List.getElem?_eq_getElem (by omega)⟩
  obtain ⟨LastEntity, hrec, -, -, -⟩ := hinv.slot_recorded _ _ _ _ _ hC hlast
  obtain ⟨c1, E1, mr1, hrem, hids, hblob, hmr⟩ :=
    @RemoveEntity_spec C E db.MasterRecord Entity false LastId LastEntity hi hlast hrec
  obtain ⟨hcti, -, -, -, hch, -, -, -, hinfo, -, -, -, -⟩ := RemoveEntity_frame hrem
  have hEid : Entity.Id = Id := hkey _ _ hfind
  let db1 : UMantleDB :=
    { db with
      EntriesByArchetype :=
        db.EntriesByArchetype.Add Entity.Archetype
          { E1 with Chunks := E1.Chunks.Add Entity.ChunkId c1 },
      MasterRecord := mr1.RemoveEntity Entity.Id }
  have hloop : ∀ rest M, UMantleDB.RemoveEntitiesLoop (Id :: rest) db M =
      UMantleDB.RemoveEntitiesLoop rest db1 (TSetAdd M c1.Archetype) := by
    intro rest M
    rw [UMantleDB.RemoveEntitiesLoop]
    simp only [hid, if_false, hfind, hE, hEC, hrem]
  have hinfo1 : db1.MasterRecord.ComponentInfoMap = db.MasterRecord.ComponentInfoMap := by
    show (mr1.RemoveEntity Entity.Id).ComponentInfoMap = _
    rw [MasterRecord_RemoveEntity_frame, hinfo]
  have hFind1 : ∀ k, db1.MasterRecord.EntitiesById.Find k =
      if k = Id then none
      else if Entity.Index < C.EntityIds.length - 1 ∧ k = LastId
        then some { LastEntity with Index := Entity.Index }
        else db.MasterRecord.EntitiesById.Find k := by
    intro k
    show (mr1.RemoveEntity Entity.Id).EntitiesById.Find k = _
    rw [MasterRecord_RemoveEntity_Find, hEid, hmr]
  have hGet1 : ∀ A ChunkId, db1.GetChunk A ChunkId =
      if A = Entity.Archetype ∧ ChunkId = Entity.ChunkId then some c1
      else db.GetChunk A ChunkId := by
    intro A ChunkId
    show (match (db.EntriesByArchetype.Add Entity.Archetype
        { E1 with Chunks := E1.Chunks.Add Entity.ChunkId c1 }).Find A with
      | none => none
      | some Entry => Entry.Chunks.Find ChunkId) = _
    rw [TMap.Find_Add]
    by_cases hA : A = Entity.Archetype
    · subst hA
      simp only [if_true, true_and]
      rw [TMap.Find_Add, hch]
      by_cases hcid : ChunkId = Entity.ChunkId
      · rw [if_pos hcid, if_pos hcid]
      · rw [if_neg hcid, if_neg hcid]
        unfold UMantleDB.GetChunk
        rw [hE]
    · rw [if_neg hA, if_neg (fun h => hA h.1)]
      rfl
  obtain ⟨h1, h2, h3, h4⟩ :=
    removal_step_sound hkey hinv hfind hC hlast hrec hinfo1 hcti hids hblob hFind1 hGet1
  exact ⟨db1, c1.Archetype, hloop, hinfo1, h1, h2, h3, h4⟩

theorem Find_none_of_map_eq {db db1 : UMantleDB} {k : FGuid}
    (h : (db1.MasterRecord.EntitiesById.Find k).map (fun e => e.Archetype) =
      (db.MasterRecord.EntitiesById.Find k).map (fun e => e.Archetype))
    (hn : db.MasterRecord.EntitiesById.Find k = none) :
    db1.MasterRecord.EntitiesById.Find k = none := by
  rw [hn] at h
  simpa using h

/-- The loop of `RemoveEntities` under the invariants: it ends without error, keeps the
invariants, removes the records of the listed ids and leaves all other entities alone. -/
theorem RemoveEntitiesLoop_sound (ids : List FGuid) :
    ∀ (db : UMantleDB) (M : List TBitArray), EntityIndexKeyed db → EntityLocationInv db →
      ∃ db1 M1, UMantleDB.RemoveEntitiesLoop ids db M = .ok (db1, M1) ∧
        EntityIndexKeyed db1 ∧ EntityLocationInv db1 ∧
        db1.MasterRecord.ComponentInfoMap = db.MasterRecord.ComponentInfoMap ∧
        (∀ k, db.MasterRecord.EntitiesById.Find k = none →
          db1.MasterRecord.EntitiesById.Find k = none) ∧
        (∀ k ∈ ids, k ≠ 0 → db1.MasterRecord.EntitiesById.Find k = none) ∧
        (∀ k, k ∉ ids →
          (db1.MasterRecord.EntitiesById.Find k).map (fun e => e.Archetype) =
            (db.MasterRecord.EntitiesById.Find k).map (fun e => e.Archetype) ∧
          ∀ T, db1.GetComponent T k = db.GetComponent T k) := by
  induction ids with
  | nil =>
    intro db M hkey hinv
    exact ⟨db, M, rfl, hkey, hinv, rfl, fun _ h => h, fun _ h => by simp at h,
      fun _ _ => ⟨rfl, fun _ => rfl⟩⟩
  | cons Id rest ih =>
    intro db M hkey hinv
    by_cases hid : Id = 0
    · obtain ⟨db1, M1, hl, hk1, hi1, hc1, hmono, hrem, hfr⟩ := ih db M hkey hinv
      refine ⟨db1, M1, ?_, hk1, hi1, hc1, hmono, ?_, ?_⟩
      · rw [UMantleDB.RemoveEntitiesLoop, if_pos hid]; exact hl
      · intro k hk hk0
        rcases List.mem_cons.1 hk with h | h
        · exact absurd (h.trans hid) hk0
        · exact hrem k h hk0
      · intro k hk
        exact hfr k (fun h => hk (List.mem_cons_of_mem _ h))
    · cases hfind : db.MasterRecord.EntitiesById.Find Id with
      | none =>
        obtain ⟨db1, M1, hl, hk1, hi1, hc1, hmono, hrem, hfr⟩ := ih db M hkey hinv
        refine ⟨db1, M1, ?_, hk1, hi1, hc1, hmono, ?_, ?_⟩
        · rw [UMantleDB.RemoveEntitiesLoop, if_neg hid]
          simp only [hfind]
          exact hl
        · intro k hk hk0
          rcases List.mem_cons.1 hk with h | h
          · rw [h]; exact hmono _ hfind
          · exact hrem k h hk0
        · intro k hk
          exact hfr k (fun h => hk (List.mem_cons_of_mem _ h))
      | some Entity =>
        obtain ⟨db', A, hstep, hc', hk', hi', hnone, hfr'⟩ :=
          RemoveEntitiesLoop_step hkey hinv hid hfind
        obtain ⟨db1, M1, hl, hk1, hi1, hc1, hmono, hrem, hfr⟩ := ih db' (TSetAdd M A) hk' hi'
        have hmono' : ∀ k, db.MasterRecord.EntitiesById.Find k = none →
            db'.MasterRecord.EntitiesById.Find k = none := by
          intro k hk
          by_cases hkid : k = Id
          · rw [hkid]; exact hnone
          · exact Find_none_of_map_eq (hfr' k hkid).1 hk
        refine ⟨db1, M1, ?_, hk1, hi1, hc1.trans hc', fun k hk => hmono k (hmono' k hk), ?_, ?_⟩
        · rw [hstep]; exact hl
        · intro k hk hk0
          rcases List.mem_cons.1 hk with h | h
          · rw [h]; exact hmono _ hnone
          · exact hrem k h hk0
        · intro k hk
          have hkid : k ≠ Id := fun h => hk (h ▸ List.mem_cons_self _ _)
          have hkrest : k ∉ rest := fun h => hk (List.mem_cons_of_mem _ h)
          obtain ⟨ha, hb⟩ := hfr k hkrest
          obtain ⟨ha', hb'⟩ := hfr' k hkid
          exact ⟨ha.trans ha', fun T => (hb T).trans (hb' T)⟩

/-- `EntryWasModified` touches the caches only. -/
theorem EntryWasModified_frame (db : UMantleDB) (A : TBitArray) :
    (db.EntryWasModified A).EntriesByArchetype = db.EntriesByArchetype ∧
      (db.EntryWasModified A).ActiveArchetypes = db.ActiveArchetypes ∧
      (db.EntryWasModified A).MasterRecord.EntitiesById = db.MasterRecord.EntitiesById ∧
      (db.EntryWasModified A).MasterRecord.ComponentInfoMap = db.MasterRecord.ComponentInfoMap ∧
      (db.EntryWasModified A).MasterRecord.ChunkComponentBlobSize =
        db.MasterRecord.ChunkComponentBlobSize ∧
      (db.EntryWasModified A).MasterRecord.NextGuid = db.MasterRecord.NextGuid ∧
      (db.EntryWasModified A).bIsInitialized = db.bIsInitialized := by
  unfold UMantleDB.EntryWasModified
  split <;> simp

theorem foldl_EntryWasModified_frame (M : List TBitArray) :
    ∀ db : UMantleDB,
      (M.foldl UMantleDB.EntryWasModified db).EntriesByArchetype = db.EntriesByArchetype ∧
        (M.foldl UMantleDB.EntryWasModified db).MasterRecord.EntitiesById =
          db.MasterRecord.EntitiesById ∧
        (M.foldl UMantleDB.EntryWasModified db).MasterRecord.ComponentInfoMap =
          db.MasterRecord.ComponentInfoMap := by
  induction M with
  | nil => intro db; exact ⟨rfl, rfl, rfl⟩
  | cons A rest ih =>
    intro db
    obtain ⟨h1, h2, h3⟩ := ih (db.EntryWasModified A)
    obtain ⟨f1, -, f3, f4, -⟩ := EntryWasModified_frame db A
    exact ⟨h1.trans f1, h2.trans f3, h3.trans f4⟩

/-- The lookups of entities and components read only the entries, the entity index and the
registry. -/
theorem GetComponent_congr {db1 db : UMantleDB}
    (h1 : db1.EntriesByArchetype = db.EntriesByArchetype)
    (h2 : db1.MasterRecord.EntitiesById = db.MasterRecord.EntitiesById)
    (h3 : db1.MasterRecord.ComponentInfoMap = db.MasterRecord.ComponentInfoMap)
    (T : FString) (k : FGuid) : db1.GetComponent T k = db.GetComponent T k := by
  unfold UMantleDB.GetComponent UMantleDB.GetChunk FMantleDBMasterRecord.ArchetypeHasComponent
  rw [h1, h2, h3]

theorem EntityLocationInv_congr {db1 db : UMantleDB}
    (h1 : db1.EntriesByArchetype = db.EntriesByArchetype)
    (h2 : db1.MasterRecord.EntitiesById = db.MasterRecord.EntitiesById)
    (h : EntityLocationInv db) : EntityLocationInv db1 := by
  have hg : ∀ A c, db1.GetChunk A c = db.GetChunk A c := by
    intro A c
    unfold UMantleDB.GetChunk
    rw [h1]
  constructor
  · intro Id Entity hf
    rw [h2] at hf
    obtain ⟨Chunk, hc, hs⟩ := h.record_located Id Entity hf
    exact ⟨Chunk, by rw [hg]; exact hc, hs⟩
  · intro A ChunkId Chunk i Id hc hs
    rw [hg] at hc
    obtain ⟨E, hE, r⟩ := h.slot_recorded A ChunkId Chunk i Id hc hs
    exact ⟨E, by rw [h2]; exact hE, r⟩

/-- Ids that are invalid or unknown can be dropped from the list handed to the loop. -/
theorem RemoveEntitiesLoop_filter (P : FGuid → Bool) (ids : List FGuid) :
    ∀ (db : UMantleDB) (M : List TBitArray), EntityIndexKeyed db → EntityLocationInv db →
      (∀ k, P k = false → k = 0 ∨ db.MasterRecord.EntitiesById.Find k = none) →
      UMantleDB.RemoveEntitiesLoop ids db M = UMantleDB.RemoveEntitiesLoop (ids.filter P) db M := by
  induction ids with
  | nil => intro db M _ _ _; rfl
  | cons Id rest ih =>
    intro db M hkey hinv hP
    have hskip : (Id = 0 ∨ db.MasterRecord.EntitiesById.Find Id = none) →
        ∀ tail, UMantleDB.RemoveEntitiesLoop (Id :: tail) db M =
          UMantleDB.RemoveEntitiesLoop tail db M := by
      intro h tail
      rw [UMantleDB.RemoveEntitiesLoop]
      by_cases hid : Id = 0
      · rw [if_pos hid]
      · rw [if_neg hid]
        rcases h with h | h
        · exact absurd h hid
        · simp only [h]
    by_cases hs : Id = 0 ∨ db.MasterRecord.EntitiesById.Find Id = none
    · rw [hskip hs, ih db M hkey hinv hP, List.filter_cons]
      split
      · rw [hskip hs]
      · rfl
    · push_neg at hs
      obtain ⟨hid, hne⟩ := hs
      obtain ⟨Entity, hfind⟩ := Option.ne_none_iff_exists'.1 hne
      have hPid : P Id = true := by
        by_contra hp
        rcases hP Id (by simpa using hp) with h | h
        · exact hid h
        · exact hne h
      obtain ⟨db', A, hstep, -, hk', hi', hnone, hfr'⟩ :=
        RemoveEntitiesLoop_step hkey hinv hid hfind
      rw [List.filter_cons, if_pos hPid, hstep, hstep]
      apply ih db' _ hk' hi'
      intro k hk
      rcases hP k hk with h | h
      · exact Or.inl h
      · right
        by_cases hkid : k = Id
        · rw [hkid]; exact hnone
        · exact Find_none_of_map_eq (hfr' k hkid).1 h

theorem HasEntity_eq_false_iff (db : UMantleDB) (k : FGuid) :
    db.HasEntity k = false ↔ k = 0 ∨ db.MasterRecord.EntitiesById.Find k = none := by
  unfold UMantleDB.HasEntity
  rw [Bool.and_eq_false_iff, TMap.Contains_eq_false_iff]
  simp

/-- C10. In a state that satisfies the entity-location invariant (and whose entity index
stores every record under its own id), `RemoveEntities` ends without error; afterwards
`HasEntity` is false for every id of the list; every live entity outside the list is still
live, with the same archetype and the same `GetComponent` value for every component type; the
result is the one obtained from the list without its invalid (zero) and unknown ids; and the
invariant still holds. -/
theorem C10_remove_entities (db : UMantleDB) (EntityIds : List FGuid)
    (hkey : EntityIndexKeyed db) (hinv : EntityLocationInv db) :
    ∃ db1, db.RemoveEntities EntityIds = .ok db1 ∧
      (∀ Id ∈ EntityIds, db1.HasEntity Id = false) ∧
      (∀ Id, Id ∉ EntityIds → db.HasEntity Id = true →
        db1.HasEntity Id = true ∧
        (db1.MasterRecord.EntitiesById.Find Id).map (fun e => e.Archetype) =
          (db.MasterRecord.EntitiesById.Find Id).map (fun e => e.Archetype) ∧
        ∀ T, db1.GetComponent T Id = db.GetComponent T Id) ∧
      db.RemoveEntities (EntityIds.filter (fun Id => db.HasEntity Id)) = .ok db1 ∧
      EntityIndexKeyed db1 ∧ EntityLocationInv db1 := by
  obtain ⟨db', M1, hl, hk1, hi1, hc1, hmono, hrem, hfr⟩ :=
    RemoveEntitiesLoop_sound EntityIds db [] hkey hinv
  obtain ⟨g1, g2, g3⟩ := foldl_EntryWasModified_frame M1 db'
  have hfilter := RemoveEntitiesLoop_filter (fun Id => db.HasEntity Id) EntityIds db [] hkey hinv
    (fun k hk => (HasEntity_eq_false_iff db k).1 hk)
  refine ⟨M1.foldl UMantleDB.EntryWasModified db', ?_, ?_, ?_, ?_, ?_, ?_⟩
  · unfold UMantleDB.RemoveEntities
    rw [hl]
  · intro Id hId
    rw [HasEntity_eq_false_iff, g2]
    by_cases h0 : Id = 0
    · exact Or.inl h0
    · exact Or.inr (hrem Id hId h0)
  · intro Id hId hlive
    obtain ⟨ha, hb⟩ := hfr Id hId
    refine ⟨?_, by rw [g2]; exact ha, fun T => (GetComponent_congr g1 g2 g3 T Id).trans (hb T)⟩
    unfold UMantleDB.HasEntity at hlive ⊢
    rw [Bool.and_eq_true] at hlive ⊢
    refine ⟨hlive.1, ?_⟩
    obtain ⟨v, hv⟩ := (TMap.Contains_eq_true_iff _ _).1 hlive.2
    rw [g2]
    rw [hv] at ha
    cases hf : db'.MasterRecord.EntitiesById.Find Id with
    | none => rw [hf] at ha; simp at ha
    | some E => exact TMap.Contains_of_Find hf
  · unfold UMantleDB.RemoveEntities
    rw [← hfilter, hl]
  · intro Id E hE
    rw [g2] at hE
    exact hk1 Id E hE
  · exact EntityLocationInv_congr g1 g2 hi1

/-! ### A concrete state that satisfies the invariants -/

theorem FullChunkDB_entities :
    FullChunkDB.MasterRecord.EntitiesById =
      [(2, { Id := 2, Archetype := [true], ChunkId := 1, Index := 0 }),
        (3, { Id := 3, Archetype := [true], ChunkId := 1, Index := 1 })] := rfl

theorem FullChunkDB_entries :
    ∃ Bare Entry Chunk,
      FullChunkDB.EntriesByArchetype = [([false], Bare), ([true], Entry)] ∧
      Bare.Chunks = [] ∧ Entry.Chunks = [(1, Chunk)] ∧ Chunk.EntityIds = [2, 3] :=
  ⟨_, _, _, rfl, rfl, rfl, rfl⟩

theorem FullChunkDB_keyed : EntityIndexKeyed FullChunkDB := by
  intro Id E h
  rw [FullChunkDB_entities] at h
  simp only [TMap.Find] at h
  split at h
  · cases h; assumption
  · split at h
    · cases h; assumption
    · cases h

theorem FullChunkDB_GetChunk (A : TBitArray) (ChunkId : FGuid) (Chunk : FMantleDBChunk)
    (h : FullChunkDB.GetChunk A ChunkId = some Chunk) :
    A = [true] ∧ ChunkId = 1 ∧ Chunk.EntityIds = [2, 3] := by
  obtain ⟨Bare, Entry, C, he, hb, hc, hids⟩ := FullChunkDB_entries
  unfold UMantleDB.GetChunk at h
  rw [he] at h
  simp only [TMap.Find] at h
  split at h
  · cases h
  · rename_i E hE
    split at hE
    · cases hE
      rw [hb] at h
      cases h
    · split at hE
      · rename_i hA
        cases hE
        rw [hc] at h
        simp only [TMap.Find] at h
        split at h
        · rename_i hcid
          cases h
          exact ⟨hA.symm, hcid.symm, hids⟩
        · cases h
      · cases hE

theorem FullChunkDB_inv : EntityLocationInv FullChunkDB := by
  constructor
  · intro Id E h
    rw [FullChunkDB_entities] at h
    simp only [TMap.Find] at h
    split at h
    · rename_i hid
      cases h
      subst hid
      exact ⟨_, rfl, rfl⟩
    · split at h
      · rename_i hid
        cases h
        subst hid
        exact ⟨_, rfl, rfl⟩
      · cases h
  · intro A ChunkId Chunk i Id hc hs
    obtain ⟨hA, hcid, hids⟩ := FullChunkDB_GetChunk A ChunkId Chunk hc
    subst hA; subst hcid
    rw [hids] at hs
    match i, hs with
    | 0, hs => cases hs; exact ⟨_, rfl, rfl, rfl, rfl⟩
    | 1, hs => cases hs; exact ⟨_, rfl, rfl, rfl, rfl⟩
    | n + 2, hs => simp at hs

/-- C10, on the database holding the entities 2 and 3 in one chunk: removing the ids 3, 0 and
9 removes entity 3, skips the invalid id 0 and the unknown id 9, and entity 2 keeps its value. -/
theorem C10_remove_entities_witness :
    ∃ db1, FullChunkDB.RemoveEntities [3, 0, 9] = .ok db1 ∧
      db1.HasEntity 3 = false ∧ db1.HasEntity 2 = true ∧
      db1.GetComponent "Big" 2 = some 7 ∧
      FullChunkDB.RemoveEntities [3] = .ok db1 := by
  obtain ⟨db1, h, hgone, hkeep, hfilter, -, -⟩ :=
    C10_remove_entities FullChunkDB [3, 0, 9] FullChunkDB_keyed FullChunkDB_inv
  obtain ⟨h2, -, hc⟩ := hkeep 2 (by decide) rfl
  exact ⟨db1, h, hgone 3 (by decide), h2, (hc "Big").trans rfl, hfilter⟩

/-! ## Adding entities to a chunk -/

theorem RegisterEntity_frame (mr : FMantleDBMasterRecord) (A : TBitArray) (ChunkId : FGuid)
    (i : Nat) :
    (mr.RegisterEntity A ChunkId i).1 = mr.NextGuid ∧
      (mr.RegisterEntity A ChunkId i).2.NextGuid = mr.NextGuid + 1 ∧
      (mr.RegisterEntity A ChunkId i).2.ComponentInfoMap = mr.ComponentInfoMap ∧
      (mr.RegisterEntity A ChunkId i).2.ChunkComponentBlobSize = mr.ChunkComponentBlobSize ∧
      (mr.RegisterEntity A ChunkId i).2.CachedQueries = mr.CachedQueries ∧
      (mr.RegisterEntity A ChunkId i).2.CachedEntries = mr.CachedEntries :=
  ⟨rfl, rfl, rfl, rfl, rfl, rfl⟩

/-- The loop of `RegisterEntities` appends `Count` consecutive new guids to the id list and
touches nothing else of the chunk; of the master record it touches the entity index and the
guid counter only. -/
theorem RegisterEntitiesLoop_spec (Offset : Nat) (Count : Nat) :
    ∀ (EntityIndex : Nat) (c : FMantleDBChunk) (mr : FMantleDBMasterRecord),
      (FMantleDBChunk.RegisterEntitiesLoop Offset Count EntityIndex c mr).1 =
          { c with EntityIds := c.EntityIds ++ List.range' mr.NextGuid Count } ∧
        (FMantleDBChunk.RegisterEntitiesLoop Offset Count EntityIndex c mr).2.NextGuid =
          mr.NextGuid + Count ∧
        (FMantleDBChunk.RegisterEntitiesLoop Offset Count EntityIndex c mr).2.ComponentInfoMap =
          mr.ComponentInfoMap ∧
        (FMantleDBChunk.RegisterEntitiesLoop Offset Count EntityIndex c
            mr).2.ChunkComponentBlobSize = mr.ChunkComponentBlobSize ∧
        (FMantleDBChunk.RegisterEntitiesLoop Offset Count EntityIndex c mr).2.CachedQueries =
          mr.CachedQueries ∧
        (FMantleDBChunk.RegisterEntitiesLoop Offset Count EntityIndex c mr).2.CachedEntries =
          mr.CachedEntries := by
  induction Count with
  | zero =>
    intro EntityIndex c mr
    simp [FMantleDBChunk.RegisterEntitiesLoop]
  | succ k ih =>
    intro EntityIndex c mr
    rw [FMantleDBChunk.RegisterEntitiesLoop]
    obtain ⟨h1, h2, h3, h4, h5, h6⟩ := ih (EntityIndex + 1)
      { c with EntityIds := c.EntityIds ++
          [(mr.RegisterEntity c.Archetype c.ChunkId (Offset + EntityIndex)).1] }
      (mr.RegisterEntity c.Archetype c.ChunkId (Offset + EntityIndex)).2
    obtain ⟨f1, f2, f3, f4, f5, f6⟩ := RegisterEntity_frame mr c.Archetype c.ChunkId
      (Offset + EntityIndex)
    refine ⟨?_, ?_, ?_, ?_, ?_, ?_⟩
    · rw [h1, f1, f2]
      simp only [List.append_assoc, List.singleton_append]
      rw [List.range'_succ]
    · rw [h2, f2]; omega
    · rw [h3, f3]
    · rw [h4, f4]
    · rw [h5, f5]
    · rw [h6, f6]

/-- `RegisterEntities` in closed form. -/
theorem RegisterEntities_spec (c : FMantleDBChunk) (mr : FMantleDBMasterRecord) (n : Nat)
    (Out : FMantleCachedEntry) :
    (c.RegisterEntities mr n Out).1 =
        { c with EntityIds := c.EntityIds ++ List.range' mr.NextGuid n } ∧
      (c.RegisterEntities mr n Out).2.2 =
        { Out with ChunkedEntityIds := Out.ChunkedEntityIds ++ [List.range' mr.NextGuid n] } ∧
      (c.RegisterEntities mr n Out).2.1.NextGuid = mr.NextGuid + n ∧
      (c.RegisterEntities mr n Out).2.1.ComponentInfoMap = mr.ComponentInfoMap ∧
      (c.RegisterEntities mr n Out).2.1.ChunkComponentBlobSize = mr.ChunkComponentBlobSize ∧
      (c.RegisterEntities mr n Out).2.1.CachedQueries = mr.CachedQueries ∧
      (c.RegisterEntities mr n Out).2.1.CachedEntries = mr.CachedEntries := by
  obtain ⟨h1, h2, h3, h4, h5, h6⟩ := RegisterEntitiesLoop_spec c.EntityIds.length n 0 c mr
  have hlen : (FMantleDBChunk.RegisterEntitiesLoop c.EntityIds.length n 0 c mr).1.EntityIds.length -
      c.EntityIds.length = n := by
    rw [h1]; simp
  unfold FMantleDBChunk.RegisterEntities
  simp only [hlen]
  by_cases hn : n ≤ 0
  · have hn0 : n = 0 := by omega
    subst hn0
    simp only [le_refl, if_true]
    exact ⟨h1, by simp, h2, h3, h4, h5, h6⟩
  · rw [if_neg hn]
    refine ⟨h1, ?_, h2, h3, h4, h5, h6⟩
    simp only
    rw [h1]
    simp only [List.drop_left]
    rw [List.take_of_length_le (by simp)]

/-- The loop of `AddEntities` over the templates, when every template names a column of the
chunk and the blob is allocated: it ends without error, writes the slots `Old .. Old + k - 1`
of the columns named by the templates and nothing else, and records no entity-id view. -/
theorem AddComponentsLoop_spec (Old k : Nat) (Components : List FInstancedStruct) :
    ∀ (c : FMantleDBChunk) (Out : FMantleCachedEntry),
      (∀ p ∈ Components, ∃ Info, c.ComponentTypeInfo.Find p.TypeName = some Info) →
      c.bBlobAllocated = true →
      ∃ c1 Out1, FMantleDBChunk.AddComponentsLoop Old k Components c Out = .ok (c1, Out1) ∧
        c1.EntityIds = c.EntityIds ∧ c1.ComponentTypeInfo = c.ComponentTypeInfo ∧
        c1.TotalCapacity = c.TotalCapacity ∧ c1.Archetype = c.Archetype ∧
        c1.ChunkId = c.ChunkId ∧ c1.bBlobAllocated = true ∧
        Out1.ChunkedEntityIds = Out.ChunkedEntityIds ∧ Out1.Archetype = Out.Archetype ∧
        (∀ T i, ¬ (Old ≤ i ∧ i < Old + k) → c1.Blob T i = c.Blob T i) ∧
        (∀ T, (∀ p ∈ Components, p.TypeName ≠ T) → c1.Blob T = c.Blob T) ∧
        ((Components.map (fun p => p.TypeName)).Nodup →
          ∀ p ∈ Components, ∀ i, Old ≤ i → i < Old + k → c1.Blob p.TypeName i = p.Memory) := by
  induction Components with
  | nil =>
    intro c Out _ hb
    refine ⟨c, Out, rfl, rfl, rfl, rfl, rfl, rfl, hb, rfl, rfl, fun _ _ _ => rfl, fun _ _ => rfl,
      ?_⟩
    intro _ p hp
    simp at hp
  | cons q rest ih =>
    intro c Out hcols hb
    obtain ⟨Info, hInfo⟩ := hcols q (List.mem_cons_self _ _)
    have hloc : ¬ (k > 0 ∧ c.LocationIsValid = false) := by
      unfold FMantleDBChunk.LocationIsValid
      rw [hb]
      simp
    obtain ⟨c1, Out1, hrun, e1, e2, e3, e4, e5, e6, o1, o2, b1, b2, b3⟩ :=
      ih { c with Blob := FMantleDBChunk.WriteSlots c.Blob q.TypeName Old k q.Memory }
        { Out with
          ChunkedComponents := FMantleDBChunk.AppendView Out.ChunkedComponents q.TypeName
            (FMantleDBChunk.ColumnView
              { c with Blob := FMantleDBChunk.WriteSlots c.Blob q.TypeName Old k q.Memory }
              q.TypeName Old k) }
        (fun p hp => hcols p (List.mem_cons_of_mem _ hp)) hb
    refine ⟨c1, Out1, ?_, e1, e2, e3, e4, e5, e6, o1, o2, ?_, ?_, ?_⟩
    · rw [FMantleDBChunk.AddComponentsLoop]
      simp only [hInfo, hloc, if_false]
      exact hrun
    · intro T i hi
      rw [b1 T i hi]
      simp only [FMantleDBChunk.WriteSlots]
      rw [if_neg (fun h => hi h.2)]
    · intro T hT
      rw [b2 T (fun p hp => hT p (List.mem_cons_of_mem _ hp))]
      funext i
      simp only [FMantleDBChunk.WriteSlots]
      rw [if_neg (fun h => hT q (List.mem_cons_self _ _) h.1.symm)]
    · intro hnd p hp i h1 h2
      rw [List.map_cons, List.nodup_cons] at hnd
      rcases List.mem_cons.1 hp with h | h
      · subst h
        have hnot : ∀ r ∈ rest, r.TypeName ≠ p.TypeName := by
          intro r hr he
          exact hnd.1 (List.mem_map.2 ⟨r, hr, he⟩)
        rw [b2 p.TypeName hnot]
        simp [FMantleDBChunk.WriteSlots, h1, h2]
      · exact b3 hnd.2 p h i h1 h2

/-- `FMantleDBChunk::AddEntities` on a chunk of a non-bare archetype whose columns include
those of the templates: `min n (remaining capacity)` new guids are appended, the new slots of
the templates' columns hold the templates, the old slots are untouched, and one entity-id view
with the new ids is recorded. -/
theorem Chunk_AddEntities_spec (c : FMantleDBChunk) (mr : FMantleDBMasterRecord)
    (Components : List FInstancedStruct) (n : Nat) (Out : FMantleCachedEntry)
    (hn : 0 < n) (hbare : IsZero c.Archetype = false)
    (hcols : ∀ p ∈ Components, ∃ Info, c.ComponentTypeInfo.Find p.TypeName = some Info) :
    ∃ c1 mr1 Out1,
      c.AddEntities mr Components n Out =
        .ok (min n c.GetRemainingCapacity, c1, mr1, Out1) ∧
      c1.EntityIds = c.EntityIds ++ List.range' mr.NextGuid (min n c.GetRemainingCapacity) ∧
      c1.ComponentTypeInfo = c.ComponentTypeInfo ∧ c1.TotalCapacity = c.TotalCapacity ∧
      c1.Archetype = c.Archetype ∧ c1.ChunkId = c.ChunkId ∧ c1.bBlobAllocated = true ∧
      Out1.ChunkedEntityIds =
        Out.ChunkedEntityIds ++ [List.range' mr.NextGuid (min n c.GetRemainingCapacity)] ∧
      Out1.Archetype = Out.Archetype ∧
      mr1.NextGuid = mr.NextGuid + min n c.GetRemainingCapacity ∧
      mr1.ComponentInfoMap = mr.ComponentInfoMap ∧
      mr1.ChunkComponentBlobSize = mr.ChunkComponentBlobSize ∧
      mr1.CachedQueries = mr.CachedQueries ∧ mr1.CachedEntries = mr.CachedEntries ∧
      (∀ T i, i < c.EntityIds.length → c1.Blob T i = c.Blob T i) ∧
      ((Components.map (fun p => p.TypeName)).Nodup →
        ∀ p ∈ Components, ∀ i, c.EntityIds.length ≤ i →
          i < c.EntityIds.length + min n c.GetRemainingCapacity →
          c1.Blob p.TypeName i = p.Memory) := by
  obtain ⟨r1, r2, r3, r4, r5, r6, r7⟩ :=
    RegisterEntities_spec c.MaybeAllocateBlob mr (min n c.GetRemainingCapacity) Out
  have hcols1 : ∀ p ∈ Components, ∃ Info,
      (c.MaybeAllocateBlob.RegisterEntities mr (min n c.GetRemainingCapacity)
        Out).1.ComponentTypeInfo.Find p.TypeName = some Info := by
    rw [r1]; exact hcols
  have hb1 : (c.MaybeAllocateBlob.RegisterEntities mr (min n c.GetRemainingCapacity)
      Out).1.bBlobAllocated = true := by
    rw [r1]; rfl
  obtain ⟨c1, Out1, hrun, e1, e2, e3, e4, e5, e6, o1, o2, b1, -, b3⟩ :=
    AddComponentsLoop_spec c.EntityIds.length (min n c.GetRemainingCapacity) Components
      (c.MaybeAllocateBlob.RegisterEntities mr (min n c.GetRemainingCapacity) Out).1
      (c.MaybeAllocateBlob.RegisterEntities mr (min n c.GetRemainingCapacity) Out).2.2
      hcols1 hb1
  have hn' : ¬ n ≤ 0 := by omega
  refine ⟨c1, _, Out1, ?_, ?_, ?_, ?_, ?_, ?_, e6, ?_, ?_, r3, r4, r5, r6, r7, ?_, ?_⟩
  · unfold FMantleDBChunk.AddEntities
    rw [if_neg hn']
    simp only [hbare, Bool.false_eq_true, if_false]
    have hrun' : FMantleDBChunk.AddComponentsLoop c.MaybeAllocateBlob.EntityIds.length
        (min n c.MaybeAllocateBlob.GetRemainingCapacity) Components
        (c.MaybeAllocateBlob.RegisterEntities mr (min n c.MaybeAllocateBlob.GetRemainingCapacity)
          Out).1
        (c.MaybeAllocateBlob.RegisterEntities mr (min n c.MaybeAllocateBlob.GetRemainingCapacity)
          Out).2.2 = .ok (c1, Out1) := hrun
    rw [hrun']
    rfl
  · rw [e1, r1]; rfl
  · rw [e2, r1]; rfl
  · rw [e3, r1]; rfl
  · rw [e4, r1]; rfl
  · rw [e5, r1]; rfl
  · rw [o1, r2]
  · rw [o2, r2]
  · intro T i hi
    rw [b1 T i (by omega), r1]
    rfl
  · intro hnd p hp i h1 h2
    exact b3 hnd p hp i h1 h2

/-! ## The spill law of `FMantleDBEntry::AddEntities` -/

theorem Ctor_fields {Id : FGuid} {A : TBitArray} {mr : FMantleDBMasterRecord}
    {Chunk : FMantleDBChunk} (h : FMantleDBChunk.Ctor Id A mr = .ok Chunk) :
    Chunk.ChunkId = Id ∧ Chunk.Archetype = A ∧ Chunk.EntityIds = [] ∧
      Chunk.ComponentTypeInfo = FMantleDBChunk.PresentTypes A mr := by
  unfold FMantleDBChunk.Ctor at h
  split at h
  · simp only at h
    split at h
    · cases h
    · cases h
      exact ⟨rfl, rfl, rfl, rfl⟩
  · cases h
    exact ⟨rfl, rfl, rfl, rfl⟩

theorem PresentTypes_congr {mr1 mr : FMantleDBMasterRecord}
    (h : mr1.ComponentInfoMap = mr.ComponentInfoMap) (A : TBitArray) :
    FMantleDBChunk.PresentTypes A mr1 = FMantleDBChunk.PresentTypes A mr := by
  unfold FMantleDBChunk.PresentTypes
  rw [h]

/-- The constructor reads the registry and the chunk byte budget only, and the id it is given
does not matter for the capacity. -/
theorem Ctor_congr {mr1 mr : FMantleDBMasterRecord}
    (h1 : mr1.ComponentInfoMap = mr.ComponentInfoMap)
    (h2 : mr1.ChunkComponentBlobSize = mr.ChunkComponentBlobSize)
    {Id : FGuid} {A : TBitArray} {Chunk : FMantleDBChunk}
    (h : FMantleDBChunk.Ctor Id A mr = .ok Chunk) (Id1 : FGuid) :
    ∃ Chunk1, FMantleDBChunk.Ctor Id1 A mr1 = .ok Chunk1 ∧
      Chunk1.TotalCapacity = Chunk.TotalCapacity := by
  unfold FMantleDBChunk.Ctor at h ⊢
  unfold FMantleDBChunk.BytesPerEntity FMantleDBChunk.MaxPossibleAlignmentPadding at h ⊢
  rw [PresentTypes_congr h1, h2]
  split at h
  · rename_i hpos
    rw [if_pos hpos]
    simp only at h ⊢
    split at h
    · cases h
    · rename_i hcap
      rw [if_neg hcap]
      cases h
      exact ⟨_, rfl, rfl⟩
  · rename_i hpos
    rw [if_neg hpos]
    cases h
    exact ⟨_, rfl, rfl⟩

/-- `FindExistingChunk` returns a suffix of the stack whose head, if any, names the chunk
returned. -/
theorem FindExistingChunk_spec (Chunks : TMap FGuid FMantleDBChunk) (Stack : List FGuid) :
    ((FMantleDBEntry.FindExistingChunk Chunks Stack).1 = none ∧
        (FMantleDBEntry.FindExistingChunk Chunks Stack).2 = []) ∨
      ∃ Top Chunk rest,
        (FMantleDBEntry.FindExistingChunk Chunks Stack).1 = some (Top, Chunk) ∧
        (FMantleDBEntry.FindExistingChunk Chunks Stack).2 = Top :: rest ∧
        Chunks.Find Top = some Chunk ∧ (Top :: rest) <:+ Stack := by
  induction Stack with
  | nil => left; exact ⟨rfl, rfl⟩
  | cons Top rest ih =>
    rw [FMantleDBEntry.FindExistingChunk]
    cases hf : Chunks.Find Top with
    | some Chunk =>
      right
      exact ⟨Top, Chunk, rest, rfl, rfl, hf, List.suffix_refl _⟩
    | none =>
      simp only
      rcases ih with h | ⟨T, C, r, h1, h2, h3, h4⟩
      · left; exact h
      · right
        exact ⟨T, C, r, h1, h2, h3, h4.trans (List.suffix_cons _ _)⟩

theorem sum_map_update {l : List FGuid} {f g : FGuid → Nat} {X : FGuid} {k : Nat}
    (hnd : l.Nodup) (hX : X ∈ l) (hsame : ∀ y ∈ l, y ≠ X → g y = f y) (hk : g X = f X + k) :
    (l.map g).sum = (l.map f).sum + k := by
  induction l with
  | nil => simp at hX
  | cons a rest ih =>
    rw [List.nodup_cons] at hnd
    simp only [List.map_cons, List.sum_cons]
    by_cases ha : a = X
    · subst ha
      have hrest : rest.map g = rest.map f := by
        apply List.map_congr_left
        intro y hy
        exact hsame y (List.mem_cons_of_mem _ hy) (fun h => hnd.1 (h ▸ hy))
      rw [hrest, hk]
      omega
    · have hXr : X ∈ rest := by
        rcases List.mem_cons.1 hX with h | h
        · exact absurd h.symm ha
        · exact h
      rw [ih hnd.2 hXr (fun y hy => hsame y (List.mem_cons_of_mem _ hy)),
        hsame a (List.mem_cons_self _ _) ha]
      omega

theorem sum_map_same {l : List FGuid} {f g : FGuid → Nat} (hsame : ∀ y ∈ l, g y = f y) :
    (l.map g).sum = (l.map f).sum := by
  rw [List.map_congr_left hsame]

/-- Storing a chunk with `k` more entities under an id of the entry raises the entity count
of the entry by `k`; the stack does not matter. -/
theorem EntryCount_store {e : FMantleDBEntry} (hok : EntryIdsOk e) {X : FGuid}
    {Chunk Chunk1 : FMantleDBChunk} (hX : e.Chunks.Find X = some Chunk) {k : Nat}
    (hk : Chunk1.EntityIds.length = Chunk.EntityIds.length + k) (Stack : List FGuid) :
    EntryIdsOk { e with Chunks := e.Chunks.Add X Chunk1, AvailableChunkIds := Stack } ∧
      EntryCount { e with Chunks := e.Chunks.Add X Chunk1, AvailableChunkIds := Stack } =
        EntryCount e + k := by
  have hmem : X ∈ e.AllChunkIds := (hok.mem_iff X).2 (TMap.Contains_of_Find hX)
  constructor
  · refine ⟨hok.nodup, ?_⟩
    intro Id
    show Id ∈ e.AllChunkIds ↔ (e.Chunks.Add X Chunk1).Contains Id = true
    rw [hok.mem_iff Id]
    unfold TMap.Contains
    rw [TMap.Find_Add]
    by_cases h : Id = X
    · subst h
      rw [if_pos rfl, hX]
      simp
    · rw [if_neg h]
  · unfold EntryCount
    show (e.AllChunkIds.map (fun Id => (((e.Chunks.Add X Chunk1).Find Id).map
      (fun Chunk => Chunk.EntityIds.length)).getD 0)).sum = _
    apply sum_map_update hok.nodup hmem
    · intro y _ hy
      rw [TMap.Find_Add_of_ne _ _ _ _ hy]
    · rw [TMap.Find_Add_self, hX]
      simp [hk]

theorem EntryPoolInv.congr {c : Nat} {Components : List FInstancedStruct}
    {e : FMantleDBEntry} {mr mr1 : FMantleDBMasterRecord} (hinv : EntryPoolInv c Components e mr)
    (h1 : mr1.ComponentInfoMap = mr.ComponentInfoMap)
    (h2 : mr1.ChunkComponentBlobSize = mr.ChunkComponentBlobSize)
    (h3 : mr.NextGuid ≤ mr1.NextGuid) : EntryPoolInv c Components e mr1 := by
  refine ⟨hinv.not_bare, hinv.cap_pos, ?_, ?_, ?_, hinv.stack_nodup, hinv.stack_empty⟩
  · obtain ⟨Chunk0, hctor0, hcap0⟩ := hinv.ctor_ok
    obtain ⟨Chunk, hctor, hcap⟩ := Ctor_congr h1 h2 hctor0 0
    exact ⟨Chunk, hctor, hcap.trans hcap0⟩
  · rw [PresentTypes_congr h1]
    exact hinv.columns
  · intro Id Chunk hC
    obtain ⟨a1, a2, a3, a4, a5⟩ := hinv.chunks_ok Id Chunk hC
    exact ⟨a1, a2, by rw [PresentTypes_congr h1]; exact a3, Nat.lt_of_lt_of_le a4 h3, a5⟩

/-- `GetAvailableChunk` in a state of `EntryPoolInv`: the chunk handed out holds no entity
and its id is the top of the stack; the state is again one of `EntryPoolInv`. -/
theorem GetAvailableChunk_spec {c : Nat} {Components : List FInstancedStruct}
    {e : FMantleDBEntry} {mr : FMantleDBMasterRecord} (hinv : EntryPoolInv c Components e mr) :
    ∃ X Chunk e1 mr1 rest,
      e.GetAvailableChunk mr = .ok (X, Chunk, e1, mr1) ∧
      e1.Chunks.Find X = some Chunk ∧ Chunk.EntityIds = [] ∧
      e1.AvailableChunkIds = X :: rest ∧ EntryPoolInv c Components e1 mr1 ∧
      e1.Archetype = e.Archetype ∧ e1.ComponentTypes = e.ComponentTypes ∧
      mr1.ComponentInfoMap = mr.ComponentInfoMap ∧
      mr1.ChunkComponentBlobSize = mr.ChunkComponentBlobSize ∧
      mr1.CachedQueries = mr.CachedQueries ∧ mr1.CachedEntries = mr.CachedEntries ∧
      mr.NextGuid ≤ mr1.NextGuid ∧
      (EntryIdsOk e → EntryIdsOk e1 ∧ EntryCount e1 = EntryCount e) := by
  unfold FMantleDBEntry.GetAvailableChunk
  rcases FindExistingChunk_spec e.Chunks e.AvailableChunkIds with
    ⟨h1, h2⟩ | ⟨Top, Chunk, rest, h1, h2, h3, h4⟩
  · -- a new chunk is created
    obtain ⟨Chunk0, hctor0, hcap0⟩ := hinv.ctor_ok
    obtain ⟨Chunk, hctor, hcap⟩ :=
      @Ctor_congr mr.NewGuid.2 mr rfl rfl 0 e.Archetype Chunk0 hctor0 mr.NewGuid.1
    obtain ⟨f1, f2, f3, f4⟩ := Ctor_fields hctor
    have hfresh : ∀ Id C, e.Chunks.Find Id = some C → Id ≠ mr.NextGuid := by
      intro Id C hC hId
      obtain ⟨-, -, -, hlt, -⟩ := hinv.chunks_ok Id C hC
      rw [hId] at hlt
      exact Nat.lt_irrefl _ hlt
    have hinv1 : EntryPoolInv c Components e mr.NewGuid.2 :=
      hinv.congr rfl rfl (Nat.le_succ _)
    simp only [h1, h2]
    rw [hctor]
    refine ⟨mr.NextGuid, Chunk, _, _, [], rfl, TMap.Find_Add_self _ _ _, f3, rfl, ?_, rfl, rfl,
      rfl, rfl, rfl, rfl, Nat.le_succ _, ?_⟩
    · refine ⟨hinv.not_bare, hinv.cap_pos, hinv1.ctor_ok, hinv1.columns, ?_, ?_, ?_⟩
      · intro Id C hC
        have hC' : (e.Chunks.Add mr.NextGuid Chunk).Find Id = some C := hC
        rw [TMap.Find_Add] at hC'
        by_cases hId : Id = mr.NextGuid
        · rw [if_pos hId] at hC'
          cases hC'
          refine ⟨hcap.trans hcap0, f2, f4, ?_, ?_⟩
          · rw [hId]; exact Nat.lt_succ_self _
          · intro p _ i hi
            rw [f3] at hi
            exact absurd hi (Nat.not_lt_zero _)
        · rw [if_neg hId] at hC'
          exact hinv1.chunks_ok Id C hC'
      · exact List.nodup_singleton _
      · intro Id hId C hC
        have hC' : (e.Chunks.Add mr.NextGuid Chunk).Find Id = some C := hC
        have hId' : Id = mr.NextGuid := by
          have : Id ∈ [mr.NextGuid] := hId
          simpa using this
        rw [hId', TMap.Find_Add_self] at hC'
        cases hC'
        exact f3
    · intro hok
      have hnot : mr.NextGuid ∉ e.AllChunkIds := by
        intro hmem
        obtain ⟨C, hC⟩ := (TMap.Contains_eq_true_iff _ _).1 ((hok.mem_iff _).1 hmem)
        exact hfresh _ _ hC rfl
      constructor
      · constructor
        · show (e.AllChunkIds ++ [mr.NextGuid]).Nodup
          rw [List.nodup_append]
          refine ⟨hok.nodup, List.nodup_singleton _, ?_⟩
          intro a ha hb
          have : a = mr.NextGuid := by simpa using hb
          exact hnot (this ▸ ha)
        · intro Id
          show Id ∈ e.AllChunkIds ++ [mr.NextGuid] ↔
            (e.Chunks.Add mr.NextGuid Chunk).Contains Id = true
          unfold TMap.Contains
          rw [TMap.Find_Add, List.mem_append, hok.mem_iff Id]
          by_cases hId : Id = mr.NextGuid
          · rw [if_pos hId]; simp [hId]
          · rw [if_neg hId]
            unfold TMap.Contains
            simp [hId]
      · unfold EntryCount
        show ((e.AllChunkIds ++ [mr.NextGuid]).map (fun Id =>
          (((e.Chunks.Add mr.NextGuid Chunk).Find Id).map
            (fun Chunk => Chunk.EntityIds.length)).getD 0)).sum = _
        rw [List.map_append, List.sum_append]
        have hsame : (e.AllChunkIds.map (fun Id =>
            (((e.Chunks.Add mr.NextGuid Chunk).Find Id).map
              (fun Chunk => Chunk.EntityIds.length)).getD 0)) =
            (e.AllChunkIds.map (fun Id =>
              ((e.Chunks.Find Id).map (fun Chunk => Chunk.EntityIds.length)).getD 0)) := by
          apply List.map_congr_left
          intro y hy
          have hne : y ≠ mr.NextGuid := fun h => hnot (h ▸ hy)
          rw [TMap.Find_Add_of_ne _ _ _ _ hne]
        rw [hsame]
        simp [TMap.Find_Add_self, f3]
  · -- an existing chunk is handed out
    have hmemTop : Top ∈ e.AvailableChunkIds := h4.subset (List.mem_cons_self _ _)
    simp only [h1, h2]
    refine ⟨Top, Chunk, _, mr, rest, rfl, h3, hinv.stack_empty Top hmemTop Chunk h3, rfl, ?_, rfl,
      rfl, rfl, rfl, rfl, rfl, le_refl _, ?_⟩
    · refine ⟨hinv.not_bare, hinv.cap_pos, hinv.ctor_ok, hinv.columns, hinv.chunks_ok, ?_, ?_⟩
      · exact hinv.stack_nodup.sublist h4.sublist
      · intro Id hId C hC
        exact hinv.stack_empty Id (h4.subset hId) C hC
    · intro hok
      exact ⟨⟨hok.nodup, hok.mem_iff⟩, rfl⟩
theorem SpillSizes_zero (c : Nat) : SpillSizes 0 c = [] := by
  simp [SpillSizes]

theorem SpillSizes_le {n c : Nat} (hn : 0 < n) (hc : n ≤ c) : SpillSizes n c = [n] := by
  unfold SpillSizes
  rcases Nat.lt_or_eq_of_le hc with h | h
  · rw [Nat.div_eq_of_lt h, Nat.mod_eq_of_lt h]
    simp [Nat.pos_iff_ne_zero.1 hn]
  · subst h
    rw [Nat.div_self hn, Nat.mod_self]
    simp

theorem SpillSizes_gt {n c : Nat} (hc : 0 < c) (hn : c < n) :
    SpillSizes n c = c :: SpillSizes (n - c) c := by
  unfold SpillSizes
  have h1 : n / c = (n - c) / c + 1 := by
    rw [Nat.div_eq_sub_div hc hn.le]
  have h2 : n % c = (n - c) % c := Nat.mod_eq_sub_mod hn.le
  rw [h1, h2, List.replicate_succ]
  rfl

theorem PopIfFull_frame (e : FMantleDBEntry) (Chunk : FMantleDBChunk) :
    (e.PopIfFull Chunk).Chunks = e.Chunks ∧ (e.PopIfFull Chunk).Archetype = e.Archetype ∧
      (e.PopIfFull Chunk).ComponentTypes = e.ComponentTypes ∧
      (e.PopIfFull Chunk).AllChunkIds = e.AllChunkIds := by
  unfold FMantleDBEntry.PopIfFull
  split <;> exact ⟨rfl, rfl, rfl, rfl⟩

theorem PopIfFull_eq (e : FMantleDBEntry) (Chunk : FMantleDBChunk) :
    e.PopIfFull Chunk = { e with AvailableChunkIds := (e.PopIfFull Chunk).AvailableChunkIds } := by
  unfold FMantleDBEntry.PopIfFull
  split <;> rfl

/-- The loop of `FMantleDBEntry::AddEntities` in a state of `EntryPoolInv`, with templates of
pairwise different types and fuel for `n` iterations: it ends without error; the entity-id
views it records have the sizes of the spill law; the chunks are again as `EntryChunksOk`
says, and they hold `n` more entities. -/
theorem Entry_AddEntities_spec {c : Nat} {Components : List FInstancedStruct}
    (hnd : (Components.map (fun p => p.TypeName)).Nodup) :
    ∀ (fuel n : Nat) (e : FMantleDBEntry) (mr : FMantleDBMasterRecord)
      (Out : FMantleCachedEntry), EntryPoolInv c Components e mr → n ≤ fuel →
      ∃ e1 mr1 Out1 views,
        e.AddEntities fuel mr Components n Out = .ok (e1, mr1, Out1) ∧
        Out1.ChunkedEntityIds = Out.ChunkedEntityIds ++ views ∧
        views.map List.length = SpillSizes n c ∧
        Out1.Archetype = Out.Archetype ∧
        e1.Archetype = e.Archetype ∧ e1.ComponentTypes = e.ComponentTypes ∧
        mr1.ComponentInfoMap = mr.ComponentInfoMap ∧
        mr1.ChunkComponentBlobSize = mr.ChunkComponentBlobSize ∧
        mr1.CachedQueries = mr.CachedQueries ∧ mr1.CachedEntries = mr.CachedEntries ∧
        mr.NextGuid ≤ mr1.NextGuid ∧
        EntryChunksOk c Components e1 mr1 ∧
        (EntryIdsOk e → EntryIdsOk e1 ∧ EntryCount e1 = EntryCount e + n) := by
  intro fuel
  induction fuel with
  | zero =>
    intro n e mr Out hinv hn
    have hn0 : n = 0 := by omega
    subst hn0
    refine ⟨e, mr, Out, [], ?_, by simp, by simp [SpillSizes_zero], rfl, rfl, rfl, rfl, rfl, rfl,
      rfl, le_refl _, hinv.chunks_ok, fun h => ⟨h, rfl⟩⟩
    rw [FMantleDBEntry.AddEntities]
  | succ f ih =>
    intro n e mr Out hinv hn
    cases n with
    | zero =>
      refine ⟨e, mr, Out, [], ?_, by simp, by simp [SpillSizes_zero], rfl, rfl, rfl, rfl, rfl,
        rfl, rfl, le_refl _, hinv.chunks_ok, fun h => ⟨h, rfl⟩⟩
      rw [FMantleDBEntry.AddEntities]
    | succ p =>
      obtain ⟨X, Chunk, e1, mr1, rest, hget, hfind, hempty, hstack, hinv1, ea, ect, m1, m2, m3, m4,
        m5, hcount1⟩ := GetAvailableChunk_spec hinv
      obtain ⟨k1, k2, k3, k4, -⟩ := hinv1.chunks_ok X Chunk hfind
      have hrem : Chunk.GetRemainingCapacity = c := by
        unfold FMantleDBChunk.GetRemainingCapacity
        rw [k1, hempty]
        rfl
      have hbare : IsZero Chunk.Archetype = false := by
        rw [k2]; exact hinv1.not_bare
      have hcols : ∀ q ∈ Components, ∃ Info, Chunk.ComponentTypeInfo.Find q.TypeName = some Info := by
        rw [k3]; exact hinv1.columns
      obtain ⟨c1, mr2, Out1, hadd, a1, a2, a3, a4, a5, a6, o1, o2, n1, n2, n3, n4, n5, b1, b2⟩ :=
        Chunk_AddEntities_spec Chunk mr1 Components (p + 1) Out (Nat.succ_pos _) hbare hcols
      rw [hrem] at hadd a1 o1 n1 b2
      rw [hempty] at a1 b2
      simp only [List.nil_append, List.length_nil, Nat.zero_add, Nat.zero_le,
        forall_true_left] at a1 b2
      have hc1len : c1.EntityIds.length = min (p + 1) c := by
        rw [a1]; simp
      have hc1rem : c1.GetRemainingCapacity = c - min (p + 1) c := by
        unfold FMantleDBChunk.GetRemainingCapacity
        rw [a3, k1, hc1len]
      have hle12 : mr1.NextGuid ≤ mr2.NextGuid := by
        rw [n1]; exact Nat.le_add_right _ _
      -- the chunks after the write-back
      have hchunks2 : EntryChunksOk c Components
          ((FMantleDBEntry.PopIfFull { e1 with Chunks := e1.Chunks.Add X c1 } c1)) mr2 := by
        intro Id C hC
        rw [(PopIfFull_frame _ _).1] at hC
        rw [(PopIfFull_frame _ _).2.1]
        have hC' : (e1.Chunks.Add X c1).Find Id = some C := hC
        rw [TMap.Find_Add] at hC'
        by_cases hId : Id = X
        · rw [if_pos hId] at hC'
          cases hC'
          refine ⟨a3.trans k1, a4.trans k2, ?_, ?_, ?_⟩
          · rw [a2, k3]
            exact (PresentTypes_congr n2 _).symm
          · rw [hId]; exact Nat.lt_of_lt_of_le k4 hle12
          · intro q hq i hi
            rw [hc1len] at hi
            exact b2 hnd q hq i hi
        · rw [if_neg hId] at hC'
          obtain ⟨z1, z2, z3, z4, z5⟩ := hinv1.chunks_ok Id C hC'
          exact ⟨z1, z2, by rw [z3]; exact (PresentTypes_congr n2 _).symm,
            Nat.lt_of_lt_of_le z4 hle12, z5⟩
      have hcount2 : EntryIdsOk e →
          EntryIdsOk (FMantleDBEntry.PopIfFull { e1 with Chunks := e1.Chunks.Add X c1 } c1) ∧
          EntryCount (FMantleDBEntry.PopIfFull { e1 with Chunks := e1.Chunks.Add X c1 } c1) =
            EntryCount e + min (p + 1) c := by
        intro hok
        obtain ⟨hok1, hcnt1⟩ := hcount1 hok
        rw [PopIfFull_eq]
        have := @EntryCount_store e1 hok1 X Chunk c1 hfind (min (p + 1) c)
          (by rw [hc1len, hempty]; simp)
          (FMantleDBEntry.PopIfFull { e1 with Chunks := e1.Chunks.Add X c1 } c1).AvailableChunkIds
        rw [hcnt1] at this
        exact this
      by_cases hspill : p + 1 ≤ c
      · -- the chunk takes everything
        have hmin : min (p + 1) c = p + 1 := Nat.min_eq_left hspill
        rw [hmin] at hadd o1 n1 hcount2
        refine ⟨_, mr2, Out1, [List.range' mr1.NextGuid (p + 1)], ?_, o1, ?_, o2,
          ?_, ?_, n2.trans m1, n3.trans m2, n4.trans m3, n5.trans m4, le_trans m5 hle12,
          hchunks2, hcount2⟩
        · rw [FMantleDBEntry.AddEntities]
          simp only [hget, hadd, Nat.sub_self]
          rw [FMantleDBEntry.AddEntities]
        · rw [SpillSizes_le (Nat.succ_pos _) hspill]
          simp
        · rw [(PopIfFull_frame _ _).2.1]; exact ea
        · rw [(PopIfFull_frame _ _).2.2.1]; exact ect
      · -- the chunk is filled and the rest spills
        have hlt : c < p + 1 := by omega
        have hmin : min (p + 1) c = c := Nat.min_eq_right hlt.le
        rw [hmin] at hadd o1 n1 hcount2 hc1rem
        have hpop : FMantleDBEntry.PopIfFull { e1 with Chunks := e1.Chunks.Add X c1 } c1 =
            { e1 with Chunks := e1.Chunks.Add X c1, AvailableChunkIds := rest } := by
          unfold FMantleDBEntry.PopIfFull
          rw [hc1rem, if_pos]
          · simp only [hstack, List.tail_cons]
          · exact ⟨by omega, hinv1.not_bare⟩
        have hndstack : (X :: rest).Nodup := hstack ▸ hinv1.stack_nodup
        rw [List.nodup_cons] at hndstack
        have hinv2 : EntryPoolInv c Components
            { e1 with Chunks := e1.Chunks.Add X c1, AvailableChunkIds := rest } mr2 := by
          have hbase : EntryPoolInv c Components e1 mr2 := hinv1.congr n2 n3 hle12
          refine ⟨hinv1.not_bare, hinv1.cap_pos, hbase.ctor_ok, hbase.columns, ?_, hndstack.2, ?_⟩
          · rw [← hpop]; exact hchunks2
          · intro Id hId C hC
            have hC' : (e1.Chunks.Add X c1).Find Id = some C := hC
            have hne : Id ≠ X := fun h => hndstack.1 (h ▸ hId)
            rw [TMap.Find_Add_of_ne _ _ _ _ hne] at hC'
            exact hinv1.stack_empty Id (by rw [hstack]; exact List.mem_cons_of_mem _ hId) C hC'
        obtain ⟨e3, mr3, Out3, views, hrun, v1, v2, v3, v4, v5, w1, w2, w3, w4, w5, hch3, hcount3⟩ :=
          ih (p + 1 - c) _ mr2 Out1 hinv2 (by have := hinv.cap_pos; omega)
        refine ⟨e3, mr3, Out3, List.range' mr1.NextGuid c :: views, ?_, ?_, ?_, v3.trans o2,
          v4.trans ea, v5.trans ect, w1.trans (n2.trans m1), w2.trans (n3.trans m2),
          w3.trans (n4.trans m3), w4.trans (n5.trans m4), le_trans m5 (le_trans hle12 w5), hch3,
          ?_⟩
        · rw [FMantleDBEntry.AddEntities]
          simp only [hget, hadd, hpop]
          exact hrun
        · rw [v1, o1]
          simp
        · rw [SpillSizes_gt hinv.cap_pos hlt]
          simp [v2]
        · intro hok
          obtain ⟨hok2, hcnt2⟩ := hcount2 hok
          rw [hpop] at hok2 hcnt2
          obtain ⟨hok3, hcnt3⟩ := hcount3 hok2
          refine ⟨hok3, ?_⟩
          rw [hcnt3, hcnt2]
          omega
theorem ceil_div_eq (n c : Nat) (hc : 0 < c) :
    (n + c - 1) / c = n / c + (if n % c = 0 then 0 else 1) := by
  have h := Nat.div_add_mod n c
  have hr := Nat.mod_lt n hc
  have hsplit : n + c - 1 = (n % c + c - 1) + c * (n / c) := by omega
  rw [hsplit, Nat.add_mul_div_left _ _ hc]
  by_cases h0 : n % c = 0
  · rw [if_pos h0, h0, Nat.zero_add, Nat.div_eq_of_lt (by omega)]
    omega
  · rw [if_neg h0]
    have : (n % c + c - 1) / c = 1 := by
      apply Nat.div_eq_of_lt_le <;> omega
    omega

theorem SpillSizes_length (n c : Nat) (hc : 0 < c) :
    (SpillSizes n c).length = (n + c - 1) / c := by
  rw [ceil_div_eq n c hc]
  unfold SpillSizes
  split <;> simp

theorem SpillSizes_getD_full (n c i : Nat) (hi : i + 1 < (SpillSizes n c).length) :
    (SpillSizes n c).getD i 0 = c := by
  unfold SpillSizes at hi ⊢
  rw [List.getD_eq_getElem?_getD, List.getElem?_append]
  have hlt : i < n / c := by
    split at hi <;> simp at hi <;> omega
  simp [hlt]

theorem SpillSizes_getD_last (n c : Nat) (hn : 0 < n) (hc : 0 < c) :
    (SpillSizes n c).getD ((SpillSizes n c).length - 1) 0 = n - c * ((n + c - 1) / c - 1) := by
  rw [SpillSizes_length n c hc, ceil_div_eq n c hc]
  have h := Nat.div_add_mod n c
  unfold SpillSizes
  rw [List.getD_eq_getElem?_getD, List.getElem?_append]
  by_cases h0 : n % c = 0
  · have hq : 0 < n / c := by
      rcases Nat.eq_zero_or_pos (n / c) with hz | hz
      · rw [hz, h0] at h; omega
      · exact hz
    simp only [h0, if_true, Nat.add_zero, List.length_replicate]
    rw [if_pos (by omega)]
    simp only [List.getElem?_replicate]
    rw [if_pos (by omega)]
    simp only [Option.getD_some]
    have : c * (n / c - 1) = c * (n / c) - c := by
      rw [Nat.mul_sub, Nat.mul_one]
    rw [this]
    have hge : c ≤ c * (n / c) := Nat.le_mul_of_pos_right c hq
    omega
  · simp only [h0, if_false, List.length_replicate, Nat.add_sub_cancel, lt_self_iff_false,
      Nat.sub_self]
    simp
    omega

theorem SpillSizes_succ (c : Nat) (hc : 0 < c) : SpillSizes (c + 1) c = [c, 1] := by
  have h1 : c + 1 - c = 1 := by omega
  rw [SpillSizes_gt hc (Nat.lt_succ_self c), h1]
  by_cases hc1 : c = 1
  · subst hc1
    rfl
  · rw [SpillSizes_le Nat.one_pos (by omega)]

theorem getD_map_length {α : Type} (views : List (List α)) (i : Nat) :
    (views.getD i []).length = (views.map List.length).getD i 0 := by
  rw [List.getD_eq_getElem?_getD, List.getD_eq_getElem?_getD, List.getElem?_map]
  cases views[i]? <;> rfl

/-- C4. Spill law. For an entry of a non-bare archetype whose chunks hold `c >= 1` entities,
in a state of `EntryPoolInv` (in particular one whose chunks hold no entity yet), for templates
of pairwise different types, every `n >= 1` and fuel for `n` iterations,
`FMantleDBEntry::AddEntities` ends without error and the result holds exactly `ceil(n / c)`
entity-id views; every view but the last has `c` entities and the last has
`n - c * (ceil(n / c) - 1)`; for `n = c + 1` the views have the sizes `c` and `1`. -/
theorem C4_spill_law (c n fuel : Nat) (Components : List FInstancedStruct)
    (e : FMantleDBEntry) (mr : FMantleDBMasterRecord)
    (hnd : (Components.map (fun p => p.TypeName)).Nodup)
    (hinv : EntryPoolInv c Components e mr) (hn : 1 ≤ n) (hfuel : n ≤ fuel) :
    ∃ e1 mr1 Out1,
      e.AddEntities fuel mr Components n { Archetype := e.Archetype } = .ok (e1, mr1, Out1) ∧
      Out1.ChunkedEntityIds.map List.length = SpillSizes n c ∧
      Out1.ChunkedEntityIds.length = (n + c - 1) / c ∧
      (∀ i, i + 1 < Out1.ChunkedEntityIds.length → (Out1.ChunkedEntityIds.getD i []).length = c) ∧
      (Out1.ChunkedEntityIds.getD (Out1.ChunkedEntityIds.length - 1) []).length =
        n - c * ((n + c - 1) / c - 1) ∧
      (n = c + 1 → Out1.ChunkedEntityIds.map List.length = [c, 1]) := by
  obtain ⟨e1, mr1, Out1, views, hrun, v1, v2, -⟩ :=
    Entry_AddEntities_spec hnd fuel n e mr { Archetype := e.Archetype } hinv hfuel
  have hviews : Out1.ChunkedEntityIds = views := by
    rw [v1]; rfl
  have hlen : Out1.ChunkedEntityIds.length = (SpillSizes n c).length := by
    rw [hviews, ← v2, List.length_map]
  refine ⟨e1, mr1, Out1, hrun, by rw [hviews, v2], ?_, ?_, ?_, ?_⟩
  · rw [hlen, SpillSizes_length n c hinv.cap_pos]
  · intro i hi
    rw [getD_map_length, hviews, v2]
    rw [hlen] at hi
    exact SpillSizes_getD_full n c i hi
  · rw [getD_map_length, hlen, hviews, v2]
    exact SpillSizes_getD_last n c hn hinv.cap_pos
  · intro hnc
    rw [hviews, v2, hnc]
    exact SpillSizes_succ c hinv.cap_pos

theorem SpillEntry_inv : EntryPoolInv 121 SpillComponents SpillEntry SpillRecord := by
  refine ⟨rfl, by decide, ⟨_, rfl, rfl⟩, ?_, ?_, List.nodup_nil, ?_⟩
  · intro p hp
    simp only [SpillComponents, List.mem_cons, List.mem_singleton, List.not_mem_nil,
      or_false] at hp
    rcases hp with rfl | rfl | rfl <;> exact ⟨_, rfl⟩
  · intro Id Chunk h
    cases h
  · intro Id hId
    cases hId

/-- C4, at the numbers of `Test_AddEntities`: with chunks of 121 entities, 200 new entities
come in two views of 121 and 79 entities. -/
theorem C4_spill_law_witness :
    ∃ e1 mr1 Out1,
      SpillEntry.AddEntities 200 SpillRecord SpillComponents 200
          { Archetype := SpillEntry.Archetype } = .ok (e1, mr1, Out1) ∧
        Out1.ChunkedEntityIds.map List.length = [121, 79] := by
  obtain ⟨e1, mr1, Out1, hrun, hsizes, -⟩ :=
    C4_spill_law 121 200 200 SpillComponents SpillEntry SpillRecord (by decide) SpillEntry_inv
      (by decide) (by decide)
  exact ⟨e1, mr1, Out1, hrun, hsizes.trans (by decide)⟩

/-! ## The registry built by `Initialize` and the archetypes `FillArchetype` computes from it -/

theorem RegisterComponentTypes_eq :
    ∀ (l : List (Option UScriptStruct)) (k : Nat) (m : TMap FString FMantleComponentInfo),
      ((l.filterMap id).map (fun T => T.Name)).Nodup →
      (∀ T ∈ l.filterMap id, m.Find T.Name = none) →
      UMantleDB.RegisterComponentTypes l k m = m ++ RegistryOf (l.filterMap id) k
  | [], k, m, _, _ => by simp [UMantleDB.RegisterComponentTypes, RegistryOf]
  | none :: rest, k, m, hnd, hm => by
    rw [UMantleDB.RegisterComponentTypes]
    exact RegisterComponentTypes_eq rest k m (by simpa using hnd) (by simpa using hm)
  | some T :: rest, k, m, hnd, hm => by
    rw [UMantleDB.RegisterComponentTypes]
    have hnd1 : (T.Name :: ((rest.filterMap id).map (fun T => T.Name))).Nodup := by
      simpa using hnd
    have hT : m.Find T.Name = none := hm T (by simp)
    have hadd : ∀ v, m.Add T.Name v = m ++ [(T.Name, v)] := by
      intro v
      unfold TMap.Add
      rw [if_neg]
      rw [(TMap.Contains_eq_false_iff m T.Name).2 hT]
      simp
    rw [hadd, RegisterComponentTypes_eq rest (k + 1) _ (List.nodup_cons.1 hnd1).2]
    · simp [RegistryOf]
    · intro T1 hT1
      rw [TMap.Find_append, hm T1 (by simp [hT1])]
      have hne : T.Name ≠ T1.Name := by
        intro h
        exact (List.nodup_cons.1 hnd1).1 (h ▸ List.mem_map_of_mem _ hT1)
      simp [TMap.Find, hne]

theorem RegistryOf_length : ∀ (Types : List UScriptStruct) (k : Nat),
    (RegistryOf Types k).length = Types.length
  | [], _ => rfl
  | _ :: rest, k => by rw [RegistryOf, List.length_cons, RegistryOf_length rest, List.length_cons]

theorem RegistryOf_mem : ∀ (Types : List UScriptStruct) (k : Nat)
    (p : FString × FMantleComponentInfo), p ∈ RegistryOf Types k →
      ∃ T ∈ Types, p.1 = T.Name ∧ p.2.Name = T.Name ∧ p.2.StructSize = T.StructureSize ∧
        p.2.StructAlignment = T.MinAlignment ∧ k ≤ p.2.ArchetypeIndex ∧
        p.2.ArchetypeIndex < k + Types.length
  | [], _, p, h => by cases h
  | T :: rest, k, p, h => by
    rw [RegistryOf, List.mem_cons] at h
    rcases h with rfl | h
    · exact ⟨T, List.mem_cons_self _ _, rfl, rfl, rfl, rfl, Nat.le_refl _, by
        show k < k + (T :: rest).length
        rw [List.length_cons]; omega⟩
    · obtain ⟨T1, h1, h2, h3, h4, h5, h6, h7⟩ := RegistryOf_mem rest (k + 1) p h
      exact ⟨T1, List.mem_cons_of_mem _ h1, h2, h3, h4, h5, by omega, by
        rw [List.length_cons]; omega⟩

theorem RegistryOf_index_inj : ∀ (Types : List UScriptStruct) (k : Nat)
    (p q : FString × FMantleComponentInfo), p ∈ RegistryOf Types k → q ∈ RegistryOf Types k →
      p.2.ArchetypeIndex = q.2.ArchetypeIndex → p = q
  | [], _, p, _, h, _, _ => by cases h
  | T :: rest, k, p, q, hp, hq, h => by
    rw [RegistryOf, List.mem_cons] at hp hq
    rcases hp with rfl | hp <;> rcases hq with rfl | hq
    · rfl
    · obtain ⟨_, _, _, _, _, _, h6, _⟩ := RegistryOf_mem rest (k + 1) q hq
      simp only at h
      omega
    · obtain ⟨_, _, _, _, _, _, h6, _⟩ := RegistryOf_mem rest (k + 1) p hp
      simp only at h
      omega
    · exact RegistryOf_index_inj rest (k + 1) p q hp hq h

theorem RegistryOf_keys : ∀ (Types : List UScriptStruct) (k : Nat),
    (RegistryOf Types k).map (fun p => p.1) = Types.map (fun T => T.Name)
  | [], _ => rfl
  | _ :: rest, k => by rw [RegistryOf, List.map_cons, RegistryOf_keys rest, List.map_cons]

theorem RegistryOf_filter : ∀ (Types : List UScriptStruct) (k : Nat) (P : FString → Bool),
    ((RegistryOf Types k).filter (fun p => P p.1)).map
        (fun p => (p.2.Name, p.2.StructSize, p.2.StructAlignment)) =
      (Types.filter (fun T => P T.Name)).map
        (fun T => (T.Name, T.StructureSize, T.MinAlignment))
  | [], _, _ => rfl
  | T :: rest, k, P => by
    rw [RegistryOf, List.filter_cons, List.filter_cons]
    by_cases h : P T.Name = true
    · simp only [h, if_true, List.map_cons, RegistryOf_filter rest (k + 1) P]
    · rw [if_neg h, if_neg h]
      exact RegistryOf_filter rest (k + 1) P

theorem RegistryOk_RegistryOf (Types : List UScriptStruct)
    (hnd : (Types.map (fun T => T.Name)).Nodup) : RegistryOk (RegistryOf Types 0) := by
  refine ⟨by rw [RegistryOf_keys]; exact hnd, ?_, ?_,
    fun p hp q hq h => RegistryOf_index_inj Types 0 p q hp hq h⟩
  · intro p hp
    obtain ⟨T, _, h1, h2, _⟩ := RegistryOf_mem Types 0 p hp
    rw [h1, h2]
  · intro p hp
    obtain ⟨T, _, _, _, _, _, _, h⟩ := RegistryOf_mem Types 0 p hp
    rw [RegistryOf_length]
    omega

theorem TMap.Find_of_mem {K V : Type} [DecidableEq K] :
    ∀ (m : TMap K V) (k : K) (v : V), (m.map (fun p => p.1)).Nodup → (k, v) ∈ m →
      TMap.Find m k = some v
  | [], _, _, _, h => by cases h
  | (k1, v1) :: rest, k, v, hnd, h => by
    rw [TMap.Find_cons]
    rw [List.map_cons, List.nodup_cons] at hnd
    rcases List.mem_cons.1 h with heq | hmem
    · cases heq
      rw [if_pos rfl]
    · have hne : k1 ≠ k := by
        intro hk
        subst hk
        exact hnd.1 (List.mem_map_of_mem (fun p => p.1) hmem)
      rw [if_neg hne]
      exact TMap.Find_of_mem rest k v hnd.2 hmem

theorem RegistryOk.find_mem {m : TMap FString FMantleComponentInfo} (h : RegistryOk m)
    (p : FString × FMantleComponentInfo) (hp : p ∈ m) : TMap.Find m p.1 = some p.2 :=
  TMap.Find_of_mem m p.1 p.2 h.keys_nodup hp

theorem GetBit_ZeroBits (n i : Nat) : GetBit (ZeroBits n) i = false := by
  unfold GetBit ZeroBits
  rw [List.getD_eq_getElem?_getD]
  by_cases h : i < n
  · rw [List.getElem?_eq_getElem (by simpa using h)]
    simp
  · rw [List.getElem?_eq_none (by simpa using h)]
    rfl

theorem SetBit_length (A : TBitArray) (j : Nat) (b : Bool) : (SetBit A j b).length = A.length := by
  unfold SetBit
  exact List.length_set _ _ _

theorem GetBit_SetBit (A : TBitArray) (i j : Nat) (b : Bool) (hj : j < A.length) :
    GetBit (SetBit A j b) i = if i = j then b else GetBit A i := by
  unfold GetBit SetBit
  rw [List.getD_eq_getElem?_getD, List.getD_eq_getElem?_getD, List.getElem?_set]
  by_cases h : j = i
  · subst h
    simp [hj]
  · rw [if_neg h, if_neg (fun h1 => h h1.symm)]

theorem FillArchetypeLoop_length (mr : FMantleDBMasterRecord) (Value : Bool) :
    ∀ (Names : List FString) (A : TBitArray),
      (UMantleDB.FillArchetypeLoop mr Value Names A).length = A.length
  | [], _ => rfl
  | nm :: rest, A => by
    rw [UMantleDB.FillArchetypeLoop]
    cases mr.ComponentInfoMap.Find nm with
    | none => exact FillArchetypeLoop_length mr Value rest A
    | some Info =>
      show (UMantleDB.FillArchetypeLoop mr Value rest _).length = _
      rw [FillArchetypeLoop_length mr Value rest, SetBit_length]

/-- The bit `i` after the loop of `FillArchetype`: it holds `Value` when one of the names is
registered with the index `i`, and is unchanged otherwise. -/
theorem FillArchetypeLoop_bit (mr : FMantleDBMasterRecord) (Value : Bool) (i : Nat) :
    ∀ (Names : List FString) (A : TBitArray),
      (∀ nm Info, mr.ComponentInfoMap.Find nm = some Info → Info.ArchetypeIndex < A.length) →
      GetBit (UMantleDB.FillArchetypeLoop mr Value Names A) i =
        if ∃ nm ∈ Names, ∃ Info, mr.ComponentInfoMap.Find nm = some Info ∧
            Info.ArchetypeIndex = i then Value
        else GetBit A i
  | [], A, _ => by
    rw [UMantleDB.FillArchetypeLoop, if_neg]
    rintro ⟨nm, h, _⟩
    cases h
  | nm :: rest, A, hlt => by
    rw [UMantleDB.FillArchetypeLoop]
    cases hfind : mr.ComponentInfoMap.Find nm with
    | none =>
      show GetBit (UMantleDB.FillArchetypeLoop mr Value rest A) i = _
      rw [FillArchetypeLoop_bit mr Value i rest A hlt]
      apply if_congr _ rfl rfl
      constructor
      · rintro ⟨nm1, h1, h2⟩
        exact ⟨nm1, List.mem_cons_of_mem _ h1, h2⟩
      · rintro ⟨nm1, h1, Info, h2, h3⟩
        rcases List.mem_cons.1 h1 with rfl | h1
        · rw [hfind] at h2
          cases h2
        · exact ⟨nm1, h1, Info, h2, h3⟩
    | some Info =>
      show GetBit (UMantleDB.FillArchetypeLoop mr Value rest _) i = _
      rw [FillArchetypeLoop_bit mr Value i rest _
        (fun nm1 Info1 h => by rw [SetBit_length]; exact hlt nm1 Info1 h),
        GetBit_SetBit A i _ Value (hlt nm Info hfind)]
      by_cases hrest : ∃ nm1 ∈ rest, ∃ Info1, mr.ComponentInfoMap.Find nm1 = some Info1 ∧
          Info1.ArchetypeIndex = i
      · rw [if_pos hrest, if_pos]
        obtain ⟨nm1, h1, h2⟩ := hrest
        exact ⟨nm1, List.mem_cons_of_mem _ h1, h2⟩
      · rw [if_neg hrest]
        by_cases hi : i = Info.ArchetypeIndex
        · rw [if_pos hi, if_pos]
          exact ⟨nm, List.mem_cons_self _ _, Info, hfind, hi.symm⟩
        · rw [if_neg hi, if_neg]
          rintro ⟨nm1, h1, Info1, h2, h3⟩
          rcases List.mem_cons.1 h1 with rfl | h1
          · rw [hfind] at h2
            cases h2
            exact hi h3.symm
          · exact hrest ⟨nm1, h1, Info1, h2, h3⟩

theorem RegistryOk.find_index_lt {m : TMap FString FMantleComponentInfo} (h : RegistryOk m)
    (nm : FString) (Info : FMantleComponentInfo) (hf : TMap.Find m nm = some Info) :
    Info.ArchetypeIndex < m.length :=
  h.index_lt (nm, Info) (TMap.Find_mem hf)

/-! ## The walk of an iterator over a single matching entry -/

theorem IsValid_of_cached (it : FMantleIterator) (mr : FMantleDBMasterRecord)
    (CQ : FMantleCachedQuery) (hm : it.bHasMasterRecord = true)
    (hf : mr.CachedQueries.Find it.LocalCache.QueryArchetype = some CQ)
    (hv : CQ.Version.bIsValid = true)
    (hn : CQ.Version.VersionNumber = it.LocalCache.Version.VersionNumber) :
    it.IsValid mr = true := by
  unfold FMantleIterator.IsValid
  rw [hm, hf]
  simp [FMantleDBVersion.IsValid, hv, hn]

theorem GetEntities_single (it : FMantleIterator) (mr : FMantleDBMasterRecord)
    (CE : FMantleCachedEntry) (c : Nat) (hv : it.IsValid mr = true)
    (hE : it.LocalCache.MatchingEntries = [CE]) (hi : it.EntryIndex = 0)
    (hc : it.ChunkIndex = (c : Int)) :
    it.GetEntities mr = CE.ChunkedEntityIds.getD c [] := by
  have hAt : it.EntryAt 0 = CE := by
    unfold FMantleIterator.EntryAt
    rw [hE]
    rfl
  unfold FMantleIterator.GetEntities
  rw [hv, hi, hAt, hE, hc]
  simp only [Bool.true_eq_false, if_false, List.length_singleton, Int.toNat_ofNat]
  rw [if_neg (by omega)]
  by_cases h0 : CE.ChunkedEntityIds.length = 0
  · rw [if_pos h0]
    rw [List.length_eq_zero] at h0
    rw [h0]
    rfl
  · rw [if_neg h0]
    by_cases h1 : (c : Int) < 0 ∨ (c : Int) ≥ (CE.ChunkedEntityIds.length : Int)
    · rw [if_pos h1]
      rw [List.getD_eq_getElem?_getD, List.getElem?_eq_none (by omega)]
      rfl
    · rw [if_neg h1]

theorem GetArrayView_single (it : FMantleIterator) (mr : FMantleDBMasterRecord)
    (CE : FMantleCachedEntry) (c : Nat) (T : FString) (hv : it.IsValid mr = true)
    (hE : it.LocalCache.MatchingEntries = [CE]) (hi : it.EntryIndex = 0)
    (hc : it.ChunkIndex = (c : Int)) :
    it.GetArrayView mr T =
      if CE.ChunkedEntityIds.length = 0 then []
      else ((CE.ChunkedComponents.Find T).getD []).getD c [] := by
  have hAt : it.EntryAt 0 = CE := by
    unfold FMantleIterator.EntryAt
    rw [hE]
    rfl
  unfold FMantleIterator.GetArrayView FMantleIterator.GetArrayViewInternal
  rw [hv, hi, hAt, hE, hc]
  simp only [Bool.true_eq_false, if_false, List.length_singleton, Int.toNat_ofNat]
  rw [if_neg (by omega)]
  by_cases h0 : CE.ChunkedEntityIds.length = 0
  · rw [if_pos h0, if_pos h0]
  · rw [if_neg h0, if_neg h0]
    cases CE.ChunkedComponents.Find T with
    | none => rfl
    | some Chunks =>
      show (if Chunks.length = 0 then [] else _) = Chunks.getD c []
      by_cases h1 : Chunks.length = 0
      · rw [if_pos h1]
        rw [List.length_eq_zero] at h1
        rw [h1]
        rfl
      · rw [if_neg h1]
        by_cases h2 : (c : Int) ≥ (Chunks.length : Int)
        · rw [if_pos h2, List.getD_eq_getElem?_getD, List.getElem?_eq_none (by omega)]
          rfl
        · rw [if_neg h2]

theorem Row_single (it : FMantleIterator) (mr : FMantleDBMasterRecord)
    (CE : FMantleCachedEntry) (c : Nat) (Names : List FString) (hv : it.IsValid mr = true)
    (hE : it.LocalCache.MatchingEntries = [CE]) (hi : it.EntryIndex = 0)
    (hc : it.ChunkIndex = (c : Int)) :
    (it.GetEntities mr, Names.map (fun T => it.GetArrayView mr T)) = CE.RowAt Names c := by
  unfold FMantleCachedEntry.RowAt
  rw [GetEntities_single it mr CE c hv hE hi hc]
  congr 1
  apply List.map_congr_left
  intro T _
  exact GetArrayView_single it mr CE c T hv hE hi hc

theorem IsValid_congr (it it1 : FMantleIterator) (mr : FMantleDBMasterRecord)
    (h1 : it1.LocalCache = it.LocalCache) (h2 : it1.bHasMasterRecord = it.bHasMasterRecord) :
    it1.IsValid mr = it.IsValid mr := by
  unfold FMantleIterator.IsValid
  rw [h1, h2]

/-- The walk from chunk position `j` of the only entry: the positions `j + 1, ...` below the
number of chunks follow, then `Next` returns false. -/
theorem Collect_from (mr : FMantleDBMasterRecord) (Names : List FString)
    (CE : FMantleCachedEntry) :
    ∀ (d fuel j : Nat) (it : FMantleIterator), it.IsValid mr = true →
      it.LocalCache.MatchingEntries = [CE] → it.EntryIndex = 0 → it.ChunkIndex = (j : Int) →
      j + 1 + d = max (j + 1) CE.ChunkedEntityIds.length → d ≤ fuel →
      FMantleIterator.Collect mr Names fuel it = (List.range' (j + 1) d).map (CE.RowAt Names)
  | d, 0, j, it, _, _, _, _, _, hfuel => by
    have hd : d = 0 := by omega
    subst hd
    rfl
  | d, fuel + 1, j, it, hv, hE, hi, hc, hd, hfuel => by
    have hAt : it.EntryAt 0 = CE := by
      unfold FMantleIterator.EntryAt
      rw [hE]
      rfl
    have hnext : it.Next mr =
        if j + 1 < CE.ChunkedEntityIds.length then
          (true, { it with ChunkIndex := ((j + 1 : Nat) : Int) })
        else (false, { it with EntryIndex := 1, ChunkIndex := 0 }) := by
      unfold FMantleIterator.Next
      rw [hv, hi, hAt, hE, hc]
      simp only [Bool.true_eq_false, if_false, List.length_singleton,
        FMantleCachedEntry.NumChunks]
      rw [if_neg (by omega), if_pos (by omega)]
      by_cases h : j + 1 < CE.ChunkedEntityIds.length
      · rw [if_pos h, if_pos (by omega)]
        simp [hi]
      · rw [if_neg h, if_neg (by omega)]
        simp
    rw [FMantleIterator.Collect, hnext]
    by_cases h : j + 1 < CE.ChunkedEntityIds.length
    · rw [if_pos h]
      simp only [if_true]
      obtain ⟨d1, rfl⟩ : ∃ d1, d = d1 + 1 := ⟨d - 1, by omega⟩
      have hv1 : FMantleIterator.IsValid { it with ChunkIndex := ((j + 1 : Nat) : Int) } mr
          = true := by
        exact (IsValid_congr it _ mr rfl rfl).trans hv
      rw [Row_single _ mr CE (j + 1) Names hv1 hE hi rfl,
        Collect_from mr Names CE d1 fuel (j + 1) _ hv1 hE hi rfl (by omega) (by omega)]
      rfl
    · rw [if_neg h]
      have hd0 : d = 0 := by omega
      subst hd0
      rfl

/-- The caller's loop over an iterator that was just returned, with a single matching entry:
one position per chunk view of the entry, and one position without entities if the entry has
no chunk view. -/
theorem Collect_single (mr : FMantleDBMasterRecord) (Names : List FString)
    (CE : FMantleCachedEntry) (CQ : FMantleCachedQuery) (fuel : Nat)
    (hE : CQ.MatchingEntries = [CE])
    (hf : mr.CachedQueries.Find CQ.QueryArchetype = some CQ)
    (hvalid : CQ.Version.bIsValid = true)
    (hfuel : max 1 CE.ChunkedEntityIds.length ≤ fuel) :
    FMantleIterator.Collect mr Names fuel { LocalCache := CQ, bHasMasterRecord := true } =
      (List.range' 0 (max 1 CE.ChunkedEntityIds.length)).map (CE.RowAt Names) := by
  obtain ⟨fuel1, rfl⟩ : ∃ f, fuel = f + 1 := ⟨fuel - 1, by omega⟩
  have hv : ∀ (i c : Int),
      FMantleIterator.IsValid
        { EntryIndex := i, ChunkIndex := c, LocalCache := CQ, bHasMasterRecord := true } mr
        = true :=
    fun i c => IsValid_of_cached _ mr CQ rfl hf hvalid rfl
  have hnext : FMantleIterator.Next { LocalCache := CQ, bHasMasterRecord := true } mr =
      (true, { EntryIndex := 0, ChunkIndex := 0, LocalCache := CQ, bHasMasterRecord := true }) := by
    unfold FMantleIterator.Next
    rw [hv]
    simp [hE]
  rw [FMantleIterator.Collect, hnext]
  simp only [if_true]
  rw [Row_single _ mr CE 0 Names (hv 0 0) hE rfl rfl,
    Collect_from mr Names CE (max 1 CE.ChunkedEntityIds.length - 1) fuel1 0 _ (hv 0 0) hE rfl rfl
      (by omega) (by omega)]
  obtain ⟨k, hk⟩ : ∃ k, max 1 CE.ChunkedEntityIds.length = k + 1 :=
    ⟨max 1 CE.ChunkedEntityIds.length - 1, by omega⟩
  rw [hk, List.range'_succ]
  rfl

/-! ## `RefreshCachedEntry` on an entry whose chunks hold the templates -/

theorem ColumnView_uniform (S : List FInstancedStruct) (Chunk : FMantleDBChunk)
    (hu : ChunkUniform S Chunk) (p : FInstancedStruct) (hp : p ∈ S) :
    Chunk.ColumnView p.TypeName 0 Chunk.EntityIds.length =
      List.replicate Chunk.EntityIds.length p.Memory := by
  unfold FMantleDBChunk.ColumnView
  apply List.ext_getElem
  · simp
  · intro i h1 h2
    rw [List.getElem_map, List.getElem_range, List.getElem_replicate, Nat.zero_add]
    exact hu p hp i (by simpa using h1)

theorem RefreshChunkColumns_spec (Chunk : FMantleDBChunk) :
    ∀ (Names : List FString) (m : TMap FString (List (List Payload))),
      (∀ T ∈ Names, ∃ Info, Chunk.ComponentTypeInfo.Find T = some Info) → Names.Nodup →
      ∃ m1, UMantleDB.RefreshChunkColumns Chunk Names m = some m1 ∧
        ∀ T, (m1.Find T).getD [] =
          (m.Find T).getD [] ++
            (if T ∈ Names then [Chunk.ColumnView T 0 Chunk.EntityIds.length] else [])
  | [], m, _, _ => ⟨m, rfl, fun T => by simp⟩
  | nm :: rest, m, hcols, hnd => by
    obtain ⟨Info, hInfo⟩ := hcols nm (List.mem_cons_self _ _)
    rw [List.nodup_cons] at hnd
    obtain ⟨m1, h1, h2⟩ := RefreshChunkColumns_spec Chunk rest
      (FMantleDBChunk.AppendView m nm (Chunk.ColumnView nm 0 Chunk.EntityIds.length))
      (fun T hT => hcols T (List.mem_cons_of_mem _ hT)) hnd.2
    refine ⟨m1, ?_, ?_⟩
    · rw [UMantleDB.RefreshChunkColumns, hInfo]
      exact h1
    · intro T
      rw [h2 T]
      unfold FMantleDBChunk.AppendView
      rw [TMap.Find_Add]
      by_cases hT : T = nm
      · subst hT
        rw [if_pos rfl, if_neg hnd.1, if_pos (List.mem_cons_self _ _)]
        simp
      · rw [if_neg hT]
        by_cases hr : T ∈ rest
        · rw [if_pos hr, if_pos (List.mem_cons_of_mem _ hr)]
        · rw [if_neg hr, if_neg]
          intro h
          rcases List.mem_cons.1 h with h | h
          · exact hT h
          · exact hr h

/-- The cached views of `RefreshChunks`: the entity ids of the chunks that hold entities, and
for every template a column of copies of it. -/
theorem RefreshChunks_spec (S : List FInstancedStruct) (e : FMantleDBEntry)
    (hcols : ∀ Id Chunk, e.Chunks.Find Id = some Chunk →
      (∀ T ∈ e.ComponentTypes, ∃ Info, Chunk.ComponentTypeInfo.Find T = some Info) ∧
        ChunkUniform S Chunk)
    (hnd : e.ComponentTypes.Nodup) (hS : ∀ p ∈ S, p.TypeName ∈ e.ComponentTypes) :
    ∀ (Ids : List FGuid) (CE : FMantleCachedEntry),
      (∀ p ∈ S, (CE.ChunkedComponents.Find p.TypeName).getD [] =
        CE.ChunkedEntityIds.map (fun ids => List.replicate ids.length p.Memory)) →
      ∃ CE1, UMantleDB.RefreshChunks e Ids CE = (CE1, true) ∧
        CE1.Archetype = CE.Archetype ∧ CE1.MatchingQueries = CE.MatchingQueries ∧
        CE1.bIsValid = CE.bIsValid ∧
        (CE1.ChunkedEntityIds.map List.length).sum =
          (CE.ChunkedEntityIds.map List.length).sum +
            (Ids.map (fun Id =>
              ((e.Chunks.Find Id).map (fun Chunk => Chunk.EntityIds.length)).getD 0)).sum ∧
        (∀ p ∈ S, (CE1.ChunkedComponents.Find p.TypeName).getD [] =
          CE1.ChunkedEntityIds.map (fun ids => List.replicate ids.length p.Memory)) ∧
        ((∀ ids ∈ CE.ChunkedEntityIds, ids ≠ []) → ∀ ids ∈ CE1.ChunkedEntityIds, ids ≠ [])
  | [], CE, hCE => ⟨CE, rfl, rfl, rfl, rfl, by simp, hCE, fun h => h⟩
  | Id :: rest, CE, hCE => by
    rw [UMantleDB.RefreshChunks]
    cases hfind : e.Chunks.Find Id with
    | none =>
      obtain ⟨CE1, h1, h2, h3, h4, h5, h6, h7⟩ :=
        RefreshChunks_spec S e hcols hnd hS rest CE hCE
      exact ⟨CE1, h1, h2, h3, h4, by rw [h5]; simp [hfind], h6, h7⟩
    | some Chunk =>
      by_cases hempty : Chunk.IsEmpty = true
      · obtain ⟨CE1, h1, h2, h3, h4, h5, h6, h7⟩ :=
          RefreshChunks_spec S e hcols hnd hS rest CE hCE
        refine ⟨CE1, ?_, h2, h3, h4, ?_, h6, h7⟩
        · show (if Chunk.IsEmpty = true then _ else _) = _
          rw [if_pos hempty]
          exact h1
        · rw [h5]
          have h0 : Chunk.EntityIds.length = 0 := by
            unfold FMantleDBChunk.IsEmpty at hempty
            simpa using hempty
          simp [hfind, h0]
      · obtain ⟨hc1, hc2⟩ := hcols Id Chunk hfind
        obtain ⟨m1, hm1, hm2⟩ := RefreshChunkColumns_spec Chunk e.ComponentTypes
          CE.ChunkedComponents hc1 hnd
        obtain ⟨CE1, h1, h2, h3, h4, h5, h6, h7⟩ := RefreshChunks_spec S e hcols hnd hS rest
          { CE with ChunkedEntityIds := CE.ChunkedEntityIds ++ [Chunk.EntityIds],
                    ChunkedComponents := m1 }
          (by
            intro p hp
            show (m1.Find p.TypeName).getD [] = _
            rw [hm2 p.TypeName, if_pos (hS p hp), hCE p hp, ColumnView_uniform S Chunk hc2 p hp]
            simp)
        refine ⟨CE1, ?_, h2, h3, h4, ?_, h6, ?_⟩
        · show (if Chunk.IsEmpty = true then _ else _) = _
          rw [if_neg hempty]
          simp only
          rw [hm1]
          exact h1
        · rw [h5]
          simp [hfind]
          omega
        · intro hne
          apply h7
          intro ids hids
          rcases List.mem_append.1 hids with h | h
          · exact hne ids h
          · rw [List.mem_singleton] at h
            subst h
            intro h0
            apply hempty
            unfold FMantleDBChunk.IsEmpty
            rw [h0]
            rfl
theorem RunQueryLoop_skip (Q : TBitArray) (rest : List TBitArray) (db : UMantleDB)
    (CQ : FMantleCachedQuery) :
    ∀ (pre : List TBitArray), (∀ X ∈ pre, BitwiseAND X Q ≠ Q) →
      UMantleDB.RunQueryLoop Q (pre ++ rest) db CQ = UMantleDB.RunQueryLoop Q rest db CQ
  | [], _ => rfl
  | X :: pre, h => by
    rw [List.cons_append, UMantleDB.RunQueryLoop, if_pos (h X (List.mem_cons_self _ _))]
    exact RunQueryLoop_skip Q rest db CQ pre (fun Y hY => h Y (List.mem_cons_of_mem _ hY))

theorem BitwiseAND_self (A : TBitArray) : BitwiseAND A A = A := by
  unfold BitwiseAND
  induction A with
  | nil => rfl
  | cons a rest ih => simp [List.zipWith, ih]

theorem RunQueryLoop_single (Q A : TBitArray) (db : UMantleDB) (CQ : FMantleCachedQuery)
    (e : FMantleDBEntry) (cb CE : FMantleCachedEntry)
    (hAQ : BitwiseAND A Q = Q)
    (he : db.EntriesByArchetype.Find A = some e)
    (hcb : db.MasterRecord.CachedEntries.Find A = some cb) (hcbA : cb.Archetype = A)
    (hcbv : cb.bIsValid = false)
    (hCE : UMantleDB.RefreshChunks e e.AllChunkIds
      { cb with ChunkedComponents := [], ChunkedEntityIds := [] } = (CE, true)) :
    UMantleDB.RunQueryLoop Q [A] db CQ =
      ({ db with
          MasterRecord :=
            { db.MasterRecord with
              CachedEntries :=
                db.MasterRecord.CachedEntries.Add A
                  { CE with bIsValid := true,
                            MatchingQueries := TSetAdd CE.MatchingQueries CQ.QueryArchetype } } },
        { CQ with MatchingEntries := CQ.MatchingEntries ++ [{ CE with bIsValid := true }] },
        true) := by
  subst hcbA
  have hmr : db.MasterRecord.FindOrAddCachedEntry cb.Archetype = db.MasterRecord := by
    unfold FMantleDBMasterRecord.FindOrAddCachedEntry
    rw [hcb]
  have hce : db.MasterRecord.CachedEntryOf cb.Archetype = cb := by
    unfold FMantleDBMasterRecord.CachedEntryOf
    rw [hcb]
    rfl
  have hrefresh : db.RefreshCachedEntry cb = ({ CE with bIsValid := true }, true) := by
    unfold UMantleDB.RefreshCachedEntry
    simp only [he, hCE, if_true]
  rw [UMantleDB.RunQueryLoop, if_neg (by rw [hAQ]; exact fun h => h rfl)]
  simp only [hmr, hce, hcbv, Bool.false_eq_true, if_false, hrefresh]
  rfl

/-- The first query for the archetype `A` in a database without cached queries, in which `A`
is the only active archetype that matches: the cached entry of `A` is refreshed from the
entry, and the cached query holds it alone. -/
theorem RefreshCachedQuery_first (db : UMantleDB) (A : TBitArray) (e : FMantleDBEntry)
    (ca CE : FMantleCachedEntry) (pre : List TBitArray)
    (he : db.EntriesByArchetype.Find A = some e)
    (hq : db.MasterRecord.CachedQueries = [])
    (hca : db.MasterRecord.CachedEntries.Find A = some ca) (hcaA : ca.Archetype = A)
    (hact : db.ActiveArchetypes = pre ++ [A]) (hpre : ∀ X ∈ pre, BitwiseAND X A ≠ A)
    (hCE : UMantleDB.RefreshChunks e e.AllChunkIds
      { ca with bIsValid := false, ChunkedComponents := [], ChunkedEntityIds := [] } = (CE, true)) :
    ∃ dbq, (db.EntryWasModified A).RefreshCachedQuery A = (dbq, true) ∧
      dbq.MasterRecord.CachedQueries.Find A =
        some { QueryArchetype := A, MatchingEntries := [{ CE with bIsValid := true }],
               Version := { VersionNumber := 1, bIsValid := true } } ∧
      dbq.MasterRecord.ComponentInfoMap = db.MasterRecord.ComponentInfoMap := by
  obtain ⟨Entries, Active, mr, init⟩ := db
  obtain ⟨budget, reg, ents, CQs, CEs, next⟩ := mr
  simp only at he hq hca hact
  subst hq
  subst hact
  have hm : UMantleDB.EntryWasModified
      ⟨Entries, pre ++ [A], ⟨budget, reg, ents, [], CEs, next⟩, init⟩ A =
      ⟨Entries, pre ++ [A],
        ⟨budget, reg, ents, [], CEs.Add A { ca with bIsValid := false }, next⟩, init⟩ := by
    unfold UMantleDB.EntryWasModified
    simp only [hca]
    rfl
  rw [hm]
  have hloop := RunQueryLoop_single A A
    ⟨Entries, pre ++ [A],
      ⟨budget, reg, ents,
        [(A, { QueryArchetype := A })],
        CEs.Add A { ca with bIsValid := false }, next⟩, init⟩
    { QueryArchetype := A } e { ca with bIsValid := false } CE (BitwiseAND_self A) he
    (TMap.Find_Add_self _ _ _) hcaA rfl hCE
  have hint : UMantleDB.RunQueryInternal
      ⟨Entries, pre ++ [A],
        ⟨budget, reg, ents, [], CEs.Add A { ca with bIsValid := false }, next⟩, init⟩ A =
      (⟨Entries, pre ++ [A],
        ⟨budget, reg, ents,
          [(A, { QueryArchetype := A, MatchingEntries := [{ CE with bIsValid := true }],
                 Version := { VersionNumber := 1, bIsValid := true } })],
          (CEs.Add A { ca with bIsValid := false }).Add A
            { CE with bIsValid := true, MatchingQueries := TSetAdd CE.MatchingQueries A },
          next⟩, init⟩,
        { LocalCache :=
            { QueryArchetype := A, MatchingEntries := [{ CE with bIsValid := true }],
              Version := { VersionNumber := 1, bIsValid := true } },
          bHasMasterRecord := true }) := by
    unfold UMantleDB.RunQueryInternal
    simp only [TMap.Find, Option.map_none', Option.getD_none, Bool.false_eq_true, if_false]
    rw [RunQueryLoop_skip A [A] _ _ pre hpre]
    have hadd : TMap.Add ([] : TMap TBitArray FMantleCachedQuery) A
        (FMantleCachedQuery.ClearData { QueryArchetype := A }) = [(A, { QueryArchetype := A })] :=
      rfl
    rw [hadd]
    have hclear : FMantleCachedQuery.ClearData { QueryArchetype := A } =
        ({ QueryArchetype := A } : FMantleCachedQuery) := rfl
    rw [hclear, hloop]
    simp [TMap.Add, TMap.Contains, TMap.Find, FMantleDBVersion.Update]
  refine ⟨⟨Entries, pre ++ [A],
        ⟨budget, reg, ents,
          [(A, { QueryArchetype := A, MatchingEntries := [{ CE with bIsValid := true }],
                 Version := { VersionNumber := 1, bIsValid := true } })],
          (CEs.Add A { ca with bIsValid := false }).Add A
            { CE with bIsValid := true, MatchingQueries := TSetAdd CE.MatchingQueries A },
          next⟩, init⟩, ?_, ?_, ?_⟩
  · unfold UMantleDB.RefreshCachedQuery
    simp only [TMap.Find, Option.map_none', Option.getD_none, Bool.false_eq_true, if_false]
    rw [hint]
    simp [TMap.Contains, TMap.Find]
  · simp [TMap.Find]
  · rfl


theorem length_le_sum_of_nonempty (l : List (List FGuid)) (h : ∀ x ∈ l, x ≠ []) :
    l.length ≤ (l.map List.length).sum := by
  induction l with
  | nil => simp
  | cons a rest ih =>
    have ha : 1 ≤ a.length := by
      cases a with
      | nil => exact absurd rfl (h [] (List.mem_cons_self _ _))
      | cons x xs => simp
    have := ih (fun x hx => h x (List.mem_cons_of_mem _ hx))
    simp only [List.length_cons, List.map_cons, List.sum_cons]
    omega

/-! ## The archetype of a list of registered names, its entry and its chunks -/

theorem ZeroBits_length (n : Nat) : (ZeroBits n).length = n := by
  unfold ZeroBits
  exact List.length_replicate _ _

theorem IsZero_ZeroBits (n : Nat) : IsZero (ZeroBits n) = true := by
  unfold IsZero ZeroBits
  rw [List.all_eq_true]
  intro b hb
  rw [List.eq_of_mem_replicate hb]
  rfl

theorem IsZero_eq_false_of_bit (A : TBitArray) (i : Nat) (h : GetBit A i = true) :
    IsZero A = false := by
  unfold GetBit at h
  rw [List.getD_eq_getElem?_getD] at h
  cases hA : A[i]? with
  | none => rw [hA] at h; cases h
  | some b =>
    rw [hA] at h
    have hb : b = true := h
    subst hb
    have hmem : true ∈ A := by
      obtain ⟨hlt, hget⟩ := List.getElem?_eq_some_iff.1 hA
      exact hget ▸ List.getElem_mem hlt
    unfold IsZero
    rw [Bool.eq_false_iff]
    intro hall
    rw [List.all_eq_true] at hall
    have := hall true hmem
    cases this

/-- The bit of a registered type in the archetype that `FillArchetype` computes from the
all-zero mask and a list of names: set exactly when the type is one of the names. -/
theorem FillArchetype_bit_iff (db : UMantleDB) (Names : List FString)
    (hok : RegistryOk db.MasterRecord.ComponentInfoMap)
    (p : FString × FMantleComponentInfo) (hp : p ∈ db.MasterRecord.ComponentInfoMap) :
    GetBit (db.FillArchetype (ZeroBits db.MasterRecord.ComponentInfoMap.length) Names)
        p.2.ArchetypeIndex = true ↔ p.1 ∈ Names := by
  have hfill : db.FillArchetype (ZeroBits db.MasterRecord.ComponentInfoMap.length) Names =
      UMantleDB.FillArchetypeLoop db.MasterRecord true Names
        (ZeroBits db.MasterRecord.ComponentInfoMap.length) := rfl
  rw [hfill, FillArchetypeLoop_bit db.MasterRecord true p.2.ArchetypeIndex Names _
    (fun nm Info h => by rw [ZeroBits_length]; exact hok.find_index_lt nm Info h),
    GetBit_ZeroBits]
  constructor
  · intro h
    by_cases hex : ∃ nm ∈ Names, ∃ Info, db.MasterRecord.ComponentInfoMap.Find nm = some Info ∧
        Info.ArchetypeIndex = p.2.ArchetypeIndex
    · obtain ⟨nm, hnm, Info, hfind, hidx⟩ := hex
      have heq := hok.index_inj (nm, Info) (TMap.Find_mem hfind) p hp hidx
      rw [← heq]
      exact hnm
    · rw [if_neg hex] at h
      cases h
  · intro h
    rw [if_pos ⟨p.1, h, p.2, hok.find_mem p hp, rfl⟩]

theorem FillArchetype_length (db : UMantleDB) (Names : List FString) (A : TBitArray) :
    (db.FillArchetype A Names).length = A.length := by
  have hfill : db.FillArchetype A Names =
      UMantleDB.FillArchetypeLoop db.MasterRecord true Names A := rfl
  rw [hfill, FillArchetypeLoop_length]

theorem FillArchetype_nil (db : UMantleDB) (A : TBitArray) : db.FillArchetype A [] = A := rfl

theorem FillArchetype_congr (db1 db : UMantleDB)
    (h : db1.MasterRecord.ComponentInfoMap = db.MasterRecord.ComponentInfoMap)
    (A : TBitArray) (Names : List FString) :
    db1.FillArchetype A Names = db.FillArchetype A Names := by
  have h1 : ∀ (Value : Bool) (Names : List FString) (A : TBitArray),
      UMantleDB.FillArchetypeLoop db1.MasterRecord Value Names A =
        UMantleDB.FillArchetypeLoop db.MasterRecord Value Names A := by
    intro Value Names
    induction Names with
    | nil => intro A; rfl
    | cons nm rest ih =>
      intro A
      rw [UMantleDB.FillArchetypeLoop, UMantleDB.FillArchetypeLoop, h]
      cases db.MasterRecord.ComponentInfoMap.Find nm with
      | none => exact ih A
      | some Info => exact ih _
  unfold UMantleDB.FillArchetype
  rw [h1, h1]

/-- With at least one registered name the archetype is not the bare one. -/
theorem FillArchetype_not_bare (db : UMantleDB) (Names : List FString)
    (hok : RegistryOk db.MasterRecord.ComponentInfoMap)
    (nm : FString) (hnm : nm ∈ Names) (Info : FMantleComponentInfo)
    (hfind : db.MasterRecord.ComponentInfoMap.Find nm = some Info) :
    IsZero (db.FillArchetype (ZeroBits db.MasterRecord.ComponentInfoMap.length) Names) = false :=
  IsZero_eq_false_of_bit _ Info.ArchetypeIndex
    ((FillArchetype_bit_iff db Names hok (nm, Info) (TMap.Find_mem hfind)).2 hnm)

/-- The columns of a chunk of the archetype of `Names`, when the named types are valid: the
registry entries of the names. -/
theorem PresentTypes_Fill (db : UMantleDB) (Names : List FString)
    (hok : RegistryOk db.MasterRecord.ComponentInfoMap)
    (hvalid : ∀ p ∈ db.MasterRecord.ComponentInfoMap, p.1 ∈ Names →
      FMantleDBChunk.ValidateComponentInfo p.2 = true) :
    FMantleDBChunk.PresentTypes
        (db.FillArchetype (ZeroBits db.MasterRecord.ComponentInfoMap.length) Names)
        db.MasterRecord =
      db.MasterRecord.ComponentInfoMap.filter (fun p => decide (p.1 ∈ Names)) := by
  unfold FMantleDBChunk.PresentTypes
  apply List.filter_congr
  intro p hp
  by_cases h : p.1 ∈ Names
  · rw [hvalid p hp h, (FillArchetype_bit_iff db Names hok p hp).2 h]
    simp [h]
  · have hb : GetBit (db.FillArchetype (ZeroBits db.MasterRecord.ComponentInfoMap.length) Names)
        p.2.ArchetypeIndex = false := by
      rw [Bool.eq_false_iff]
      exact fun hbit => h ((FillArchetype_bit_iff db Names hok p hp).1 hbit)
    rw [hb]
    simp [h]

/-- The component types of the entry of the archetype of `Names`: the registered names among
`Names`, in the order of the registry. -/
theorem Entry_Ctor_ComponentTypes (db : UMantleDB) (Names : List FString)
    (hok : RegistryOk db.MasterRecord.ComponentInfoMap) :
    (FMantleDBEntry.Ctor
        (db.FillArchetype (ZeroBits db.MasterRecord.ComponentInfoMap.length) Names)
        db.MasterRecord).ComponentTypes =
      (db.MasterRecord.ComponentInfoMap.filter (fun p => decide (p.1 ∈ Names))).map
        (fun p => p.1) := by
  unfold FMantleDBEntry.Ctor
  simp only
  have hf : db.MasterRecord.ComponentInfoMap.filter
      (fun p => GetBit (db.FillArchetype (ZeroBits db.MasterRecord.ComponentInfoMap.length) Names)
        p.2.ArchetypeIndex) =
      db.MasterRecord.ComponentInfoMap.filter (fun p => decide (p.1 ∈ Names)) := by
    apply List.filter_congr
    intro p hp
    by_cases h : p.1 ∈ Names
    · rw [(FillArchetype_bit_iff db Names hok p hp).2 h]
      simp [h]
    · have hb : GetBit
          (db.FillArchetype (ZeroBits db.MasterRecord.ComponentInfoMap.length) Names)
          p.2.ArchetypeIndex = false := by
        rw [Bool.eq_false_iff]
        exact fun hbit => h ((FillArchetype_bit_iff db Names hok p hp).1 hbit)
      rw [hb]
      simp [h]
  rw [hf]
  apply List.map_congr_left
  intro p hp
  exact hok.name_eq p (List.mem_of_mem_filter hp)

/-! ## `FMantleDBEntry::AddEntities` on a new entry -/

theorem Entry_AddEntities_zero (fuel : Nat) (e : FMantleDBEntry) (mr : FMantleDBMasterRecord)
    (S : List FInstancedStruct) (Out : FMantleCachedEntry) :
    e.AddEntities fuel mr S 0 Out = .ok (e, mr, Out) := by
  cases fuel <;> rfl

/-- `FMantleDBEntry::AddEntities` on an entry of the bare archetype without chunks: one chunk
is created and takes all the entities. -/
theorem Entry_AddEntities_bare (e : FMantleDBEntry) (mr : FMantleDBMasterRecord)
    (S : List FInstancedStruct) (n fuel : Nat) (Out : FMantleCachedEntry)
    (hchunks : e.Chunks = []) (hstack : e.AvailableChunkIds = []) (hall : e.AllChunkIds = [])
    (hzero : IsZero e.Archetype = true)
    (hpresent : FMantleDBChunk.PresentTypes e.Archetype mr = []) :
    ∃ e1 mr1 Out1 Chunk,
      e.AddEntities (fuel + 1) mr S (n + 1) Out = .ok (e1, mr1, Out1) ∧
      e1.Archetype = e.Archetype ∧ e1.ComponentTypes = e.ComponentTypes ∧
      mr1.ComponentInfoMap = mr.ComponentInfoMap ∧
      mr1.CachedQueries = mr.CachedQueries ∧ mr1.CachedEntries = mr.CachedEntries ∧
      e1.Chunks = [(mr.NextGuid, Chunk)] ∧ e1.AllChunkIds = [mr.NextGuid] ∧
      Chunk.EntityIds.length = n + 1 ∧ Chunk.ComponentTypeInfo = [] := by
  obtain ⟨A, CTs, Chunks, Avail, All⟩ := e
  simp only at hchunks hstack hall hzero hpresent
  subst hchunks hstack hall
  have hctor : FMantleDBChunk.Ctor mr.NextGuid A mr.NewGuid.2 =
      .ok { ChunkId := mr.NextGuid, Archetype := A, ComponentTypeInfo := [] } := by
    have hp : FMantleDBChunk.PresentTypes A mr.NewGuid.2 = [] := hpresent
    unfold FMantleDBChunk.Ctor FMantleDBChunk.BytesPerEntity
    rw [hp]
    rfl
  have hget : FMantleDBEntry.GetAvailableChunk ⟨A, CTs, [], [], []⟩ mr =
      .ok (mr.NextGuid, { ChunkId := mr.NextGuid, Archetype := A, ComponentTypeInfo := [] },
        ⟨A, CTs, [(mr.NextGuid,
            { ChunkId := mr.NextGuid, Archetype := A, ComponentTypeInfo := [] })],
          [mr.NextGuid], [mr.NextGuid]⟩, mr.NewGuid.2) := by
    unfold FMantleDBEntry.GetAvailableChunk
    simp only [FMantleDBEntry.FindExistingChunk]
    have h1 : mr.NewGuid.1 = mr.NextGuid := rfl
    rw [h1, hctor]
    rfl
  obtain ⟨r1, r2, r3, r4, r5, r6, r7⟩ := RegisterEntities_spec
    { ChunkId := mr.NextGuid, Archetype := A, ComponentTypeInfo := [] } mr.NewGuid.2 (n + 1) Out
  have hadd : FMantleDBChunk.AddEntities
      { ChunkId := mr.NextGuid, Archetype := A, ComponentTypeInfo := [] } mr.NewGuid.2 S (n + 1)
      Out = .ok (n + 1,
        (FMantleDBChunk.RegisterEntities
          { ChunkId := mr.NextGuid, Archetype := A, ComponentTypeInfo := [] } mr.NewGuid.2
          (n + 1) Out).1,
        (FMantleDBChunk.RegisterEntities
          { ChunkId := mr.NextGuid, Archetype := A, ComponentTypeInfo := [] } mr.NewGuid.2
          (n + 1) Out).2.1,
        (FMantleDBChunk.RegisterEntities
          { ChunkId := mr.NextGuid, Archetype := A, ComponentTypeInfo := [] } mr.NewGuid.2
          (n + 1) Out).2.2) := by
    unfold FMantleDBChunk.AddEntities
    rw [if_neg (by omega)]
    simp only [hzero, if_true]
  have hstore : FMantleDBEntry.PopIfFull
      { (⟨A, CTs, [(mr.NextGuid,
            { ChunkId := mr.NextGuid, Archetype := A, ComponentTypeInfo := [] })],
          [mr.NextGuid], [mr.NextGuid]⟩ : FMantleDBEntry) with
        Chunks := TMap.Add [(mr.NextGuid,
            ({ ChunkId := mr.NextGuid, Archetype := A, ComponentTypeInfo := [] } :
              FMantleDBChunk))] mr.NextGuid
          (FMantleDBChunk.RegisterEntities
            { ChunkId := mr.NextGuid, Archetype := A, ComponentTypeInfo := [] } mr.NewGuid.2
            (n + 1) Out).1 }
      (FMantleDBChunk.RegisterEntities
        { ChunkId := mr.NextGuid, Archetype := A, ComponentTypeInfo := [] } mr.NewGuid.2
        (n + 1) Out).1 =
      ⟨A, CTs, [(mr.NextGuid,
          (FMantleDBChunk.RegisterEntities
            { ChunkId := mr.NextGuid, Archetype := A, ComponentTypeInfo := [] } mr.NewGuid.2
            (n + 1) Out).1)], [mr.NextGuid], [mr.NextGuid]⟩ := by
    unfold FMantleDBEntry.PopIfFull
    simp only [hzero, Bool.true_eq_false, and_false, if_false]
    simp [TMap.Add, TMap.Contains, TMap.Find]
  refine ⟨⟨A, CTs, [(mr.NextGuid,
          (FMantleDBChunk.RegisterEntities
            { ChunkId := mr.NextGuid, Archetype := A, ComponentTypeInfo := [] } mr.NewGuid.2
            (n + 1) Out).1)], [mr.NextGuid], [mr.NextGuid]⟩,
    (FMantleDBChunk.RegisterEntities
      { ChunkId := mr.NextGuid, Archetype := A, ComponentTypeInfo := [] } mr.NewGuid.2
      (n + 1) Out).2.1,
    (FMantleDBChunk.RegisterEntities
      { ChunkId := mr.NextGuid, Archetype := A, ComponentTypeInfo := [] } mr.NewGuid.2
      (n + 1) Out).2.2, _, ?_, rfl, rfl, r4, r6, r7, rfl, rfl, ?_, ?_⟩
  · rw [FMantleDBEntry.AddEntities, hget]
    simp only [hadd, Nat.sub_self]
    rw [hstore, Entry_AddEntities_zero]
  · rw [r1]
    simp
  · rw [r1]


/-- `FMantleDBEntry::AddEntities` on an entry without chunks: the `n` entities end in chunks
with the columns of the archetype, each occupied slot holding the templates. The chunk
constructor has to succeed with a capacity of at least one unless there is no template or
nothing to add. -/
theorem Entry_AddEntities_filled (S : List FInstancedStruct) (e : FMantleDBEntry)
    (mr : FMantleDBMasterRecord) (n fuel : Nat)
    (hS : (S.map (fun p => p.TypeName)).Nodup)
    (hchunks : e.Chunks = []) (hstack : e.AvailableChunkIds = []) (hall : e.AllChunkIds = [])
    (hcols : ∀ p ∈ S,
      ∃ Info, (FMantleDBChunk.PresentTypes e.Archetype mr).Find p.TypeName = some Info)
    (hbare : S = [] → IsZero e.Archetype = true ∧ FMantleDBChunk.PresentTypes e.Archetype mr = [])
    (hnb : S ≠ [] → IsZero e.Archetype = false)
    (hcap : S = [] ∨ n = 0 ∨
      ∃ Chunk, FMantleDBChunk.Ctor 0 e.Archetype mr = .ok Chunk ∧ 1 ≤ Chunk.TotalCapacity)
    (hfuel : n ≤ fuel) :
    ∃ e1 mr1 Out1,
      e.AddEntities fuel mr S n { Archetype := e.Archetype } = .ok (e1, mr1, Out1) ∧
      e1.Archetype = e.Archetype ∧ e1.ComponentTypes = e.ComponentTypes ∧
      mr1.ComponentInfoMap = mr.ComponentInfoMap ∧
      mr1.CachedQueries = mr.CachedQueries ∧ mr1.CachedEntries = mr.CachedEntries ∧
      EntryCount e1 = n ∧
      ∀ Id Chunk, e1.Chunks.Find Id = some Chunk →
        Chunk.ComponentTypeInfo = FMantleDBChunk.PresentTypes e.Archetype mr ∧
          ChunkUniform S Chunk := by
  have hcount0 : EntryCount e = 0 := by
    unfold EntryCount
    rw [hall]
    rfl
  by_cases hn : n = 0
  · subst hn
    refine ⟨e, mr, _, Entry_AddEntities_zero fuel e mr S _, rfl, rfl, rfl, rfl, rfl, hcount0, ?_⟩
    intro Id Chunk h
    rw [hchunks] at h
    cases h
  by_cases hS0 : S = []
  · obtain ⟨m, rfl⟩ : ∃ m, n = m + 1 := ⟨n - 1, by omega⟩
    obtain ⟨f, rfl⟩ : ∃ f, fuel = f + 1 := ⟨fuel - 1, by omega⟩
    obtain ⟨hz, hp⟩ := hbare hS0
    obtain ⟨e1, mr1, Out1, Chunk, hrun, a1, a2, a3, a4, a5, a6, a7, a8, a9⟩ :=
      Entry_AddEntities_bare e mr S m f { Archetype := e.Archetype } hchunks hstack hall hz hp
    refine ⟨e1, mr1, Out1, hrun, a1, a2, a3, a4, a5, ?_, ?_⟩
    · unfold EntryCount
      rw [a7, a6]
      simp [TMap.Find, a8]
    · intro Id Chunk1 h
      rw [a6, TMap.Find_cons] at h
      by_cases hid : mr.NextGuid = Id
      · rw [if_pos hid] at h
        cases h
        refine ⟨by rw [a9, hp], ?_⟩
        intro p hp1
        rw [hS0] at hp1
        cases hp1
      · rw [if_neg hid] at h
        cases h
  · obtain ⟨Chunk0, hctor, hc⟩ : ∃ Chunk, FMantleDBChunk.Ctor 0 e.Archetype mr = .ok Chunk ∧
        1 ≤ Chunk.TotalCapacity := by
      rcases hcap with h | h | h
      · exact absurd h hS0
      · exact absurd h hn
      · exact h
    have hinv : EntryPoolInv Chunk0.TotalCapacity S e mr := by
      refine ⟨hnb hS0, hc, ⟨Chunk0, hctor, rfl⟩, hcols, ?_, ?_, ?_⟩
      · intro Id Chunk h
        rw [hchunks] at h
        cases h
      · rw [hstack]
        exact List.nodup_nil
      · intro Id hId
        rw [hstack] at hId
        cases hId
    have hids : EntryIdsOk e := by
      refine ⟨by rw [hall]; exact List.nodup_nil, ?_⟩
      intro Id
      rw [hall, hchunks]
      simp [TMap.Contains, TMap.Find]
    obtain ⟨e1, mr1, Out1, views, hrun, _, _, _, b1, b2, b3, _, b4, b5, _, b6, b7⟩ :=
      Entry_AddEntities_spec hS fuel n e mr { Archetype := e.Archetype } hinv hfuel
    refine ⟨e1, mr1, Out1, hrun, b1, b2, b3, b4, b5, ?_, ?_⟩
    · rw [(b7 hids).2, hcount0, Nat.zero_add]
    · intro Id Chunk h
      obtain ⟨_, _, c3, _, c5⟩ := b6 Id Chunk h
      exact ⟨by rw [c3, b1, PresentTypes_congr b3], c5⟩

/-! ## A query served from the cache of a single entry -/

theorem RunQuery_cached (db : UMantleDB) (Names : List FString) (A : TBitArray)
    (CQ : FMantleCachedQuery)
    (hA : db.FillArchetype (ZeroBits db.MasterRecord.ComponentInfoMap.length) Names = A)
    (hf : db.MasterRecord.CachedQueries.Find A = some CQ)
    (hv : CQ.Version.bIsValid = true) :
    db.RunQuery { RequiredComponents := Names } =
      ({ RequiredComponents := Names, CachedArchetype := A }, db,
        { LocalCache := CQ, bHasMasterRecord := true }) := by
  unfold UMantleDB.RunQuery
  simp only [List.length_nil, if_true, hA]
  unfold UMantleDB.RunQueryInternal
  simp [hf, FMantleDBVersion.IsValid, hv]

/-- What the caller sees of a query that is served from a valid cached query with a single
matching entry. -/
theorem QueryRows_cached (db : UMantleDB) (Names : List FString) (A : TBitArray)
    (CQ : FMantleCachedQuery) (CE : FMantleCachedEntry) (fuel : Nat)
    (hA : db.FillArchetype (ZeroBits db.MasterRecord.ComponentInfoMap.length) Names = A)
    (hf : db.MasterRecord.CachedQueries.Find A = some CQ)
    (hQA : CQ.QueryArchetype = A) (hE : CQ.MatchingEntries = [CE])
    (hv : CQ.Version.bIsValid = true)
    (hfuel : max 1 CE.ChunkedEntityIds.length ≤ fuel) :
    db.QueryRows Names fuel =
      (List.range' 0 (max 1 CE.ChunkedEntityIds.length)).map (CE.RowAt Names) := by
  unfold UMantleDB.QueryRows
  rw [RunQuery_cached db Names A CQ hA hf hv]
  exact Collect_single db.MasterRecord Names CE CQ fuel hE (by rw [hQA]; exact hf) hv hfuel

theorem map_getD_range (l : List (List FGuid)) :
    (List.range' 0 l.length).map (fun c => l.getD c []) = l := by
  apply List.ext_getElem
  · simp
  · intro i h1 h2
    rw [List.getElem_map, List.getElem_range', List.getD_eq_getElem?_getD,
      List.getElem?_eq_getElem (by simpa using h2)]
    simp

/-- The rows of a cached entry whose columns hold copies of the templates. -/
theorem Rows_of_cached (CE : FMantleCachedEntry) (S : List FInstancedStruct)
    (hcols : ∀ p ∈ S, (CE.ChunkedComponents.Find p.TypeName).getD [] =
      CE.ChunkedEntityIds.map (fun ids => List.replicate ids.length p.Memory)) :
    (((List.range' 0 (max 1 CE.ChunkedEntityIds.length)).map
        (CE.RowAt (S.map (fun p => p.TypeName)))).map (fun r => r.1.length)).sum =
        (CE.ChunkedEntityIds.map List.length).sum ∧
      ∀ r ∈ (List.range' 0 (max 1 CE.ChunkedEntityIds.length)).map
          (CE.RowAt (S.map (fun p => p.TypeName))),
        r.2 = S.map (fun p => List.replicate r.1.length p.Memory) := by
  constructor
  · rw [List.map_map]
    by_cases hk : CE.ChunkedEntityIds.length = 0
    · rw [hk]
      rw [List.length_eq_zero] at hk
      simp [FMantleCachedEntry.RowAt, hk]
    · have hmax : max 1 CE.ChunkedEntityIds.length = CE.ChunkedEntityIds.length := by omega
      rw [hmax]
      have h := congrArg (fun l => (l.map List.length).sum) (map_getD_range CE.ChunkedEntityIds)
      simp only [List.map_map] at h
      exact h
  · intro r hr
    obtain ⟨c, _, rfl⟩ := List.mem_map.1 hr
    unfold FMantleCachedEntry.RowAt
    simp only [List.map_map]
    apply List.map_congr_left
    intro p hp
    simp only [Function.comp]
    by_cases hk : CE.ChunkedEntityIds.length = 0
    · rw [if_pos hk]
      rw [List.length_eq_zero] at hk
      rw [hk]
      rfl
    · rw [if_neg hk, hcols p hp, List.getD_eq_getElem?_getD, List.getD_eq_getElem?_getD,
        List.getElem?_map]
      cases CE.ChunkedEntityIds[c]? <;> rfl

/-! ## `AddEntities` followed by a query for the same types -/

/-- The state `GetOrCreateEntry` leaves for an archetype in a database without cached queries,
when the archetype has no entry yet or has one without chunks: the entry returned has no
chunks, a cached entry of the archetype exists, and the archetype is the last of the active
ones. -/
theorem GetOrCreateEntry_fresh (db : UMantleDB) (A : TBitArray)
    (hq : db.MasterRecord.CachedQueries = [])
    (hstate :
      (db.EntriesByArchetype.Find A = none ∧ db.MasterRecord.CachedEntries.Find A = none ∧
        ∀ X ∈ db.ActiveArchetypes, BitwiseAND X A ≠ A) ∨
      (∃ e ca, db.EntriesByArchetype.Find A = some e ∧ e.Archetype = A ∧
        e.ComponentTypes = (FMantleDBEntry.Ctor A db.MasterRecord).ComponentTypes ∧
        e.Chunks = [] ∧ e.AvailableChunkIds = [] ∧ e.AllChunkIds = [] ∧
        db.MasterRecord.CachedEntries.Find A = some ca ∧ ca.Archetype = A ∧
        ∃ pre, db.ActiveArchetypes = pre ++ [A] ∧ ∀ X ∈ pre, BitwiseAND X A ≠ A)) :
    (db.GetOrCreateEntry A).2.Archetype = A ∧
      (db.GetOrCreateEntry A).2.ComponentTypes =
        (FMantleDBEntry.Ctor A db.MasterRecord).ComponentTypes ∧
      (db.GetOrCreateEntry A).2.Chunks = [] ∧
      (db.GetOrCreateEntry A).2.AvailableChunkIds = [] ∧
      (db.GetOrCreateEntry A).2.AllChunkIds = [] ∧
      (db.GetOrCreateEntry A).1.MasterRecord.ComponentInfoMap = db.MasterRecord.ComponentInfoMap ∧
      (db.GetOrCreateEntry A).1.MasterRecord.ChunkComponentBlobSize =
        db.MasterRecord.ChunkComponentBlobSize ∧
      (db.GetOrCreateEntry A).1.MasterRecord.CachedQueries = [] ∧
      (∃ ca, (db.GetOrCreateEntry A).1.MasterRecord.CachedEntries.Find A = some ca ∧
        ca.Archetype = A) ∧
      ∃ pre, (db.GetOrCreateEntry A).1.ActiveArchetypes = pre ++ [A] ∧
        ∀ X ∈ pre, BitwiseAND X A ≠ A := by
  rcases hstate with ⟨h1, h2, h3⟩ | ⟨e, ca, h1, h2, h3, h4, h5, h6, h7, h8, h9⟩
  · have hg : db.GetOrCreateEntry A =
        ({ db with
            EntriesByArchetype := db.EntriesByArchetype.Add A (FMantleDBEntry.Ctor A db.MasterRecord),
            ActiveArchetypes := db.ActiveArchetypes ++ [A],
            MasterRecord :=
              { db.MasterRecord with
                CachedEntries :=
                  (db.MasterRecord.CachedEntries.Add A { Archetype := A }).Add A { Archetype := A },
                CachedQueries := [] } },
          FMantleDBEntry.Ctor A db.MasterRecord) := by
      unfold UMantleDB.GetOrCreateEntry
      rw [h1]
      simp only [FMantleDBMasterRecord.FindOrAddCachedEntry, h2,
        FMantleDBMasterRecord.CachedEntryOf, TMap.Find_Add_self, Option.getD_some,
        UMantleDB.MatchedQueries, hq, List.filter_nil, List.map_nil, List.foldl_nil]
    rw [hg]
    exact ⟨rfl, rfl, rfl, rfl, rfl, rfl, rfl, rfl, ⟨_, TMap.Find_Add_self _ _ _, rfl⟩,
      db.ActiveArchetypes, rfl, h3⟩
  · have hg : db.GetOrCreateEntry A = (db, e) := by
      unfold UMantleDB.GetOrCreateEntry
      rw [h1]
    rw [hg]
    exact ⟨h2, h3, h4, h5, h6, rfl, rfl, hq, ⟨ca, h7, h8⟩, h9⟩

/-- `AddEntities` followed by a query for the same types, in a database without cached queries
in which the archetype of the templates is new or has an entry without chunks: the query shows
`n` entities, and for each of them every column holds the template. -/
theorem AddEntities_then_query (db : UMantleDB) (S : List FInstancedStruct) (A : TBitArray)
    (n fuel fuel2 : Nat)
    (hA : db.FillArchetype (ZeroBits db.MasterRecord.ComponentInfoMap.length)
      (S.map (fun p => p.TypeName)) = A)
    (hok : RegistryOk db.MasterRecord.ComponentInfoMap)
    (hS : (S.map (fun p => p.TypeName)).Nodup)
    (hreg : ∀ p ∈ S, ∃ Info, db.MasterRecord.ComponentInfoMap.Find p.TypeName = some Info ∧
      FMantleDBChunk.ValidateComponentInfo Info = true)
    (hq : db.MasterRecord.CachedQueries = [])
    (hstate :
      (db.EntriesByArchetype.Find A = none ∧ db.MasterRecord.CachedEntries.Find A = none ∧
        ∀ X ∈ db.ActiveArchetypes, BitwiseAND X A ≠ A) ∨
      (∃ e ca, db.EntriesByArchetype.Find A = some e ∧ e.Archetype = A ∧
        e.ComponentTypes = (FMantleDBEntry.Ctor A db.MasterRecord).ComponentTypes ∧
        e.Chunks = [] ∧ e.AvailableChunkIds = [] ∧ e.AllChunkIds = [] ∧
        db.MasterRecord.CachedEntries.Find A = some ca ∧ ca.Archetype = A ∧
        ∃ pre, db.ActiveArchetypes = pre ++ [A] ∧ ∀ X ∈ pre, BitwiseAND X A ≠ A))
    (hcap : S = [] ∨ n = 0 ∨
      ∃ Chunk, FMantleDBChunk.Ctor 0 A db.MasterRecord = .ok Chunk ∧ 1 ≤ Chunk.TotalCapacity)
    (hfuel : n ≤ fuel) (hfuel2 : n + 1 ≤ fuel2) :
    ∃ db1 It1, db.AddEntities fuel S n = .ok (db1, It1) ∧
      ((db1.QueryRows (S.map (fun p => p.TypeName)) fuel2).map (fun r => r.1.length)).sum = n ∧
      ∀ r ∈ db1.QueryRows (S.map (fun p => p.TypeName)) fuel2,
        r.2 = S.map (fun p => List.replicate r.1.length p.Memory) := by
  obtain ⟨g1, g2, g3, g4, g5, g6, g7, g8, ⟨ca, g9, g9A⟩, pre, g10, g11⟩ :=
    GetOrCreateEntry_fresh db A hq hstate
  have hvalid : ∀ p ∈ db.MasterRecord.ComponentInfoMap, p.1 ∈ S.map (fun p => p.TypeName) →
      FMantleDBChunk.ValidateComponentInfo p.2 = true := by
    intro p hp hmem
    obtain ⟨q, hq1, hq2⟩ := List.mem_map.1 hmem
    obtain ⟨Info, hf, hv⟩ := hreg q hq1
    rw [hq2, hok.find_mem p hp] at hf
    cases hf
    exact hv
  have hPT : FMantleDBChunk.PresentTypes A db.MasterRecord =
      db.MasterRecord.ComponentInfoMap.filter
        (fun p => decide (p.1 ∈ S.map (fun p => p.TypeName))) := by
    rw [← hA]
    exact PresentTypes_Fill db _ hok hvalid
  have hPTg : FMantleDBChunk.PresentTypes (db.GetOrCreateEntry A).2.Archetype
      (db.GetOrCreateEntry A).1.MasterRecord =
      db.MasterRecord.ComponentInfoMap.filter
        (fun p => decide (p.1 ∈ S.map (fun p => p.TypeName))) := by
    rw [g1, PresentTypes_congr g6, hPT]
  have hfiltnd : ((db.MasterRecord.ComponentInfoMap.filter
      (fun p => decide (p.1 ∈ S.map (fun p => p.TypeName)))).map (fun p => p.1)).Nodup :=
    hok.keys_nodup.sublist ((List.filter_sublist _).map _)
  have hfindT : ∀ T, T ∈ (db.MasterRecord.ComponentInfoMap.filter
      (fun p => decide (p.1 ∈ S.map (fun p => p.TypeName)))).map (fun p => p.1) →
      ∃ Info, TMap.Find (db.MasterRecord.ComponentInfoMap.filter
        (fun p => decide (p.1 ∈ S.map (fun p => p.TypeName)))) T = some Info := by
    intro T hT
    obtain ⟨q, hq1, hq2⟩ := List.mem_map.1 hT
    exact ⟨q.2, hq2 ▸ TMap.Find_of_mem _ q.1 q.2 hfiltnd hq1⟩
  have hSmem : ∀ p ∈ S, p.TypeName ∈ (db.MasterRecord.ComponentInfoMap.filter
      (fun p => decide (p.1 ∈ S.map (fun p => p.TypeName)))).map (fun p => p.1) := by
    intro p hp
    obtain ⟨Info, hf, _⟩ := hreg p hp
    refine List.mem_map.2 ⟨(p.TypeName, Info), List.mem_filter.2 ⟨TMap.Find_mem hf, ?_⟩, rfl⟩
    exact decide_eq_true (List.mem_map_of_mem (fun p => p.TypeName) hp)
  have hCT : (FMantleDBEntry.Ctor A db.MasterRecord).ComponentTypes =
      (db.MasterRecord.ComponentInfoMap.filter
        (fun p => decide (p.1 ∈ S.map (fun p => p.TypeName)))).map (fun p => p.1) := by
    rw [← hA]
    exact Entry_Ctor_ComponentTypes db _ hok
  obtain ⟨e1, mr1, Out1, hrun, a1, a2, a3, a4, a5, a6, a7⟩ :=
    Entry_AddEntities_filled S (db.GetOrCreateEntry A).2 (db.GetOrCreateEntry A).1.MasterRecord
      n fuel hS g3 g4 g5
      (by rw [hPTg]; exact fun p hp => hfindT _ (hSmem p hp))
      (by
        intro hS0
        rw [hPTg, g1, ← hA, hS0]
        exact ⟨IsZero_ZeroBits _, by simp⟩)
      (by
        intro hS0
        obtain ⟨p, hp⟩ := List.exists_mem_of_ne_nil S hS0
        obtain ⟨Info, hf, _⟩ := hreg p hp
        rw [g1, ← hA]
        exact FillArchetype_not_bare db _ hok p.TypeName
          (List.mem_map_of_mem (fun p => p.TypeName) hp) Info hf)
      (by
        rcases hcap with h | h | ⟨Chunk, h1, h2⟩
        · exact Or.inl h
        · exact Or.inr (Or.inl h)
        · obtain ⟨Chunk1, c1, c2⟩ := Ctor_congr g6 g7 h1 0
          exact Or.inr (Or.inr ⟨Chunk1, by rw [g1]; exact c1, by rw [c2]; exact h2⟩))
      hfuel
  rw [g1] at hrun
  obtain ⟨CE, r1, r2, r3, r4, r5, r6, r7⟩ := RefreshChunks_spec S e1
    (by
      intro Id Chunk h
      obtain ⟨b1, b2⟩ := a7 Id Chunk h
      refine ⟨?_, b2⟩
      intro T hT
      rw [b1, hPTg]
      rw [a2, g2, hCT] at hT
      exact hfindT T hT)
    (by rw [a2, g2, hCT]; exact hfiltnd)
    (by rw [a2, g2, hCT]; exact hSmem)
    e1.AllChunkIds
    { ca with bIsValid := false, ChunkedComponents := [], ChunkedEntityIds := [] }
    (fun p _ => rfl)
  have hsum : (CE.ChunkedEntityIds.map List.length).sum = n := by
    rw [r5]
    have h0 : EntryCount e1 = n := a6
    unfold EntryCount at h0
    rw [h0]
    simp
  obtain ⟨dbq, q1, q2, q3⟩ := RefreshCachedQuery_first
    { (db.GetOrCreateEntry A).1 with
      EntriesByArchetype := (db.GetOrCreateEntry A).1.EntriesByArchetype.Add A e1,
      MasterRecord := mr1 }
    A e1 ca CE pre (TMap.Find_Add_self _ _ _) (a4.trans g8) (by rw [← g9]; exact congrArg (fun m => TMap.Find m A) a5) g9A g10 g11 r1
  have hres : db.AddEntities fuel S n =
      .ok (dbq,
        { LocalCache :=
            { QueryArchetype := A, MatchingEntries := [Out1],
              Version := ((dbq.MasterRecord.CachedQueries.Find A).getD {}).Version },
          bHasMasterRecord := true }) := by
    unfold UMantleDB.AddEntities
    simp only [hA]
    rw [hrun]
    simp only [q1, Bool.true_eq_false, if_false]
  have hregq : dbq.MasterRecord.ComponentInfoMap = db.MasterRecord.ComponentInfoMap :=
    q3.trans (a3.trans g6)
  have hrows := QueryRows_cached dbq (S.map (fun p => p.TypeName)) A _
    { CE with bIsValid := true } fuel2
    (by rw [hregq, FillArchetype_congr dbq db hregq]; exact hA) q2 rfl rfl rfl
    (by
      have hk := length_le_sum_of_nonempty CE.ChunkedEntityIds
        (r7 (fun ids h => by cases h))
      show max 1 CE.ChunkedEntityIds.length ≤ fuel2
      omega)
  obtain ⟨w1, w2⟩ := Rows_of_cached { CE with bIsValid := true } S r6
  refine ⟨dbq, _, hres, ?_, ?_⟩
  · rw [hrows, w1]
    exact hsum
  · rw [hrows]
    exact w2

/-! ## The database `Initialize` leaves, and the capacity of the chunks of an archetype -/

theorem BitwiseAND_ZeroBits : ∀ (A : TBitArray), BitwiseAND (ZeroBits A.length) A = ZeroBits A.length
  | [] => rfl
  | a :: rest => by
    have ih := BitwiseAND_ZeroBits rest
    unfold BitwiseAND ZeroBits at ih ⊢
    simp only [List.length_cons, List.replicate_succ, List.zipWith_cons_cons, Bool.false_and]
    rw [ih]

theorem RegistryOf_mem_of : ∀ (Types : List UScriptStruct) (k : Nat) (T : UScriptStruct),
    T ∈ Types →
      ∃ i, (T.Name, (⟨T.Name, i, T.StructureSize, T.MinAlignment⟩ : FMantleComponentInfo)) ∈
        RegistryOf Types k
  | [], _, _, h => by cases h
  | T0 :: rest, k, T, h => by
    rw [RegistryOf]
    rcases List.mem_cons.1 h with rfl | h
    · exact ⟨k, List.mem_cons_self _ _⟩
    · obtain ⟨i, hi⟩ := RegistryOf_mem_of rest (k + 1) T h
      exact ⟨i, List.mem_cons_of_mem _ hi⟩

/-- The database `Initialize` leaves when it is given types of pairwise different names:
the registry lists the types, no query is cached, and the bare archetype has an entry without
chunks unless no type was given. -/
theorem Initialize_fresh (ComponentTypes : List (Option UScriptStruct)) (ChunkSizeBytes : Int)
    (hsize : kMinChunkSize ≤ ChunkSizeBytes)
    (hnames : ((ComponentTypes.filterMap id).map (fun T => T.Name)).Nodup) :
    ∃ db0, ({} : UMantleDB).Initialize ComponentTypes ChunkSizeBytes = .ok db0 ∧
      db0.MasterRecord.ComponentInfoMap = RegistryOf (ComponentTypes.filterMap id) 0 ∧
      db0.MasterRecord.ChunkComponentBlobSize = ChunkSizeBytes ∧
      db0.MasterRecord.CachedQueries = [] ∧
      ((db0.EntriesByArchetype = [] ∧ db0.ActiveArchetypes = [] ∧
          db0.MasterRecord.CachedEntries = []) ∨
        (db0.EntriesByArchetype =
            [(ZeroBits db0.MasterRecord.ComponentInfoMap.length,
              FMantleDBEntry.Ctor (ZeroBits db0.MasterRecord.ComponentInfoMap.length)
                db0.MasterRecord)] ∧
          db0.ActiveArchetypes = [ZeroBits db0.MasterRecord.ComponentInfoMap.length] ∧
          db0.MasterRecord.CachedEntries =
            [(ZeroBits db0.MasterRecord.ComponentInfoMap.length,
              { Archetype := ZeroBits db0.MasterRecord.ComponentInfoMap.length })])) := by
  have hreg : UMantleDB.RegisterComponentTypes ComponentTypes 0 [] =
      RegistryOf (ComponentTypes.filterMap id) 0 := by
    rw [RegisterComponentTypes_eq ComponentTypes 0 [] hnames (fun _ _ => rfl)]
    rfl
  unfold UMantleDB.Initialize
  simp only [Bool.false_eq_true, if_false]
  rw [if_neg (by omega), hreg]
  by_cases hlen : (RegistryOf (ComponentTypes.filterMap id) 0).length ≤ 0
  · rw [if_pos hlen]
    exact ⟨_, rfl, rfl, rfl, rfl, Or.inl ⟨rfl, rfl, rfl⟩⟩
  · rw [if_neg hlen]
    have hg : UMantleDB.GetOrCreateEntry
        { MasterRecord :=
            { ChunkComponentBlobSize := ChunkSizeBytes,
              ComponentInfoMap := RegistryOf (ComponentTypes.filterMap id) 0 } }
        (ZeroBits (RegistryOf (ComponentTypes.filterMap id) 0).length) =
        ({ EntriesByArchetype :=
              [(ZeroBits (RegistryOf (ComponentTypes.filterMap id) 0).length,
                FMantleDBEntry.Ctor (ZeroBits (RegistryOf (ComponentTypes.filterMap id) 0).length)
                  { ChunkComponentBlobSize := ChunkSizeBytes,
                    ComponentInfoMap := RegistryOf (ComponentTypes.filterMap id) 0 })],
            ActiveArchetypes := [ZeroBits (RegistryOf (ComponentTypes.filterMap id) 0).length],
            MasterRecord :=
              { ChunkComponentBlobSize := ChunkSizeBytes,
                ComponentInfoMap := RegistryOf (ComponentTypes.filterMap id) 0,
                CachedEntries :=
                  [(ZeroBits (RegistryOf (ComponentTypes.filterMap id) 0).length,
                    { Archetype :=
                        ZeroBits (RegistryOf (ComponentTypes.filterMap id) 0).length })] } },
          FMantleDBEntry.Ctor (ZeroBits (RegistryOf (ComponentTypes.filterMap id) 0).length)
            { ChunkComponentBlobSize := ChunkSizeBytes,
              ComponentInfoMap := RegistryOf (ComponentTypes.filterMap id) 0 }) := by
      simp [UMantleDB.GetOrCreateEntry, TMap.Find, TMap.Add, TMap.Contains,
        FMantleDBMasterRecord.FindOrAddCachedEntry, FMantleDBMasterRecord.CachedEntryOf,
        UMantleDB.MatchedQueries]
    rw [hg]
    exact ⟨_, rfl, rfl, rfl, rfl, Or.inr ⟨rfl, rfl, rfl⟩⟩

theorem Ctor_of_bytes (A : TBitArray) (mr : FMantleDBMasterRecord)
    (hB : 0 < FMantleDBChunk.BytesPerEntity A mr)
    (hsum : FMantleDBChunk.BytesPerEntity A mr + FMantleDBChunk.MaxPossibleAlignmentPadding A mr ≤
      mr.ChunkComponentBlobSize) :
    ∃ Chunk, FMantleDBChunk.Ctor 0 A mr = .ok Chunk ∧ 1 ≤ Chunk.TotalCapacity := by
  have hnn : 0 ≤ mr.ChunkComponentBlobSize - FMantleDBChunk.MaxPossibleAlignmentPadding A mr := by
    omega
  have hq : 1 ≤ Int.tdiv
      (mr.ChunkComponentBlobSize - FMantleDBChunk.MaxPossibleAlignmentPadding A mr)
      (FMantleDBChunk.BytesPerEntity A mr) := by
    rw [Int.tdiv_eq_ediv hnn hB.le]
    exact Int.le_ediv_of_mul_le hB (by omega)
  unfold FMantleDBChunk.Ctor
  rw [if_pos hB]
  simp only
  rw [if_neg (by omega)]
  refine ⟨_, rfl, ?_⟩
  show 1 ≤ (Int.tdiv _ _).toNat
  omega

theorem RegistryOf_filter_sizes (Types : List UScriptStruct) (P : FString → Bool) :
    ((RegistryOf Types 0).filter (fun p => P p.1)).map (fun p => p.2.StructSize) =
        (Types.filter (fun T => P T.Name)).map (fun T => T.StructureSize) ∧
      ((RegistryOf Types 0).filter (fun p => P p.1)).map (fun p => p.2.StructAlignment) =
        (Types.filter (fun T => P T.Name)).map (fun T => T.MinAlignment) := by
  have h := RegistryOf_filter Types 0 P
  constructor
  · have h1 := congrArg (List.map (fun (t : FString × Int × Int) => t.2.1)) h
    simpa [List.map_map, Function.comp] using h1
  · have h1 := congrArg (List.map (fun (t : FString × Int × Int) => t.2.2)) h
    simpa [List.map_map, Function.comp] using h1

/-! ## C2: `AddEntities` followed by `RunQuery` on a new database -/

/-- C2, the failing case. In a database initialised with a chunk byte budget of 1024 and the
single component type `Big` of 2000 bytes (alignment 16), `AddEntities` with a `Big` template
and `n = 1` does not return: the constructor of the first chunk computes the capacity
`(1024 - 16) / 2000 = 0` and takes the fatal branch. -/
theorem C2_oversize_entity_aborts :
    ∃ db0, ({} : UMantleDB).Initialize [some ⟨"Big", 2000, 16⟩] 1024 = .ok db0 ∧
      ∀ fuel, db0.AddEntities (fuel + 1) [⟨"Big", 7⟩] 1 =
        .error (.Fatal "MantleDB does not support entity size.") :=
  ⟨_, rfl, fun _ => rfl⟩

/-- C2 (amended). Let a new database be initialised with component types of pairwise different
names and a chunk byte budget of at least `kMinChunkSize`. Let `S` be templates of pairwise
different types, each registered with a non-empty name, a positive size and a positive
alignment, and let `S` be empty, or `n = 0`, or the sizes plus the alignments of the types of
`S` sum to at most the chunk byte budget (the chunk capacity is at least one). Then
`AddEntities(S, n)` returns, and a following `RunQuery` requiring the types of `S` shows
exactly `n` entities in total, and at every position the column of every type of `S` holds the
template of that type for each entity shown. -/
theorem C2_add_then_query (ComponentTypes : List (Option UScriptStruct)) (ChunkSizeBytes : Int)
    (S : List FInstancedStruct) (n fuel fuel2 : Nat)
    (hsize : kMinChunkSize ≤ ChunkSizeBytes)
    (hnames : ((ComponentTypes.filterMap id).map (fun T => T.Name)).Nodup)
    (hS : (S.map (fun p => p.TypeName)).Nodup)
    (hreg : ∀ p ∈ S, ∃ T, some T ∈ ComponentTypes ∧ T.Name = p.TypeName ∧ T.Name ≠ "" ∧
      0 < T.StructureSize ∧ 0 < T.MinAlignment)
    (hcap : S = [] ∨ n = 0 ∨ TemplateBytes ComponentTypes S ≤ ChunkSizeBytes)
    (hfuel : n ≤ fuel) (hfuel2 : n + 1 ≤ fuel2) :
    ∃ db0 db1 It1,
      ({} : UMantleDB).Initialize ComponentTypes ChunkSizeBytes = .ok db0 ∧
      db0.AddEntities fuel S n = .ok (db1, It1) ∧
      ((db1.QueryRows (S.map (fun p => p.TypeName)) fuel2).map (fun r => r.1.length)).sum = n ∧
      ∀ r ∈ db1.QueryRows (S.map (fun p => p.TypeName)) fuel2,
        r.2 = S.map (fun p => List.replicate r.1.length p.Memory) := by
  obtain ⟨db0, hinit, i1, i2, i3, i4⟩ := Initialize_fresh ComponentTypes ChunkSizeBytes hsize hnames
  have hok : RegistryOk db0.MasterRecord.ComponentInfoMap := by
    rw [i1]
    exact RegistryOk_RegistryOf _ hnames
  have hTypes : ∀ p ∈ S, ∃ T, T ∈ ComponentTypes.filterMap id ∧ T.Name = p.TypeName ∧
      T.Name ≠ "" ∧ 0 < T.StructureSize ∧ 0 < T.MinAlignment := by
    intro p hp
    obtain ⟨T, h1, h2⟩ := hreg p hp
    exact ⟨T, List.mem_filterMap.2 ⟨some T, h1, rfl⟩, h2⟩
  have hfind : ∀ p ∈ S, ∃ Info, db0.MasterRecord.ComponentInfoMap.Find p.TypeName = some Info ∧
      FMantleDBChunk.ValidateComponentInfo Info = true := by
    intro p hp
    obtain ⟨T, h1, h2, h3, h4, h5⟩ := hTypes p hp
    obtain ⟨i, hi⟩ := RegistryOf_mem_of (ComponentTypes.filterMap id) 0 T h1
    rw [← i1] at hi
    have h3a : p.TypeName ≠ "" := h2 ▸ h3
    refine ⟨_, h2 ▸ hok.find_mem _ hi, ?_⟩
    simp [FMantleDBChunk.ValidateComponentInfo, h3a, h4, h5]
  have hvalid : ∀ T ∈ TemplateTypes ComponentTypes S,
      0 < T.StructureSize ∧ 0 < T.MinAlignment := by
    intro T hT
    unfold TemplateTypes at hT
    obtain ⟨hT1, hT2⟩ := List.mem_filter.1 hT
    obtain ⟨p, hp, hpn⟩ := List.mem_map.1 (of_decide_eq_true hT2)
    obtain ⟨T1, h1, h2, _, h4, h5⟩ := hTypes p hp
    have heq : T1 = T := List.inj_on_of_nodup_map hnames h1 hT1 (h2.trans hpn)
    subst heq
    exact ⟨h4, h5⟩
  have hcap1 : S = [] ∨ n = 0 ∨
      ∃ Chunk, FMantleDBChunk.Ctor 0
        (db0.FillArchetype (ZeroBits db0.MasterRecord.ComponentInfoMap.length)
          (S.map (fun p => p.TypeName))) db0.MasterRecord = .ok Chunk ∧
        1 ≤ Chunk.TotalCapacity := by
    rcases hcap with h | h | h
    · exact Or.inl h
    · exact Or.inr (Or.inl h)
    · by_cases hS0 : S = []
      · exact Or.inl hS0
      · refine Or.inr (Or.inr ?_)
        have hPT := PresentTypes_Fill db0 (S.map (fun p => p.TypeName)) hok
          (by
            intro p hp hmem
            obtain ⟨q, hq1, hq2⟩ := List.mem_map.1 hmem
            obtain ⟨Info, hf, hv⟩ := hfind q hq1
            rw [hq2, hok.find_mem p hp] at hf
            cases hf
            exact hv)
        obtain ⟨s1, s2⟩ := RegistryOf_filter_sizes (ComponentTypes.filterMap id)
          (fun nm => decide (nm ∈ S.map (fun p => p.TypeName)))
        have hB : FMantleDBChunk.BytesPerEntity
            (db0.FillArchetype (ZeroBits db0.MasterRecord.ComponentInfoMap.length)
              (S.map (fun p => p.TypeName))) db0.MasterRecord =
            ((TemplateTypes ComponentTypes S).map (fun T => T.StructureSize)).sum := by
          unfold FMantleDBChunk.BytesPerEntity
          rw [hPT, i1, s1]
          rfl
        have hP : FMantleDBChunk.MaxPossibleAlignmentPadding
            (db0.FillArchetype (ZeroBits db0.MasterRecord.ComponentInfoMap.length)
              (S.map (fun p => p.TypeName))) db0.MasterRecord =
            ((TemplateTypes ComponentTypes S).map (fun T => T.MinAlignment)).sum := by
          unfold FMantleDBChunk.MaxPossibleAlignmentPadding
          rw [hPT, i1, s2]
          rfl
        apply Ctor_of_bytes
        · rw [hB]
          apply List.sum_pos
          · intro x hx
            obtain ⟨T, hT, rfl⟩ := List.mem_map.1 hx
            exact (hvalid T hT).1
          · obtain ⟨p, hp⟩ := List.exists_mem_of_ne_nil S hS0
            obtain ⟨T, h1, h2, _⟩ := hTypes p hp
            have hmem : T ∈ TemplateTypes ComponentTypes S := by
              unfold TemplateTypes
              exact List.mem_filter.2 ⟨h1, decide_eq_true
                (h2 ▸ List.mem_map_of_mem (fun p => p.TypeName) hp)⟩
            intro h0
            rw [List.map_eq_nil_iff] at h0
            rw [h0] at hmem
            cases hmem
        · rw [hB, hP, i2]
          exact h
  have hlenA : (db0.FillArchetype (ZeroBits db0.MasterRecord.ComponentInfoMap.length)
      (S.map (fun p => p.TypeName))).length = db0.MasterRecord.ComponentInfoMap.length := by
    rw [FillArchetype_length, ZeroBits_length]
  have hstate :
      (db0.EntriesByArchetype.Find
          (db0.FillArchetype (ZeroBits db0.MasterRecord.ComponentInfoMap.length)
            (S.map (fun p => p.TypeName))) = none ∧
        db0.MasterRecord.CachedEntries.Find
          (db0.FillArchetype (ZeroBits db0.MasterRecord.ComponentInfoMap.length)
            (S.map (fun p => p.TypeName))) = none ∧
        ∀ X ∈ db0.ActiveArchetypes,
          BitwiseAND X (db0.FillArchetype (ZeroBits db0.MasterRecord.ComponentInfoMap.length)
            (S.map (fun p => p.TypeName))) ≠
          db0.FillArchetype (ZeroBits db0.MasterRecord.ComponentInfoMap.length)
            (S.map (fun p => p.TypeName))) ∨
      (∃ e ca, db0.EntriesByArchetype.Find
          (db0.FillArchetype (ZeroBits db0.MasterRecord.ComponentInfoMap.length)
            (S.map (fun p => p.TypeName))) = some e ∧
        e.Archetype = db0.FillArchetype (ZeroBits db0.MasterRecord.ComponentInfoMap.length)
            (S.map (fun p => p.TypeName)) ∧
        e.ComponentTypes = (FMantleDBEntry.Ctor
          (db0.FillArchetype (ZeroBits db0.MasterRecord.ComponentInfoMap.length)
            (S.map (fun p => p.TypeName))) db0.MasterRecord).ComponentTypes ∧
        e.Chunks = [] ∧ e.AvailableChunkIds = [] ∧ e.AllChunkIds = [] ∧
        db0.MasterRecord.CachedEntries.Find
          (db0.FillArchetype (ZeroBits db0.MasterRecord.ComponentInfoMap.length)
            (S.map (fun p => p.TypeName))) = some ca ∧
        ca.Archetype = db0.FillArchetype (ZeroBits db0.MasterRecord.ComponentInfoMap.length)
            (S.map (fun p => p.TypeName)) ∧
        ∃ pre, db0.ActiveArchetypes = pre ++
            [db0.FillArchetype (ZeroBits db0.MasterRecord.ComponentInfoMap.length)
              (S.map (fun p => p.TypeName))] ∧
          ∀ X ∈ pre,
            BitwiseAND X (db0.FillArchetype (ZeroBits db0.MasterRecord.ComponentInfoMap.length)
              (S.map (fun p => p.TypeName))) ≠
            db0.FillArchetype (ZeroBits db0.MasterRecord.ComponentInfoMap.length)
              (S.map (fun p => p.TypeName))) := by
    generalize hAdef : db0.FillArchetype (ZeroBits db0.MasterRecord.ComponentInfoMap.length)
      (S.map (fun p => p.TypeName)) = A at hlenA
    rcases i4 with ⟨j1, j2, j3⟩ | ⟨j1, j2, j3⟩
    · left
      rw [j1, j2, j3]
      exact ⟨rfl, rfl, fun X hX => by cases hX⟩
    · by_cases hAZ : ZeroBits db0.MasterRecord.ComponentInfoMap.length = A
      · right
        refine ⟨FMantleDBEntry.Ctor (ZeroBits db0.MasterRecord.ComponentInfoMap.length)
            db0.MasterRecord,
          { Archetype := ZeroBits db0.MasterRecord.ComponentInfoMap.length },
          ?_, ?_, ?_, rfl, rfl, rfl, ?_, ?_, [], ?_, ?_⟩
        · rw [j1, TMap.Find_cons, if_pos hAZ]
        · exact hAZ
        · rw [hAZ]
        · rw [j3, TMap.Find_cons, if_pos hAZ]
        · exact hAZ
        · rw [j2, hAZ]
          rfl
        · intro X hX
          cases hX
      · left
        refine ⟨?_, ?_, ?_⟩
        · rw [j1, TMap.Find_cons, if_neg hAZ]
          rfl
        · rw [j3, TMap.Find_cons, if_neg hAZ]
          rfl
        · intro X hX
          rw [j2, List.mem_singleton] at hX
          subst hX
          rw [← hlenA, BitwiseAND_ZeroBits, hlenA]
          exact hAZ
  obtain ⟨db1, It1, h1, h2, h3⟩ := AddEntities_then_query db0 S _ n fuel fuel2 rfl hok hS hfind
    i3 hstate hcap1 hfuel hfuel2
  exact ⟨db0, db1, It1, hinit, h1, h2, h3⟩


/-- C2 (amended), at the two types and the templates of `Test_SingleArchetypeQuery` with the
default chunk byte budget and three entities. -/
theorem C2_add_then_query_witness :
    ∃ db0 db1 It1,
      ({} : UMantleDB).Initialize
          [some ⟨"FakeTransformComponent", 96, 16⟩, some ⟨"FakeItemComponent", 24, 8⟩]
          131072 = .ok db0 ∧
      db0.AddEntities 3 [⟨"FakeTransformComponent", 5⟩, ⟨"FakeItemComponent", 2⟩] 3 =
        .ok (db1, It1) ∧
      ((db1.QueryRows ["FakeTransformComponent", "FakeItemComponent"] 4).map
        (fun r => r.1.length)).sum = 3 ∧
      ∀ r ∈ db1.QueryRows ["FakeTransformComponent", "FakeItemComponent"] 4,
        r.2 = [List.replicate r.1.length 5, List.replicate r.1.length 2] :=
  C2_add_then_query
    [some ⟨"FakeTransformComponent", 96, 16⟩, some ⟨"FakeItemComponent", 24, 8⟩] 131072
    [⟨"FakeTransformComponent", 5⟩, ⟨"FakeItemComponent", 2⟩] 3 3 4
    (by decide) (by decide) (by decide)
    (by
      intro p hp
      simp only [List.mem_cons, List.mem_singleton, List.not_mem_nil, or_false] at hp
      rcases hp with rfl | rfl
      · exact ⟨⟨"FakeTransformComponent", 96, 16⟩, by simp, rfl, by decide, by decide,
          by decide⟩
      · exact ⟨⟨"FakeItemComponent", 24, 8⟩, by simp, rfl, by decide, by decide, by decide⟩)
    (Or.inr (Or.inr (by decide))) (by decide) (by decide)

/-! ## Steps of a migration, described by the lookups of the database -/

theorem Untouched.refl (db : UMantleDB) (Id : FGuid) : Untouched db db Id :=
  ⟨rfl, fun _ => rfl⟩

theorem Untouched.trans {db db1 db2 : UMantleDB} {Id : FGuid} (h1 : Untouched db db1 Id)
    (h2 : Untouched db1 db2 Id) : Untouched db db2 Id :=
  ⟨h2.1.trans h1.1, fun T => (h2.2 T).trans (h1.2 T)⟩

theorem Migrated.then_untouched {db db1 db2 : UMantleDB} {B : TBitArray}
    {S : List FInstancedStruct} {Id : FGuid} (h1 : Migrated db db1 B S Id)
    (h2 : Untouched db1 db2 Id) : Migrated db db2 B S Id :=
  ⟨h2.1.trans h1.1, fun p hp => (h2.2 _).trans (h1.2.1 p hp),
    fun T hT => (h2.2 T).trans (h1.2.2 T hT)⟩

theorem Migrated.after_untouched {db db1 db2 : UMantleDB} {B : TBitArray}
    {S : List FInstancedStruct} {Id : FGuid} (h1 : Untouched db db1 Id)
    (hreg : db1.MasterRecord.ComponentInfoMap = db.MasterRecord.ComponentInfoMap)
    (h2 : Migrated db1 db2 B S Id) : Migrated db db2 B S Id := by
  refine ⟨h2.1, h2.2.1, fun T hT => ?_⟩
  rw [h2.2.2 T hT, ArchetypeHasComponent_congr hreg, h1.2 T]

/-- Databases with the same records, the same registry and, chunk by chunk, the same entity
ids, columns and column contents are the same to the invariants and to `GetComponent`. -/
theorem view_sound {db db1 : UMantleDB}
    (hFind : ∀ k, db1.MasterRecord.EntitiesById.Find k = db.MasterRecord.EntitiesById.Find k)
    (hreg : db1.MasterRecord.ComponentInfoMap = db.MasterRecord.ComponentInfoMap)
    (hGet : ∀ X ChunkId,
      (db.GetChunk X ChunkId = none ∧ db1.GetChunk X ChunkId = none) ∨
      ∃ C C1, db.GetChunk X ChunkId = some C ∧ db1.GetChunk X ChunkId = some C1 ∧
        C1.EntityIds = C.EntityIds ∧ C1.ComponentTypeInfo = C.ComponentTypeInfo ∧
        C1.Blob = C.Blob)
    (hkey : EntityIndexKeyed db) (hinv : EntityLocationInv db) :
    EntityIndexKeyed db1 ∧ EntityLocationInv db1 ∧ ∀ k, Untouched db db1 k := by
  refine ⟨?_, ⟨?_, ?_⟩, ?_⟩
  · intro Id Entity h
    rw [hFind] at h
    exact hkey Id Entity h
  · intro Id Entity h
    rw [hFind] at h
    obtain ⟨Chunk, hc, hs⟩ := hinv.record_located Id Entity h
    rcases hGet Entity.Archetype Entity.ChunkId with ⟨h0, _⟩ | ⟨C, C1, g1, g2, g3, _, _⟩
    · rw [h0] at hc
      cases hc
    · rw [g1] at hc
      cases hc
      exact ⟨C1, g2, by rw [g3]; exact hs⟩
  · intro X ChunkId Chunk i Id hc hs
    rcases hGet X ChunkId with ⟨_, h0⟩ | ⟨C, C1, g1, g2, g3, _, _⟩
    · rw [h0] at hc
      cases hc
    · rw [g2] at hc
      cases hc
      rw [g3] at hs
      obtain ⟨E, e1, e2⟩ := hinv.slot_recorded X ChunkId C i Id g1 hs
      exact ⟨E, by rw [hFind]; exact e1, e2⟩
  · intro k
    refine ⟨by rw [hFind], fun T => ?_⟩
    cases hk : db.MasterRecord.EntitiesById.Find k with
    | none =>
      rw [GetComponent_of_no_record hk, GetComponent_of_no_record ((hFind k).trans hk)]
    | some E =>
      rw [GetComponent_of_record hk, GetComponent_of_record ((hFind k).trans hk),
        ArchetypeHasComponent_congr hreg]
      rcases hGet E.Archetype E.ChunkId with ⟨h0, h1⟩ | ⟨C, C1, g1, g2, _, g4, g5⟩
      · rw [h0, h1]
      · rw [g1, g2]
        simp only [Option.bind, FMantleDBChunk.GetComponentInternal, g4, g5]

/-- A chunk without entities appears where there was none: nothing changes for the invariants
and for `GetComponent`. -/
theorem empty_chunk_sound {db db1 : UMantleDB} {B : TBitArray} {cid : FGuid}
    {c : FMantleDBChunk}
    (hFind : ∀ k, db1.MasterRecord.EntitiesById.Find k = db.MasterRecord.EntitiesById.Find k)
    (hreg : db1.MasterRecord.ComponentInfoMap = db.MasterRecord.ComponentInfoMap)
    (hnone : db.GetChunk B cid = none) (hc : c.EntityIds = [])
    (hGet : ∀ X ChunkId, db1.GetChunk X ChunkId =
      if X = B ∧ ChunkId = cid then some c else db.GetChunk X ChunkId)
    (hkey : EntityIndexKeyed db) (hinv : EntityLocationInv db) :
    EntityIndexKeyed db1 ∧ EntityLocationInv db1 ∧ ∀ k, Untouched db db1 k := by
  have hrec : ∀ k E, db.MasterRecord.EntitiesById.Find k = some E →
      db1.GetChunk E.Archetype E.ChunkId = db.GetChunk E.Archetype E.ChunkId := by
    intro k E hk
    rw [hGet]
    by_cases hx : E.Archetype = B ∧ E.ChunkId = cid
    · obtain ⟨Chunk, h1, _⟩ := hinv.record_located k E hk
      rw [hx.1, hx.2, hnone] at h1
      cases h1
    · rw [if_neg hx]
  refine ⟨?_, ⟨?_, ?_⟩, ?_⟩
  · intro Id Entity h
    rw [hFind] at h
    exact hkey Id Entity h
  · intro Id Entity h
    rw [hFind] at h
    obtain ⟨Chunk, h1, h2⟩ := hinv.record_located Id Entity h
    exact ⟨Chunk, by rw [hrec Id Entity h]; exact h1, h2⟩
  · intro X ChunkId Chunk i Id h1 h2
    rw [hGet] at h1
    by_cases hx : X = B ∧ ChunkId = cid
    · rw [if_pos hx] at h1
      cases h1
      rw [hc] at h2
      simp at h2
    · rw [if_neg hx] at h1
      obtain ⟨E, e1, e2⟩ := hinv.slot_recorded X ChunkId Chunk i Id h1 h2
      exact ⟨E, by rw [hFind]; exact e1, e2⟩
  · intro k
    refine ⟨by rw [hFind], fun T => ?_⟩
    cases hk : db.MasterRecord.EntitiesById.Find k with
    | none =>
      rw [GetComponent_of_no_record hk, GetComponent_of_no_record ((hFind k).trans hk)]
    | some E =>
      rw [GetComponent_of_record hk, GetComponent_of_record ((hFind k).trans hk),
        ArchetypeHasComponent_congr hreg, hrec k E hk]

/-- The state an insertion step produces, described by its lookups: the id `Id`, which had no
record, is appended to a chunk, whose occupied slots keep their contents, and gets a record
that names the chunk and the new slot. Such a step keeps the invariants and the components of
all other entities, and the components of `Id` are read from the new slot. -/
theorem insertion_step_sound {db db1 : UMantleDB} (hkey : EntityIndexKeyed db)
    (hinv : EntityLocationInv db) {Id : FGuid}
    (hId : db.MasterRecord.EntitiesById.Find Id = none)
    {B : TBitArray} {cid : FGuid} {C c1 : FMantleDBChunk}
    (hC : db.GetChunk B cid = some C)
    (hreg : db1.MasterRecord.ComponentInfoMap = db.MasterRecord.ComponentInfoMap)
    (hcti : c1.ComponentTypeInfo = C.ComponentTypeInfo)
    (hids : c1.EntityIds = C.EntityIds ++ [Id])
    (hblob : ∀ T j, j < C.EntityIds.length → c1.Blob T j = C.Blob T j)
    (hFind1 : ∀ k, db1.MasterRecord.EntitiesById.Find k =
      if k = Id then some ⟨Id, B, cid, C.EntityIds.length⟩
      else db.MasterRecord.EntitiesById.Find k)
    (hGet1 : ∀ X ChunkId, db1.GetChunk X ChunkId =
      if X = B ∧ ChunkId = cid then some c1 else db.GetChunk X ChunkId) :
    EntityIndexKeyed db1 ∧ EntityLocationInv db1 ∧
      (∀ k, k ≠ Id → Untouched db db1 k) ∧
      ∀ T, db1.GetComponent T Id =
        if db.MasterRecord.ArchetypeHasComponent B T = false then none
        else c1.GetComponentInternal T C.EntityIds.length := by
  refine ⟨?_, ⟨?_, ?_⟩, ?_, ?_⟩
  · intro k E h
    rw [hFind1] at h
    by_cases hk : k = Id
    · rw [if_pos hk] at h
      cases h
      exact hk.symm
    · rw [if_neg hk] at h
      exact hkey k E h
  · intro k E h
    rw [hFind1] at h
    by_cases hk : k = Id
    · rw [if_pos hk] at h
      cases h
      refine ⟨c1, by rw [hGet1, if_pos ⟨rfl, rfl⟩], ?_⟩
      rw [hids, hk]
      simp
    · rw [if_neg hk] at h
      obtain ⟨Chunk, g1, g2⟩ := hinv.record_located k E h
      rw [hGet1]
      by_cases hx : E.Archetype = B ∧ E.ChunkId = cid
      · rw [if_pos hx]
        rw [hx.1, hx.2, hC] at g1
        cases g1
        refine ⟨c1, rfl, ?_⟩
        rw [hids, List.getElem?_append_left (getElem?_lt_of_eq_some g2)]
        exact g2
      · rw [if_neg hx]
        exact ⟨Chunk, g1, g2⟩
  · intro X ChunkId Chunk i k h1 h2
    rw [hGet1] at h1
    by_cases hx : X = B ∧ ChunkId = cid
    · rw [if_pos hx] at h1
      cases h1
      rw [hids] at h2
      by_cases hi : i < C.EntityIds.length
      · rw [List.getElem?_append_left hi] at h2
        obtain ⟨E, e1, e2⟩ := hinv.slot_recorded B cid C i k hC h2
        have hk : k ≠ Id := by
          intro hk
          rw [hk, hId] at e1
          cases e1
        exact ⟨E, by rw [hFind1, if_neg hk]; exact e1, by rw [hx.1, hx.2]; exact e2⟩
      · have hi2 : i = C.EntityIds.length := by
          have := getElem?_lt_of_eq_some h2
          simp at this
          omega
        subst hi2
        simp at h2
        subst h2
        exact ⟨_, by rw [hFind1, if_pos rfl], hx.1.symm, hx.2.symm, rfl⟩
    · rw [if_neg hx] at h1
      obtain ⟨E, e1, e2⟩ := hinv.slot_recorded X ChunkId Chunk i k h1 h2
      have hk : k ≠ Id := by
        intro hk
        rw [hk, hId] at e1
        cases e1
      exact ⟨E, by rw [hFind1, if_neg hk]; exact e1, e2⟩
  · intro k hk
    have hf : db1.MasterRecord.EntitiesById.Find k = db.MasterRecord.EntitiesById.Find k := by
      rw [hFind1, if_neg hk]
    refine ⟨by rw [hf], fun T => ?_⟩
    cases hk1 : db.MasterRecord.EntitiesById.Find k with
    | none => rw [GetComponent_of_no_record hk1, GetComponent_of_no_record (hf.trans hk1)]
    | some E =>
      rw [GetComponent_of_record hk1, GetComponent_of_record (hf.trans hk1),
        ArchetypeHasComponent_congr hreg, hGet1]
      by_cases hx : E.Archetype = B ∧ E.ChunkId = cid
      · rw [if_pos hx, hx.1, hx.2, hC]
        obtain ⟨Chunk, g1, g2⟩ := hinv.record_located k E hk1
        rw [hx.1, hx.2, hC] at g1
        cases g1
        simp only [Option.bind, FMantleDBChunk.GetComponentInternal, hcti,
          hblob _ _ (getElem?_lt_of_eq_some g2)]
      · rw [if_neg hx]
  · intro T
    have hrec : db1.MasterRecord.EntitiesById.Find Id =
        some ⟨Id, B, cid, C.EntityIds.length⟩ := by
      rw [hFind1, if_pos rfl]
    rw [GetComponent_of_record hrec, ArchetypeHasComponent_congr hreg]
    simp only
    rw [hGet1, if_pos (show B = B ∧ cid = cid from ⟨rfl, rfl⟩)]
    rfl

/-! ## `TakeEntityData`: the data of one migrated entity -/

theorem mem_TSetAdd {K : Type} [DecidableEq K] (s : List K) (k x : K) :
    x ∈ TSetAdd s k ↔ x ∈ s ∨ x = k := by
  unfold TSetAdd
  by_cases h : k ∈ s
  · rw [if_pos h]
    constructor
    · exact Or.inl
    · rintro (h1 | h1)
      · exact h1
      · rw [h1]; exact h
  · rw [if_neg h]
    simp

theorem WriteSlots_one (Blob : FString → Nat → Payload) (T : FString) (n : Nat) (v : Payload)
    (t : FString) (i : Nat) :
    FMantleDBChunk.WriteSlots Blob T n 1 v t i = if t = T ∧ i = n then v else Blob t i := by
  unfold FMantleDBChunk.WriteSlots
  apply if_congr _ rfl rfl
  constructor
  · rintro ⟨h1, h2, h3⟩
    exact ⟨h1, by omega⟩
  · rintro ⟨h1, h2⟩
    exact ⟨h1, by omega, by omega⟩

/-- The columns the two chunks share are copied from the old slot into slot `n`. -/
theorem CopyOldColumns_spec (Old : FMantleDBChunk) (E : FMantleEntity) (n rci : Nat) :
    ∀ (cols : List (FString × FMantleComponentInfo)) (acc : FMantleDBChunk.TakeAcc),
      (∀ p ∈ cols, ∀ Info, acc.Chunk.ComponentTypeInfo.Find p.1 = some Info →
        p.2.StructSize = Info.StructSize) →
      acc.Chunk.bBlobAllocated = true →
      (cols ≠ [] → Old.bBlobAllocated = true) →
      ∃ acc1, FMantleDBChunk.CopyOldColumns Old E n rci cols acc = .ok acc1 ∧
        acc1.Chunk.EntityIds = acc.Chunk.EntityIds ∧
        acc1.Chunk.ComponentTypeInfo = acc.Chunk.ComponentTypeInfo ∧
        acc1.Chunk.ChunkId = acc.Chunk.ChunkId ∧ acc1.Chunk.Archetype = acc.Chunk.Archetype ∧
        acc1.Chunk.TotalCapacity = acc.Chunk.TotalCapacity ∧
        acc1.Chunk.bBlobAllocated = true ∧
        (∀ T j, acc1.Chunk.Blob T j =
          if j = n ∧ T ∈ cols.map (fun p => p.1) ∧
              (acc.Chunk.ComponentTypeInfo.Find T).isSome = true
          then Old.Blob T E.Index else acc.Chunk.Blob T j) ∧
        (∀ T, T ∈ acc1.TypesUpdated ↔ T ∈ acc.TypesUpdated ∨
          (T ∈ cols.map (fun p => p.1) ∧ (acc.Chunk.ComponentTypeInfo.Find T).isSome = true))
  | [], acc, _, halloc, _ =>
    ⟨acc, rfl, rfl, rfl, rfl, rfl, rfl, halloc, fun T j => by simp, fun T => by simp⟩
  | (TypeName, OldInfo) :: rest, acc, hsize, halloc, hold => by
    have holdA : Old.bBlobAllocated = true := hold (by simp)
    rw [FMantleDBChunk.CopyOldColumns]
    cases hfind : acc.Chunk.ComponentTypeInfo.Find TypeName with
    | none =>
      obtain ⟨acc1, h, a1, a2, a3, a4, a5, a6, a7, a8⟩ :=
        CopyOldColumns_spec Old E n rci rest acc
          (fun p hp => hsize p (List.mem_cons_of_mem _ hp)) halloc (fun _ => holdA)
      refine ⟨acc1, h, a1, a2, a3, a4, a5, a6, ?_, ?_⟩
      · intro T j
        rw [a7]
        apply if_congr _ rfl rfl
        constructor
        · rintro ⟨h1, h2, h3⟩
          exact ⟨h1, List.mem_cons_of_mem _ h2, h3⟩
        · rintro ⟨h1, h2, h3⟩
          refine ⟨h1, ?_, h3⟩
          rcases List.mem_cons.1 h2 with h2 | h2
          · rw [h2] at h3
            simp only at h3
            rw [hfind] at h3
            cases h3
          · exact h2
      · intro T
        rw [a8]
        constructor
        · rintro (h1 | ⟨h2, h3⟩)
          · exact Or.inl h1
          · exact Or.inr ⟨List.mem_cons_of_mem _ h2, h3⟩
        · rintro (h1 | ⟨h2, h3⟩)
          · exact Or.inl h1
          · right
            refine ⟨?_, h3⟩
            rcases List.mem_cons.1 h2 with h2 | h2
            · rw [h2] at h3
              simp only at h3
              rw [hfind] at h3
              cases h3
            · exact h2
    | some Info =>
      have hsz : OldInfo.StructSize = Info.StructSize :=
        hsize (TypeName, OldInfo) (List.mem_cons_self _ _) Info hfind
      simp only
      rw [if_neg (by rw [hsz]; exact fun h => h rfl)]
      unfold FMantleDBChunk.LocationIsValid
      rw [if_neg (by rw [halloc]; simp), if_neg (by rw [holdA]; simp)]
      obtain ⟨acc1, h, a1, a2, a3, a4, a5, a6, a7, a8⟩ :=
        CopyOldColumns_spec Old E n rci rest
          { Chunk := { acc.Chunk with
              Blob := FMantleDBChunk.WriteSlots acc.Chunk.Blob TypeName n 1
                        (Old.Blob TypeName E.Index) },
            OutResult := { acc.OutResult with
              ChunkedComponents :=
                FMantleDBChunk.RecordPlaceholder acc.OutResult.ChunkedComponents TypeName rci },
            TypesUpdated := TSetAdd acc.TypesUpdated TypeName }
          (fun p hp => hsize p (List.mem_cons_of_mem _ hp)) halloc (fun _ => holdA)
      refine ⟨acc1, h, a1, a2, a3, a4, a5, a6, ?_, ?_⟩
      · intro T j
        rw [a7]
        simp only [WriteSlots_one, List.map_cons]
        by_cases hc1 : j = n ∧ T ∈ rest.map (fun p => p.1) ∧
            (acc.Chunk.ComponentTypeInfo.Find T).isSome = true
        · rw [if_pos hc1, if_pos ⟨hc1.1, List.mem_cons_of_mem _ hc1.2.1, hc1.2.2⟩]
        · rw [if_neg hc1]
          by_cases hc2 : T = TypeName ∧ j = n
          · rw [if_pos hc2, if_pos ⟨hc2.2, by rw [hc2.1]; exact List.mem_cons_self _ _,
              by rw [hc2.1, hfind]; rfl⟩, hc2.1]
          · rw [if_neg hc2, if_neg]
            rintro ⟨h1, h2, h3⟩
            rcases List.mem_cons.1 h2 with h2 | h2
            · exact hc2 ⟨h2, h1⟩
            · exact hc1 ⟨h1, h2, h3⟩
      · intro T
        rw [a8]
        simp only [mem_TSetAdd]
        constructor
        · rintro ((h1 | h1) | ⟨h2, h3⟩)
          · exact Or.inl h1
          · right
            rw [h1]
            exact ⟨by simp, by rw [hfind]; rfl⟩
          · exact Or.inr ⟨List.mem_cons_of_mem _ h2, h3⟩
        · rintro (h1 | ⟨h2, h3⟩)
          · exact Or.inl (Or.inl h1)
          · rcases List.mem_cons.1 h2 with h2 | h2
            · exact Or.inl (Or.inr h2)
            · exact Or.inr ⟨h2, h3⟩

/-- The payloads are written into slot `n` of their columns. -/
theorem WriteNewColumns_spec (n rci : Nat) :
    ∀ (S : List FInstancedStruct) (acc : FMantleDBChunk.TakeAcc),
      (∀ p ∈ S, ∃ Info, acc.Chunk.ComponentTypeInfo.Find p.TypeName = some Info) →
      acc.Chunk.bBlobAllocated = true →
      ∃ acc1, FMantleDBChunk.WriteNewColumns n rci S acc = .ok acc1 ∧
        acc1.Chunk.EntityIds = acc.Chunk.EntityIds ∧
        acc1.Chunk.ComponentTypeInfo = acc.Chunk.ComponentTypeInfo ∧
        acc1.Chunk.ChunkId = acc.Chunk.ChunkId ∧ acc1.Chunk.Archetype = acc.Chunk.Archetype ∧
        acc1.Chunk.TotalCapacity = acc.Chunk.TotalCapacity ∧
        acc1.Chunk.bBlobAllocated = true ∧
        (∀ T j, ¬ (j = n ∧ T ∈ S.map (fun p => p.TypeName)) →
          acc1.Chunk.Blob T j = acc.Chunk.Blob T j) ∧
        ((S.map (fun p => p.TypeName)).Nodup →
          ∀ p ∈ S, acc1.Chunk.Blob p.TypeName n = p.Memory) ∧
        (∀ T, T ∈ acc1.TypesUpdated ↔ T ∈ acc.TypesUpdated ∨ T ∈ S.map (fun p => p.TypeName))
  | [], acc, _, halloc => by
    refine ⟨acc, rfl, rfl, rfl, rfl, rfl, rfl, halloc, ?_, ?_, ?_⟩
    · intro T j _
      rfl
    · intro _ p hp
      cases hp
    · intro T
      simp
  | q :: rest, acc, hcols, halloc => by
    obtain ⟨Info, hInfo⟩ := hcols q (List.mem_cons_self _ _)
    rw [FMantleDBChunk.WriteNewColumns, hInfo]
    simp only
    unfold FMantleDBChunk.LocationIsValid
    rw [if_neg (by rw [halloc]; simp)]
    obtain ⟨acc1, h, a1, a2, a3, a4, a5, a6, a7, a8, a9⟩ :=
      WriteNewColumns_spec n rci rest
        { Chunk := { acc.Chunk with
            Blob := FMantleDBChunk.WriteSlots acc.Chunk.Blob q.TypeName n 1 q.Memory },
          OutResult := { acc.OutResult with
            ChunkedComponents :=
              FMantleDBChunk.RecordPlaceholder acc.OutResult.ChunkedComponents q.TypeName rci },
          TypesUpdated := TSetAdd acc.TypesUpdated q.TypeName }
        (fun p hp => hcols p (List.mem_cons_of_mem _ hp)) halloc
    refine ⟨acc1, h, a1, a2, a3, a4, a5, a6, ?_, ?_, ?_⟩
    · intro T j hn
      rw [a7 T j (fun hc => hn ⟨hc.1, List.mem_cons_of_mem _ hc.2⟩)]
      simp only [WriteSlots_one]
      rw [if_neg]
      rintro ⟨h1, h2⟩
      exact hn ⟨h2, by rw [h1]; exact List.mem_cons_self _ _⟩
    · intro hnd p hp
      rw [List.map_cons, List.nodup_cons] at hnd
      rcases List.mem_cons.1 hp with rfl | hp
      · rw [a7 _ _ (fun hc => hnd.1 hc.2)]
        simp [WriteSlots_one]
      · exact a8 hnd.2 p hp
    · intro T
      rw [a9]
      simp only [mem_TSetAdd, List.map_cons, List.mem_cons]
      tauto

/-- `TakeEntityData`: slot `EntityIds.Num()` of the chunk gets the payloads in the columns the
templates name and the old slot of the entity in the other columns; nothing else changes. -/
theorem TakeEntityData_spec (c Old : FMantleDBChunk) (E : FMantleEntity)
    (S : List FInstancedStruct) (Out : FMantleCachedEntry) (rci : Nat)
    (hsize : ∀ p ∈ Old.ComponentTypeInfo, ∀ Info,
      c.ComponentTypeInfo.Find p.1 = some Info → p.2.StructSize = Info.StructSize)
    (halloc : c.bBlobAllocated = true)
    (hold : Old.ComponentTypeInfo ≠ [] → Old.bBlobAllocated = true)
    (hadd : ∀ p ∈ S, ∃ Info, c.ComponentTypeInfo.Find p.TypeName = some Info)
    (hcover : ∀ p ∈ c.ComponentTypeInfo,
      p.1 ∈ Old.ComponentTypeInfo.map (fun q => q.1) ∨ p.1 ∈ S.map (fun q => q.TypeName))
    (hnd : (S.map (fun p => p.TypeName)).Nodup) :
    ∃ c1 Out1, c.TakeEntityData Old E S Out rci = .ok (c1, Out1) ∧
      c1.EntityIds = c.EntityIds ∧ c1.ComponentTypeInfo = c.ComponentTypeInfo ∧
      c1.ChunkId = c.ChunkId ∧ c1.Archetype = c.Archetype ∧
      c1.TotalCapacity = c.TotalCapacity ∧ c1.bBlobAllocated = true ∧
      (∀ T j, j ≠ c.EntityIds.length → c1.Blob T j = c.Blob T j) ∧
      (∀ p ∈ S, c1.Blob p.TypeName c.EntityIds.length = p.Memory) ∧
      (∀ T, T ∉ S.map (fun p => p.TypeName) → T ∈ Old.ComponentTypeInfo.map (fun q => q.1) →
        (c.ComponentTypeInfo.Find T).isSome = true →
        c1.Blob T c.EntityIds.length = Old.Blob T E.Index) := by
  obtain ⟨acc1, h1, a1, a2, a3, a4, a5, a6, a7, a8⟩ :=
    CopyOldColumns_spec Old E c.EntityIds.length rci Old.ComponentTypeInfo
      { Chunk := c, OutResult := Out, TypesUpdated := [] } hsize halloc hold
  obtain ⟨acc2, h2, b1, b2, b3, b4, b5, b6, b7, b8, b9⟩ :=
    WriteNewColumns_spec c.EntityIds.length rci S acc1
      (by rw [a2]; exact hadd) a6
  have hall : acc2.Chunk.ComponentTypeInfo.all (fun p => decide (p.1 ∈ acc2.TypesUpdated)) =
      true := by
    rw [List.all_eq_true]
    intro p hp
    rw [b2, a2] at hp
    apply decide_eq_true
    rw [b9, a8]
    rcases hcover p hp with h | h
    · left
      right
      refine ⟨h, ?_⟩
      show (c.ComponentTypeInfo.Find p.1).isSome = true
      cases hf : c.ComponentTypeInfo.Find p.1 with
      | none => exact absurd rfl ((TMap.Find_eq_none_iff _ _).1 hf p hp)
      | some _ => rfl
    · exact Or.inr h
  refine ⟨acc2.Chunk, acc2.OutResult, ?_, b1.trans a1, b2.trans a2, b3.trans a3, b4.trans a4,
    b5.trans a5, b6, ?_, b8 hnd, ?_⟩
  · unfold FMantleDBChunk.TakeEntityData
    simp only [h1, h2, hall, if_true]
  · intro T j hj
    rw [b7 T j (fun hc => hj hc.1), a7, if_neg (fun hc => hj hc.1)]
  · intro T hT hO hc
    rw [b7 T _ (fun hc => hT hc.2), a7, if_pos ⟨rfl, hO, hc⟩]

/-! ## Well-formed entries, and the database with two entries replaced -/

theorem WithEntries_Find (db : UMantleDB) (A B : TBitArray) (eA eB : FMantleDBEntry)
    (mr : FMantleDBMasterRecord) (X : TBitArray) :
    (db.WithEntries A B eA eB mr).EntriesByArchetype.Find X =
      if X = B then some eB else if X = A then some eA else db.EntriesByArchetype.Find X := by
  unfold UMantleDB.WithEntries
  simp only [TMap.Find_Add]

theorem WithEntries_GetChunk (db : UMantleDB) (A B : TBitArray) (eA eB : FMantleDBEntry)
    (mr : FMantleDBMasterRecord) (X : TBitArray) (ChunkId : FGuid) :
    (db.WithEntries A B eA eB mr).GetChunk X ChunkId =
      if X = B then eB.Chunks.Find ChunkId
      else if X = A then eA.Chunks.Find ChunkId else db.GetChunk X ChunkId := by
  unfold UMantleDB.GetChunk
  rw [WithEntries_Find]
  by_cases h1 : X = B
  · simp only [h1, if_true]
  · simp only [h1, if_false]
    by_cases h2 : X = A
    · simp only [h2, if_true]
    · simp only [h2, if_false]

theorem TMap.keys_Add {K V : Type} [DecidableEq K] (m : TMap K V) (k : K) (v : V) :
    (TMap.Add m k v).map (fun p => p.1) =
      if TMap.Contains m k = true then m.map (fun p => p.1) else m.map (fun p => p.1) ++ [k] := by
  unfold TMap.Add
  by_cases h : TMap.Contains m k = true
  · rw [if_pos h, if_pos h, List.map_map]
    apply List.map_congr_left
    intro p _
    simp only [Function.comp]
    by_cases hp : p.1 = k
    · rw [if_pos hp, hp]
    · rw [if_neg hp]
  · rw [if_neg h, if_neg h, List.map_append]
    rfl

theorem TMap.keys_nodup_Add {K V : Type} [DecidableEq K] (m : TMap K V) (k : K) (v : V)
    (h : (m.map (fun p => p.1)).Nodup) : ((TMap.Add m k v).map (fun p => p.1)).Nodup := by
  rw [TMap.keys_Add]
  by_cases hc : TMap.Contains m k = true
  · rw [if_pos hc]
    exact h
  · rw [if_neg hc]
    apply List.Nodup.append h (List.nodup_singleton k)
    intro x hx hk
    rw [List.mem_singleton] at hk
    subst hk
    obtain ⟨p, hp, hpk⟩ := List.mem_map.1 hx
    have hnone : TMap.Find m x = none :=
      (TMap.Contains_eq_false_iff m x).1 (by simpa using hc)
    exact (TMap.Find_eq_none_iff m x).1 hnone p hp hpk

/-- The sum of a measure over the values of a map after the value of an existing key, stored
once, was replaced. -/
theorem TMap.sum_Add_existing {K V : Type} [DecidableEq K] (f : V → Nat) :
    ∀ (m : TMap K V) (k : K) (v v1 : V), (m.map (fun p => p.1)).Nodup →
      TMap.Find m k = some v →
      ((TMap.Add m k v1).map (fun p => f p.2)).sum + f v = (m.map (fun p => f p.2)).sum + f v1 := by
  intro m k v v1 hnd hfind
  have hc : TMap.Contains m k = true := TMap.Contains_of_Find hfind
  unfold TMap.Add
  rw [if_pos hc]
  clear hc
  induction m with
  | nil => cases hfind
  | cons p rest ih =>
    obtain ⟨k1, v0⟩ := p
    rw [List.map_cons, List.nodup_cons] at hnd
    rw [TMap.Find_cons] at hfind
    by_cases hk : k1 = k
    · rw [if_pos hk] at hfind
      cases hfind
      have hrest : rest.map (fun p => if p.1 = k then (k, v1) else p) = rest := by
        conv_rhs => rw [← List.map_id rest]
        apply List.map_congr_left
        intro q hq
        have hne : q.1 ≠ k := by
          intro h
          apply hnd.1
          rw [hk, ← h]
          exact List.mem_map_of_mem (fun p => p.1) hq
        rw [if_neg hne]
        rfl
      simp only [List.map_cons, hk, if_true, List.sum_cons, hrest]
      omega
    · rw [if_neg hk] at hfind
      have := ih hnd.2 hfind
      simp only [List.map_cons, hk, if_false, List.sum_cons]
      omega

theorem TMap.sum_Add_new {K V : Type} [DecidableEq K] (f : V → Nat) (m : TMap K V) (k : K)
    (v1 : V) (h : TMap.Find m k = none) :
    ((TMap.Add m k v1).map (fun p => f p.2)).sum = (m.map (fun p => f p.2)).sum + f v1 := by
  unfold TMap.Add
  rw [if_neg (by rw [(TMap.Contains_eq_false_iff m k).2 h]; simp)]
  simp

theorem ChunkOk.mono_record {X : TBitArray} {mr mr1 : FMantleDBMasterRecord} {Id : FGuid}
    {Chunk : FMantleDBChunk} (h : ChunkOk X mr Id Chunk)
    (hreg : mr1.ComponentInfoMap = mr.ComponentInfoMap) (hle : mr.NextGuid ≤ mr1.NextGuid) :
    ChunkOk X mr1 Id Chunk :=
  ⟨h.id_eq, h.archetype_eq, by rw [PresentTypes_congr hreg]; exact h.columns, h.allocated,
    Nat.lt_of_lt_of_le h.id_lt hle⟩

theorem EntryOk.mono {X : TBitArray} {mr mr1 : FMantleDBMasterRecord} {e : FMantleDBEntry}
    (h : EntryOk X mr e) (hreg : mr1.ComponentInfoMap = mr.ComponentInfoMap)
    (hle : mr.NextGuid ≤ mr1.NextGuid) : EntryOk X mr1 e :=
  ⟨h.archetype_eq, h.keys_nodup, fun Id Chunk hf => (h.chunks Id Chunk hf).mono_record hreg hle⟩

/-- An entry stays well formed when a well-formed chunk is stored in it. -/
theorem EntryOk.store {X : TBitArray} {mr : FMantleDBMasterRecord} {e e1 : FMantleDBEntry}
    (h : EntryOk X mr e) {k : FGuid} {Chunk : FMantleDBChunk}
    (harch : e1.Archetype = e.Archetype) (hchunks : e1.Chunks = e.Chunks.Add k Chunk)
    (hc : ChunkOk X mr k Chunk) : EntryOk X mr e1 := by
  refine ⟨harch.trans h.archetype_eq, by rw [hchunks]; exact TMap.keys_nodup_Add _ _ _ h.keys_nodup,
    ?_⟩
  intro Id C hf
  rw [hchunks, TMap.Find_Add] at hf
  by_cases hid : Id = k
  · rw [if_pos hid] at hf
    cases hf
    rw [hid]
    exact hc
  · rw [if_neg hid] at hf
    exact h.chunks Id C hf

theorem StoreOk_WithEntries {db : UMantleDB} {A B : TBitArray} {eA eB : FMantleDBEntry}
    {mr : FMantleDBMasterRecord} (hreg : RegistryOk mr.ComponentInfoMap)
    (hkey : EntityIndexKeyed (db.WithEntries A B eA eB mr))
    (hloc : EntityLocationInv (db.WithEntries A B eA eB mr))
    (hA : EntryOk A mr eA) (hB : EntryOk B mr eB)
    (hothers : ∀ X e, X ≠ A → X ≠ B → db.EntriesByArchetype.Find X = some e → EntryOk X mr e) :
    StoreOk (db.WithEntries A B eA eB mr) := by
  refine ⟨hreg, hkey, hloc, ?_⟩
  intro X e hf
  rw [WithEntries_Find] at hf
  by_cases h1 : X = B
  · rw [if_pos h1] at hf
    cases hf
    rw [h1]
    exact hB
  · rw [if_neg h1] at hf
    by_cases h2 : X = A
    · rw [if_pos h2] at hf
      cases hf
      rw [h2]
      exact hA
    · rw [if_neg h2] at hf
      exact hothers X e h2 h1 hf

/-- `RemoveEntity` keeps the blob of a chunk that still holds an entity. -/
theorem RemoveEntity_alloc {c : FMantleDBChunk} {Entry : FMantleDBEntry}
    {mr : FMantleDBMasterRecord} {ToRemove : FMantleEntity} {b : Bool}
    {c1 : FMantleDBChunk} {Entry1 : FMantleDBEntry} {mr1 : FMantleDBMasterRecord}
    (h : c.RemoveEntity Entry mr ToRemove b = .ok (c1, Entry1, mr1))
    (hne : c1.EntityIds ≠ []) : c1.bBlobAllocated = c.bBlobAllocated := by
  unfold FMantleDBChunk.RemoveEntity at h
  by_cases h1 : ToRemove.Index ≥ c.EntityIds.length
  · rw [if_pos h1] at h
    cases h
    rfl
  · rw [if_neg h1] at h
    simp only at h
    by_cases h2 : ToRemove.Index = c.EntityIds.length - 1
    · rw [if_pos h2] at h
      by_cases h3 : c.EntityIds.length - 1 > 0
      · rw [if_pos h3] at h
        cases h
        rfl
      · rw [if_neg h3] at h
        cases h
        exfalso
        apply hne
        show (c.EntityIds.set _ _).dropLast = []
        apply List.eq_nil_of_length_eq_zero
        rw [List.length_dropLast, List.length_set]
        omega
    · rw [if_neg h2] at h
      split at h
      · cases h
      · cases h
        rfl

/-! ## One iteration of the loop of `FMantleDBChunk::TakeEntities` -/

theorem MigrationCols.congr_record {mr mr1 : FMantleDBMasterRecord} {A B : TBitArray}
    {S : List FInstancedStruct} (h : MigrationCols mr A B S)
    (hreg : mr1.ComponentInfoMap = mr.ComponentInfoMap) : MigrationCols mr1 A B S := by
  refine ⟨h.names_nodup, ?_, ?_, ?_, ?_⟩
  · intro p hp
    rw [PresentTypes_congr hreg, ArchetypeHasComponent_congr hreg]
    exact h.added p hp
  · rw [PresentTypes_congr hreg, PresentTypes_congr hreg]
    exact h.covered
  · rw [PresentTypes_congr hreg, PresentTypes_congr hreg]
    exact h.sizes
  · intro T hT
    rw [PresentTypes_congr hreg, PresentTypes_congr hreg, ArchetypeHasComponent_congr hreg,
      ArchetypeHasComponent_congr hreg]
    exact h.carried T hT

theorem EntryOk.restore {X : TBitArray} {mr : FMantleDBMasterRecord} {e : FMantleDBEntry}
    {k : FGuid} {c c1 : FMantleDBChunk}
    (h : EntryOk X mr { e with Chunks := e.Chunks.Add k c }) (hc : ChunkOk X mr k c1) :
    EntryOk X mr { e with Chunks := e.Chunks.Add k c1 } := by
  refine ⟨h.archetype_eq, ?_, ?_⟩
  · have h1 := h.keys_nodup
    simp only at h1 ⊢
    rw [TMap.keys_Add] at h1 ⊢
    exact h1
  · intro Id C hf
    simp only at hf
    rw [TMap.Find_Add] at hf
    by_cases hid : Id = k
    · rw [if_pos hid] at hf
      cases hf
      rw [hid]
      exact hc
    · rw [if_neg hid] at hf
      apply h.chunks Id C
      show (e.Chunks.Add k c).Find Id = some C
      rw [TMap.Find_Add, if_neg hid]
      exact hf

theorem TMap.mem_keys_of_Find {K V : Type} [DecidableEq K] {m : TMap K V} {k : K} {v : V}
    (h : TMap.Find m k = some v) : k ∈ m.map (fun p => p.1) :=
  List.mem_map.2 ⟨(k, v), TMap.Find_mem h, rfl⟩

/-- One iteration of the loop of `FMantleDBChunk::TakeEntities` for a live entity of the old
archetype, seen on the database in which the chunk and the entry taken from are stored back:
the entity is migrated, every other entity is untouched, the store stays well formed. -/
theorem take_one_sound (db : UMantleDB) (A B : TBitArray) (hAB : A ≠ B)
    (S : List FInstancedStruct) (e1 : FMantleDBEntry) (cid : FGuid) (rci : Nat)
    (c : FMantleDBChunk) (TF : FMantleDBEntry) (mr : FMantleDBMasterRecord)
    (Out : FMantleCachedEntry) (hcols : MigrationCols mr A B S)
    (hok : StoreOk (db.WithEntries A B TF { e1 with Chunks := e1.Chunks.Add cid c } mr))
    (halloc : c.bBlobAllocated = true) (hcap : c.GetRemainingCapacity > 0)
    (Id : FGuid) (E : FMantleEntity) (hE : mr.EntitiesById.Find Id = some E)
    (hEA : E.Archetype = A) :
    ∃ c1 TF1 mr1 Out1,
      (∀ rest sk, FMantleDBChunk.TakeEntitiesLoop S rci (Id :: rest) c TF mr Out sk =
        FMantleDBChunk.TakeEntitiesLoop S rci rest c1 TF1 mr1 Out1 sk) ∧
      c1.EntityIds = c.EntityIds ++ [Id] ∧ c1.TotalCapacity = c.TotalCapacity ∧
      c1.bBlobAllocated = true ∧
      StoreOk (db.WithEntries A B TF1 { e1 with Chunks := e1.Chunks.Add cid c1 } mr1) ∧
      (TF1.Chunks.map (fun p => p.2.EntityIds.length)).sum + 1 =
        (TF.Chunks.map (fun p => p.2.EntityIds.length)).sum ∧
      Migrated (db.WithEntries A B TF { e1 with Chunks := e1.Chunks.Add cid c } mr)
        (db.WithEntries A B TF1 { e1 with Chunks := e1.Chunks.Add cid c1 } mr1) B S Id ∧
      (∀ k, k ≠ Id →
        Untouched (db.WithEntries A B TF { e1 with Chunks := e1.Chunks.Add cid c } mr)
          (db.WithEntries A B TF1 { e1 with Chunks := e1.Chunks.Add cid c1 } mr1) k) ∧
      mr1.ComponentInfoMap = mr.ComponentInfoMap ∧
      mr1.ChunkComponentBlobSize = mr.ChunkComponentBlobSize ∧
      mr1.CachedQueries = mr.CachedQueries ∧ mr1.CachedEntries = mr.CachedEntries ∧
      mr1.NextGuid = mr.NextGuid ∧
      TF1.Archetype = TF.Archetype := by
  have hBA : ¬ A = B := hAB
  have hEid : E.Id = Id := hok.keyed Id E hE
  -- the old chunk
  obtain ⟨Old, hOldD, hslot⟩ := hok.located.record_located Id E hE
  have hOld : TF.Chunks.Find E.ChunkId = some Old := by
    rw [WithEntries_GetChunk, hEA, if_neg hBA, if_pos rfl] at hOldD
    exact hOldD
  have hi : E.Index < Old.EntityIds.length := getElem?_lt_of_eq_some hslot
  have hTFok : EntryOk A mr TF :=
    hok.entries A TF (by rw [WithEntries_Find, if_neg hBA, if_pos rfl])
  have hBok : EntryOk B mr { e1 with Chunks := e1.Chunks.Add cid c } :=
    hok.entries B _ (by rw [WithEntries_Find, if_pos rfl])
  have hOldok : ChunkOk A mr E.ChunkId Old := hTFok.chunks _ _ hOld
  have hcok : ChunkOk B mr cid c := hBok.chunks cid c (TMap.Find_Add_self _ _ _)
  have hOldne : Old.EntityIds ≠ [] := by
    intro h0
    rw [h0] at hi
    exact Nat.not_lt_zero _ hi
  -- the data of the entity
  obtain ⟨c1, Out1, hdata, d1, d2, d3, d4, d5, d6, d7, d8, d9⟩ :=
    TakeEntityData_spec c Old E S Out rci
      (by rw [hOldok.columns, hcok.columns]; exact hcols.sizes)
      halloc (hOldok.allocated hOldne)
      (by rw [hcok.columns]; exact fun p hp => (hcols.added p hp).1)
      (by rw [hOldok.columns, hcok.columns]; exact hcols.covered)
      hcols.names_nodup
  -- the removal from the old chunk
  obtain ⟨LastId, hlast⟩ : ∃ y, Old.EntityIds[Old.EntityIds.length - 1]? = some y :=
    ⟨_, List.getElem?_eq_getElem (by omega)⟩
  obtain ⟨LastEntity, hrec, -, -, -⟩ :=
    hok.located.slot_recorded _ _ _ _ _ hOldD hlast
  obtain ⟨Old1, TF1, mr1, hrem, hids, hblob, hmr⟩ :=
    @RemoveEntity_spec Old TF mr E true LastId LastEntity hi hlast hrec
  obtain ⟨f1, f2, f3, f4, f5, f6, f7, f8, f9, f10, f11, f12, f13⟩ := RemoveEntity_frame hrem
  refine ⟨{ c1 with EntityIds := c1.EntityIds ++ [E.Id] },
    { TF1 with Chunks := TF1.Chunks.Add E.ChunkId Old1 },
    { mr1 with
      EntitiesById :=
        mr1.EntitiesById.Add Id
          { Id := E.Id, Archetype := c.Archetype, ChunkId := c.ChunkId,
            Index := c.EntityIds.length } },
    Out1, ?_, by simp only [d1, hEid], d5, d6, ?_⟩
  · intro rest sk
    rw [FMantleDBChunk.TakeEntitiesLoop, if_pos hcap, hE]
    simp only [hOld, hdata, hrem]
  -- the state between the removal and the insertion
  have hmid := @removal_step_sound
    (db.WithEntries A B TF { e1 with Chunks := e1.Chunks.Add cid c } mr)
    (db.WithEntries A B { TF1 with Chunks := TF1.Chunks.Add E.ChunkId Old1 }
      { e1 with Chunks := e1.Chunks.Add cid c }
      { mr1 with EntitiesById := mr1.EntitiesById.Remove Id })
    hok.keyed hok.located Id E hE Old Old1 hOldD LastId LastEntity hlast hrec f9 f1 hids hblob
    (by
      intro k
      show (mr1.EntitiesById.Remove Id).Find k = _
      rw [TMap.Find_Remove, hmr]
      rfl)
    (by
      intro X ChunkId
      rw [WithEntries_GetChunk, WithEntries_GetChunk, hEA]
      by_cases hX : X = B
      · subst hX
        simp only [eq_self_iff_true, if_true]
        rw [if_neg (fun h => hAB h.1.symm)]
      · by_cases hXA : X = A
        · subst hXA
          simp only [hX, if_false, eq_self_iff_true, if_true, true_and]
          show (TF1.Chunks.Add E.ChunkId Old1).Find ChunkId = _
          rw [TMap.Find_Add, f5]
        · simp only [hX, hXA, if_false, false_and])
  obtain ⟨m1, m2, m3, m4⟩ := hmid
  have hins := @insertion_step_sound
    (db.WithEntries A B { TF1 with Chunks := TF1.Chunks.Add E.ChunkId Old1 }
      { e1 with Chunks := e1.Chunks.Add cid c }
      { mr1 with EntitiesById := mr1.EntitiesById.Remove Id })
    (db.WithEntries A B { TF1 with Chunks := TF1.Chunks.Add E.ChunkId Old1 }
      { e1 with Chunks := e1.Chunks.Add cid { c1 with EntityIds := c1.EntityIds ++ [E.Id] } }
      { mr1 with
        EntitiesById :=
          mr1.EntitiesById.Add Id
            { Id := E.Id, Archetype := c.Archetype, ChunkId := c.ChunkId,
              Index := c.EntityIds.length } })
    m1 m2 Id m3 B cid c { c1 with EntityIds := c1.EntityIds ++ [E.Id] }
    (by rw [WithEntries_GetChunk, if_pos rfl]; exact TMap.Find_Add_self _ _ _)
    rfl d2 (by simp only [d1, hEid])
    (fun T j hj => d7 T j (Nat.ne_of_lt hj))
    (by
      intro k
      show (mr1.EntitiesById.Add Id _).Find k = _
      rw [TMap.Find_Add, hEid, hcok.archetype_eq, hcok.id_eq]
      by_cases hk : k = Id
      · rw [if_pos hk, if_pos hk]
      · rw [if_neg hk, if_neg hk]
        show _ = (mr1.EntitiesById.Remove Id).Find k
        rw [TMap.Find_Remove, if_neg hk])
    (by
      intro X ChunkId
      rw [WithEntries_GetChunk, WithEntries_GetChunk]
      by_cases hX : X = B
      · subst hX
        simp only [eq_self_iff_true, if_true, true_and]
        show (e1.Chunks.Add cid _).Find ChunkId =
          if _ then _ else (e1.Chunks.Add cid c).Find ChunkId
        rw [TMap.Find_Add, TMap.Find_Add]
        by_cases hC : ChunkId = cid
        · rw [if_pos hC, if_pos hC]
        · rw [if_neg hC, if_neg hC, if_neg hC]
      · simp only [hX, if_false, false_and])
  obtain ⟨n1, n2, n3, n4⟩ := hins
  have hregmid : ∀ X T,
      FMantleDBMasterRecord.ArchetypeHasComponent
        (db.WithEntries A B { TF1 with Chunks := TF1.Chunks.Add E.ChunkId Old1 }
          { e1 with Chunks := e1.Chunks.Add cid c }
          { mr1 with EntitiesById := mr1.EntitiesById.Remove Id }).MasterRecord X T =
        mr.ArchetypeHasComponent X T := fun X T => ArchetypeHasComponent_congr f9 X T
  have hOlen : Old1.EntityIds.length + 1 = Old.EntityIds.length := by
    rw [hids, swap_pop_length]
    omega
  refine ⟨?_, ?_, ?_, ?_, f9, f10, f11, f12, f13, f6⟩
  · -- the store is well formed
    have hmono : ∀ X e, EntryOk X mr e → EntryOk X
        { mr1 with
          EntitiesById :=
            mr1.EntitiesById.Add Id
              { Id := E.Id, Archetype := c.Archetype, ChunkId := c.ChunkId,
                Index := c.EntityIds.length } } e :=
      fun X e h => h.mono f9 (Nat.le_of_eq f13.symm)
    apply StoreOk_WithEntries
    · show RegistryOk mr1.ComponentInfoMap
      rw [f9]
      exact hok.registry
    · exact n1
    · exact n2
    · refine (hmono A TF hTFok).store f6 (by rw [← f5]) ?_
      refine ⟨f3.trans hOldok.id_eq, f2.trans hOldok.archetype_eq, ?_, ?_, ?_⟩
      · rw [f1, hOldok.columns]
        exact (PresentTypes_congr f9 A).symm
      · intro hne hcti
        rw [RemoveEntity_alloc hrem hne]
        exact hOldok.allocated hOldne (by rw [← f1]; exact hcti)
      · show E.ChunkId < mr1.NextGuid
        rw [f13]
        exact hOldok.id_lt
    · refine (hmono B _ hBok).restore ?_
      refine ⟨d3.trans hcok.id_eq, d4.trans hcok.archetype_eq, ?_, fun _ _ => d6, ?_⟩
      · show c1.ComponentTypeInfo = _
        rw [d2, hcok.columns]
        exact (PresentTypes_congr f9 B).symm
      · show cid < mr1.NextGuid
        rw [f13]
        exact hcok.id_lt
    · intro X e hXA hXB hf
      exact hmono X e (hok.entries X e (by rw [WithEntries_Find, if_neg hXB, if_neg hXA]; exact hf))
  · -- the count of the old entry
    show ((TF1.Chunks.Add E.ChunkId Old1).map (fun p => p.2.EntityIds.length)).sum + 1 = _
    have hsum : ((TF.Chunks.Add E.ChunkId Old1).map (fun p => p.2.EntityIds.length)).sum +
        Old.EntityIds.length =
        (TF.Chunks.map (fun p => p.2.EntityIds.length)).sum + Old1.EntityIds.length :=
      TMap.sum_Add_existing (fun C : FMantleDBChunk => C.EntityIds.length)
        TF.Chunks E.ChunkId Old Old1 hTFok.keys_nodup hOld
    rw [f5]
    omega
  · -- the migrated entity
    refine ⟨?_, ?_, ?_⟩
    · have hfind : (mr1.EntitiesById.Add Id
          { Id := E.Id, Archetype := c.Archetype, ChunkId := c.ChunkId,
            Index := c.EntityIds.length }).Find Id = _ := TMap.Find_Add_self _ _ _
      show Option.map _ ((mr1.EntitiesById.Add Id _).Find Id) = some B
      rw [hfind]
      exact congrArg some hcok.archetype_eq
    · intro p hp
      rw [n4, hregmid, (hcols.added p hp).2]
      obtain ⟨Info, hInfo⟩ := (hcols.added p hp).1
      simp only [Bool.true_eq_false, if_false, FMantleDBChunk.GetComponentInternal, d2,
        hcok.columns, hInfo, d8 p hp]
    · intro T hT
      rw [n4, hregmid]
      show _ = if mr.ArchetypeHasComponent B T = true then _ else none
      by_cases hB : mr.ArchetypeHasComponent B T = true
      · obtain ⟨hA, hsome⟩ := hcols.carried T hT hB
        rw [if_neg (by rw [hB]; simp), if_pos hB, GetComponent_of_record hE, hEA]
        show _ = if mr.ArchetypeHasComponent A T = false then none else _
        have hOldA : (db.WithEntries A B TF { e1 with Chunks := e1.Chunks.Add cid c }
            mr).GetChunk A E.ChunkId = some Old := by
          rw [WithEntries_GetChunk, if_neg hBA, if_pos rfl]
          exact hOld
        rw [if_neg (by rw [hA]; simp), hOldA]
        simp only [Option.bind, FMantleDBChunk.GetComponentInternal, d2, hcok.columns,
          hOldok.columns]
        cases hfB : (FMantleDBChunk.PresentTypes B mr).Find T with
        | none =>
          rw [hfB] at hsome
          cases hfA : (FMantleDBChunk.PresentTypes A mr).Find T with
          | none => rfl
          | some _ => rw [hfA] at hsome; cases hsome
        | some InfoB =>
          rw [hfB] at hsome
          cases hfA : (FMantleDBChunk.PresentTypes A mr).Find T with
          | none => rw [hfA] at hsome; cases hsome
          | some InfoA =>
            simp only
            rw [d9 T hT (by rw [hOldok.columns]; exact TMap.mem_keys_of_Find hfA)
              (by rw [hcok.columns, hfB]; rfl)]
      · rw [if_pos (by simpa using hB), if_neg hB]
  · intro k hk
    exact Untouched.trans (m4 k hk) (n3 k hk)

/-! ## The loop of `FMantleDBChunk::TakeEntities` -/

/-- The loop of `FMantleDBChunk::TakeEntities` over live entities of the old archetype: as many
of them as the chunk has room for are migrated, in the order of the list. -/
theorem Chunk_TakeEntitiesLoop_spec (db : UMantleDB) (A B : TBitArray) (hAB : A ≠ B)
    (S : List FInstancedStruct) (e1 : FMantleDBEntry) (cid : FGuid) (rci : Nat) :
    ∀ (ids : List FGuid) (c : FMantleDBChunk) (TF : FMantleDBEntry)
      (mr : FMantleDBMasterRecord) (Out : FMantleCachedEntry) (sk : Nat),
      MigrationCols mr A B S →
      StoreOk (db.WithEntries A B TF { e1 with Chunks := e1.Chunks.Add cid c } mr) →
      c.bBlobAllocated = true → ids.Nodup →
      (∀ id ∈ ids, ∃ E, mr.EntitiesById.Find id = some E ∧ E.Archetype = A) →
      ∃ c1 TF1 mr1 Out1,
        FMantleDBChunk.TakeEntitiesLoop S rci ids c TF mr Out sk =
          .ok (c1, TF1, mr1, Out1, sk) ∧
        c1.EntityIds = c.EntityIds ++ ids.take c.GetRemainingCapacity ∧
        c1.TotalCapacity = c.TotalCapacity ∧ c1.bBlobAllocated = true ∧
        StoreOk (db.WithEntries A B TF1 { e1 with Chunks := e1.Chunks.Add cid c1 } mr1) ∧
        (TF1.Chunks.map (fun p => p.2.EntityIds.length)).sum +
            (ids.take c.GetRemainingCapacity).length =
          (TF.Chunks.map (fun p => p.2.EntityIds.length)).sum ∧
        (∀ id ∈ ids.take c.GetRemainingCapacity,
          Migrated (db.WithEntries A B TF { e1 with Chunks := e1.Chunks.Add cid c } mr)
            (db.WithEntries A B TF1 { e1 with Chunks := e1.Chunks.Add cid c1 } mr1) B S id) ∧
        (∀ id, id ∉ ids.take c.GetRemainingCapacity →
          Untouched (db.WithEntries A B TF { e1 with Chunks := e1.Chunks.Add cid c } mr)
            (db.WithEntries A B TF1 { e1 with Chunks := e1.Chunks.Add cid c1 } mr1) id) ∧
        mr1.ComponentInfoMap = mr.ComponentInfoMap ∧
        mr1.ChunkComponentBlobSize = mr.ChunkComponentBlobSize ∧
        mr1.CachedQueries = mr.CachedQueries ∧ mr1.CachedEntries = mr.CachedEntries ∧
        mr1.NextGuid = mr.NextGuid ∧ TF1.Archetype = TF.Archetype
  | [], c, TF, mr, Out, sk, _, hok, halloc, _, _ => by
    refine ⟨c, TF, mr, Out, rfl, by simp, rfl, halloc, hok, by simp, ?_, ?_, rfl, rfl, rfl, rfl,
      rfl, rfl⟩
    · intro id hid
      simp at hid
    · intro id _
      exact Untouched.refl _ _
  | Id :: rest, c, TF, mr, Out, sk, hcols, hok, halloc, hnd, hlive => by
    by_cases hcap : c.GetRemainingCapacity > 0
    · obtain ⟨E, hE, hEA⟩ := hlive Id (List.mem_cons_self _ _)
      obtain ⟨c1, TF1, mr1, Out1, s1, s2, s3, s4, s5, s6, s7, s8, s9, s10, s11, s12, s13, s14⟩ :=
        take_one_sound db A B hAB S e1 cid rci c TF mr Out hcols hok halloc hcap Id E hE hEA
      rw [List.nodup_cons] at hnd
      have hlive1 : ∀ id ∈ rest, ∃ E, mr1.EntitiesById.Find id = some E ∧ E.Archetype = A := by
        intro id hid
        obtain ⟨E0, hE0, hE0A⟩ := hlive id (List.mem_cons_of_mem _ hid)
        have hne : id ≠ Id := fun h => hnd.1 (h ▸ hid)
        have hu := (s8 id hne).1
        have hu1 : (mr1.EntitiesById.Find id).map (fun e => e.Archetype) =
            (mr.EntitiesById.Find id).map (fun e => e.Archetype) := hu
        rw [hE0] at hu1
        cases hf : mr1.EntitiesById.Find id with
        | none => rw [hf] at hu1; cases hu1
        | some E1 =>
          rw [hf] at hu1
          simp only [Option.map_some', Option.some.injEq] at hu1
          exact ⟨E1, rfl, hu1.trans hE0A⟩
      obtain ⟨c2, TF2, mr2, Out2, r1, r2, r3, r4, r5, r6, r7, r8, r9, r10, r11, r12, r13, r14⟩ :=
        Chunk_TakeEntitiesLoop_spec db A B hAB S e1 cid rci rest c1 TF1 mr1 Out1 sk
          (hcols.congr_record s9) s5 s4 hnd.2 hlive1
      have hcap1 : c1.GetRemainingCapacity + 1 = c.GetRemainingCapacity := by
        unfold FMantleDBChunk.GetRemainingCapacity at hcap ⊢
        rw [s2, s3, List.length_append, List.length_singleton]
        omega
      have htake : (Id :: rest).take c.GetRemainingCapacity =
          Id :: rest.take c1.GetRemainingCapacity := by
        rw [← hcap1, List.take_succ_cons]
      refine ⟨c2, TF2, mr2, Out2, (s1 rest sk).trans r1, ?_, r3.trans s3, r4, r5, ?_, ?_, ?_,
        r9.trans s9, r10.trans s10, r11.trans s11, r12.trans s12, r13.trans s13, r14.trans s14⟩
      · rw [r2, s2, htake]
        simp
      · rw [htake, List.length_cons]
        omega
      · intro id hid
        rw [htake] at hid
        rcases List.mem_cons.1 hid with rfl | hid
        · exact s7.then_untouched
            (r8 _ (fun h => hnd.1 (List.mem_of_mem_take h)))
        · have hne : id ≠ Id := fun h => hnd.1 (h ▸ List.mem_of_mem_take hid)
          exact Migrated.after_untouched (s8 id hne) s9 (r7 id hid)
      · intro id hid
        rw [htake] at hid
        have hne : id ≠ Id := fun h => hid (h ▸ List.mem_cons_self _ _)
        exact (s8 id hne).trans (r8 id (fun h => hid (List.mem_cons_of_mem _ h)))
    · have h0 : c.GetRemainingCapacity = 0 := by omega
      refine ⟨c, TF, mr, Out, ?_, by rw [h0]; simp, rfl, halloc, hok, by rw [h0]; simp, ?_, ?_,
        rfl, rfl, rfl, rfl, rfl, rfl⟩
      · rw [FMantleDBChunk.TakeEntitiesLoop, if_neg hcap]
      · intro id hid
        rw [h0] at hid
        simp at hid
      · intro id _
        exact Untouched.refl _ _

/-! ## `FMantleDBChunk::TakeEntities` on a chunk of a non-bare archetype -/

/-- Replacing the entry of `B` by one with the same chunks up to the blob flag of allocated
chunks and up to the stack of available chunks changes nothing for the store. -/
theorem StoreOk_sim (db : UMantleDB) (A B : TBitArray) (TF eB eB1 : FMantleDBEntry)
    (mr : FMantleDBMasterRecord)
    (harch : eB1.Archetype = eB.Archetype)
    (hkeys : eB1.Chunks.map (fun p => p.1) = eB.Chunks.map (fun p => p.1))
    (hsim : ∀ id, (eB.Chunks.Find id = none ∧ eB1.Chunks.Find id = none) ∨
      ∃ C C1, eB.Chunks.Find id = some C ∧ eB1.Chunks.Find id = some C1 ∧
        C1.EntityIds = C.EntityIds ∧ C1.ComponentTypeInfo = C.ComponentTypeInfo ∧
        C1.Blob = C.Blob ∧ C1.ChunkId = C.ChunkId ∧ C1.Archetype = C.Archetype ∧
        (C.bBlobAllocated = true → C1.bBlobAllocated = true))
    (hok : StoreOk (db.WithEntries A B TF eB mr)) :
    StoreOk (db.WithEntries A B TF eB1 mr) ∧
      ∀ k, Untouched (db.WithEntries A B TF eB mr) (db.WithEntries A B TF eB1 mr) k := by
  obtain ⟨v1, v2, v3⟩ := @view_sound (db.WithEntries A B TF eB mr)
    (db.WithEntries A B TF eB1 mr) (fun _ => rfl) rfl
    (by
      intro X ChunkId
      rw [WithEntries_GetChunk, WithEntries_GetChunk]
      by_cases hX : X = B
      · rw [if_pos hX, if_pos hX]
        rcases hsim ChunkId with h | ⟨C, C1, h1, h2, h3, h4, h5, -⟩
        · exact Or.inl h
        · exact Or.inr ⟨C, C1, h1, h2, h3, h4, h5⟩
      · rw [if_neg hX, if_neg hX]
        cases h : (if X = A then TF.Chunks.Find ChunkId else db.GetChunk X ChunkId) with
        | none => exact Or.inl ⟨rfl, rfl⟩
        | some C => exact Or.inr ⟨C, C, rfl, rfl, rfl, rfl, rfl⟩)
    hok.keyed hok.located
  refine ⟨⟨hok.registry, v1, v2, ?_⟩, v3⟩
  intro X e hf
  rw [WithEntries_Find] at hf
  by_cases hX : X = B
  · rw [if_pos hX] at hf
    cases hf
    have hB : EntryOk B mr eB := hok.entries B eB (by rw [WithEntries_Find, if_pos rfl])
    rw [hX]
    refine ⟨harch.trans hB.archetype_eq, by rw [hkeys]; exact hB.keys_nodup, ?_⟩
    intro Id C1 hC1
    rcases hsim Id with ⟨-, h⟩ | ⟨C, C1a, h1, h2, h3, h4, h5, h6, h7, h8⟩
    · rw [h] at hC1
      cases hC1
    · rw [h2] at hC1
      cases hC1
      have hC := hB.chunks Id C h1
      exact ⟨h6.trans hC.id_eq, h7.trans hC.archetype_eq, h4.trans hC.columns,
        fun hne hcti => h8 (hC.allocated (by rw [← h3]; exact hne) (by rw [← h4]; exact hcti)),
        hC.id_lt⟩
  · rw [if_neg hX] at hf
    exact hok.entries X e (by rw [WithEntries_Find, if_neg hX]; exact hf)

/-- `FMantleDBChunk::TakeEntities` of a chunk of a non-bare archetype, for a non-empty list of
live entities of the old archetype: as many of them as the chunk has room for are migrated,
and their number is returned. -/
theorem Chunk_TakeEntities_spec (db : UMantleDB) (A B : TBitArray) (hAB : A ≠ B)
    (S : List FInstancedStruct) (e1 : FMantleDBEntry) (cid : FGuid)
    (ids : List FGuid) (c : FMantleDBChunk) (TF : FMantleDBEntry)
    (mr : FMantleDBMasterRecord) (Out : FMantleCachedEntry)
    (hcols : MigrationCols mr A B S)
    (hok : StoreOk (db.WithEntries A B TF { e1 with Chunks := e1.Chunks.Add cid c } mr))
    (hnb : IsZero B = false) (hne : ids ≠ []) (hnd : ids.Nodup)
    (hlive : ∀ id ∈ ids, ∃ E, mr.EntitiesById.Find id = some E ∧ E.Archetype = A) :
    ∃ c1 TF1 mr1 Out1,
      c.TakeEntities ids TF mr S Out =
        .ok ((ids.take c.GetRemainingCapacity).length, c1, TF1, mr1, Out1) ∧
      c1.EntityIds = c.EntityIds ++ ids.take c.GetRemainingCapacity ∧
      c1.TotalCapacity = c.TotalCapacity ∧
      StoreOk (db.WithEntries A B TF1 { e1 with Chunks := e1.Chunks.Add cid c1 } mr1) ∧
      (TF1.Chunks.map (fun p => p.2.EntityIds.length)).sum +
          (ids.take c.GetRemainingCapacity).length =
        (TF.Chunks.map (fun p => p.2.EntityIds.length)).sum ∧
      (∀ id ∈ ids.take c.GetRemainingCapacity,
        Migrated (db.WithEntries A B TF { e1 with Chunks := e1.Chunks.Add cid c } mr)
          (db.WithEntries A B TF1 { e1 with Chunks := e1.Chunks.Add cid c1 } mr1) B S id) ∧
      (∀ id, id ∉ ids.take c.GetRemainingCapacity →
        Untouched (db.WithEntries A B TF { e1 with Chunks := e1.Chunks.Add cid c } mr)
          (db.WithEntries A B TF1 { e1 with Chunks := e1.Chunks.Add cid c1 } mr1) id) ∧
      mr1.ComponentInfoMap = mr.ComponentInfoMap ∧
      mr1.ChunkComponentBlobSize = mr.ChunkComponentBlobSize ∧
      mr1.CachedQueries = mr.CachedQueries ∧ mr1.CachedEntries = mr.CachedEntries ∧
      mr1.NextGuid = mr.NextGuid ∧ TF1.Archetype = TF.Archetype := by
  have hBok : EntryOk B mr { e1 with Chunks := e1.Chunks.Add cid c } :=
    hok.entries B _ (by rw [WithEntries_Find, if_pos rfl])
  have hcok : ChunkOk B mr cid c := hBok.chunks cid c (TMap.Find_Add_self _ _ _)
  obtain ⟨hok0, hun0⟩ := StoreOk_sim db A B TF { e1 with Chunks := e1.Chunks.Add cid c }
    { e1 with Chunks := e1.Chunks.Add cid c.MaybeAllocateBlob } mr rfl
    (by
      show (e1.Chunks.Add cid _).map _ = (e1.Chunks.Add cid c).map _
      rw [TMap.keys_Add, TMap.keys_Add])
    (by
      intro id
      show ((e1.Chunks.Add cid c).Find id = none ∧ (e1.Chunks.Add cid _).Find id = none) ∨
        ∃ C C1, (e1.Chunks.Add cid c).Find id = some C ∧
          (e1.Chunks.Add cid c.MaybeAllocateBlob).Find id = some C1 ∧ _
      have hF : ∀ x : FMantleDBChunk, (e1.Chunks.Add cid x).Find id =
          if id = cid then some x else e1.Chunks.Find id := fun x => TMap.Find_Add _ _ _ _
      by_cases hid : id = cid
      · exact Or.inr ⟨c, c.MaybeAllocateBlob, by rw [hF, if_pos hid], by rw [hF, if_pos hid],
          rfl, rfl, rfl, rfl, rfl, fun _ => rfl⟩
      · cases h : e1.Chunks.Find id with
        | none => exact Or.inl ⟨by rw [hF, if_neg hid, h], by rw [hF, if_neg hid, h]⟩
        | some C =>
          exact Or.inr ⟨C, C, by rw [hF, if_neg hid, h], by rw [hF, if_neg hid, h], rfl, rfl,
            rfl, rfl, rfl, fun h => h⟩)
    hok
  obtain ⟨c1, TF1, mr1, Out1, r1, r2, r3, r4, r5, r6, r7, r8, r9, r10, r11, r12, r13, r14⟩ :=
    Chunk_TakeEntitiesLoop_spec db A B hAB S e1 cid Out.ChunkedEntityIds.length ids
      c.MaybeAllocateBlob TF mr Out 0 hcols hok0 rfl hnd hlive
  have hcap0 : c.MaybeAllocateBlob.GetRemainingCapacity = c.GetRemainingCapacity := rfl
  have hids0 : c.MaybeAllocateBlob.EntityIds = c.EntityIds := rfl
  rw [hcap0] at r2 r6 r7 r8
  rw [hids0] at r2
  have hlen : c1.EntityIds.length - c.EntityIds.length =
      (ids.take c.GetRemainingCapacity).length := by
    rw [r2, List.length_append]
    omega
  have hres : ∃ Out2, c.TakeEntities ids TF mr S Out =
      .ok ((ids.take c.GetRemainingCapacity).length, c1, TF1, mr1, Out2) := by
    unfold FMantleDBChunk.TakeEntities
    rw [if_neg (by
      intro h0
      exact hne (List.eq_nil_of_length_eq_zero h0)), hcok.archetype_eq, hnb]
    simp only [Bool.false_eq_true, if_false, r1, hids0, hlen]
    by_cases h0 : (ids.take c.GetRemainingCapacity).length ≤ 0
    · rw [if_pos h0]
      have h1 : (ids.take c.GetRemainingCapacity).length = 0 := by omega
      exact ⟨_, by rw [h1]⟩
    · rw [if_neg h0]
      exact ⟨_, rfl⟩
  obtain ⟨Out2, hres⟩ := hres
  refine ⟨c1, TF1, mr1, Out2, hres, r2, r3, r5, r6, ?_, ?_, r9, r10, r11, r12, r13, r14⟩
  · intro id hid
    exact Migrated.after_untouched (hun0 id) rfl (r7 id hid)
  · intro id hid
    exact (hun0 id).trans (r8 id hid)

/-! ## `Initialize`: the floor of the chunk byte budget, the registry it builds, and the second call -/

theorem TMap.Add_length_pos {K V : Type} [DecidableEq K] (m : TMap K V) (k : K) (v : V) :
    0 < (m.Add k v).length := by
  unfold TMap.Add
  by_cases h : m.Contains k = true
  · rw [if_pos h, List.length_map]
    cases m with
    | nil => simp [TMap.Contains, TMap.Find] at h
    | cons p rest => simp
  · rw [if_neg h, List.length_append]
    simp

theorem RegisterComponentTypes_length_pos :
    ∀ (l : List (Option UScriptStruct)) (k : Nat) (m : TMap FString FMantleComponentInfo),
      (0 < m.length ∨ ∃ T, some T ∈ l) → 0 < (UMantleDB.RegisterComponentTypes l k m).length
  | [], _, m, h => by
    rcases h with h | ⟨T, hT⟩
    · exact h
    · cases hT
  | none :: rest, k, m, h => by
    rw [UMantleDB.RegisterComponentTypes]
    refine RegisterComponentTypes_length_pos rest k m ?_
    rcases h with h | ⟨T, hT⟩
    · exact Or.inl h
    · rcases List.mem_cons.1 hT with h1 | h1
      · cases h1
      · exact Or.inr ⟨T, h1⟩
  | some T :: rest, k, m, _ => by
    rw [UMantleDB.RegisterComponentTypes]
    exact RegisterComponentTypes_length_pos rest (k + 1) _ (Or.inl (TMap.Add_length_pos _ _ _))

theorem Initialize_of_initialized (db : UMantleDB) (ComponentTypes : List (Option UScriptStruct))
    (ChunkSizeBytes : Int) (h : db.bIsInitialized = true) :
    db.Initialize ComponentTypes ChunkSizeBytes = .ok db := by
  unfold UMantleDB.Initialize
  rw [if_pos h]

theorem RegistryOf_Find : ∀ (Types : List UScriptStruct) (k i : Nat) (T : UScriptStruct),
    (Types.map (fun T => T.Name)).Nodup → Types[i]? = some T →
      (RegistryOf Types k).Find T.Name =
        some { Name := T.Name, ArchetypeIndex := k + i, StructSize := T.StructureSize,
               StructAlignment := T.MinAlignment }
  | [], _, _, _, _, h => by simp at h
  | T0 :: rest, k, 0, T, _, h => by
    simp only [List.getElem?_cons_zero, Option.some.injEq] at h
    subst h
    simp [RegistryOf, TMap.Find]
  | T0 :: rest, k, i + 1, T, hnd, h => by
    simp only [List.getElem?_cons_succ] at h
    have hnd1 : (T0.Name :: rest.map (fun T => T.Name)).Nodup := by simpa using hnd
    have hmem : T ∈ rest := by
      obtain ⟨hi, he⟩ := List.getElem?_eq_some_iff.1 h
      exact he ▸ List.getElem_mem hi
    have hne : T0.Name ≠ T.Name := by
      intro e
      exact (List.nodup_cons.1 hnd1).1 (e ▸ List.mem_map_of_mem _ hmem)
    rw [RegistryOf, TMap.Find_cons, if_neg hne,
      RegistryOf_Find rest (k + 1) i T (List.nodup_cons.1 hnd1).2 h]
    have : k + 1 + i = k + (i + 1) := by omega
    rw [this]

/-- C19: on a database that is not initialised, `Initialize` with a chunk byte budget below
the floor `kMinChunkSize = 1024` ends in the fatal error, so that no database with a registered
type, an entry or the initialised flag results, whereas the budget 1024 is accepted and
stored. -/
theorem C19_initialize_budget_floor (db : UMantleDB)
    (ComponentTypes : List (Option UScriptStruct)) (ChunkSizeBytes : Int)
    (hnew : db.bIsInitialized = false) :
    kMinChunkSize = 1024 ∧
      (ChunkSizeBytes < 1024 →
        db.Initialize ComponentTypes ChunkSizeBytes =
          .error (.Fatal "DB chunk size must be at least kMinChunkSize bytes")) ∧
      ∃ db1, db.Initialize ComponentTypes 1024 = .ok db1 ∧
        db1.MasterRecord.ChunkComponentBlobSize = 1024 := by
  refine ⟨rfl, ?_, ?_⟩
  · intro h
    unfold UMantleDB.Initialize
    rw [hnew]
    simp only [Bool.false_eq_true, if_false]
    rw [if_pos (show ChunkSizeBytes < kMinChunkSize from h)]
  · unfold UMantleDB.Initialize
    rw [hnew]
    simp only [Bool.false_eq_true, if_false]
    rw [if_neg (show ¬ ((1024 : Int) < kMinChunkSize) by decide)]
    split
    · exact ⟨_, rfl, rfl⟩
    · refine ⟨_, rfl, ?_⟩
      show (UMantleDB.GetOrCreateEntry _ _).1.MasterRecord.ChunkComponentBlobSize = 1024
      unfold UMantleDB.GetOrCreateEntry
      split
      · rfl
      · simp only
        unfold FMantleDBMasterRecord.FindOrAddCachedEntry
        split <;> rfl

theorem C19_initialize_budget_floor_witness :
    kMinChunkSize = 1024 ∧
      ((1023 : Int) < 1024 →
        ({} : UMantleDB).Initialize [some ⟨"Position", 12, 4⟩] 1023 =
          .error (.Fatal "DB chunk size must be at least kMinChunkSize bytes")) ∧
      ∃ db1, ({} : UMantleDB).Initialize [some ⟨"Position", 12, 4⟩] 1024 = .ok db1 ∧
        db1.MasterRecord.ChunkComponentBlobSize = 1024 :=
  C19_initialize_budget_floor {} [some ⟨"Position", 12, 4⟩] 1023 rfl

/-- C17 (amended): when the first `Initialize` on a new database is given a budget of at
least 1024 and at least one non-null component type, a second `Initialize` with any types and
any budget returns the database unchanged: the registry, the stored chunk byte budget and
the entries are those of the first call. -/
theorem C17_initialize_twice (Types1 Types2 : List (Option UScriptStruct))
    (Budget1 Budget2 : Int) (hsize : kMinChunkSize ≤ Budget1) (hne : ∃ T, some T ∈ Types1) :
    ∃ db1, ({} : UMantleDB).Initialize Types1 Budget1 = .ok db1 ∧
      db1.bIsInitialized = true ∧
      db1.Initialize Types2 Budget2 = .ok db1 := by
  have hpos := RegisterComponentTypes_length_pos Types1 0 [] (Or.inr hne)
  have h1 : ∃ db1, ({} : UMantleDB).Initialize Types1 Budget1 = .ok db1 ∧
      db1.bIsInitialized = true := by
    unfold UMantleDB.Initialize
    simp only [Bool.false_eq_true, if_false]
    rw [if_neg (by omega), if_neg (by
      show ¬ (UMantleDB.RegisterComponentTypes Types1 0 []).length ≤ 0
      omega)]
    exact ⟨_, rfl, rfl⟩
  obtain ⟨db1, h2, h3⟩ := h1
  exact ⟨db1, h2, h3, Initialize_of_initialized db1 Types2 Budget2 h3⟩

theorem C17_initialize_twice_witness :
    ∃ db1, ({} : UMantleDB).Initialize [some ⟨"Position", 12, 4⟩] 1024 = .ok db1 ∧
      db1.bIsInitialized = true ∧
      db1.Initialize [some ⟨"Velocity", 12, 4⟩] 512 = .ok db1 :=
  C17_initialize_twice [some ⟨"Position", 12, 4⟩] [some ⟨"Velocity", 12, 4⟩] 1024 512
    (by decide) ⟨_, List.mem_singleton.2 rfl⟩

/-- C17 (counterexample): after `Initialize` with an empty type list the database is not
marked initialised, so a second `Initialize` registers its type, stores its budget and creates
the bare entry. -/
theorem C17_empty_first_call_registers_later :
    ∃ db1 db2, ({} : UMantleDB).Initialize [] 1024 = .ok db1 ∧
      db1.Initialize [some ⟨"Position", 12, 4⟩] 2048 = .ok db2 ∧
      db1.MasterRecord.ComponentInfoMap = [] ∧
      db2.MasterRecord.ComponentInfoMap = [("Position", ⟨"Position", 0, 12, 4⟩)] ∧
      db1.MasterRecord.ChunkComponentBlobSize = 1024 ∧
      db2.MasterRecord.ChunkComponentBlobSize = 2048 ∧
      db1.EntriesByArchetype.map (fun p => p.1) = [] ∧
      db2.EntriesByArchetype.map (fun p => p.1) = [[false]] :=
  ⟨_, _, rfl, rfl, rfl, rfl, rfl, rfl, rfl, rfl⟩

theorem Entry_Ctor_Chunks (A : TBitArray) (mr : FMantleDBMasterRecord) :
    (FMantleDBEntry.Ctor A mr).Chunks = [] ∧ (FMantleDBEntry.Ctor A mr).Archetype = A ∧
      (FMantleDBEntry.Ctor A mr).AllChunkIds = [] ∧
      (FMantleDBEntry.Ctor A mr).AvailableChunkIds = [] := ⟨rfl, rfl, rfl, rfl⟩

/-- C18 (amended): `Initialize` on a new database with `k ≥ 1` non-null component types of
pairwise different names and a budget of at least 1024 marks the database initialised and
leaves a registry of `k` entries in which the `i`-th listed type is stored under its name with
archetype index `i`, its structure size and its alignment; the archetype indexes are pairwise
different and below `k`, the length of the archetype bitsets; the stored chunk byte budget is
the argument; and the only entry is the one of the all-zero archetype, which has no chunk. -/
theorem C18_initialize_registry (Types : List UScriptStruct) (ChunkSizeBytes : Int)
    (hk : 1 ≤ Types.length) (hsize : 1024 ≤ ChunkSizeBytes)
    (hnames : (Types.map (fun T => T.Name)).Nodup) :
    ∃ db0 e, ({} : UMantleDB).Initialize (Types.map some) ChunkSizeBytes = .ok db0 ∧
      db0.bIsInitialized = true ∧
      db0.MasterRecord.ComponentInfoMap.length = Types.length ∧
      (∀ i T, Types[i]? = some T →
        db0.MasterRecord.ComponentInfoMap.Find T.Name =
          some { Name := T.Name, ArchetypeIndex := i, StructSize := T.StructureSize,
                 StructAlignment := T.MinAlignment }) ∧
      (∀ p ∈ db0.MasterRecord.ComponentInfoMap, ∀ q ∈ db0.MasterRecord.ComponentInfoMap,
        p.2.ArchetypeIndex = q.2.ArchetypeIndex → p = q) ∧
      (∀ p ∈ db0.MasterRecord.ComponentInfoMap,
        p.2.ArchetypeIndex < (ZeroBits Types.length).length) ∧
      db0.MasterRecord.ChunkComponentBlobSize = ChunkSizeBytes ∧
      db0.EntriesByArchetype = [(ZeroBits Types.length, e)] ∧
      db0.ActiveArchetypes = [ZeroBits Types.length] ∧
      e.Archetype = ZeroBits Types.length ∧ e.Chunks = [] ∧ e.AllChunkIds = [] := by
  have hfm : (Types.map some).filterMap id = Types := by
    rw [List.filterMap_map]
    simp
  have hnames1 : (((Types.map some).filterMap id).map (fun T => T.Name)).Nodup := by
    rw [hfm]; exact hnames
  obtain ⟨db0, h1, h2, h3, _, h5⟩ :=
    Initialize_fresh (Types.map some) ChunkSizeBytes (show kMinChunkSize ≤ ChunkSizeBytes from hsize)
      hnames1
  rw [hfm] at h2
  have hlen : db0.MasterRecord.ComponentInfoMap.length = Types.length := by
    rw [h2, RegistryOf_length]
  have hinit : db0.bIsInitialized = true := by
    have hpos : ¬ (UMantleDB.RegisterComponentTypes (Types.map some) 0 []).length ≤ 0 := by
      have := RegisterComponentTypes_length_pos (Types.map some) 0 [] (Or.inr (by
        cases Types with
        | nil => simp at hk
        | cons T rest => exact ⟨T, by simp⟩))
      omega
    unfold UMantleDB.Initialize at h1
    simp only [Bool.false_eq_true, if_false] at h1
    rw [if_neg (show ¬ ChunkSizeBytes < kMinChunkSize from not_lt.2 hsize)] at h1
    rw [if_neg hpos] at h1
    injection h1 with h1
    rw [← h1]
  have hok := RegistryOk_RegistryOf Types hnames
  rcases h5 with ⟨h5, _, _⟩ | ⟨h5, h6, _⟩
  · exfalso
    unfold UMantleDB.Initialize at h1
    simp only [Bool.false_eq_true, if_false] at h1
    rw [if_neg (show ¬ ChunkSizeBytes < kMinChunkSize from not_lt.2 hsize)] at h1
    have hpos : ¬ (UMantleDB.RegisterComponentTypes (Types.map some) 0 []).length ≤ 0 := by
      have := RegisterComponentTypes_length_pos (Types.map some) 0 [] (Or.inr (by
        cases Types with
        | nil => simp at hk
        | cons T rest => exact ⟨T, by simp⟩))
      omega
    rw [if_neg hpos] at h1
    injection h1 with h1
    rw [← h1] at h5
    revert h5
    unfold UMantleDB.GetOrCreateEntry
    simp [TMap.Find, TMap.Add, TMap.Contains]
  · rw [hlen] at h5 h6
    refine ⟨db0, _, h1, hinit, hlen, ?_, ?_, ?_, h3, h5, h6, rfl, rfl, rfl⟩
    · intro i T hT
      rw [h2, RegistryOf_Find Types 0 i T hnames hT, Nat.zero_add]
    · rw [h2]; exact hok.index_inj
    · rw [h2, ZeroBits_length]
      intro p hp
      have := hok.index_lt p hp
      rwa [RegistryOf_length] at this

theorem C18_initialize_registry_witness :
    ∃ db0 e, ({} : UMantleDB).Initialize
        ([⟨"Position", 12, 4⟩, ⟨"Velocity", 12, 4⟩].map some) 1024 = .ok db0 ∧
      db0.bIsInitialized = true ∧
      db0.MasterRecord.ComponentInfoMap.length =
        [(⟨"Position", 12, 4⟩ : UScriptStruct), ⟨"Velocity", 12, 4⟩].length ∧
      (∀ i T, [(⟨"Position", 12, 4⟩ : UScriptStruct), ⟨"Velocity", 12, 4⟩][i]? = some T →
        db0.MasterRecord.ComponentInfoMap.Find T.Name =
          some { Name := T.Name, ArchetypeIndex := i, StructSize := T.StructureSize,
                 StructAlignment := T.MinAlignment }) ∧
      (∀ p ∈ db0.MasterRecord.ComponentInfoMap, ∀ q ∈ db0.MasterRecord.ComponentInfoMap,
        p.2.ArchetypeIndex = q.2.ArchetypeIndex → p = q) ∧
      (∀ p ∈ db0.MasterRecord.ComponentInfoMap,
        p.2.ArchetypeIndex <
          (ZeroBits [(⟨"Position", 12, 4⟩ : UScriptStruct), ⟨"Velocity", 12, 4⟩].length).length) ∧
      db0.MasterRecord.ChunkComponentBlobSize = 1024 ∧
      db0.EntriesByArchetype =
        [(ZeroBits [(⟨"Position", 12, 4⟩ : UScriptStruct), ⟨"Velocity", 12, 4⟩].length, e)] ∧
      db0.ActiveArchetypes =
        [ZeroBits [(⟨"Position", 12, 4⟩ : UScriptStruct), ⟨"Velocity", 12, 4⟩].length] ∧
      e.Archetype = ZeroBits [(⟨"Position", 12, 4⟩ : UScriptStruct), ⟨"Velocity", 12, 4⟩].length ∧
      e.Chunks = [] ∧ e.AllChunkIds = [] :=
  C18_initialize_registry [⟨"Position", 12, 4⟩, ⟨"Velocity", 12, 4⟩] 1024 (by decide)
    (by decide) (by decide)

/-- C18 (counterexample): `Initialize` with the same component type listed twice leaves one
registry entry whose archetype index 1 is not below the length 1 of the archetype bitsets, and
no listed type has the archetype index 0. -/
theorem C18_repeated_type_index_out_of_range :
    ∃ db0, ({} : UMantleDB).Initialize [some ⟨"Position", 12, 4⟩, some ⟨"Position", 12, 4⟩] 1024 =
        .ok db0 ∧
      db0.MasterRecord.ComponentInfoMap = [("Position", ⟨"Position", 1, 12, 4⟩)] ∧
      db0.EntriesByArchetype.map (fun p => p.1) = [[false]] :=
  ⟨_, rfl, rfl, rfl⟩

/-! ## `UpdateEntities`: the batches it rejects -/

theorem default_iterator_invalid (mr : FMantleDBMasterRecord) :
    ({} : FMantleIterator).IsValid mr = false ∧ (({} : FMantleIterator).Next mr).1 = false ∧
      (({} : FMantleIterator).Next mr).2 = {} := by
  refine ⟨rfl, rfl, rfl⟩

/-- Once `OldArchetype` is set, a live entity of another archetype later in the list makes the
loop reject the batch. -/
theorem CollectValidEntities_reject (mr : FMantleDBMasterRecord)
    (hlen : ∀ Id E, mr.EntitiesById.Find Id = some E → E.Archetype.length ≠ 0) :
    ∀ (ids : List FGuid) (Old : TBitArray) (Valid : List FGuid), Old.length ≠ 0 →
      (∃ id ∈ ids, ∃ E, mr.EntitiesById.Find id = some E ∧ E.Archetype ≠ Old) →
      UMantleDB.CollectValidEntities mr ids Old Valid = none
  | [], _, _, _, h => by
    obtain ⟨id, hid, _⟩ := h
    cases hid
  | id0 :: rest, Old, Valid, hOld, h => by
    rw [UMantleDB.CollectValidEntities]
    cases h0 : mr.EntitiesById.Find id0 with
    | none =>
      simp only
      refine CollectValidEntities_reject mr hlen rest Old Valid hOld ?_
      obtain ⟨id, hid, E, hE, hne⟩ := h
      rcases List.mem_cons.1 hid with rfl | hid
      · rw [h0] at hE; cases hE
      · exact ⟨id, hid, E, hE, hne⟩
    | some E0 =>
      simp only
      rw [if_neg (hlen id0 E0 h0), if_neg hOld]
      by_cases hE0 : E0.Archetype ≠ Old
      · rw [if_pos hE0]
      · rw [if_neg hE0]
        refine CollectValidEntities_reject mr hlen rest Old _ hOld ?_
        obtain ⟨id, hid, E, hE, hne⟩ := h
        rcases List.mem_cons.1 hid with rfl | hid
        · rw [h0] at hE
          injection hE with hE
          exact absurd (hE ▸ not_not.1 hE0) hne
        · exact ⟨id, hid, E, hE, hne⟩

theorem CollectValidEntities_mixed (mr : FMantleDBMasterRecord)
    (hlen : ∀ Id E, mr.EntitiesById.Find Id = some E → E.Archetype.length ≠ 0) :
    ∀ (ids : List FGuid) (Valid : List FGuid),
      (∃ id1 ∈ ids, ∃ id2 ∈ ids, ∃ E1 E2, mr.EntitiesById.Find id1 = some E1 ∧
        mr.EntitiesById.Find id2 = some E2 ∧ E1.Archetype ≠ E2.Archetype) →
      UMantleDB.CollectValidEntities mr ids [] Valid = none
  | [], _, h => by
    obtain ⟨id, hid, _⟩ := h
    cases hid
  | id0 :: rest, Valid, h => by
    obtain ⟨id1, hid1, id2, hid2, E1, E2, hE1, hE2, hne⟩ := h
    rw [UMantleDB.CollectValidEntities]
    cases h0 : mr.EntitiesById.Find id0 with
    | none =>
      simp only
      refine CollectValidEntities_mixed mr hlen rest Valid ⟨id1, ?_, id2, ?_, E1, E2, hE1, hE2, hne⟩
      · rcases List.mem_cons.1 hid1 with rfl | hid
        · rw [h0] at hE1; cases hE1
        · exact hid
      · rcases List.mem_cons.1 hid2 with rfl | hid
        · rw [h0] at hE2; cases hE2
        · exact hid
    | some E0 =>
      simp only
      rw [if_neg (hlen id0 E0 h0), if_pos (show ([] : TBitArray).length = 0 from rfl)]
      refine CollectValidEntities_reject mr hlen rest E0.Archetype _ (hlen id0 E0 h0) ?_
      by_cases h1 : E1.Archetype = E0.Archetype
      · have h2 : E2.Archetype ≠ E0.Archetype := fun e => hne (h1.trans e.symm)
        refine ⟨id2, ?_, E2, hE2, h2⟩
        rcases List.mem_cons.1 hid2 with rfl | hid
        · rw [h0] at hE2
          injection hE2 with hE2
          exact absurd (hE2 ▸ rfl) h2
        · exact hid
      · refine ⟨id1, ?_, E1, hE1, h1⟩
        rcases List.mem_cons.1 hid1 with rfl | hid
        · rw [h0] at hE1
          injection hE1 with hE1
          exact absurd (hE1 ▸ rfl) h1
        · exact hid

/-- When every live entity of the list has the archetype `A`, the loop accepts the batch with
`OldArchetype = A`, or it finds no valid entity. -/
theorem CollectValidEntities_uniform (mr : FMantleDBMasterRecord) (A : TBitArray)
    :
    ∀ (ids : List FGuid) (Old : TBitArray) (Valid : List FGuid),
      (∀ id ∈ ids, ∀ E, mr.EntitiesById.Find id = some E → E.Archetype = A) →
      (Old.length = 0 ∨ Old = A) →
      ∃ Old1 Valid1, UMantleDB.CollectValidEntities mr ids Old Valid = some (Old1, Valid1) ∧
        (Old1 = A ∨ (Old1 = Old ∧ Valid1 = Valid))
  | [], Old, Valid, _, _ => ⟨Old, Valid, rfl, Or.inr ⟨rfl, rfl⟩⟩
  | id0 :: rest, Old, Valid, hA, hOld => by
    have hrest : ∀ id ∈ rest, ∀ E, mr.EntitiesById.Find id = some E → E.Archetype = A :=
      fun id hid => hA id (List.mem_cons_of_mem _ hid)
    rw [UMantleDB.CollectValidEntities]
    cases h0 : mr.EntitiesById.Find id0 with
    | none => exact CollectValidEntities_uniform mr A rest Old Valid hrest hOld
    | some E0 =>
      simp only
      have hE0 : E0.Archetype = A := hA id0 (List.mem_cons_self _ _) E0 h0
      by_cases hz : E0.Archetype.length = 0
      · rw [if_pos hz]
        exact CollectValidEntities_uniform mr A rest Old Valid hrest hOld
      · rw [if_neg hz]
        by_cases hO : Old.length = 0
        · rw [if_pos hO, hE0]
          obtain ⟨Old1, Valid1, h1, h2⟩ :=
            CollectValidEntities_uniform mr A rest A (Valid ++ [id0]) hrest (Or.inr rfl)
          refine ⟨Old1, Valid1, h1, Or.inl ?_⟩
          rcases h2 with h2 | ⟨h2, _⟩
          · exact h2
          · exact h2
        · rw [if_neg hO]
          have hOA : Old = A := hOld.resolve_left hO
          rw [if_neg (by rw [hE0, hOA]; exact not_not.2 rfl)]
          obtain ⟨Old1, Valid1, h1, h2⟩ :=
            CollectValidEntities_uniform mr A rest Old (Valid ++ [id0]) hrest hOld
          refine ⟨Old1, Valid1, h1, Or.inl ?_⟩
          rcases h2 with h2 | ⟨h2, _⟩
          · exact h2
          · exact h2.trans hOA

theorem TwoTypeDB_records :
    TwoTypeDB.MasterRecord.EntitiesById =
      [(2, { Id := 2, Archetype := [true, false], ChunkId := 1, Index := 0 }),
        (4, { Id := 4, Archetype := [true, true], ChunkId := 3, Index := 0 })] := by
  decide

theorem TwoTypeDB_archetypes_nonempty :
    ∀ Id E, TwoTypeDB.MasterRecord.EntitiesById.Find Id = some E → E.Archetype.length ≠ 0 := by
  intro Id E h
  rw [TwoTypeDB_records] at h
  simp only [TMap.Find] at h
  split at h
  · injection h with h; subst h; decide
  · split at h
    · injection h with h; subst h; decide
    · cases h

/-- C15: in a database whose entity records all carry a non-empty archetype bitset, when the
id list of `UpdateEntities` holds two live entities of different archetypes the call returns
the database unchanged together with an iterator that is not valid and whose `Next` is
false: no entity of the batch is migrated. -/
theorem C15_mixed_batch_rejected (fuel : Nat) (db : UMantleDB) (EntityIds : List FGuid)
    (ComponentsToAdd : List FInstancedStruct) (ComponentsToRemove : List (Option FString))
    (id1 id2 : FGuid) (E1 E2 : FMantleEntity)
    (hlen : ∀ Id E, db.MasterRecord.EntitiesById.Find Id = some E → E.Archetype.length ≠ 0)
    (h1 : id1 ∈ EntityIds) (h2 : id2 ∈ EntityIds)
    (hE1 : db.MasterRecord.EntitiesById.Find id1 = some E1)
    (hE2 : db.MasterRecord.EntitiesById.Find id2 = some E2)
    (hne : E1.Archetype ≠ E2.Archetype) :
    ∃ It, db.UpdateEntities fuel EntityIds ComponentsToAdd ComponentsToRemove = .ok (db, It) ∧
      It.IsValid db.MasterRecord = false ∧ (It.Next db.MasterRecord).1 = false := by
  refine ⟨{}, ?_, rfl, rfl⟩
  unfold UMantleDB.UpdateEntities
  rw [if_neg (by
    intro h
    rw [List.length_eq_zero] at h
    rw [h] at h1
    cases h1)]
  rw [CollectValidEntities_mixed db.MasterRecord hlen EntityIds []
    ⟨id1, h1, id2, h2, E1, E2, hE1, hE2, hne⟩]

theorem C15_mixed_batch_rejected_witness :
    ∃ It, TwoTypeDB.UpdateEntities 5 [2, 4] [⟨"Velocity", 30⟩] [] = .ok (TwoTypeDB, It) ∧
      It.IsValid TwoTypeDB.MasterRecord = false ∧ (It.Next TwoTypeDB.MasterRecord).1 = false :=
  C15_mixed_batch_rejected 5 TwoTypeDB [2, 4] [⟨"Velocity", 30⟩] [] 2 4
    { Id := 2, Archetype := [true, false], ChunkId := 1, Index := 0 }
    { Id := 4, Archetype := [true, true], ChunkId := 3, Index := 0 }
    TwoTypeDB_archetypes_nonempty (by decide) (by decide)
    (by rw [TwoTypeDB_records]; rfl) (by rw [TwoTypeDB_records]; rfl) (by decide)

/-- C16: when every live entity of the id list has the archetype `A`, and setting in `A` the
bits of the types of `ComponentsToAdd` and then clearing the bits of the types of
`ComponentsToRemove` gives `A` again, `UpdateEntities` returns the database unchanged, stored
component values included, together with an iterator that is not valid and whose `Next` is
false. -/
theorem C16_same_archetype_rejected (fuel : Nat) (db : UMantleDB) (EntityIds : List FGuid)
    (ComponentsToAdd : List FInstancedStruct) (ComponentsToRemove : List (Option FString))
    (A : TBitArray)
    (hA : ∀ id ∈ EntityIds, ∀ E, db.MasterRecord.EntitiesById.Find id = some E →
      E.Archetype = A)
    (hsame : db.FillArchetype A (ComponentsToAdd.map (fun p => p.TypeName))
      (ComponentsToRemove.filterMap id) = A) :
    ∃ It, db.UpdateEntities fuel EntityIds ComponentsToAdd ComponentsToRemove = .ok (db, It) ∧
      It.IsValid db.MasterRecord = false ∧ (It.Next db.MasterRecord).1 = false := by
  refine ⟨{}, ?_, rfl, rfl⟩
  unfold UMantleDB.UpdateEntities
  by_cases h0 : EntityIds.length = 0
  · rw [if_pos h0]
  · rw [if_neg h0]
    obtain ⟨Old1, Valid1, h1, h2⟩ :=
      CollectValidEntities_uniform db.MasterRecord A EntityIds [] [] hA (Or.inl rfl)
    rw [h1]
    simp only
    rcases h2 with h2 | ⟨_, h2⟩
    · subst h2
      by_cases hv : Valid1.length = 0
      · rw [if_pos hv]
      · rw [if_neg hv, if_pos hsame]
    · subst h2
      rw [if_pos (show ([] : List FGuid).length = 0 from rfl)]

theorem C16_same_archetype_rejected_witness :
    ∃ It, TwoTypeDB.UpdateEntities 5 [4] [⟨"Velocity", 30⟩] [] = .ok (TwoTypeDB, It) ∧
      It.IsValid TwoTypeDB.MasterRecord = false ∧ (It.Next TwoTypeDB.MasterRecord).1 = false :=
  C16_same_archetype_rejected 5 TwoTypeDB [4] [⟨"Velocity", 30⟩] [] [true, true]
    (by
      intro id hid E hE
      rw [List.mem_singleton] at hid
      subst hid
      rw [TwoTypeDB_records] at hE
      have h : E = { Id := 4, Archetype := [true, true], ChunkId := 3, Index := 0 } := by
        simpa [TMap.Find] using hE.symm
      rw [h])
    (by decide)

/-! ## The traversal of an iterator -/

theorem TraversalPositions_length : ∀ (cs : List Nat),
    (TraversalPositions cs).length = (cs.map (fun c => max c 1)).sum
  | [] => rfl
  | c :: rest => by
    rw [TraversalPositions, List.length_append, List.length_map, List.length_map,
      List.length_range, TraversalPositions_length rest, List.map_cons, List.sum_cons]

theorem TraversalPositions_mem : ∀ (cs : List Nat) (p : Nat × Nat),
    p ∈ TraversalPositions cs → p.1 < cs.length
  | [], p, h => by cases h
  | c :: rest, p, h => by
    rw [TraversalPositions, List.mem_append] at h
    rcases h with h | h
    · obtain ⟨i, _, rfl⟩ := List.mem_map.1 h
      simp
    · obtain ⟨q, hq, rfl⟩ := List.mem_map.1 h
      have := TraversalPositions_mem rest q hq
      simp only [List.length_cons]
      omega

theorem TraversalPositions_head : ∀ (cs : List Nat),
    (TraversalPositions cs).getD 0 (cs.length, 0) = (0, 0)
  | [] => rfl
  | c :: rest => by
    rw [TraversalPositions]
    obtain ⟨m, hm⟩ : ∃ m, max c 1 = m + 1 := ⟨max c 1 - 1, by omega⟩
    rw [hm, List.range_succ_eq_map]
    rfl

theorem getD_map_shift (l : List (Nat × Nat)) (n : Nat) (d : Nat × Nat) :
    (l.map (fun p => (p.1 + 1, p.2))).getD n (d.1 + 1, d.2) =
      (((l.getD n d).1 + 1, (l.getD n d).2) : Nat × Nat) := by
  rw [List.getD_eq_getElem?_getD, List.getD_eq_getElem?_getD, List.getElem?_map]
  cases l[n]? <;> rfl

theorem StepPosition_shift (c : Nat) (rest : List Nat) (p : Nat × Nat) :
    StepPosition (c :: rest) (p.1 + 1, p.2) =
      ((StepPosition rest p).1 + 1, (StepPosition rest p).2) := by
  unfold StepPosition
  simp only [List.length_cons, Nat.add_le_add_iff_right, List.getD_cons_succ]
  split
  · rfl
  · split <;> rfl

/-- The positions of the traversal, continued by the final position past the last entry,
follow each other by `StepPosition`. -/
theorem TraversalPositions_step : ∀ (cs : List Nat) (n : Nat),
    (TraversalPositions cs).getD (n + 1) (cs.length, 0) =
      StepPosition cs ((TraversalPositions cs).getD n (cs.length, 0))
  | [], n => by
    simp [TraversalPositions, StepPosition]
  | c :: rest, n => by
    have hlen : ((List.range (max c 1)).map (fun i => ((0, i) : Nat × Nat))).length = max c 1 := by
      rw [List.length_map, List.length_range]
    have hd : (((c :: rest).length, 0) : Nat × Nat) =
        (((rest.length, 0) : Nat × Nat).1 + 1, ((rest.length, 0) : Nat × Nat).2) := rfl
    rw [TraversalPositions]
    by_cases h1 : n + 1 < max c 1
    · rw [List.getD_append _ _ _ _ (by rw [hlen]; exact h1),
        List.getD_append _ _ _ _ (by rw [hlen]; omega)]
      rw [List.getD_eq_getElem?_getD, List.getD_eq_getElem?_getD, List.getElem?_map,
        List.getElem?_map, List.getElem?_range h1, List.getElem?_range (by omega)]
      simp only [Option.map_some', Option.getD_some]
      unfold StepPosition
      simp only [List.length_cons, List.getD_cons_zero]
      rw [if_neg (by omega), if_pos (by omega)]
    · rw [List.getD_append_right _ _ _ _ (by rw [hlen]; omega), hlen]
      by_cases h2 : n < max c 1
      · have hn : n + 1 = max c 1 := by omega
        rw [List.getD_append _ _ _ _ (by rw [hlen]; exact h2)]
        rw [List.getD_eq_getElem?_getD ((List.range (max c 1)).map _), List.getElem?_map,
          List.getElem?_range h2]
        simp only [Option.map_some', Option.getD_some]
        rw [hn, Nat.sub_self, hd, getD_map_shift, TraversalPositions_head]
        unfold StepPosition
        simp only [List.length_cons, List.getD_cons_zero]
        rw [if_neg (by omega), if_neg (by omega)]
      · rw [List.getD_append_right _ _ _ _ (by rw [hlen]; omega), hlen]
        have hn : n + 1 - max c 1 = (n - max c 1) + 1 := by omega
        rw [hn, hd, getD_map_shift, getD_map_shift, TraversalPositions_step rest (n - max c 1),
          ← StepPosition_shift]

theorem TraversalPositions_getD_fst (cs : List Nat) (n : Nat) :
    ((TraversalPositions cs).getD n (cs.length, 0)).1 < cs.length ↔
      n < (TraversalPositions cs).length := by
  constructor
  · intro h
    by_contra hn
    rw [List.getD_eq_default _ _ (by omega)] at h
    exact Nat.lt_irrefl _ h
  · intro h
    rw [List.getD_eq_getElem _ _ h]
    exact TraversalPositions_mem cs _ (List.getElem_mem h)

theorem NextN_succ (mr : FMantleDBMasterRecord) : ∀ (n : Nat) (it : FMantleIterator),
    it.NextN mr (n + 1) = ((it.NextN mr n).Next mr).2
  | 0, _ => rfl
  | n + 1, it => by
    rw [FMantleIterator.NextN, NextN_succ mr n (it.Next mr).2]
    rfl

/-- One call of `Next` at the position `p` of a valid iterator: the iterator moves to
`StepPosition p`, and the flag tells whether that is a position of the snapshot. -/
theorem Next_at (it : FMantleIterator) (mr : FMantleDBMasterRecord) (p : Nat × Nat)
    (hv : it.IsValid mr = true) :
    FMantleIterator.Next { it with EntryIndex := (p.1 : Int), ChunkIndex := (p.2 : Int) } mr =
      (decide (p.1 < it.LocalCache.MatchingEntries.length ∧
          (StepPosition (it.LocalCache.MatchingEntries.map (fun e => e.NumChunks)) p).1 <
            it.LocalCache.MatchingEntries.length),
        { it with
          EntryIndex :=
            ((StepPosition (it.LocalCache.MatchingEntries.map (fun e => e.NumChunks)) p).1 : Int),
          ChunkIndex :=
            ((StepPosition (it.LocalCache.MatchingEntries.map (fun e => e.NumChunks)) p).2 :
              Int) }) := by
  have hv1 : FMantleIterator.IsValid
      { it with EntryIndex := (p.1 : Int), ChunkIndex := (p.2 : Int) } mr = true :=
    (IsValid_congr it _ mr rfl rfl).trans hv
  have hget : (it.LocalCache.MatchingEntries.map (fun e => e.NumChunks)).getD p.1 0 =
      (it.LocalCache.MatchingEntries.getD p.1 {}).NumChunks := by
    rw [List.getD_eq_getElem?_getD, List.getD_eq_getElem?_getD, List.getElem?_map]
    cases it.LocalCache.MatchingEntries[p.1]? <;> rfl
  unfold FMantleIterator.Next
  rw [hv1]
  simp only [Bool.true_eq_false, if_false]
  unfold StepPosition
  rw [List.length_map, hget]
  by_cases h1 : it.LocalCache.MatchingEntries.length ≤ p.1
  · rw [if_pos (by
      show ((p.1 : Nat) : Int) ≥ ((it.LocalCache.MatchingEntries.length : Nat) : Int)
      omega), if_pos h1]
    simp only [decide_eq_false_iff_not, Prod.mk.injEq, and_true]
    have : decide (p.1 < it.LocalCache.MatchingEntries.length ∧
        p.1 < it.LocalCache.MatchingEntries.length) = false := by
      rw [decide_eq_false_iff_not]; omega
    rw [this]
  · rw [if_neg (by
      show ¬ ((p.1 : Nat) : Int) ≥ ((it.LocalCache.MatchingEntries.length : Nat) : Int)
      omega), if_neg h1]
    have hAt : FMantleIterator.EntryAt
        { it with EntryIndex := (p.1 : Int), ChunkIndex := (p.2 : Int) } (p.1 : Int) =
        it.LocalCache.MatchingEntries.getD p.1 {} := by
      unfold FMantleIterator.EntryAt
      rw [Int.toNat_ofNat]
    simp only [hAt]
    rw [if_pos (show ((p.1 : Nat) : Int) ≥ 0 by omega)]
    by_cases h2 : p.2 + 1 < (it.LocalCache.MatchingEntries.getD p.1 {}).NumChunks
    · rw [if_pos (by omega), if_pos h2]
      simp only [Prod.mk.injEq]
      refine ⟨?_, ?_⟩
      · rw [decide_eq_decide]
        constructor
        · intro h; exact ⟨by omega, by omega⟩
        · intro h; omega
      · simp
    · rw [if_neg (by omega), if_neg h2]
      simp only [Prod.mk.injEq]
      refine ⟨?_, ?_⟩
      · rw [decide_eq_decide]
        constructor
        · intro h; exact ⟨by omega, by omega⟩
        · intro h; omega
      · simp

theorem Next_first (it : FMantleIterator) (mr : FMantleDBMasterRecord)
    (hv : it.IsValid mr = true) (hE : it.EntryIndex = -1) (hC : it.ChunkIndex = 0) :
    it.Next mr =
      (decide (0 < it.LocalCache.MatchingEntries.length),
        { it with EntryIndex := ((0 : Nat) : Int), ChunkIndex := ((0 : Nat) : Int) }) := by
  unfold FMantleIterator.Next
  rw [hv, hE]
  simp only [Bool.true_eq_false, if_false]
  rw [if_neg (by omega), if_neg (by omega)]
  simp only [Prod.mk.injEq]
  refine ⟨?_, ?_⟩
  · rw [decide_eq_decide]
    constructor <;> intro h <;> omega
  · cases it
    simp only at hC
    subst hC
    rfl

/-- The iterator after `n + 1` calls of `Next` from the not-started state stands at the
`n`-th position of the traversal, or past the last entry when there is no such position. -/
theorem NextN_position (it : FMantleIterator) (mr : FMantleDBMasterRecord)
    (hv : it.IsValid mr = true) (hE : it.EntryIndex = -1) (hC : it.ChunkIndex = 0) :
    ∀ n, it.NextN mr (n + 1) =
      { it with
        EntryIndex :=
          (((TraversalPositions (it.LocalCache.MatchingEntries.map (fun e => e.NumChunks))).getD n
            ((it.LocalCache.MatchingEntries.map (fun e => e.NumChunks)).length, 0)).1 : Int),
        ChunkIndex :=
          (((TraversalPositions (it.LocalCache.MatchingEntries.map (fun e => e.NumChunks))).getD n
            ((it.LocalCache.MatchingEntries.map (fun e => e.NumChunks)).length, 0)).2 : Int) }
  | 0 => by
    rw [TraversalPositions_head]
    show (it.Next mr).2 = _
    rw [Next_first it mr hv hE hC]
  | n + 1 => by
    rw [NextN_succ, NextN_position it mr hv hE hC n, TraversalPositions_step]
    exact congrArg Prod.snd (Next_at it mr _ hv)

theorem Next_flag (it : FMantleIterator) (mr : FMantleDBMasterRecord)
    (hv : it.IsValid mr = true) (hE : it.EntryIndex = -1) (hC : it.ChunkIndex = 0) :
    ∀ n, ((it.NextN mr n).Next mr).1 =
      decide (n <
        (TraversalPositions (it.LocalCache.MatchingEntries.map (fun e => e.NumChunks))).length)
  | 0 => by
    show (it.Next mr).1 = _
    rw [Next_first it mr hv hE hC, decide_eq_decide]
    have h := TraversalPositions_getD_fst
      (it.LocalCache.MatchingEntries.map (fun e => e.NumChunks)) 0
    rw [TraversalPositions_head, List.length_map] at h
    exact h
  | n + 1 => by
    rw [NextN_position it mr hv hE hC n]
    have h := congrArg Prod.fst (Next_at it mr
      ((TraversalPositions (it.LocalCache.MatchingEntries.map (fun e => e.NumChunks))).getD n
        ((it.LocalCache.MatchingEntries.map (fun e => e.NumChunks)).length, 0)) hv)
    rw [h, decide_eq_decide, ← TraversalPositions_step]
    have h1 := TraversalPositions_getD_fst
      (it.LocalCache.MatchingEntries.map (fun e => e.NumChunks)) n
    have h2 := TraversalPositions_getD_fst
      (it.LocalCache.MatchingEntries.map (fun e => e.NumChunks)) (n + 1)
    simp only [List.length_map] at h1 h2 ⊢
    constructor
    · intro h3; exact h2.1 h3.2
    · intro h3; exact ⟨h1.2 (by omega), h2.2 h3⟩

/-- C20: for a valid iterator in the not-started state whose snapshot holds entries with
`c_0, c_1, ...` chunks, the traversal has `sum_j max(c_j, 1)` positions; the call number
`n + 1` of `Next` returns true exactly when `n` is below that count, and then the iterator
stands at the `n`-th position of `TraversalPositions` (all chunks of an entry before the next
entry, the first position being `(0, 0)`, one position for an entry without chunks), where
`GetEntities` is the chunk view of that position, empty if the entry has no chunk; every later
call returns false; and `Reset` after any number of calls gives the not-started iterator
again, from which the same calls replay. -/
theorem C20_iterator_traversal (it : FMantleIterator) (mr : FMantleDBMasterRecord)
    (hv : it.IsValid mr = true) (hE : it.EntryIndex = -1) (hC : it.ChunkIndex = 0) :
    (TraversalPositions (it.LocalCache.MatchingEntries.map (fun e => e.NumChunks))).length =
        ((it.LocalCache.MatchingEntries.map (fun e => e.NumChunks)).map
          (fun c => max c 1)).sum ∧
      (∀ n, ((it.NextN mr n).Next mr).1 =
        decide (n <
          (TraversalPositions
            (it.LocalCache.MatchingEntries.map (fun e => e.NumChunks))).length)) ∧
      (∀ n p,
        (TraversalPositions (it.LocalCache.MatchingEntries.map (fun e => e.NumChunks)))[n]? =
          some p →
        (it.NextN mr (n + 1)).EntryIndex = (p.1 : Int) ∧
          (it.NextN mr (n + 1)).ChunkIndex = (p.2 : Int) ∧
          (it.NextN mr (n + 1)).GetEntities mr =
            (it.LocalCache.MatchingEntries.getD p.1 {}).ChunkedEntityIds.getD p.2 []) ∧
      (TraversalPositions
        (it.LocalCache.MatchingEntries.map (fun e => e.NumChunks))).head? =
          (if it.LocalCache.MatchingEntries = [] then none else some (0, 0)) ∧
      (∀ n, (it.NextN mr n).Reset = it) := by
  refine ⟨TraversalPositions_length _, Next_flag it mr hv hE hC, ?_, ?_, ?_⟩
  · intro n p hp
    have hpos := NextN_position it mr hv hE hC n
    rw [List.getD_eq_getElem?_getD, hp] at hpos
    simp only [Option.getD_some] at hpos
    have hmem : p.1 < it.LocalCache.MatchingEntries.length := by
      obtain ⟨hi, he⟩ := List.getElem?_eq_some_iff.1 hp
      have := TraversalPositions_mem _ p (he ▸ List.getElem_mem hi)
      rwa [List.length_map] at this
    rw [hpos]
    refine ⟨rfl, rfl, ?_⟩
    unfold FMantleIterator.GetEntities
    have hv1 : FMantleIterator.IsValid
        { it with EntryIndex := (p.1 : Int), ChunkIndex := (p.2 : Int) } mr = true :=
      (IsValid_congr it _ mr rfl rfl).trans hv
    rw [hv1]
    simp only [Bool.true_eq_false, if_false]
    rw [if_neg (by
      show ¬ (((p.1 : Nat) : Int) < 0 ∨
        ((p.1 : Nat) : Int) ≥ ((it.LocalCache.MatchingEntries.length : Nat) : Int))
      omega)]
    have hAt : FMantleIterator.EntryAt
        { it with EntryIndex := (p.1 : Int), ChunkIndex := (p.2 : Int) } (p.1 : Int) =
        it.LocalCache.MatchingEntries.getD p.1 {} := by
      unfold FMantleIterator.EntryAt
      rw [Int.toNat_ofNat]
    simp only [hAt]
    by_cases h0 : (it.LocalCache.MatchingEntries.getD p.1 {}).ChunkedEntityIds.length = 0
    · rw [if_pos h0, List.getD_eq_default _ _ (by omega)]
    · rw [if_neg h0]
      by_cases h1 : p.2 < (it.LocalCache.MatchingEntries.getD p.1 {}).ChunkedEntityIds.length
      · rw [if_neg (by omega), Int.toNat_ofNat]
      · rw [if_pos (by omega), List.getD_eq_default _ _ (by omega)]
  · cases hM : it.LocalCache.MatchingEntries with
    | nil => rfl
    | cons e rest =>
      rw [if_neg (by simp)]
      have h := TraversalPositions_head ((e :: rest).map (fun e => e.NumChunks))
      have hlen : 0 < (TraversalPositions ((e :: rest).map (fun e => e.NumChunks))).length := by
        rw [TraversalPositions_length]
        simp only [List.map_cons, List.sum_cons]
        omega
      rw [List.getD_eq_getElem _ _ hlen] at h
      rw [List.head?_eq_getElem?, List.getElem?_eq_getElem hlen, h]
  · intro n
    cases n with
    | zero =>
      show it.Reset = it
      cases it
      simp only at hE hC
      subst hE hC
      rfl
    | succ n =>
      rw [NextN_position it mr hv hE hC n]
      cases it
      simp only at hE hC
      subst hE hC
      rfl

theorem C20_iterator_traversal_witness :
    (TraversalPositions
        (TwoTypeQueryAll.2.LocalCache.MatchingEntries.map (fun e => e.NumChunks))).length =
        ((TwoTypeQueryAll.2.LocalCache.MatchingEntries.map (fun e => e.NumChunks)).map
          (fun c => max c 1)).sum ∧
      (∀ n, ((TwoTypeQueryAll.2.NextN TwoTypeQueryAll.1.MasterRecord n).Next
          TwoTypeQueryAll.1.MasterRecord).1 =
        decide (n <
          (TraversalPositions
            (TwoTypeQueryAll.2.LocalCache.MatchingEntries.map (fun e => e.NumChunks))).length)) ∧
      (∀ n p,
        (TraversalPositions
          (TwoTypeQueryAll.2.LocalCache.MatchingEntries.map (fun e => e.NumChunks)))[n]? =
          some p →
        (TwoTypeQueryAll.2.NextN TwoTypeQueryAll.1.MasterRecord (n + 1)).EntryIndex = (p.1 : Int) ∧
          (TwoTypeQueryAll.2.NextN TwoTypeQueryAll.1.MasterRecord (n + 1)).ChunkIndex =
            (p.2 : Int) ∧
          (TwoTypeQueryAll.2.NextN TwoTypeQueryAll.1.MasterRecord (n + 1)).GetEntities
              TwoTypeQueryAll.1.MasterRecord =
            (TwoTypeQueryAll.2.LocalCache.MatchingEntries.getD p.1 {}).ChunkedEntityIds.getD
              p.2 []) ∧
      (TraversalPositions
        (TwoTypeQueryAll.2.LocalCache.MatchingEntries.map (fun e => e.NumChunks))).head? =
          (if TwoTypeQueryAll.2.LocalCache.MatchingEntries = [] then none else some (0, 0)) ∧
      (∀ n, (TwoTypeQueryAll.2.NextN TwoTypeQueryAll.1.MasterRecord n).Reset =
        TwoTypeQueryAll.2) :=
  C20_iterator_traversal TwoTypeQueryAll.2 TwoTypeQueryAll.1.MasterRecord (by decide)
    (by decide) (by decide)

/-! ## What the operations on chunks and entries leave alone -/

theorem CachesKept_refl (mr : FMantleDBMasterRecord) : CachesKept mr mr := ⟨rfl, rfl⟩

theorem CachesKept_trans {mr mr1 mr2 : FMantleDBMasterRecord} (h1 : CachesKept mr mr1)
    (h2 : CachesKept mr1 mr2) : CachesKept mr mr2 :=
  ⟨h2.1.trans h1.1, h2.2.trans h1.2⟩

theorem RecordsFrom_refl (mr : FMantleDBMasterRecord) : RecordsFrom mr mr :=
  fun _ E h => ⟨E, h, rfl, rfl⟩

theorem RecordsFrom_trans {mr mr1 mr2 : FMantleDBMasterRecord} (h1 : RecordsFrom mr mr1)
    (h2 : RecordsFrom mr1 mr2) : RecordsFrom mr mr2 := by
  intro Id E2 h
  obtain ⟨E1, g1, g2, g3⟩ := h2 Id E2 h
  obtain ⟨E, f1, f2, f3⟩ := h1 Id E1 g1
  exact ⟨E, f1, f2.trans g2, f3.trans g3⟩

theorem RecordsKeyed_Add {mr : FMantleDBMasterRecord} (h : RecordsKeyed mr) (k : FGuid)
    (E : FMantleEntity) (hE : E.Id = k) :
    RecordsKeyed { mr with EntitiesById := mr.EntitiesById.Add k E } := by
  intro Id E1 h1
  simp only at h1
  rw [TMap.Find_Add] at h1
  split at h1
  · injection h1 with h1
    subst h1
    rename_i hk
    rw [hE, hk]
  · exact h Id E1 h1

theorem RegisterEntitiesLoop_keyed (Offset : Nat) : ∀ (Count EntityIndex : Nat)
    (c : FMantleDBChunk) (mr : FMantleDBMasterRecord), RecordsKeyed mr →
      RecordsKeyed (FMantleDBChunk.RegisterEntitiesLoop Offset Count EntityIndex c mr).2
  | 0, _, _, _, h => h
  | Count + 1, EntityIndex, c, mr, h => by
    rw [FMantleDBChunk.RegisterEntitiesLoop]
    refine RegisterEntitiesLoop_keyed Offset Count (EntityIndex + 1) _ _ ?_
    exact @RecordsKeyed_Add mr.NewGuid.2 h _ _ rfl

theorem RegisterEntities_keyed (c : FMantleDBChunk) (mr : FMantleDBMasterRecord) (n : Nat)
    (Out : FMantleCachedEntry) (h : RecordsKeyed mr) :
    RecordsKeyed (c.RegisterEntities mr n Out).2.1 := by
  unfold FMantleDBChunk.RegisterEntities
  simp only
  split <;> exact RegisterEntitiesLoop_keyed _ _ _ _ _ h

theorem AddComponentsLoop_Archetype (Old k : Nat) : ∀ (Components : List FInstancedStruct)
    (c : FMantleDBChunk) (Out : FMantleCachedEntry) (c1 : FMantleDBChunk)
    (Out1 : FMantleCachedEntry),
      FMantleDBChunk.AddComponentsLoop Old k Components c Out = .ok (c1, Out1) →
      c1.Archetype = c.Archetype
  | [], c, Out, c1, Out1, h => by
    rw [FMantleDBChunk.AddComponentsLoop] at h
    injection h with h
    rw [← (Prod.mk.inj h).1]
  | p :: rest, c, Out, c1, Out1, h => by
    rw [FMantleDBChunk.AddComponentsLoop] at h
    split at h
    · cases h
    · split at h
      · cases h
      · exact (AddComponentsLoop_Archetype Old k rest _ _ c1 Out1 h).trans rfl

theorem Chunk_AddEntities_frame {c : FMantleDBChunk} {mr : FMantleDBMasterRecord}
    {Components : List FInstancedStruct} {n : Nat} {Out : FMantleCachedEntry} {k : Nat}
    {c1 : FMantleDBChunk} {mr1 : FMantleDBMasterRecord} {Out1 : FMantleCachedEntry}
    (h : c.AddEntities mr Components n Out = .ok (k, c1, mr1, Out1)) :
    c1.Archetype = c.Archetype ∧ CachesKept mr mr1 ∧ (RecordsKeyed mr → RecordsKeyed mr1) := by
  unfold FMantleDBChunk.AddEntities at h
  split at h
  · cases h
    exact ⟨rfl, CachesKept_refl _, id⟩
  · split at h
    · cases h
      obtain ⟨r1, _, _, _, _, r6, r7⟩ := RegisterEntities_spec c mr n Out
      refine ⟨by rw [r1], ⟨r6, r7⟩, ?_⟩
      intro hk
      exact RegisterEntities_keyed _ _ _ _ hk
    · simp only at h
      split at h
      · cases h
      · rename_i c2 Out2 heq
        cases h
        obtain ⟨r1, _, _, _, _, r6, r7⟩ :=
          RegisterEntities_spec c.MaybeAllocateBlob mr
            (min n c.MaybeAllocateBlob.GetRemainingCapacity) Out
        refine ⟨?_, ⟨r6, r7⟩, ?_⟩
        · rw [AddComponentsLoop_Archetype _ _ _ _ _ _ _ heq, r1]
          rfl
        · intro hk
          exact RegisterEntities_keyed _ _ _ _ hk

theorem EntryWf_congr {X : TBitArray} {e e1 : FMantleDBEntry} (h : EntryWf X e)
    (h1 : e1.Archetype = e.Archetype) (h2 : e1.Chunks = e.Chunks) : EntryWf X e1 :=
  ⟨h1.trans h.1, fun Id c hc => h.2 Id c (h2 ▸ hc)⟩

theorem EntryWf_store {X : TBitArray} {e e1 : FMantleDBEntry} (h : EntryWf X e) (Id : FGuid)
    (c : FMantleDBChunk) (hc : c.Archetype = X)
    (h1 : e1.Archetype = e.Archetype) (h2 : e1.Chunks = e.Chunks.Add Id c) : EntryWf X e1 := by
  refine ⟨h1.trans h.1, fun Id1 c1 hc1 => ?_⟩
  rw [h2, TMap.Find_Add] at hc1
  split at hc1
  · injection hc1 with hc1
    rw [← hc1]; exact hc
  · exact h.2 Id1 c1 hc1

theorem FindExistingChunk_mem (Chunks : TMap FGuid FMantleDBChunk) : ∀ (Stack : List FGuid)
    (Top : FGuid) (c : FMantleDBChunk),
      (FMantleDBEntry.FindExistingChunk Chunks Stack).1 = some (Top, c) →
      Chunks.Find Top = some c
  | [], _, _, h => by cases h
  | T :: rest, Top, c, h => by
    rw [FMantleDBEntry.FindExistingChunk] at h
    split at h
    · rename_i c0 hc0
      simp only [Option.some.injEq, Prod.mk.injEq] at h
      rw [← h.1, ← h.2]; exact hc0
    · exact FindExistingChunk_mem Chunks rest Top c h

theorem Chunk_Ctor_Archetype {Id : FGuid} {A : TBitArray} {mr : FMantleDBMasterRecord}
    {c : FMantleDBChunk} (h : FMantleDBChunk.Ctor Id A mr = .ok c) :
    c.Archetype = A ∧ c.EntityIds = [] := by
  unfold FMantleDBChunk.Ctor at h
  simp only at h
  split at h
  · split at h
    · cases h
    · cases h; exact ⟨rfl, rfl⟩
  · cases h; exact ⟨rfl, rfl⟩

theorem GetAvailableChunk_frame {X : TBitArray} {e : FMantleDBEntry}
    {mr : FMantleDBMasterRecord} {Id : FGuid} {c : FMantleDBChunk} {e1 : FMantleDBEntry}
    {mr1 : FMantleDBMasterRecord} (h : e.GetAvailableChunk mr = .ok (Id, c, e1, mr1))
    (hwf : EntryWf X e) :
    EntryWf X e1 ∧ c.Archetype = X ∧ CachesKept mr mr1 ∧
      mr1.EntitiesById = mr.EntitiesById := by
  unfold FMantleDBEntry.GetAvailableChunk at h
  simp only at h
  split at h
  · rename_i Top c0 hfind
    cases h
    have hc := FindExistingChunk_mem _ _ _ _ hfind
    exact ⟨(EntryWf_congr hwf rfl rfl), hwf.2 _ _ hc, CachesKept_refl _, rfl⟩
  · split at h
    · cases h
    · rename_i c0 hctor
      cases h
      have hA : c.Archetype = X := (Chunk_Ctor_Archetype hctor).1.trans hwf.1
      exact ⟨(EntryWf_store hwf _ c hA rfl rfl), hA, ⟨rfl, rfl⟩, rfl⟩

theorem PopIfFull_frame2 (e : FMantleDBEntry) (c : FMantleDBChunk) :
    (e.PopIfFull c).Archetype = e.Archetype ∧ (e.PopIfFull c).Chunks = e.Chunks := by
  unfold FMantleDBEntry.PopIfFull
  split <;> exact ⟨rfl, rfl⟩

theorem Entry_AddEntities_frame (X : TBitArray) (Components : List FInstancedStruct) :
    ∀ (fuel : Nat) (e : FMantleDBEntry) (mr : FMantleDBMasterRecord) (n : Nat)
      (Out : FMantleCachedEntry) (e1 : FMantleDBEntry) (mr1 : FMantleDBMasterRecord)
      (Out1 : FMantleCachedEntry),
      FMantleDBEntry.AddEntities fuel e mr Components n Out = .ok (e1, mr1, Out1) →
      EntryWf X e → RecordsKeyed mr →
      EntryWf X e1 ∧ RecordsKeyed mr1 ∧ CachesKept mr mr1
  | fuel, e, mr, 0, Out, e1, mr1, Out1, h, hwf, hk => by
    cases fuel <;>
    · rw [FMantleDBEntry.AddEntities] at h
      cases h
      exact ⟨hwf, hk, CachesKept_refl _⟩
  | 0, e, mr, n + 1, Out, e1, mr1, Out1, h, _, _ => by
    rw [FMantleDBEntry.AddEntities] at h
    cases h
  | fuel + 1, e, mr, n + 1, Out, e1, mr1, Out1, h, hwf, hk => by
    rw [FMantleDBEntry.AddEntities] at h
    split at h
    · cases h
    · rename_i Id c e2 mr2 hget
      obtain ⟨g1, g2, g3, g4⟩ := GetAvailableChunk_frame hget hwf
      have hk2 : RecordsKeyed mr2 := by
        intro k E hE
        rw [g4] at hE
        exact hk k E hE
      split at h
      · cases h
      · rename_i Added c3 mr3 Out3 hadd
        obtain ⟨a1, a2, a3⟩ := Chunk_AddEntities_frame hadd
        obtain ⟨p1, p2⟩ := PopIfFull_frame2
          { e2 with Chunks := e2.Chunks.Add Id c3 } c3
        have hwf3 : EntryWf X
            (FMantleDBEntry.PopIfFull { e2 with Chunks := e2.Chunks.Add Id c3 } c3) :=
          (EntryWf_store g1 Id c3 (a1.trans g2) p1 p2)
        obtain ⟨r1, r2, r3⟩ := Entry_AddEntities_frame X Components fuel _ _ _ _ _ _ _ h hwf3
          (a3 hk2)
        exact ⟨r1, r2, (CachesKept_trans ((CachesKept_trans g3 a2)) r3)⟩

theorem RemoveEntity_records {c : FMantleDBChunk} {Entry : FMantleDBEntry}
    {mr : FMantleDBMasterRecord} {ToRemove : FMantleEntity} {b : Bool}
    {c1 : FMantleDBChunk} {Entry1 : FMantleDBEntry} {mr1 : FMantleDBMasterRecord}
    (h : c.RemoveEntity Entry mr ToRemove b = .ok (c1, Entry1, mr1)) :
    (RecordsKeyed mr → RecordsKeyed mr1) ∧ RecordsFrom mr mr1 ∧
      (∀ Id E, mr.EntitiesById.Find Id = some E → ∃ E1, mr1.EntitiesById.Find Id = some E1 ∧
        E1.Archetype = E.Archetype ∧ E1.ChunkId = E.ChunkId ∧ E1.Id = E.Id) := by
  unfold FMantleDBChunk.RemoveEntity at h
  split at h
  · cases h
    exact ⟨id, RecordsFrom_refl _, fun Id E hE => ⟨E, hE, rfl, rfl, rfl⟩⟩
  · simp only at h
    split at h
    · split at h
      · cases h
        exact ⟨id, RecordsFrom_refl _, fun Id E hE => ⟨E, hE, rfl, rfl, rfl⟩⟩
      · cases h
        exact ⟨id, RecordsFrom_refl _, fun Id E hE => ⟨E, hE, rfl, rfl, rfl⟩⟩
    · split at h
      · cases h
      · rename_i SwapEntity hswap
        cases h
        refine ⟨?_, ?_, ?_⟩
        · intro hk
          exact RecordsKeyed_Add hk _ _ (hk _ SwapEntity hswap)
        · intro Id E1 hE1
          simp only at hE1
          rw [TMap.Find_Add] at hE1
          split at hE1
          · rename_i hId
            injection hE1 with hE1
            subst hE1
            rw [hId]
            exact ⟨SwapEntity, hswap, rfl, rfl⟩
          · exact ⟨E1, hE1, rfl, rfl⟩
        · intro Id E hE
          simp only
          rw [TMap.Find_Add]
          split
          · rename_i hId
            rw [hId, hswap] at hE
            injection hE with hE
            subst hE
            exact ⟨_, rfl, rfl, rfl, rfl⟩
          · exact ⟨E, hE, rfl, rfl, rfl⟩

theorem CopyOldColumns_Archetype (OldChunk : FMantleDBChunk) (Entity : FMantleEntity)
    (i j : Nat) : ∀ (l : List (FString × FMantleComponentInfo)) (acc acc1 : FMantleDBChunk.TakeAcc),
      FMantleDBChunk.CopyOldColumns OldChunk Entity i j l acc = .ok acc1 →
      acc1.Chunk.Archetype = acc.Chunk.Archetype ∧ acc1.Chunk.EntityIds = acc.Chunk.EntityIds
  | [], acc, acc1, h => by
    rw [FMantleDBChunk.CopyOldColumns] at h
    cases h
    exact ⟨rfl, rfl⟩
  | (T, Info) :: rest, acc, acc1, h => by
    rw [FMantleDBChunk.CopyOldColumns] at h
    split at h
    · exact CopyOldColumns_Archetype OldChunk Entity i j rest acc acc1 h
    · split at h
      · cases h
      · split at h
        · cases h
        · split at h
          · cases h
          · have r := CopyOldColumns_Archetype OldChunk Entity i j rest _ acc1 h
            exact ⟨r.1, r.2⟩

theorem WriteNewColumns_Archetype (i j : Nat) : ∀ (l : List FInstancedStruct)
    (acc acc1 : FMantleDBChunk.TakeAcc),
      FMantleDBChunk.WriteNewColumns i j l acc = .ok acc1 →
      acc1.Chunk.Archetype = acc.Chunk.Archetype ∧ acc1.Chunk.EntityIds = acc.Chunk.EntityIds
  | [], acc, acc1, h => by
    rw [FMantleDBChunk.WriteNewColumns] at h
    cases h
    exact ⟨rfl, rfl⟩
  | p :: rest, acc, acc1, h => by
    rw [FMantleDBChunk.WriteNewColumns] at h
    split at h
    · cases h
    · split at h
      · cases h
      · have r := WriteNewColumns_Archetype i j rest _ acc1 h
        exact ⟨r.1, r.2⟩

theorem TakeEntityData_Archetype {c OldChunk : FMantleDBChunk} {Entity : FMantleEntity}
    {Components : List FInstancedStruct} {Out : FMantleCachedEntry} {j : Nat}
    {c1 : FMantleDBChunk} {Out1 : FMantleCachedEntry}
    (h : c.TakeEntityData OldChunk Entity Components Out j = .ok (c1, Out1)) :
    c1.Archetype = c.Archetype := by
  unfold FMantleDBChunk.TakeEntityData at h
  simp only at h
  split at h
  · cases h
  · rename_i acc1 h1
    split at h
    · cases h
    · rename_i acc2 h2
      split at h
      · cases h
        exact (WriteNewColumns_Archetype _ _ _ _ _ h2).1.trans
          (CopyOldColumns_Archetype _ _ _ _ _ _ _ h1).1
      · cases h

/-- What the loop of `FMantleDBChunk::TakeEntities` keeps: the archetype of the chunk, the
shape of the entry taken from, the keys of the entity index and the caches. -/
theorem Chunk_TakeEntitiesLoop_frame (Y : TBitArray) (Components : List FInstancedStruct)
    (j : Nat) : ∀ (ids : List FGuid) (c : FMantleDBChunk) (TF : FMantleDBEntry)
      (mr : FMantleDBMasterRecord) (Out : FMantleCachedEntry) (s : Nat)
      (c1 : FMantleDBChunk) (TF1 : FMantleDBEntry) (mr1 : FMantleDBMasterRecord)
      (Out1 : FMantleCachedEntry) (s1 : Nat),
      FMantleDBChunk.TakeEntitiesLoop Components j ids c TF mr Out s =
        .ok (c1, TF1, mr1, Out1, s1) →
      EntryWf Y TF → RecordsKeyed mr →
      c1.Archetype = c.Archetype ∧ EntryWf Y TF1 ∧ RecordsKeyed mr1 ∧ CachesKept mr mr1
  | [], c, TF, mr, Out, s, c1, TF1, mr1, Out1, s1, h, hwf, hk => by
    rw [FMantleDBChunk.TakeEntitiesLoop] at h
    cases h
    exact ⟨rfl, hwf, hk, CachesKept_refl _⟩
  | Id :: rest, c, TF, mr, Out, s, c1, TF1, mr1, Out1, s1, h, hwf, hk => by
    rw [FMantleDBChunk.TakeEntitiesLoop] at h
    split at h
    · split at h
      · exact Chunk_TakeEntitiesLoop_frame Y Components j rest c TF mr Out _ _ _ _ _ _ h hwf hk
      · rename_i Entity hE
        split at h
        · exact Chunk_TakeEntitiesLoop_frame Y Components j rest c TF mr Out _ _ _ _ _ _ h hwf
            hk
        · rename_i OldChunk hOld
          split at h
          · cases h
          · rename_i c2 Out2 hdata
            split at h
            · cases h
            · rename_i OldChunk1 TF2 mr2 hrem
              obtain ⟨f1, f2, f3, f4, f5, f6, f7, f8, f9, f10, f11, f12, f13⟩ :=
                RemoveEntity_frame hrem
              obtain ⟨k1, _, _⟩ := RemoveEntity_records hrem
              have hwf2 : EntryWf Y
                  { TF2 with Chunks := TF2.Chunks.Add Entity.ChunkId OldChunk1 } :=
                EntryWf_store hwf Entity.ChunkId OldChunk1 (f2.trans (hwf.2 _ _ hOld)) f6
                  (by rw [f5])
              have hk2 : RecordsKeyed
                  { mr2 with
                    EntitiesById :=
                      mr2.EntitiesById.Add Id
                        { Id := Entity.Id, Archetype := c.Archetype, ChunkId := c.ChunkId,
                          Index := c.EntityIds.length } } :=
                RecordsKeyed_Add (k1 hk) _ _ (hk _ Entity hE)
              obtain ⟨r1, r2, r3, r4⟩ :=
                Chunk_TakeEntitiesLoop_frame Y Components j rest _ _ _ _ _ _ _ _ _ _ h hwf2 hk2
              have hd : c2.Archetype = c.Archetype := TakeEntityData_Archetype hdata
              refine ⟨r1.trans hd, r2, r3, ?_⟩
              exact CachesKept_trans ⟨f11, f12⟩ r4
    · cases h
      exact ⟨rfl, hwf, hk, CachesKept_refl _⟩

theorem TakeBareLoop_frame (Y : TBitArray) : ∀ (ids : List FGuid) (c : FMantleDBChunk)
      (TF : FMantleDBEntry) (mr : FMantleDBMasterRecord) (s : Nat)
      (c1 : FMantleDBChunk) (TF1 : FMantleDBEntry) (mr1 : FMantleDBMasterRecord) (s1 : Nat),
      FMantleDBChunk.TakeBareLoop ids c TF mr s = .ok (c1, TF1, mr1, s1) →
      EntryWf Y TF → RecordsKeyed mr →
      c1.Archetype = c.Archetype ∧ EntryWf Y TF1 ∧ RecordsKeyed mr1 ∧ CachesKept mr mr1
  | [], c, TF, mr, s, c1, TF1, mr1, s1, h, hwf, hk => by
    rw [FMantleDBChunk.TakeBareLoop] at h
    cases h
    exact ⟨rfl, hwf, hk, CachesKept_refl _⟩
  | Id :: rest, c, TF, mr, s, c1, TF1, mr1, s1, h, hwf, hk => by
    rw [FMantleDBChunk.TakeBareLoop] at h
    split at h
    · exact TakeBareLoop_frame Y rest c TF mr _ _ _ _ _ h hwf hk
    · rename_i Entity hE
      split at h
      · exact TakeBareLoop_frame Y rest c TF mr _ _ _ _ _ h hwf hk
      · rename_i OldChunk hOld
        split at h
        · cases h
        · rename_i OldChunk1 TF2 mr2 hrem
          obtain ⟨f1, f2, f3, f4, f5, f6, f7, f8, f9, f10, f11, f12, f13⟩ :=
            RemoveEntity_frame hrem
          obtain ⟨k1, _, _⟩ := RemoveEntity_records hrem
          have hwf2 : EntryWf Y
              { TF2 with Chunks := TF2.Chunks.Add Entity.ChunkId OldChunk1 } :=
            (EntryWf_store hwf Entity.ChunkId OldChunk1 (f2.trans (hwf.2 _ _ hOld)) f6 (by rw [f5]))
          obtain ⟨r1, r2, r3, r4⟩ := TakeBareLoop_frame Y rest _ _ _ _ _ _ _ _ h hwf2 (k1 hk)
          exact ⟨r1, r2, r3, CachesKept_trans ⟨f11, f12⟩ r4⟩

theorem Chunk_TakeEntities_frame {Y : TBitArray} {c : FMantleDBChunk} {ids : List FGuid}
    {TF : FMantleDBEntry} {mr : FMantleDBMasterRecord} {Components : List FInstancedStruct}
    {Out : FMantleCachedEntry} {k : Nat} {c1 : FMantleDBChunk} {TF1 : FMantleDBEntry}
    {mr1 : FMantleDBMasterRecord} {Out1 : FMantleCachedEntry}
    (h : c.TakeEntities ids TF mr Components Out = .ok (k, c1, TF1, mr1, Out1))
    (hwf : EntryWf Y TF) (hk : RecordsKeyed mr) :
    c1.Archetype = c.Archetype ∧ EntryWf Y TF1 ∧ RecordsKeyed mr1 ∧ CachesKept mr mr1 := by
  unfold FMantleDBChunk.TakeEntities at h
  split at h
  · cases h
    exact ⟨rfl, hwf, hk, CachesKept_refl _⟩
  · split at h
    · unfold FMantleDBChunk.TakeBareArchetypeEntities at h
      simp only at h
      split at h
      · cases h
      · rename_i c2 TF2 mr2 s2 hloop
        obtain ⟨r1, r2, r3, r4⟩ := TakeBareLoop_frame Y _ _ _ _ _ _ _ _ _ hloop hwf hk
        split at h <;>
        · cases h
          exact ⟨r1, r2, r3, r4⟩
    · simp only at h
      split at h
      · cases h
      · rename_i c2 TF2 mr2 Out2 s2 hloop
        obtain ⟨r1, r2, r3, r4⟩ :=
          Chunk_TakeEntitiesLoop_frame Y _ _ _ _ _ _ _ _ _ _ _ _ _ hloop hwf hk
        split at h <;>
        · cases h
          exact ⟨r1, r2, r3, r4⟩

theorem Entry_TakeEntitiesLoop_frame (X Y : TBitArray) (EntityIds : List FGuid)
    (Components : List FInstancedStruct) :
    ∀ (fuel n : Nat) (e TF : FMantleDBEntry) (mr : FMantleDBMasterRecord)
      (Out : FMantleCachedEntry) (e1 TF1 : FMantleDBEntry) (mr1 : FMantleDBMasterRecord)
      (Out1 : FMantleCachedEntry),
      FMantleDBEntry.TakeEntitiesLoop EntityIds Components fuel n e TF mr Out =
        .ok (e1, TF1, mr1, Out1) →
      EntryWf X e → EntryWf Y TF → RecordsKeyed mr →
      EntryWf X e1 ∧ EntryWf Y TF1 ∧ RecordsKeyed mr1 ∧ CachesKept mr mr1
  | fuel, 0, e, TF, mr, Out, e1, TF1, mr1, Out1, h, hwf, hwfT, hk => by
    cases fuel <;>
    · rw [FMantleDBEntry.TakeEntitiesLoop] at h
      cases h
      exact ⟨hwf, hwfT, hk, CachesKept_refl _⟩
  | 0, n + 1, e, TF, mr, Out, e1, TF1, mr1, Out1, h, _, _, _ => by
    rw [FMantleDBEntry.TakeEntitiesLoop] at h
    cases h
  | fuel + 1, n + 1, e, TF, mr, Out, e1, TF1, mr1, Out1, h, hwf, hwfT, hk => by
    rw [FMantleDBEntry.TakeEntitiesLoop] at h
    split at h
    · cases h
    · rename_i Id c e2 mr2 hget
      obtain ⟨g1, g2, g3, g4⟩ := GetAvailableChunk_frame hget hwf
      have hk2 : RecordsKeyed mr2 := by
        intro k E hE
        rw [g4] at hE
        exact hk k E hE
      split at h
      · cases h
      · simp only at h
        split at h
        · cases h
        · rename_i Taken c3 TF3 mr3 Out3 htake
          obtain ⟨a1, a2, a3, a4⟩ := Chunk_TakeEntities_frame htake hwfT hk2
          obtain ⟨p1, p2⟩ := PopIfFull_frame2 { e2 with Chunks := e2.Chunks.Add Id c3 } c3
          have hwf3 : EntryWf X
              (FMantleDBEntry.PopIfFull { e2 with Chunks := e2.Chunks.Add Id c3 } c3) :=
            (EntryWf_store g1 Id c3 (a1.trans g2) p1 p2)
          obtain ⟨r1, r2, r3, r4⟩ :=
            Entry_TakeEntitiesLoop_frame X Y EntityIds Components fuel _ _ _ _ _ _ _ _ _ h hwf3
              a2 a3
          exact ⟨r1, r2, r3, (CachesKept_trans ((CachesKept_trans g3 a4)) r4)⟩

/-! ## Refreshing a cached entry, and the rebuild of a query from the entries -/

/-- The loop of `RefreshCachedEntry` reads of the cached entry only the views collected so
far, and writes nothing but views. -/
theorem RefreshChunks_congr (e : FMantleDBEntry) : ∀ (ids : List FGuid)
    (CE CE1 : FMantleCachedEntry), CE1.ChunkedEntityIds = CE.ChunkedEntityIds →
      CE1.ChunkedComponents = CE.ChunkedComponents →
      (UMantleDB.RefreshChunks e ids CE1).2 = (UMantleDB.RefreshChunks e ids CE).2 ∧
        (UMantleDB.RefreshChunks e ids CE1).1.ChunkedEntityIds =
          (UMantleDB.RefreshChunks e ids CE).1.ChunkedEntityIds ∧
        (UMantleDB.RefreshChunks e ids CE1).1.ChunkedComponents =
          (UMantleDB.RefreshChunks e ids CE).1.ChunkedComponents ∧
        (UMantleDB.RefreshChunks e ids CE1).1.Archetype = CE1.Archetype ∧
        (UMantleDB.RefreshChunks e ids CE1).1.MatchingQueries = CE1.MatchingQueries ∧
        (UMantleDB.RefreshChunks e ids CE1).1.bIsValid = CE1.bIsValid
  | [], CE, CE1, h1, h2 => ⟨rfl, h1, h2, rfl, rfl, rfl⟩
  | Id :: rest, CE, CE1, h1, h2 => by
    rw [UMantleDB.RefreshChunks, UMantleDB.RefreshChunks]
    cases hf : e.Chunks.Find Id with
    | none => exact RefreshChunks_congr e rest CE CE1 h1 h2
    | some Chunk =>
      simp only
      by_cases he : Chunk.IsEmpty = true
      · rw [if_pos he, if_pos he]
        exact RefreshChunks_congr e rest CE CE1 h1 h2
      · rw [if_neg he, if_neg he, h1, h2]
        cases hc : UMantleDB.RefreshChunkColumns Chunk e.ComponentTypes CE.ChunkedComponents with
        | none => exact ⟨rfl, rfl, rfl, rfl, rfl, rfl⟩
        | some m =>
          simp only
          exact RefreshChunks_congr e rest _ _ rfl rfl

theorem RefreshCachedEntry_props (db : UMantleDB) (X : TBitArray) (CE : FMantleCachedEntry)
    (hX : CE.Archetype = X) :
    (db.RefreshCachedEntry CE).2 = (db.FreshEntry X).2 ∧
      (db.RefreshCachedEntry CE).1.Data = (db.FreshEntry X).1.Data ∧
      (db.RefreshCachedEntry CE).1.Archetype = X ∧
      (db.RefreshCachedEntry CE).1.MatchingQueries = CE.MatchingQueries ∧
      (db.RefreshCachedEntry CE).1.bIsValid =
        (if (db.FreshEntry X).2 then true else CE.bIsValid) := by
  subst hX
  unfold UMantleDB.FreshEntry UMantleDB.RefreshCachedEntry
  simp only
  cases hf : db.EntriesByArchetype.Find CE.Archetype with
  | none =>
    simp [FMantleCachedEntry.Data]
  | some e =>
    simp only
    obtain ⟨c1, c2, c3, c4, c5, c6⟩ := RefreshChunks_congr e e.AllChunkIds
      { Archetype := CE.Archetype, ChunkedComponents := [], ChunkedEntityIds := [] }
      { CE with ChunkedComponents := [], ChunkedEntityIds := [] } rfl rfl
    have d4 : (UMantleDB.RefreshChunks e e.AllChunkIds
        { Archetype := CE.Archetype, ChunkedComponents := [],
          ChunkedEntityIds := [] }).1.Archetype = CE.Archetype :=
      (RefreshChunks_congr e e.AllChunkIds
        { Archetype := CE.Archetype, ChunkedComponents := [], ChunkedEntityIds := [] }
        { Archetype := CE.Archetype, ChunkedComponents := [], ChunkedEntityIds := [] }
        rfl rfl).2.2.2.1
    simp only at c1 c2 c3 c4 c5 c6
    by_cases hflag : (UMantleDB.RefreshChunks e e.AllChunkIds
        { Archetype := CE.Archetype, ChunkedComponents := [], ChunkedEntityIds := [] }).2 = true
    · simp [hflag, FMantleCachedEntry.Data, c1, c2, c3, c4, c5, d4]
    · have hflag1 := Bool.eq_false_iff.2 hflag
      simp [hflag1, FMantleCachedEntry.Data, c1, c2, c3, c4, c5, c6, d4]

theorem FreshEntry_congr {db db1 : UMantleDB} {X : TBitArray}
    (h : db1.EntriesByArchetype.Find X = db.EntriesByArchetype.Find X) :
    db1.FreshEntry X = db.FreshEntry X := by
  unfold UMantleDB.FreshEntry UMantleDB.RefreshCachedEntry
  simp only
  rw [h]

theorem FreshEntry_Archetype (db : UMantleDB) (X : TBitArray) :
    (db.FreshEntry X).1.Archetype = X :=
  (RefreshCachedEntry_props db X { Archetype := X } rfl).2.2.1

theorem FreshEntry_entry {db : UMantleDB} {X : TBitArray} (h : (db.FreshEntry X).2 = true) :
    ∃ e, db.EntriesByArchetype.Find X = some e := by
  unfold UMantleDB.FreshEntry UMantleDB.RefreshCachedEntry at h
  simp only at h
  cases hf : db.EntriesByArchetype.Find X with
  | none => rw [hf] at h; cases h
  | some e => exact ⟨e, rfl⟩

theorem ScratchLoop_congr {db db1 : UMantleDB} (Q : TBitArray) : ∀ (L : List TBitArray),
    (∀ X ∈ L, BitwiseAND X Q = Q →
      db1.EntriesByArchetype.Find X = db.EntriesByArchetype.Find X) →
    db1.ScratchLoop Q L = db.ScratchLoop Q L
  | [], _ => rfl
  | X :: rest, h => by
    rw [UMantleDB.ScratchLoop, UMantleDB.ScratchLoop,
      ScratchLoop_congr Q rest (fun Y hY => h Y (List.mem_cons_of_mem _ hY))]
    by_cases hm : BitwiseAND X Q ≠ Q
    · rw [if_pos hm, if_pos hm]
    · rw [if_neg hm, if_neg hm, FreshEntry_congr (h X (List.mem_cons_self _ _) (not_not.1 hm))]

theorem ScratchLoop_append (db : UMantleDB) (Q : TBitArray) : ∀ (L L1 : List TBitArray),
    db.ScratchLoop Q (L ++ L1) =
      (db.ScratchLoop Q L).bind (fun l => (db.ScratchLoop Q L1).map (fun l1 => l ++ l1))
  | [], L1 => by
    rw [List.nil_append, UMantleDB.ScratchLoop]
    cases db.ScratchLoop Q L1 <;> rfl
  | X :: rest, L1 => by
    rw [List.cons_append, UMantleDB.ScratchLoop, UMantleDB.ScratchLoop,
      ScratchLoop_append db Q rest L1]
    by_cases hm : BitwiseAND X Q ≠ Q
    · rw [if_pos hm, if_pos hm]
    · rw [if_neg hm, if_neg hm]
      by_cases hf : (db.FreshEntry X).2 = false
      · rw [if_pos hf, if_pos hf]
        rfl
      · rw [if_neg hf, if_neg hf]
        cases db.ScratchLoop Q rest with
        | none => rfl
        | some l =>
          cases db.ScratchLoop Q L1 <;> rfl

theorem RefreshChunks_scan (e : FMantleDBEntry) : ∀ (ids : List FGuid)
    (CE : FMantleCachedEntry), (UMantleDB.RefreshChunks e ids CE).2 = true →
      (UMantleDB.RefreshChunks e ids CE).1.ChunkedEntityIds =
        CE.ChunkedEntityIds ++
          ((ids.filterMap (fun Id => e.Chunks.Find Id)).filter (fun c => !c.IsEmpty)).map
            (fun c => c.EntityIds)
  | [], CE, _ => by simp [UMantleDB.RefreshChunks]
  | Id :: rest, CE, h => by
    rw [UMantleDB.RefreshChunks] at h ⊢
    cases hf : e.Chunks.Find Id with
    | none =>
      rw [hf] at h
      simp only at h ⊢
      rw [RefreshChunks_scan e rest CE h, List.filterMap_cons, hf]
    | some Chunk =>
      rw [hf] at h
      simp only at h ⊢
      rw [List.filterMap_cons, hf]
      simp only
      by_cases he : Chunk.IsEmpty = true
      · rw [if_pos he] at h ⊢
        rw [RefreshChunks_scan e rest CE h, List.filter_cons]
        simp [he]
      · rw [if_neg he] at h ⊢
        cases hc : UMantleDB.RefreshChunkColumns Chunk e.ComponentTypes CE.ChunkedComponents with
        | none => rw [hc] at h; cases h
        | some m =>
          rw [hc] at h
          simp only at h ⊢
          rw [RefreshChunks_scan e rest _ h, List.filter_cons]
          simp [he]

theorem FreshEntry_scan {db : UMantleDB} {X : TBitArray} (h : (db.FreshEntry X).2 = true) :
    (db.FreshEntry X).1.Data.2.1 =
      ((db.EntriesByArchetype.Find X).map FMantleDBEntry.ScanEntityIds).getD [] := by
  unfold UMantleDB.FreshEntry UMantleDB.RefreshCachedEntry at h ⊢
  simp only at h ⊢
  cases hf : db.EntriesByArchetype.Find X with
  | none => rw [hf] at h; cases h
  | some e =>
    rw [hf] at h
    simp only at h ⊢
    split at h
    · rename_i hflag
      rw [if_pos hflag]
      simp only [FMantleCachedEntry.Data, Option.map_some', Option.getD_some]
      rw [RefreshChunks_scan e e.AllChunkIds _ hflag]
      rfl
    · rename_i hflag
      exact absurd h hflag

/-- The rebuild from the entries collects, per matching archetype, the entity-id lists that a
scan of the non-empty chunks of its entry gives. -/
theorem ScratchLoop_scan (db : UMantleDB) (Q : TBitArray) : ∀ (L : List TBitArray)
    (l : List (TBitArray × List (List FGuid) × TMap FString (List (List Payload)))),
    db.ScratchLoop Q L = some l →
    l.map (fun d => (d.1, d.2.1)) =
      (L.filter (fun X => decide (BitwiseAND X Q = Q))).map
        (fun X => (X, ((db.EntriesByArchetype.Find X).map FMantleDBEntry.ScanEntityIds).getD []))
  | [], l, h => by
    rw [UMantleDB.ScratchLoop] at h
    injection h with h
    subst h
    rfl
  | X :: rest, l, h => by
    rw [UMantleDB.ScratchLoop] at h
    by_cases hm : BitwiseAND X Q ≠ Q
    · rw [if_pos hm] at h
      rw [List.filter_cons, if_neg (by simpa using hm)]
      exact ScratchLoop_scan db Q rest l h
    · rw [if_neg hm] at h
      by_cases hf : (db.FreshEntry X).2 = false
      · rw [if_pos hf] at h; cases h
      · rw [if_neg hf] at h
        have hf1 : (db.FreshEntry X).2 = true := by simpa using hf
        cases hr : db.ScratchLoop Q rest with
        | none => rw [hr] at h; cases h
        | some l1 =>
          rw [hr] at h
          injection h with h
          subst h
          rw [List.filter_cons, if_pos (by simpa using hm), List.map_cons, List.map_cons,
            ScratchLoop_scan db Q rest l1 hr, ← FreshEntry_scan hf1]
          have := FreshEntry_Archetype db X
          simp only [FMantleCachedEntry.Data] at this ⊢
          rw [this]

/-! ## The loop of `RunQueryInternal` -/

theorem SameStore_refl (db : UMantleDB) : SameStore db db := ⟨rfl, rfl, rfl, rfl, rfl, rfl, rfl⟩

theorem SameStore_trans {db db1 db2 : UMantleDB} (h1 : SameStore db db1)
    (h2 : SameStore db1 db2) : SameStore db db2 := by
  obtain ⟨a1, a2, a3, a4, a5, a6, a7⟩ := h1
  obtain ⟨b1, b2, b3, b4, b5, b6, b7⟩ := h2
  exact ⟨b1.trans a1, b2.trans a2, b3.trans a3, b4.trans a4, b5.trans a5, b6.trans a6,
    b7.trans a7⟩

theorem MatchingGrows_refl (db : UMantleDB) : MatchingGrows db db :=
  fun _ CE h => ⟨CE, h, fun _ hq => hq⟩

theorem MatchingGrows_trans {db db1 db2 : UMantleDB} (h1 : MatchingGrows db db1)
    (h2 : MatchingGrows db1 db2) : MatchingGrows db db2 := by
  intro X CE h
  obtain ⟨CE1, g1, g2⟩ := h1 X CE h
  obtain ⟨CE2, f1, f2⟩ := h2 X CE1 g1
  exact ⟨CE2, f1, fun q hq => f2 q (g2 q hq)⟩

theorem FindOrAddCachedEntry_Find (mr : FMantleDBMasterRecord) (X Y : TBitArray) :
    (mr.FindOrAddCachedEntry X).CachedEntries.Find Y =
      if Y = X then some ((mr.CachedEntries.Find X).getD { Archetype := X })
      else mr.CachedEntries.Find Y := by
  unfold FMantleDBMasterRecord.FindOrAddCachedEntry
  cases hf : mr.CachedEntries.Find X with
  | none =>
    simp only
    rw [TMap.Find_Add]
    rfl
  | some CE =>
    simp only
    by_cases h : Y = X
    · rw [if_pos h, h, hf]; rfl
    · rw [if_neg h]

theorem FindOrAddCachedEntry_frame (mr : FMantleDBMasterRecord) (X : TBitArray) :
    (mr.FindOrAddCachedEntry X).CachedQueries = mr.CachedQueries ∧
      (mr.FindOrAddCachedEntry X).EntitiesById = mr.EntitiesById ∧
      (mr.FindOrAddCachedEntry X).ComponentInfoMap = mr.ComponentInfoMap ∧
      (mr.FindOrAddCachedEntry X).ChunkComponentBlobSize = mr.ChunkComponentBlobSize ∧
      (mr.FindOrAddCachedEntry X).NextGuid = mr.NextGuid := by
  unfold FMantleDBMasterRecord.FindOrAddCachedEntry
  split <;> exact ⟨rfl, rfl, rfl, rfl, rfl⟩

theorem CachedEntryOf_eq (mr : FMantleDBMasterRecord) (X : TBitArray) :
    (mr.FindOrAddCachedEntry X).CachedEntryOf X =
      (mr.CachedEntries.Find X).getD { Archetype := X } := by
  unfold FMantleDBMasterRecord.CachedEntryOf
  rw [FindOrAddCachedEntry_Find, if_pos rfl]
  rfl

theorem WithCachedEntry_Find (db : UMantleDB) (X Y : TBitArray) (CE : FMantleCachedEntry) :
    (db.WithCachedEntry X CE).MasterRecord.CachedEntries.Find Y =
      if Y = X then some CE else db.MasterRecord.CachedEntries.Find Y := by
  unfold UMantleDB.WithCachedEntry
  simp only
  rw [TMap.Find_Add, FindOrAddCachedEntry_Find]
  by_cases h : Y = X
  · rw [if_pos h, if_pos h]
  · rw [if_neg h, if_neg h, if_neg h]

theorem WithCachedEntry_frame (db : UMantleDB) (X : TBitArray) (CE : FMantleCachedEntry) :
    SameStore db (db.WithCachedEntry X CE) ∧
      (db.WithCachedEntry X CE).MasterRecord.CachedQueries = db.MasterRecord.CachedQueries := by
  obtain ⟨f1, f2, f3, f4, f5⟩ := FindOrAddCachedEntry_frame db.MasterRecord X
  exact ⟨⟨rfl, rfl, rfl, f2, f3, f4, f5⟩, f1⟩

theorem FreshEntry_same {db db1 : UMantleDB} (h : SameStore db db1) (X : TBitArray) :
    db1.FreshEntry X = db.FreshEntry X :=
  FreshEntry_congr (by rw [h.1])

theorem ScratchLoop_same {db db1 : UMantleDB} (h : SameStore db db1) (Q : TBitArray)
    (L : List TBitArray) : db1.ScratchLoop Q L = db.ScratchLoop Q L :=
  ScratchLoop_congr Q L (fun _ _ _ => by rw [h.1])

/-- Storing a cached entry that is coherent with the entries and lists sound queries keeps
the cached entries coherent and sound. -/
theorem WithCachedEntry_inv (db : UMantleDB) (X : TBitArray) (CE CE0 : FMantleCachedEntry)
    (hcoh : EntriesCoherent db) (hsound : BackSound db)
    (h0 : CE0 = (db.MasterRecord.CachedEntries.Find X).getD { Archetype := X })
    (hA : CE.Archetype = X)
    (hv : CE.bIsValid = true → (db.FreshEntry X).2 = true ∧ (db.FreshEntry X).1.Data = CE.Data)
    (hq : ∀ q ∈ CE.MatchingQueries, q ∈ CE0.MatchingQueries ∨ BitwiseAND X q = q)
    (hmono : ∀ q ∈ CE0.MatchingQueries, q ∈ CE.MatchingQueries) :
    EntriesCoherent (db.WithCachedEntry X CE) ∧ BackSound (db.WithCachedEntry X CE) ∧
      MatchingGrows db (db.WithCachedEntry X CE) := by
  have hs := (WithCachedEntry_frame db X CE).1
  refine ⟨?_, ?_, ?_⟩
  · intro Y CE1 h1
    rw [WithCachedEntry_Find] at h1
    rw [FreshEntry_same hs]
    by_cases h : Y = X
    · rw [if_pos h] at h1
      injection h1 with h1
      subst h1
      rw [h]
      exact ⟨hA, hv⟩
    · rw [if_neg h] at h1
      exact hcoh Y CE1 h1
  · intro Y CE1 h1 q hq1
    rw [WithCachedEntry_Find] at h1
    by_cases h : Y = X
    · rw [if_pos h] at h1
      injection h1 with h1
      subst h1
      rw [h]
      rcases hq q hq1 with h2 | h2
      · cases hf : db.MasterRecord.CachedEntries.Find X with
        | none =>
          rw [hf] at h0
          rw [h0] at h2
          cases h2
        | some CE2 =>
          rw [hf] at h0
          rw [h0] at h2
          exact hsound X CE2 hf q h2
      · exact h2
    · rw [if_neg h] at h1
      exact hsound Y CE1 h1 q hq1
  · intro Y CE1 h1
    rw [WithCachedEntry_Find]
    by_cases h : Y = X
    · rw [if_pos h]
      refine ⟨CE, rfl, fun q hq1 => hmono q ?_⟩
      rw [h] at h1
      rw [h0, h1]
      exact hq1
    · rw [if_neg h]
      exact ⟨CE1, h1, fun _ hq1 => hq1⟩

/-- The cached entry the loop uses for an archetype: kept if valid, refreshed if not. In both
cases the flag is that of a refresh from the entry, and on success the data is that of the
refresh. -/
theorem RefreshOrKeep (db : UMantleDB) (X : TBitArray) (CE : FMantleCachedEntry)
    (hX : CE.Archetype = X)
    (hcoh : CE.bIsValid = true →
      (db.FreshEntry X).2 = true ∧ (db.FreshEntry X).1.Data = CE.Data) :
    (if CE.bIsValid then (CE, true) else db.RefreshCachedEntry CE).1.Archetype = X ∧
      (if CE.bIsValid then (CE, true) else db.RefreshCachedEntry CE).1.MatchingQueries =
        CE.MatchingQueries ∧
      (if CE.bIsValid then (CE, true) else db.RefreshCachedEntry CE).2 = (db.FreshEntry X).2 ∧
      ((if CE.bIsValid then (CE, true) else db.RefreshCachedEntry CE).2 = true →
        (if CE.bIsValid then (CE, true) else db.RefreshCachedEntry CE).1.Data =
          (db.FreshEntry X).1.Data) ∧
      ((if CE.bIsValid then (CE, true) else db.RefreshCachedEntry CE).2 = false →
        (if CE.bIsValid then (CE, true) else db.RefreshCachedEntry CE).1.bIsValid = false) := by
  by_cases hv : CE.bIsValid = true
  · rw [if_pos hv]
    obtain ⟨c1, c2⟩ := hcoh hv
    exact ⟨hX, rfl, c1.symm, fun _ => c2.symm, fun h => by cases h⟩
  · rw [if_neg hv]
    obtain ⟨p1, p2, p3, p4, p5⟩ := RefreshCachedEntry_props db X CE hX
    refine ⟨p3, p4, p1, fun _ => p2, fun h => ?_⟩
    rw [p5, ← p1, h]
    simpa using hv

/-- The loop of `RunQueryInternal` over a list of archetypes touches nothing but the cached
entries, which stay coherent and sound and keep the queries they list; it succeeds exactly
when the rebuild from the entries succeeds, and then it has collected the data of that
rebuild and listed the query in the cached entry of every matching archetype. -/
theorem RunQueryLoop_inv (Q : TBitArray) : ∀ (L : List TBitArray) (db : UMantleDB)
    (CQ : FMantleCachedQuery), EntriesCoherent db → BackSound db → CQ.QueryArchetype = Q →
    SameStore db (UMantleDB.RunQueryLoop Q L db CQ).1 ∧
      (UMantleDB.RunQueryLoop Q L db CQ).1.MasterRecord.CachedQueries =
        db.MasterRecord.CachedQueries ∧
      EntriesCoherent (UMantleDB.RunQueryLoop Q L db CQ).1 ∧
      BackSound (UMantleDB.RunQueryLoop Q L db CQ).1 ∧
      MatchingGrows db (UMantleDB.RunQueryLoop Q L db CQ).1 ∧
      (UMantleDB.RunQueryLoop Q L db CQ).2.1.QueryArchetype = CQ.QueryArchetype ∧
      (UMantleDB.RunQueryLoop Q L db CQ).2.1.Version = CQ.Version ∧
      ((UMantleDB.RunQueryLoop Q L db CQ).2.2 = true →
        ∃ l, db.ScratchLoop Q L = some l ∧
          (UMantleDB.RunQueryLoop Q L db CQ).2.1.MatchingEntries.map FMantleCachedEntry.Data =
            CQ.MatchingEntries.map FMantleCachedEntry.Data ++ l ∧
          ∀ X ∈ L, BitwiseAND X Q = Q →
            ∃ CE, (UMantleDB.RunQueryLoop Q L db CQ).1.MasterRecord.CachedEntries.Find X =
                some CE ∧ Q ∈ CE.MatchingQueries) ∧
      ((UMantleDB.RunQueryLoop Q L db CQ).2.2 = false → db.ScratchLoop Q L = none)
  | [], db, CQ, hcoh, hsound, _ => by
    rw [UMantleDB.RunQueryLoop]
    refine ⟨SameStore_refl _, rfl, hcoh, hsound, MatchingGrows_refl _, rfl, rfl, ?_, ?_⟩
    · intro _
      exact ⟨[], rfl, by simp, fun X hX => by cases hX⟩
    · intro h; cases h
  | X :: rest, db, CQ, hcoh, hsound, hCQ => by
    rw [UMantleDB.RunQueryLoop, UMantleDB.ScratchLoop]
    by_cases hm : BitwiseAND X Q ≠ Q
    · rw [if_pos hm, if_pos hm]
      obtain ⟨i1, i2, i3, i4, i5, i6, i7, i8, i9⟩ := RunQueryLoop_inv Q rest db CQ hcoh hsound hCQ
      refine ⟨i1, i2, i3, i4, i5, i6, i7, ?_, i9⟩
      intro h
      obtain ⟨l, l1, l2, l3⟩ := i8 h
      refine ⟨l, l1, l2, fun Y hY hYm => ?_⟩
      rcases List.mem_cons.1 hY with rfl | hY
      · exact absurd hYm hm
      · exact l3 Y hY hYm
    · rw [if_neg hm, if_neg hm]
      have hmatch : BitwiseAND X Q = Q := not_not.1 hm
      simp only
      rw [CachedEntryOf_eq]
      have hCE : ((db.MasterRecord.CachedEntries.Find X).getD { Archetype := X }).Archetype = X ∧
          (((db.MasterRecord.CachedEntries.Find X).getD { Archetype := X }).bIsValid = true →
            (db.FreshEntry X).2 = true ∧
              (db.FreshEntry X).1.Data =
                ((db.MasterRecord.CachedEntries.Find X).getD { Archetype := X }).Data) := by
        cases hf : db.MasterRecord.CachedEntries.Find X with
        | none => exact ⟨rfl, fun h => by cases h⟩
        | some CE0 => exact hcoh X CE0 hf
      obtain ⟨u1, u2, u3, u4, u5⟩ := RefreshOrKeep db X _ hCE.1 hCE.2
      generalize (if ((db.MasterRecord.CachedEntries.Find X).getD { Archetype := X }).bIsValid
        then (((db.MasterRecord.CachedEntries.Find X).getD { Archetype := X }), true)
        else db.RefreshCachedEntry
          ((db.MasterRecord.CachedEntries.Find X).getD { Archetype := X })) = r at u1 u2 u3 u4 u5 ⊢
      by_cases hr : r.2 = false
      · rw [if_pos hr, if_pos (u3 ▸ hr)]
        obtain ⟨w1, w2, w3⟩ := WithCachedEntry_inv db X r.1 _ hcoh hsound rfl u1
          (fun h => by rw [u5 hr] at h; cases h)
          (fun q hq => Or.inl (u2 ▸ hq)) (fun q hq => u2 ▸ hq)
        obtain ⟨s1, s2⟩ := WithCachedEntry_frame db X r.1
        refine ⟨s1, s2, w1, w2, w3, rfl, rfl, ?_, fun _ => rfl⟩
        intro h
        exact absurd h (by simp)
      · rw [if_neg hr, if_neg (u3 ▸ hr)]
        have hr1 : r.2 = true := by simpa using hr
        have hstore : EntriesCoherent
              (db.WithCachedEntry X
                { r.1 with MatchingQueries := TSetAdd r.1.MatchingQueries CQ.QueryArchetype }) ∧
            BackSound
              (db.WithCachedEntry X
                { r.1 with MatchingQueries := TSetAdd r.1.MatchingQueries CQ.QueryArchetype }) ∧
            MatchingGrows db
              (db.WithCachedEntry X
                { r.1 with MatchingQueries := TSetAdd r.1.MatchingQueries CQ.QueryArchetype }) := by
          refine WithCachedEntry_inv db X _ _ hcoh hsound rfl u1 ?_ ?_ ?_
          · intro _
            exact ⟨u3 ▸ hr1, (u4 hr1).symm⟩
          · intro q hq
            rcases (mem_TSetAdd _ _ _).1 hq with h1 | h1
            · exact Or.inl (u2 ▸ h1)
            · right
              rw [h1, hCQ]
              exact hmatch
          · intro q hq
            exact (mem_TSetAdd _ _ _).2 (Or.inl (u2 ▸ hq))
        obtain ⟨w1, w2, w3⟩ := hstore
        obtain ⟨s1, s2⟩ := WithCachedEntry_frame db X
          { r.1 with MatchingQueries := TSetAdd r.1.MatchingQueries CQ.QueryArchetype }
        obtain ⟨i1, i2, i3, i4, i5, i6, i7, i8, i9⟩ := RunQueryLoop_inv Q rest
          (db.WithCachedEntry X
            { r.1 with MatchingQueries := TSetAdd r.1.MatchingQueries CQ.QueryArchetype })
          { CQ with MatchingEntries := CQ.MatchingEntries ++ [r.1] } w1 w2 hCQ
        rw [ScratchLoop_same s1] at i8 i9
        refine ⟨(SameStore_trans s1 i1), i2.trans s2, i3, i4, (MatchingGrows_trans w3 i5), i6, i7, ?_, ?_⟩
        · intro h
          obtain ⟨l, l1, l2, l3⟩ := i8 h
          refine ⟨(db.FreshEntry X).1.Data :: l, by rw [l1]; rfl, ?_, ?_⟩
          · refine l2.trans ?_
            simp only [List.map_append, List.map_cons, List.map_nil, List.append_assoc,
              List.singleton_append]
            rw [u4 hr1]
          · intro Y hY hYm
            rcases List.mem_cons.1 hY with rfl | hY
            · have hfind := WithCachedEntry_Find db Y Y
                { r.1 with MatchingQueries := TSetAdd r.1.MatchingQueries CQ.QueryArchetype }
              rw [if_pos rfl] at hfind
              obtain ⟨CE1, g1, g2⟩ := i5 Y _ hfind
              refine ⟨CE1, g1, g2 Q ?_⟩
              exact (mem_TSetAdd _ _ _).2 (Or.inr hCQ.symm)
            · exact l3 Y hY hYm
        · intro h
          rw [i9 h]
          rfl

/-! ## `RunQueryInternal` keeps the invariant of the cache protocol -/

theorem EntriesCoherent_congr {db db1 : UMantleDB} (h : EntriesCoherent db)
    (he : db1.EntriesByArchetype = db.EntriesByArchetype)
    (hc : db1.MasterRecord.CachedEntries = db.MasterRecord.CachedEntries) :
    EntriesCoherent db1 := by
  intro X CE hf
  rw [hc] at hf
  rw [FreshEntry_congr (show db1.EntriesByArchetype.Find X = db.EntriesByArchetype.Find X by
    rw [he])]
  exact h X CE hf

theorem BackSound_congr {db db1 : UMantleDB} (h : BackSound db)
    (hc : db1.MasterRecord.CachedEntries = db.MasterRecord.CachedEntries) : BackSound db1 := by
  intro X CE hf
  rw [hc] at hf
  exact h X CE hf

theorem Version_Update_ne (v : FMantleDBVersion) :
    v.Update.VersionNumber ≠ v.VersionNumber ∧ v.Update.bIsValid = true := by
  refine ⟨?_, rfl⟩
  show (v.VersionNumber + 1) % 2 ^ 32 ≠ v.VersionNumber
  intro h
  have h1 : (v.VersionNumber + 1) % 2 ^ 32 < 2 ^ 32 := Nat.mod_lt _ (by norm_num)
  by_cases h2 : v.VersionNumber + 1 < 2 ^ 32
  · rw [Nat.mod_eq_of_lt h2] at h
    omega
  · by_cases h3 : v.VersionNumber + 1 = 2 ^ 32
    · rw [h3, Nat.mod_self] at h
      omega
    · omega

theorem RunQueryInternal_cached (db : UMantleDB) (Q : TBitArray) (CQ : FMantleCachedQuery)
    (hf : db.MasterRecord.CachedQueries.Find Q = some CQ) (hv : CQ.Version.bIsValid = true) :
    db.RunQueryInternal Q = (db, { LocalCache := CQ, bHasMasterRecord := true }) := by
  unfold UMantleDB.RunQueryInternal
  simp only [hf, Option.map_some', Option.getD_some, FMantleDBVersion.IsValid, hv, if_true]

theorem RunQueryInternal_rebuild (db : UMantleDB) (Q : TBitArray)
    (hvalid : ¬ ((db.MasterRecord.CachedQueries.Find Q).map
      (fun q => q.Version.IsValid)).getD false = true)
    (CQ0 : FMantleCachedQuery)
    (hCQ0 : CQ0 = ((db.MasterRecord.CachedQueries.Find Q).getD { QueryArchetype := Q }).ClearData)
    (r : UMantleDB × FMantleCachedQuery × Bool)
    (hr : r = UMantleDB.RunQueryLoop Q db.ActiveArchetypes (db.StoreQuery Q CQ0) CQ0) :
    db.RunQueryInternal Q =
      if r.2.2 = false then (r.1.StoreQuery Q r.2.1, {})
      else
        (r.1.StoreQuery Q { r.2.1 with Version := r.2.1.Version.Update },
          { LocalCache := { r.2.1 with Version := r.2.1.Version.Update },
            bHasMasterRecord := true }) := by
  subst hr hCQ0
  unfold UMantleDB.RunQueryInternal
  simp only
  rw [if_neg hvalid]
  rfl

/-- `RunQueryInternal` keeps the invariant and the store; of the cached queries it touches
only the one of its mask, whose version stays as it is when valid, and is otherwise updated
when the rebuild succeeds and left invalid when it fails. The iterator it returns carries a
master record exactly when the rebuild from the entries succeeds, and then it holds the data
of that rebuild and is valid. -/
theorem RunQueryInternal_inv (db : UMantleDB) (Q : TBitArray) (hinv : CacheInv db) :
    CacheInv (db.RunQueryInternal Q).1 ∧ SameStore db (db.RunQueryInternal Q).1 ∧
      MatchingGrows db (db.RunQueryInternal Q).1 ∧
      (∀ Q1, Q1 ≠ Q → (db.RunQueryInternal Q).1.MasterRecord.CachedQueries.Find Q1 =
        db.MasterRecord.CachedQueries.Find Q1) ∧
      (∃ CQ1, (db.RunQueryInternal Q).1.MasterRecord.CachedQueries.Find Q = some CQ1 ∧
        (db.MasterRecord.CachedQueries.Find Q = some CQ1 ∨
          CQ1.Version =
            ((db.MasterRecord.CachedQueries.Find Q).getD { QueryArchetype := Q }).Version.Update ∨
          CQ1.Version.bIsValid = false) ∧
        ((db.RunQueryInternal Q).2.bHasMasterRecord = true →
          (db.RunQueryInternal Q).2.LocalCache = CQ1 ∧ CQ1.Version.bIsValid = true)) ∧
      (db.RunQueryInternal Q).2.EntryIndex = -1 ∧ (db.RunQueryInternal Q).2.ChunkIndex = 0 ∧
      ((db.RunQueryInternal Q).2.bHasMasterRecord = false →
        db.ScratchLoop Q db.ActiveArchetypes = none ∧ (db.RunQueryInternal Q).2 = {}) ∧
      ((db.RunQueryInternal Q).2.bHasMasterRecord = true →
        db.ScratchLoop Q db.ActiveArchetypes =
          some ((db.RunQueryInternal Q).2.LocalCache.MatchingEntries.map
            FMantleCachedEntry.Data)) := by
  by_cases hvalid : ((db.MasterRecord.CachedQueries.Find Q).map
      (fun q => q.Version.IsValid)).getD false = true
  · cases hf : db.MasterRecord.CachedQueries.Find Q with
    | none => rw [hf] at hvalid; cases hvalid
    | some CQ =>
      have hv : CQ.Version.bIsValid = true := by
        rw [hf] at hvalid
        exact hvalid
      rw [RunQueryInternal_cached db Q CQ hf hv]
      refine ⟨hinv, SameStore_refl _, MatchingGrows_refl _, fun _ _ => rfl,
        ⟨CQ, hf, Or.inl rfl, fun _ => ⟨rfl, hv⟩⟩, rfl, rfl, (fun h => by cases h), fun _ => ?_⟩
      exact ((hinv.query_coherent Q CQ hf).2 hv)
  · obtain ⟨CQ0, hCQ⟩ : ∃ CQ0, CQ0 =
        ((db.MasterRecord.CachedQueries.Find Q).getD { QueryArchetype := Q }).ClearData :=
      ⟨_, rfl⟩
    obtain ⟨r, hr⟩ : ∃ r, r =
        UMantleDB.RunQueryLoop Q db.ActiveArchetypes (db.StoreQuery Q CQ0) CQ0 := ⟨_, rfl⟩
    rw [RunQueryInternal_rebuild db Q hvalid CQ0 hCQ r hr]
    have hCQ0 : CQ0.QueryArchetype = Q := by
      rw [hCQ]
      cases hf : db.MasterRecord.CachedQueries.Find Q with
      | none => rfl
      | some CQ => exact (hinv.query_coherent Q CQ hf).1
    have hold : ((db.MasterRecord.CachedQueries.Find Q).getD
        { QueryArchetype := Q }).Version.bIsValid = false := by
      cases hf : db.MasterRecord.CachedQueries.Find Q with
      | none => rfl
      | some CQ =>
        rw [hf] at hvalid
        simpa [FMantleDBVersion.IsValid] using hvalid
    have hver : CQ0.Version =
        ((db.MasterRecord.CachedQueries.Find Q).getD { QueryArchetype := Q }).Version := by
      rw [hCQ]; rfl
    have hME : CQ0.MatchingEntries = [] := by rw [hCQ]; rfl
    have hs1 : SameStore db (db.StoreQuery Q CQ0) := SameStore_refl _
    have hce1 : (db.StoreQuery Q CQ0).MasterRecord.CachedEntries =
        db.MasterRecord.CachedEntries := rfl
    have hcq1 : (db.StoreQuery Q CQ0).MasterRecord.CachedQueries =
        db.MasterRecord.CachedQueries.Add Q CQ0 := rfl
    obtain ⟨i1, i2, i3, i4, i5, i6, i7, i8, i9⟩ :=
      RunQueryLoop_inv Q db.ActiveArchetypes (db.StoreQuery Q CQ0) CQ0
        (EntriesCoherent_congr hinv.entry_coherent hs1.1 hce1)
        (BackSound_congr hinv.back_sound hce1) hCQ0
    rw [ScratchLoop_same hs1, ← hr] at i8 i9
    rw [← hr] at i1 i2 i3 i4 i5 i6 i7
    clear hr
    have hgrow : MatchingGrows db r.1 := by
      intro X CE hX
      exact i5 X CE (hce1 ▸ hX)
    have hstore : SameStore db r.1 := (SameStore_trans hs1 i1)
    have hfind : ∀ (CQ1 : FMantleCachedQuery) (Q1 : TBitArray),
        (r.1.StoreQuery Q CQ1).MasterRecord.CachedQueries.Find Q1 =
          if Q1 = Q then some CQ1 else db.MasterRecord.CachedQueries.Find Q1 := by
      intro CQ1 Q1
      show (r.1.MasterRecord.CachedQueries.Add Q CQ1).Find Q1 = _
      rw [TMap.Find_Add, i2, hcq1, TMap.Find_Add]
      by_cases h : Q1 = Q
      · rw [if_pos h, if_pos h]
      · rw [if_neg h, if_neg h, if_neg h]
    have hstoreQ : ∀ CQ1 : FMantleCachedQuery, SameStore db (r.1.StoreQuery Q CQ1) := fun _ =>
      ⟨hstore.1, hstore.2.1, hstore.2.2.1, hstore.2.2.2.1, hstore.2.2.2.2.1,
        hstore.2.2.2.2.2.1, hstore.2.2.2.2.2.2⟩
    have hgrowQ : ∀ CQ1 : FMantleCachedQuery, MatchingGrows db (r.1.StoreQuery Q CQ1) :=
      fun _ => hgrow
    -- the two possible final databases share everything but the query stored under `Q`
    have hfinal : ∀ CQ1 : FMantleCachedQuery, CQ1.QueryArchetype = Q →
        (CQ1.Version.bIsValid = true →
          db.ScratchLoop Q db.ActiveArchetypes =
              some (CQ1.MatchingEntries.map FMantleCachedEntry.Data) ∧
            ∀ X ∈ db.ActiveArchetypes, BitwiseAND X Q = Q →
              ∃ CE, r.1.MasterRecord.CachedEntries.Find X = some CE ∧ Q ∈ CE.MatchingQueries) →
        CacheInv (r.1.StoreQuery Q CQ1) := by
      intro CQ1 hA hV
      have hsq := hstoreQ CQ1
      refine ⟨?_, ?_, ?_, ?_, ?_, ?_, ?_⟩
      · intro Id E hE
        exact hinv.keyed Id E (hsq.2.2.2.1 ▸ hE)
      · intro X e he
        exact hinv.entry_wf X e (hsq.1 ▸ he)
      · intro X e he
        rw [hsq.2.1]
        exact hinv.entry_active X e (hsq.1 ▸ he)
      · exact EntriesCoherent_congr i3 rfl rfl
      · intro Q1 CQ2 hf
        rw [hfind] at hf
        rw [hsq.2.1, ScratchLoop_same hsq]
        by_cases h : Q1 = Q
        · rw [if_pos h] at hf
          injection hf with hf
          subst hf
          rw [h]
          exact ⟨hA, fun hv => (hV hv).1⟩
        · rw [if_neg h] at hf
          exact hinv.query_coherent Q1 CQ2 hf
      · intro Q1 CQ2 hf hv X hX hXm
        rw [hfind] at hf
        rw [hsq.2.1] at hX
        by_cases h : Q1 = Q
        · rw [if_pos h] at hf
          injection hf with hf
          subst hf
          rw [h] at hXm ⊢
          exact (hV hv).2 X hX hXm
        · rw [if_neg h] at hf
          obtain ⟨CE, c1, c2⟩ := hinv.back_complete Q1 CQ2 hf hv X hX hXm
          obtain ⟨CE1, g1, g2⟩ := hgrow X CE c1
          exact ⟨CE1, g1, g2 Q1 c2⟩
      · exact BackSound_congr i4 rfl
    by_cases hflag : r.2.2 = false
    · rw [if_pos hflag]
      have hinval : r.2.1.Version.bIsValid = false := by rw [i7, hver]; exact hold
      refine ⟨hfinal r.2.1 (i6.trans hCQ0) (fun h => by rw [hinval] at h; cases h),
        hstoreQ _, hgrowQ _, fun Q1 h => by rw [hfind, if_neg h],
        ⟨r.2.1, by rw [hfind, if_pos rfl], Or.inr (Or.inr hinval), (fun h => by cases h)⟩,
        rfl, rfl, fun _ => ⟨i9 hflag, rfl⟩, (fun h => by cases h)⟩
    · rw [if_neg hflag]
      have hflag1 : r.2.2 = true := by simpa using hflag
      obtain ⟨l, l1, l2, l3⟩ := i8 hflag1
      rw [hME] at l2
      simp only [List.map_nil, List.nil_append] at l2
      refine ⟨hfinal { r.2.1 with Version := r.2.1.Version.Update } (i6.trans hCQ0)
          (fun _ => ⟨by rw [l1, ← l2], l3⟩),
        hstoreQ _, hgrowQ _, fun Q1 h => by rw [hfind, if_neg h],
        ⟨{ r.2.1 with Version := r.2.1.Version.Update }, by rw [hfind, if_pos rfl],
          Or.inr (Or.inl (by
            show r.2.1.Version.Update = _
            rw [i7, hver])), fun _ => ⟨rfl, rfl⟩⟩,
        rfl, rfl, (fun h => by cases h), fun _ => ?_⟩
      rw [l1, ← l2]

/-! ## `EntryWasModified` after a change of entries -/

theorem TMap.Find_map_values {K V : Type} [DecidableEq K] (g : K → V → V) :
    ∀ (m : TMap K V) (k : K),
      TMap.Find (m.map (fun p => (p.1, g p.1 p.2))) k = (TMap.Find m k).map (g k)
  | [], _ => rfl
  | (k', v) :: rest, k => by
    rw [List.map_cons, TMap.Find_cons, TMap.Find_cons]
    by_cases h : k' = k
    · rw [if_pos h, if_pos h, h]; rfl
    · rw [if_neg h, if_neg h]
      exact TMap.Find_map_values g rest k

theorem EntryWasModified_queries (db : UMantleDB) (A : TBitArray) (CE : FMantleCachedEntry)
    (hf : db.MasterRecord.CachedEntries.Find A = some CE) (Q : TBitArray) :
    (db.EntryWasModified A).MasterRecord.CachedQueries.Find Q =
      (db.MasterRecord.CachedQueries.Find Q).map (fun CQ =>
        if Q ∈ CE.MatchingQueries then { CQ with Version := CQ.Version.Invalidate } else CQ) := by
  unfold UMantleDB.EntryWasModified
  rw [hf]
  simp only
  have hfun : (fun (p : TBitArray × FMantleCachedQuery) =>
      if p.1 ∈ CE.MatchingQueries then (p.1, { p.2 with Version := p.2.Version.Invalidate })
      else p) =
      (fun p => (p.1, (fun (q : TBitArray) (CQ : FMantleCachedQuery) =>
        if q ∈ CE.MatchingQueries then { CQ with Version := CQ.Version.Invalidate } else CQ)
          p.1 p.2)) := by
    funext p
    by_cases h : p.1 ∈ CE.MatchingQueries
    · simp only [if_pos h]
    · simp only [if_neg h]
  rw [hfun]
  exact TMap.Find_map_values (fun (q : TBitArray) (CQ : FMantleCachedQuery) =>
    if q ∈ CE.MatchingQueries then { CQ with Version := CQ.Version.Invalidate } else CQ) _ Q

theorem EntryWasModified_entries (db : UMantleDB) (A : TBitArray) (CE : FMantleCachedEntry)
    (hf : db.MasterRecord.CachedEntries.Find A = some CE) (X : TBitArray) :
    (db.EntryWasModified A).MasterRecord.CachedEntries.Find X =
      if X = A then some { CE with bIsValid := false }
      else db.MasterRecord.CachedEntries.Find X := by
  unfold UMantleDB.EntryWasModified
  rw [hf]
  simp only
  rw [TMap.Find_Add]

theorem EntryWasModified_none (db : UMantleDB) (A : TBitArray)
    (hf : db.MasterRecord.CachedEntries.Find A = none) : db.EntryWasModified A = db := by
  unfold UMantleDB.EntryWasModified
  rw [hf]

theorem EntryWasModified_same (db : UMantleDB) (A : TBitArray) :
    SameStore db (db.EntryWasModified A) := by
  obtain ⟨f1, f2, f3, f4, f5, f6, f7⟩ := EntryWasModified_frame db A
  exact ⟨f1, f2, f7, f3, f4, f5, f6⟩

theorem Invalidated_refl (db : UMantleDB) : Invalidated [] db db :=
  ⟨SameStore_refl _, fun _ CE h => ⟨CE, h, rfl, rfl, fun hv => ⟨hv, by simp⟩⟩,
    fun _ CQ h => ⟨CQ, h, rfl, rfl, rfl, fun hv => ⟨hv, fun X hX => by cases hX⟩⟩,
    fun _ CE h => ⟨CE, h⟩, fun _ _ => rfl, fun _ CQ h => ⟨CQ, h⟩⟩

theorem Invalidated.single (db : UMantleDB) (A : TBitArray) :
    Invalidated [A] db (db.EntryWasModified A) := by
  cases hf : db.MasterRecord.CachedEntries.Find A with
  | none =>
    rw [EntryWasModified_none db A hf]
    refine ⟨SameStore_refl _, fun X CE h => ⟨CE, h, rfl, rfl, fun hv => ⟨hv, ?_⟩⟩,
      fun _ CQ h => ⟨CQ, h, rfl, rfl, rfl, fun hv => ⟨hv, fun X hX CE hCE => ?_⟩⟩,
      fun _ CE h => ⟨CE, h⟩, fun _ _ => rfl, fun _ CQ h => ⟨CQ, h⟩⟩
    · intro hX
      rw [List.mem_singleton] at hX
      rw [hX, hf] at h
      cases h
    · rw [List.mem_singleton] at hX
      rw [hX, hf] at hCE
      cases hCE
  | some CE0 =>
    refine ⟨EntryWasModified_same db A, ?_, ?_, ?_, ?_, ?_⟩
    · intro X CE1 h
      rw [EntryWasModified_entries db A CE0 hf] at h
      by_cases hX : X = A
      · rw [if_pos hX] at h
        injection h with h
        subst h
        rw [hX]
        exact ⟨CE0, hf, rfl, rfl, fun hv => by cases hv⟩
      · rw [if_neg hX] at h
        exact ⟨CE1, h, rfl, rfl, fun hv => ⟨hv, by simpa using hX⟩⟩
    · intro Q CQ1 h
      rw [EntryWasModified_queries db A CE0 hf] at h
      cases hq : db.MasterRecord.CachedQueries.Find Q with
      | none => rw [hq] at h; cases h
      | some CQ =>
        rw [hq] at h
        simp only [Option.map_some', Option.some.injEq] at h
        refine ⟨CQ, rfl, ?_⟩
        by_cases hm : Q ∈ CE0.MatchingQueries
        · rw [if_pos hm] at h
          subst h
          exact ⟨rfl, rfl, rfl, fun hv => by cases hv⟩
        · rw [if_neg hm] at h
          subst h
          refine ⟨rfl, rfl, rfl, fun hv => ⟨hv, fun X hX CE hCE => ?_⟩⟩
          rw [List.mem_singleton] at hX
          rw [hX, hf] at hCE
          injection hCE with hCE
          rw [← hCE]
          exact hm
    · intro X CE h
      rw [EntryWasModified_entries db A CE0 hf]
      by_cases hX : X = A
      · rw [if_pos hX]; exact ⟨_, rfl⟩
      · rw [if_neg hX]; exact ⟨CE, h⟩
    · intro Q hQ
      rw [EntryWasModified_queries db A CE0 hf]
      have hm : Q ∉ CE0.MatchingQueries := hQ A (List.mem_singleton.2 rfl) CE0 hf
      cases db.MasterRecord.CachedQueries.Find Q with
      | none => rfl
      | some CQ => simp only [Option.map_some', if_neg hm]
    · intro Q CQ hQ
      rw [EntryWasModified_queries db A CE0 hf, hQ]
      exact ⟨_, rfl⟩

theorem Invalidated.comp {L1 L2 : List TBitArray} {db db1 db2 : UMantleDB}
    (h1 : Invalidated L1 db db1) (h2 : Invalidated L2 db1 db2) :
    Invalidated (L1 ++ L2) db db2 := by
  obtain ⟨a1, a2, a3, a4, a5, a6⟩ := h1
  obtain ⟨b1, b2, b3, b4, b5, b6⟩ := h2
  refine ⟨(SameStore_trans a1 b1), ?_, ?_, ?_, ?_, ?_⟩
  · intro X CE2 h
    obtain ⟨CE1, c1, c2, c3, c4⟩ := b2 X CE2 h
    obtain ⟨CE, d1, d2, d3, d4⟩ := a2 X CE1 c1
    refine ⟨CE, d1, c2.trans d2, c3.trans d3, fun hv => ?_⟩
    obtain ⟨e1, e2⟩ := c4 hv
    obtain ⟨e3, e4⟩ := d4 e1
    refine ⟨e3, ?_⟩
    rw [List.mem_append]
    exact fun hh => hh.elim e4 e2
  · intro Q CQ2 h
    obtain ⟨CQ1, c1, c2, c3, c4, c5⟩ := b3 Q CQ2 h
    obtain ⟨CQ, d1, d2, d3, d4, d5⟩ := a3 Q CQ1 c1
    refine ⟨CQ, d1, c2.trans d2, c3.trans d3, c4.trans d4, fun hv => ?_⟩
    obtain ⟨e1, e2⟩ := c5 hv
    obtain ⟨e3, e4⟩ := d5 e1
    refine ⟨e3, fun X hX CE hCE => ?_⟩
    rcases List.mem_append.1 hX with hX | hX
    · exact e4 X hX CE hCE
    · obtain ⟨CE1, g1⟩ := a4 X CE hCE
      obtain ⟨CE0, g2, _, g4, _⟩ := a2 X CE1 g1
      rw [hCE] at g2
      injection g2 with g2
      rw [g2, ← g4]
      exact e2 X hX CE1 g1
  · intro X CE h
    obtain ⟨CE1, g1⟩ := a4 X CE h
    exact b4 X CE1 g1
  · intro Q hQ
    rw [b5 Q, a5 Q]
    · intro X hX CE hCE
      exact hQ X (List.mem_append_left _ hX) CE hCE
    · intro X hX CE1 hCE1
      obtain ⟨CE, g2, _, g4, _⟩ := a2 X CE1 hCE1
      rw [g4]
      exact hQ X (List.mem_append_right _ hX) CE g2
  · intro Q CQ hQ
    obtain ⟨CQ1, g1⟩ := a6 Q CQ hQ
    exact b6 Q CQ1 g1

theorem Invalidated.foldl : ∀ (L : List TBitArray) (db : UMantleDB),
    Invalidated L db (L.foldl UMantleDB.EntryWasModified db)
  | [], db => Invalidated_refl db
  | A :: rest, db => by
    have h := Invalidated.comp (Invalidated.single db A)
      (Invalidated.foldl rest (db.EntryWasModified A))
    exact h

/-- When entries of the archetypes of `L` have been changed, and `EntryWasModified` is then
called for every archetype of `L`, the invariant of the cache protocol holds again. -/
theorem Modified_inv {db db1 db2 : UMantleDB} (L : List TBitArray) (hinv : CacheInv db)
    (hA : db1.ActiveArchetypes = db.ActiveArchetypes)
    (hk : CachesKept db.MasterRecord db1.MasterRecord)
    (hE : ∀ X, X ∉ L → db1.EntriesByArchetype.Find X = db.EntriesByArchetype.Find X)
    (hkey : RecordsKeyed db1.MasterRecord)
    (hwf : ∀ X e, db1.EntriesByArchetype.Find X = some e → EntryWf X e)
    (hact : ∀ X e, db1.EntriesByArchetype.Find X = some e → X ∈ db1.ActiveArchetypes)
    (hinval : Invalidated L db1 db2) : CacheInv db2 := by
  obtain ⟨s, a2, a3, a4, _, _⟩ := hinval
  obtain ⟨k1, k2⟩ := hk
  refine ⟨?_, ?_, ?_, ?_, ?_, ?_, ?_⟩
  · intro Id E h
    exact hkey Id E (s.2.2.2.1 ▸ h)
  · intro X e h
    exact hwf X e (s.1 ▸ h)
  · intro X e h
    rw [s.2.1]
    exact hact X e (s.1 ▸ h)
  · intro X CE2 h
    obtain ⟨CE, c1, c2, c3, c4⟩ := a2 X CE2 h
    rw [k2] at c1
    obtain ⟨e1, e2⟩ := hinv.entry_coherent X CE c1
    have hArch : CE2.Archetype = CE.Archetype := congrArg Prod.fst c2
    refine ⟨hArch.trans e1, fun hv => ?_⟩
    obtain ⟨v1, v2⟩ := c4 hv
    obtain ⟨f1, f2⟩ := e2 v1
    have hfresh : db2.FreshEntry X = db.FreshEntry X :=
      FreshEntry_congr (by rw [s.1]; exact hE X v2)
    rw [hfresh]
    exact ⟨f1, f2.trans c2.symm⟩
  · intro Q CQ2 h
    obtain ⟨CQ, c1, c2, c3, c4, c5⟩ := a3 Q CQ2 h
    rw [k1] at c1
    obtain ⟨e1, e2⟩ := hinv.query_coherent Q CQ c1
    refine ⟨c2.trans e1, fun hv => ?_⟩
    obtain ⟨v1, v2⟩ := c5 hv
    rw [s.2.1, hA, c3, ← e2 v1]
    refine ScratchLoop_congr Q _ (fun X hX hXm => ?_)
    rw [s.1]
    refine hE X (fun hXL => ?_)
    obtain ⟨CE, g1, g2⟩ := hinv.back_complete Q CQ c1 v1 X hX hXm
    exact v2 X hXL CE (k2 ▸ g1) g2
  · intro Q CQ2 h hv X hX hXm
    obtain ⟨CQ, c1, c2, c3, c4, c5⟩ := a3 Q CQ2 h
    rw [k1] at c1
    obtain ⟨v1, v2⟩ := c5 hv
    rw [s.2.1, hA] at hX
    obtain ⟨CE, g1, g2⟩ := hinv.back_complete Q CQ c1 v1 X hX hXm
    obtain ⟨CE2, g3⟩ := a4 X CE (k2 ▸ g1)
    obtain ⟨CE0, g4, _, g6, _⟩ := a2 X CE2 g3
    rw [k2, g1] at g4
    injection g4 with g4
    exact ⟨CE2, g3, by rw [g6, ← g4]; exact g2⟩
  · intro X CE2 h q hq
    obtain ⟨CE, c1, c2, c3, c4⟩ := a2 X CE2 h
    rw [k2] at c1
    exact hinv.back_sound X CE c1 q (c3 ▸ hq)

theorem CacheInv_congr {db db1 : UMantleDB} (hinv : CacheInv db)
    (h1 : db1.EntriesByArchetype = db.EntriesByArchetype)
    (h2 : db1.ActiveArchetypes = db.ActiveArchetypes)
    (h3 : db1.MasterRecord.EntitiesById = db.MasterRecord.EntitiesById)
    (h4 : db1.MasterRecord.CachedQueries = db.MasterRecord.CachedQueries)
    (h5 : db1.MasterRecord.CachedEntries = db.MasterRecord.CachedEntries) : CacheInv db1 := by
  refine ⟨?_, ?_, ?_, ?_, ?_, ?_, ?_⟩
  · intro Id E h
    exact hinv.keyed Id E (h3 ▸ h)
  · intro X e h
    exact hinv.entry_wf X e (h1 ▸ h)
  · intro X e h
    rw [h2]
    exact hinv.entry_active X e (h1 ▸ h)
  · exact EntriesCoherent_congr hinv.entry_coherent h1 h5
  · intro Q CQ h
    rw [h4] at h
    rw [h2, @ScratchLoop_congr db db1 Q _ (fun X _ _ => by rw [h1])]
    exact hinv.query_coherent Q CQ h
  · intro Q CQ h hv X hX hXm
    rw [h4] at h
    rw [h2] at hX
    rw [h5]
    exact hinv.back_complete Q CQ h hv X hX hXm
  · exact BackSound_congr hinv.back_sound h5

theorem CacheInv_new : CacheInv {} := by
  refine ⟨?_, ?_, ?_, ?_, ?_, ?_, ?_⟩
  · intro Id E h; cases h
  · intro X e h; cases h
  · intro X e h; cases h
  · intro X CE h; cases h
  · intro Q CQ h; cases h
  · intro Q CQ h; cases h
  · intro X CE h; cases h

/-! ## `GetOrCreateEntry` keeps the invariant of the cache protocol -/

theorem mem_foldl_TSetAdd {K : Type} [DecidableEq K] : ∀ (l s : List K) (x : K),
    x ∈ l.foldl TSetAdd s ↔ x ∈ s ∨ x ∈ l
  | [], s, x => by simp
  | k :: rest, s, x => by
    rw [List.foldl_cons, mem_foldl_TSetAdd rest, mem_TSetAdd, List.mem_cons]
    constructor
    · rintro ((h | h) | h)
      · exact Or.inl h
      · exact Or.inr (Or.inl h)
      · exact Or.inr (Or.inr h)
    · rintro (h | h | h)
      · exact Or.inl (Or.inl h)
      · exact Or.inl (Or.inr h)
      · exact Or.inr h

theorem GetOrCreateEntry_old (db : UMantleDB) (A : TBitArray) (e : FMantleDBEntry)
    (hf : db.EntriesByArchetype.Find A = some e) : db.GetOrCreateEntry A = (db, e) := by
  unfold UMantleDB.GetOrCreateEntry
  rw [hf]

/-- The database after `GetOrCreateEntry` created the entry of a new archetype. -/
theorem GetOrCreateEntry_new (db : UMantleDB) (A : TBitArray)
    (hf : db.EntriesByArchetype.Find A = none) :
    (db.GetOrCreateEntry A).2 = FMantleDBEntry.Ctor A db.MasterRecord ∧
      (db.GetOrCreateEntry A).1.EntriesByArchetype =
        db.EntriesByArchetype.Add A (FMantleDBEntry.Ctor A db.MasterRecord) ∧
      (db.GetOrCreateEntry A).1.ActiveArchetypes = db.ActiveArchetypes ++ [A] ∧
      (db.GetOrCreateEntry A).1.bIsInitialized = db.bIsInitialized ∧
      (db.GetOrCreateEntry A).1.MasterRecord.EntitiesById = db.MasterRecord.EntitiesById ∧
      (db.GetOrCreateEntry A).1.MasterRecord.ComponentInfoMap =
        db.MasterRecord.ComponentInfoMap ∧
      (db.GetOrCreateEntry A).1.MasterRecord.ChunkComponentBlobSize =
        db.MasterRecord.ChunkComponentBlobSize ∧
      (db.GetOrCreateEntry A).1.MasterRecord.NextGuid = db.MasterRecord.NextGuid ∧
      (∀ Q, (db.GetOrCreateEntry A).1.MasterRecord.CachedQueries.Find Q =
        (db.MasterRecord.CachedQueries.Find Q).map (fun CQ =>
          if BitwiseAND A Q = Q then { CQ with Version := CQ.Version.Invalidate } else CQ)) ∧
      ∃ CE1, (∀ X, (db.GetOrCreateEntry A).1.MasterRecord.CachedEntries.Find X =
          if X = A then some CE1 else db.MasterRecord.CachedEntries.Find X) ∧
        CE1.Archetype = ((db.MasterRecord.CachedEntries.Find A).getD { Archetype := A }).Archetype ∧
        CE1.bIsValid = ((db.MasterRecord.CachedEntries.Find A).getD { Archetype := A }).bIsValid ∧
        ∀ q, q ∈ CE1.MatchingQueries ↔
          q ∈ ((db.MasterRecord.CachedEntries.Find A).getD { Archetype := A }).MatchingQueries ∨
            (BitwiseAND A q = q ∧ ∃ CQ, db.MasterRecord.CachedQueries.Find q = some CQ) := by
  obtain ⟨f1, f2, f3, f4, f5⟩ := FindOrAddCachedEntry_frame db.MasterRecord A
  unfold UMantleDB.GetOrCreateEntry
  rw [hf]
  simp only
  refine ⟨trivial, trivial, trivial, trivial, f2, f3, f4, f5, ?_, ?_⟩
  · intro Q
    rw [f1]
    have hfun : (fun (p : TBitArray × FMantleCachedQuery) =>
        if BitwiseAND A p.1 = p.1 then (p.1, { p.2 with Version := p.2.Version.Invalidate })
        else p) =
        (fun p => (p.1, (fun (q : TBitArray) (CQ : FMantleCachedQuery) =>
          if BitwiseAND A q = q then { CQ with Version := CQ.Version.Invalidate } else CQ)
            p.1 p.2)) := by
      funext p
      by_cases h : BitwiseAND A p.1 = p.1
      · simp only [if_pos h]
      · simp only [if_neg h]
    rw [hfun]
    exact TMap.Find_map_values (fun (q : TBitArray) (CQ : FMantleCachedQuery) =>
      if BitwiseAND A q = q then { CQ with Version := CQ.Version.Invalidate } else CQ) _ Q
  · refine ⟨_, fun X => WithCachedEntry_Find db A X _, ?_, ?_, ?_⟩
    · simp only [CachedEntryOf_eq]
    · simp only [CachedEntryOf_eq]
    · intro q
      simp only [CachedEntryOf_eq]
      rw [mem_foldl_TSetAdd]
      unfold UMantleDB.MatchedQueries
      rw [f1]
      constructor
      · rintro (h | h)
        · exact Or.inl h
        · right
          obtain ⟨p, hp, rfl⟩ := List.mem_map.1 h
          obtain ⟨hp1, hp2⟩ := List.mem_filter.1 hp
          refine ⟨by simpa using hp2, ?_⟩
          cases hq : db.MasterRecord.CachedQueries.Find p.1 with
          | none => exact absurd rfl ((TMap.Find_eq_none_iff _ _).1 hq p hp1)
          | some CQ => exact ⟨CQ, rfl⟩
      · rintro (h | ⟨h1, CQ, h2⟩)
        · exact Or.inl h
        · right
          exact List.mem_map.2 ⟨(q, CQ), List.mem_filter.2 ⟨TMap.Find_mem h2, by simpa using h1⟩,
            rfl⟩

/-- `GetOrCreateEntry` keeps the invariant; the entry it returns is stored under the
archetype; the other entries, the entity index and the registry are as before; and a cached
query is invalidated exactly when the archetype is new and a superset of its mask. -/
theorem GetOrCreateEntry_inv (db : UMantleDB) (A : TBitArray) (hinv : CacheInv db) :
    CacheInv (db.GetOrCreateEntry A).1 ∧
      (db.GetOrCreateEntry A).1.EntriesByArchetype.Find A = some (db.GetOrCreateEntry A).2 ∧
      (∀ X, X ≠ A → (db.GetOrCreateEntry A).1.EntriesByArchetype.Find X =
        db.EntriesByArchetype.Find X) ∧
      (db.GetOrCreateEntry A).1.MasterRecord.EntitiesById = db.MasterRecord.EntitiesById ∧
      (db.GetOrCreateEntry A).1.MasterRecord.ComponentInfoMap =
        db.MasterRecord.ComponentInfoMap ∧
      (db.GetOrCreateEntry A).1.MasterRecord.ChunkComponentBlobSize =
        db.MasterRecord.ChunkComponentBlobSize ∧
      (db.GetOrCreateEntry A).1.MasterRecord.NextGuid = db.MasterRecord.NextGuid ∧
      (db.GetOrCreateEntry A).1.bIsInitialized = db.bIsInitialized ∧
      (∀ Q, (db.GetOrCreateEntry A).1.MasterRecord.CachedQueries.Find Q =
        (db.MasterRecord.CachedQueries.Find Q).map (fun CQ =>
          if db.EntriesByArchetype.Contains A = false ∧ BitwiseAND A Q = Q then
            { CQ with Version := CQ.Version.Invalidate }
          else CQ)) := by
  cases hf : db.EntriesByArchetype.Find A with
  | some e =>
    rw [GetOrCreateEntry_old db A e hf]
    refine ⟨hinv, hf, fun _ _ => rfl, rfl, rfl, rfl, rfl, rfl, fun Q => ?_⟩
    cases db.MasterRecord.CachedQueries.Find Q with
    | none => rfl
    | some CQ =>
      simp only [Option.map_some', Option.some.injEq]
      rw [if_neg (fun h => by
        have h1 := h.1
        rw [TMap.Contains, hf] at h1
        cases h1)]
  | none =>
    obtain ⟨n1, n2, n3, n4, n5, n6, n7, n8, n9, CE1, m1, m2, m3, m4⟩ :=
      GetOrCreateEntry_new db A hf
    have hfindE : ∀ X, (db.GetOrCreateEntry A).1.EntriesByArchetype.Find X =
        if X = A then some (FMantleDBEntry.Ctor A db.MasterRecord)
        else db.EntriesByArchetype.Find X := by
      intro X
      rw [n2, TMap.Find_Add]
    have hCE0 : ((db.MasterRecord.CachedEntries.Find A).getD { Archetype := A }).Archetype = A ∧
        ((db.MasterRecord.CachedEntries.Find A).getD { Archetype := A }).bIsValid = false ∧
        ∀ q ∈ ((db.MasterRecord.CachedEntries.Find A).getD { Archetype := A }).MatchingQueries,
          BitwiseAND A q = q := by
      cases hc : db.MasterRecord.CachedEntries.Find A with
      | none => exact ⟨rfl, rfl, fun q hq => by cases hq⟩
      | some CE =>
        obtain ⟨c1, c2⟩ := hinv.entry_coherent A CE hc
        refine ⟨c1, ?_, hinv.back_sound A CE hc⟩
        cases hv : CE.bIsValid with
        | false => exact hv
        | true =>
          obtain ⟨e, he⟩ := FreshEntry_entry (c2 hv).1
          rw [hf] at he
          cases he
    have hfresh : ∀ X, X ≠ A → (db.GetOrCreateEntry A).1.FreshEntry X = db.FreshEntry X := by
      intro X hX
      exact FreshEntry_congr (by rw [hfindE, if_neg hX])
    have hscratch : ∀ Q, BitwiseAND A Q ≠ Q →
        (db.GetOrCreateEntry A).1.ScratchLoop Q (db.ActiveArchetypes ++ [A]) =
          db.ScratchLoop Q db.ActiveArchetypes := by
      intro Q hQ
      rw [ScratchLoop_append]
      have h1 : (db.GetOrCreateEntry A).1.ScratchLoop Q [A] = some [] := by
        rw [UMantleDB.ScratchLoop, if_pos hQ]
        rfl
      have h2 : (db.GetOrCreateEntry A).1.ScratchLoop Q db.ActiveArchetypes =
          db.ScratchLoop Q db.ActiveArchetypes := by
        refine ScratchLoop_congr Q _ (fun X _ hXm => ?_)
        rw [hfindE, if_neg]
        intro hXA
        rw [hXA] at hXm
        exact hQ hXm
      rw [h1, h2]
      cases db.ScratchLoop Q db.ActiveArchetypes with
      | none => rfl
      | some l => simp
    refine ⟨⟨?_, ?_, ?_, ?_, ?_, ?_, ?_⟩, ?_, ?_, n5, n6, n7, n8, n4, ?_⟩
    · intro Id E h
      exact hinv.keyed Id E (n5 ▸ h)
    · intro X e h
      rw [hfindE] at h
      by_cases hX : X = A
      · rw [if_pos hX] at h
        injection h with h
        subst h
        rw [hX]
        exact ⟨rfl, fun Id c hc => by cases hc⟩
      · rw [if_neg hX] at h
        exact hinv.entry_wf X e h
    · intro X e h
      rw [hfindE] at h
      rw [n3, List.mem_append]
      by_cases hX : X = A
      · right; rw [hX]; exact List.mem_singleton.2 rfl
      · rw [if_neg hX] at h
        exact Or.inl (hinv.entry_active X e h)
    · intro X CE h
      rw [m1] at h
      by_cases hX : X = A
      · rw [if_pos hX] at h
        injection h with h
        subst h
        rw [hX]
        refine ⟨m2.trans hCE0.1, fun hv => ?_⟩
        rw [m3, hCE0.2.1] at hv
        cases hv
      · rw [if_neg hX] at h
        rw [hfresh X hX]
        exact hinv.entry_coherent X CE h
    · intro Q CQ1 h
      rw [n9] at h
      cases hq : db.MasterRecord.CachedQueries.Find Q with
      | none => rw [hq] at h; cases h
      | some CQ =>
        rw [hq] at h
        simp only [Option.map_some', Option.some.injEq] at h
        obtain ⟨q1, q2⟩ := hinv.query_coherent Q CQ hq
        by_cases hm : BitwiseAND A Q = Q
        · rw [if_pos hm] at h
          subst h
          exact ⟨q1, fun hv => by cases hv⟩
        · rw [if_neg hm] at h
          subst h
          refine ⟨q1, fun hv => ?_⟩
          rw [n3, hscratch Q hm]
          exact q2 hv
    · intro Q CQ1 h hv X hX hXm
      rw [n9] at h
      cases hq : db.MasterRecord.CachedQueries.Find Q with
      | none => rw [hq] at h; cases h
      | some CQ =>
        rw [hq] at h
        simp only [Option.map_some', Option.some.injEq] at h
        by_cases hm : BitwiseAND A Q = Q
        · rw [if_pos hm] at h
          subst h
          cases hv
        · rw [if_neg hm] at h
          subst h
          have hXA : X ≠ A := fun e => hm (e ▸ hXm)
          rw [n3, List.mem_append] at hX
          rcases hX with hX | hX
          · rw [m1, if_neg hXA]
            exact hinv.back_complete Q _ hq hv X hX hXm
          · exact absurd (List.mem_singleton.1 hX) hXA
    · intro X CE h q hq
      rw [m1] at h
      by_cases hX : X = A
      · rw [if_pos hX] at h
        injection h with h
        subst h
        rw [hX]
        rcases (m4 q).1 hq with h1 | ⟨h1, _⟩
        · exact hCE0.2.2 q h1
        · exact h1
      · rw [if_neg hX] at h
        exact hinv.back_sound X CE h q hq
    · rw [hfindE, if_pos rfl, n1]
    · intro X hX
      rw [hfindE, if_neg hX]
    · intro Q
      rw [n9]
      cases db.MasterRecord.CachedQueries.Find Q with
      | none => rfl
      | some CQ =>
        simp only [Option.map_some', Option.some.injEq]
        by_cases hm : BitwiseAND A Q = Q
        · rw [if_pos hm, if_pos ⟨by rw [TMap.Contains, hf]; rfl, hm⟩]
        · rw [if_neg hm, if_neg (fun h => hm h.2)]

/-! ## `RemoveEntities` and the cache protocol -/

theorem MasterRecord_RemoveEntity_caches (mr : FMantleDBMasterRecord) (Id : FGuid) :
    CachesKept mr (mr.RemoveEntity Id) := by
  unfold FMantleDBMasterRecord.RemoveEntity
  split <;> exact ⟨rfl, rfl⟩

/-- One executed iteration of the loop of `RemoveEntities`: what it keeps. -/
theorem RemoveEntities_step {db : UMantleDB} {EntityId : FGuid} {Entity : FMantleEntity}
    {Entry : FMantleDBEntry} {Chunk Chunk1 : FMantleDBChunk} {Entry1 : FMantleDBEntry}
    {mr1 : FMantleDBMasterRecord}
    (hE : db.MasterRecord.EntitiesById.Find EntityId = some Entity)
    (he : db.EntriesByArchetype.Find Entity.Archetype = some Entry)
    (hc : Entry.Chunks.Find Entity.ChunkId = some Chunk)
    (hrem : Chunk.RemoveEntity Entry db.MasterRecord Entity false = .ok (Chunk1, Entry1, mr1))
    (hkey : RecordsKeyed db.MasterRecord)
    (hwf : ∀ X e, db.EntriesByArchetype.Find X = some e → EntryWf X e)
    (db1 : UMantleDB)
    (hdb1 : db1 = { db with
      EntriesByArchetype :=
        db.EntriesByArchetype.Add Entity.Archetype
          { Entry1 with Chunks := Entry1.Chunks.Add Entity.ChunkId Chunk1 },
      MasterRecord := mr1.RemoveEntity Entity.Id }) :
    Chunk1.Archetype = Entity.Archetype ∧
      db1.ActiveArchetypes = db.ActiveArchetypes ∧
      CachesKept db.MasterRecord db1.MasterRecord ∧
      RecordsKeyed db1.MasterRecord ∧
      (∀ X e, db1.EntriesByArchetype.Find X = some e → EntryWf X e) ∧
      (∀ X, X ≠ Entity.Archetype →
        db1.EntriesByArchetype.Find X = db.EntriesByArchetype.Find X) ∧
      (∀ X, (db1.EntriesByArchetype.Find X).isSome = (db.EntriesByArchetype.Find X).isSome) ∧
      RecordsFrom db.MasterRecord db1.MasterRecord ∧
      (∀ Id E, Id ≠ EntityId → db.MasterRecord.EntitiesById.Find Id = some E →
        (∃ c, db.GetChunk E.Archetype E.ChunkId = some c) →
        ∃ E1, db1.MasterRecord.EntitiesById.Find Id = some E1 ∧
          E1.Archetype = E.Archetype ∧ E1.ChunkId = E.ChunkId ∧
          ∃ c, db1.GetChunk E1.Archetype E1.ChunkId = some c) := by
  obtain ⟨f1, f2, f3, f4, f5, f6, f7, f8, f9, f10, f11, f12, f13⟩ := RemoveEntity_frame hrem
  obtain ⟨k1, k2, k3⟩ := RemoveEntity_records hrem
  have hwfE := hwf _ _ he
  have hC1 : Chunk1.Archetype = Entity.Archetype := f2.trans (hwfE.2 _ _ hc)
  have hId : Entity.Id = EntityId := hkey _ _ hE
  have hfind : ∀ X, db1.EntriesByArchetype.Find X =
      if X = Entity.Archetype then
        some { Entry1 with Chunks := Entry1.Chunks.Add Entity.ChunkId Chunk1 }
      else db.EntriesByArchetype.Find X := by
    intro X
    rw [hdb1]
    exact TMap.Find_Add _ _ _ _
  have hrec : ∀ k, db1.MasterRecord.EntitiesById.Find k =
      if k = Entity.Id then none else mr1.EntitiesById.Find k := by
    intro k
    rw [hdb1]
    exact MasterRecord_RemoveEntity_Find mr1 Entity.Id k
  refine ⟨hC1, by rw [hdb1], ?_, ?_, ?_, ?_, ?_, ?_, ?_⟩
  · rw [hdb1]
    exact CachesKept_trans ⟨f11, f12⟩ (MasterRecord_RemoveEntity_caches mr1 Entity.Id)
  · intro k E hk
    rw [hrec] at hk
    split at hk
    · cases hk
    · exact k1 hkey k E hk
  · intro X e hX
    rw [hfind] at hX
    split at hX
    · rename_i hXA
      injection hX with hX
      rw [hXA, ← hX]
      exact (EntryWf_store hwfE Entity.ChunkId Chunk1 hC1 f6 (by rw [f5]))
    · exact hwf X e hX
  · intro X hX
    rw [hfind, if_neg hX]
  · intro X
    rw [hfind]
    split
    · rename_i hXA
      rw [hXA, he]
      rfl
    · rfl
  · intro k E1 hk
    rw [hrec] at hk
    split at hk
    · cases hk
    · exact k2 k E1 hk
  · intro Id E hne hEId hchunk
    obtain ⟨E1, g1, g2, g3, g4⟩ := k3 Id E hEId
    have hne1 : Id ≠ Entity.Id := by rw [hId]; exact hne
    refine ⟨E1, by rw [hrec, if_neg hne1]; exact g1, g2, g3, ?_⟩
    obtain ⟨c, hcc⟩ := hchunk
    rw [g2, g3]
    unfold UMantleDB.GetChunk at hcc ⊢
    rw [hfind]
    by_cases hA : E.Archetype = Entity.Archetype
    · rw [if_pos hA]
      simp only
      rw [TMap.Find_Add]
      by_cases hC : E.ChunkId = Entity.ChunkId
      · rw [if_pos hC]; exact ⟨_, rfl⟩
      · rw [if_neg hC, f5]
        rw [hA, he] at hcc
        exact ⟨c, hcc⟩
    · rw [if_neg hA]
      exact ⟨c, hcc⟩

/-- The loop of `RemoveEntities` keeps the active archetypes, the caches, the keys of the
entity index and the shape of the entries; it changes only entries of archetypes it collects;
it collects only archetypes of records of listed ids; and it collects the archetype of every
listed live entity whose chunk exists. -/
theorem RemoveEntitiesLoop_trace : ∀ (ids : List FGuid) (db : UMantleDB) (M : List TBitArray)
    (db1 : UMantleDB) (M1 : List TBitArray),
    UMantleDB.RemoveEntitiesLoop ids db M = .ok (db1, M1) →
    RecordsKeyed db.MasterRecord →
    (∀ X e, db.EntriesByArchetype.Find X = some e → EntryWf X e) →
    RemoveTrace ids db M db1 M1
  | [], db, M, db1, M1, h, hkey, hwf => by
    rw [UMantleDB.RemoveEntitiesLoop] at h
    cases h
    exact ⟨rfl, CachesKept_refl _, hkey, hwf, fun _ _ => rfl, fun _ => rfl, fun _ hX => hX,
      RecordsFrom_refl _, fun X hX => Or.inl hX, fun id hid => by cases hid⟩
  | id0 :: rest, db, M, db1, M1, h, hkey, hwf => by
    rw [UMantleDB.RemoveEntitiesLoop] at h
    -- the iterations that skip the id leave the database as it is
    have hskip : UMantleDB.RemoveEntitiesLoop rest db M = .ok (db1, M1) →
        (id0 ≠ 0 → ∀ E, db.MasterRecord.EntitiesById.Find id0 = some E →
          (∃ c, db.GetChunk E.Archetype E.ChunkId = some c) → False) →
        RemoveTrace (id0 :: rest) db M db1 M1 := by
      intro h1 hno
      obtain ⟨i1, i2, i3, i4, i5, i6, i7, i8, i9, i10⟩ :=
        RemoveEntitiesLoop_trace rest db M db1 M1 h1 hkey hwf
      refine ⟨i1, i2, i3, i4, i5, i6, i7, i8, ?_, ?_⟩
      · intro X hX
        rcases i9 X hX with h2 | ⟨id, hid, E, hE, hA⟩
        · exact Or.inl h2
        · exact Or.inr ⟨id, List.mem_cons_of_mem _ hid, E, hE, hA⟩
      · intro id hid hne E hE hch
        rcases List.mem_cons.1 hid with rfl | hid
        · exact (hno hne E hE hch).elim
        · exact i10 id hid hne E hE hch
    by_cases h0 : id0 = 0
    · rw [if_pos h0] at h
      exact hskip h (fun hne => absurd h0 hne)
    · rw [if_neg h0] at h
      cases hE : db.MasterRecord.EntitiesById.Find id0 with
      | none =>
        rw [hE] at h
        exact hskip h (fun _ E hE1 => by rw [hE] at hE1; cases hE1)
      | some Entity =>
        rw [hE] at h
        simp only at h
        cases he : db.EntriesByArchetype.Find Entity.Archetype with
        | none =>
          rw [he] at h
          refine hskip h (fun _ E hE1 hch => ?_)
          rw [hE] at hE1
          injection hE1 with hE1
          subst hE1
          obtain ⟨c, hc⟩ := hch
          unfold UMantleDB.GetChunk at hc
          rw [he] at hc
          cases hc
        | some Entry =>
          rw [he] at h
          simp only at h
          cases hc : Entry.Chunks.Find Entity.ChunkId with
          | none =>
            rw [hc] at h
            refine hskip h (fun _ E hE1 hch => ?_)
            rw [hE] at hE1
            injection hE1 with hE1
            subst hE1
            obtain ⟨c, hcc⟩ := hch
            unfold UMantleDB.GetChunk at hcc
            rw [he] at hcc
            simp only at hcc
            rw [hc] at hcc
            cases hcc
          | some Chunk =>
            rw [hc] at h
            simp only at h
            cases hrem : Chunk.RemoveEntity Entry db.MasterRecord Entity false with
            | error f => rw [hrem] at h; cases h
            | ok res =>
              obtain ⟨Chunk1, Entry1, mr1⟩ := res
              rw [hrem] at h
              simp only at h
              obtain ⟨s1, s2, s3, s4, s5, s6, s7, s8, s9⟩ :=
                RemoveEntities_step hE he hc hrem hkey hwf _ rfl
              obtain ⟨i1, i2, i3, i4, i5, i6, i7, i8, i9, i10⟩ :=
                RemoveEntitiesLoop_trace rest _ _ db1 M1 h s4 s5
              have hin : Entity.Archetype ∈ M1 :=
                i7 _ ((mem_TSetAdd _ _ _).2 (Or.inr s1.symm))
              refine ⟨i1.trans s2, (CachesKept_trans s3 i2), i3, i4, ?_, ?_, ?_, (RecordsFrom_trans s8 i8), ?_, ?_⟩
              · intro X hX
                rw [i5 X hX]
                exact s6 X (fun hXA => hX (hXA ▸ hin))
              · intro X
                rw [i6 X, s7 X]
              · intro X hX
                exact i7 X ((mem_TSetAdd _ _ _).2 (Or.inl hX))
              · intro X hX
                rcases i9 X hX with h2 | ⟨id, hid, E1, hE1, hA⟩
                · rcases (mem_TSetAdd _ _ _).1 h2 with h3 | h3
                  · exact Or.inl h3
                  · exact Or.inr ⟨id0, List.mem_cons_self _ _, Entity, hE, by rw [h3, s1]⟩
                · obtain ⟨E, g1, g2, _⟩ := s8 id E1 hE1
                  exact Or.inr ⟨id, List.mem_cons_of_mem _ hid, E, g1, g2.trans hA⟩
              · intro id hid hne E hEid hch
                by_cases hid0 : id = id0
                · rw [hid0, hE] at hEid
                  injection hEid with hEid
                  rw [← hEid]
                  exact hin
                · have hid1 : id ∈ rest := by
                    rcases List.mem_cons.1 hid with h1 | h1
                    · exact absurd h1 hid0
                    · exact h1
                  obtain ⟨E1, g1, g2, g3, g4⟩ := s9 id E hid0 hEid hch
                  rw [← g2]
                  exact i10 id hid1 hne E1 g1 g4

theorem RemoveEntities_trace {db db1 : UMantleDB} {ids : List FGuid} (hinv : CacheInv db)
    (h : db.RemoveEntities ids = .ok db1) :
    CacheInv db1 ∧ ∃ db2 M, RemoveTrace ids db [] db2 M ∧ Invalidated M db2 db1 := by
  unfold UMantleDB.RemoveEntities at h
  cases hl : UMantleDB.RemoveEntitiesLoop ids db [] with
  | error f => rw [hl] at h; cases h
  | ok res =>
    obtain ⟨db2, M⟩ := res
    rw [hl] at h
    simp only at h
    injection h with h
    have htr := RemoveEntitiesLoop_trace ids db [] db2 M hl hinv.keyed hinv.entry_wf
    have hinval : Invalidated M db2 db1 := h ▸ Invalidated.foldl M db2
    obtain ⟨t1, t2, t3, t4, t5, t6, t7, t8, t9, t10⟩ := htr
    refine ⟨Modified_inv M hinv t1 t2 t5 t3 t4 ?_ hinval, db2, M,
      ⟨t1, t2, t3, t4, t5, t6, t7, t8, t9, t10⟩, hinval⟩
    intro X e hX
    rw [t1]
    have h6 := t6 X
    rw [hX] at h6
    cases hd : db.EntriesByArchetype.Find X with
    | none => rw [hd] at h6; cases h6
    | some e0 => exact hinv.entry_active X e0 hd

theorem RefreshCachedQuery_eq (db : UMantleDB) (A : TBitArray) :
    (db.RefreshCachedQuery A).1 = (db.RunQueryInternal A).1 := by
  unfold UMantleDB.RefreshCachedQuery
  simp only
  split
  · rename_i hv
    cases hf : db.MasterRecord.CachedQueries.Find A with
    | none => rw [hf] at hv; cases hv
    | some CQ =>
      rw [hf] at hv
      rw [RunQueryInternal_cached db A CQ hf hv]
  · rfl

/-- The path of `AddEntities` through the cache protocol: the entry is looked up or created,
the entities are added with the caches kept, `EntryWasModified` is called for the archetype,
and the cached query of the archetype is rebuilt if it is not valid. -/
theorem AddEntities_trace {db db1 : UMantleDB} {fuel : Nat} {S : List FInstancedStruct}
    {n : Nat} {It : FMantleIterator} (hinv : CacheInv db)
    (h : db.AddEntities fuel S n = .ok (db1, It)) :
    CacheInv db1 ∧
      ∃ db2 : UMantleDB,
        CachesKept
          (db.GetOrCreateEntry
            (db.FillArchetype (ZeroBits db.MasterRecord.ComponentInfoMap.length)
              (S.map (fun p => p.TypeName)))).1.MasterRecord db2.MasterRecord ∧
        db2.ActiveArchetypes =
          (db.GetOrCreateEntry
            (db.FillArchetype (ZeroBits db.MasterRecord.ComponentInfoMap.length)
              (S.map (fun p => p.TypeName)))).1.ActiveArchetypes ∧
        CacheInv (db2.EntryWasModified
          (db.FillArchetype (ZeroBits db.MasterRecord.ComponentInfoMap.length)
            (S.map (fun p => p.TypeName)))) ∧
        db1 = ((db2.EntryWasModified
          (db.FillArchetype (ZeroBits db.MasterRecord.ComponentInfoMap.length)
            (S.map (fun p => p.TypeName)))).RunQueryInternal
          (db.FillArchetype (ZeroBits db.MasterRecord.ComponentInfoMap.length)
            (S.map (fun p => p.TypeName)))).1 := by
  unfold UMantleDB.AddEntities at h
  simp only at h
  generalize db.FillArchetype (ZeroBits db.MasterRecord.ComponentInfoMap.length)
    (S.map (fun p => p.TypeName)) = A at h ⊢
  obtain ⟨g1, g2, g3, g4, g5, g6, g7, g8, g9⟩ := GetOrCreateEntry_inv db A hinv
  generalize db.GetOrCreateEntry A = g at h g1 g2 g3 g4 g5 g6 g7 g8 g9 ⊢
  cases hadd : g.2.AddEntities fuel g.1.MasterRecord S n { Archetype := A } with
  | error f => rw [hadd] at h; cases h
  | ok res =>
    obtain ⟨e1, mr1, Out⟩ := res
    rw [hadd] at h
    simp only at h
    obtain ⟨a1, a2, a3⟩ := Entry_AddEntities_frame A S fuel _ _ _ _ _ _ _ hadd
      (g1.entry_wf A g.2 g2) g1.keyed
    have hmod : CacheInv (UMantleDB.EntryWasModified
        { g.1 with EntriesByArchetype := g.1.EntriesByArchetype.Add A e1, MasterRecord := mr1 }
        A) := by
      refine @Modified_inv g.1
        { g.1 with EntriesByArchetype := g.1.EntriesByArchetype.Add A e1, MasterRecord := mr1 }
        _ [A] g1 rfl a3 ?_ a2 ?_ ?_ (Invalidated.single _ A)
      · intro X hX
        exact TMap.Find_Add_of_ne _ _ _ _ (by simpa using hX)
      · intro X e hX
        simp only at hX
        rw [TMap.Find_Add] at hX
        split at hX
        · rename_i hXA
          injection hX with hX
          rw [hXA, ← hX]
          exact a1
        · exact g1.entry_wf X e hX
      · intro X e hX
        simp only at hX ⊢
        rw [TMap.Find_Add] at hX
        split at hX
        · rename_i hXA
          rw [hXA]
          exact g1.entry_active A g.2 g2
        · exact g1.entry_active X e hX
    have hdb1 : db1 = ((UMantleDB.EntryWasModified
        { g.1 with EntriesByArchetype := g.1.EntriesByArchetype.Add A e1, MasterRecord := mr1 }
        A).RunQueryInternal A).1 := by
      rw [← RefreshCachedQuery_eq]
      split at h
      · injection h with h
        exact (congrArg Prod.fst h).symm
      · injection h with h
        exact (congrArg Prod.fst h).symm
    exact ⟨hdb1 ▸ (RunQueryInternal_inv _ A hmod).1,
      { g.1 with EntriesByArchetype := g.1.EntriesByArchetype.Add A e1, MasterRecord := mr1 },
      a3, rfl, hmod, hdb1⟩

/-- The path of `UpdateEntities` through the cache protocol: either the call is rejected and
the database is returned as it is with the default iterator, or the entities of the archetype
`Old` are taken into the entry of the new archetype with the caches kept, `EntryWasModified`
is called for both archetypes, and the cached query of the new archetype is rebuilt if it is
not valid. -/
theorem UpdateEntities_trace {db db1 : UMantleDB} {fuel : Nat} {ids : List FGuid}
    {S : List FInstancedStruct} {R : List (Option FString)} {It : FMantleIterator}
    (hinv : CacheInv db) (h : db.UpdateEntities fuel ids S R = .ok (db1, It)) :
    CacheInv db1 ∧
      ((db1 = db ∧ It = {}) ∨
        ∃ (Old : TBitArray) (Valid : List FGuid) (db2 : UMantleDB),
          UMantleDB.CollectValidEntities db.MasterRecord ids [] [] = some (Old, Valid) ∧
          Valid.length ≠ 0 ∧
          db.FillArchetype Old (S.map (fun p => p.TypeName)) (R.filterMap id) ≠ Old ∧
          (∃ OldEntry, db.EntriesByArchetype.Find Old = some OldEntry) ∧
          CachesKept
            (db.GetOrCreateEntry
              (db.FillArchetype Old (S.map (fun p => p.TypeName))
                (R.filterMap id))).1.MasterRecord db2.MasterRecord ∧
          db2.ActiveArchetypes =
            (db.GetOrCreateEntry
              (db.FillArchetype Old (S.map (fun p => p.TypeName))
                (R.filterMap id))).1.ActiveArchetypes ∧
          CacheInv ((db2.EntryWasModified Old).EntryWasModified
            (db.FillArchetype Old (S.map (fun p => p.TypeName)) (R.filterMap id))) ∧
          db1 = (((db2.EntryWasModified Old).EntryWasModified
            (db.FillArchetype Old (S.map (fun p => p.TypeName))
              (R.filterMap id))).RunQueryInternal
            (db.FillArchetype Old (S.map (fun p => p.TypeName)) (R.filterMap id))).1) := by
  unfold UMantleDB.UpdateEntities at h
  have hexit : ∀ {x : UMantleDB × FMantleIterator}, x = (db, {}) →
      Except.ok x = (Except.ok (db1, It) : Except Failure (UMantleDB × FMantleIterator)) →
      CacheInv db1 ∧ db1 = db ∧ It = {} := by
    intro x hx hh
    injection hh with hh
    rw [hx] at hh
    have h1 : db1 = db := (congrArg Prod.fst hh).symm
    have h2 : It = {} := (congrArg Prod.snd hh).symm
    exact ⟨h1 ▸ hinv, h1, h2⟩
  split at h
  · exact ⟨(hexit rfl h).1, Or.inl (hexit rfl h).2⟩
  · split at h
    · exact ⟨(hexit rfl h).1, Or.inl (hexit rfl h).2⟩
    · rename_i Old Valid hcollect
      split at h
      · exact ⟨(hexit rfl h).1, Or.inl (hexit rfl h).2⟩
      · rename_i hvalid
        simp only at h
        obtain ⟨New, hNew⟩ : ∃ New, New = db.FillArchetype Old (S.map (fun p => p.TypeName))
          (R.filterMap id) := ⟨_, rfl⟩
        rw [← hNew] at h
        split at h
        · exact ⟨(hexit rfl h).1, Or.inl (hexit rfl h).2⟩
        · rename_i hne
          cases hold : db.GetEntry Old with
          | none =>
            rw [hold] at h
            exact ⟨(hexit rfl h).1, Or.inl (hexit rfl h).2⟩
          | some OldEntry =>
            rw [hold] at h
            simp only at h
            have hg0 := GetOrCreateEntry_inv db New hinv
            obtain ⟨g, hg⟩ : ∃ g, g = db.GetOrCreateEntry New := ⟨_, rfl⟩
            rw [← hg] at h hg0
            obtain ⟨g1, g2, g3, g4, g5, g6, g7, g8, g9⟩ := hg0
            cases htake : g.2.TakeEntities fuel Valid OldEntry g.1.MasterRecord S
                { Archetype := New } with
            | error f => rw [htake] at h; cases h
            | ok res =>
              obtain ⟨e1, o1, mr1, Out⟩ := res
              rw [htake] at h
              simp only at h
              have hOldg : g.1.EntriesByArchetype.Find Old = some OldEntry := by
                rw [g3 Old (fun e => hne e.symm)]
                exact hold
              obtain ⟨a1, a2, a3, a4⟩ := Entry_TakeEntitiesLoop_frame New Old Valid S fuel _ _
                _ _ _ _ _ _ _ htake (g1.entry_wf New g.2 g2) (g1.entry_wf Old OldEntry hOldg)
                g1.keyed
              have hfind : ∀ X, ((g.1.EntriesByArchetype.Add Old o1).Add New e1).Find X =
                  if X = New then some e1 else if X = Old then some o1
                  else g.1.EntriesByArchetype.Find X := by
                intro X
                rw [TMap.Find_Add, TMap.Find_Add]
              have hmod : CacheInv ((UMantleDB.EntryWasModified
                  { g.1 with
                    EntriesByArchetype := (g.1.EntriesByArchetype.Add Old o1).Add New e1,
                    MasterRecord := mr1 } Old).EntryWasModified New) := by
                refine @Modified_inv g.1
                  { g.1 with
                    EntriesByArchetype := (g.1.EntriesByArchetype.Add Old o1).Add New e1,
                    MasterRecord := mr1 } _ [Old, New] g1 rfl a4 ?_ a3 ?_ ?_
                  (Invalidated.foldl [Old, New] _)
                · intro X hX
                  simp only [List.mem_cons, List.mem_singleton, not_or, List.not_mem_nil,
                    or_false] at hX
                  show ((g.1.EntriesByArchetype.Add Old o1).Add New e1).Find X = _
                  rw [hfind, if_neg hX.2, if_neg hX.1]
                · intro X e hX
                  simp only at hX
                  rw [hfind] at hX
                  split at hX
                  · rename_i hXA
                    injection hX with hX
                    rw [hXA, ← hX]
                    exact a1
                  · split at hX
                    · rename_i hXA
                      injection hX with hX
                      rw [hXA, ← hX]
                      exact a2
                    · exact g1.entry_wf X e hX
                · intro X e hX
                  simp only at hX ⊢
                  rw [hfind] at hX
                  split at hX
                  · rename_i hXA
                    rw [hXA]
                    exact g1.entry_active New g.2 g2
                  · split at hX
                    · rename_i hXA
                      rw [hXA]
                      exact g1.entry_active Old OldEntry hOldg
                    · exact g1.entry_active X e hX
              have hdb1 : db1 = (((UMantleDB.EntryWasModified
                  { g.1 with
                    EntriesByArchetype := (g.1.EntriesByArchetype.Add Old o1).Add New e1,
                    MasterRecord := mr1 } Old).EntryWasModified New).RunQueryInternal New).1 := by
                rw [← RefreshCachedQuery_eq]
                split at h
                · injection h with h
                  exact (congrArg Prod.fst h).symm
                · injection h with h
                  exact (congrArg Prod.fst h).symm
              have hinv1 := (RunQueryInternal_inv _ New hmod).1
              rw [← hdb1] at hinv1
              obtain ⟨db2, hdb2⟩ : ∃ db2 : UMantleDB, db2 =
                  { g.1 with
                    EntriesByArchetype := (g.1.EntriesByArchetype.Add Old o1).Add New e1,
                    MasterRecord := mr1 } := ⟨_, rfl⟩
              rw [← hdb2] at hmod hdb1
              have a5 : CachesKept g.1.MasterRecord db2.MasterRecord := by rw [hdb2]; exact a4
              have a6 : db2.ActiveArchetypes = g.1.ActiveArchetypes := by rw [hdb2]
              clear hdb2
              subst hg
              subst hNew
              exact ⟨hinv1, Or.inr ⟨Old, Valid, db2, hcollect, hvalid, hne, ⟨OldEntry, hold⟩, a5, a6,
                hmod, hdb1⟩⟩

/-! ## The invariant of the cache protocol holds in every reachable state -/

theorem Initialize_inv {db db1 : UMantleDB} {ComponentTypes : List (Option UScriptStruct)}
    {ChunkSizeBytes : Int} (hinv : CacheInv db)
    (h : db.Initialize ComponentTypes ChunkSizeBytes = .ok db1) : CacheInv db1 := by
  unfold UMantleDB.Initialize at h
  split at h
  · injection h with h
    exact h ▸ hinv
  · split at h
    · cases h
    · simp only at h
      have hinv0 : CacheInv
          { db with
            MasterRecord :=
              { db.MasterRecord with
                ChunkComponentBlobSize := ChunkSizeBytes,
                ComponentInfoMap :=
                  UMantleDB.RegisterComponentTypes ComponentTypes 0
                    db.MasterRecord.ComponentInfoMap } } :=
        CacheInv_congr hinv rfl rfl rfl rfl rfl
      split at h
      · injection h with h
        exact h ▸ hinv0
      · injection h with h
        rw [← h]
        exact CacheInv_congr (GetOrCreateEntry_inv _ _ hinv0).1 rfl rfl rfl rfl rfl

theorem RunQuery_eq (db : UMantleDB) (Query : FMantleComponentQuery) :
    (db.RunQuery Query).2 = db.RunQueryInternal (db.RunQuery Query).1.CachedArchetype := rfl

/-- Every reachable state satisfies the invariant of the cache protocol. -/
theorem Reachable.inv {db : UMantleDB} (h : Reachable db) : CacheInv db := by
  induction h with
  | fresh => exact CacheInv_new
  | init db db1 T B _ h ih => exact Initialize_inv ih h
  | add db db1 fuel S n It _ h ih => exact (AddEntities_trace ih h).1
  | remove db db1 ids _ h ih => exact (RemoveEntities_trace ih h).1
  | update db db1 fuel ids S R It _ h ih => exact (UpdateEntities_trace ih h).1
  | query db Query _ ih =>
    rw [RunQuery_eq]
    exact (RunQueryInternal_inv db _ ih).1

/-! ## C13: a query served from the caches shows what a recomputation from scratch shows -/

theorem CacheInv_ClearCaches {db : UMantleDB} (hinv : CacheInv db) : CacheInv db.ClearCaches := by
  refine ⟨hinv.keyed, hinv.entry_wf, hinv.entry_active, ?_, ?_, ?_, ?_⟩
  · intro X CE h; cases h
  · intro Q CQ h; cases h
  · intro Q CQ h; cases h
  · intro X CE h; cases h

theorem RunQuery_mask_ClearCaches (db : UMantleDB) (Query : FMantleComponentQuery) :
    (db.ClearCaches.RunQuery Query).1.CachedArchetype = (db.RunQuery Query).1.CachedArchetype := by
  unfold UMantleDB.RunQuery
  simp only
  by_cases h : Query.CachedArchetype.length = 0
  · rw [if_pos h, if_pos h]
    exact FillArchetype_congr db.ClearCaches db rfl _ _
  · rw [if_neg h, if_neg h]

theorem Snapshot_eq_map_Data (it : FMantleIterator) :
    it.Snapshot = (it.LocalCache.MatchingEntries.map FMantleCachedEntry.Data).map
      (fun d => (d.1, d.2.1)) := by
  unfold FMantleIterator.Snapshot
  rw [List.map_map]
  rfl

/-- What `RunQueryInternal` returns in a state that satisfies the invariant, in terms of the
rebuild from the entries. -/
theorem RunQueryInternal_result (db : UMantleDB) (Q : TBitArray) (hinv : CacheInv db) :
    (db.RunQueryInternal Q).2.bHasMasterRecord = (db.ScratchLoop Q db.ActiveArchetypes).isSome ∧
      (db.RunQueryInternal Q).2.LocalCache.MatchingEntries.map FMantleCachedEntry.Data =
        (db.ScratchLoop Q db.ActiveArchetypes).getD [] := by
  obtain ⟨_, _, _, _, _, _, _, r8, r9⟩ := RunQueryInternal_inv db Q hinv
  cases hb : (db.RunQueryInternal Q).2.bHasMasterRecord with
  | false =>
    obtain ⟨h1, h2⟩ := r8 hb
    rw [h1, h2]
    exact ⟨rfl, rfl⟩
  | true =>
    rw [r9 hb]
    exact ⟨rfl, rfl⟩

/-- C13: in every reachable state, the iterator that `RunQuery` returns, whether it is served
from a cached query with a valid version or rebuilt with the help of cached entries, shows the
same matching archetypes with the same per-chunk entity-id lists (and the same column views)
as the iterator of the same query run on the database with every cache erased; and when it
carries a master record, these are the active archetypes that are supersets of the mask, each
with the entity-id lists of the non-empty chunks of its entry, and the iterator is valid. -/
theorem C13_cache_soundness (db : UMantleDB) (hreach : Reachable db)
    (Query : FMantleComponentQuery) :
    (db.RunQuery Query).2.2.Snapshot = (db.ClearCaches.RunQuery Query).2.2.Snapshot ∧
      (db.RunQuery Query).2.2.LocalCache.MatchingEntries.map FMantleCachedEntry.Data =
        (db.ClearCaches.RunQuery Query).2.2.LocalCache.MatchingEntries.map
          FMantleCachedEntry.Data ∧
      (db.RunQuery Query).2.2.bHasMasterRecord =
        (db.ClearCaches.RunQuery Query).2.2.bHasMasterRecord ∧
      ((db.RunQuery Query).2.2.bHasMasterRecord = true →
        (db.RunQuery Query).2.2.Snapshot =
            db.ScanQuery (db.RunQuery Query).1.CachedArchetype ∧
          (db.RunQuery Query).2.2.IsValid (db.RunQuery Query).2.1.MasterRecord = true) := by
  have hinv := hreach.inv
  have hmask := RunQuery_mask_ClearCaches db Query
  rw [Snapshot_eq_map_Data, Snapshot_eq_map_Data, RunQuery_eq db, RunQuery_eq db.ClearCaches,
    hmask]
  generalize (db.RunQuery Query).1.CachedArchetype = Q
  obtain ⟨a1, a2⟩ := RunQueryInternal_result db Q hinv
  obtain ⟨b1, b2⟩ := RunQueryInternal_result db.ClearCaches Q (CacheInv_ClearCaches hinv)
  have hsame : db.ClearCaches.ScratchLoop Q db.ClearCaches.ActiveArchetypes =
      db.ScratchLoop Q db.ActiveArchetypes :=
    ScratchLoop_congr Q _ (fun _ _ _ => rfl)
  rw [hsame] at b1 b2
  refine ⟨by rw [a2, b2], by rw [a2, b2], by rw [a1, b1], fun hb => ?_⟩
  obtain ⟨_, _, _, _, ⟨CQ1, c1, c2, c3⟩, _, _, _, r9⟩ := RunQueryInternal_inv db Q hinv
  refine ⟨?_, ?_⟩
  · rw [r9 hb] at a2
    have hs := ScratchLoop_scan db Q db.ActiveArchetypes _ (r9 hb)
    rw [hs]
    rfl
  · obtain ⟨d1, d2⟩ := c3 hb
    unfold FMantleIterator.IsValid
    rw [hb]
    simp only [Bool.true_eq_false, if_false]
    have hQ : (db.RunQueryInternal Q).2.LocalCache.QueryArchetype = Q := by
      rw [d1]
      exact ((RunQueryInternal_inv db Q hinv).1.query_coherent Q CQ1 c1).1
    rw [hQ, c1]
    simp only
    rw [d1, FMantleDBVersion.IsValid, d2]
    simp

theorem TwoTypeDB_reachable : Reachable TwoTypeDB := by
  have h0 : ∃ db0, ({} : UMantleDB).Initialize
      [some ⟨"Position", 12, 4⟩, some ⟨"Velocity", 12, 4⟩] 1024 = .ok db0 := ⟨_, rfl⟩
  obtain ⟨db0, h0⟩ := h0
  have hrun : TwoTypeRun =
      match ({} : UMantleDB).Initialize
        [some ⟨"Position", 12, 4⟩, some ⟨"Velocity", 12, 4⟩] 1024 with
      | .error f => .error f
      | .ok db0 =>
        match db0.AddEntities 1 [⟨"Position", 10⟩] 1 with
        | .error f => .error f
        | .ok (db1, _) =>
          match db1.AddEntities 1 [⟨"Position", 20⟩, ⟨"Velocity", 21⟩] 1 with
          | .error f => .error f
          | .ok (db2, _) => .ok db2 := rfl
  have hok : ∃ db, TwoTypeRun = .ok db ∧ TwoTypeDB = db := ⟨_, rfl, rfl⟩
  obtain ⟨db, hok, hdb⟩ := hok
  rw [hdb]
  rw [hrun, h0] at hok
  simp only at hok
  have r0 : Reachable db0 := Reachable.init _ _ _ _ Reachable.fresh h0
  cases h1 : db0.AddEntities 1 [⟨"Position", 10⟩] 1 with
  | error f => rw [h1] at hok; cases hok
  | ok res1 =>
    obtain ⟨db1, It1⟩ := res1
    rw [h1] at hok
    simp only at hok
    have r1 : Reachable db1 := Reachable.add _ _ _ _ _ _ r0 h1
    cases h2 : db1.AddEntities 1 [⟨"Position", 20⟩, ⟨"Velocity", 21⟩] 1 with
    | error f => rw [h2] at hok; cases hok
    | ok res2 =>
      obtain ⟨db2, It2⟩ := res2
      rw [h2] at hok
      simp only at hok
      injection hok with hok
      rw [← hok]
      exact Reachable.add _ _ _ _ _ _ r1 h2

/-- C13 on the database with two archetypes, for the query for `Position`. -/
theorem C13_cache_soundness_witness :
    (TwoTypeDB.RunQuery { RequiredComponents := ["Position"] }).2.2.Snapshot =
        (TwoTypeDB.ClearCaches.RunQuery { RequiredComponents := ["Position"] }).2.2.Snapshot ∧
      (TwoTypeDB.RunQuery
          { RequiredComponents := ["Position"] }).2.2.LocalCache.MatchingEntries.map
          FMantleCachedEntry.Data =
        (TwoTypeDB.ClearCaches.RunQuery
          { RequiredComponents := ["Position"] }).2.2.LocalCache.MatchingEntries.map
          FMantleCachedEntry.Data ∧
      (TwoTypeDB.RunQuery { RequiredComponents := ["Position"] }).2.2.bHasMasterRecord =
        (TwoTypeDB.ClearCaches.RunQuery
          { RequiredComponents := ["Position"] }).2.2.bHasMasterRecord ∧
      ((TwoTypeDB.RunQuery { RequiredComponents := ["Position"] }).2.2.bHasMasterRecord = true →
        (TwoTypeDB.RunQuery { RequiredComponents := ["Position"] }).2.2.Snapshot =
            TwoTypeDB.ScanQuery
              (TwoTypeDB.RunQuery { RequiredComponents := ["Position"] }).1.CachedArchetype ∧
          (TwoTypeDB.RunQuery { RequiredComponents := ["Position"] }).2.2.IsValid
              (TwoTypeDB.RunQuery { RequiredComponents := ["Position"] }).2.1.MasterRecord =
            true) :=
  C13_cache_soundness TwoTypeDB TwoTypeDB_reachable { RequiredComponents := ["Position"] }

/-! ## C11 and C12: which calls invalidate an iterator -/

theorem IsValid_eq_true_iff (It : FMantleIterator) (mr : FMantleDBMasterRecord) :
    It.IsValid mr = true ↔
      It.bHasMasterRecord = true ∧
        ∃ CQ, mr.CachedQueries.Find It.LocalCache.QueryArchetype = some CQ ∧
          CQ.Version.bIsValid = true ∧
          CQ.Version.VersionNumber = It.LocalCache.Version.VersionNumber := by
  unfold FMantleIterator.IsValid
  cases hb : It.bHasMasterRecord with
  | false => simp
  | true =>
    simp only [Bool.true_eq_false, if_false, true_and]
    cases hf : mr.CachedQueries.Find It.LocalCache.QueryArchetype with
    | none => simp
    | some CQ => simp [FMantleDBVersion.IsValid]

theorem IsValid_eq_false_of (It : FMantleIterator) (mr : FMantleDBMasterRecord)
    (h : ∀ CQ, mr.CachedQueries.Find It.LocalCache.QueryArchetype = some CQ →
      CQ.Version.bIsValid = false ∨
        CQ.Version.VersionNumber ≠ It.LocalCache.Version.VersionNumber) :
    It.IsValid mr = false := by
  cases hv : It.IsValid mr with
  | false => rfl
  | true =>
    obtain ⟨_, CQ, h1, h2, h3⟩ := (IsValid_eq_true_iff It mr).1 hv
    rcases h CQ h1 with h4 | h4
    · rw [h2] at h4; cases h4
    · exact absurd h3 h4

theorem IsValid_of_Find_eq (It : FMantleIterator) (mr mr1 : FMantleDBMasterRecord)
    (h : mr1.CachedQueries.Find It.LocalCache.QueryArchetype =
      mr.CachedQueries.Find It.LocalCache.QueryArchetype) :
    It.IsValid mr1 = It.IsValid mr := by
  unfold FMantleIterator.IsValid
  rw [h]

/-- After `EntryWasModified` for the archetypes of `L`, one of which is active and a superset
of the mask `Q`, the cached query of `Q` is still stored with its version number, and its
version is not valid. -/
theorem Invalidated_query {g db2 db3 : UMantleDB} {L : List TBitArray} {Q X : TBitArray}
    {CQ : FMantleCachedQuery} (hinv : CacheInv g)
    (hk : CachesKept g.MasterRecord db2.MasterRecord)
    (hinval : Invalidated L db2 db3)
    (hX : X ∈ L) (hXa : X ∈ g.ActiveArchetypes) (hXm : BitwiseAND X Q = Q)
    (hQ : g.MasterRecord.CachedQueries.Find Q = some CQ) :
    ∃ CQ3, db3.MasterRecord.CachedQueries.Find Q = some CQ3 ∧
      CQ3.Version.VersionNumber = CQ.Version.VersionNumber ∧ CQ3.Version.bIsValid = false := by
  obtain ⟨_, a2, a3, a4, a5, a6⟩ := hinval
  obtain ⟨k1, k2⟩ := hk
  obtain ⟨CQ3, h3⟩ := a6 Q CQ (k1 ▸ hQ)
  obtain ⟨CQ2, c1, c2, c3, c4, c5⟩ := a3 Q CQ3 h3
  rw [k1, hQ] at c1
  injection c1 with c1
  subst c1
  refine ⟨CQ3, h3, c4, ?_⟩
  cases hv : CQ3.Version.bIsValid with
  | false => rfl
  | true =>
    obtain ⟨v1, v2⟩ := c5 hv
    obtain ⟨CE, e1, e2⟩ := hinv.back_complete Q CQ hQ v1 X hXa hXm
    exact absurd e2 (v2 X hX CE (k2 ▸ e1))

/-- An iterator whose cached query is stored with the iterator's version number but not valid
is not valid after `RunQueryInternal`, whatever the mask of the query that is run. -/
theorem IsValid_after_rebuild (db3 : UMantleDB) (T : TBitArray) (It : FMantleIterator)
    (hinv : CacheInv db3) (CQ3 : FMantleCachedQuery)
    (h3 : db3.MasterRecord.CachedQueries.Find It.LocalCache.QueryArchetype = some CQ3)
    (hnum : CQ3.Version.VersionNumber = It.LocalCache.Version.VersionNumber)
    (hinvalid : CQ3.Version.bIsValid = false) :
    It.IsValid (db3.RunQueryInternal T).1.MasterRecord = false := by
  obtain ⟨_, _, _, r4, ⟨CQ1, c1, c2, _⟩, _⟩ := RunQueryInternal_inv db3 T hinv
  refine IsValid_eq_false_of It _ (fun CQ hCQ => ?_)
  by_cases hT : It.LocalCache.QueryArchetype = T
  · rw [hT, c1] at hCQ
    injection hCQ with hCQ
    subst hCQ
    rw [hT] at h3
    rcases c2 with c2 | c2 | c2
    · rw [h3] at c2
      injection c2 with c2
      rw [← c2]
      exact Or.inl hinvalid
    · right
      rw [c2, h3]
      simp only [Option.getD_some]
      rw [← hnum]
      exact (Version_Update_ne CQ3.Version).1
    · exact Or.inl c2
  · rw [r4 _ hT, h3] at hCQ
    injection hCQ with hCQ
    rw [← hCQ]
    exact Or.inl hinvalid

theorem GetOrCreateEntry_query (db : UMantleDB) (A Q : TBitArray) (hinv : CacheInv db)
    (CQ : FMantleCachedQuery) (hQ : db.MasterRecord.CachedQueries.Find Q = some CQ) :
    ∃ CQ1, (db.GetOrCreateEntry A).1.MasterRecord.CachedQueries.Find Q = some CQ1 ∧
      CQ1.Version.VersionNumber = CQ.Version.VersionNumber ∧
      (BitwiseAND A Q ≠ Q → CQ1 = CQ) := by
  obtain ⟨_, _, _, _, _, _, _, _, g9⟩ := GetOrCreateEntry_inv db A hinv
  rw [g9 Q, hQ]
  simp only [Option.map_some']
  refine ⟨_, rfl, ?_, fun hne => ?_⟩
  · split <;> rfl
  · rw [if_neg (fun h => hne h.2)]

theorem GetOrCreateEntry_active (db : UMantleDB) (A : TBitArray) (hinv : CacheInv db) :
    A ∈ (db.GetOrCreateEntry A).1.ActiveArchetypes ∧
      ∀ X ∈ db.ActiveArchetypes, X ∈ (db.GetOrCreateEntry A).1.ActiveArchetypes := by
  obtain ⟨g1, g2, _⟩ := GetOrCreateEntry_inv db A hinv
  refine ⟨g1.entry_active A _ g2, fun X hX => ?_⟩
  cases hf : db.EntriesByArchetype.Find A with
  | some e => rw [GetOrCreateEntry_old db A e hf]; exact hX
  | none =>
    rw [(GetOrCreateEntry_new db A hf).2.2.1]
    exact List.mem_append_left _ hX

/-- In a reachable state `db`, let `It` be an iterator that is valid before the call, with the
query mask `Q`.
* After `AddEntities` whose target archetype is a superset of `Q`, `It` is not valid.
* After `RemoveEntities` whose id list holds a live entity of an archetype that is a superset
  of `Q` and whose chunk exists, `It` is not valid.
* After `UpdateEntities` that changes the database, where the live entities of the id list
  have the archetype `Old` and `Old` or the new archetype is a superset of `Q`, `It` is not
  valid. -/
theorem Valid_iterator_invalidated (db : UMantleDB) (hreach : Reachable db) (It : FMantleIterator)
    (hvalid : It.IsValid db.MasterRecord = true) :
    (∀ (fuel : Nat) (S : List FInstancedStruct) (n : Nat) (db1 : UMantleDB)
        (It1 : FMantleIterator),
        db.AddEntities fuel S n = .ok (db1, It1) →
        BitwiseAND
            (db.FillArchetype (ZeroBits db.MasterRecord.ComponentInfoMap.length)
              (S.map (fun p => p.TypeName)))
            It.LocalCache.QueryArchetype = It.LocalCache.QueryArchetype →
        It.IsValid db1.MasterRecord = false) ∧
      (∀ (ids : List FGuid) (db1 : UMantleDB),
        db.RemoveEntities ids = .ok db1 →
        (∃ id ∈ ids, id ≠ 0 ∧ ∃ E, db.MasterRecord.EntitiesById.Find id = some E ∧
          (∃ c, db.GetChunk E.Archetype E.ChunkId = some c) ∧
          BitwiseAND E.Archetype It.LocalCache.QueryArchetype = It.LocalCache.QueryArchetype) →
        It.IsValid db1.MasterRecord = false) ∧
      (∀ (fuel : Nat) (ids : List FGuid) (S : List FInstancedStruct)
        (R : List (Option FString)) (db1 : UMantleDB) (It1 : FMantleIterator)
        (Old : TBitArray),
        db.UpdateEntities fuel ids S R = .ok (db1, It1) → db1 ≠ db →
        (∀ id ∈ ids, ∀ E, db.MasterRecord.EntitiesById.Find id = some E → E.Archetype = Old) →
        (BitwiseAND Old It.LocalCache.QueryArchetype = It.LocalCache.QueryArchetype ∨
          BitwiseAND (db.FillArchetype Old (S.map (fun p => p.TypeName)) (R.filterMap id))
            It.LocalCache.QueryArchetype = It.LocalCache.QueryArchetype) →
        It.IsValid db1.MasterRecord = false) := by
  have hinv := hreach.inv
  obtain ⟨_, CQ, hQ, hv, hnum⟩ := (IsValid_eq_true_iff It db.MasterRecord).1 hvalid
  refine ⟨?_, ?_, ?_⟩
  · intro fuel S n db1 It1 h hm
    obtain ⟨_, db2, k, _, hmod, hdb1⟩ := AddEntities_trace hinv h
    obtain ⟨CQg, q1, q2, _⟩ := GetOrCreateEntry_query db
      (db.FillArchetype (ZeroBits db.MasterRecord.ComponentInfoMap.length)
        (S.map (fun p => p.TypeName))) _ hinv CQ hQ
    obtain ⟨CQ3, c1, c2, c3⟩ := Invalidated_query (GetOrCreateEntry_inv db _ hinv).1 k
      (Invalidated.single db2 _) (List.mem_singleton.2 rfl)
      (GetOrCreateEntry_active db _ hinv).1 hm q1
    rw [hdb1]
    exact IsValid_after_rebuild _ _ It hmod CQ3 c1 (c2.trans (q2.trans hnum)) c3
  · intro ids db1 h hex
    obtain ⟨id, hid, hne, E, hE, ⟨c, hc⟩, hm⟩ := hex
    obtain ⟨_, db2, M, ⟨t1, t2, t3, t4, t5, t6, t7, t8, t9, t10⟩, hinval⟩ :=
      RemoveEntities_trace hinv h
    have hin : E.Archetype ∈ M := t10 id hid hne E hE ⟨c, hc⟩
    have hact : E.Archetype ∈ db.ActiveArchetypes := by
      obtain ⟨e, he, _⟩ := (GetChunk_eq_some_iff db _ _ c).1 hc
      exact hinv.entry_active _ e he
    obtain ⟨CQ3, c1, c2, c3⟩ := Invalidated_query hinv t2 hinval hin hact hm hQ
    refine IsValid_eq_false_of It _ (fun CQ1 h1 => ?_)
    rw [c1] at h1
    injection h1 with h1
    rw [← h1]
    exact Or.inl c3
  · intro fuel ids S R db1 It1 Old h hne hA hm
    obtain ⟨_, htr⟩ := UpdateEntities_trace hinv h
    rcases htr with ⟨h1, _⟩ | ⟨Old1, Valid, db2, u1, u2, u3, ⟨OldEntry, u4⟩, k, _, hmod, hdb1⟩
    · exact absurd h1 hne
    · obtain ⟨Old2, Valid2, v1, v2⟩ :=
        CollectValidEntities_uniform db.MasterRecord Old ids [] [] hA (Or.inl rfl)
      rw [u1] at v1
      injection v1 with v1
      have hO : Old1 = Old := by
        rcases v2 with v2 | ⟨_, v2⟩
        · rw [(Prod.mk.inj v1).1]; exact v2
        · rw [← (Prod.mk.inj v1).2] at v2
          rw [v2] at u2
          exact absurd rfl u2
      subst hO
      obtain ⟨CQg, q1, q2, _⟩ := GetOrCreateEntry_query db
        (db.FillArchetype Old1 (S.map (fun p => p.TypeName)) (R.filterMap id)) _ hinv CQ hQ
      obtain ⟨a1, a2⟩ := GetOrCreateEntry_active db
        (db.FillArchetype Old1 (S.map (fun p => p.TypeName)) (R.filterMap id)) hinv
      have hOldAct := a2 Old1 (hinv.entry_active Old1 OldEntry u4)
      have hinval : Invalidated
          [Old1, db.FillArchetype Old1 (S.map (fun p => p.TypeName)) (R.filterMap id)] db2
          ((db2.EntryWasModified Old1).EntryWasModified
            (db.FillArchetype Old1 (S.map (fun p => p.TypeName)) (R.filterMap id))) :=
        Invalidated.foldl _ db2
      rw [hdb1]
      rcases hm with hm | hm
      · obtain ⟨CQ3, c1, c2, c3⟩ := Invalidated_query (GetOrCreateEntry_inv db _ hinv).1 k
          hinval (List.mem_cons_self _ _) hOldAct hm q1
        exact IsValid_after_rebuild _ _ It hmod CQ3 c1 (c2.trans (q2.trans hnum)) c3
      · obtain ⟨CQ3, c1, c2, c3⟩ := Invalidated_query (GetOrCreateEntry_inv db _ hinv).1 k
          hinval (List.mem_cons_of_mem _ (List.mem_singleton.2 rfl)) a1 hm q1
        exact IsValid_after_rebuild _ _ It hmod CQ3 c1 (c2.trans (q2.trans hnum)) c3

/-- When the loop of `UpdateEntities` accepts a batch, it returns its arguments or the
archetype of a live entity of the list. -/
theorem CollectValidEntities_source (mr : FMantleDBMasterRecord) :
    ∀ (ids : List FGuid) (Old : TBitArray) (Valid : List FGuid) (Old1 : TBitArray)
      (Valid1 : List FGuid),
      UMantleDB.CollectValidEntities mr ids Old Valid = some (Old1, Valid1) →
      (Old1 = Old ∧ Valid1 = Valid) ∨
        ∃ id ∈ ids, ∃ E, mr.EntitiesById.Find id = some E ∧ E.Archetype = Old1
  | [], Old, Valid, Old1, Valid1, h => by
    rw [UMantleDB.CollectValidEntities] at h
    injection h with h
    exact Or.inl ⟨(Prod.mk.inj h).1.symm, (Prod.mk.inj h).2.symm⟩
  | id0 :: rest, Old, Valid, Old1, Valid1, h => by
    have hstep : ∀ O V, ((Old1 = O ∧ Valid1 = V) ∨
        ∃ id ∈ rest, ∃ E, mr.EntitiesById.Find id = some E ∧ E.Archetype = Old1) →
        (Old1 = O ∨ ∃ id ∈ id0 :: rest, ∃ E, mr.EntitiesById.Find id = some E ∧
          E.Archetype = Old1) := by
      intro O V hr
      rcases hr with ⟨hr, _⟩ | ⟨id, hid, E, hE, hEA⟩
      · exact Or.inl hr
      · exact Or.inr ⟨id, List.mem_cons_of_mem _ hid, E, hE, hEA⟩
    have hkeep : ((Old1 = Old ∧ Valid1 = Valid) ∨
        ∃ id ∈ rest, ∃ E, mr.EntitiesById.Find id = some E ∧ E.Archetype = Old1) →
        ((Old1 = Old ∧ Valid1 = Valid) ∨
          ∃ id ∈ id0 :: rest, ∃ E, mr.EntitiesById.Find id = some E ∧ E.Archetype = Old1) := by
      intro hr
      rcases hr with hr | ⟨id, hid, E, hE, hEA⟩
      · exact Or.inl hr
      · exact Or.inr ⟨id, List.mem_cons_of_mem _ hid, E, hE, hEA⟩
    rw [UMantleDB.CollectValidEntities] at h
    cases h0 : mr.EntitiesById.Find id0 with
    | none =>
      rw [h0] at h
      exact hkeep (CollectValidEntities_source mr rest Old Valid Old1 Valid1 h)
    | some E0 =>
      rw [h0] at h
      simp only at h
      by_cases hz : E0.Archetype.length = 0
      · rw [if_pos hz] at h
        exact hkeep (CollectValidEntities_source mr rest Old Valid Old1 Valid1 h)
      · rw [if_neg hz] at h
        by_cases hO : Old.length = 0
        · rw [if_pos hO] at h
          rcases hstep _ _ (CollectValidEntities_source mr rest _ _ Old1 Valid1 h) with hr | hr
          · exact Or.inr ⟨id0, List.mem_cons_self _ _, E0, h0, hr.symm⟩
          · exact Or.inr hr
        · rw [if_neg hO] at h
          by_cases hne : E0.Archetype ≠ Old
          · rw [if_pos hne] at h
            cases h
          · rw [if_neg hne] at h
            rcases hstep _ _ (CollectValidEntities_source mr rest _ _ Old1 Valid1 h) with hr | hr
            · exact Or.inr ⟨id0, List.mem_cons_self _ _, E0, h0, (not_not.1 hne).trans hr.symm⟩
            · exact Or.inr hr

/-- A cached query whose mask no archetype of `L` is a superset of is the same after
`EntryWasModified` for the archetypes of `L`. -/
theorem Invalidated_frame {g db2 db3 : UMantleDB} {L : List TBitArray} {Q : TBitArray}
    (hinv : CacheInv g) (hk : CachesKept g.MasterRecord db2.MasterRecord)
    (hinval : Invalidated L db2 db3) (hL : ∀ X ∈ L, BitwiseAND X Q ≠ Q) :
    db3.MasterRecord.CachedQueries.Find Q = g.MasterRecord.CachedQueries.Find Q := by
  obtain ⟨_, _, _, _, a5, _⟩ := hinval
  obtain ⟨k1, k2⟩ := hk
  rw [a5 Q (fun X hX CE hCE hQ => hL X hX (hinv.back_sound X CE (k2 ▸ hCE) Q hQ)), k1]

/-- The query run at the end of a call for the archetype `T`, which is not a superset of the
mask `Q`, leaves the cached query of `Q` as it is. -/
theorem RunQueryInternal_frame (db3 : UMantleDB) (T Q : TBitArray) (hinv : CacheInv db3)
    (hT : BitwiseAND T Q ≠ Q) :
    (db3.RunQueryInternal T).1.MasterRecord.CachedQueries.Find Q =
      db3.MasterRecord.CachedQueries.Find Q := by
  obtain ⟨_, _, _, r4, _⟩ := RunQueryInternal_inv db3 T hinv
  exact r4 Q (fun h => hT (h ▸ BitwiseAND_self Q))

/-- C12: in a reachable state `db`, let `It` be a valid iterator with the query mask `Q`.
* After `AddEntities` whose target archetype is not a superset of `Q`, `It` is valid.
* After `RemoveEntities` of a list in which no live entity has an archetype that is a superset
  of `Q`, `It` is valid.
* After `UpdateEntities` of a list in which no live entity has an archetype that is a superset
  of `Q`, nor is moved to one, `It` is valid. -/
theorem C12_unrelated_iterator_kept (db : UMantleDB) (hreach : Reachable db)
    (It : FMantleIterator) (hvalid : It.IsValid db.MasterRecord = true) :
    (∀ (fuel : Nat) (S : List FInstancedStruct) (n : Nat) (db1 : UMantleDB)
        (It1 : FMantleIterator),
        db.AddEntities fuel S n = .ok (db1, It1) →
        BitwiseAND
            (db.FillArchetype (ZeroBits db.MasterRecord.ComponentInfoMap.length)
              (S.map (fun p => p.TypeName)))
            It.LocalCache.QueryArchetype ≠ It.LocalCache.QueryArchetype →
        It.IsValid db1.MasterRecord = true) ∧
      (∀ (ids : List FGuid) (db1 : UMantleDB),
        db.RemoveEntities ids = .ok db1 →
        (∀ id ∈ ids, ∀ E, db.MasterRecord.EntitiesById.Find id = some E →
          BitwiseAND E.Archetype It.LocalCache.QueryArchetype ≠ It.LocalCache.QueryArchetype) →
        It.IsValid db1.MasterRecord = true) ∧
      (∀ (fuel : Nat) (ids : List FGuid) (S : List FInstancedStruct)
        (R : List (Option FString)) (db1 : UMantleDB) (It1 : FMantleIterator),
        db.UpdateEntities fuel ids S R = .ok (db1, It1) →
        (∀ i ∈ ids, ∀ E, db.MasterRecord.EntitiesById.Find i = some E →
          BitwiseAND E.Archetype It.LocalCache.QueryArchetype ≠ It.LocalCache.QueryArchetype ∧
          BitwiseAND
              (db.FillArchetype E.Archetype (S.map (fun p => p.TypeName)) (R.filterMap id))
              It.LocalCache.QueryArchetype ≠ It.LocalCache.QueryArchetype) →
        It.IsValid db1.MasterRecord = true) := by
  have hinv := hreach.inv
  obtain ⟨_, CQ, hQ, _, _⟩ := (IsValid_eq_true_iff It db.MasterRecord).1 hvalid
  refine ⟨?_, ?_, ?_⟩
  · intro fuel S n db1 It1 h hm
    obtain ⟨_, db2, k, _, hmod, hdb1⟩ := AddEntities_trace hinv h
    obtain ⟨CQg, q1, _, q3⟩ := GetOrCreateEntry_query db
      (db.FillArchetype (ZeroBits db.MasterRecord.ComponentInfoMap.length)
        (S.map (fun p => p.TypeName))) _ hinv CQ hQ
    rw [q3 hm] at q1
    have h3 := Invalidated_frame (GetOrCreateEntry_inv db _ hinv).1 k
      (Invalidated.single db2 _)
      (fun X hX => by rw [List.mem_singleton.1 hX]; exact hm)
    rw [← hvalid, hdb1]
    refine IsValid_of_Find_eq It _ _ ?_
    rw [RunQueryInternal_frame _ _ _ hmod hm, h3, q1, hQ]
  · intro ids db1 h hno
    obtain ⟨_, db2, M, ⟨t1, t2, t3, t4, t5, t6, t7, t8, t9, t10⟩, hinval⟩ :=
      RemoveEntities_trace hinv h
    have h3 := Invalidated_frame hinv t2 hinval (fun X hX => by
      rcases t9 X hX with hX | ⟨id, hid, E, hE, hEA⟩
      · cases hX
      · rw [← hEA]; exact hno id hid E hE)
    rw [← hvalid]
    exact IsValid_of_Find_eq It _ _ h3
  · intro fuel ids S R db1 It1 h hno
    obtain ⟨_, htr⟩ := UpdateEntities_trace hinv h
    rcases htr with ⟨h1, _⟩ | ⟨Old1, Valid, db2, u1, u2, u3, _, k, _, hmod, hdb1⟩
    · rw [h1]; exact hvalid
    · have hsrc : ∃ i ∈ ids, ∃ E, db.MasterRecord.EntitiesById.Find i = some E ∧
          E.Archetype = Old1 := by
        rcases CollectValidEntities_source db.MasterRecord ids [] [] Old1 Valid u1 with
          ⟨_, hV⟩ | hs
        · rw [hV] at u2
          exact absurd rfl u2
        · exact hs
      obtain ⟨i, hi, E, hE, hEA⟩ := hsrc
      obtain ⟨m1, m2⟩ := hno i hi E hE
      rw [hEA] at m1 m2
      obtain ⟨CQg, q1, _, q3⟩ := GetOrCreateEntry_query db
        (db.FillArchetype Old1 (S.map (fun p => p.TypeName)) (R.filterMap id)) _ hinv
        CQ hQ
      rw [q3 m2] at q1
      have hinval : Invalidated
          [Old1, db.FillArchetype Old1 (S.map (fun p => p.TypeName)) (R.filterMap id)]
          db2
          ((db2.EntryWasModified Old1).EntryWasModified
            (db.FillArchetype Old1 (S.map (fun p => p.TypeName))
              (R.filterMap id))) :=
        Invalidated.foldl _ db2
      have h3 := Invalidated_frame (GetOrCreateEntry_inv db _ hinv).1 k hinval
        (fun X hX => by
          rcases List.mem_cons.1 hX with hX | hX
          · rw [hX]; exact m1
          · rw [List.mem_singleton.1 hX]; exact m2)
      rw [← hvalid, hdb1]
      refine IsValid_of_Find_eq It _ _ ?_
      rw [RunQueryInternal_frame _ _ _ hmod m2, h3, q1, hQ]

/-! ## C11 and C12 on the database with two archetypes -/

theorem TwoTypeQueryPosition_reachable : Reachable TwoTypeQueryPosition.1 :=
  Reachable.query TwoTypeDB { RequiredComponents := ["Position"] } TwoTypeDB_reachable

theorem TwoTypeQueryBoth_reachable : Reachable TwoTypeQueryBoth.1 :=
  Reachable.query TwoTypeDB { RequiredComponents := ["Position", "Velocity"] }
    TwoTypeDB_reachable

theorem TwoTypeQueryPosition_record :
    TwoTypeQueryPosition.1.MasterRecord.EntitiesById.Find 2 =
      some { Id := 2, Archetype := [true, false], ChunkId := 1, Index := 0 } := by
  decide

theorem TwoTypeQueryBoth_record :
    TwoTypeQueryBoth.1.MasterRecord.EntitiesById.Find 2 =
      some { Id := 2, Archetype := [true, false], ChunkId := 1, Index := 0 } := by
  decide

/-- C12 on the database with two archetypes, for the iterator of the query for `Position` and
`Velocity`: it stays valid when an entity with a `Position` only is added, when the entity 2
(a `Position` only) is removed, and when the entity 2 is moved to the archetype with a
`Velocity` only. -/
theorem C12_unrelated_iterator_kept_witness :
    TwoTypeQueryBoth.2.IsValid TwoTypeQueryBoth.1.MasterRecord = true ∧
      (∃ r, TwoTypeQueryBoth.1.AddEntities 1 [⟨"Position", 30⟩] 1 = .ok r ∧
        r.1.MasterRecord.EntitiesById.length = 3 ∧
        TwoTypeQueryBoth.2.IsValid r.1.MasterRecord = true) ∧
      (∃ db1, TwoTypeQueryBoth.1.RemoveEntities [2] = .ok db1 ∧
        db1.MasterRecord.EntitiesById.length = 1 ∧
        TwoTypeQueryBoth.2.IsValid db1.MasterRecord = true) ∧
      (∃ r, TwoTypeQueryBoth.1.UpdateEntities 4 [2] [⟨"Velocity", 31⟩] [some "Position"] =
          .ok r ∧
        (r.1.MasterRecord.EntitiesById.Find 2).map (fun E => E.Archetype) =
          some [false, true] ∧
        TwoTypeQueryBoth.2.IsValid r.1.MasterRecord = true) := by
  have hvalid : TwoTypeQueryBoth.2.IsValid TwoTypeQueryBoth.1.MasterRecord = true := by
    decide
  have h := C12_unrelated_iterator_kept TwoTypeQueryBoth.1 TwoTypeQueryBoth_reachable
    TwoTypeQueryBoth.2 hvalid
  obtain ⟨ra, hra, hadded⟩ :
      ∃ r, TwoTypeQueryBoth.1.AddEntities 1 [⟨"Position", 30⟩] 1 = .ok r ∧
        r.1.MasterRecord.EntitiesById.length = 3 := ⟨_, rfl, rfl⟩
  obtain ⟨rr, hrr, hremoved⟩ :
      ∃ r, TwoTypeQueryBoth.1.RemoveEntities [2] = .ok r ∧
        r.MasterRecord.EntitiesById.length = 1 := ⟨_, rfl, rfl⟩
  obtain ⟨ru, hru, hmoved⟩ :
      ∃ r, TwoTypeQueryBoth.1.UpdateEntities 4 [2] [⟨"Velocity", 31⟩] [some "Position"] =
          .ok r ∧
        (r.1.MasterRecord.EntitiesById.Find 2).map (fun E => E.Archetype) =
          some [false, true] := ⟨_, rfl, rfl⟩
  refine ⟨hvalid, ⟨ra, hra, hadded, h.1 1 _ 1 ra.1 ra.2 hra (by decide)⟩,
    ⟨rr, hrr, hremoved, h.2.1 [2] rr hrr ?_⟩,
    ⟨ru, hru, hmoved, h.2.2 4 [2] _ _ ru.1 ru.2 hru ?_⟩⟩
  · intro i hi E hE
    rw [List.mem_singleton.1 hi, TwoTypeQueryBoth_record] at hE
    injection hE with hE
    rw [← hE]
    decide
  · intro i hi E hE
    rw [List.mem_singleton.1 hi, TwoTypeQueryBoth_record] at hE
    injection hE with hE
    rw [← hE]
    decide

/-! ## `AddEntity`: the rebuild of the cached query succeeds on well-formed entries -/

theorem RefreshChunkColumns_ok (Chunk : FMantleDBChunk) :
    ∀ (Names : List FString) (m : TMap FString (List (List Payload))),
      (∀ T ∈ Names, ∃ Info, Chunk.ComponentTypeInfo.Find T = some Info) →
      ∃ m1, UMantleDB.RefreshChunkColumns Chunk Names m = some m1
  | [], m, _ => ⟨m, rfl⟩
  | nm :: rest, m, hcols => by
    obtain ⟨Info, hInfo⟩ := hcols nm (List.mem_cons_self _ _)
    rw [UMantleDB.RefreshChunkColumns, hInfo]
    exact RefreshChunkColumns_ok Chunk rest _ (fun T hT => hcols T (List.mem_cons_of_mem _ hT))

theorem RefreshChunks_ok (e : FMantleDBEntry)
    (hcols : ∀ Id Chunk, e.Chunks.Find Id = some Chunk → Chunk.EntityIds ≠ [] →
      ∀ T ∈ e.ComponentTypes, ∃ Info, Chunk.ComponentTypeInfo.Find T = some Info) :
    ∀ (Ids : List FGuid) (CE : FMantleCachedEntry), (UMantleDB.RefreshChunks e Ids CE).2 = true
  | [], CE => rfl
  | Id :: rest, CE => by
    rw [UMantleDB.RefreshChunks]
    cases hf : e.Chunks.Find Id with
    | none => exact RefreshChunks_ok e hcols rest CE
    | some Chunk =>
      simp only
      by_cases hempty : Chunk.IsEmpty = true
      · rw [if_pos hempty]
        exact RefreshChunks_ok e hcols rest CE
      · rw [if_neg hempty]
        have hne : Chunk.EntityIds ≠ [] := by
          intro h
          apply hempty
          unfold FMantleDBChunk.IsEmpty
          rw [h]
          rfl
        obtain ⟨m1, hm1⟩ := RefreshChunkColumns_ok Chunk e.ComponentTypes
          CE.ChunkedComponents (hcols Id Chunk hf hne)
        rw [hm1]
        exact RefreshChunks_ok e hcols rest _

theorem FreshEntry_ok (db : UMantleDB) (X : TBitArray) (e : FMantleDBEntry)
    (hf : db.EntriesByArchetype.Find X = some e)
    (hcols : ∀ Id Chunk, e.Chunks.Find Id = some Chunk → Chunk.EntityIds ≠ [] →
      ∀ T ∈ e.ComponentTypes, ∃ Info, Chunk.ComponentTypeInfo.Find T = some Info) :
    (db.FreshEntry X).2 = true := by
  unfold UMantleDB.FreshEntry UMantleDB.RefreshCachedEntry
  simp only
  rw [hf]
  simp only
  rw [RefreshChunks_ok e hcols]
  rfl

theorem ScratchLoop_ok (db : UMantleDB) (Q : TBitArray) : ∀ (L : List TBitArray),
    (∀ X ∈ L, BitwiseAND X Q = Q → (db.FreshEntry X).2 = true) →
    ∃ l, db.ScratchLoop Q L = some l
  | [], _ => ⟨[], rfl⟩
  | X :: rest, h => by
    obtain ⟨l, hl⟩ := ScratchLoop_ok db Q rest (fun Y hY => h Y (List.mem_cons_of_mem _ hY))
    rw [UMantleDB.ScratchLoop, hl]
    by_cases hm : BitwiseAND X Q ≠ Q
    · rw [if_pos hm]
      exact ⟨l, rfl⟩
    · rw [if_neg hm, if_neg (by rw [h X (List.mem_cons_self _ _) (not_not.1 hm)]; decide)]
      exact ⟨_, rfl⟩

/-- When the rebuild from the entries succeeds, the query is stored with a valid version after
`RunQueryInternal`. -/
theorem RunQueryInternal_valid (db : UMantleDB) (Q : TBitArray) (hinv : CacheInv db)
    (l : List (TBitArray × List (List FGuid) × TMap FString (List (List Payload))))
    (hl : db.ScratchLoop Q db.ActiveArchetypes = some l) :
    ∃ CQ, (db.RunQueryInternal Q).1.MasterRecord.CachedQueries.Find Q = some CQ ∧
      CQ.Version.bIsValid = true := by
  obtain ⟨_, _, _, _, ⟨CQ1, c1, _, c3⟩, _, _, r8, _⟩ := RunQueryInternal_inv db Q hinv
  refine ⟨CQ1, c1, ?_⟩
  cases hflag : (db.RunQueryInternal Q).2.bHasMasterRecord with
  | false =>
    rw [(r8 hflag).1] at hl
    cases hl
  | true => exact (c3 hflag).2

/-! ## `AddEntity`: one entity added to a chunk and to an entry -/

theorem RegisterEntities_one (c : FMantleDBChunk) (mr : FMantleDBMasterRecord)
    (Out : FMantleCachedEntry) :
    c.RegisterEntities mr 1 Out =
      ({ c with EntityIds := c.EntityIds ++ [mr.NextGuid] },
        (mr.RegisterEntity c.Archetype c.ChunkId c.EntityIds.length).2,
        { Out with ChunkedEntityIds := Out.ChunkedEntityIds ++ [[mr.NextGuid]] }) := by
  obtain ⟨r1, r2, _⟩ := RegisterEntities_spec c mr 1 Out
  have r3 : (c.RegisterEntities mr 1 Out).2.1 =
      (mr.RegisterEntity c.Archetype c.ChunkId c.EntityIds.length).2 := by
    unfold FMantleDBChunk.RegisterEntities
    simp only
    split <;> rfl
  refine Prod.ext ?_ (Prod.ext ?_ ?_)
  · exact r1
  · exact r3
  · exact r2

/-- One entity added to a chunk that has room and the columns of the templates: the new guid
is appended to the id list, its record names the chunk and the slot, the slot holds the
templates, and the slots before it are untouched. -/
theorem Chunk_AddEntities_one (c : FMantleDBChunk) (mr : FMantleDBMasterRecord)
    (S : List FInstancedStruct) (Out : FMantleCachedEntry)
    (hcols : ∀ p ∈ S, ∃ Info, c.ComponentTypeInfo.Find p.TypeName = some Info)
    (hroom : IsZero c.Archetype = false → c.EntityIds.length < c.TotalCapacity)
    (hS : (S.map (fun p => p.TypeName)).Nodup) :
    ∃ c1 Out1,
      c.AddEntities mr S 1 Out =
        .ok (1, c1, (mr.RegisterEntity c.Archetype c.ChunkId c.EntityIds.length).2, Out1) ∧
      c1.EntityIds = c.EntityIds ++ [mr.NextGuid] ∧
      c1.ComponentTypeInfo = c.ComponentTypeInfo ∧ c1.TotalCapacity = c.TotalCapacity ∧
      c1.Archetype = c.Archetype ∧ c1.ChunkId = c.ChunkId ∧
      Out1.ChunkedEntityIds = Out.ChunkedEntityIds ++ [[mr.NextGuid]] ∧
      (∀ T i, i < c.EntityIds.length → c1.Blob T i = c.Blob T i) ∧
      (IsZero c.Archetype = false →
        ∀ p ∈ S, c1.Blob p.TypeName c.EntityIds.length = p.Memory) := by
  cases hz : IsZero c.Archetype with
  | true =>
    refine ⟨{ c with EntityIds := c.EntityIds ++ [mr.NextGuid] },
      { Out with ChunkedEntityIds := Out.ChunkedEntityIds ++ [[mr.NextGuid]] }, ?_, rfl, rfl,
      rfl, rfl, rfl, rfl, fun _ _ _ => rfl, fun h => by cases h⟩
    unfold FMantleDBChunk.AddEntities
    rw [if_neg (by decide), if_pos hz]
    simp only
    rw [RegisterEntities_one]
  | false =>
    have hrem : min 1 c.MaybeAllocateBlob.GetRemainingCapacity = 1 := by
      have := hroom hz
      unfold FMantleDBChunk.GetRemainingCapacity FMantleDBChunk.MaybeAllocateBlob
      simp only
      omega
    obtain ⟨c1, Out1, hrun, e1, e2, e3, e4, e5, e6, o1, o2, b1, -, b3⟩ :=
      AddComponentsLoop_spec c.EntityIds.length 1 S
        { c.MaybeAllocateBlob with EntityIds := c.EntityIds ++ [mr.NextGuid] }
        { Out with ChunkedEntityIds := Out.ChunkedEntityIds ++ [[mr.NextGuid]] }
        hcols rfl
    refine ⟨c1, Out1, ?_, e1, e2, e3, e4, e5, o1, ?_, ?_⟩
    · unfold FMantleDBChunk.AddEntities
      rw [if_neg (by decide), if_neg (by rw [hz]; decide)]
      simp only
      rw [hrem, RegisterEntities_one]
      simp only
      have hrun' : FMantleDBChunk.AddComponentsLoop c.MaybeAllocateBlob.EntityIds.length 1 S
          { c.MaybeAllocateBlob with
            EntityIds := c.MaybeAllocateBlob.EntityIds ++ [mr.NextGuid] }
          { Out with ChunkedEntityIds := Out.ChunkedEntityIds ++ [[mr.NextGuid]] } =
            .ok (c1, Out1) := hrun
      rw [hrun']
      rfl
    · intro T i hi
      rw [b1 T i (by omega)]
      rfl
    · intro _ p hp
      exact b3 hS p hp c.EntityIds.length (le_refl _) (by omega)

/-- One entity added to an entry of the archetype `A` whose available chunks have room, or
for which a new chunk can be made: the entity goes into one chunk, the chunk `c0` before and
`c1` after the call, at the slot after the last one of `c0`; every other chunk is untouched. -/
theorem Entry_AddEntities_one (A : TBitArray) (e : FMantleDBEntry)
    (mr : FMantleDBMasterRecord) (S : List FInstancedStruct) (Out : FMantleCachedEntry)
    (fuel : Nat) (hok : EntryOk A mr e)
    (hroom : IsZero A = false → ∀ Id ∈ e.AvailableChunkIds, ∀ c, e.Chunks.Find Id = some c →
      c.EntityIds.length < c.TotalCapacity)
    (hcols : ∀ p ∈ S, ∃ Info, (FMantleDBChunk.PresentTypes A mr).Find p.TypeName = some Info)
    (hctor : ∃ Chunk0, FMantleDBChunk.Ctor 0 A mr = .ok Chunk0 ∧
      (IsZero A = false → 1 ≤ Chunk0.TotalCapacity))
    (hS : (S.map (fun p => p.TypeName)).Nodup) :
    ∃ CurrentId c0 c1 e2 mr1 Out1,
      e.AddEntities (fuel + 1) mr S 1 Out =
        .ok (e2, (FMantleDBMasterRecord.RegisterEntity mr1 A CurrentId c0.EntityIds.length).2,
          Out1) ∧
      mr1.EntitiesById = mr.EntitiesById ∧ mr.NextGuid ≤ mr1.NextGuid ∧
      mr1.ComponentInfoMap = mr.ComponentInfoMap ∧
      (e.Chunks.Find CurrentId = some c0 ∨
        (e.Chunks.Find CurrentId = none ∧ c0.EntityIds = [])) ∧
      e2.Chunks.Find CurrentId = some c1 ∧
      (∀ Id, Id ≠ CurrentId → e2.Chunks.Find Id = e.Chunks.Find Id) ∧
      e2.ComponentTypes = e.ComponentTypes ∧
      c1.EntityIds = c0.EntityIds ++ [mr1.NextGuid] ∧
      c1.ComponentTypeInfo = FMantleDBChunk.PresentTypes A mr ∧
      c0.ComponentTypeInfo = FMantleDBChunk.PresentTypes A mr ∧
      (∀ T i, i < c0.EntityIds.length → c1.Blob T i = c0.Blob T i) ∧
      (IsZero A = false → ∀ p ∈ S, c1.Blob p.TypeName c0.EntityIds.length = p.Memory) ∧
      Out1.ChunkedEntityIds = Out.ChunkedEntityIds ++ [[mr1.NextGuid]] := by
  have hstep : ∀ (CurrentId : FGuid) (c0 : FMantleDBChunk) (e1 : FMantleDBEntry)
      (mr1 : FMantleDBMasterRecord),
      e.GetAvailableChunk mr = .ok (CurrentId, c0, e1, mr1) →
      c0.ChunkId = CurrentId → c0.Archetype = A →
      c0.ComponentTypeInfo = FMantleDBChunk.PresentTypes A mr →
      (IsZero A = false → c0.EntityIds.length < c0.TotalCapacity) →
      e1.ComponentTypes = e.ComponentTypes →
      (∀ Id, Id ≠ CurrentId → e1.Chunks.Find Id = e.Chunks.Find Id) →
      ∃ c1 e2 Out1,
        e.AddEntities (fuel + 1) mr S 1 Out =
          .ok (e2,
            (FMantleDBMasterRecord.RegisterEntity mr1 A CurrentId c0.EntityIds.length).2,
            Out1) ∧
        e2.Chunks.Find CurrentId = some c1 ∧
        (∀ Id, Id ≠ CurrentId → e2.Chunks.Find Id = e.Chunks.Find Id) ∧
        e2.ComponentTypes = e.ComponentTypes ∧
        c1.EntityIds = c0.EntityIds ++ [mr1.NextGuid] ∧
        c1.ComponentTypeInfo = FMantleDBChunk.PresentTypes A mr ∧
        (∀ T i, i < c0.EntityIds.length → c1.Blob T i = c0.Blob T i) ∧
        (IsZero A = false → ∀ p ∈ S, c1.Blob p.TypeName c0.EntityIds.length = p.Memory) ∧
        Out1.ChunkedEntityIds = Out.ChunkedEntityIds ++ [[mr1.NextGuid]] := by
    intro CurrentId c0 e1 mr1 hget hid hA hcti hrm htypes hother
    obtain ⟨c1, Out1, hadd, a1, a2, _, _, _, a6, a7, a8⟩ :=
      Chunk_AddEntities_one c0 mr1 S Out (by rw [hcti]; exact hcols) (by rw [hA]; exact hrm) hS
    rw [hA, hid] at hadd
    refine ⟨c1, FMantleDBEntry.PopIfFull { e1 with Chunks := e1.Chunks.Add CurrentId c1 } c1,
      Out1, ?_, ?_, ?_, ?_, a1, a2.trans hcti, a7, by rw [hA] at a8; exact a8, a6⟩
    · show FMantleDBEntry.AddEntities (fuel + 1) e mr S (0 + 1) Out = _
      rw [FMantleDBEntry.AddEntities, hget]
      simp only
      rw [hadd]
      simp only
      exact Entry_AddEntities_zero fuel _ _ S Out1
    · rw [(PopIfFull_frame _ c1).1]
      exact TMap.Find_Add_self _ _ _
    · intro Id hId
      rw [(PopIfFull_frame _ c1).1]
      exact (TMap.Find_Add_of_ne _ _ _ _ hId).trans (hother Id hId)
    · rw [(PopIfFull_frame _ c1).2.2.1]
      exact htypes
  rcases FindExistingChunk_spec e.Chunks e.AvailableChunkIds with ⟨f1, f2⟩ |
    ⟨Top, Chunk, rest, f1, f2, f3, f4⟩
  · obtain ⟨Chunk0, hC0, hcap0⟩ := hctor
    obtain ⟨NewChunk, hNew, hcapNew⟩ :=
      @Ctor_congr mr.NewGuid.2 mr rfl rfl 0 A Chunk0 hC0 mr.NextGuid
    obtain ⟨n1, n2, n3, n4⟩ := Ctor_fields hNew
    have hnone : e.Chunks.Find mr.NextGuid = none := by
      cases hf : e.Chunks.Find mr.NextGuid with
      | none => rfl
      | some c => exact absurd (hok.chunks _ c hf).id_lt (lt_irrefl _)
    have hget : e.GetAvailableChunk mr =
        .ok (mr.NextGuid, NewChunk,
          { e with
            Chunks := e.Chunks.Add mr.NextGuid NewChunk,
            AllChunkIds := e.AllChunkIds ++ [mr.NextGuid],
            AvailableChunkIds := [mr.NextGuid] },
          mr.NewGuid.2) := by
      unfold FMantleDBEntry.GetAvailableChunk
      simp only [f1, f2]
      have hNew' : FMantleDBChunk.Ctor mr.NewGuid.1 e.Archetype mr.NewGuid.2 = .ok NewChunk := by
        rw [hok.archetype_eq]
        exact hNew
      rw [hNew']
      rfl
    obtain ⟨c1, e2, Out1, h⟩ := hstep mr.NextGuid NewChunk _ mr.NewGuid.2 hget n1 n2 n4
      (fun hz => by rw [n3, hcapNew]; exact hcap0 hz) rfl
      (fun Id hId => TMap.Find_Add_of_ne _ _ _ _ hId)
    exact ⟨mr.NextGuid, NewChunk, c1, e2, mr.NewGuid.2, Out1, h.1, rfl, Nat.le_succ _, rfl,
      Or.inr ⟨hnone, n3⟩, h.2.1, h.2.2.1, h.2.2.2.1, h.2.2.2.2.1, h.2.2.2.2.2.1, n4,
      h.2.2.2.2.2.2⟩
  · have hck := hok.chunks Top Chunk f3
    have hget : e.GetAvailableChunk mr =
        .ok (Top, Chunk, { e with AvailableChunkIds := Top :: rest }, mr) := by
      unfold FMantleDBEntry.GetAvailableChunk
      simp only [f1, f2]
    obtain ⟨c1, e2, Out1, h⟩ := hstep Top Chunk _ mr hget hck.id_eq hck.archetype_eq
      hck.columns
      (fun hz => hroom hz Top (f4.subset (List.mem_cons_self _ _)) Chunk f3) rfl
      (fun _ _ => rfl)
    exact ⟨Top, Chunk, c1, e2, mr, Out1, h.1, rfl, le_refl _, rfl, Or.inl f3, h.2.1, h.2.2.1,
      h.2.2.2.1, h.2.2.2.2.1, h.2.2.2.2.2.1, hck.columns, h.2.2.2.2.2.2⟩

/-! ## `AddEntity`: the database after the call -/

theorem TMap.Find_of_key {K V : Type} [DecidableEq K] (m : TMap K V) (k : K)
    (h : k ∈ m.map (fun p => p.1)) : ∃ v, TMap.Find m k = some v := by
  cases hf : TMap.Find m k with
  | some v => exact ⟨v, rfl⟩
  | none =>
    obtain ⟨p, hp, hpk⟩ := List.mem_map.1 h
    exact absurd hpk ((TMap.Find_eq_none_iff m k).1 hf p hp)

/-- `AddEntities` with the outcome of `FMantleDBEntry::AddEntities` given: the entry and the
master record are stored, `EntryWasModified` and the rebuild of the cached query follow, and
the iterator returned holds the cached entry the call has filled. -/
theorem AddEntities_explicit (db : UMantleDB) (fuel : Nat) (S : List FInstancedStruct)
    (n : Nat) (A : TBitArray) (hinv : CacheInv db)
    (hA : db.FillArchetype (ZeroBits db.MasterRecord.ComponentInfoMap.length)
      (S.map (fun p => p.TypeName)) = A)
    (e2 : FMantleDBEntry) (mr2 : FMantleDBMasterRecord) (Out1 : FMantleCachedEntry)
    (hadd : (db.GetOrCreateEntry A).2.AddEntities fuel (db.GetOrCreateEntry A).1.MasterRecord S n
      { Archetype := A } = .ok (e2, mr2, Out1)) :
    ∃ db3 : UMantleDB,
      db3 = UMantleDB.EntryWasModified
        { (db.GetOrCreateEntry A).1 with
          EntriesByArchetype := (db.GetOrCreateEntry A).1.EntriesByArchetype.Add A e2,
          MasterRecord := mr2 } A ∧
      CacheInv db3 ∧
      db3.EntriesByArchetype = (db.GetOrCreateEntry A).1.EntriesByArchetype.Add A e2 ∧
      db3.ActiveArchetypes = (db.GetOrCreateEntry A).1.ActiveArchetypes ∧
      db3.MasterRecord.EntitiesById = mr2.EntitiesById ∧
      db3.MasterRecord.ComponentInfoMap = mr2.ComponentInfoMap ∧
      db3.MasterRecord.ChunkComponentBlobSize = mr2.ChunkComponentBlobSize ∧
      db3.MasterRecord.NextGuid = mr2.NextGuid ∧
      db.AddEntities fuel S n =
        .ok ((db3.RunQueryInternal A).1,
          { LocalCache :=
              { QueryArchetype := A, MatchingEntries := [Out1],
                Version :=
                  (((db3.RunQueryInternal A).1.MasterRecord.CachedQueries.Find A).getD
                    {}).Version },
            bHasMasterRecord := true }) := by
  obtain ⟨g1, g2, g3, g4, g5, g6, g7, g8, g9⟩ := GetOrCreateEntry_inv db A hinv
  obtain ⟨a1, a2, a3⟩ := Entry_AddEntities_frame A S fuel _ _ _ _ _ _ _ hadd
    (g1.entry_wf A _ g2) g1.keyed
  have hinval := Invalidated.single
    { (db.GetOrCreateEntry A).1 with
      EntriesByArchetype := (db.GetOrCreateEntry A).1.EntriesByArchetype.Add A e2,
      MasterRecord := mr2 } A
  have hmod : CacheInv (UMantleDB.EntryWasModified
      { (db.GetOrCreateEntry A).1 with
        EntriesByArchetype := (db.GetOrCreateEntry A).1.EntriesByArchetype.Add A e2,
        MasterRecord := mr2 } A) := by
    refine @Modified_inv (db.GetOrCreateEntry A).1
      { (db.GetOrCreateEntry A).1 with
        EntriesByArchetype := (db.GetOrCreateEntry A).1.EntriesByArchetype.Add A e2,
        MasterRecord := mr2 }
      _ [A] g1 rfl a3 ?_ a2 ?_ ?_ hinval
    · intro X hX
      exact TMap.Find_Add_of_ne _ _ _ _ (by simpa using hX)
    · intro X e hX
      simp only at hX
      rw [TMap.Find_Add] at hX
      split at hX
      · rename_i hXA
        injection hX with hX
        rw [hXA, ← hX]
        exact a1
      · exact g1.entry_wf X e hX
    · intro X e hX
      simp only at hX ⊢
      rw [TMap.Find_Add] at hX
      split at hX
      · rename_i hXA
        rw [hXA]
        exact g1.entry_active A _ g2
      · exact g1.entry_active X e hX
  obtain ⟨s1, s2, _, s4, s5, s6, s7⟩ := hinval.1
  refine ⟨_, rfl, hmod, s1, s2, s4, s5, s6, s7, ?_⟩
  obtain ⟨_, _, _, _, ⟨CQ1, c1, _⟩, _⟩ := RunQueryInternal_inv _ A hmod
  unfold UMantleDB.AddEntities
  simp only
  rw [hA, hadd]
  simp only
  have hflag : (UMantleDB.RefreshCachedQuery (UMantleDB.EntryWasModified
      { (db.GetOrCreateEntry A).1 with
        EntriesByArchetype := (db.GetOrCreateEntry A).1.EntriesByArchetype.Add A e2,
        MasterRecord := mr2 } A) A).2 = true := by
    have h2 : ∀ d : UMantleDB, (d.RefreshCachedQuery A).2 =
        (d.RefreshCachedQuery A).1.MasterRecord.CachedQueries.Contains A := fun _ => rfl
    rw [h2, RefreshCachedQuery_eq]
    exact TMap.Contains_of_Find c1
  rw [if_neg (by rw [hflag]; decide), RefreshCachedQuery_eq]

theorem PresentTypes_ZeroBits (n : Nat) (mr : FMantleDBMasterRecord) :
    FMantleDBChunk.PresentTypes (ZeroBits n) mr = [] := by
  unfold FMantleDBChunk.PresentTypes
  rw [List.filter_eq_nil_iff]
  intro p _
  rw [GetBit_ZeroBits, Bool.and_false]
  decide

/-- The columns of the archetype of the templates, when every template names a valid
registered type: every template has its column, and so has every component type that the
constructor of the entry lists. -/
theorem PresentTypes_templates (db : UMantleDB) (S : List FInstancedStruct) (A : TBitArray)
    (hok : RegistryOk db.MasterRecord.ComponentInfoMap)
    (hA : db.FillArchetype (ZeroBits db.MasterRecord.ComponentInfoMap.length)
      (S.map (fun p => p.TypeName)) = A)
    (hreg : ∀ p ∈ S, ∃ Info, db.MasterRecord.ComponentInfoMap.Find p.TypeName = some Info ∧
      FMantleDBChunk.ValidateComponentInfo Info = true) :
    (∀ p ∈ S, ∃ Info,
      (FMantleDBChunk.PresentTypes A db.MasterRecord).Find p.TypeName = some Info) ∧
      (∀ T ∈ (FMantleDBEntry.Ctor A db.MasterRecord).ComponentTypes, ∃ Info,
        (FMantleDBChunk.PresentTypes A db.MasterRecord).Find T = some Info) := by
  have hvalid : ∀ q ∈ db.MasterRecord.ComponentInfoMap, q.1 ∈ S.map (fun p => p.TypeName) →
      FMantleDBChunk.ValidateComponentInfo q.2 = true := by
    intro q hq hqn
    obtain ⟨p, hp, hpn⟩ := List.mem_map.1 hqn
    obtain ⟨Info, h1, h2⟩ := hreg p hp
    have h3 := hok.find_mem q hq
    rw [← hpn, h1] at h3
    injection h3 with h3
    rw [← h3]
    exact h2
  have hP := PresentTypes_Fill db (S.map (fun p => p.TypeName)) hok hvalid
  have hC := Entry_Ctor_ComponentTypes db (S.map (fun p => p.TypeName)) hok
  rw [hA] at hP hC
  rw [hP, hC]
  refine ⟨fun p hp => ?_, fun T hT => TMap.Find_of_key _ T hT⟩
  obtain ⟨Info, h1, _⟩ := hreg p hp
  refine TMap.Find_of_key _ _ (List.mem_map.2 ⟨(p.TypeName, Info), ?_, rfl⟩)
  exact List.mem_filter.2 ⟨TMap.Find_mem h1, decide_eq_true (List.mem_map.2 ⟨p, hp, rfl⟩)⟩

/-- The entry `GetOrCreateEntry` returns for the archetype of the templates in a well-formed
store: it is well formed, its available chunks have room, its chunks have columns for its
component types, and it is the entry stored before the call or a new one without chunks. -/
theorem GetOrCreateEntry_pool (db : UMantleDB) (S : List FInstancedStruct) (A : TBitArray)
    (hstore : StoreOk db) (hpool : PoolOk db)
    (hA : db.FillArchetype (ZeroBits db.MasterRecord.ComponentInfoMap.length)
      (S.map (fun p => p.TypeName)) = A)
    (hreg : ∀ p ∈ S, ∃ Info, db.MasterRecord.ComponentInfoMap.Find p.TypeName = some Info ∧
      FMantleDBChunk.ValidateComponentInfo Info = true) :
    EntryOk A db.MasterRecord (db.GetOrCreateEntry A).2 ∧
      (IsZero A = false → ∀ Id ∈ (db.GetOrCreateEntry A).2.AvailableChunkIds, ∀ c,
        (db.GetOrCreateEntry A).2.Chunks.Find Id = some c →
          c.EntityIds.length < c.TotalCapacity) ∧
      (∀ T ∈ (db.GetOrCreateEntry A).2.ComponentTypes, ∃ Info,
        (FMantleDBChunk.PresentTypes A db.MasterRecord).Find T = some Info) ∧
      (db.EntriesByArchetype.Find A = some (db.GetOrCreateEntry A).2 ∨
        (db.EntriesByArchetype.Find A = none ∧ (db.GetOrCreateEntry A).2.Chunks = [])) := by
  cases hf : db.EntriesByArchetype.Find A with
  | some e =>
    rw [GetOrCreateEntry_old db A e hf]
    exact ⟨hstore.entries A e hf, fun hz => hpool.stack_room A e hf hz,
      hpool.entry_types A e hf, Or.inl rfl⟩
  | none =>
    rw [(GetOrCreateEntry_new db A hf).1]
    refine ⟨⟨rfl, List.nodup_nil, (fun Id c h => by cases h)⟩,
      (fun _ Id hId => by cases hId),
      (PresentTypes_templates db S A hstore.registry hA hreg).2, Or.inr ⟨rfl, rfl⟩⟩

/-- One entity added by `AddEntities` in a well-formed store, with templates of pairwise
different valid registered types whose archetype has a chunk capacity of at least one. The
call returns a valid iterator whose only view holds the new id; the new record names a chunk
of the archetype and a slot that holds the templates; and every chunk of the store before the
call is still there, with its columns and with the content of its occupied slots. -/
theorem AddEntities_one (db : UMantleDB) (S : List FInstancedStruct) (fuel : Nat)
    (A : TBitArray) (hstore : StoreOk db) (hpool : PoolOk db) (hinv : CacheInv db)
    (hA : db.FillArchetype (ZeroBits db.MasterRecord.ComponentInfoMap.length)
      (S.map (fun p => p.TypeName)) = A)
    (hS : (S.map (fun p => p.TypeName)).Nodup)
    (hreg : ∀ p ∈ S, ∃ Info, db.MasterRecord.ComponentInfoMap.Find p.TypeName = some Info ∧
      FMantleDBChunk.ValidateComponentInfo Info = true)
    (hcap : S = [] ∨
      ∃ Chunk, FMantleDBChunk.Ctor 0 A db.MasterRecord = .ok Chunk ∧ 1 ≤ Chunk.TotalCapacity) :
    ∃ db1 It Id ChunkId Index c1,
      db.AddEntities (fuel + 1) S 1 = .ok (db1, It) ∧
      It.IsValid db1.MasterRecord = true ∧ It.EntryIndex = -1 ∧ It.ChunkIndex = 0 ∧
      It.LocalCache.MatchingEntries.map (fun CE => CE.ChunkedEntityIds) = [[[Id]]] ∧
      (∃ CQ, db1.MasterRecord.CachedQueries.Find A = some CQ ∧ CQ.Version.bIsValid = true) ∧
      db.MasterRecord.NextGuid ≤ Id ∧
      db1.MasterRecord.EntitiesById =
        db.MasterRecord.EntitiesById.Add Id
          { Id := Id, Archetype := A, ChunkId := ChunkId, Index := Index } ∧
      db1.MasterRecord.ComponentInfoMap = db.MasterRecord.ComponentInfoMap ∧
      db1.GetChunk A ChunkId = some c1 ∧
      c1.ComponentTypeInfo = FMantleDBChunk.PresentTypes A db.MasterRecord ∧
      (∀ p ∈ S, c1.Blob p.TypeName Index = p.Memory) ∧
      (∀ X Cid c, db.GetChunk X Cid = some c →
        ∃ c2, db1.GetChunk X Cid = some c2 ∧ c2.ComponentTypeInfo = c.ComponentTypeInfo ∧
          ∀ T i, i < c.EntityIds.length → c2.Blob T i = c.Blob T i) := by
  obtain ⟨g1, g2, g3, g4, g5, g6, g7, g8, g9⟩ := GetOrCreateEntry_inv db A hinv
  obtain ⟨p1, p2, p3, p4⟩ := GetOrCreateEntry_pool db S A hstore hpool hA hreg
  have hcolsS := (PresentTypes_templates db S A hstore.registry hA hreg).1
  have hPT : FMantleDBChunk.PresentTypes A (db.GetOrCreateEntry A).1.MasterRecord =
      FMantleDBChunk.PresentTypes A db.MasterRecord := PresentTypes_congr g5 A
  have hbare : ∀ p ∈ S, IsZero A = false := by
    intro p hp
    obtain ⟨Info, h1, _⟩ := hreg p hp
    rw [← hA]
    exact FillArchetype_not_bare db _ hstore.registry p.TypeName (List.mem_map.2 ⟨p, hp, rfl⟩)
      Info h1
  have hctor : ∃ Chunk0, FMantleDBChunk.Ctor 0 A (db.GetOrCreateEntry A).1.MasterRecord =
      .ok Chunk0 ∧ (IsZero A = false → 1 ≤ Chunk0.TotalCapacity) := by
    rcases hcap with hnil | ⟨Chunk, hC, hc1⟩
    · have hAz : A = ZeroBits db.MasterRecord.ComponentInfoMap.length := by
        rw [← hA, hnil]
        rfl
      refine ⟨{ ChunkId := 0, Archetype := A, ComponentTypeInfo := [] }, ?_, fun hz => ?_⟩
      · unfold FMantleDBChunk.Ctor FMantleDBChunk.BytesPerEntity
        rw [hAz, PresentTypes_ZeroBits]
        rfl
      · rw [hAz, IsZero_ZeroBits] at hz
        cases hz
    · obtain ⟨Chunk1, h1, h2⟩ :=
        @Ctor_congr (db.GetOrCreateEntry A).1.MasterRecord db.MasterRecord g5 g6 0 A Chunk hC 0
      exact ⟨Chunk1, h1, fun _ => h2 ▸ hc1⟩
  obtain ⟨CurrentId, c0, c1, e2, mr1, Out1, hadd, m1, m2, m3, hc0, hc1, hother, htypes, hids,
      hcti1, hcti0, hblob, hnew, hout⟩ :=
    Entry_AddEntities_one A (db.GetOrCreateEntry A).2 (db.GetOrCreateEntry A).1.MasterRecord S
      { Archetype := A } fuel (p1.mono g5 (le_of_eq g7.symm)) p2
      (by rw [hPT]; exact hcolsS) hctor hS
  rw [hPT] at hcti1 hcti0
  obtain ⟨db3, hdb3, hmod, d1, d2, d3, d4, _, _, hrun⟩ :=
    AddEntities_explicit db (fuel + 1) S 1 A hinv hA e2 _ Out1 hadd
  obtain ⟨_, ⟨s1, s2, _, s4, s5, _⟩, _⟩ := RunQueryInternal_inv db3 A hmod
  -- the entries of the database after the call
  have hE : ∀ X, (db3.RunQueryInternal A).1.EntriesByArchetype.Find X =
      if X = A then some e2 else db.EntriesByArchetype.Find X := by
    intro X
    rw [s1, d1, TMap.Find_Add]
    split
    · rfl
    · rename_i hX
      exact g3 X hX
  -- the chunks of the entry after the call have the columns of its component types
  have hcols2 : ∀ Id Chunk, e2.Chunks.Find Id = some Chunk → Chunk.EntityIds ≠ [] →
      ∀ T ∈ e2.ComponentTypes, ∃ Info, Chunk.ComponentTypeInfo.Find T = some Info := by
    intro Id Chunk hf _ T hT
    rw [htypes] at hT
    by_cases hId : Id = CurrentId
    · rw [hId, hc1] at hf
      injection hf with hf
      rw [← hf, hcti1]
      exact p3 T hT
    · rw [hother Id hId] at hf
      rw [(p1.chunks Id Chunk hf).columns]
      exact p3 T hT
  -- the rebuild of the cached query succeeds
  have hfresh : ∀ X ∈ db3.ActiveArchetypes, BitwiseAND X A = A →
      (db3.FreshEntry X).2 = true := by
    intro X hX _
    by_cases hXA : X = A
    · rw [hXA]
      refine FreshEntry_ok db3 A e2 ?_ hcols2
      rw [d1]
      exact TMap.Find_Add_self _ _ _
    · have hXdb : X ∈ db.ActiveArchetypes := by
        rw [d2] at hX
        cases hf : db.EntriesByArchetype.Find A with
        | some e =>
          rw [GetOrCreateEntry_old db A e hf] at hX
          exact hX
        | none =>
          rw [(GetOrCreateEntry_new db A hf).2.2.1] at hX
          rcases List.mem_append.1 hX with h | h
          · exact h
          · exact absurd (List.mem_singleton.1 h) hXA
      obtain ⟨e, he⟩ := hpool.active_entry X hXdb
      refine FreshEntry_ok db3 X e ?_ ?_
      · rw [d1, TMap.Find_Add_of_ne _ _ _ _ hXA, g3 X hXA]
        exact he
      · intro Id Chunk hf _ T hT
        rw [((hstore.entries X e he).chunks Id Chunk hf).columns]
        exact hpool.entry_types X e he T hT
  obtain ⟨l, hl⟩ := ScratchLoop_ok db3 A db3.ActiveArchetypes hfresh
  obtain ⟨CQ, hCQ, hCQv⟩ := RunQueryInternal_valid db3 A hmod l hl
  refine ⟨_, _, mr1.NextGuid, CurrentId, c0.EntityIds.length, c1, hrun, ?_, rfl, rfl, ?_,
    ⟨CQ, hCQ, hCQv⟩, ?_, ?_, ?_, ?_, hcti1, ?_, ?_⟩
  · unfold FMantleIterator.IsValid
    simp only [Bool.true_eq_false, if_false]
    rw [hCQ]
    simp only [Option.getD_some, FMantleDBVersion.IsValid, hCQv, Bool.true_and,
      decide_eq_true_eq]
  · simp only [List.map_cons, List.map_nil]
    rw [hout]
    rfl
  · rw [← g7]
    exact m2
  · rw [s4, d3]
    show TMap.Add mr1.EntitiesById mr1.NextGuid _ = _
    rw [m1, g4]
    rfl
  · rw [s5, d4]
    show mr1.ComponentInfoMap = _
    rw [m3, g5]
  · rw [GetChunk_eq_some_iff]
    exact ⟨e2, by rw [hE, if_pos rfl], hc1⟩
  · intro p hp
    exact hnew (hbare p hp) p hp
  · intro X Cid c hc
    obtain ⟨e, he, hec⟩ := (GetChunk_eq_some_iff db X Cid c).1 hc
    by_cases hXA : X = A
    · subst hXA
      have hg2 : (db.GetOrCreateEntry X).2 = e := by
        rw [GetOrCreateEntry_old db X e he]
      rw [hg2] at hc0 hother
      by_cases hCid : Cid = CurrentId
      · subst hCid
        rcases hc0 with h0 | ⟨h0, _⟩
        · rw [hec] at h0
          injection h0 with h0
          subst h0
          refine ⟨c1, ?_, hcti1.trans hcti0.symm, hblob⟩
          rw [GetChunk_eq_some_iff]
          exact ⟨e2, by rw [hE, if_pos rfl], hc1⟩
        · rw [hec] at h0
          cases h0
      · refine ⟨c, ?_, rfl, fun _ _ _ => rfl⟩
        rw [GetChunk_eq_some_iff]
        exact ⟨e2, by rw [hE, if_pos rfl], (hother Cid hCid).trans hec⟩
    · refine ⟨c, ?_, rfl, fun _ _ _ => rfl⟩
      rw [GetChunk_eq_some_iff]
      exact ⟨e, by rw [hE, if_neg hXA]; exact he, hec⟩

/-! ## C14: `AddEntity` and the point lookups -/

/-- The first `Next` on a valid iterator whose snapshot is one entry with one view of one id:
it returns `true`, and `GetEntities` then shows that id. -/
theorem Next_single (It : FMantleIterator) (mr : FMantleDBMasterRecord) (Id : FGuid)
    (hv : It.IsValid mr = true) (hE : It.EntryIndex = -1) (hC : It.ChunkIndex = 0)
    (hM : It.LocalCache.MatchingEntries.map (fun CE => CE.ChunkedEntityIds) = [[[Id]]]) :
    (It.Next mr).1 = true ∧ (It.Next mr).2.GetEntities mr = [Id] := by
  obtain ⟨CE, hCE, hIds⟩ : ∃ CE, It.LocalCache.MatchingEntries = [CE] ∧
      CE.ChunkedEntityIds = [[Id]] := by
    cases hl : It.LocalCache.MatchingEntries with
    | nil => rw [hl] at hM; cases hM
    | cons CE rest =>
      rw [hl] at hM
      cases rest with
      | nil =>
        simp only [List.map_cons, List.map_nil, List.cons.injEq, and_true] at hM
        exact ⟨CE, rfl, hM⟩
      | cons _ _ => simp at hM
  have hnext : It.Next mr = (true, { It with EntryIndex := 0 }) := by
    unfold FMantleIterator.Next
    rw [if_neg (by rw [hv]; decide)]
    simp only [hCE, hE, List.length_singleton]
    rfl
  have hv1 : FMantleIterator.IsValid { It with EntryIndex := 0 } mr = true := hv
  rw [hnext]
  refine ⟨rfl, ?_⟩
  unfold FMantleIterator.GetEntities
  rw [if_neg (by rw [hv1]; decide)]
  simp only [FMantleIterator.EntryAt, hCE, hC, List.length_singleton]
  have h0 : Int.toNat 0 = 0 := rfl
  rw [h0, List.getD_cons_zero, hIds]
  simp

theorem HasEntity_eq_true_iff (db : UMantleDB) (k : FGuid) :
    db.HasEntity k = true ↔ k ≠ 0 ∧ ∃ E, db.MasterRecord.EntitiesById.Find k = some E := by
  unfold UMantleDB.HasEntity
  rw [Bool.and_eq_true, TMap.Contains_eq_true_iff]
  simp

/-- C14 (amended). In a well-formed store (`StoreOk`, `PoolOk`, and the invariant of the cache
protocol), let `S` be templates of pairwise different registered types, each valid (non-empty
name, positive size and alignment), such that `S` is empty or the chunk capacity of the
archetype of `S` is at least one. Then `AddEntity(S)` returns an id that is not zero and that
no entity had before; `HasEntity` is true for it; `GetComponent` returns the template for
every type of `S`; for every registered type outside `S`, `HasComponent` is false and
`GetComponent` returns nothing; and every entity that was live before is still live, with its
archetype and with the same `GetComponent` value for every type. -/
theorem C14_add_entity (db : UMantleDB) (S : List FInstancedStruct) (fuel : Nat)
    (hstore : StoreOk db) (hpool : PoolOk db) (hcache : CacheInv db)
    (hS : (S.map (fun p => p.TypeName)).Nodup)
    (hreg : ∀ p ∈ S, ∃ Info, db.MasterRecord.ComponentInfoMap.Find p.TypeName = some Info ∧
      FMantleDBChunk.ValidateComponentInfo Info = true)
    (hcap : S = [] ∨
      ∃ Chunk,
        FMantleDBChunk.Ctor 0
            (db.FillArchetype (ZeroBits db.MasterRecord.ComponentInfoMap.length)
              (S.map (fun p => p.TypeName)))
            db.MasterRecord = .ok Chunk ∧
          1 ≤ Chunk.TotalCapacity)
    (hfuel : 1 ≤ fuel) :
    ∃ db1 Id, db.AddEntity fuel S = .ok (db1, Id) ∧ Id ≠ 0 ∧
      db.HasEntity Id = false ∧ db1.HasEntity Id = true ∧
      (∀ p ∈ S, db1.GetComponent p.TypeName Id = some p.Memory) ∧
      (∀ T, db.MasterRecord.ComponentInfoMap.Contains T = true →
        T ∉ S.map (fun p => p.TypeName) →
        db1.HasComponent T Id = false ∧ db1.GetComponent T Id = none) ∧
      (∀ Id1, db.HasEntity Id1 = true →
        db1.HasEntity Id1 = true ∧
        (db1.MasterRecord.EntitiesById.Find Id1).map (fun E => E.Archetype) =
          (db.MasterRecord.EntitiesById.Find Id1).map (fun E => E.Archetype) ∧
        ∀ T, db1.GetComponent T Id1 = db.GetComponent T Id1) := by
  obtain ⟨k, hk⟩ : ∃ k, fuel = k + 1 := ⟨fuel - 1, by omega⟩
  subst hk
  obtain ⟨db1, It, Id, ChunkId, Index, c1, hrun, hv, hE, hC, hM, _, hle, hrec, hregs, hchunk,
      hcti, hnew, hkeep⟩ :=
    AddEntities_one db S k _ hstore hpool hcache rfl hS hreg hcap
  obtain ⟨n1, n2⟩ := Next_single It db1.MasterRecord Id hv hE hC hM
  have hcols := (PresentTypes_templates db S _ hstore.registry rfl hreg).1
  have hfindNew : db1.MasterRecord.EntitiesById.Find Id =
      some { Id := Id,
             Archetype := db.FillArchetype (ZeroBits db.MasterRecord.ComponentInfoMap.length)
               (S.map (fun p => p.TypeName)),
             ChunkId := ChunkId, Index := Index } := by
    rw [hrec]
    exact TMap.Find_Add_self _ _ _
  have hnone : db.MasterRecord.EntitiesById.Find Id = none := by
    cases hf : db.MasterRecord.EntitiesById.Find Id with
    | none => rfl
    | some E => exact absurd (hpool.ids_lt Id E hf) (Nat.not_lt.2 hle)
  have hpos : Id ≠ 0 := Nat.pos_iff_ne_zero.1 (Nat.lt_of_lt_of_le hpool.guid_pos hle)
  have hbit : ∀ T Info, db.MasterRecord.ComponentInfoMap.Find T = some Info →
      (GetBit (db.FillArchetype (ZeroBits db.MasterRecord.ComponentInfoMap.length)
        (S.map (fun p => p.TypeName))) Info.ArchetypeIndex = true ↔
        T ∈ S.map (fun p => p.TypeName)) := fun T Info h =>
    FillArchetype_bit_iff db _ hstore.registry (T, Info) (TMap.Find_mem h)
  refine ⟨db1, Id, ?_, hpos, ?_, ?_, ?_, ?_, ?_⟩
  · unfold UMantleDB.AddEntity UMantleDB.AddEntityAndIterate
    rw [hrun]
    simp only
    rw [if_neg (by rw [n1, n2]; simp), n2]
    rfl
  · rw [HasEntity_eq_false_iff]
    exact Or.inr hnone
  · rw [HasEntity_eq_true_iff]
    exact ⟨hpos, _, hfindNew⟩
  · intro p hp
    obtain ⟨Info, h1, _⟩ := hreg p hp
    obtain ⟨Info1, h2⟩ := hcols p hp
    unfold UMantleDB.GetComponent
    rw [hfindNew]
    simp only
    have hhas : db1.MasterRecord.ArchetypeHasComponent
        (db.FillArchetype (ZeroBits db.MasterRecord.ComponentInfoMap.length)
          (S.map (fun p => p.TypeName))) p.TypeName = true := by
      unfold FMantleDBMasterRecord.ArchetypeHasComponent
      rw [hregs, h1]
      exact (hbit p.TypeName Info h1).2 (List.mem_map.2 ⟨p, hp, rfl⟩)
    rw [if_neg (by rw [hhas]; decide), hchunk]
    simp only
    unfold FMantleDBChunk.GetComponent FMantleDBChunk.GetComponentInternal
    rw [hcti, h2]
    simp only
    rw [hnew p hp]
  · intro T hT hTS
    obtain ⟨Info, h1⟩ := (TMap.Contains_eq_true_iff _ _).1 hT
    have hhas : db1.MasterRecord.ArchetypeHasComponent
        (db.FillArchetype (ZeroBits db.MasterRecord.ComponentInfoMap.length)
          (S.map (fun p => p.TypeName))) T = false := by
      unfold FMantleDBMasterRecord.ArchetypeHasComponent
      rw [hregs, h1]
      simp only
      cases hb : GetBit (db.FillArchetype (ZeroBits db.MasterRecord.ComponentInfoMap.length)
        (S.map (fun p => p.TypeName))) Info.ArchetypeIndex with
      | false => rfl
      | true => exact absurd ((hbit T Info h1).1 hb) hTS
    constructor
    · unfold UMantleDB.HasComponent
      rw [hfindNew]
      exact hhas
    · unfold UMantleDB.GetComponent
      rw [hfindNew]
      simp only
      rw [if_pos hhas]
  · intro Id1 hlive
    obtain ⟨h0, E, hfE⟩ := (HasEntity_eq_true_iff db Id1).1 hlive
    have hne : Id1 ≠ Id := Nat.ne_of_lt (Nat.lt_of_lt_of_le (hpool.ids_lt Id1 E hfE) hle)
    have hfE1 : db1.MasterRecord.EntitiesById.Find Id1 = some E := by
      rw [hrec, TMap.Find_Add_of_ne _ _ _ _ hne]
      exact hfE
    refine ⟨(HasEntity_eq_true_iff db1 Id1).2 ⟨h0, E, hfE1⟩, by rw [hfE1, hfE], fun T => ?_⟩
    obtain ⟨Chunk, hChunk, hslot⟩ := hstore.located.record_located Id1 E hfE
    obtain ⟨c2, hc2, hcti2, hblob2⟩ := hkeep _ _ _ hChunk
    have hidx : E.Index < Chunk.EntityIds.length :=
      (List.getElem?_eq_some_iff.1 hslot).1
    unfold UMantleDB.GetComponent
    rw [hfE1, hfE]
    simp only
    have hhas : db1.MasterRecord.ArchetypeHasComponent E.Archetype T =
        db.MasterRecord.ArchetypeHasComponent E.Archetype T := by
      unfold FMantleDBMasterRecord.ArchetypeHasComponent
      rw [hregs]
    rw [hhas, hc2, hChunk]
    simp only
    unfold FMantleDBChunk.GetComponent FMantleDBChunk.GetComponentInternal
    rw [hcti2, hblob2 T E.Index hidx]

/-! ## C14 on the database with two archetypes -/

/-- The entries of `TwoTypeDB`, their chunks and the slots of the chunks, checked one by
one. -/
theorem TwoTypeDB_entries :
    ∀ p ∈ TwoTypeDB.EntriesByArchetype,
      p.2.Archetype = p.1 ∧ (p.2.Chunks.map (fun q => q.1)).Nodup ∧
      (∀ T ∈ p.2.ComponentTypes,
        ((FMantleDBChunk.PresentTypes p.1 TwoTypeDB.MasterRecord).Find T).isSome = true) ∧
      ∀ q ∈ p.2.Chunks,
        q.2.ChunkId = q.1 ∧ q.2.Archetype = p.1 ∧
        q.2.ComponentTypeInfo = FMantleDBChunk.PresentTypes p.1 TwoTypeDB.MasterRecord ∧
        q.2.bBlobAllocated = true ∧ q.1 < TwoTypeDB.MasterRecord.NextGuid ∧
        q.2.EntityIds.length < q.2.TotalCapacity ∧
        ∀ i ∈ List.range q.2.EntityIds.length,
          TwoTypeDB.MasterRecord.EntitiesById.Find (q.2.EntityIds.getD i 0) =
            some { Id := q.2.EntityIds.getD i 0, Archetype := p.1, ChunkId := q.1,
                   Index := i } := by
  decide

/-- The records of `TwoTypeDB`, checked one by one. -/
theorem TwoTypeDB_located :
    ∀ p ∈ TwoTypeDB.MasterRecord.EntitiesById,
      p.2.Id = p.1 ∧ p.1 < TwoTypeDB.MasterRecord.NextGuid ∧
      (TwoTypeDB.GetChunk p.2.Archetype p.2.ChunkId).map
          (fun c => c.EntityIds[p.2.Index]?) = some (some p.1) := by
  decide

theorem TwoTypeDB_registry : RegistryOk TwoTypeDB.MasterRecord.ComponentInfoMap :=
  ⟨by decide, by decide, by decide, by decide⟩

theorem TwoTypeDB_store : StoreOk TwoTypeDB := by
  refine ⟨TwoTypeDB_registry, ?_, ⟨?_, ?_⟩, ?_⟩
  · intro Id E h
    exact (TwoTypeDB_located (Id, E) (TMap.Find_mem h)).1
  · intro Id E h
    have h1 := (TwoTypeDB_located (Id, E) (TMap.Find_mem h)).2.2
    cases hc : TwoTypeDB.GetChunk E.Archetype E.ChunkId with
    | none => rw [hc] at h1; cases h1
    | some Chunk =>
      rw [hc] at h1
      injection h1 with h1
      exact ⟨Chunk, rfl, h1⟩
  · intro A ChunkId Chunk i Id hc hs
    obtain ⟨e, he, hec⟩ := (GetChunk_eq_some_iff _ _ _ _).1 hc
    obtain ⟨hlt, hget⟩ := List.getElem?_eq_some_iff.1 hs
    have h1 := (TwoTypeDB_entries (A, e) (TMap.Find_mem he)).2.2.2 (ChunkId, Chunk)
      (TMap.Find_mem hec)
    have h2 := h1.2.2.2.2.2.2 i (List.mem_range.2 hlt)
    have h3 : Chunk.EntityIds.getD i 0 = Id := by
      rw [List.getD_eq_getElem?_getD, hs]
      rfl
    rw [h3] at h2
    exact ⟨_, h2, rfl, rfl, rfl⟩
  · intro X e he
    obtain ⟨a1, a2, _, a4⟩ := TwoTypeDB_entries (X, e) (TMap.Find_mem he)
    refine ⟨a1, a2, fun Id Chunk hf => ?_⟩
    obtain ⟨b1, b2, b3, b4, b5, _⟩ := a4 (Id, Chunk) (TMap.Find_mem hf)
    exact ⟨b1, b2, b3, fun _ _ => b4, b5⟩

theorem TwoTypeDB_pool : PoolOk TwoTypeDB := by
  refine ⟨?_, ?_, ?_, by decide, ?_⟩
  · intro X e he T hT
    have h := (TwoTypeDB_entries (X, e) (TMap.Find_mem he)).2.2.1 T hT
    exact Option.isSome_iff_exists.1 h
  · intro X hX
    have h : ∀ Y ∈ TwoTypeDB.ActiveArchetypes,
        (TwoTypeDB.EntriesByArchetype.Find Y).isSome = true := by decide
    exact Option.isSome_iff_exists.1 (h X hX)
  · intro X e he _ Id _ Chunk hf
    exact ((TwoTypeDB_entries (X, e) (TMap.Find_mem he)).2.2.2 (Id, Chunk)
      (TMap.Find_mem hf)).2.2.2.2.2.1
  · intro Id E h
    exact (TwoTypeDB_located (Id, E) (TMap.Find_mem h)).2.1

/-- C14 on `TwoTypeDB`, which holds the entity 2 with the position 10 and the entity 4 with
the position 20 and the velocity 21: `AddEntity` with the position 30 returns the id 5; the
new entity has that position and no velocity, and the entities 2 and 4 keep their values. -/
theorem C14_add_entity_witness :
    ∃ db1, TwoTypeDB.AddEntity 1 [⟨"Position", 30⟩] = .ok (db1, 5) ∧
      TwoTypeDB.HasEntity 5 = false ∧ db1.HasEntity 5 = true ∧
      db1.GetComponent "Position" 5 = some 30 ∧
      db1.HasComponent "Velocity" 5 = false ∧ db1.GetComponent "Velocity" 5 = none ∧
      db1.GetComponent "Position" 2 = some 10 ∧ db1.GetComponent "Position" 4 = some 20 ∧
      db1.GetComponent "Velocity" 4 = some 21 := by
  obtain ⟨db1, Id, h1, _, h3, h4, h5, h6, h7⟩ :=
    C14_add_entity TwoTypeDB [⟨"Position", 30⟩] 1 TwoTypeDB_store TwoTypeDB_pool
      TwoTypeDB_reachable.inv (by decide)
      (by
        intro p hp
        rw [List.mem_singleton.1 hp]
        exact ⟨⟨"Position", 0, 12, 4⟩, by decide, by decide⟩)
      (Or.inr ⟨_, rfl, by decide⟩) (le_refl _)
  have hId : Id = 5 := by
    have h := h1
    have hrun : ∃ r, TwoTypeDB.AddEntity 1 [⟨"Position", 30⟩] = .ok r ∧ r.2 = 5 :=
      ⟨_, rfl, rfl⟩
    obtain ⟨r, hr, hr5⟩ := hrun
    rw [hr] at h
    injection h with h
    rw [← hr5, h]
  subst hId
  refine ⟨db1, h1, h3, h4, h5 ⟨"Position", 30⟩ (List.mem_singleton.2 rfl),
    (h6 "Velocity" (by decide) (by decide)).1, (h6 "Velocity" (by decide) (by decide)).2,
    ((h7 2 (by decide)).2.2 "Position").trans (by decide),
    ((h7 4 (by decide)).2.2 "Position").trans (by decide),
    ((h7 4 (by decide)).2.2 "Velocity").trans (by decide)⟩

/-- C14 as written fails for a registered type that does not fit into a chunk: with a chunk
byte budget of 1024 and one registered type of 2000 bytes, `AddEntity` with one payload of
that type ends in the fatal error of the chunk constructor and returns no id. -/
theorem C14_oversize_type_returns_no_id :
    ∃ db0, ({} : UMantleDB).Initialize [some ⟨"Big", 2000, 16⟩] 1024 = .ok db0 ∧
      db0.MasterRecord.ComponentInfoMap.Contains "Big" = true ∧
      ∀ fuel, db0.AddEntity (fuel + 1) [⟨"Big", 7⟩] =
        .error (.Fatal "MantleDB does not support entity size.") :=
  ⟨_, rfl, rfl, fun _ => rfl⟩

/-! ## C11: the version number of a cached query wraps around -/

/-- `AddEntities` for an archetype whose query is cached: when the query is stored with a valid
version after the call, its version number is the successor, modulo `2 ^ 32`, of the number
before the call. -/
theorem AddEntities_number {db db1 : UMantleDB} {fuel : Nat} {S : List FInstancedStruct}
    {n : Nat} {It1 : FMantleIterator} (hinv : CacheInv db)
    (h : db.AddEntities fuel S n = .ok (db1, It1)) (A : TBitArray)
    (hA : db.FillArchetype (ZeroBits db.MasterRecord.ComponentInfoMap.length)
      (S.map (fun p => p.TypeName)) = A)
    (CQ : FMantleCachedQuery) (hQ : db.MasterRecord.CachedQueries.Find A = some CQ) :
    ∃ CQ1, db1.MasterRecord.CachedQueries.Find A = some CQ1 ∧
      (CQ1.Version.bIsValid = true →
        CQ1.Version.VersionNumber = (CQ.Version.VersionNumber + 1) % 2 ^ 32) := by
  obtain ⟨_, db2, k, _, hmod, hdb1⟩ := AddEntities_trace hinv h
  rw [hA] at k hmod hdb1
  obtain ⟨CQg, q1, q2, _⟩ := GetOrCreateEntry_query db A A hinv CQ hQ
  obtain ⟨CQ3, c1, c2, c3⟩ := Invalidated_query (GetOrCreateEntry_inv db A hinv).1 k
    (Invalidated.single db2 A) (List.mem_singleton.2 rfl)
    (GetOrCreateEntry_active db A hinv).1 (BitwiseAND_self A) q1
  obtain ⟨_, _, _, _, ⟨CQ1, r1, r2, _⟩, _⟩ := RunQueryInternal_inv _ A hmod
  rw [hdb1]
  refine ⟨CQ1, r1, fun hv1 => ?_⟩
  rcases r2 with r2 | r2 | r2
  · rw [c1] at r2
    injection r2 with r2
    rw [← r2, c3] at hv1
    cases hv1
  · rw [r2, c1]
    simp only [Option.getD_some]
    rw [← q2, ← c2]
    rfl
  · rw [r2] at hv1
    cases hv1

theorem GetChunk_lookups {db db1 : UMantleDB} (h : SameLookups db db1) (X : TBitArray)
    (Id : FGuid) : db1.GetChunk X Id = db.GetChunk X Id := by
  unfold UMantleDB.GetChunk
  rw [h.1 X]

theorem StoreOk_of_lookups {db db1 : UMantleDB} (h : SameLookups db db1) (hs : StoreOk db) :
    StoreOk db1 := by
  obtain ⟨h1, h2, h3, h4, h5, h6⟩ := h
  refine ⟨h4 ▸ hs.registry, ?_, ⟨?_, ?_⟩, ?_⟩
  · intro Id E hE
    exact hs.keyed Id E (h3 ▸ hE)
  · intro Id E hE
    rw [GetChunk_lookups ⟨h1, h2, h3, h4, h5, h6⟩]
    exact hs.located.record_located Id E (h3 ▸ hE)
  · intro X Cid Chunk i Id hc hi
    rw [GetChunk_lookups ⟨h1, h2, h3, h4, h5, h6⟩] at hc
    rw [h3]
    exact hs.located.slot_recorded X Cid Chunk i Id hc hi
  · intro X e he
    exact (hs.entries X e (h1 X ▸ he)).mono h4 (le_of_eq h6.symm)

theorem PoolOk_of_lookups {db db1 : UMantleDB} (h : SameLookups db db1) (hp : PoolOk db) :
    PoolOk db1 := by
  obtain ⟨h1, h2, h3, h4, h5, h6⟩ := h
  refine ⟨?_, ?_, ?_, h6 ▸ hp.guid_pos, ?_⟩
  · intro X e he T hT
    rw [PresentTypes_congr h4]
    exact hp.entry_types X e (h1 X ▸ he) T hT
  · intro X hX
    rw [h1 X]
    exact hp.active_entry X (h2 ▸ hX)
  · intro X e he
    exact hp.stack_room X e (h1 X ▸ he)
  · intro Id E hE
    rw [h6]
    exact hp.ids_lt Id E (h3 ▸ hE)

theorem TwoTypeDB_fill :
    TwoTypeDB.FillArchetype (ZeroBits TwoTypeDB.MasterRecord.ComponentInfoMap.length)
      ["Position"] = [true, false] := by
  decide

theorem Fill_lookups {db : UMantleDB} (hJ : SameLookups TwoTypeDB db) :
    db.FillArchetype (ZeroBits db.MasterRecord.ComponentInfoMap.length) ["Position"] =
      [true, false] := by
  rw [hJ.2.2.2.1, FillArchetype_congr db TwoTypeDB hJ.2.2.2.1]
  exact TwoTypeDB_fill

/-- One call of `AddEntities` with a `Position` template and zero entities, in a state with the
store of `TwoTypeDB` in which the query for `Position` is cached: the store stays the same,
and the query is stored with a valid version whose number is the successor modulo `2 ^ 32`. -/
theorem AddNothing_step (db : UMantleDB) (hinv : CacheInv db) (hJ : SameLookups TwoTypeDB db)
    (CQ : FMantleCachedQuery)
    (hQ : db.MasterRecord.CachedQueries.Find [true, false] = some CQ) :
    ∃ db1 It1 CQ1, db.AddEntities 0 [⟨"Position", 0⟩] 0 = .ok (db1, It1) ∧
      CacheInv db1 ∧ SameLookups TwoTypeDB db1 ∧
      db1.MasterRecord.CachedQueries.Find [true, false] = some CQ1 ∧
      CQ1.Version.bIsValid = true ∧
      CQ1.Version.VersionNumber = (CQ.Version.VersionNumber + 1) % 2 ^ 32 := by
  have hA := Fill_lookups hJ
  obtain ⟨h1, h2, h3, h4, h5, h6⟩ := hJ
  obtain ⟨e, he0⟩ : ∃ e, TwoTypeDB.EntriesByArchetype.Find [true, false] = some e := ⟨_, rfl⟩
  have he : db.EntriesByArchetype.Find [true, false] = some e := (h1 _).trans he0
  have hg := GetOrCreateEntry_old db [true, false] e he
  have hadd : (db.GetOrCreateEntry [true, false]).2.AddEntities 0
      (db.GetOrCreateEntry [true, false]).1.MasterRecord [⟨"Position", 0⟩] 0
      { Archetype := [true, false] } = .ok (e, db.MasterRecord, { Archetype := [true, false] }) := by
    rw [hg]
    exact Entry_AddEntities_zero 0 e db.MasterRecord _ _
  obtain ⟨db3, _, hmod, d1, d2, d3, d4, d5, d6, hrun⟩ :=
    AddEntities_explicit db 0 [⟨"Position", 0⟩] 0 [true, false] hinv hA e db.MasterRecord
      { Archetype := [true, false] } hadd
  rw [hg] at d1 d2
  obtain ⟨r1, ⟨s1, s2, _, s4, s5, s6, s7⟩, _⟩ := RunQueryInternal_inv db3 [true, false] hmod
  have hE3 : ∀ X, db3.EntriesByArchetype.Find X = TwoTypeDB.EntriesByArchetype.Find X := by
    intro X
    rw [d1, TMap.Find_Add]
    split
    · rename_i hX
      rw [hX, he0]
    · exact h1 X
  obtain ⟨l, hl0⟩ : ∃ l, TwoTypeDB.ScratchLoop [true, false] TwoTypeDB.ActiveArchetypes =
      some l := ⟨_, rfl⟩
  have hl : db3.ScratchLoop [true, false] db3.ActiveArchetypes = some l := by
    rw [d2, h2, ← hl0]
    exact ScratchLoop_congr [true, false] _ (fun X _ _ => hE3 X)
  obtain ⟨CQ1, c1, c2⟩ := RunQueryInternal_valid db3 [true, false] hmod l hl
  obtain ⟨CQ2, n1, n2⟩ := AddEntities_number hinv hrun [true, false] hA CQ hQ
  rw [c1] at n1
  injection n1 with n1
  subst n1
  refine ⟨_, _, CQ1, hrun, r1, ⟨?_, ?_, ?_, ?_, ?_, ?_⟩, c1, c2, n2 c2⟩
  · intro X
    rw [s1]
    exact hE3 X
  · rw [s2, d2, h2]
  · rw [s4, d3, h3]
  · rw [s5, d4, h4]
  · rw [s6, d5, h5]
  · rw [s7, d6, h6]

/-- After `k` such calls the version number has grown by `k` modulo `2 ^ 32`. -/
theorem AddNothingRun_version : ∀ (k : Nat) (db : UMantleDB) (CQ : FMantleCachedQuery),
    CacheInv db → SameLookups TwoTypeDB db →
    db.MasterRecord.CachedQueries.Find [true, false] = some CQ →
    CQ.Version.bIsValid = true → CQ.Version.VersionNumber < 2 ^ 32 →
    ∃ db1 CQ1, AddNothingRun k db = .ok db1 ∧ CacheInv db1 ∧ SameLookups TwoTypeDB db1 ∧
      db1.MasterRecord.CachedQueries.Find [true, false] = some CQ1 ∧
      CQ1.Version.bIsValid = true ∧
      CQ1.Version.VersionNumber = (CQ.Version.VersionNumber + k) % 2 ^ 32
  | 0, db, CQ, hinv, hJ, hQ, hv, hlt =>
    ⟨db, CQ, rfl, hinv, hJ, hQ, hv, (Nat.mod_eq_of_lt hlt).symm⟩
  | k + 1, db, CQ, hinv, hJ, hQ, _, _ => by
    obtain ⟨db1, It1, CQ1, hrun, i1, j1, q1, v1, n1⟩ := AddNothing_step db hinv hJ CQ hQ
    obtain ⟨db2, CQ2, hrest, i2, j2, q2, v2, n2⟩ :=
      AddNothingRun_version k db1 CQ1 i1 j1 q1 v1
        (by rw [n1]; exact Nat.mod_lt _ (by decide))
    refine ⟨db2, CQ2, ?_, i2, j2, q2, v2, ?_⟩
    · rw [AddNothingRun, hrun]
      exact hrest
    · rw [n2, n1, Nat.mod_add_mod, Nat.add_right_comm, Nat.add_assoc]

theorem TwoTypeQueryPosition_lookups : SameLookups TwoTypeDB TwoTypeQueryPosition.1 := by
  have h : TwoTypeQueryPosition.1 =
      (TwoTypeDB.RunQueryInternal
        (TwoTypeDB.RunQuery { RequiredComponents := ["Position"] }).1.CachedArchetype).1 := rfl
  obtain ⟨_, ⟨s1, s2, _, s4, s5, s6, s7⟩, _⟩ :=
    RunQueryInternal_inv TwoTypeDB
      (TwoTypeDB.RunQuery { RequiredComponents := ["Position"] }).1.CachedArchetype
      TwoTypeDB_reachable.inv
  rw [h]
  exact ⟨fun X => by rw [s1], s2, s4, s5, s6, s7⟩

/-- C11 as written fails when the 32-bit version number of a cached query wraps around. The
iterator of the query for `Position` is taken in the database with two archetypes; then
`AddEntities` with a `Position` template and zero entities is called `2 ^ 32 - 1` times, each
call rebuilding the cached query and counting its version number up by one; then
`AddEntities` adds one entity with a `Position`, an archetype that is a superset of the query
mask. The rebuild of that call brings the version number back to the one the iterator holds,
and the iterator is valid after the call. -/
theorem C11_version_wraparound_keeps_iterator_valid :
    TwoTypeQueryPosition.2.IsValid TwoTypeQueryPosition.1.MasterRecord = true ∧
      TwoTypeQueryPosition.2.LocalCache.QueryArchetype = [true, false] ∧
      ∃ db db1 It1 Id,
        AddNothingRun (2 ^ 32 - 1) TwoTypeQueryPosition.1 = .ok db ∧
        db.AddEntities 1 [⟨"Position", 30⟩] 1 = .ok (db1, It1) ∧
        db.HasEntity Id = false ∧
        (db1.MasterRecord.EntitiesById.Find Id).map (fun E => E.Archetype) =
          some [true, false] ∧
        TwoTypeQueryPosition.2.IsValid db1.MasterRecord = true := by
  obtain ⟨CQ, hCQ, hver⟩ : ∃ CQ,
      TwoTypeQueryPosition.1.MasterRecord.CachedQueries.Find [true, false] = some CQ ∧
        CQ.Version = { VersionNumber := 2, bIsValid := true } := ⟨_, rfl, rfl⟩
  obtain ⟨db, CQd, hrun, hinv, hJ, hQd, hvd, hnd⟩ :=
    AddNothingRun_version (2 ^ 32 - 1) TwoTypeQueryPosition.1 CQ
      TwoTypeQueryPosition_reachable.inv TwoTypeQueryPosition_lookups hCQ
      (by rw [hver]) (by rw [hver]; decide)
  have hnd1 : CQd.Version.VersionNumber = 1 := by
    rw [hnd, hver]
    decide
  have hA := Fill_lookups hJ
  have hstore := StoreOk_of_lookups hJ TwoTypeDB_store
  have hpool := PoolOk_of_lookups hJ TwoTypeDB_pool
  obtain ⟨Chunk0, hC0, hcap0⟩ : ∃ Chunk, FMantleDBChunk.Ctor 0 [true, false]
      TwoTypeDB.MasterRecord = .ok Chunk ∧ 1 ≤ Chunk.TotalCapacity := ⟨_, rfl, by decide⟩
  obtain ⟨Chunk1, hC1, hcap1⟩ :=
    @Ctor_congr db.MasterRecord TwoTypeDB.MasterRecord hJ.2.2.2.1 hJ.2.2.2.2.1 0 [true, false]
      Chunk0 hC0 0
  obtain ⟨db1, It1, Id, ChunkId, Index, c1, hadd, _, _, _, _, ⟨CQ1, hQ1, hv1⟩, hle, hrec, _⟩ :=
    AddEntities_one db [⟨"Position", 30⟩] 0 [true, false] hstore hpool hinv hA (by decide)
      (by
        intro p hp
        rw [List.mem_singleton.1 hp, hJ.2.2.2.1]
        exact ⟨⟨"Position", 0, 12, 4⟩, by decide, by decide⟩)
      (Or.inr ⟨Chunk1, hC1, hcap1 ▸ hcap0⟩)
  obtain ⟨CQ2, n1, n2⟩ := AddEntities_number hinv hadd [true, false] hA CQd hQd
  rw [hQ1] at n1
  injection n1 with n1
  subst n1
  refine ⟨by decide, by decide, db, db1, It1, Id, hrun, hadd, ?_, ?_, ?_⟩
  · rw [HasEntity_eq_false_iff]
    right
    cases hf : db.MasterRecord.EntitiesById.Find Id with
    | none => rfl
    | some E => exact absurd (hpool.ids_lt Id E hf) (Nat.not_lt.2 hle)
  · rw [hrec, TMap.Find_Add_self]
    rfl
  · rw [IsValid_eq_true_iff]
    refine ⟨by decide, CQ1, ?_, hv1, ?_⟩
    · have hq : TwoTypeQueryPosition.2.LocalCache.QueryArchetype = [true, false] := by decide
      rw [hq]
      exact hQ1
    · rw [n2 hv1, hnd1]
      decide

/-! ## C11: an iterator becomes valid again only when the version number wraps around -/

theorem VersionsKept_refl (db : UMantleDB) (Q : TBitArray) : VersionsKept db db Q :=
  ⟨rfl, fun CQ h hv => ⟨CQ, h, hv⟩⟩

theorem VersionsKept_trans {db db1 db2 : UMantleDB} {Q : TBitArray}
    (h1 : VersionsKept db db1 Q) (h2 : VersionsKept db1 db2 Q) : VersionsKept db db2 Q := by
  refine ⟨h2.1.trans h1.1, fun CQ2 hf hv => ?_⟩
  obtain ⟨CQ1, f1, v1⟩ := h2.2 CQ2 hf hv
  exact h1.2 CQ1 f1 v1

theorem VersionsKept_of_caches {db db1 : UMantleDB} (Q : TBitArray)
    (h : CachesKept db.MasterRecord db1.MasterRecord) : VersionsKept db db1 Q := by
  unfold VersionsKept
  rw [h.1]
  exact ⟨rfl, fun CQ hf hv => ⟨CQ, hf, hv⟩⟩

theorem VersionsKept_of_invalidated {db db1 : UMantleDB} {L : List TBitArray} (Q : TBitArray)
    (h : Invalidated L db db1) : VersionsKept db db1 Q := by
  obtain ⟨_, _, a3, _, _, a6⟩ := h
  constructor
  · cases hf1 : db1.MasterRecord.CachedQueries.Find Q with
    | none =>
      cases hf : db.MasterRecord.CachedQueries.Find Q with
      | none => rfl
      | some CQ =>
        obtain ⟨CQ1, h1⟩ := a6 Q CQ hf
        rw [hf1] at h1
        cases h1
    | some CQ1 =>
      obtain ⟨CQ, c1, _, _, c4, _⟩ := a3 Q CQ1 hf1
      rw [c1]
      simp only [Option.map_some']
      rw [c4]
  · intro CQ1 hf1 hv
    obtain ⟨CQ, c1, _, _, _, c5⟩ := a3 Q CQ1 hf1
    exact ⟨CQ, c1, (c5 hv).1⟩

theorem VersionsKept_GetOrCreateEntry (db : UMantleDB) (A Q : TBitArray) (hinv : CacheInv db) :
    VersionsKept db (db.GetOrCreateEntry A).1 Q := by
  obtain ⟨_, _, _, _, _, _, _, _, g9⟩ := GetOrCreateEntry_inv db A hinv
  unfold VersionsKept
  rw [g9 Q]
  cases hf : db.MasterRecord.CachedQueries.Find Q with
  | none => exact ⟨rfl, fun CQ1 h _ => by cases h⟩
  | some CQ =>
    simp only [Option.map_some']
    refine ⟨?_, fun CQ1 h hv => ⟨CQ, rfl, ?_⟩⟩
    · split <;> rfl
    · injection h with h
      rw [← h] at hv
      split at hv
      · cases hv
      · exact hv

theorem IsValid_of_kept {db db1 : UMantleDB} (It : FMantleIterator)
    (h : VersionsKept db db1 It.LocalCache.QueryArchetype)
    (hv : It.IsValid db1.MasterRecord = true) : It.IsValid db.MasterRecord = true := by
  obtain ⟨hflag, CQ1, f1, v1, n1⟩ := (IsValid_eq_true_iff It db1.MasterRecord).1 hv
  obtain ⟨CQ, f, v⟩ := h.2 CQ1 f1 v1
  have hn := h.1
  rw [f1, f] at hn
  simp only [Option.map_some', Option.some.injEq] at hn
  exact (IsValid_eq_true_iff It db.MasterRecord).2 ⟨hflag, CQ, f, v, hn.symm.trans n1⟩

theorem StoredNumber_of_kept {db db1 : UMantleDB} {Q : TBitArray} (h : VersionsKept db db1 Q) :
    db1.StoredNumber Q = db.StoredNumber Q := by
  unfold UMantleDB.StoredNumber
  rw [h.1]

/-- An iterator that is valid after `RunQueryInternal` was valid before, or it holds the
successor modulo `2 ^ 32` of the version number its query was stored with. -/
theorem RunQueryInternal_revalidate (db : UMantleDB) (T : TBitArray) (It : FMantleIterator)
    (hinv : CacheInv db) (hv : It.IsValid (db.RunQueryInternal T).1.MasterRecord = true) :
    It.IsValid db.MasterRecord = true ∨
      It.LocalCache.Version.VersionNumber =
        (db.StoredNumber It.LocalCache.QueryArchetype + 1) % 2 ^ 32 := by
  obtain ⟨_, _, _, r4, ⟨CQ1, c1, c2, _⟩, _⟩ := RunQueryInternal_inv db T hinv
  obtain ⟨hflag, CQ, f, v, n⟩ := (IsValid_eq_true_iff It _).1 hv
  by_cases hT : It.LocalCache.QueryArchetype = T
  · rw [hT, c1] at f
    injection f with f
    subst f
    rcases c2 with c2 | c2 | c2
    · left
      exact (IsValid_eq_true_iff It db.MasterRecord).2 ⟨hflag, CQ1, hT ▸ c2, v, n⟩
    · right
      rw [← n, c2, hT]
      unfold UMantleDB.StoredNumber
      cases db.MasterRecord.CachedQueries.Find T <;> rfl
    · rw [c2] at v
      cases v
  · left
    rw [r4 _ hT] at f
    exact (IsValid_eq_true_iff It db.MasterRecord).2 ⟨hflag, CQ, f, v, n⟩

theorem RemoveEntities_revalidate {db db1 : UMantleDB} {ids : List FGuid} (hinv : CacheInv db)
    (h : db.RemoveEntities ids = .ok db1) (It : FMantleIterator)
    (hv : It.IsValid db1.MasterRecord = true) : It.IsValid db.MasterRecord = true := by
  obtain ⟨_, db2, M, ⟨_, t2, _⟩, hinval⟩ := RemoveEntities_trace hinv h
  exact IsValid_of_kept It
    (VersionsKept_trans (VersionsKept_of_caches _ t2) (VersionsKept_of_invalidated _ hinval)) hv

theorem AddEntities_revalidate {db db1 : UMantleDB} {fuel : Nat} {S : List FInstancedStruct}
    {n : Nat} {It1 : FMantleIterator} (hinv : CacheInv db)
    (h : db.AddEntities fuel S n = .ok (db1, It1)) (It : FMantleIterator)
    (hv : It.IsValid db1.MasterRecord = true) :
    It.IsValid db.MasterRecord = true ∨
      It.LocalCache.Version.VersionNumber =
        (db.StoredNumber It.LocalCache.QueryArchetype + 1) % 2 ^ 32 := by
  obtain ⟨_, db2, k, _, hmod, hdb1⟩ := AddEntities_trace hinv h
  have hkept := VersionsKept_trans
    (VersionsKept_trans (VersionsKept_GetOrCreateEntry db _ It.LocalCache.QueryArchetype hinv)
      (VersionsKept_of_caches _ k))
    (VersionsKept_of_invalidated It.LocalCache.QueryArchetype
      (Invalidated.single db2
        (db.FillArchetype (ZeroBits db.MasterRecord.ComponentInfoMap.length)
          (S.map (fun p => p.TypeName)))))
  rw [hdb1] at hv
  rcases RunQueryInternal_revalidate _ _ It hmod hv with h1 | h1
  · exact Or.inl (IsValid_of_kept It hkept h1)
  · exact Or.inr (h1.trans (by rw [StoredNumber_of_kept hkept]))

theorem UpdateEntities_revalidate {db db1 : UMantleDB} {fuel : Nat} {ids : List FGuid}
    {S : List FInstancedStruct} {R : List (Option FString)} {It1 : FMantleIterator}
    (hinv : CacheInv db) (h : db.UpdateEntities fuel ids S R = .ok (db1, It1))
    (It : FMantleIterator) (hv : It.IsValid db1.MasterRecord = true) :
    It.IsValid db.MasterRecord = true ∨
      It.LocalCache.Version.VersionNumber =
        (db.StoredNumber It.LocalCache.QueryArchetype + 1) % 2 ^ 32 := by
  obtain ⟨_, htr⟩ := UpdateEntities_trace hinv h
  rcases htr with ⟨h1, _⟩ | ⟨Old, Valid, db2, _, _, _, _, k, _, hmod, hdb1⟩
  · rw [h1] at hv
    exact Or.inl hv
  · have hinval : Invalidated
        [Old, db.FillArchetype Old (S.map (fun p => p.TypeName)) (R.filterMap id)] db2
        ((db2.EntryWasModified Old).EntryWasModified
          (db.FillArchetype Old (S.map (fun p => p.TypeName)) (R.filterMap id))) :=
      Invalidated.foldl _ db2
    have hkept := VersionsKept_trans
      (VersionsKept_trans (VersionsKept_GetOrCreateEntry db _ It.LocalCache.QueryArchetype hinv)
        (VersionsKept_of_caches _ k))
      (VersionsKept_of_invalidated It.LocalCache.QueryArchetype hinval)
    rw [hdb1] at hv
    rcases RunQueryInternal_revalidate _ _ It hmod hv with h1 | h1
    · exact Or.inl (IsValid_of_kept It hkept h1)
    · exact Or.inr (h1.trans (by rw [StoredNumber_of_kept hkept]))

/-- C11 (amended). In a reachable state `db`, let `It` be an iterator with the query mask `Q`
that is valid before the call, or that holds a version number other than the successor modulo
`2 ^ 32` of the number its query is stored with.
* After `AddEntities` whose target archetype is a superset of `Q`, `It` is not valid.
* After `RemoveEntities` whose id list holds a live entity of an archetype that is a superset
  of `Q` and whose chunk exists, `It` is not valid.
* After `UpdateEntities` that changes the database, where the live entities of the id list
  have the archetype `Old` and `Old` or the new archetype is a superset of `Q`, `It` is not
  valid. -/
theorem C11_iterator_invalidated (db : UMantleDB) (hreach : Reachable db) (It : FMantleIterator)
    (hstate : It.IsValid db.MasterRecord = true ∨
      (db.StoredNumber It.LocalCache.QueryArchetype + 1) % 2 ^ 32 ≠
        It.LocalCache.Version.VersionNumber) :

    (∀ (fuel : Nat) (S : List FInstancedStruct) (n : Nat) (db1 : UMantleDB)
        (It1 : FMantleIterator),
        db.AddEntities fuel S n = .ok (db1, It1) →
        BitwiseAND
            (db.FillArchetype (ZeroBits db.MasterRecord.ComponentInfoMap.length)
              (S.map (fun p => p.TypeName)))
            It.LocalCache.QueryArchetype = It.LocalCache.QueryArchetype →
        It.IsValid db1.MasterRecord = false) ∧
      (∀ (ids : List FGuid) (db1 : UMantleDB),
        db.RemoveEntities ids = .ok db1 →
        (∃ id ∈ ids, id ≠ 0 ∧ ∃ E, db.MasterRecord.EntitiesById.Find id = some E ∧
          (∃ c, db.GetChunk E.Archetype E.ChunkId = some c) ∧
          BitwiseAND E.Archetype It.LocalCache.QueryArchetype = It.LocalCache.QueryArchetype) →
        It.IsValid db1.MasterRecord = false) ∧
      (∀ (fuel : Nat) (ids : List FGuid) (S : List FInstancedStruct)
        (R : List (Option FString)) (db1 : UMantleDB) (It1 : FMantleIterator)
        (Old : TBitArray),
        db.UpdateEntities fuel ids S R = .ok (db1, It1) → db1 ≠ db →
        (∀ id ∈ ids, ∀ E, db.MasterRecord.EntitiesById.Find id = some E → E.Archetype = Old) →
        (BitwiseAND Old It.LocalCache.QueryArchetype = It.LocalCache.QueryArchetype ∨
          BitwiseAND (db.FillArchetype Old (S.map (fun p => p.TypeName)) (R.filterMap id))
            It.LocalCache.QueryArchetype = It.LocalCache.QueryArchetype) →
        It.IsValid db1.MasterRecord = false) := by
  by_cases hvalid : It.IsValid db.MasterRecord = true
  · exact Valid_iterator_invalidated db hreach It hvalid
  · have hwrap := hstate.resolve_left hvalid
    have hinv := hreach.inv
    refine ⟨?_, ?_, ?_⟩
    · intro fuel S n db1 It1 h _
      cases hv : It.IsValid db1.MasterRecord with
      | false => rfl
      | true =>
        rcases AddEntities_revalidate hinv h It hv with h1 | h1
        · exact absurd h1 hvalid
        · exact absurd h1.symm hwrap
    · intro ids db1 h _
      cases hv : It.IsValid db1.MasterRecord with
      | false => rfl
      | true => exact absurd (RemoveEntities_revalidate hinv h It hv) hvalid
    · intro fuel ids S R db1 It1 Old h _ _ _
      cases hv : It.IsValid db1.MasterRecord with
      | false => rfl
      | true =>
        rcases UpdateEntities_revalidate hinv h It hv with h1 | h1
        · exact absurd h1 hvalid
        · exact absurd h1.symm hwrap

/-- C11 (amended) on the database with two archetypes, for the iterator of the query for
`Position`: it is valid after the query, and not valid after an entity with a `Position` is
added, after the entity 2 is removed, and after the entity 2 is given a `Velocity`. -/
theorem C11_iterator_invalidated_witness :
    TwoTypeQueryPosition.2.IsValid TwoTypeQueryPosition.1.MasterRecord = true ∧
      (∃ r, TwoTypeQueryPosition.1.AddEntities 1 [⟨"Position", 30⟩] 1 = .ok r ∧
        TwoTypeQueryPosition.2.IsValid r.1.MasterRecord = false) ∧
      (∃ db1, TwoTypeQueryPosition.1.RemoveEntities [2] = .ok db1 ∧
        TwoTypeQueryPosition.2.IsValid db1.MasterRecord = false) ∧
      (∃ r, TwoTypeQueryPosition.1.UpdateEntities 4 [2] [⟨"Velocity", 31⟩] [] = .ok r ∧
        TwoTypeQueryPosition.2.IsValid r.1.MasterRecord = false) := by
  have hvalid : TwoTypeQueryPosition.2.IsValid TwoTypeQueryPosition.1.MasterRecord = true := by
    decide
  have h := C11_iterator_invalidated TwoTypeQueryPosition.1 TwoTypeQueryPosition_reachable
    TwoTypeQueryPosition.2 (Or.inl hvalid)
  obtain ⟨ra, hra⟩ : ∃ r, TwoTypeQueryPosition.1.AddEntities 1 [⟨"Position", 30⟩] 1 = .ok r :=
    ⟨_, rfl⟩
  obtain ⟨rr, hrr⟩ : ∃ r, TwoTypeQueryPosition.1.RemoveEntities [2] = .ok r := ⟨_, rfl⟩
  obtain ⟨ru, hru, hmoved⟩ :
      ∃ r, TwoTypeQueryPosition.1.UpdateEntities 4 [2] [⟨"Velocity", 31⟩] [] = .ok r ∧
        (r.1.MasterRecord.EntitiesById.Find 2).map (fun E => E.ChunkId) = some 3 :=
    ⟨_, rfl, rfl⟩
  refine ⟨hvalid, ⟨ra, hra, h.1 1 _ 1 ra.1 ra.2 hra (by decide)⟩,
    ⟨rr, hrr, h.2.1 [2] rr hrr ?_⟩,
    ⟨ru, hru, h.2.2 4 [2] _ [] ru.1 ru.2 [true, false] hru ?_ ?_ (Or.inl (by decide))⟩⟩
  · exact ⟨2, List.mem_singleton.2 rfl, by decide, _, TwoTypeQueryPosition_record, ⟨_, rfl⟩,
      by decide⟩
  · intro heq
    rw [heq, TwoTypeQueryPosition_record] at hmoved
    revert hmoved
    decide
  · intro i hi E hE
    rw [List.mem_singleton.1 hi, TwoTypeQueryPosition_record] at hE
    injection hE with hE
    rw [← hE]

/-! ## C26, C27: the query builder and the archetype of a list of names -/

theorem GetBit_ext (A B : TBitArray) (hlen : A.length = B.length)
    (h : ∀ i, GetBit A i = GetBit B i) : A = B := by
  apply List.ext_getElem hlen
  intro i h1 h2
  have := h i
  unfold GetBit at this
  rw [List.getD_eq_getElem?_getD, List.getD_eq_getElem?_getD, List.getElem?_eq_getElem h1,
    List.getElem?_eq_getElem h2] at this
  exact this

theorem FillArchetypeLoop_same_names (mr : FMantleDBMasterRecord) (Value : Bool)
    (Names1 Names2 : List FString) (A : TBitArray)
    (hidx : ∀ nm Info, mr.ComponentInfoMap.Find nm = some Info → Info.ArchetypeIndex < A.length)
    (hset : ∀ nm, nm ∈ Names1 ↔ nm ∈ Names2) :
    UMantleDB.FillArchetypeLoop mr Value Names1 A = UMantleDB.FillArchetypeLoop mr Value Names2 A := by
  apply GetBit_ext
  · rw [FillArchetypeLoop_length, FillArchetypeLoop_length]
  · intro i
    rw [FillArchetypeLoop_bit mr Value i Names1 A hidx, FillArchetypeLoop_bit mr Value i Names2 A hidx]
    apply if_congr _ rfl rfl
    constructor
    · rintro ⟨nm, h1, h2⟩
      exact ⟨nm, (hset nm).1 h1, h2⟩
    · rintro ⟨nm, h1, h2⟩
      exact ⟨nm, (hset nm).2 h1, h2⟩

/-- C27: the archetype that `FillArchetype` builds from the all-zero mask depends only on the
set of the names. For every database whose registered archetype indexes are in range and every
two lists of names with the same elements (in any order, with any repetitions) the two bitsets
are equal; hence `GetOrCreateEntry` resolves both to the same entry, payload lists with these
type names are given the same archetype by `AddEntities`, and uncompiled queries that require
the two lists are compiled to the same mask and get the same database and iterator from
`RunQuery`. -/
theorem C27_archetype_of_name_set (db : UMantleDB) (Names1 Names2 : List FString)
    (hidx : ∀ nm Info, db.MasterRecord.ComponentInfoMap.Find nm = some Info →
      Info.ArchetypeIndex < db.MasterRecord.ComponentInfoMap.length)
    (hset : ∀ nm, nm ∈ Names1 ↔ nm ∈ Names2) :
    db.FillArchetype (ZeroBits db.MasterRecord.ComponentInfoMap.length) Names1 =
        db.FillArchetype (ZeroBits db.MasterRecord.ComponentInfoMap.length) Names2 ∧
      db.GetOrCreateEntry
          (db.FillArchetype (ZeroBits db.MasterRecord.ComponentInfoMap.length) Names1) =
        db.GetOrCreateEntry
          (db.FillArchetype (ZeroBits db.MasterRecord.ComponentInfoMap.length) Names2) ∧
      (db.RunQuery { RequiredComponents := Names1 }).1.CachedArchetype =
        (db.RunQuery { RequiredComponents := Names2 }).1.CachedArchetype ∧
      (db.RunQuery { RequiredComponents := Names1 }).2 =
        (db.RunQuery { RequiredComponents := Names2 }).2 := by
  have h : db.FillArchetype (ZeroBits db.MasterRecord.ComponentInfoMap.length) Names1 =
      db.FillArchetype (ZeroBits db.MasterRecord.ComponentInfoMap.length) Names2 :=
    FillArchetypeLoop_same_names db.MasterRecord true Names1 Names2 _
      (fun nm Info hf => by rw [ZeroBits_length]; exact hidx nm Info hf) hset
  refine ⟨h, by rw [h], ?_, ?_⟩
  · show db.FillArchetype _ Names1 = db.FillArchetype _ Names2
    exact h
  · show db.RunQueryInternal (db.FillArchetype _ Names1) =
      db.RunQueryInternal (db.FillArchetype _ Names2)
    rw [h]

/-- C27 on `TwoTypeDB`: the lists `Velocity, Position, Velocity` and `Position, Velocity` give
the same archetype, the same entry, and the same query result. -/
theorem C27_archetype_of_name_set_witness :
    TwoTypeDB.FillArchetype (ZeroBits TwoTypeDB.MasterRecord.ComponentInfoMap.length)
          ["Velocity", "Position", "Velocity"] =
        TwoTypeDB.FillArchetype (ZeroBits TwoTypeDB.MasterRecord.ComponentInfoMap.length)
          ["Position", "Velocity"] ∧
      TwoTypeDB.GetOrCreateEntry
          (TwoTypeDB.FillArchetype (ZeroBits TwoTypeDB.MasterRecord.ComponentInfoMap.length)
            ["Velocity", "Position", "Velocity"]) =
        TwoTypeDB.GetOrCreateEntry
          (TwoTypeDB.FillArchetype (ZeroBits TwoTypeDB.MasterRecord.ComponentInfoMap.length)
            ["Position", "Velocity"]) ∧
      (TwoTypeDB.RunQuery { RequiredComponents := ["Velocity", "Position", "Velocity"] }).1.CachedArchetype =
        (TwoTypeDB.RunQuery { RequiredComponents := ["Position", "Velocity"] }).1.CachedArchetype ∧
      (TwoTypeDB.RunQuery { RequiredComponents := ["Velocity", "Position", "Velocity"] }).2 =
        (TwoTypeDB.RunQuery { RequiredComponents := ["Position", "Velocity"] }).2 :=
  C27_archetype_of_name_set TwoTypeDB ["Velocity", "Position", "Velocity"]
    ["Position", "Velocity"]
    (fun nm Info h => TwoTypeDB_registry.find_index_lt nm Info h)
    (by
      intro nm
      simp only [List.mem_cons, List.mem_singleton, List.not_mem_nil]
      tauto)

/-- C26: `AddRequiredComponent` is idempotent. For every query `q` and type name `T`, adding `T`
twice gives the same query object as adding it once, so the required-component lists are
equal and `RunQuery` on either returns the same result on every database; and for a query
that has been run, adding a type that is not yet required appends the type and empties the
cached mask, so that the next `RunQuery` compiles the mask of the enlarged requirement list
and answers with it. -/
theorem C26_require_idempotent (q : FMantleComponentQuery) (T : FString) :
    (q.AddRequiredComponent T).AddRequiredComponent T = q.AddRequiredComponent T ∧
      ((q.AddRequiredComponent T).AddRequiredComponent T).RequiredComponents =
        (q.AddRequiredComponent T).RequiredComponents ∧
      (∀ db : UMantleDB,
        db.RunQuery ((q.AddRequiredComponent T).AddRequiredComponent T) =
          db.RunQuery (q.AddRequiredComponent T)) ∧
      (∀ db : UMantleDB, T ∉ q.RequiredComponents →
        (db.RunQuery q).1.RequiredComponents = q.RequiredComponents ∧
          (((db.RunQuery q).1).AddRequiredComponent T).RequiredComponents =
            q.RequiredComponents ++ [T] ∧
          (((db.RunQuery q).1).AddRequiredComponent T).CachedArchetype = [] ∧
          ∀ db1 : UMantleDB,
            (db1.RunQuery (((db.RunQuery q).1).AddRequiredComponent T)).1.CachedArchetype =
                db1.FillArchetype (ZeroBits db1.MasterRecord.ComponentInfoMap.length)
                  (q.RequiredComponents ++ [T]) ∧
              (db1.RunQuery (((db.RunQuery q).1).AddRequiredComponent T)).2 =
                db1.RunQueryInternal
                  (db1.FillArchetype (ZeroBits db1.MasterRecord.ComponentInfoMap.length)
                    (q.RequiredComponents ++ [T]))) := by
  have hidem : (q.AddRequiredComponent T).AddRequiredComponent T = q.AddRequiredComponent T := by
    unfold FMantleComponentQuery.AddRequiredComponent
    by_cases h : T ∈ q.RequiredComponents
    · rw [if_pos h, if_pos h]
    · rw [if_neg h, if_pos (List.mem_append_right _ (List.mem_singleton.2 rfl))]
  refine ⟨hidem, by rw [hidem], fun db => by rw [hidem], fun db hT => ?_⟩
  have hreq : (db.RunQuery q).1.RequiredComponents = q.RequiredComponents := by
    unfold UMantleDB.RunQuery
    simp only
    split <;> rfl
  have hadd : ((db.RunQuery q).1).AddRequiredComponent T =
      { RequiredComponents := q.RequiredComponents ++ [T], CachedArchetype := [] } := by
    unfold FMantleComponentQuery.AddRequiredComponent
    rw [hreq, if_neg hT]
  rw [hadd]
  exact ⟨hreq, rfl, rfl, fun db1 => ⟨rfl, rfl⟩⟩

/-- C26 on `TwoTypeDB`: the query requiring a `Position` is compiled to the mask `[true, false]`
by its first run; requiring a `Velocity` as well empties the mask, and the next run compiles
the mask `[true, true]`. -/
theorem C26_require_idempotent_witness :
    "Velocity" ∉ ["Position"] ∧
      (TwoTypeDB.RunQuery { RequiredComponents := ["Position"] }).1.CachedArchetype =
        [true, false] ∧
      (((TwoTypeDB.RunQuery { RequiredComponents := ["Position"] }).1).AddRequiredComponent
        "Velocity").CachedArchetype = [] ∧
      (TwoTypeDB.RunQuery
        (((TwoTypeDB.RunQuery { RequiredComponents := ["Position"] }).1).AddRequiredComponent
          "Velocity")).1.CachedArchetype = [true, true] :=
  ⟨by decide, by decide,
    ((C26_require_idempotent { RequiredComponents := ["Position"] } "Velocity").2.2.2
      TwoTypeDB (by decide)).2.2.1,
    ((((C26_require_idempotent { RequiredComponents := ["Position"] } "Velocity").2.2.2
      TwoTypeDB (by decide)).2.2.2 TwoTypeDB).1).trans (by decide)⟩

/-! ## C22: the views of an iterator that is invalid, not advanced or exhausted, and the
views of component types an entry has no column for -/

theorem AppendView_Find (m : TMap FString (List (List Payload))) (T T1 : FString)
    (v : List Payload) (h : ((FMantleDBChunk.AppendView m T v).Find T1).isSome = true) :
    (m.Find T1).isSome = true ∨ T1 = T := by
  unfold FMantleDBChunk.AppendView at h
  rw [TMap.Find_Add] at h
  by_cases hT : T1 = T
  · exact Or.inr hT
  · rw [if_neg hT] at h
    exact Or.inl h

theorem RefreshChunkColumns_keys (c : FMantleDBChunk) : ∀ (Types : List FString)
    (m m1 : TMap FString (List (List Payload))),
    UMantleDB.RefreshChunkColumns c Types m = some m1 → ∀ T, (m1.Find T).isSome = true →
      (m.Find T).isSome = true ∨ T ∈ Types
  | [], m, m1, h, T, hT => by
    rw [UMantleDB.RefreshChunkColumns] at h
    cases h
    exact Or.inl hT
  | T0 :: rest, m, m1, h, T, hT => by
    rw [UMantleDB.RefreshChunkColumns] at h
    split at h
    · cases h
    · rcases RefreshChunkColumns_keys c rest _ m1 h T hT with h1 | h1
      · rcases AppendView_Find m T0 T _ h1 with h2 | h2
        · exact Or.inl h2
        · exact Or.inr (h2 ▸ List.mem_cons_self _ _)
      · exact Or.inr (List.mem_cons_of_mem _ h1)

theorem RefreshChunks_keys (e : FMantleDBEntry) : ∀ (ids : List FGuid) (CE : FMantleCachedEntry)
    (T : FString), ((UMantleDB.RefreshChunks e ids CE).1.ChunkedComponents.Find T).isSome = true →
      (CE.ChunkedComponents.Find T).isSome = true ∨ T ∈ e.ComponentTypes
  | [], CE, T, h => Or.inl h
  | Id :: rest, CE, T, h => by
    rw [UMantleDB.RefreshChunks] at h
    split at h
    · exact RefreshChunks_keys e rest CE T h
    · split at h
      · exact RefreshChunks_keys e rest CE T h
      · simp only at h
        split at h
        · exact Or.inl h
        · rename_i m hm
          rcases RefreshChunks_keys e rest _ T h with h1 | h1
          · exact RefreshChunkColumns_keys _ _ _ _ hm T h1
          · exact Or.inr h1

/-- A cached entry rebuilt from the entry of `X` has columns only for component types that
the entry lists. -/
theorem FreshEntry_keys (db : UMantleDB) (X : TBitArray) (T : FString)
    (h : ((db.FreshEntry X).1.ChunkedComponents.Find T).isSome = true) :
    ∃ e, db.EntriesByArchetype.Find X = some e ∧ T ∈ e.ComponentTypes := by
  unfold UMantleDB.FreshEntry UMantleDB.RefreshCachedEntry at h
  simp only at h
  cases hf : db.EntriesByArchetype.Find X with
  | none =>
    rw [hf] at h
    cases h
  | some e =>
    rw [hf] at h
    simp only at h
    refine ⟨e, rfl, ?_⟩
    have key : ((UMantleDB.RefreshChunks e e.AllChunkIds
        { Archetype := X, ChunkedComponents := [], ChunkedEntityIds := [] }
          ).1.ChunkedComponents.Find T).isSome = true := by
      split at h
      · exact h
      · exact h
    rcases RefreshChunks_keys e _ _ T key with h1 | h1
    · cases h1
    · exact h1

theorem ScratchLoop_mem (db : UMantleDB) (Q : TBitArray) : ∀ (L : List TBitArray)
    (l : List (TBitArray × List (List FGuid) × TMap FString (List (List Payload)))),
    db.ScratchLoop Q L = some l → ∀ d ∈ l, ∃ X ∈ L, d = (db.FreshEntry X).1.Data
  | [], l, h, d, hd => by
    rw [UMantleDB.ScratchLoop] at h
    cases h
    cases hd
  | X :: rest, l, h, d, hd => by
    rw [UMantleDB.ScratchLoop] at h
    split at h
    · obtain ⟨Y, hY, hdY⟩ := ScratchLoop_mem db Q rest l h d hd
      exact ⟨Y, List.mem_cons_of_mem _ hY, hdY⟩
    · split at h
      · cases h
      · cases hrest : db.ScratchLoop Q rest with
        | none => rw [hrest] at h; cases h
        | some l1 =>
          rw [hrest] at h
          cases h
          rcases List.mem_cons.1 hd with h1 | h1
          · exact ⟨X, List.mem_cons_self _ _, h1⟩
          · obtain ⟨Y, hY, hdY⟩ := ScratchLoop_mem db Q rest l1 hrest d h1
            exact ⟨Y, List.mem_cons_of_mem _ hY, hdY⟩

/-- The cached entries of the iterator of a query have columns only for component types that
the entry of their archetype lists. -/
theorem RunQueryInternal_columns (db : UMantleDB) (Q : TBitArray) (hinv : CacheInv db)
    (CE : FMantleCachedEntry)
    (hCE : CE ∈ (db.RunQueryInternal Q).2.LocalCache.MatchingEntries) (T : FString)
    (hT : (CE.ChunkedComponents.Find T).isSome = true) :
    ∃ e, db.EntriesByArchetype.Find CE.Archetype = some e ∧ T ∈ e.ComponentTypes := by
  obtain ⟨_, a2⟩ := RunQueryInternal_result db Q hinv
  have hmem : CE.Data ∈ (db.RunQueryInternal Q).2.LocalCache.MatchingEntries.map
      FMantleCachedEntry.Data := List.mem_map_of_mem _ hCE
  rw [a2] at hmem
  cases hs : db.ScratchLoop Q db.ActiveArchetypes with
  | none =>
    rw [hs] at hmem
    cases hmem
  | some l =>
    rw [hs] at hmem
    obtain ⟨X, _, hX⟩ := ScratchLoop_mem db Q _ l hs _ hmem
    have h1 : CE.Archetype = X := by
      have := congrArg (fun d => d.1) hX
      exact this.trans (FreshEntry_Archetype db X)
    have h2 : CE.ChunkedComponents = (db.FreshEntry X).1.ChunkedComponents :=
      congrArg (fun d => d.2.2) hX
    rw [h1]
    rw [h2] at hT
    exact FreshEntry_keys db X T hT

/-- C22: for every iterator and master record, the entity-id view and every column view are
empty when the iterator is invalid, when its entry index is negative (it has not been
advanced), and when its entry index is past the last entry (it is exhausted); the column view
of a component type the current cached entry has no column for is empty; and for a valid
iterator inside its entries the view of a type with a column is the view stored at the chunk
index, whatever other types were asked for. For the iterator `RunQuery` returns in a
reachable state, a cached entry has no column for a type that the entry of its archetype does
not list. -/
theorem C22_empty_views :
    (∀ (it : FMantleIterator) (mr : FMantleDBMasterRecord),
      ((it.IsValid mr = false ∨ it.EntryIndex < 0 ∨
          (it.LocalCache.MatchingEntries.length : Int) ≤ it.EntryIndex) →
        it.GetEntities mr = [] ∧ ∀ T, it.GetArrayView mr T = []) ∧
      (∀ T, (it.EntryAt it.EntryIndex).ChunkedComponents.Find T = none →
        it.GetArrayView mr T = []) ∧
      (∀ T Chunks, it.IsValid mr = true → 0 ≤ it.EntryIndex →
        it.EntryIndex < (it.LocalCache.MatchingEntries.length : Int) → 0 ≤ it.ChunkIndex →
        (it.EntryAt it.EntryIndex).ChunkedEntityIds.length ≠ 0 →
        (it.EntryAt it.EntryIndex).ChunkedComponents.Find T = some Chunks →
        it.ChunkIndex < (Chunks.length : Int) →
        it.GetArrayView mr T = Chunks.getD it.ChunkIndex.toNat [])) ∧
      (∀ (db : UMantleDB) (Query : FMantleComponentQuery), Reachable db →
        ∀ CE ∈ (db.RunQuery Query).2.2.LocalCache.MatchingEntries, ∀ T,
          (∀ e, db.EntriesByArchetype.Find CE.Archetype = some e → T ∉ e.ComponentTypes) →
          CE.ChunkedComponents.Find T = none) := by
  refine ⟨fun it mr => ⟨?_, ?_, ?_⟩, ?_⟩
  · intro h
    unfold FMantleIterator.GetEntities FMantleIterator.GetArrayView
      FMantleIterator.GetArrayViewInternal
    rcases h with h | h | h
    · rw [if_pos h]
      exact ⟨rfl, fun T => by rw [if_pos h]⟩
    · by_cases hv : it.IsValid mr = false
      · rw [if_pos hv]
        exact ⟨rfl, fun T => by rw [if_pos hv]⟩
      · rw [if_neg hv, if_pos (Or.inl h)]
        exact ⟨rfl, fun T => by rw [if_neg hv, if_pos (Or.inl h)]⟩
    · by_cases hv : it.IsValid mr = false
      · rw [if_pos hv]
        exact ⟨rfl, fun T => by rw [if_pos hv]⟩
      · rw [if_neg hv, if_pos (Or.inr h)]
        exact ⟨rfl, fun T => by rw [if_neg hv, if_pos (Or.inr (Or.inl h))]⟩
  · intro T hT
    unfold FMantleIterator.GetArrayView FMantleIterator.GetArrayViewInternal
    rw [hT]
    split
    · rfl
    · split
      · rfl
      · split <;> rfl
  · intro T Chunks hv h0 h1 h2 h3 hT h4
    unfold FMantleIterator.GetArrayView FMantleIterator.GetArrayViewInternal
    rw [hT, if_neg (by rw [hv]; exact Bool.noConfusion), if_neg, if_neg h3]
    · simp only
      rw [if_neg, if_neg (not_le.2 h4)]
      intro h5
      rw [h5] at h4
      exact absurd h4 (by omega)
    · rintro (h | h | h)
      · exact absurd h (not_lt.2 h0)
      · exact absurd h (not_le.2 h1)
      · exact absurd h (not_lt.2 h2)
  · intro db Query hreach CE hCE T hT
    cases hfind : CE.ChunkedComponents.Find T with
    | none => rfl
    | some v =>
      rw [RunQuery_eq] at hCE
      obtain ⟨e, he, hmem⟩ := RunQueryInternal_columns db _ hreach.inv CE hCE T
        (by rw [hfind]; rfl)
      exact absurd hmem (hT e he)

/-- C22 on the iterator of the query requiring a `Position`, run on `TwoTypeDB`: before the
first call of `Next` the views are empty; after it the iterator is at the chunk of the entity 2,
whose cached entry has no `Velocity` column: the `Velocity` view is empty, and the `Position`
view holds the position 10. -/
theorem C22_empty_views_witness :
    TwoTypeQueryPosition.2.EntryIndex < 0 ∧
      TwoTypeQueryPosition.2.GetEntities TwoTypeQueryPosition.1.MasterRecord = [] ∧
      TwoTypeQueryPosition.2.GetArrayView TwoTypeQueryPosition.1.MasterRecord "Position" = [] ∧
      ((TwoTypeQueryPosition.2.Next TwoTypeQueryPosition.1.MasterRecord).2.EntryAt
        (TwoTypeQueryPosition.2.Next
          TwoTypeQueryPosition.1.MasterRecord).2.EntryIndex).ChunkedComponents.Find "Velocity" =
        none ∧
      (TwoTypeQueryPosition.2.Next TwoTypeQueryPosition.1.MasterRecord).2.GetArrayView
        TwoTypeQueryPosition.1.MasterRecord "Velocity" = [] ∧
      (TwoTypeQueryPosition.2.Next TwoTypeQueryPosition.1.MasterRecord).2.GetArrayView
        TwoTypeQueryPosition.1.MasterRecord "Position" = [10] ∧
      (TwoTypeQueryPosition.2.Next TwoTypeQueryPosition.1.MasterRecord).2.GetEntities
        TwoTypeQueryPosition.1.MasterRecord = [2] :=
  ⟨by decide,
    ((C22_empty_views.1 TwoTypeQueryPosition.2 TwoTypeQueryPosition.1.MasterRecord).1
      (Or.inr (Or.inl (by decide)))).1,
    ((C22_empty_views.1 TwoTypeQueryPosition.2 TwoTypeQueryPosition.1.MasterRecord).1
      (Or.inr (Or.inl (by decide)))).2 "Position",
    by decide,
    (C22_empty_views.1 (TwoTypeQueryPosition.2.Next TwoTypeQueryPosition.1.MasterRecord).2
      TwoTypeQueryPosition.1.MasterRecord).2.1 "Velocity" (by decide),
    by decide, by decide⟩

/-! ## The shape of the entries is kept by every operation -/

theorem TMap.length_Add_of_Find {K V : Type} [DecidableEq K] (m : TMap K V) (k : K) (v v0 : V)
    (h : TMap.Find m k = some v0) : (TMap.Add m k v).length = m.length := by
  unfold TMap.Add
  rw [if_pos (TMap.Contains_of_Find h), List.length_map]

theorem TMap.Find_filter_isSome {K V : Type} [DecidableEq K] (m : TMap K V) (p : K × V → Bool)
    (k : K) (h : (TMap.Find (m.filter p) k).isSome = true) : (TMap.Find m k).isSome = true := by
  cases hf : TMap.Find (m.filter p) k with
  | none => rw [hf] at h; cases h
  | some v =>
    have hmem := (List.mem_filter.1 (TMap.Find_mem hf)).1
    cases hm : TMap.Find m k with
    | none => exact absurd rfl ((TMap.Find_eq_none_iff m k).1 hm (k, v) hmem)
    | some w => rfl

theorem EntryKeeps_refl (e : FMantleDBEntry) : EntryKeeps e e :=
  ⟨rfl, rfl, rfl, rfl, fun _ => rfl, fun _ h => h, fun _ c h => ⟨c, h, rfl⟩⟩

theorem EntryKeeps_trans {e e1 e2 : FMantleDBEntry} (h1 : EntryKeeps e e1)
    (h2 : EntryKeeps e1 e2) : EntryKeeps e e2 := by
  obtain ⟨a1, a2, a3, a4, a5, a6, a7⟩ := h1
  obtain ⟨b1, b2, b3, b4, b5, b6, b7⟩ := h2
  refine ⟨b1.trans a1, b2.trans a2, b3.trans a3, b4.trans a4, fun Id => (b5 Id).trans (a5 Id),
    fun Id h => b6 Id (a6 Id h), fun Id c2 hc2 => ?_⟩
  obtain ⟨c1, hc1, hcol1⟩ := b7 Id c2 hc2
  obtain ⟨c, hc, hcol⟩ := a7 Id c1 hc1
  exact ⟨c, hc, hcol1.trans hcol⟩

theorem EntryGrows_refl (e : FMantleDBEntry) : EntryGrows e e :=
  ⟨rfl, rfl, List.prefix_refl _⟩

theorem EntryGrows_trans {e e1 e2 : FMantleDBEntry} (h1 : EntryGrows e e1)
    (h2 : EntryGrows e1 e2) : EntryGrows e e2 :=
  ⟨h2.1.trans h1.1, h2.2.1.trans h1.2.1, h1.2.2.trans h2.2.2⟩

theorem EntryKeeps_grows {e e1 : FMantleDBEntry} (h : EntryKeeps e e1) : EntryGrows e e1 :=
  ⟨h.1, h.2.1, by rw [h.2.2.1]⟩

theorem EntryKeeps_shape {R : TMap FString FMantleComponentInfo} {e e1 : FMantleDBEntry}
    (h : EntryKeeps e e1) (hs : EntryShape R e) : EntryShape R e1 := by
  obtain ⟨a1, a2, a3, a4, a5, a6, a7⟩ := h
  refine ⟨fun hz => ?_, fun Id c1 hc1 T hT => ?_⟩
  · rw [a1] at hz
    obtain ⟨b1, b2, b3⟩ := hs.bare hz
    refine ⟨by rw [a4]; exact b1, by rw [a3, a4]; exact b2, fun hne => ?_⟩
    have hne0 : e.Chunks ≠ [] := by
      intro h0
      apply hne
      apply List.eq_nil_of_length_eq_zero
      rw [a4, h0]
      rfl
    obtain ⟨Id, hId, hfound⟩ := b3 hne0
    exact ⟨Id, a6 Id hId, by rw [a5]; exact hfound⟩
  · obtain ⟨c, hc, hcol⟩ := a7 Id c1 hc1
    rw [hcol] at hT
    exact hs.columns Id c hc T hT

/-- Storing a chunk with the same columns back under its id keeps the entry. -/
theorem EntryKeeps_store (e : FMantleDBEntry) (Id : FGuid) (c c1 : FMantleDBChunk)
    (hfind : e.Chunks.Find Id = some c) (hcol : c1.ComponentTypeInfo = c.ComponentTypeInfo) :
    EntryKeeps e { e with Chunks := e.Chunks.Add Id c1 } := by
  refine ⟨rfl, rfl, rfl, TMap.length_Add_of_Find _ _ _ _ hfind, fun k => ?_, fun _ h => h,
    fun k c2 hc2 => ?_⟩
  · show ((e.Chunks.Add Id c1).Find k).isSome = _
    rw [TMap.Find_Add]
    by_cases hk : k = Id
    · rw [if_pos hk, hk, hfind]
      rfl
    · rw [if_neg hk]
  · have hc2' : (e.Chunks.Add Id c1).Find k = some c2 := hc2
    rw [TMap.Find_Add] at hc2'
    by_cases hk : k = Id
    · rw [if_pos hk] at hc2'
      cases hc2'
      exact ⟨c, hk ▸ hfind, hcol⟩
    · rw [if_neg hk] at hc2'
      exact ⟨c2, hc2', rfl⟩

theorem EntryKeeps_MakeAvailable (e : FMantleDBEntry) (Id : FGuid) :
    EntryKeeps e (e.MakeAvailable Id) := by
  unfold FMantleDBEntry.MakeAvailable
  split
  · exact EntryKeeps_refl e
  · exact ⟨rfl, rfl, rfl, rfl, fun _ => rfl, fun k h => List.mem_cons_of_mem _ h,
      fun _ c h => ⟨c, h, rfl⟩⟩

theorem AddComponentsLoop_columns (Old k : Nat) : ∀ (Components : List FInstancedStruct)
    (c : FMantleDBChunk) (Out : FMantleCachedEntry) (c1 : FMantleDBChunk)
    (Out1 : FMantleCachedEntry),
      FMantleDBChunk.AddComponentsLoop Old k Components c Out = .ok (c1, Out1) →
      c1.ComponentTypeInfo = c.ComponentTypeInfo
  | [], c, Out, c1, Out1, h => by
    rw [FMantleDBChunk.AddComponentsLoop] at h
    injection h with h
    rw [← (Prod.mk.inj h).1]
  | p :: rest, c, Out, c1, Out1, h => by
    rw [FMantleDBChunk.AddComponentsLoop] at h
    split at h
    · cases h
    · split at h
      · cases h
      · exact (AddComponentsLoop_columns Old k rest _ _ c1 Out1 h).trans rfl

theorem Chunk_AddEntities_columns {c : FMantleDBChunk} {mr : FMantleDBMasterRecord}
    {Components : List FInstancedStruct} {n : Nat} {Out : FMantleCachedEntry} {k : Nat}
    {c1 : FMantleDBChunk} {mr1 : FMantleDBMasterRecord} {Out1 : FMantleCachedEntry}
    (h : c.AddEntities mr Components n Out = .ok (k, c1, mr1, Out1)) :
    c1.ComponentTypeInfo = c.ComponentTypeInfo ∧ mr1.ComponentInfoMap = mr.ComponentInfoMap := by
  unfold FMantleDBChunk.AddEntities at h
  split at h
  · cases h
    exact ⟨rfl, rfl⟩
  · split at h
    · cases h
      obtain ⟨r1, _, _, r4, _, _, _⟩ := RegisterEntities_spec c mr n Out
      exact ⟨by rw [r1], r4⟩
    · simp only at h
      split at h
      · cases h
      · rename_i c2 Out2 heq
        cases h
        obtain ⟨r1, _, _, r4, _, _, _⟩ :=
          RegisterEntities_spec c.MaybeAllocateBlob mr
            (min n c.MaybeAllocateBlob.GetRemainingCapacity) Out
        refine ⟨?_, r4⟩
        rw [AddComponentsLoop_columns _ _ _ _ _ _ _ heq, r1]
        rfl

theorem RemoveEntity_columns {c : FMantleDBChunk} {Entry : FMantleDBEntry}
    {mr : FMantleDBMasterRecord} {ToRemove : FMantleEntity} {b : Bool}
    {c1 : FMantleDBChunk} {Entry1 : FMantleDBEntry} {mr1 : FMantleDBMasterRecord}
    (h : c.RemoveEntity Entry mr ToRemove b = .ok (c1, Entry1, mr1)) :
    c1.ComponentTypeInfo = c.ComponentTypeInfo ∧ mr1.ComponentInfoMap = mr.ComponentInfoMap ∧
      EntryKeeps Entry Entry1 := by
  unfold FMantleDBChunk.RemoveEntity at h
  split at h
  · cases h
    exact ⟨rfl, rfl, EntryKeeps_refl _⟩
  · simp only at h
    split at h
    · split at h
      · cases h
        exact ⟨rfl, rfl, EntryKeeps_refl _⟩
      · cases h
        refine ⟨rfl, rfl, ?_⟩
        split
        · exact EntryKeeps_MakeAvailable _ _
        · exact EntryKeeps_refl _
    · split at h
      · cases h
      · cases h
        refine ⟨rfl, rfl, ?_⟩
        split
        · exact EntryKeeps_MakeAvailable _ _
        · exact EntryKeeps_refl _

/-- A chunk of the entry has an entity removed and is stored back under its id: the entry is
kept. -/
theorem RemoveEntity_keeps {c : FMantleDBChunk} {Entry : FMantleDBEntry}
    {mr : FMantleDBMasterRecord} {ToRemove : FMantleEntity} {b : Bool}
    {c1 : FMantleDBChunk} {Entry1 : FMantleDBEntry} {mr1 : FMantleDBMasterRecord} {Id : FGuid}
    (hfind : Entry.Chunks.Find Id = some c)
    (h : c.RemoveEntity Entry mr ToRemove b = .ok (c1, Entry1, mr1)) :
    EntryKeeps Entry { Entry1 with Chunks := Entry1.Chunks.Add Id c1 } ∧
      mr1.ComponentInfoMap = mr.ComponentInfoMap := by
  obtain ⟨r1, r2, r3⟩ := RemoveEntity_columns h
  refine ⟨?_, r2⟩
  have hsome : (Entry1.Chunks.Find Id).isSome = true := by
    rw [r3.2.2.2.2.1, hfind]
    rfl
  cases hf1 : Entry1.Chunks.Find Id with
  | none => rw [hf1] at hsome; cases hsome
  | some c0 =>
    obtain ⟨c', hc', hcol'⟩ := r3.2.2.2.2.2.2 Id c0 hf1
    rw [hfind] at hc'
    cases hc'
    exact EntryKeeps_trans r3 (EntryKeeps_store Entry1 Id c0 c1 hf1 (r1.trans hcol'.symm))

theorem FindExistingChunk_none (Chunks : TMap FGuid FMantleDBChunk) : ∀ (Stack : List FGuid),
    (FMantleDBEntry.FindExistingChunk Chunks Stack).1 = none →
      ∀ Id ∈ Stack, Chunks.Find Id = none
  | [], _, Id, hId => by cases hId
  | Top :: rest, h, Id, hId => by
    rw [FMantleDBEntry.FindExistingChunk] at h
    split at h
    · cases h
    · rename_i hTop
      rcases List.mem_cons.1 hId with h1 | h1
      · rw [h1]; exact hTop
      · exact FindExistingChunk_none Chunks rest h Id h1

/-- The chunk that `GetAvailableChunk` hands out is stored in the entry under the id on top of
the stack of available chunks; the shape of the entry is kept and its history grows. -/
theorem GetAvailableChunk_shape {R : TMap FString FMantleComponentInfo} {e : FMantleDBEntry}
    {mr : FMantleDBMasterRecord} {Id : FGuid} {c : FMantleDBChunk} {e1 : FMantleDBEntry}
    {mr1 : FMantleDBMasterRecord} (h : e.GetAvailableChunk mr = .ok (Id, c, e1, mr1))
    (hs : EntryShape R e) (hR : mr.ComponentInfoMap = R) :
    EntryShape R e1 ∧ EntryGrows e e1 ∧ e1.Chunks.Find Id = some c ∧
      Id ∈ e1.AvailableChunkIds ∧ mr1.ComponentInfoMap = R := by
  unfold FMantleDBEntry.GetAvailableChunk at h
  simp only at h
  split at h
  · rename_i Top c0 hfind
    cases h
    have hc := FindExistingChunk_mem _ _ _ _ hfind
    have hmem : Id ∈ (FMantleDBEntry.FindExistingChunk e.Chunks e.AvailableChunkIds).2 := by
      rcases FindExistingChunk_spec e.Chunks e.AvailableChunkIds with h1 | ⟨T, C, r, h1, h2, _, _⟩
      · rw [h1.1] at hfind
        cases hfind
      · rw [h1] at hfind
        cases hfind
        rw [h2]
        exact List.mem_cons_self _ _
    refine ⟨⟨fun hz => ?_, hs.columns⟩, ⟨rfl, rfl, List.prefix_refl _⟩, hc, hmem, hR⟩
    obtain ⟨b1, b2, _⟩ := hs.bare hz
    exact ⟨b1, b2, fun _ => ⟨Id, hmem, by rw [hc]; rfl⟩⟩
  · rename_i hnone
    split at h
    · cases h
    · rename_i c0 hctor
      cases h
      refine ⟨⟨fun hz => ?_, fun k c1 hc1 T hT => ?_⟩, ⟨rfl, rfl, List.prefix_append _ _⟩,
        TMap.Find_Add_self _ _ _, List.mem_cons_self _ _, hR⟩
      · obtain ⟨b1, b2, b3⟩ := hs.bare hz
        have hnil : e.Chunks = [] := by
          by_contra hne
          obtain ⟨k, hk, hfound⟩ := b3 hne
          rw [FindExistingChunk_none _ _ hnone k hk] at hfound
          cases hfound
        rw [hnil] at b2 ⊢
        have hall : e.AllChunkIds = [] := List.eq_nil_of_length_eq_zero (Nat.le_zero.1 b2)
        rw [hall]
        exact ⟨le_refl _, le_refl _,
          fun _ => ⟨_, List.mem_cons_self _ _, by rw [TMap.Find_Add_self]; rfl⟩⟩
      · have hc1' : (e.Chunks.Add mr.NewGuid.1 c).Find k = some c1 := hc1
        rw [TMap.Find_Add] at hc1'
        by_cases hk : k = mr.NewGuid.1
        · rw [if_pos hk] at hc1'
          cases hc1'
          rw [(Ctor_fields hctor).2.2.2] at hT
          rw [← hR]
          exact TMap.Find_filter_isSome _ _ T hT
        · rw [if_neg hk] at hc1'
          exact hs.columns k c1 hc1' T hT

/-- A chunk of the entry is stored back with the same columns, and the entry leaves the
stack if it is full: the shape of the entry is kept. -/
theorem Store_shape {R : TMap FString FMantleComponentInfo} (e1 : FMantleDBEntry) (Id : FGuid)
    (c c1 : FMantleDBChunk) (hs : EntryShape R e1) (hfind : e1.Chunks.Find Id = some c)
    (hcol : c1.ComponentTypeInfo = c.ComponentTypeInfo) :
    EntryShape R (FMantleDBEntry.PopIfFull { e1 with Chunks := e1.Chunks.Add Id c1 } c1) ∧
      EntryGrows e1
        (FMantleDBEntry.PopIfFull { e1 with Chunks := e1.Chunks.Add Id c1 } c1) := by
  have hk := EntryKeeps_store e1 Id c c1 hfind hcol
  have hs2 := EntryKeeps_shape hk hs
  unfold FMantleDBEntry.PopIfFull
  split
  · rename_i hpop
    refine ⟨⟨fun hz => ?_, hs2.columns⟩, ⟨rfl, rfl, List.prefix_refl _⟩⟩
    have hz' : IsZero e1.Archetype = true := hz
    have hnz : IsZero e1.Archetype = false := hpop.2
    rw [hz'] at hnz
    cases hnz
  · exact ⟨hs2, EntryKeeps_grows hk⟩

theorem Entry_AddEntities_shape (R : TMap FString FMantleComponentInfo)
    (Components : List FInstancedStruct) :
    ∀ (fuel : Nat) (e : FMantleDBEntry) (mr : FMantleDBMasterRecord) (n : Nat)
      (Out : FMantleCachedEntry) (e1 : FMantleDBEntry) (mr1 : FMantleDBMasterRecord)
      (Out1 : FMantleCachedEntry),
      FMantleDBEntry.AddEntities fuel e mr Components n Out = .ok (e1, mr1, Out1) →
      EntryShape R e → mr.ComponentInfoMap = R →
      EntryShape R e1 ∧ EntryGrows e e1 ∧ mr1.ComponentInfoMap = R
  | fuel, e, mr, 0, Out, e1, mr1, Out1, h, hs, hR => by
    cases fuel <;>
    · rw [FMantleDBEntry.AddEntities] at h
      cases h
      exact ⟨hs, EntryGrows_refl _, hR⟩
  | 0, e, mr, n + 1, Out, e1, mr1, Out1, h, _, _ => by
    rw [FMantleDBEntry.AddEntities] at h
    cases h
  | fuel + 1, e, mr, n + 1, Out, e1, mr1, Out1, h, hs, hR => by
    rw [FMantleDBEntry.AddEntities] at h
    split at h
    · cases h
    · rename_i Id c e2 mr2 hget
      obtain ⟨g1, g2, g3, _, g5⟩ := GetAvailableChunk_shape hget hs hR
      split at h
      · cases h
      · rename_i Added c3 mr3 Out3 hadd
        obtain ⟨a1, a2⟩ := Chunk_AddEntities_columns hadd
        obtain ⟨p1, p2⟩ := Store_shape e2 Id c c3 g1 g3 a1
        obtain ⟨r1, r2, r3⟩ := Entry_AddEntities_shape R Components fuel _ _ _ _ _ _ _ h p1
          (a2.trans g5)
        exact ⟨r1, EntryGrows_trans g2 (EntryGrows_trans p2 r2), r3⟩

theorem CopyOldColumns_columns (OldChunk : FMantleDBChunk) (Entity : FMantleEntity)
    (i j : Nat) : ∀ (l : List (FString × FMantleComponentInfo)) (acc acc1 : FMantleDBChunk.TakeAcc),
      FMantleDBChunk.CopyOldColumns OldChunk Entity i j l acc = .ok acc1 →
      acc1.Chunk.ComponentTypeInfo = acc.Chunk.ComponentTypeInfo
  | [], acc, acc1, h => by
    rw [FMantleDBChunk.CopyOldColumns] at h
    cases h
    rfl
  | (T, Info) :: rest, acc, acc1, h => by
    rw [FMantleDBChunk.CopyOldColumns] at h
    split at h
    · exact CopyOldColumns_columns OldChunk Entity i j rest acc acc1 h
    · split at h
      · cases h
      · split at h
        · cases h
        · split at h
          · cases h
          · have r := CopyOldColumns_columns OldChunk Entity i j rest _ acc1 h
            exact r

theorem WriteNewColumns_columns (i j : Nat) : ∀ (l : List FInstancedStruct)
    (acc acc1 : FMantleDBChunk.TakeAcc),
      FMantleDBChunk.WriteNewColumns i j l acc = .ok acc1 →
      acc1.Chunk.ComponentTypeInfo = acc.Chunk.ComponentTypeInfo
  | [], acc, acc1, h => by
    rw [FMantleDBChunk.WriteNewColumns] at h
    cases h
    rfl
  | p :: rest, acc, acc1, h => by
    rw [FMantleDBChunk.WriteNewColumns] at h
    split at h
    · cases h
    · split at h
      · cases h
      · have r := WriteNewColumns_columns i j rest _ acc1 h
        exact r

theorem TakeEntityData_columns {c OldChunk : FMantleDBChunk} {Entity : FMantleEntity}
    {Components : List FInstancedStruct} {Out : FMantleCachedEntry} {j : Nat}
    {c1 : FMantleDBChunk} {Out1 : FMantleCachedEntry}
    (h : c.TakeEntityData OldChunk Entity Components Out j = .ok (c1, Out1)) :
    c1.ComponentTypeInfo = c.ComponentTypeInfo := by
  unfold FMantleDBChunk.TakeEntityData at h
  simp only at h
  split at h
  · cases h
  · rename_i acc1 h1
    split at h
    · cases h
    · rename_i acc2 h2
      split at h
      · cases h
        exact (WriteNewColumns_columns _ _ _ _ _ h2).trans
          (CopyOldColumns_columns _ _ _ _ _ _ _ h1)
      · cases h

theorem Chunk_TakeEntitiesLoop_shape (Components : List FInstancedStruct)
    (j : Nat) : ∀ (ids : List FGuid) (c : FMantleDBChunk) (TF : FMantleDBEntry)
      (mr : FMantleDBMasterRecord) (Out : FMantleCachedEntry) (s : Nat)
      (c1 : FMantleDBChunk) (TF1 : FMantleDBEntry) (mr1 : FMantleDBMasterRecord)
      (Out1 : FMantleCachedEntry) (s1 : Nat),
      FMantleDBChunk.TakeEntitiesLoop Components j ids c TF mr Out s =
        .ok (c1, TF1, mr1, Out1, s1) →
      c1.ComponentTypeInfo = c.ComponentTypeInfo ∧ EntryKeeps TF TF1 ∧
        mr1.ComponentInfoMap = mr.ComponentInfoMap
  | [], c, TF, mr, Out, s, c1, TF1, mr1, Out1, s1, h => by
    rw [FMantleDBChunk.TakeEntitiesLoop] at h
    cases h
    exact ⟨rfl, EntryKeeps_refl _, rfl⟩
  | Id :: rest, c, TF, mr, Out, s, c1, TF1, mr1, Out1, s1, h => by
    rw [FMantleDBChunk.TakeEntitiesLoop] at h
    split at h
    · split at h
      · exact Chunk_TakeEntitiesLoop_shape Components j rest c TF mr Out _ _ _ _ _ _ h
      · rename_i Entity hE
        split at h
        · exact Chunk_TakeEntitiesLoop_shape Components j rest c TF mr Out _ _ _ _ _ _ h
        · rename_i OldChunk hOld
          split at h
          · cases h
          · rename_i c2 Out2 hdata
            split at h
            · cases h
            · rename_i OldChunk1 TF2 mr2 hrem
              obtain ⟨k1, k2⟩ := RemoveEntity_keeps hOld hrem
              obtain ⟨r1, r2, r3⟩ :=
                Chunk_TakeEntitiesLoop_shape Components j rest _ _ _ _ _ _ _ _ _ _ h
              have hd : c2.ComponentTypeInfo = c.ComponentTypeInfo :=
                TakeEntityData_columns hdata
              exact ⟨r1.trans hd, EntryKeeps_trans k1 r2, r3.trans k2⟩
    · cases h
      exact ⟨rfl, EntryKeeps_refl _, rfl⟩

theorem TakeBareLoop_shape : ∀ (ids : List FGuid) (c : FMantleDBChunk)
      (TF : FMantleDBEntry) (mr : FMantleDBMasterRecord) (s : Nat)
      (c1 : FMantleDBChunk) (TF1 : FMantleDBEntry) (mr1 : FMantleDBMasterRecord) (s1 : Nat),
      FMantleDBChunk.TakeBareLoop ids c TF mr s = .ok (c1, TF1, mr1, s1) →
      c1.ComponentTypeInfo = c.ComponentTypeInfo ∧ EntryKeeps TF TF1 ∧
        mr1.ComponentInfoMap = mr.ComponentInfoMap
  | [], c, TF, mr, s, c1, TF1, mr1, s1, h => by
    rw [FMantleDBChunk.TakeBareLoop] at h
    cases h
    exact ⟨rfl, EntryKeeps_refl _, rfl⟩
  | Id :: rest, c, TF, mr, s, c1, TF1, mr1, s1, h => by
    rw [FMantleDBChunk.TakeBareLoop] at h
    split at h
    · exact TakeBareLoop_shape rest c TF mr _ _ _ _ _ h
    · rename_i Entity hE
      split at h
      · exact TakeBareLoop_shape rest c TF mr _ _ _ _ _ h
      · rename_i OldChunk hOld
        split at h
        · cases h
        · rename_i OldChunk1 TF2 mr2 hrem
          obtain ⟨k1, k2⟩ := RemoveEntity_keeps hOld hrem
          obtain ⟨r1, r2, r3⟩ := TakeBareLoop_shape rest _ _ _ _ _ _ _ _ h
          exact ⟨r1, EntryKeeps_trans k1 r2, r3.trans k2⟩

theorem Chunk_TakeEntities_shape {c : FMantleDBChunk} {ids : List FGuid}
    {TF : FMantleDBEntry} {mr : FMantleDBMasterRecord} {Components : List FInstancedStruct}
    {Out : FMantleCachedEntry} {k : Nat} {c1 : FMantleDBChunk} {TF1 : FMantleDBEntry}
    {mr1 : FMantleDBMasterRecord} {Out1 : FMantleCachedEntry}
    (h : c.TakeEntities ids TF mr Components Out = .ok (k, c1, TF1, mr1, Out1)) :
    c1.ComponentTypeInfo = c.ComponentTypeInfo ∧ EntryKeeps TF TF1 ∧
      mr1.ComponentInfoMap = mr.ComponentInfoMap := by
  unfold FMantleDBChunk.TakeEntities at h
  split at h
  · cases h
    exact ⟨rfl, EntryKeeps_refl _, rfl⟩
  · split at h
    · unfold FMantleDBChunk.TakeBareArchetypeEntities at h
      simp only at h
      split at h
      · cases h
      · rename_i c2 TF2 mr2 s2 hloop
        obtain ⟨r1, r2, r3⟩ := TakeBareLoop_shape _ _ _ _ _ _ _ _ _ hloop
        split at h <;>
        · cases h
          exact ⟨r1, r2, r3⟩
    · simp only at h
      split at h
      · cases h
      · rename_i c2 TF2 mr2 Out2 s2 hloop
        obtain ⟨r1, r2, r3⟩ :=
          Chunk_TakeEntitiesLoop_shape _ _ _ _ _ _ _ _ _ _ _ _ _ hloop
        split at h <;>
        · cases h
          exact ⟨r1, r2, r3⟩

theorem Entry_TakeEntitiesLoop_shape (R : TMap FString FMantleComponentInfo)
    (EntityIds : List FGuid) (Components : List FInstancedStruct) :
    ∀ (fuel n : Nat) (e TF : FMantleDBEntry) (mr : FMantleDBMasterRecord)
      (Out : FMantleCachedEntry) (e1 TF1 : FMantleDBEntry) (mr1 : FMantleDBMasterRecord)
      (Out1 : FMantleCachedEntry),
      FMantleDBEntry.TakeEntitiesLoop EntityIds Components fuel n e TF mr Out =
        .ok (e1, TF1, mr1, Out1) →
      EntryShape R e → mr.ComponentInfoMap = R →
      EntryShape R e1 ∧ EntryGrows e e1 ∧ EntryKeeps TF TF1 ∧ mr1.ComponentInfoMap = R
  | fuel, 0, e, TF, mr, Out, e1, TF1, mr1, Out1, h, hs, hR => by
    cases fuel <;>
    · rw [FMantleDBEntry.TakeEntitiesLoop] at h
      cases h
      exact ⟨hs, EntryGrows_refl _, EntryKeeps_refl _, hR⟩
  | 0, n + 1, e, TF, mr, Out, e1, TF1, mr1, Out1, h, _, _ => by
    rw [FMantleDBEntry.TakeEntitiesLoop] at h
    cases h
  | fuel + 1, n + 1, e, TF, mr, Out, e1, TF1, mr1, Out1, h, hs, hR => by
    rw [FMantleDBEntry.TakeEntitiesLoop] at h
    split at h
    · cases h
    · rename_i Id c e2 mr2 hget
      obtain ⟨g1, g2, g3, _, g5⟩ := GetAvailableChunk_shape hget hs hR
      split at h
      · cases h
      · simp only at h
        split at h
        · cases h
        · rename_i Taken c3 TF3 mr3 Out3 htake
          obtain ⟨a1, a2, a3⟩ := Chunk_TakeEntities_shape htake
          obtain ⟨p1, p2⟩ := Store_shape e2 Id c c3 g1 g3 a1
          obtain ⟨r1, r2, r3, r4⟩ :=
            Entry_TakeEntitiesLoop_shape R EntityIds Components fuel _ _ _ _ _ _ _ _ _ h p1
              (a3.trans g5)
          exact ⟨r1, EntryGrows_trans g2 (EntryGrows_trans p2 r2), EntryKeeps_trans a2 r3, r4⟩

/-! ## The shape invariant holds in every reachable state, and every operation keeps the
history -/

theorem RunQueryLoop_store (Q : TBitArray) : ∀ (L : List TBitArray) (db : UMantleDB)
    (CQ : FMantleCachedQuery), SameStore db (UMantleDB.RunQueryLoop Q L db CQ).1
  | [], db, CQ => SameStore_refl db
  | X :: rest, db, CQ => by
    rw [UMantleDB.RunQueryLoop]
    split
    · exact RunQueryLoop_store Q rest db CQ
    · simp only
      split <;> split <;>
      first
      | exact (WithCachedEntry_frame db X _).1
      | exact SameStore_trans (WithCachedEntry_frame db X _).1 (RunQueryLoop_store Q rest _ _)

theorem RunQueryInternal_store (db : UMantleDB) (Q : TBitArray) :
    SameStore db (db.RunQueryInternal Q).1 := by
  unfold UMantleDB.RunQueryInternal
  simp only
  split
  · exact SameStore_refl db
  · have h := RunQueryLoop_store Q db.ActiveArchetypes
      { db with
        MasterRecord :=
          { db.MasterRecord with
            CachedQueries := db.MasterRecord.CachedQueries.Add Q
              ((db.MasterRecord.CachedQueries.Find Q).getD { QueryArchetype := Q }).ClearData } }
      ((db.MasterRecord.CachedQueries.Find Q).getD { QueryArchetype := Q }).ClearData
    obtain ⟨s1, s2, s3, s4, s5, s6, s7⟩ := h
    split
    · exact ⟨s1, s2, s3, s4, s5, s6, s7⟩
    · exact ⟨s1, s2, s3, s4, s5, s6, s7⟩

theorem Grows_refl (db : UMantleDB) : Grows db db :=
  ⟨List.prefix_refl _, fun _ e h => ⟨e, h, EntryGrows_refl e⟩⟩

theorem Grows_trans {db db1 db2 : UMantleDB} (h1 : Grows db db1) (h2 : Grows db1 db2) :
    Grows db db2 := by
  refine ⟨h1.1.trans h2.1, fun X e he => ?_⟩
  obtain ⟨e1, he1, g1⟩ := h1.2 X e he
  obtain ⟨e2, he2, g2⟩ := h2.2 X e1 he1
  exact ⟨e2, he2, EntryGrows_trans g1 g2⟩

theorem Grows_same {db db1 : UMantleDB} (h : SameStore db db1) : Grows db db1 := by
  obtain ⟨s1, s2, _⟩ := h
  refine ⟨by rw [s2], fun X e he => ⟨e, by rw [s1]; exact he, EntryGrows_refl e⟩⟩

theorem ShapeInv_same {db db1 : UMantleDB} (h : SameStore db db1) (hs : ShapeInv db) :
    ShapeInv db1 := by
  obtain ⟨s1, s2, _, _, s5, _, _⟩ := h
  refine ⟨fun X e he => ?_, by rw [s2]; exact hs.active_nodup, fun X hX => ?_⟩
  · rw [s5]
    rw [s1] at he
    exact hs.entries X e he
  · rw [s1]
    rw [s2] at hX
    exact hs.active_entry X hX

theorem EntryShape_Ctor (R : TMap FString FMantleComponentInfo) (A : TBitArray)
    (mr : FMantleDBMasterRecord) : EntryShape R (FMantleDBEntry.Ctor A mr) :=
  ⟨fun _ => ⟨Nat.zero_le _, le_refl _, fun h => absurd rfl h⟩, fun _ _ h => by cases h⟩

/-- `GetOrCreateEntry` keeps the shape invariant and the history; the entry it returns is the
one stored under the archetype, and the other entries are as before. -/
theorem GetOrCreateEntry_shape (db : UMantleDB) (A : TBitArray) (hs : ShapeInv db) :
    ShapeInv (db.GetOrCreateEntry A).1 ∧ Grows db (db.GetOrCreateEntry A).1 ∧
      (db.GetOrCreateEntry A).1.EntriesByArchetype.Find A = some (db.GetOrCreateEntry A).2 ∧
      (∀ X, X ≠ A → (db.GetOrCreateEntry A).1.EntriesByArchetype.Find X =
        db.EntriesByArchetype.Find X) ∧
      (db.EntriesByArchetype.Find A = none →
        (db.GetOrCreateEntry A).2 = FMantleDBEntry.Ctor A db.MasterRecord) ∧
      (db.GetOrCreateEntry A).1.MasterRecord.ComponentInfoMap =
        db.MasterRecord.ComponentInfoMap := by
  cases hf : db.EntriesByArchetype.Find A with
  | some e =>
    rw [GetOrCreateEntry_old db A e hf]
    exact ⟨hs, Grows_refl db, hf, fun _ _ => rfl, (fun h => by cases h), rfl⟩
  | none =>
    obtain ⟨n1, n2, n3, _, _, n6, _⟩ := GetOrCreateEntry_new db A hf
    have hfind : ∀ X, (db.GetOrCreateEntry A).1.EntriesByArchetype.Find X =
        if X = A then some (FMantleDBEntry.Ctor A db.MasterRecord)
        else db.EntriesByArchetype.Find X := by
      intro X
      rw [n2, TMap.Find_Add]
    refine ⟨⟨fun X e he => ?_, ?_, fun X hX => ?_⟩, ⟨?_, fun X e he => ?_⟩, ?_, ?_,
      fun _ => n1, n6⟩
    · rw [n6]
      rw [hfind] at he
      by_cases hX : X = A
      · rw [if_pos hX] at he
        cases he
        exact EntryShape_Ctor _ _ _
      · rw [if_neg hX] at he
        exact hs.entries X e he
    · rw [n3]
      apply List.Nodup.append hs.active_nodup (List.nodup_singleton _)
      intro X hX hXA
      rw [List.mem_singleton.1 hXA] at hX
      have := hs.active_entry A hX
      rw [hf] at this
      cases this
    · rw [hfind]
      by_cases hXA : X = A
      · rw [if_pos hXA]
        rfl
      · rw [if_neg hXA]
        rw [n3] at hX
        rcases List.mem_append.1 hX with h1 | h1
        · exact hs.active_entry X h1
        · exact absurd (List.mem_singleton.1 h1) hXA
    · rw [n3]
      exact List.prefix_append _ _
    · have hXA : X ≠ A := by
        intro h
        rw [h, hf] at he
        cases he
      exact ⟨e, by rw [hfind, if_neg hXA]; exact he, EntryGrows_refl e⟩
    · rw [hfind, if_pos rfl, n1]
    · intro X hX
      rw [hfind, if_neg hX]

/-- Replacing the entry of an archetype by one that grew from it, with a master record of
the same registry, keeps the shape invariant and the history. -/
theorem Replace_shape (db : UMantleDB) (A : TBitArray) (e e1 : FMantleDBEntry)
    (mr1 : FMantleDBMasterRecord) (hs : ShapeInv db)
    (hfind : db.EntriesByArchetype.Find A = some e)
    (hshape : EntryShape db.MasterRecord.ComponentInfoMap e1) (hgrow : EntryGrows e e1)
    (hreg : mr1.ComponentInfoMap = db.MasterRecord.ComponentInfoMap) :
    ShapeInv { db with EntriesByArchetype := db.EntriesByArchetype.Add A e1,
                       MasterRecord := mr1 } ∧
      Grows db { db with EntriesByArchetype := db.EntriesByArchetype.Add A e1,
                         MasterRecord := mr1 } := by
  refine ⟨⟨fun X e2 he2 => ?_, hs.active_nodup, fun X hX => ?_⟩,
    ⟨List.prefix_refl _, fun X e2 he2 => ?_⟩⟩
  · have he2' : (db.EntriesByArchetype.Add A e1).Find X = some e2 := he2
    show EntryShape mr1.ComponentInfoMap e2
    rw [hreg]
    rw [TMap.Find_Add] at he2'
    by_cases hX : X = A
    · rw [if_pos hX] at he2'
      cases he2'
      exact hshape
    · rw [if_neg hX] at he2'
      exact hs.entries X e2 he2'
  · show ((db.EntriesByArchetype.Add A e1).Find X).isSome = true
    rw [TMap.Find_Add]
    by_cases hXA : X = A
    · rw [if_pos hXA]
      rfl
    · rw [if_neg hXA]
      exact hs.active_entry X hX
  · show ∃ e3, (db.EntriesByArchetype.Add A e1).Find X = some e3 ∧ EntryGrows e2 e3
    rw [TMap.Find_Add]
    by_cases hXA : X = A
    · rw [if_pos hXA]
      rw [hXA, hfind] at he2
      cases he2
      exact ⟨e1, rfl, hgrow⟩
    · rw [if_neg hXA]
      exact ⟨e2, he2, EntryGrows_refl e2⟩

theorem AddEntities_shape {db db1 : UMantleDB} {fuel : Nat} {S : List FInstancedStruct}
    {n : Nat} {It : FMantleIterator} (hs : ShapeInv db)
    (h : db.AddEntities fuel S n = .ok (db1, It)) : ShapeInv db1 ∧ Grows db db1 := by
  unfold UMantleDB.AddEntities at h
  simp only at h
  generalize db.FillArchetype (ZeroBits db.MasterRecord.ComponentInfoMap.length)
    (S.map (fun p => p.TypeName)) = A at h
  obtain ⟨g1, g2, g3, _, _, _⟩ := GetOrCreateEntry_shape db A hs
  generalize db.GetOrCreateEntry A = g at h g1 g2 g3
  cases hadd : g.2.AddEntities fuel g.1.MasterRecord S n { Archetype := A } with
  | error f => rw [hadd] at h; cases h
  | ok res =>
    obtain ⟨e1, mr1, Out⟩ := res
    rw [hadd] at h
    simp only at h
    obtain ⟨a1, a2, a3⟩ := Entry_AddEntities_shape g.1.MasterRecord.ComponentInfoMap S fuel
      _ _ _ _ _ _ _ hadd (g1.entries A g.2 g3) rfl
    obtain ⟨r1, r2⟩ := Replace_shape g.1 A g.2 e1 mr1 g1 g3 a1 a2 a3
    have hdb1 : db1 = ((UMantleDB.EntryWasModified
        { g.1 with EntriesByArchetype := g.1.EntriesByArchetype.Add A e1, MasterRecord := mr1 }
        A).RunQueryInternal A).1 := by
      rw [← RefreshCachedQuery_eq]
      split at h
      · injection h with h
        exact (congrArg Prod.fst h).symm
      · injection h with h
        exact (congrArg Prod.fst h).symm
    have hsame := SameStore_trans (EntryWasModified_same
      { g.1 with EntriesByArchetype := g.1.EntriesByArchetype.Add A e1, MasterRecord := mr1 } A)
      (RunQueryInternal_store _ A)
    rw [hdb1]
    exact ⟨ShapeInv_same hsame r1, Grows_trans g2 (Grows_trans r2 (Grows_same hsame))⟩

theorem MasterRecord_RemoveEntity_registry (mr : FMantleDBMasterRecord) (Id : FGuid) :
    (mr.RemoveEntity Id).ComponentInfoMap = mr.ComponentInfoMap := by
  unfold FMantleDBMasterRecord.RemoveEntity
  split <;> rfl

theorem RemoveEntitiesLoop_shape : ∀ (ids : List FGuid) (db : UMantleDB) (M : List TBitArray)
    (db1 : UMantleDB) (M1 : List TBitArray),
    UMantleDB.RemoveEntitiesLoop ids db M = .ok (db1, M1) → ShapeInv db →
    ShapeInv db1 ∧ Grows db db1
  | [], db, M, db1, M1, h, hs => by
    rw [UMantleDB.RemoveEntitiesLoop] at h
    cases h
    exact ⟨hs, Grows_refl _⟩
  | Id :: rest, db, M, db1, M1, h, hs => by
    rw [UMantleDB.RemoveEntitiesLoop] at h
    split at h
    · exact RemoveEntitiesLoop_shape rest db M db1 M1 h hs
    · split at h
      · exact RemoveEntitiesLoop_shape rest db M db1 M1 h hs
      · rename_i Entity hE
        split at h
        · exact RemoveEntitiesLoop_shape rest db M db1 M1 h hs
        · rename_i Entry hEntry
          split at h
          · exact RemoveEntitiesLoop_shape rest db M db1 M1 h hs
          · rename_i Chunk hChunk
            split at h
            · cases h
            · rename_i Chunk1 Entry1 mr1 hrem
              obtain ⟨k1, k2⟩ := RemoveEntity_keeps hChunk hrem
              obtain ⟨r1, r2⟩ := Replace_shape db Entity.Archetype Entry
                { Entry1 with Chunks := Entry1.Chunks.Add Entity.ChunkId Chunk1 }
                (mr1.RemoveEntity Entity.Id) hs hEntry
                (EntryKeeps_shape k1 (hs.entries _ _ hEntry)) (EntryKeeps_grows k1)
                ((MasterRecord_RemoveEntity_registry mr1 _).trans k2)
              obtain ⟨q1, q2⟩ := RemoveEntitiesLoop_shape rest _ _ db1 M1 h r1
              exact ⟨q1, Grows_trans r2 q2⟩

theorem RemoveEntities_shape {db db1 : UMantleDB} {ids : List FGuid} (hs : ShapeInv db)
    (h : db.RemoveEntities ids = .ok db1) : ShapeInv db1 ∧ Grows db db1 := by
  unfold UMantleDB.RemoveEntities at h
  split at h
  · cases h
  · rename_i db2 M hloop
    cases h
    obtain ⟨r1, r2⟩ := RemoveEntitiesLoop_shape ids db [] db2 M hloop hs
    have hsame := (Invalidated.foldl M db2).1
    exact ⟨ShapeInv_same hsame r1, Grows_trans r2 (Grows_same hsame)⟩

theorem UpdateEntities_shape {db db1 : UMantleDB} {fuel : Nat} {ids : List FGuid}
    {S : List FInstancedStruct} {R : List (Option FString)} {It : FMantleIterator}
    (hs : ShapeInv db) (h : db.UpdateEntities fuel ids S R = .ok (db1, It)) :
    ShapeInv db1 ∧ Grows db db1 := by
  unfold UMantleDB.UpdateEntities at h
  have hexit : ∀ {x : UMantleDB × FMantleIterator}, x = (db, {}) →
      Except.ok x = (Except.ok (db1, It) : Except Failure (UMantleDB × FMantleIterator)) →
      ShapeInv db1 ∧ Grows db db1 := by
    intro x hx hh
    injection hh with hh
    rw [hx] at hh
    have h1 : db1 = db := (congrArg Prod.fst hh).symm
    rw [h1]
    exact ⟨hs, Grows_refl db⟩
  split at h
  · exact hexit rfl h
  · split at h
    · exact hexit rfl h
    · rename_i Old Valid hcollect
      split at h
      · exact hexit rfl h
      · simp only at h
        split at h
        · exact hexit rfl h
        · rename_i hne
          split at h
          · exact hexit rfl h
          · rename_i OldEntry hOld
            generalize db.FillArchetype Old (S.map (fun p => p.TypeName)) (R.filterMap id) = New
              at h hne
            obtain ⟨g1, g2, g3, g4, _, g6⟩ := GetOrCreateEntry_shape db New hs
            have hOld1 : (db.GetOrCreateEntry New).1.EntriesByArchetype.Find Old =
                some OldEntry := by
              rw [g4 Old (fun e => hne e.symm)]
              exact hOld
            generalize db.GetOrCreateEntry New = g at h g1 g2 g3 hOld1
            split at h
            · cases h
            · rename_i NewEntry1 OldEntry1 mr1 Out htake
              obtain ⟨a1, a2, a3, a4⟩ := Entry_TakeEntitiesLoop_shape
                g.1.MasterRecord.ComponentInfoMap Valid S fuel _ _ _ _ _ _ _ _ _ htake
                (g1.entries New g.2 g3) rfl
              obtain ⟨r1, r2⟩ := Replace_shape g.1 Old OldEntry OldEntry1 mr1 g1 hOld1
                (EntryKeeps_shape a3 (g1.entries Old OldEntry hOld1)) (EntryKeeps_grows a3) a4
              obtain ⟨q1, q2⟩ := Replace_shape
                { g.1 with EntriesByArchetype := g.1.EntriesByArchetype.Add Old OldEntry1,
                           MasterRecord := mr1 }
                New g.2 NewEntry1 mr1 r1
                (by
                  show (g.1.EntriesByArchetype.Add Old OldEntry1).Find New = some g.2
                  rw [TMap.Find_Add_of_ne _ _ _ _ hne]
                  exact g3)
                (by
                  show EntryShape mr1.ComponentInfoMap NewEntry1
                  rw [a4]
                  exact a1)
                a2 rfl
              have hsame := SameStore_trans (SameStore_trans
                (EntryWasModified_same
                  { g.1 with
                    EntriesByArchetype :=
                      (g.1.EntriesByArchetype.Add Old OldEntry1).Add New NewEntry1,
                    MasterRecord := mr1 } Old)
                (EntryWasModified_same _ New)) (RunQueryInternal_store _ New)
              have hdb1 : db1 = (((UMantleDB.EntryWasModified
                  { g.1 with
                    EntriesByArchetype :=
                      (g.1.EntriesByArchetype.Add Old OldEntry1).Add New NewEntry1,
                    MasterRecord := mr1 } Old).EntryWasModified New).RunQueryInternal New).1 := by
                rw [← RefreshCachedQuery_eq]
                split at h
                · injection h with h
                  exact (congrArg Prod.fst h).symm
                · injection h with h
                  exact (congrArg Prod.fst h).symm
              rw [hdb1]
              exact ⟨ShapeInv_same hsame q1,
                Grows_trans g2 (Grows_trans r2 (Grows_trans q2 (Grows_same hsame)))⟩

theorem RegisterComponentTypes_mono : ∀ (Types : List (Option UScriptStruct)) (k : Nat)
    (m : TMap FString FMantleComponentInfo) (T : FString), (m.Find T).isSome = true →
      ((UMantleDB.RegisterComponentTypes Types k m).Find T).isSome = true
  | [], _, _, _, h => h
  | none :: rest, k, m, T, h => by
    rw [UMantleDB.RegisterComponentTypes]
    exact RegisterComponentTypes_mono rest k m T h
  | some ct :: rest, k, m, T, h => by
    rw [UMantleDB.RegisterComponentTypes]
    apply RegisterComponentTypes_mono rest (k + 1) _ T
    rw [TMap.Find_Add]
    by_cases hT : T = ct.Name
    · rw [if_pos hT]
      rfl
    · rw [if_neg hT]
      exact h

theorem Initialize_shape {db db1 : UMantleDB} {ComponentTypes : List (Option UScriptStruct)}
    {ChunkSizeBytes : Int} (hs : ShapeInv db)
    (h : db.Initialize ComponentTypes ChunkSizeBytes = .ok db1) :
    ShapeInv db1 ∧ Grows db db1 := by
  unfold UMantleDB.Initialize at h
  split at h
  · injection h with h
    rw [← h]
    exact ⟨hs, Grows_refl db⟩
  · split at h
    · cases h
    · simp only at h
      have hs0 : ShapeInv
          { db with
            MasterRecord :=
              { db.MasterRecord with
                ChunkComponentBlobSize := ChunkSizeBytes,
                ComponentInfoMap :=
                  UMantleDB.RegisterComponentTypes ComponentTypes 0
                    db.MasterRecord.ComponentInfoMap } } :=
        ⟨fun X e he => ⟨(hs.entries X e he).bare, fun Id c hc T hT =>
            RegisterComponentTypes_mono _ _ _ T ((hs.entries X e he).columns Id c hc T hT)⟩,
          hs.active_nodup, hs.active_entry⟩
      have hg0 : Grows db
          { db with
            MasterRecord :=
              { db.MasterRecord with
                ChunkComponentBlobSize := ChunkSizeBytes,
                ComponentInfoMap :=
                  UMantleDB.RegisterComponentTypes ComponentTypes 0
                    db.MasterRecord.ComponentInfoMap } } :=
        ⟨List.prefix_refl _, fun X e he => ⟨e, he, EntryGrows_refl e⟩⟩
      split at h
      · injection h with h
        rw [← h]
        exact ⟨hs0, hg0⟩
      · injection h with h
        rw [← h]
        obtain ⟨g1, g2, _⟩ := GetOrCreateEntry_shape _
          (ZeroBits (UMantleDB.RegisterComponentTypes ComponentTypes 0
            db.MasterRecord.ComponentInfoMap).length) hs0
        exact ⟨⟨g1.entries, g1.active_nodup, g1.active_entry⟩,
          Grows_trans hg0 ⟨g2.1, g2.2⟩⟩

theorem ShapeInv_new : ShapeInv {} :=
  ⟨(fun _ _ h => by cases h), List.nodup_nil, (fun _ h => by cases h)⟩

/-- Every reachable state satisfies the shape invariant. -/
theorem Reachable_shape {db : UMantleDB} (h : Reachable db) : ShapeInv db := by
  induction h with
  | fresh => exact ShapeInv_new
  | init db db1 T B _ h ih => exact (Initialize_shape ih h).1
  | add db db1 fuel S n It _ h ih => exact (AddEntities_shape ih h).1
  | remove db db1 ids _ h ih => exact (RemoveEntities_shape ih h).1
  | update db db1 fuel ids S R It _ h ih => exact (UpdateEntities_shape ih h).1
  | query db Query _ ih =>
    rw [RunQuery_eq]
    exact ShapeInv_same (RunQueryInternal_store db _) ih

/-- Every call of a public operation in a state with the shape invariant keeps the history. -/
theorem Step_grows {db db1 : UMantleDB} (hs : ShapeInv db) (h : Step db db1) : Grows db db1 := by
  cases h with
  | init _ T B h => exact (Initialize_shape hs h).2
  | add _ fuel S n It h => exact (AddEntities_shape hs h).2
  | remove _ ids h => exact (RemoveEntities_shape hs h).2
  | update _ fuel ids S R It h => exact (UpdateEntities_shape hs h).2
  | query Query =>
    rw [RunQuery_eq]
    exact Grows_same (RunQueryInternal_store db _)

/-! ## C23: the bare archetype has no capacity limit -/

theorem GetBit_of_IsZero (A : TBitArray) (i : Nat) (h : IsZero A = true) : GetBit A i = false := by
  cases hb : GetBit A i with
  | false => rfl
  | true =>
    rw [IsZero_eq_false_of_bit A i hb] at h
    cases h

theorem PresentTypes_bare (A : TBitArray) (mr : FMantleDBMasterRecord) (h : IsZero A = true) :
    FMantleDBChunk.PresentTypes A mr = [] := by
  unfold FMantleDBChunk.PresentTypes
  rw [List.filter_eq_nil_iff]
  intro p _
  rw [GetBit_of_IsZero A _ h, Bool.and_false]
  decide

theorem TMap.eq_singleton {K V : Type} [DecidableEq K] (m : TMap K V) (k : K) (v : V)
    (hlen : m.length ≤ 1) (hfind : TMap.Find m k = some v) : m = [(k, v)] := by
  match m, hlen, hfind with
  | [], _, hfind => cases hfind
  | [(k1, v1)], _, hfind =>
    rw [TMap.Find_cons] at hfind
    by_cases hk : k1 = k
    · rw [if_pos hk] at hfind
      cases hfind
      rw [hk]
    · rw [if_neg hk] at hfind
      cases hfind
  | _ :: _ :: _, hlen, _ => exact absurd hlen (by simp)

theorem GetAvailableChunk_bare (e : FMantleDBEntry) (mr : FMantleDBMasterRecord)
    (hz : IsZero e.Archetype = true) : ∃ r, e.GetAvailableChunk mr = .ok r := by
  unfold FMantleDBEntry.GetAvailableChunk
  simp only
  split
  · exact ⟨_, rfl⟩
  · have hctor : FMantleDBChunk.Ctor mr.NewGuid.1 e.Archetype mr.NewGuid.2 =
        .ok { ChunkId := mr.NewGuid.1, Archetype := e.Archetype, ComponentTypeInfo := [] } := by
      unfold FMantleDBChunk.Ctor FMantleDBChunk.BytesPerEntity
      rw [PresentTypes_bare _ _ hz]
      rfl
    rw [hctor]
    exact ⟨_, rfl⟩

/-- `FMantleDBEntry::AddEntities` on an entry of the bare archetype: one pass of the loop puts
all the entities into the one chunk of the entry. -/
theorem Entry_AddEntities_single (R : TMap FString FMantleComponentInfo) (e : FMantleDBEntry)
    (mr : FMantleDBMasterRecord) (S : List FInstancedStruct) (n fuel : Nat)
    (Out : FMantleCachedEntry) (hz : IsZero e.Archetype = true) (hwf : EntryWf e.Archetype e)
    (hs : EntryShape R e) (hR : mr.ComponentInfoMap = R) :
    ∃ e1 mr1 Id c ids,
      e.AddEntities (fuel + 1) mr S (n + 1) Out =
        .ok (e1, mr1, { Out with ChunkedEntityIds := Out.ChunkedEntityIds ++ [ids] }) ∧
      ids.length = n + 1 ∧ e1.Chunks = [(Id, c)] ∧ ids <:+ c.EntityIds := by
  obtain ⟨⟨Id, c, e2, mr2⟩, hget⟩ := GetAvailableChunk_bare e mr hz
  obtain ⟨g1, g2, g3, _, g5⟩ := GetAvailableChunk_shape hget hs hR
  obtain ⟨w1, w2, _, _⟩ := GetAvailableChunk_frame hget hwf
  obtain ⟨r1, r2, _⟩ := RegisterEntities_spec c mr2 (n + 1) Out
  have hcz : IsZero c.Archetype = true := by rw [w2]; exact hz
  have hadd : c.AddEntities mr2 S (n + 1) Out =
      .ok (n + 1, (c.RegisterEntities mr2 (n + 1) Out).1,
        (c.RegisterEntities mr2 (n + 1) Out).2.1, (c.RegisterEntities mr2 (n + 1) Out).2.2) := by
    unfold FMantleDBChunk.AddEntities
    rw [if_neg (by omega)]
    simp only [hcz, if_true]
  have hcol : (c.RegisterEntities mr2 (n + 1) Out).1.ComponentTypeInfo = c.ComponentTypeInfo := by
    rw [r1]
  obtain ⟨p1, _⟩ := Store_shape e2 Id c (c.RegisterEntities mr2 (n + 1) Out).1 g1 g3 hcol
  have hz2 : IsZero e2.Archetype = true := by rw [g2.1]; exact hz
  have hpop : FMantleDBEntry.PopIfFull
      { e2 with Chunks := e2.Chunks.Add Id (c.RegisterEntities mr2 (n + 1) Out).1 }
      (c.RegisterEntities mr2 (n + 1) Out).1 =
      { e2 with Chunks := e2.Chunks.Add Id (c.RegisterEntities mr2 (n + 1) Out).1 } := by
    unfold FMantleDBEntry.PopIfFull
    rw [if_neg]
    rintro ⟨_, h2⟩
    have h2' : IsZero e2.Archetype = false := h2
    rw [hz2] at h2'
    cases h2'
  rw [hpop] at p1
  have hlen := (p1.bare hz2).1
  have hfind : (e2.Chunks.Add Id (c.RegisterEntities mr2 (n + 1) Out).1).Find Id =
      some (c.RegisterEntities mr2 (n + 1) Out).1 := TMap.Find_Add_self _ _ _
  refine ⟨{ e2 with Chunks := e2.Chunks.Add Id (c.RegisterEntities mr2 (n + 1) Out).1 },
    (c.RegisterEntities mr2 (n + 1) Out).2.1, Id, (c.RegisterEntities mr2 (n + 1) Out).1,
    List.range' mr2.NextGuid (n + 1), ?_, by simp, TMap.eq_singleton _ _ _ hlen hfind, ?_⟩
  · rw [FMantleDBEntry.AddEntities, hget]
    simp only [hadd, Nat.sub_self]
    rw [hpop, Entry_AddEntities_zero, r2]
  · rw [r1]
    exact List.suffix_append _ _

/-- C23: in every reachable state (whatever the chunk byte budget), `AddEntities` with no
component and a count `n ≥ 1` returns, for every positive fuel, an iterator whose one cached
entry has one entity-id view of length `n` and no component column, and afterwards the entry
of the bare archetype consists of a single chunk that holds these `n` ids; and in every
reachable state an entry of a bare archetype owns at most one chunk and lists at most one
chunk id. -/
theorem C23_bare_archetype (db : UMantleDB) (hreach : Reachable db) :
    (∀ n fuel : Nat, 1 ≤ n → 1 ≤ fuel →
      ∃ db1 It ids e Id c,
        db.AddEntities fuel [] n = .ok (db1, It) ∧
        It.LocalCache.MatchingEntries.map
            (fun CE => (CE.ChunkedEntityIds, CE.ChunkedComponents)) = [([ids], [])] ∧
        ids.length = n ∧
        db1.EntriesByArchetype.Find (ZeroBits db.MasterRecord.ComponentInfoMap.length) =
          some e ∧
        e.Chunks = [(Id, c)] ∧ ids <:+ c.EntityIds) ∧
      ∀ X e, db.EntriesByArchetype.Find X = some e → IsZero X = true →
        e.Chunks.length ≤ 1 ∧ e.AllChunkIds.length ≤ 1 := by
  have hinv := hreach.inv
  have hshape := Reachable_shape hreach
  refine ⟨fun n fuel hn hfuel => ?_, fun X e he hz => ?_⟩
  · obtain ⟨n, rfl⟩ : ∃ k, n = k + 1 := ⟨n - 1, by omega⟩
    obtain ⟨fuel, rfl⟩ : ∃ k, fuel = k + 1 := ⟨fuel - 1, by omega⟩
    generalize hA : ZeroBits db.MasterRecord.ComponentInfoMap.length = A
    have hz : IsZero A = true := by rw [← hA]; exact IsZero_ZeroBits _
    obtain ⟨g1, g2, _⟩ := GetOrCreateEntry_inv db A hinv
    obtain ⟨s1, _, _, _, _, s6⟩ := GetOrCreateEntry_shape db A hshape
    have hwf := g1.entry_wf A _ g2
    have hz2 : IsZero (db.GetOrCreateEntry A).2.Archetype = true := by rw [hwf.1]; exact hz
    obtain ⟨e1, mr1, Id, c, ids, hadd, hlen, hchunks, hsuffix⟩ :=
      Entry_AddEntities_single (db.GetOrCreateEntry A).1.MasterRecord.ComponentInfoMap
        (db.GetOrCreateEntry A).2 (db.GetOrCreateEntry A).1.MasterRecord [] n fuel
        { Archetype := A } hz2 (by rw [hwf.1]; exact hwf) (s1.entries A _ g2) rfl
    obtain ⟨db3, _, _, h3, _, _, _, _, _, hres⟩ :=
      AddEntities_explicit db (fuel + 1) [] (n + 1) A hinv
        (by rw [← hA]; rfl) e1 mr1 _ hadd
    refine ⟨_, _, ids, e1, Id, c, hres, rfl, hlen, ?_, hchunks, hsuffix⟩
    rw [(RunQueryInternal_store db3 A).1, h3]
    exact TMap.Find_Add_self _ _ _
  · have hb := (hshape.entries X e he).bare (by rw [(hinv.entry_wf X e he).1]; exact hz)
    exact ⟨hb.1, le_trans hb.2.1 hb.1⟩

/-- C23 on `TwoTypeDB`, whose chunk byte budget is 1024: adding 1100 entities without
components gives one entity-id view of length 1100 and no component column, and the entry of
the bare archetype consists of one chunk that holds the 1100 ids. -/
theorem C23_bare_archetype_witness :
    ∃ db1 It ids e Id c,
      TwoTypeDB.AddEntities 1 [] 1100 = .ok (db1, It) ∧
      It.LocalCache.MatchingEntries.map
          (fun CE => (CE.ChunkedEntityIds, CE.ChunkedComponents)) = [([ids], [])] ∧
      ids.length = 1100 ∧
      db1.EntriesByArchetype.Find (ZeroBits TwoTypeDB.MasterRecord.ComponentInfoMap.length) =
        some e ∧
      e.Chunks = [(Id, c)] ∧ ids <:+ c.EntityIds :=
  (C23_bare_archetype TwoTypeDB TwoTypeDB_reachable).1 1100 1 (by decide) (by decide)

/-! ## C30: a payload of a type that is not registered -/

theorem AddComponentsLoop_unknown (Old k : Nat) : ∀ (S : List FInstancedStruct)
    (c : FMantleDBChunk) (Out : FMantleCachedEntry),
    (∃ p ∈ S, c.ComponentTypeInfo.Find p.TypeName = none) →
    ∃ msg, FMantleDBChunk.AddComponentsLoop Old k S c Out = .error (.Fatal msg)
  | [], _, _, h => by
    obtain ⟨p, hp, _⟩ := h
    cases hp
  | q :: rest, c, Out, h => by
    rw [FMantleDBChunk.AddComponentsLoop]
    cases hq : c.ComponentTypeInfo.Find q.TypeName with
    | none => exact ⟨_, rfl⟩
    | some Info =>
      simp only
      split
      · exact ⟨_, rfl⟩
      · apply AddComponentsLoop_unknown Old k rest
        obtain ⟨p, hp, hnone⟩ := h
        rcases List.mem_cons.1 hp with h1 | h1
        · rw [h1, hq] at hnone
          cases hnone
        · exact ⟨p, h1, hnone⟩

theorem GetAvailableChunk_error {e : FMantleDBEntry} {mr : FMantleDBMasterRecord} {f : Failure}
    (h : e.GetAvailableChunk mr = .error f) : ∃ msg, f = .Fatal msg := by
  unfold FMantleDBEntry.GetAvailableChunk at h
  simp only at h
  split at h
  · cases h
  · split at h
    · rename_i f1 hctor
      cases h
      unfold FMantleDBChunk.Ctor at hctor
      split at hctor
      · simp only at hctor
        split at hctor
        · cases hctor
          exact ⟨_, rfl⟩
        · cases hctor
      · cases hctor
    · cases h

/-- C30, amended: in every reachable state, when the archetype built from the payload list is
not the bare one (at least one payload type is registered) and at least one payload type is
not in the registry, `AddEntities` with a count of at least 1 ends, for every positive fuel,
in a fatal error. -/
theorem C30_unregistered_payload_type (db : UMantleDB) (hreach : Reachable db)
    (S : List FInstancedStruct) (n fuel : Nat) (hn : 1 ≤ n) (hfuel : 1 ≤ fuel)
    (hnotbare : IsZero (db.FillArchetype (ZeroBits db.MasterRecord.ComponentInfoMap.length)
      (S.map (fun p => p.TypeName))) = false)
    (hunknown : ∃ p ∈ S, db.MasterRecord.ComponentInfoMap.Find p.TypeName = none) :
    ∃ msg, db.AddEntities fuel S n = .error (.Fatal msg) := by
  obtain ⟨n, rfl⟩ : ∃ k, n = k + 1 := ⟨n - 1, by omega⟩
  obtain ⟨fuel, rfl⟩ : ∃ k, fuel = k + 1 := ⟨fuel - 1, by omega⟩
  have hinv := hreach.inv
  have hshape := Reachable_shape hreach
  unfold UMantleDB.AddEntities
  simp only
  generalize db.FillArchetype (ZeroBits db.MasterRecord.ComponentInfoMap.length)
    (S.map (fun p => p.TypeName)) = A at hnotbare
  obtain ⟨g1, g2, _⟩ := GetOrCreateEntry_inv db A hinv
  obtain ⟨s1, _, _, _, _, s6⟩ := GetOrCreateEntry_shape db A hshape
  have hwf := g1.entry_wf A _ g2
  have hes := s1.entries A _ g2
  generalize db.GetOrCreateEntry A = g at g1 g2 s1 s6 hwf hes
  have key : ∃ msg, g.2.AddEntities (fuel + 1) g.1.MasterRecord S (n + 1) { Archetype := A } =
      .error (.Fatal msg) := by
    rw [FMantleDBEntry.AddEntities]
    cases hget : g.2.GetAvailableChunk g.1.MasterRecord with
    | error f =>
      obtain ⟨msg, hmsg⟩ := GetAvailableChunk_error hget
      exact ⟨msg, by rw [hmsg]⟩
    | ok r =>
      obtain ⟨Id, c, e1, mr1⟩ := r
      simp only
      obtain ⟨q1, _, q3, _, _⟩ := GetAvailableChunk_shape hget hes rfl
      obtain ⟨_, w2, _, _⟩ := GetAvailableChunk_frame hget hwf
      have hcz : IsZero c.Archetype = false := by rw [w2]; exact hnotbare
      obtain ⟨r1, _⟩ := RegisterEntities_spec c.MaybeAllocateBlob mr1
        (min (n + 1) c.MaybeAllocateBlob.GetRemainingCapacity) { Archetype := A }
      obtain ⟨p, hp, hnone⟩ := hunknown
      have hcnone : c.ComponentTypeInfo.Find p.TypeName = none := by
        cases hf : c.ComponentTypeInfo.Find p.TypeName with
        | none => rfl
        | some Info =>
          have := q1.columns Id c q3 p.TypeName (by rw [hf]; rfl)
          rw [s6, hnone] at this
          cases this
      obtain ⟨msg, hloop⟩ := AddComponentsLoop_unknown c.MaybeAllocateBlob.EntityIds.length
        (min (n + 1) c.MaybeAllocateBlob.GetRemainingCapacity) S
        (c.MaybeAllocateBlob.RegisterEntities mr1
          (min (n + 1) c.MaybeAllocateBlob.GetRemainingCapacity) { Archetype := A }).1
        (c.MaybeAllocateBlob.RegisterEntities mr1
          (min (n + 1) c.MaybeAllocateBlob.GetRemainingCapacity) { Archetype := A }).2.2
        ⟨p, hp, by rw [r1]; exact hcnone⟩
      have hadd : c.AddEntities mr1 S (n + 1) { Archetype := A } = .error (.Fatal msg) := by
        unfold FMantleDBChunk.AddEntities
        rw [if_neg (by omega)]
        simp only [hcz, Bool.false_eq_true, if_false]
        rw [hloop]
      rw [hadd]
      exact ⟨msg, rfl⟩
  obtain ⟨msg, hmsg⟩ := key
  rw [hmsg]
  exact ⟨msg, rfl⟩

/-- C30 on `TwoTypeDB`: adding one entity with a `Position` and a payload of the unregistered
type `Unknown` ends in a fatal error. -/
theorem C30_unregistered_payload_type_witness :
    ∃ msg, TwoTypeDB.AddEntities 1 [⟨"Position", 1⟩, ⟨"Unknown", 7⟩] 1 = .error (.Fatal msg) :=
  C30_unregistered_payload_type TwoTypeDB TwoTypeDB_reachable
    [⟨"Position", 1⟩, ⟨"Unknown", 7⟩] 1 1 (le_refl _) (le_refl _) (by decide)
    ⟨⟨"Unknown", 7⟩, by decide, by decide⟩

/-- C30 as written fails when no payload type is registered: the archetype is then the bare
one, whose chunk registers the entities before the payloads are looked at. On `TwoTypeDB`,
`AddEntities` with a payload of the unregistered type `Unknown` and a count of 3 returns, and
the entities 6, 7 and 8 are stored without any component. -/
theorem C30_unknown_only_is_stored :
    ∃ db1 It, TwoTypeDB.AddEntities 1 [⟨"Unknown", 7⟩] 3 = .ok (db1, It) ∧
      TwoTypeDB.MasterRecord.ComponentInfoMap.Find "Unknown" = none ∧
      It.LocalCache.MatchingEntries.map (fun CE => CE.ChunkedEntityIds) = [[[6, 7, 8]]] ∧
      db1.HasEntity 6 = true ∧ db1.HasEntity 7 = true ∧ db1.HasEntity 8 = true ∧
      db1.HasComponent "Unknown" 6 = false :=
  ⟨_, _, rfl, by decide, by decide, by decide, by decide, by decide, by decide⟩

/-! ## C24: the scenario of a tag component -/

/-- C24, amended: when the tag type has a size of 1 byte (a struct without members) and an
alignment of 1, the scenario ends with a valid iterator whose loop sees exactly the 5 entities
that were added with a `Tag`, in one chunk view; their ids 8 to 12 are not the invalid id, and
they have the `Tag` component, while the 5 entities added without it are not seen. -/
theorem C24_tag_scenario :
    ∃ db It, TagRun 1 1 = .ok (db, It) ∧ It.IsValid db.MasterRecord = true ∧
      It.Snapshot = [([true, true], [[8, 9, 10, 11, 12]])] ∧
      (∀ fuel, It.AllEntities db.MasterRecord (fuel + 2) = [8, 9, 10, 11, 12]) ∧
      (∀ id ∈ [8, 9, 10, 11, 12], id ≠ 0 ∧ db.HasEntity id = true ∧
        db.HasComponent "Tag" id = true) ∧
      ∀ id ∈ [2, 3, 4, 5, 6], db.HasEntity id = true ∧ db.HasComponent "Tag" id = false :=
  ⟨_, _, rfl, by decide, by decide, fun _ => rfl, by decide, by decide⟩

/-- C24 as written fails: a type of 0 bytes is not a valid component type, so the chunk of
the archetype with a `Position` and a `Tag` has no column for the `Tag`, and adding the 5
entities with a `Position` and a `Tag` ends in a fatal error (here with the alignment 1). -/
theorem C24_zero_size_tag_is_fatal :
    TagRun 0 1 = .error (.Fatal "AddEntities: ComponentInfo is invalid.") := rfl

/-! ## C25: the loop of `FMantleDBEntry::TakeEntities` need not make progress -/

/-- One pass of the loop of `FMantleDBEntry::TakeEntities`. -/
theorem Entry_TakeEntitiesLoop_pass (EntityIds : List FGuid) (S : List FInstancedStruct)
    (n m : Nat) (e TF : FMantleDBEntry) (mr : FMantleDBMasterRecord)
    (Out : FMantleCachedEntry) (Id : FGuid) (c c1 : FMantleDBChunk) (e1 TF1 : FMantleDBEntry)
    (mr1 mr2 : FMantleDBMasterRecord) (Out1 : FMantleCachedEntry) (Taken : Nat)
    (hget : e.GetAvailableChunk mr = .ok (Id, c, e1, mr1))
    (hlen : ¬ EntityIds.length < n + 1)
    (htake : c.TakeEntities (EntityIds.drop (EntityIds.length - (n + 1))) TF mr1 S Out =
      .ok (Taken, c1, TF1, mr2, Out1))
    (hm : n + 1 - Taken = m) (fuel : Nat) :
    FMantleDBEntry.TakeEntitiesLoop EntityIds S (fuel + 1) (n + 1) e TF mr Out =
      FMantleDBEntry.TakeEntitiesLoop EntityIds S fuel m
        (FMantleDBEntry.PopIfFull { e1 with Chunks := e1.Chunks.Add Id c1 } c1) TF1 mr2 Out1 := by
  rw [FMantleDBEntry.TakeEntitiesLoop, hget]
  simp only
  rw [if_neg hlen, htake]
  simp only
  rw [hm]

/-- A state of the loop of `FMantleDBEntry::TakeEntities` in which a pass takes nothing and
changes nothing: the loop does not end, whatever the fuel. -/
theorem Entry_TakeEntitiesLoop_stuck (EntityIds : List FGuid) (S : List FInstancedStruct)
    (n : Nat) (e TF : FMantleDBEntry) (mr : FMantleDBMasterRecord)
    (Out : FMantleCachedEntry) (Id : FGuid) (c : FMantleDBChunk)
    (hget : e.GetAvailableChunk mr = .ok (Id, c, e, mr))
    (hlen : ¬ EntityIds.length < n + 1)
    (htake : c.TakeEntities (EntityIds.drop (EntityIds.length - (n + 1))) TF mr S Out =
      .ok (0, c, TF, mr, Out))
    (hpop : FMantleDBEntry.PopIfFull { e with Chunks := e.Chunks.Add Id c } c = e) :
    ∀ fuel, FMantleDBEntry.TakeEntitiesLoop EntityIds S fuel (n + 1) e TF mr Out =
      .error .OutOfFuel
  | 0 => by rw [FMantleDBEntry.TakeEntitiesLoop]
  | fuel + 1 => by
    rw [Entry_TakeEntitiesLoop_pass EntityIds S n (n + 1) e TF mr Out Id c c e TF mr mr Out 0
      hget hlen htake rfl fuel, hpop]
    exact Entry_TakeEntitiesLoop_stuck EntityIds S n e TF mr Out Id c hget hlen htake hpop fuel

/-- `UpdateEntities` ends in the failure of `FMantleDBEntry::TakeEntities`. -/
theorem UpdateEntities_failure (db : UMantleDB) (fuel : Nat) (ids : List FGuid)
    (S : List FInstancedStruct) (R : List (Option FString)) (Old : TBitArray)
    (Valid : List FGuid) (OldEntry : FMantleDBEntry) (f : Failure)
    (hids : ids.length ≠ 0)
    (hcollect : UMantleDB.CollectValidEntities db.MasterRecord ids [] [] = some (Old, Valid))
    (hvalid : Valid.length ≠ 0)
    (hne : db.FillArchetype Old (S.map (fun p => p.TypeName)) (R.filterMap id) ≠ Old)
    (hold : db.GetEntry Old = some OldEntry)
    (htake : (db.GetOrCreateEntry
        (db.FillArchetype Old (S.map (fun p => p.TypeName)) (R.filterMap id))).2.TakeEntities
        fuel Valid OldEntry
        (db.GetOrCreateEntry
          (db.FillArchetype Old (S.map (fun p => p.TypeName)) (R.filterMap id))).1.MasterRecord
        S { Archetype := db.FillArchetype Old (S.map (fun p => p.TypeName)) (R.filterMap id) } =
      .error f) :
    db.UpdateEntities fuel ids S R = .error f := by
  unfold UMantleDB.UpdateEntities
  rw [if_neg hids, hcollect]
  simp only
  rw [if_neg hvalid, if_neg hne, hold]
  simp only
  rw [htake]

/-- The loop of `FMantleDBEntry::TakeEntities` on `CrampedDB` with the id list `2, 2`: the
first pass migrates the entity 2 into a new chunk, which is full then; the second pass makes
another chunk and skips the id 2, whose record names the chunk of the new archetype; from
then on every pass skips the id and takes nothing. -/
theorem Cramped_passes :
    ∃ (e1 TF1 : FMantleDBEntry) (mr1 : FMantleDBMasterRecord) (Out1 : FMantleCachedEntry)
      (e2 TF2 : FMantleDBEntry) (mr2 : FMantleDBMasterRecord) (Out2 : FMantleCachedEntry)
      (e3 TF3 : FMantleDBEntry) (mr3 : FMantleDBMasterRecord) (Out3 : FMantleCachedEntry),
      (∀ fuel, FMantleDBEntry.TakeEntitiesLoop [2, 2] [⟨"Big", 7⟩] (fuel + 1) 2
          (CrampedDB.GetOrCreateEntry [true, true]).2
          ((CrampedDB.GetEntry [true, false]).getD { Archetype := [] })
          (CrampedDB.GetOrCreateEntry [true, true]).1.MasterRecord { Archetype := [true, true] } =
        FMantleDBEntry.TakeEntitiesLoop [2, 2] [⟨"Big", 7⟩] fuel 1 e1 TF1 mr1 Out1) ∧
      (∀ fuel, FMantleDBEntry.TakeEntitiesLoop [2, 2] [⟨"Big", 7⟩] (fuel + 1) 1 e1 TF1 mr1 Out1 =
        FMantleDBEntry.TakeEntitiesLoop [2, 2] [⟨"Big", 7⟩] fuel 1 e2 TF2 mr2 Out2) ∧
      (∀ fuel, FMantleDBEntry.TakeEntitiesLoop [2, 2] [⟨"Big", 7⟩] (fuel + 1) 1 e2 TF2 mr2 Out2 =
        FMantleDBEntry.TakeEntitiesLoop [2, 2] [⟨"Big", 7⟩] fuel 1 e3 TF3 mr3 Out3) ∧
      ∀ fuel, FMantleDBEntry.TakeEntitiesLoop [2, 2] [⟨"Big", 7⟩] fuel 1 e3 TF3 mr3 Out3 =
        .error .OutOfFuel :=
  ⟨_, _, _, _, _, _, _, _, _, _, _, _,
    Entry_TakeEntitiesLoop_pass [2, 2] [⟨"Big", 7⟩] 1 1 _ _ _ _ _ _ _ _ _ _ _ _ 1 rfl
      (by decide) rfl rfl,
    Entry_TakeEntitiesLoop_pass [2, 2] [⟨"Big", 7⟩] 0 1 _ _ _ _ _ _ _ _ _ _ _ _ 0 rfl
      (by decide) rfl rfl,
    Entry_TakeEntitiesLoop_pass [2, 2] [⟨"Big", 7⟩] 0 1 _ _ _ _ _ _ _ _ _ _ _ _ 0 rfl
      (by decide) rfl rfl,
    Entry_TakeEntitiesLoop_stuck [2, 2] [⟨"Big", 7⟩] 0 _ _ _ _ _ _ rfl (by decide) rfl rfl⟩

theorem CrampedDB_reachable : Reachable CrampedDB := by
  obtain ⟨db0, db1, It, h0, h1, h2⟩ : ∃ db0 db1 It,
      ({} : UMantleDB).Initialize [some ⟨"Position", 12, 4⟩, some ⟨"Big", 600, 8⟩] 1024 =
        .ok db0 ∧
      db0.AddEntities 1 [⟨"Position", 10⟩] 1 = .ok (db1, It) ∧ CrampedDB = db1 :=
    ⟨_, _, _, rfl, rfl, rfl⟩
  rw [h2]
  exact Reachable.add _ _ _ _ _ _ (Reachable.init _ _ _ _ Reachable.fresh h0) h1

/-- C25 fails on the code: `CrampedDB` is a reachable state in which the entity 2 is live and
has a `Position`, and a chunk of the archetype with a `Position` and a `Big` holds one
entity. There `UpdateEntities` with the id list `2, 2` (the same live id twice) and a `Big`
payload never returns: the loop of `FMantleDBEntry::TakeEntities` runs out of every fuel,
because after the entity was migrated the chunk-level call skips the second occurrence and
reports that it took nothing. -/
theorem C25_update_entities_never_returns :
    Reachable CrampedDB ∧ CrampedDB.HasEntity 2 = true ∧
      ∀ fuel, CrampedDB.UpdateEntities fuel [2, 2] [⟨"Big", 7⟩] [] = .error .OutOfFuel := by
  refine ⟨CrampedDB_reachable, by decide, fun fuel => ?_⟩
  refine UpdateEntities_failure CrampedDB fuel [2, 2] [⟨"Big", 7⟩] [] [true, false] [2, 2]
    ((CrampedDB.GetEntry [true, false]).getD { Archetype := [] }) .OutOfFuel (by decide) rfl
    (by decide) (by decide) rfl ?_
  show FMantleDBEntry.TakeEntitiesLoop [2, 2] [⟨"Big", 7⟩] fuel 2
    (CrampedDB.GetOrCreateEntry [true, true]).2
    ((CrampedDB.GetEntry [true, false]).getD { Archetype := [] })
    (CrampedDB.GetOrCreateEntry [true, true]).1.MasterRecord { Archetype := [true, true] } = _
  obtain ⟨e1, TF1, mr1, Out1, e2, TF2, mr2, Out2, e3, TF3, mr3, Out3, h1, h2, h3, h4⟩ :=
    Cramped_passes
  match fuel with
  | 0 => rfl
  | 1 =>
    rw [h1 0]
    rfl
  | 2 =>
    rw [h1 1, h2 0]
    rfl
  | fuel + 3 => rw [h1 (fuel + 2), h2 (fuel + 1), h3 fuel, h4 fuel]

/-! ## C21: the order of the result of a query -/

theorem RunQueryInternal_snapshot (db : UMantleDB) (Q : TBitArray) (hinv : CacheInv db) :
    ((db.RunQueryInternal Q).2.bHasMasterRecord = true →
        (db.RunQueryInternal Q).2.Snapshot = db.ScanQuery Q) ∧
      ((db.RunQueryInternal Q).2.bHasMasterRecord = false →
        (db.RunQueryInternal Q).2.Snapshot = []) := by
  obtain ⟨a1, a2⟩ := RunQueryInternal_result db Q hinv
  rw [Snapshot_eq_map_Data, a2]
  constructor
  · intro hb
    rw [hb] at a1
    cases hs : db.ScratchLoop Q db.ActiveArchetypes with
    | none => rw [hs] at a1; cases a1
    | some l =>
      show List.map (fun d => (d.1, d.2.1)) l = db.ScanQuery Q
      rw [ScratchLoop_scan db Q db.ActiveArchetypes l hs]
      rfl
  · intro hb
    rw [hb] at a1
    cases hs : db.ScratchLoop Q db.ActiveArchetypes with
    | none => rfl
    | some l => rw [hs] at a1; cases a1

/-- C21: in every reachable state the iterator of `RunQuery`, when it carries a master record
(otherwise its snapshot is empty), lists the matching archetypes in the order of the list of
active archetypes, and for each of them the entity-id lists of the non-empty chunks of its
entry in the order of the list of chunk ids of the entry. The list of active archetypes has
no archetype twice, and every call of a public operation keeps the history: the list of
active archetypes grows at its end only, every entry stays, and the list of chunk ids of
every entry grows at its end only. So archetypes appear in the order in which their entries
were created and chunks in the order in which they were created. -/
theorem C21_query_order (db : UMantleDB) (hreach : Reachable db) :
    (∀ Query : FMantleComponentQuery,
      ((db.RunQuery Query).2.2.bHasMasterRecord = true →
        (db.RunQuery Query).2.2.Snapshot =
          (db.ActiveArchetypes.filter
            (fun X => decide (BitwiseAND X (db.RunQuery Query).1.CachedArchetype =
              (db.RunQuery Query).1.CachedArchetype))).map
            (fun X => (X,
              ((db.EntriesByArchetype.Find X).map (fun e =>
                ((e.AllChunkIds.filterMap (fun Id => e.Chunks.Find Id)).filter
                  (fun c => !c.IsEmpty)).map (fun c => c.EntityIds))).getD []))) ∧
      ((db.RunQuery Query).2.2.bHasMasterRecord = false →
        (db.RunQuery Query).2.2.Snapshot = [])) ∧
      db.ActiveArchetypes.Nodup ∧
      ∀ db1, Step db db1 → Grows db db1 := by
  refine ⟨fun Query => ?_, (Reachable_shape hreach).active_nodup,
    fun db1 hstep => Step_grows (Reachable_shape hreach) hstep⟩
  rw [RunQuery_eq]
  exact RunQueryInternal_snapshot db _ hreach.inv

theorem MultiArchetypeDB_reachable : Reachable MultiArchetypeDB := by
  obtain ⟨db0, db1, db2, db3, db4, I1, I2, I3, I4, h0, h1, h2, h3, h4, h5⟩ :
      ∃ db0 db1 db2 db3 db4 I1 I2 I3 I4,
      ({} : UMantleDB).Initialize TestComponentTypes 1024 = .ok db0 ∧
      db0.AddEntities 10 [⟨"FakeTransformComponent", 1⟩] 10 = .ok (db1, I1) ∧
      db1.AddEntities 20 [⟨"FakeTransformComponent", 2⟩, ⟨"FakeTargetingComponent", 2⟩] 20 =
        .ok (db2, I2) ∧
      db2.AddEntities 30 [⟨"FakeTransformComponent", 3⟩, ⟨"FakeItemComponent", 3⟩] 30 =
        .ok (db3, I3) ∧
      db3.AddEntities 40 [⟨"FakeTransformComponent", 4⟩, ⟨"FakeItemComponent", 4⟩,
        ⟨"FakeTargetingComponent", 4⟩] 40 = .ok (db4, I4) ∧
      MultiArchetypeDB = db4 :=
    ⟨_, _, _, _, _, _, _, _, _, rfl, rfl, rfl, rfl, rfl, rfl⟩
  rw [h5]
  exact Reachable.add _ _ _ _ _ _ (Reachable.add _ _ _ _ _ _ (Reachable.add _ _ _ _ _ _
    (Reachable.add _ _ _ _ _ _ (Reachable.init _ _ _ _ Reachable.fresh h0) h1) h2) h3) h4

/-- C21 on the database of `Test_MultiArchetypeQuery`: the query requiring a transform and an
item returns the archetype with a transform and an item, created third, with its 4 chunks of
8, 8, 8 and 6 entities, and then the archetype with all three components, created fourth, with
its 7 chunks of 6, 6, 6, 6, 6, 6 and 4 entities. -/
theorem C21_query_order_witness :
    MultiArchetypeQuery.2.bHasMasterRecord = true ∧
      MultiArchetypeQuery.2.Snapshot =
        (MultiArchetypeDB.ActiveArchetypes.filter
          (fun X => decide (BitwiseAND X
            (MultiArchetypeDB.RunQuery
              { RequiredComponents :=
                  ["FakeTransformComponent", "FakeItemComponent"] }).1.CachedArchetype =
            (MultiArchetypeDB.RunQuery
              { RequiredComponents :=
                  ["FakeTransformComponent", "FakeItemComponent"] }).1.CachedArchetype))).map
          (fun X => (X,
            ((MultiArchetypeDB.EntriesByArchetype.Find X).map (fun e =>
              ((e.AllChunkIds.filterMap (fun Id => e.Chunks.Find Id)).filter
                (fun c => !c.IsEmpty)).map (fun c => c.EntityIds))).getD [])) ∧
      MultiArchetypeDB.ActiveArchetypes =
        [[false, false, false, false, false], [true, false, false, false, false],
          [true, false, true, false, false], [true, true, false, false, false],
          [true, true, true, false, false]] ∧
      MultiArchetypeQuery.2.Snapshot.map (fun p => (p.1, p.2.map List.length)) =
        [([true, true, false, false, false], [8, 8, 8, 6]),
          ([true, true, true, false, false], [6, 6, 6, 6, 6, 6, 4])] :=
  ⟨by decide,
    ((C21_query_order MultiArchetypeDB MultiArchetypeDB_reachable).1
      { RequiredComponents := ["FakeTransformComponent", "FakeItemComponent"] }).1 (by decide),
    by decide, by decide⟩

/-! ## C28: the column layout of a chunk -/

theorem and_high_mask (y k : Nat) (hk : k ≤ 64) (hy : y < 2 ^ 64) :
    y &&& (2 ^ 64 - 1 - (2 ^ k - 1)) = 2 ^ k * (y / 2 ^ k) := by
  have hmask : 2 ^ 64 - 1 - (2 ^ k - 1) = 2 ^ 64 - ((2 ^ k - 1) + 1) := by omega
  have hlt : 2 ^ k - 1 < 2 ^ 64 := by
    have : 2 ^ k ≤ 2 ^ 64 := Nat.pow_le_pow_right (by norm_num) hk
    have : 0 < 2 ^ k := Nat.two_pow_pos k
    omega
  rw [hmask]
  apply Nat.eq_of_testBit_eq
  intro i
  rw [Nat.testBit_and, Nat.testBit_two_pow_sub_succ hlt, Nat.testBit_two_pow_sub_one,
    Nat.testBit_mul_pow_two, ← Nat.shiftRight_eq_div_pow, Nat.testBit_shiftRight]
  by_cases hik : k ≤ i
  · have h1 : ¬ i < k := by omega
    have h2 : k + (i - k) = i := by omega
    rw [h2]
    by_cases hi : i < 64
    · simp [hik, h1, hi]
    · have hy' : y < 2 ^ i := lt_of_lt_of_le hy (Nat.pow_le_pow_right (by norm_num) (by omega))
      rw [Nat.testBit_lt_two_pow hy']
      simp
  · have h1 : i < k := by omega
    simp [hik, h1]

/-- `Align` with a power of two as alignment rounds up to the next multiple, when the
address does not wrap around. -/
theorem Align_pow (Val k : Nat) (hVal : 0 < Val) (hfit : Val + 2 ^ k ≤ 2 ^ 64) :
    2 ^ k ∣ Align Val ((2 : Int) ^ k) ∧ Val ≤ Align Val ((2 : Int) ^ k) ∧
      Align Val ((2 : Int) ^ k) < Val + 2 ^ k := by
  have hpos : 0 < 2 ^ k := Nat.two_pow_pos k
  have hlt : 2 ^ k < 2 ^ 64 := by omega
  have hk : k ≤ 64 := by
    by_contra hc
    have : 2 ^ 64 ≤ 2 ^ k := Nat.pow_le_pow_right (by norm_num) (by omega)
    omega
  have hA : (((2 : Int) ^ k) % 2 ^ 64).toNat = 2 ^ k := by
    have h1 : ((2 : Int) ^ k) = ((2 ^ k : Nat) : Int) := by push_cast; rfl
    have h2 : ((2 : Int) ^ 64) = ((2 ^ 64 : Nat) : Int) := by push_cast
    rw [h1, h2, ← Int.natCast_mod, Int.toNat_natCast, Nat.mod_eq_of_lt hlt]
  have hM : (2 ^ k + (2 ^ 64 - 1)) % 2 ^ 64 = 2 ^ k - 1 := by
    have : 2 ^ k + (2 ^ 64 - 1) = (2 ^ k - 1) + 2 ^ 64 := by omega
    rw [this, Nat.add_mod_right, Nat.mod_eq_of_lt (by omega)]
  have hy : (Val + (2 ^ k - 1)) % 2 ^ 64 = Val + (2 ^ k - 1) := Nat.mod_eq_of_lt (by omega)
  have hval : Align Val ((2 : Int) ^ k) = 2 ^ k * ((Val + (2 ^ k - 1)) / 2 ^ k) := by
    unfold Align
    simp only
    rw [hA, hM, hy]
    exact and_high_mask _ k hk (by omega)
  rw [hval]
  have hdm := Nat.div_add_mod (Val + (2 ^ k - 1)) (2 ^ k)
  have hmod := Nat.mod_lt (Val + (2 ^ k - 1)) hpos
  refine ⟨Dvd.intro _ rfl, ?_, ?_⟩ <;> omega

theorem AddressAdd_eq (Location : Nat) (Offset : Int) (h0 : 0 ≤ (Location : Int) + Offset)
    (h1 : (Location : Int) + Offset < 2 ^ 64) :
    ((AddressAdd Location Offset : Nat) : Int) = Location + Offset := by
  unfold AddressAdd
  rw [Int.emod_eq_of_lt h0 h1, Int.toNat_of_nonneg h0]

theorem sum_layout_nonneg (cap : Nat) : ∀ (cols : List (FString × FMantleComponentInfo)),
    (∀ p ∈ cols, 0 < p.2.StructAlignment ∧ 0 < p.2.StructSize) →
    (0 : Int) ≤ (cols.map (fun p => p.2.StructAlignment + p.2.StructSize * (cap : Int))).sum
  | [], _ => le_refl _
  | p :: rest, h => by
    rw [List.map_cons, List.sum_cons]
    have h1 := h p (List.mem_cons_self _ _)
    have h2 := sum_layout_nonneg cap rest (fun q hq => h q (List.mem_cons_of_mem _ hq))
    have h3 : 0 ≤ p.2.StructSize * cap := mul_nonneg (le_of_lt h1.2) (Int.natCast_nonneg _)
    omega

/-- The loop of `MaybeAllocateBlob` when the columns that are left fit between
`NextSubchunkLocation` and `MaxLocation` with their alignments as padding: it does not reach
its fatal branch; every base is a multiple of the alignment of its column; every column lies
below `MaxLocation`; and every column ends where the bases of the later columns start, or
before. -/
theorem ColumnBasesLoop_spec (Max cap : Nat) (hMax : Max < 2 ^ 64) :
    ∀ (cols : List (FString × FMantleComponentInfo)) (Next : Nat),
    (∀ p ∈ cols, (∃ k : Nat, p.2.StructAlignment = 2 ^ k) ∧ 0 < p.2.StructSize) →
    0 < Next →
    (Next : Int) + (cols.map (fun p => p.2.StructAlignment + p.2.StructSize * (cap : Int))).sum ≤ (Max : Int) →
    ∃ Bases, ColumnBasesLoop Max cap cols Next = .ok Bases ∧ Bases.length = cols.length ∧
      (∀ q ∈ cols.zip Bases, q.1.2.StructAlignment ∣ (q.2 : Int) ∧ Next ≤ q.2 ∧
        (q.2 : Int) + q.1.2.StructSize * (cap : Int) ≤ (Max : Int)) ∧
      (cols.zip Bases).Pairwise
        (fun q q' => (q.2 : Int) + q.1.2.StructSize * (cap : Int) ≤ (q'.2 : Int))
  | [], Next, _, _, _ => ⟨[], rfl, rfl, (fun q hq => by cases hq), List.Pairwise.nil⟩
  | (T, Info) :: rest, Next, hcols, hNext, hsum => by
    obtain ⟨⟨k, hk⟩, hsize⟩ := hcols (T, Info) (List.mem_cons_self _ _)
    have hk' : Info.StructAlignment = 2 ^ k := hk
    have hrest : ∀ p ∈ rest, (∃ k : Nat, p.2.StructAlignment = 2 ^ k) ∧ 0 < p.2.StructSize :=
      fun p hp => hcols p (List.mem_cons_of_mem _ hp)
    have hnn := sum_layout_nonneg cap rest (fun p hp => by
      obtain ⟨⟨k1, hk1⟩, hs1⟩ := hrest p hp
      exact ⟨by rw [hk1]; positivity, hs1⟩)
    have hsum' : (Next : Int) + (Info.StructAlignment + Info.StructSize * (cap : Int) +
        (rest.map (fun p => p.2.StructAlignment + p.2.StructSize * (cap : Int))).sum) ≤
        (Max : Int) := by
      rw [List.map_cons, List.sum_cons] at hsum
      exact hsum
    clear hsum
    have hprod : 0 ≤ Info.StructSize * cap := mul_nonneg (le_of_lt hsize) (Int.natCast_nonneg _)
    have hcast : ((2 ^ k : Nat) : Int) = (2 : Int) ^ k := by push_cast; rfl
    have hfit : Next + 2 ^ k ≤ 2 ^ 64 := by
      have h1 : ((Next + 2 ^ k : Nat) : Int) ≤ (Max : Int) := by
        rw [Nat.cast_add, hcast, ← hk']
        omega
      have h2 : Next + 2 ^ k ≤ Max := Int.ofNat_le.1 h1
      omega
    obtain ⟨a1, a2, a3⟩ := Align_pow Next k hNext hfit
    rw [← hk'] at a1 a2 a3
    have a3' : ((Align Next Info.StructAlignment : Nat) : Int) < Next + Info.StructAlignment := by
      have h1 : ((Align Next Info.StructAlignment : Nat) : Int) < ((Next + 2 ^ k : Nat) : Int) :=
        Int.ofNat_lt.2 a3
      rw [Nat.cast_add, hcast, ← hk'] at h1
      exact h1
    have hlocnn : (0 : Int) ≤ (Align Next Info.StructAlignment : Nat) := Int.natCast_nonneg _
    have hMax' : (Max : Int) < 2 ^ 64 := by exact_mod_cast hMax
    have hadd := AddressAdd_eq (Align Next Info.StructAlignment) (Info.StructSize * cap)
      (by omega) (by omega)
    have hnext1 : ¬ AddressAdd (Align Next Info.StructAlignment) (Info.StructSize * cap) > Max := by
      intro hgt
      have : (Max : Int) < (AddressAdd (Align Next Info.StructAlignment)
          (Info.StructSize * cap) : Nat) := by exact_mod_cast hgt
      omega
    have hpos1 : 0 < AddressAdd (Align Next Info.StructAlignment) (Info.StructSize * cap) := by
      have : (0 : Int) < (AddressAdd (Align Next Info.StructAlignment)
          (Info.StructSize * cap) : Nat) := by
        have : (0 : Int) < (Next : Int) := by exact_mod_cast hNext
        have : (Next : Int) ≤ (Align Next Info.StructAlignment : Nat) := by exact_mod_cast a2
        omega
      exact_mod_cast this
    obtain ⟨Bases, b1, b2, b3, b4⟩ := ColumnBasesLoop_spec Max cap hMax rest
      (AddressAdd (Align Next Info.StructAlignment) (Info.StructSize * cap)) hrest hpos1
      (by omega)
    refine ⟨Align Next Info.StructAlignment :: Bases, ?_, ?_, ?_, ?_⟩
    · rw [ColumnBasesLoop, if_neg hnext1, b1]
    · rw [List.length_cons, List.length_cons, b2]
    · intro q hq
      rw [List.zip_cons_cons] at hq
      rcases List.mem_cons.1 hq with h1 | h1
      · rw [h1]
        refine ⟨?_, a2, ?_⟩
        rotate_left
        · show ((Align Next Info.StructAlignment : Nat) : Int) + Info.StructSize * (cap : Int) ≤
            (Max : Int)
          omega
        show Info.StructAlignment ∣ ((Align Next Info.StructAlignment : Nat) : Int)
        obtain ⟨m, hm⟩ := a1
        refine ⟨m, ?_⟩
        rw [hm]
        push_cast
        rw [hk']
      · obtain ⟨c1, c2, c3⟩ := b3 q h1
        refine ⟨c1, ?_, c3⟩
        have : (Next : Int) ≤ (q.2 : Int) := by
          have h5 : ((AddressAdd (Align Next Info.StructAlignment)
              (Info.StructSize * cap) : Nat) : Int) ≤ (q.2 : Int) := by exact_mod_cast c2
          have h6 : (Next : Int) ≤ (Align Next Info.StructAlignment : Nat) := by
            exact_mod_cast a2
          omega
        exact_mod_cast this
    · rw [List.zip_cons_cons, List.pairwise_cons]
      refine ⟨fun q hq => ?_, b4⟩
      obtain ⟨_, c2, _⟩ := b3 q hq
      have h5 : ((AddressAdd (Align Next Info.StructAlignment)
          (Info.StructSize * cap) : Nat) : Int) ≤ (q.2 : Int) := by exact_mod_cast c2
      show ((Align Next Info.StructAlignment : Nat) : Int) + Info.StructSize * cap ≤ (q.2 : Int)
      omega

theorem sum_layout_eq (cap : Int) : ∀ (cols : List (FString × FMantleComponentInfo)),
    (cols.map (fun p => p.2.StructAlignment + p.2.StructSize * cap)).sum =
      (cols.map (fun p => p.2.StructAlignment)).sum +
        (cols.map (fun p => p.2.StructSize)).sum * cap
  | [] => by simp
  | p :: rest => by
    rw [List.map_cons, List.sum_cons, List.map_cons, List.sum_cons, List.map_cons, List.sum_cons,
      sum_layout_eq cap rest]
    ring

theorem PresentTypes_valid (A : TBitArray) (mr : FMantleDBMasterRecord) :
    ∀ p ∈ FMantleDBChunk.PresentTypes A mr, 0 < p.2.StructSize ∧ 0 < p.2.StructAlignment := by
  intro p hp
  unfold FMantleDBChunk.PresentTypes at hp
  have h := (List.mem_filter.1 hp).2
  rw [Bool.and_eq_true] at h
  have hv := h.1
  unfold FMantleDBChunk.ValidateComponentInfo at hv
  rw [Bool.and_eq_true, Bool.and_eq_true] at hv
  exact ⟨of_decide_eq_true hv.1.2, of_decide_eq_true hv.2⟩

/-- The capacity the constructor computes for a chunk with columns: at least 1, and such that
the columns with their alignments as padding fit into the chunk byte budget. -/
theorem Ctor_capacity {Id : FGuid} {A : TBitArray} {mr : FMantleDBMasterRecord}
    {c : FMantleDBChunk} (h : FMantleDBChunk.Ctor Id A mr = .ok c)
    (hcols : c.ComponentTypeInfo ≠ []) :
    1 ≤ c.TotalCapacity ∧
      (c.ComponentTypeInfo.map
        (fun p => p.2.StructAlignment + p.2.StructSize * (c.TotalCapacity : Int))).sum ≤
        mr.ChunkComponentBlobSize ∧
      ∀ p ∈ c.ComponentTypeInfo, 0 < p.2.StructSize ∧ 0 < p.2.StructAlignment := by
  have hf := (Ctor_fields h).2.2.2
  have hvalid : ∀ p ∈ c.ComponentTypeInfo, 0 < p.2.StructSize ∧ 0 < p.2.StructAlignment := by
    rw [hf]
    exact PresentTypes_valid A mr
  have hB : 0 < FMantleDBChunk.BytesPerEntity A mr := by
    unfold FMantleDBChunk.BytesPerEntity
    rw [← hf]
    apply List.sum_pos
    · intro x hx
      obtain ⟨p, hp, rfl⟩ := List.mem_map.1 hx
      exact (hvalid p hp).1
    · simpa using hcols
  rw [sum_layout_eq]
  unfold FMantleDBChunk.Ctor at h
  rw [if_pos hB] at h
  simp only at h
  split at h
  · cases h
  · rename_i hq
    cases h
    simp only
    have hq' : 0 < Int.tdiv (mr.ChunkComponentBlobSize -
        FMantleDBChunk.MaxPossibleAlignmentPadding A mr) (FMantleDBChunk.BytesPerEntity A mr) :=
      not_le.1 hq
    have hN := tdiv_pos_imp_nonneg _ _ hB hq'
    rw [Int.tdiv_eq_ediv hN (le_of_lt hB)] at hq' ⊢
    have hmul := Int.ediv_mul_le (mr.ChunkComponentBlobSize -
      FMantleDBChunk.MaxPossibleAlignmentPadding A mr) (ne_of_gt hB)
    refine ⟨?_, ?_, hvalid⟩
    · have : (1 : Int) ≤ (((mr.ChunkComponentBlobSize -
          FMantleDBChunk.MaxPossibleAlignmentPadding A mr) /
          FMantleDBChunk.BytesPerEntity A mr).toNat : Int) := by
        rw [Int.toNat_of_nonneg (le_of_lt hq')]
        omega
      exact_mod_cast this
    · rw [Int.toNat_of_nonneg (le_of_lt hq')]
      unfold FMantleDBChunk.BytesPerEntity FMantleDBChunk.MaxPossibleAlignmentPadding at hmul ⊢
      rw [mul_comm] at hmul
      omega

/-- C28: for every chunk that the constructor yields with at least one column (the columns
are the valid types of the archetype, so their sizes are at least 1; the capacity is the one
of the capacity law and at least 1), with alignments that are powers of two, and for every
non-null address of the blob at which the chunk byte budget does not wrap around the address
space: `MaybeAllocateBlob` does not reach its fatal branch and computes column bases such that
each base is a multiple of the alignment of its column; for every column and every slot
`i < TotalCapacity` the bytes of the slot lie between the start of the blob and the start plus
the chunk byte budget, the slot address does not wrap around, and `LocationIsValid` accepts it;
and the byte ranges of two different (column, slot) pairs do not overlap. -/
theorem C28_layout_safety (NewChunkId : FGuid) (A : TBitArray) (mr : FMantleDBMasterRecord)
    (c : FMantleDBChunk) (ComponentBlob : Nat)
    (hctor : FMantleDBChunk.Ctor NewChunkId A mr = .ok c)
    (hcols : c.ComponentTypeInfo ≠ [])
    (hpow : ∀ p ∈ c.ComponentTypeInfo, ∃ k : Nat, p.2.StructAlignment = 2 ^ k)
    (hblob : 0 < ComponentBlob)
    (hfit : (ComponentBlob : Int) + mr.ChunkComponentBlobSize < 2 ^ 64) :
    1 ≤ c.TotalCapacity ∧ (∀ p ∈ c.ComponentTypeInfo, 1 ≤ p.2.StructSize) ∧
      ∃ Bases, c.ColumnBases mr ComponentBlob = .ok Bases ∧
        Bases.length = c.ComponentTypeInfo.length ∧
        (∀ q ∈ c.ComponentTypeInfo.zip Bases,
          q.1.2.StructAlignment ∣ (q.2 : Int) ∧
          ∀ i : Nat, i < c.TotalCapacity →
            (ComponentBlob : Int) ≤ (q.2 : Int) + (i : Int) * q.1.2.StructSize ∧
            (q.2 : Int) + ((i : Int) + 1) * q.1.2.StructSize ≤
              (ComponentBlob : Int) + mr.ChunkComponentBlobSize ∧
            ((SlotLocation q.2 q.1.2.StructSize i : Nat) : Int) =
              (q.2 : Int) + (i : Int) * q.1.2.StructSize ∧
            LocationInRange ComponentBlob (AddressAdd ComponentBlob mr.ChunkComponentBlobSize)
              (SlotLocation q.2 q.1.2.StructSize i) = true) ∧
        ∀ (j j' : Nat) (q q' : (FString × FMantleComponentInfo) × Nat),
          (c.ComponentTypeInfo.zip Bases)[j]? = some q →
          (c.ComponentTypeInfo.zip Bases)[j']? = some q' →
          ∀ i i' : Nat, i < c.TotalCapacity → i' < c.TotalCapacity → (j ≠ j' ∨ i ≠ i') →
            (q.2 : Int) + ((i : Int) + 1) * q.1.2.StructSize ≤
                (q'.2 : Int) + (i' : Int) * q'.1.2.StructSize ∨
              (q'.2 : Int) + ((i' : Int) + 1) * q'.1.2.StructSize ≤
                (q.2 : Int) + (i : Int) * q.1.2.StructSize := by
  obtain ⟨hcap, hsum, hvalid⟩ := Ctor_capacity hctor hcols
  have hnn := sum_layout_nonneg c.TotalCapacity c.ComponentTypeInfo
    (fun p hp => ⟨(hvalid p hp).2, (hvalid p hp).1⟩)
  have hblob' : (0 : Int) < (ComponentBlob : Int) := by exact_mod_cast hblob
  have hMaxEq := AddressAdd_eq ComponentBlob mr.ChunkComponentBlobSize (by omega) hfit
  have hMaxlt : AddressAdd ComponentBlob mr.ChunkComponentBlobSize < 2 ^ 64 := by
    have : ((AddressAdd ComponentBlob mr.ChunkComponentBlobSize : Nat) : Int) < 2 ^ 64 := by
      rw [hMaxEq]
      exact hfit
    exact_mod_cast this
  obtain ⟨Bases, b1, b2, b3, b4⟩ := ColumnBasesLoop_spec
    (AddressAdd ComponentBlob mr.ChunkComponentBlobSize) c.TotalCapacity hMaxlt
    c.ComponentTypeInfo ComponentBlob (fun p hp => ⟨hpow p hp, (hvalid p hp).1⟩) hblob
    (by rw [hMaxEq]; omega)
  have hslot : ∀ q ∈ c.ComponentTypeInfo.zip Bases, 0 < q.1.2.StructSize :=
    fun q hq => (hvalid q.1 (List.of_mem_zip hq).1).1
  have hmono : ∀ (s : Int) (i n : Nat), 0 < s → i < n →
      0 ≤ (i : Int) * s ∧ ((i : Int) + 1) * s ≤ s * (n : Int) := by
    intro s i n hs hin
    have h1 : (0 : Int) ≤ (i : Int) := Int.natCast_nonneg _
    have h2 : (i : Int) + 1 ≤ (n : Int) := by exact_mod_cast hin
    refine ⟨mul_nonneg h1 (le_of_lt hs), ?_⟩
    rw [mul_comm s]
    exact mul_le_mul_of_nonneg_right h2 (le_of_lt hs)
  refine ⟨hcap, fun p hp => (hvalid p hp).1, Bases, b1, b2, fun q hq => ?_, ?_⟩
  · obtain ⟨c1, c2, c3⟩ := b3 q hq
    refine ⟨c1, fun i hi => ?_⟩
    obtain ⟨m1, m2⟩ := hmono q.1.2.StructSize i c.TotalCapacity (hslot q hq) hi
    have c2' : (ComponentBlob : Int) ≤ (q.2 : Int) := by exact_mod_cast c2
    have hs := hslot q hq
    rw [hMaxEq] at c3
    have hloc : ((SlotLocation q.2 q.1.2.StructSize i : Nat) : Int) =
        (q.2 : Int) + (i : Int) * q.1.2.StructSize := by
      unfold SlotLocation
      exact AddressAdd_eq _ _ (by omega) (by nlinarith)
    refine ⟨by omega, by nlinarith, hloc, ?_⟩
    unfold LocationInRange
    have hge : ComponentBlob ≤ SlotLocation q.2 q.1.2.StructSize i := by
      have : (ComponentBlob : Int) ≤ (SlotLocation q.2 q.1.2.StructSize i : Nat) := by
        rw [hloc]; omega
      exact_mod_cast this
    have hle : SlotLocation q.2 q.1.2.StructSize i ≤
        AddressAdd ComponentBlob mr.ChunkComponentBlobSize := by
      have : ((SlotLocation q.2 q.1.2.StructSize i : Nat) : Int) ≤
          (AddressAdd ComponentBlob mr.ChunkComponentBlobSize : Nat) := by
        rw [hloc, hMaxEq]
        nlinarith
      exact_mod_cast this
    rw [if_neg (by omega)]
    simp [hge, hle]
  · intro j j' q q' hj hj' i i' hi hi' hne
    obtain ⟨hjlt, hjq⟩ := List.getElem?_eq_some_iff.1 hj
    obtain ⟨hjlt', hjq'⟩ := List.getElem?_eq_some_iff.1 hj'
    have hq : q ∈ c.ComponentTypeInfo.zip Bases := hjq ▸ List.getElem_mem hjlt
    have hq' : q' ∈ c.ComponentTypeInfo.zip Bases := hjq' ▸ List.getElem_mem hjlt'
    obtain ⟨m1, m2⟩ := hmono q.1.2.StructSize i c.TotalCapacity (hslot q hq) hi
    obtain ⟨n1, n2⟩ := hmono q'.1.2.StructSize i' c.TotalCapacity (hslot q' hq') hi'
    have hpw := List.pairwise_iff_getElem.1 b4
    rcases Nat.lt_trichotomy j j' with hlt | heq | hgt
    · have := hpw j j' hjlt hjlt' hlt
      rw [hjq, hjq'] at this
      left
      omega
    · subst heq
      rw [hj] at hj'
      cases hj'
      have hii : i ≠ i' := by
        rcases hne with h | h
        · exact absurd rfl h
        · exact h
      have hs := hslot q hq
      rcases Nat.lt_or_gt_of_ne hii with h | h
      · left
        have h2 : (i : Int) + 1 ≤ (i' : Int) := by exact_mod_cast h
        have := mul_le_mul_of_nonneg_right h2 (le_of_lt hs)
        omega
      · right
        have h2 : (i' : Int) + 1 ≤ (i : Int) := by exact_mod_cast h
        have := mul_le_mul_of_nonneg_right h2 (le_of_lt hs)
        omega
    · have := hpw j' j hjlt' hjlt hgt
      rw [hjq, hjq'] at this
      right
      omega

/-- C28 on the chunk of the archetype with a `Position` and a `Velocity` (12 bytes each,
alignment 4) on `TwoTypeDB` with the chunk byte budget 1024, for a blob at the address 4097:
the capacity is 42, the column bases are 4100 and 4604, both multiples of 4, and the last slot
of the second column ends at 5108, below 4097 + 1024. -/
theorem C28_layout_safety_witness :
    ∃ c, FMantleDBChunk.Ctor 9 [true, true] TwoTypeDB.MasterRecord = .ok c ∧
      c.TotalCapacity = 42 ∧
      c.ColumnBases TwoTypeDB.MasterRecord 4097 = .ok [4100, 4604] ∧
      1 ≤ c.TotalCapacity ∧ (∀ p ∈ c.ComponentTypeInfo, 1 ≤ p.2.StructSize) ∧
      ∃ Bases, c.ColumnBases TwoTypeDB.MasterRecord 4097 = .ok Bases ∧
        Bases.length = c.ComponentTypeInfo.length ∧
        ∀ q ∈ c.ComponentTypeInfo.zip Bases, q.1.2.StructAlignment ∣ (q.2 : Int) := by
  obtain ⟨c, hctor, hcols, hcap, hbases⟩ : ∃ c,
      FMantleDBChunk.Ctor 9 [true, true] TwoTypeDB.MasterRecord = .ok c ∧
      c.ComponentTypeInfo =
        [("Position", ⟨"Position", 0, 12, 4⟩), ("Velocity", ⟨"Velocity", 1, 12, 4⟩)] ∧
      c.TotalCapacity = 42 ∧
      c.ColumnBases TwoTypeDB.MasterRecord 4097 = .ok [4100, 4604] :=
    ⟨_, rfl, rfl, rfl, rfl⟩
  have h := C28_layout_safety 9 [true, true] TwoTypeDB.MasterRecord c 4097 hctor
    (by rw [hcols]; exact List.cons_ne_nil _ _)
    (by
      intro p hp
      rw [hcols] at hp
      rcases List.mem_cons.1 hp with h1 | h1
      · exact ⟨2, by rw [h1]; rfl⟩
      · rw [List.mem_singleton.1 h1]
        exact ⟨2, rfl⟩)
    (by decide) (by decide)
  obtain ⟨h1, h2, Bases, h3, h4, h5, _⟩ := h
  exact ⟨c, hctor, hcap, hbases, h1, h2, Bases, h3, h4, fun q hq => (h5 q hq).1⟩

/-! ## C29: a migration of an entity whose record is stale -/

/-- A pass of the loop of `FMantleDBEntry::TakeEntities` in which the chunk-level call fails
ends the loop with that failure. -/
theorem Entry_TakeEntitiesLoop_fail (EntityIds : List FGuid) (S : List FInstancedStruct)
    (n : Nat) (e TF : FMantleDBEntry) (mr : FMantleDBMasterRecord)
    (Out : FMantleCachedEntry) (Id : FGuid) (c : FMantleDBChunk) (e1 : FMantleDBEntry)
    (mr1 : FMantleDBMasterRecord) (f : Failure)
    (hget : e.GetAvailableChunk mr = .ok (Id, c, e1, mr1))
    (hlen : ¬ EntityIds.length < n + 1)
    (htake : c.TakeEntities (EntityIds.drop (EntityIds.length - (n + 1))) TF mr1 S Out =
      .error f) (fuel : Nat) :
    FMantleDBEntry.TakeEntitiesLoop EntityIds S (fuel + 1) (n + 1) e TF mr Out = .error f := by
  rw [FMantleDBEntry.TakeEntitiesLoop, hget]
  simp only
  rw [if_neg hlen, htake]

theorem StaleDB_reachable : Reachable StaleDB := by
  obtain ⟨db1, It, h1, h2⟩ : ∃ db1 It,
      TwoTypeDB.UpdateEntities 1 [2] [] [some "Position"] = .ok (db1, It) ∧ StaleDB = db1 :=
    ⟨_, _, rfl, rfl⟩
  rw [h2]
  exact Reachable.update _ _ _ _ _ _ _ TwoTypeDB_reachable h1

/-- C29 fails on the code: `StaleDB` is a reachable state (the entity 2 of `TwoTypeDB` had its
`Position` removed, which moved it into the chunk of the bare archetype without rewriting its
record). There the id 2 is live, its record carries the archetype with a `Position`,
`Velocity` is a registered type of 12 bytes that the entity does not have, and nothing is to
be removed; yet `UpdateEntities` with a `Velocity` payload ends, for every positive fuel, in
the fatal branch of an invalid source location, because the chunk the record names holds no
entity and has no blob. -/
theorem C29_stale_record_migration_is_fatal :
    Reachable StaleDB ∧ StaleDB.HasEntity 2 = true ∧
      (StaleDB.MasterRecord.EntitiesById.Find 2).map (fun E => E.Archetype) =
        some [true, false] ∧
      StaleDB.HasComponent "Position" 2 = true ∧ StaleDB.HasComponent "Velocity" 2 = false ∧
      (StaleDB.MasterRecord.ComponentInfoMap.Find "Velocity").map (fun Info => Info.StructSize) =
        some 12 ∧
      StaleDB.FillArchetype [true, false] ["Velocity"] [] = [true, true] ∧
      (StaleDB.GetChunk [true, false] 1).map (fun c => (c.EntityIds, c.bBlobAllocated)) =
        some ([], false) ∧
      ∀ fuel, StaleDB.UpdateEntities (fuel + 1) [2] [⟨"Velocity", 9⟩] [] =
        .error (.Fatal "TakeEntities: OldChunk location is invalid.") := by
  refine ⟨StaleDB_reachable, by decide, by decide, by decide, by decide, by decide, by decide,
    by decide, fun fuel => ?_⟩
  refine UpdateEntities_failure StaleDB (fuel + 1) [2] [⟨"Velocity", 9⟩] [] [true, false] [2]
    ((StaleDB.GetEntry [true, false]).getD { Archetype := [] }) _ (by decide) rfl
    (by decide) (by decide) rfl ?_
  show FMantleDBEntry.TakeEntitiesLoop [2] [⟨"Velocity", 9⟩] (fuel + 1) 1
    (StaleDB.GetOrCreateEntry [true, true]).2
    ((StaleDB.GetEntry [true, false]).getD { Archetype := [] })
    (StaleDB.GetOrCreateEntry [true, true]).1.MasterRecord { Archetype := [true, true] } = _
  exact Entry_TakeEntitiesLoop_fail [2] [⟨"Velocity", 9⟩] 0
    (StaleDB.GetOrCreateEntry [true, true]).2
    ((StaleDB.GetEntry [true, false]).getD { Archetype := [] })
    (StaleDB.GetOrCreateEntry [true, true]).1.MasterRecord { Archetype := [true, true] }
    _ _ _ _ _ rfl (by decide) rfl fuel

/-! ## C36: requirements on component types that are not registered -/

theorem FillArchetypeLoop_filter_registered (mr : FMantleDBMasterRecord) (Value : Bool) :
    ∀ (Names : List FString) (A : TBitArray),
      UMantleDB.FillArchetypeLoop mr Value Names A =
        UMantleDB.FillArchetypeLoop mr Value
          (Names.filter (fun nm => mr.ComponentInfoMap.Contains nm)) A
  | [], _ => rfl
  | nm :: rest, A => by
    cases hf : mr.ComponentInfoMap.Find nm with
    | none =>
      have hc : mr.ComponentInfoMap.Contains nm = false := by
        unfold TMap.Contains
        rw [hf]
        rfl
      rw [List.filter_cons_of_neg (by rw [hc]; simp)]
      show (match mr.ComponentInfoMap.Find nm with
        | none => UMantleDB.FillArchetypeLoop mr Value rest A
        | some ComponentInfo =>
          UMantleDB.FillArchetypeLoop mr Value rest (SetBit A ComponentInfo.ArchetypeIndex Value)) = _
      rw [hf]
      exact FillArchetypeLoop_filter_registered mr Value rest A
    | some Info =>
      have hc : mr.ComponentInfoMap.Contains nm = true := by
        unfold TMap.Contains
        rw [hf]
        rfl
      rw [List.filter_cons_of_pos hc]
      show (match mr.ComponentInfoMap.Find nm with
        | none => UMantleDB.FillArchetypeLoop mr Value rest A
        | some ComponentInfo =>
          UMantleDB.FillArchetypeLoop mr Value rest (SetBit A ComponentInfo.ArchetypeIndex Value)) =
        (match mr.ComponentInfoMap.Find nm with
        | none => UMantleDB.FillArchetypeLoop mr Value
            (rest.filter (fun nm => mr.ComponentInfoMap.Contains nm)) A
        | some ComponentInfo =>
          UMantleDB.FillArchetypeLoop mr Value
            (rest.filter (fun nm => mr.ComponentInfoMap.Contains nm))
            (SetBit A ComponentInfo.ArchetypeIndex Value))
      rw [hf]
      exact FillArchetypeLoop_filter_registered mr Value rest _

theorem FillArchetypeLoop_unregistered (mr : FMantleDBMasterRecord) (Value : Bool) :
    ∀ (Names : List FString) (A : TBitArray),
      (∀ nm ∈ Names, mr.ComponentInfoMap.Find nm = none) →
      UMantleDB.FillArchetypeLoop mr Value Names A = A
  | [], _, _ => rfl
  | nm :: rest, A, h => by
    show (match mr.ComponentInfoMap.Find nm with
      | none => UMantleDB.FillArchetypeLoop mr Value rest A
      | some ComponentInfo =>
        UMantleDB.FillArchetypeLoop mr Value rest (SetBit A ComponentInfo.ArchetypeIndex Value)) = _
    rw [h nm (List.mem_cons_self _ _)]
    exact FillArchetypeLoop_unregistered mr Value rest A
      (fun x hx => h x (List.mem_cons_of_mem _ hx))

theorem BitwiseAND_ZeroBits_right : ∀ (A : TBitArray),
    BitwiseAND A (ZeroBits A.length) = ZeroBits A.length
  | [] => rfl
  | a :: rest => by
    have ih := BitwiseAND_ZeroBits_right rest
    unfold BitwiseAND ZeroBits at ih ⊢
    simp only [List.length_cons, List.replicate_succ, List.zipWith_cons_cons, Bool.and_false]
    rw [ih]

/-- C36: `RunQuery` drops the requirements on component types that are not registered. For
every database and every list of required names, the mask that `RunQuery` compiles for an
uncompiled query is the mask of the registered names of the list alone, and the call returns
the same database and the same iterator as for the query that requires the registered names
only. When none of the names is registered the mask is the all-zero bitset; every active
archetype of the bitset length of the registry is a superset of it, and in a reachable state
whose active archetypes have that length the iterator, when the query returns one with a
master record, lists all active archetypes in their order, the bare one included. -/
theorem C36_unregistered_requirements_dropped (db : UMantleDB) (Names : List FString) :
    (db.RunQuery { RequiredComponents := Names }).1.CachedArchetype =
        db.FillArchetype (ZeroBits db.MasterRecord.ComponentInfoMap.length)
          (Names.filter (fun nm => db.MasterRecord.ComponentInfoMap.Contains nm)) ∧
      (db.RunQuery { RequiredComponents := Names }).2 =
        (db.RunQuery { RequiredComponents :=
            (Names.filter (fun nm => db.MasterRecord.ComponentInfoMap.Contains nm)) }).2 ∧
      ((∀ nm ∈ Names, db.MasterRecord.ComponentInfoMap.Find nm = none) →
        (db.RunQuery { RequiredComponents := Names }).1.CachedArchetype =
            ZeroBits db.MasterRecord.ComponentInfoMap.length ∧
          (∀ X ∈ db.ActiveArchetypes, X.length = db.MasterRecord.ComponentInfoMap.length →
            BitwiseAND X (db.RunQuery { RequiredComponents := Names }).1.CachedArchetype =
              (db.RunQuery { RequiredComponents := Names }).1.CachedArchetype) ∧
          (Reachable db →
            (∀ X ∈ db.ActiveArchetypes, X.length = db.MasterRecord.ComponentInfoMap.length) →
            (db.RunQuery { RequiredComponents := Names }).2.2.bHasMasterRecord = true →
            (db.RunQuery { RequiredComponents := Names }).2.2.Snapshot.map (fun p => p.1) =
              db.ActiveArchetypes)) := by
  have hmask : (db.RunQuery { RequiredComponents := Names }).1.CachedArchetype =
      db.FillArchetype (ZeroBits db.MasterRecord.ComponentInfoMap.length)
        (Names.filter (fun nm => db.MasterRecord.ComponentInfoMap.Contains nm)) :=
    FillArchetypeLoop_filter_registered db.MasterRecord true Names _
  have hmask2 : (db.RunQuery { RequiredComponents :=
          (Names.filter (fun nm => db.MasterRecord.ComponentInfoMap.Contains nm)) }).1.CachedArchetype =
      db.FillArchetype (ZeroBits db.MasterRecord.ComponentInfoMap.length)
        (Names.filter (fun nm => db.MasterRecord.ComponentInfoMap.Contains nm)) := rfl
  refine ⟨hmask, ?_, fun hnone => ?_⟩
  · rw [RunQuery_eq, RunQuery_eq, hmask, hmask2]
  · have hzero : (db.RunQuery { RequiredComponents := Names }).1.CachedArchetype =
        ZeroBits db.MasterRecord.ComponentInfoMap.length :=
      FillArchetypeLoop_unregistered db.MasterRecord true Names _ hnone
    have hsup : ∀ X ∈ db.ActiveArchetypes, X.length = db.MasterRecord.ComponentInfoMap.length →
        BitwiseAND X (db.RunQuery { RequiredComponents := Names }).1.CachedArchetype =
          (db.RunQuery { RequiredComponents := Names }).1.CachedArchetype := by
      intro X _ hX
      rw [hzero, ← hX]
      exact BitwiseAND_ZeroBits_right X
    refine ⟨hzero, hsup, fun hreach hlen hb => ?_⟩
    rw [RunQuery_eq] at hb ⊢
    rw [(RunQueryInternal_snapshot db _ hreach.inv).1 hb]
    unfold UMantleDB.ScanQuery
    rw [List.map_map]
    have hfilter : db.ActiveArchetypes.filter
        (fun X => decide (BitwiseAND X (db.RunQuery { RequiredComponents := Names }).1.CachedArchetype =
          (db.RunQuery { RequiredComponents := Names }).1.CachedArchetype)) = db.ActiveArchetypes := by
      rw [List.filter_eq_self]
      intro X hX
      exact decide_eq_true (hsup X hX (hlen X hX))
    rw [hfilter]
    exact List.map_id _

/-- C36 on `TwoTypeDB`: the query requiring `Health`, `Position` and `Mana`, of which only
`Position` is registered, returns what the query requiring `Position` returns; and the query
requiring `Health` and `Mana` lists the three active archetypes, the bare one first. -/
theorem C36_unregistered_requirements_dropped_witness :
    (TwoTypeDB.RunQuery { RequiredComponents := ["Health", "Position", "Mana"] }).2 =
        (TwoTypeDB.RunQuery { RequiredComponents := ["Position"] }).2 ∧
      (TwoTypeDB.RunQuery { RequiredComponents := ["Health", "Mana"] }).2.2.Snapshot.map
          (fun p => p.1) = TwoTypeDB.ActiveArchetypes ∧
      TwoTypeDB.ActiveArchetypes = [[false, false], [true, false], [true, true]] :=
  ⟨(C36_unregistered_requirements_dropped TwoTypeDB ["Health", "Position", "Mana"]).2.1,
    ((C36_unregistered_requirements_dropped TwoTypeDB ["Health", "Mana"]).2.2
      (by decide)).2.2 TwoTypeDB_reachable (by decide) (by decide),
    by decide⟩

/-! ## What `RunQueryInternal` does to the versions of the cached queries -/

theorem RunQueryLoop_queries (Q : TBitArray) : ∀ (L : List TBitArray) (db : UMantleDB)
    (CQ : FMantleCachedQuery),
    (UMantleDB.RunQueryLoop Q L db CQ).1.MasterRecord.CachedQueries =
        db.MasterRecord.CachedQueries ∧
      (UMantleDB.RunQueryLoop Q L db CQ).2.1.Version = CQ.Version ∧
      (UMantleDB.RunQueryLoop Q L db CQ).2.1.QueryArchetype = CQ.QueryArchetype
  | [], db, CQ => ⟨rfl, rfl, rfl⟩
  | X :: rest, db, CQ => by
    rw [UMantleDB.RunQueryLoop]
    split
    · exact RunQueryLoop_queries Q rest db CQ
    · simp only
      have hf := (FindOrAddCachedEntry_frame db.MasterRecord X).1
      split <;> split
      all_goals first
        | exact ⟨hf, rfl, rfl⟩
        | (obtain ⟨a1, a2, a3⟩ := RunQueryLoop_queries Q rest
            { db with
              MasterRecord :=
                { db.MasterRecord.FindOrAddCachedEntry X with
                  CachedEntries :=
                    (db.MasterRecord.FindOrAddCachedEntry X).CachedEntries.Add X _ } }
            { CQ with MatchingEntries := CQ.MatchingEntries ++ [_] }
           exact ⟨a1.trans hf, a2, a3⟩)

/-- `RunQueryInternal` touches no cached query but the one of its mask. When that one is stored
with a valid version, the database stays as it is and the iterator holds the stored query.
Otherwise the query is stored, with the successor of its version number and a valid version
when the rebuild succeeds, and with its version as before when the rebuild fails. -/
theorem RunQueryInternal_versions (db : UMantleDB) (Q : TBitArray) :
    (∀ Q1, Q1 ≠ Q → (db.RunQueryInternal Q).1.MasterRecord.CachedQueries.Find Q1 =
        db.MasterRecord.CachedQueries.Find Q1) ∧
      ((∃ CQ, db.MasterRecord.CachedQueries.Find Q = some CQ ∧ CQ.Version.bIsValid = true ∧
          db.RunQueryInternal Q = (db, { LocalCache := CQ, bHasMasterRecord := true })) ∨
        ((∀ CQ, db.MasterRecord.CachedQueries.Find Q = some CQ → CQ.Version.bIsValid = false) ∧
          ∃ CQ1, (db.RunQueryInternal Q).1.MasterRecord.CachedQueries.Find Q = some CQ1 ∧
            ((CQ1.Version =
                  ((db.MasterRecord.CachedQueries.Find Q).getD
                    { QueryArchetype := Q }).Version.Update ∧
                (db.RunQueryInternal Q).2 = { LocalCache := CQ1, bHasMasterRecord := true }) ∨
              (CQ1.Version =
                  ((db.MasterRecord.CachedQueries.Find Q).getD { QueryArchetype := Q }).Version ∧
                (db.RunQueryInternal Q).2 = {})))) := by
  by_cases hvalid : ((db.MasterRecord.CachedQueries.Find Q).map
      (fun q => q.Version.IsValid)).getD false = true
  · cases hf : db.MasterRecord.CachedQueries.Find Q with
    | none => rw [hf] at hvalid; cases hvalid
    | some CQ =>
      have hv : CQ.Version.bIsValid = true := by
        rw [hf] at hvalid
        exact hvalid
      rw [RunQueryInternal_cached db Q CQ hf hv]
      exact ⟨fun _ _ => rfl, Or.inl ⟨CQ, rfl, hv, rfl⟩⟩
  · obtain ⟨CQ0, hCQ⟩ : ∃ CQ0, CQ0 =
        ((db.MasterRecord.CachedQueries.Find Q).getD { QueryArchetype := Q }).ClearData :=
      ⟨_, rfl⟩
    obtain ⟨r, hr⟩ : ∃ r, r =
        UMantleDB.RunQueryLoop Q db.ActiveArchetypes (db.StoreQuery Q CQ0) CQ0 := ⟨_, rfl⟩
    rw [RunQueryInternal_rebuild db Q hvalid CQ0 hCQ r hr]
    obtain ⟨a1, a2, _⟩ := RunQueryLoop_queries Q db.ActiveArchetypes (db.StoreQuery Q CQ0) CQ0
    rw [← hr] at a1 a2
    have hver : r.2.1.Version =
        ((db.MasterRecord.CachedQueries.Find Q).getD { QueryArchetype := Q }).Version := by
      rw [a2, hCQ]
      rfl
    have hinvalid : ∀ CQ, db.MasterRecord.CachedQueries.Find Q = some CQ →
        CQ.Version.bIsValid = false := by
      intro CQ hf
      rw [hf] at hvalid
      cases hv : CQ.Version.bIsValid with
      | false => rfl
      | true => exact absurd hv hvalid
    have hstore : ∀ (X : FMantleCachedQuery) (Q1 : TBitArray),
        (r.1.StoreQuery Q X).MasterRecord.CachedQueries.Find Q1 =
          if Q1 = Q then some X else db.MasterRecord.CachedQueries.Find Q1 := by
      intro X Q1
      show (r.1.MasterRecord.CachedQueries.Add Q X).Find Q1 = _
      rw [a1]
      show ((db.MasterRecord.CachedQueries.Add Q CQ0).Add Q X).Find Q1 = _
      rw [TMap.Find_Add, TMap.Find_Add]
      by_cases h : Q1 = Q
      · rw [if_pos h, if_pos h]
      · rw [if_neg h, if_neg h, if_neg h]
    by_cases hflag : r.2.2 = false
    · rw [if_pos hflag]
      refine ⟨fun Q1 h1 => ?_, Or.inr ⟨hinvalid, r.2.1, ?_, Or.inr ⟨hver, rfl⟩⟩⟩
      · show (r.1.StoreQuery Q r.2.1).MasterRecord.CachedQueries.Find Q1 = _
        rw [hstore, if_neg h1]
      · show (r.1.StoreQuery Q r.2.1).MasterRecord.CachedQueries.Find Q = _
        rw [hstore, if_pos rfl]
    · rw [if_neg hflag]
      refine ⟨fun Q1 h1 => ?_,
        Or.inr ⟨hinvalid, { r.2.1 with Version := r.2.1.Version.Update }, ?_,
          Or.inl ⟨?_, rfl⟩⟩⟩
      · show (r.1.StoreQuery Q _).MasterRecord.CachedQueries.Find Q1 = _
        rw [hstore, if_neg h1]
      · show (r.1.StoreQuery Q _).MasterRecord.CachedQueries.Find Q = _
        rw [hstore, if_pos rfl]
      · show r.2.1.Version.Update = _
        rw [hver]

theorem NumberKept_refl (db : UMantleDB) (Q : TBitArray) : NumberKept db db Q :=
  ⟨rfl, fun CQ h hv => ⟨CQ, h, hv⟩⟩

theorem NumberKept_trans {db db1 db2 : UMantleDB} {Q : TBitArray}
    (h1 : NumberKept db db1 Q) (h2 : NumberKept db1 db2 Q) : NumberKept db db2 Q := by
  refine ⟨h2.1.trans h1.1, fun CQ2 hf hv => ?_⟩
  obtain ⟨CQ1, f1, v1⟩ := h2.2 CQ2 hf hv
  exact h1.2 CQ1 f1 v1

theorem NumberKept_of_versions {db db1 : UMantleDB} {Q : TBitArray}
    (h : VersionsKept db db1 Q) : NumberKept db db1 Q :=
  ⟨StoredNumber_of_kept h, h.2⟩

theorem StoredNumber_of_Find {db : UMantleDB} {Q : TBitArray} {CQ : FMantleCachedQuery}
    (h : db.MasterRecord.CachedQueries.Find Q = some CQ) :
    db.StoredNumber Q = CQ.Version.VersionNumber := by
  unfold UMantleDB.StoredNumber
  rw [h]
  rfl

theorem IsValid_of_number_kept {db db1 : UMantleDB} (It : FMantleIterator)
    (h : NumberKept db db1 It.LocalCache.QueryArchetype)
    (hv : It.IsValid db1.MasterRecord = true) : It.IsValid db.MasterRecord = true := by
  obtain ⟨hflag, CQ1, f1, v1, n1⟩ := (IsValid_eq_true_iff It db1.MasterRecord).1 hv
  obtain ⟨CQ, f, v⟩ := h.2 CQ1 f1 v1
  have hn := h.1
  rw [StoredNumber_of_Find f1, StoredNumber_of_Find f] at hn
  exact (IsValid_eq_true_iff It db.MasterRecord).2 ⟨hflag, CQ, f, v, hn.symm.trans n1⟩

/-- `GetOrCreateEntry` keeps the version number of every cached query and makes no version
valid. -/
theorem GetOrCreateEntry_kept (db : UMantleDB) (A Q : TBitArray) :
    VersionsKept db (db.GetOrCreateEntry A).1 Q := by
  cases hf : db.EntriesByArchetype.Find A with
  | some e =>
    rw [GetOrCreateEntry_old db A e hf]
    exact VersionsKept_refl db Q
  | none =>
    obtain ⟨_, _, _, _, _, _, _, _, n9, _⟩ := GetOrCreateEntry_new db A hf
    unfold VersionsKept
    rw [n9 Q]
    cases hq : db.MasterRecord.CachedQueries.Find Q with
    | none => exact ⟨rfl, fun CQ1 h _ => by cases h⟩
    | some CQ =>
      simp only [Option.map_some']
      refine ⟨?_, fun CQ1 h hv => ⟨CQ, rfl, ?_⟩⟩
      · split <;> rfl
      · injection h with h
        rw [← h] at hv
        split at hv
        · cases hv
        · exact hv

/-- `RunQueryInternal` for the mask `T` and the cached query of the mask `Q`: the version number
is kept and the version is not made valid, or the query is stored with a valid version whose
number is the successor modulo `2 ^ 32`. -/
theorem RunQueryInternal_step (db : UMantleDB) (T Q : TBitArray) :
    NumberKept db (db.RunQueryInternal T).1 Q ∨
      ∃ CQ1, (db.RunQueryInternal T).1.MasterRecord.CachedQueries.Find Q = some CQ1 ∧
        CQ1.Version.bIsValid = true ∧
        CQ1.Version.VersionNumber = (db.StoredNumber Q + 1) % 2 ^ 32 := by
  obtain ⟨r1, r2⟩ := RunQueryInternal_versions db T
  by_cases hQ : Q = T
  · subst hQ
    rcases r2 with ⟨CQ, _, _, h3⟩ | ⟨hinvalid, CQ1, hf1, h3 | h3⟩
    · rw [h3]
      exact Or.inl (NumberKept_refl db Q)
    · right
      refine ⟨CQ1, hf1, ?_, ?_⟩
      · rw [h3.1]
        rfl
      · rw [h3.1]
        show (_ + 1) % 2 ^ 32 = _
        unfold UMantleDB.StoredNumber
        cases db.MasterRecord.CachedQueries.Find Q <;> rfl
    · left
      refine ⟨?_, fun CQ2 hf2 hv2 => ?_⟩
      · rw [StoredNumber_of_Find hf1, h3.1]
        unfold UMantleDB.StoredNumber
        cases db.MasterRecord.CachedQueries.Find Q <;> rfl
      · rw [hf1] at hf2
        injection hf2 with hf2
        subst hf2
        rw [h3.1] at hv2
        cases hf : db.MasterRecord.CachedQueries.Find Q with
        | none =>
          rw [hf] at hv2
          cases hv2
        | some CQ =>
          rw [hf] at hv2
          exact ⟨CQ, rfl, hv2⟩
  · left
    have h := r1 Q hQ
    unfold NumberKept UMantleDB.StoredNumber
    rw [h]
    exact ⟨rfl, fun CQ hf hv => ⟨CQ, hf, hv⟩⟩

theorem Reachable_step {db db1 : UMantleDB} (hreach : Reachable db) (h : Step db db1) :
    Reachable db1 := by
  cases h with
  | init _ T B h => exact Reachable.init _ _ T B hreach h
  | add _ fuel S n It h => exact Reachable.add _ _ fuel S n It hreach h
  | remove _ ids h => exact Reachable.remove _ _ ids hreach h
  | update _ fuel ids S R It h => exact Reachable.update _ _ fuel ids S R It hreach h
  | query Query => exact Reachable.query _ Query hreach

/-- One call of a public operation and the cached query of the mask `Q`: the version number is
kept and the version is not made valid, or the query is stored with a valid version whose
number is the successor modulo `2 ^ 32` of the number before the call. -/
theorem Step_version {db db1 : UMantleDB} (hinv : CacheInv db) (h : Step db db1)
    (Q : TBitArray) :
    NumberKept db db1 Q ∨
      ∃ CQ1, db1.MasterRecord.CachedQueries.Find Q = some CQ1 ∧
        CQ1.Version.bIsValid = true ∧
        CQ1.Version.VersionNumber = (db.StoredNumber Q + 1) % 2 ^ 32 := by
  have hcomp : ∀ (db3 : UMantleDB) (T : TBitArray), VersionsKept db db3 Q →
      (NumberKept db (db3.RunQueryInternal T).1 Q ∨
        ∃ CQ1, (db3.RunQueryInternal T).1.MasterRecord.CachedQueries.Find Q = some CQ1 ∧
          CQ1.Version.bIsValid = true ∧
          CQ1.Version.VersionNumber = (db.StoredNumber Q + 1) % 2 ^ 32) := by
    intro db3 T hkept
    rcases RunQueryInternal_step db3 T Q with h1 | ⟨CQ1, c1, c2, c3⟩
    · exact Or.inl (NumberKept_trans (NumberKept_of_versions hkept) h1)
    · exact Or.inr ⟨CQ1, c1, c2, by rw [c3, StoredNumber_of_kept hkept]⟩
  cases h with
  | init _ T B h =>
    left
    unfold UMantleDB.Initialize at h
    split at h
    · injection h with h
      rw [← h]
      exact NumberKept_refl db Q
    · split at h
      · cases h
      · simp only at h
        split at h
        · injection h with h
          rw [← h]
          exact NumberKept_of_versions (VersionsKept_of_caches Q ⟨rfl, rfl⟩)
        · injection h with h
          rw [← h]
          exact NumberKept_of_versions
            (VersionsKept_trans (VersionsKept_of_caches Q ⟨rfl, rfl⟩)
              (GetOrCreateEntry_kept _ _ Q))
  | add _ fuel S n It h =>
    obtain ⟨_, db2, k, _, _, hdb1⟩ := AddEntities_trace hinv h
    rw [hdb1]
    exact hcomp _ _ (VersionsKept_trans
      (VersionsKept_trans (GetOrCreateEntry_kept db _ Q) (VersionsKept_of_caches _ k))
      (VersionsKept_of_invalidated Q (Invalidated.single db2 _)))
  | remove _ ids h =>
    obtain ⟨_, db2, M, ⟨_, t2, _⟩, hinval⟩ := RemoveEntities_trace hinv h
    exact Or.inl (NumberKept_of_versions
      (VersionsKept_trans (VersionsKept_of_caches _ t2) (VersionsKept_of_invalidated _ hinval)))
  | update _ fuel ids S R It h =>
    obtain ⟨_, htr⟩ := UpdateEntities_trace hinv h
    rcases htr with ⟨h1, _⟩ | ⟨Old, Valid, db2, _, _, _, _, k, _, _, hdb1⟩
    · rw [h1]
      exact Or.inl (NumberKept_refl db Q)
    · have hinval : Invalidated
          [Old, db.FillArchetype Old (S.map (fun p => p.TypeName)) (R.filterMap id)] db2
          ((db2.EntryWasModified Old).EntryWasModified
            (db.FillArchetype Old (S.map (fun p => p.TypeName)) (R.filterMap id))) :=
        Invalidated.foldl _ db2
      rw [hdb1]
      exact hcomp _ _ (VersionsKept_trans
        (VersionsKept_trans (GetOrCreateEntry_kept db _ Q) (VersionsKept_of_caches _ k))
        (VersionsKept_of_invalidated Q hinval))
  | query Query =>
    rw [RunQuery_eq]
    exact RunQueryInternal_step db _ Q

/-! ## C32: the version number of a cached query along a run of operations -/

/-- Along a run from a reachable state with at most `k` rebuilds of the cached query of `Q`, the
version number of the query has grown by some `r ≤ k` modulo `2 ^ 32`; when `r = 0` the number
was kept and the version was not made valid. -/
theorem RunWith_number {Q : TBitArray} {db db1 : UMantleDB} {k : Nat} (hreach : Reachable db)
    (h : RunWith Q db db1 k) :
    Reachable db1 ∧ ∃ r, r ≤ k ∧
      db1.StoredNumber Q % 4294967296 = (db.StoredNumber Q + r) % 4294967296 ∧
      (r = 0 → NumberKept db db1 Q) := by
  induction h with
  | done => exact ⟨hreach, 0, le_refl _, rfl, fun _ => NumberKept_refl _ _⟩
  | keep db1 db2 k _ hstep hkept ih =>
    obtain ⟨hr1, r, hr, hn, h0⟩ := ih
    refine ⟨Reachable_step hr1 hstep, r, hr, ?_, fun h => NumberKept_trans (h0 h) hkept⟩
    rw [hkept.1]
    exact hn
  | rebuild db1 db2 k _ hstep ih =>
    obtain ⟨hr1, r, hr, hn, h0⟩ := ih
    rcases Step_version hr1.inv hstep Q with hk | ⟨CQ1, c1, _, c3⟩
    · refine ⟨Reachable_step hr1 hstep, r, Nat.le_succ_of_le hr, ?_,
        fun h => NumberKept_trans (h0 h) hk⟩
      rw [hk.1]
      exact hn
    · refine ⟨Reachable_step hr1 hstep, r + 1, Nat.succ_le_succ hr, ?_,
        fun h => absurd h (Nat.succ_ne_zero r)⟩
      rw [StoredNumber_of_Find c1, c3]
      have hM : (2 : Nat) ^ 32 = 4294967296 := by norm_num
      rw [hM]
      omega

theorem AddNothingRun_reachable : ∀ (k : Nat) (db db1 : UMantleDB), Reachable db →
    AddNothingRun k db = .ok db1 → Reachable db1
  | 0, db, db1, hreach, h => by
    injection h with h
    exact h ▸ hreach
  | k + 1, db, db1, hreach, h => by
    rw [AddNothingRun] at h
    cases hadd : db.AddEntities 0 [⟨"Position", 0⟩] 0 with
    | error f =>
      rw [hadd] at h
      cases h
    | ok res =>
      obtain ⟨db2, It2⟩ := res
      rw [hadd] at h
      exact AddNothingRun_reachable k db2 db1 (Reachable.add _ _ _ _ _ _ hreach hadd) h

/-- C32 (amended). In a reachable state `db`, for the cached query of a mask `Q`:
* `Invalidate` keeps the version number, and `Update` gives the successor modulo `2 ^ 32`,
  which is the successor as long as it is below `2 ^ 32`; `EntryWasModified` and
  `GetOrCreateEntry`, which invalidate, keep the stored number.
* Every call of a public operation keeps the stored number or replaces it by its successor
  modulo `2 ^ 32`, so the number does not decrease as long as its successor is below `2 ^ 32`.
* For an iterator of `Q` that is valid in `db`: along every run of operations that rebuilds the
  query fewer than `2 ^ 32` times, once the iterator is not valid it is not valid in any later
  state. -/
theorem C32_version_numbers (db : UMantleDB) (hreach : Reachable db) (Q : TBitArray) :
    (∀ v : FMantleDBVersion,
      v.Invalidate.VersionNumber = v.VersionNumber ∧
        v.Update.VersionNumber = (v.VersionNumber + 1) % 2 ^ 32 ∧
        (v.VersionNumber + 1 < 2 ^ 32 → v.Update.VersionNumber = v.VersionNumber + 1)) ∧
      (∀ X : TBitArray,
        (db.EntryWasModified X).StoredNumber Q = db.StoredNumber Q ∧
          (db.GetOrCreateEntry X).1.StoredNumber Q = db.StoredNumber Q) ∧
      (∀ db1, Step db db1 →
        (db1.StoredNumber Q = db.StoredNumber Q ∨
          db1.StoredNumber Q = (db.StoredNumber Q + 1) % 2 ^ 32) ∧
        (db.StoredNumber Q + 1 < 2 ^ 32 → db.StoredNumber Q ≤ db1.StoredNumber Q)) ∧
      (∀ (It : FMantleIterator) (db1 db2 : UMantleDB) (k1 k2 : Nat),
        It.LocalCache.QueryArchetype = Q → It.IsValid db.MasterRecord = true →
        RunWith Q db db1 k1 → It.IsValid db1.MasterRecord = false →
        RunWith Q db1 db2 k2 → k1 + k2 < 2 ^ 32 →
        It.IsValid db2.MasterRecord = false) := by
  have hM : (2 : Nat) ^ 32 = 4294967296 := by norm_num
  refine ⟨fun v => ⟨rfl, rfl, fun h => Nat.mod_eq_of_lt h⟩, fun X => ⟨?_, ?_⟩,
    fun db1 hstep => ?_, ?_⟩
  · exact StoredNumber_of_kept (VersionsKept_of_invalidated Q (Invalidated.single db X))
  · exact StoredNumber_of_kept (GetOrCreateEntry_kept db X Q)
  · rcases Step_version hreach.inv hstep Q with hk | ⟨CQ1, c1, _, c3⟩
    · exact ⟨Or.inl hk.1, fun _ => le_of_eq hk.1.symm⟩
    · rw [StoredNumber_of_Find c1, c3]
      refine ⟨Or.inr rfl, fun h => ?_⟩
      rw [Nat.mod_eq_of_lt h]
      exact Nat.le_succ _
  · intro It db1 db2 k1 k2 hQ hv0 hrun1 hv1 hrun2 hlt
    cases hv2 : It.IsValid db2.MasterRecord with
    | false => rfl
    | true =>
      exfalso
      obtain ⟨hr1, r1, hle1, hn1, hk1⟩ := RunWith_number hreach hrun1
      obtain ⟨_, r2, hle2, hn2, hk2⟩ := RunWith_number hr1 hrun2
      obtain ⟨_, CQ0, f0, _, n0⟩ := (IsValid_eq_true_iff It db.MasterRecord).1 hv0
      obtain ⟨_, CQ2, f2, _, n2⟩ := (IsValid_eq_true_iff It db2.MasterRecord).1 hv2
      rw [hQ] at f0 f2
      have e0 : db.StoredNumber Q = It.LocalCache.Version.VersionNumber :=
        (StoredNumber_of_Find f0).trans n0
      have e2 : db2.StoredNumber Q = It.LocalCache.Version.VersionNumber :=
        (StoredNumber_of_Find f2).trans n2
      rw [hM] at hlt
      have hr2 : r2 = 0 := by omega
      have hkept := hk2 hr2
      rw [← hQ] at hkept
      have := IsValid_of_number_kept It hkept hv2
      rw [hv1] at this
      cases this

/-- C32 (amended) on the database with two archetypes: the iterator of the query for `Position`
is valid; after the entity 2 is removed it is not valid, and it is not valid after the query
is run again. -/
theorem C32_version_numbers_witness :
    TwoTypeQueryPosition.2.IsValid TwoTypeQueryPosition.1.MasterRecord = true ∧
      ∃ db1, TwoTypeQueryPosition.1.RemoveEntities [2] = .ok db1 ∧
        TwoTypeQueryPosition.2.IsValid db1.MasterRecord = false ∧
        TwoTypeQueryPosition.2.IsValid
          (db1.RunQuery { RequiredComponents := ["Position"] }).2.1.MasterRecord = false := by
  have hv0 : TwoTypeQueryPosition.2.IsValid TwoTypeQueryPosition.1.MasterRecord = true := by
    decide
  obtain ⟨db1, h1, hv1⟩ : ∃ db1, TwoTypeQueryPosition.1.RemoveEntities [2] = .ok db1 ∧
      TwoTypeQueryPosition.2.IsValid db1.MasterRecord = false := ⟨_, rfl, by decide⟩
  refine ⟨hv0, db1, h1, hv1, ?_⟩
  exact (C32_version_numbers TwoTypeQueryPosition.1 TwoTypeQueryPosition_reachable
    [true, false]).2.2.2 TwoTypeQueryPosition.2 db1
    (db1.RunQuery { RequiredComponents := ["Position"] }).2.1 1 1 (by decide) hv0
    (RunWith.rebuild _ _ 0 RunWith.done (Step.remove _ _ [2] h1)) hv1
    (RunWith.rebuild _ _ 0 RunWith.done (Step.query db1 { RequiredComponents := ["Position"] }))
    (by norm_num)

/-- C32 as written fails when the 32-bit version number wraps around: after `2 ^ 32 - 3` calls
of `AddEntities` with a `Position` template and zero entities, each of which rebuilds the
cached query for `Position`, the query is stored with the version number `2 ^ 32 - 1`, and the
rebuild of one more such call stores it with the version number `0`. -/
theorem C32_version_number_wraps :
    TwoTypeQueryPosition.1.StoredNumber [true, false] = 2 ∧
      ∃ db db1 It1,
        AddNothingRun (2 ^ 32 - 3) TwoTypeQueryPosition.1 = .ok db ∧ Reachable db ∧
        db.StoredNumber [true, false] = 2 ^ 32 - 1 ∧
        db.AddEntities 0 [⟨"Position", 0⟩] 0 = .ok (db1, It1) ∧
        db1.StoredNumber [true, false] = 0 := by
  obtain ⟨CQ, hCQ, hver⟩ : ∃ CQ,
      TwoTypeQueryPosition.1.MasterRecord.CachedQueries.Find [true, false] = some CQ ∧
        CQ.Version = { VersionNumber := 2, bIsValid := true } := ⟨_, rfl, rfl⟩
  obtain ⟨db, CQd, hrun, hinv, hJ, hQd, _, hnd⟩ :=
    AddNothingRun_version (2 ^ 32 - 3) TwoTypeQueryPosition.1 CQ
      TwoTypeQueryPosition_reachable.inv TwoTypeQueryPosition_lookups hCQ
      (by rw [hver]) (by rw [hver]; decide)
  obtain ⟨db1, It1, CQ1, hadd, _, _, hQ1, _, hn1⟩ := AddNothing_step db hinv hJ CQd hQd
  refine ⟨by decide, db, db1, It1, hrun,
    AddNothingRun_reachable _ _ _ TwoTypeQueryPosition_reachable hrun, ?_, hadd, ?_⟩
  · rw [StoredNumber_of_Find hQd, hnd, hver]
    decide
  · rw [StoredNumber_of_Find hQ1, hn1, hnd, hver]
    decide

/-! ## C33: what `RunQuery` does to the iterators that exist -/

theorem FillBoth_lookups {db : UMantleDB} (hJ : SameLookups TwoTypeDB db) :
    db.FillArchetype (ZeroBits db.MasterRecord.ComponentInfoMap.length)
      ["Position", "Velocity"] = [true, true] := by
  rw [hJ.2.2.2.1, FillArchetype_congr db TwoTypeDB hJ.2.2.2.1]
  decide

/-- One call of `AddEntities` with templates for `Position` and `Velocity` and zero entities,
in a state with the store of `TwoTypeDB` in which the query for `Position` is cached with a
valid version: the store stays the same, and the query for `Position` keeps its version
number and is stored with a version that is not valid. -/
theorem AddBoth_step (db : UMantleDB) (hinv : CacheInv db) (hJ : SameLookups TwoTypeDB db)
    (CQ : FMantleCachedQuery)
    (hQ : db.MasterRecord.CachedQueries.Find [true, false] = some CQ) :
    ∃ db1 It1 CQ1, db.AddEntities 0 [⟨"Position", 0⟩, ⟨"Velocity", 0⟩] 0 = .ok (db1, It1) ∧
      CacheInv db1 ∧ SameLookups TwoTypeDB db1 ∧
      db1.MasterRecord.CachedQueries.Find [true, false] = some CQ1 ∧
      CQ1.Version.bIsValid = false ∧
      CQ1.Version.VersionNumber = CQ.Version.VersionNumber := by
  have hA := FillBoth_lookups hJ
  obtain ⟨h1, h2, h3, h4, h5, h6⟩ := hJ
  obtain ⟨e, he0⟩ : ∃ e, TwoTypeDB.EntriesByArchetype.Find [true, true] = some e := ⟨_, rfl⟩
  have he : db.EntriesByArchetype.Find [true, true] = some e := (h1 _).trans he0
  have hg := GetOrCreateEntry_old db [true, true] e he
  have hadd : (db.GetOrCreateEntry [true, true]).2.AddEntities 0
      (db.GetOrCreateEntry [true, true]).1.MasterRecord [⟨"Position", 0⟩, ⟨"Velocity", 0⟩] 0
      { Archetype := [true, true] } = .ok (e, db.MasterRecord, { Archetype := [true, true] }) := by
    rw [hg]
    exact Entry_AddEntities_zero 0 e db.MasterRecord _ _
  obtain ⟨db3, hdb3, hmod, d1, d2, d3, d4, d5, d6, hrun⟩ :=
    AddEntities_explicit db 0 [⟨"Position", 0⟩, ⟨"Velocity", 0⟩] 0 [true, true] hinv hA e
      db.MasterRecord { Archetype := [true, true] } hadd
  rw [hg] at d1 d2 hdb3
  obtain ⟨r1, ⟨s1, s2, _, s4, s5, s6, s7⟩, _⟩ := RunQueryInternal_inv db3 [true, true] hmod
  have hE3 : ∀ X, db3.EntriesByArchetype.Find X = TwoTypeDB.EntriesByArchetype.Find X := by
    intro X
    rw [d1, TMap.Find_Add]
    split
    · rename_i hX
      rw [hX, he0]
    · exact h1 X
  have hactive : [true, true] ∈ db.ActiveArchetypes := by
    rw [h2]
    decide
  obtain ⟨CQ3, c1, c2, c3⟩ :=
    @Invalidated_query db
      { db with EntriesByArchetype := db.EntriesByArchetype.Add [true, true] e,
                MasterRecord := db.MasterRecord }
      db3 [[true, true]] [true, false] [true, true] CQ hinv ⟨rfl, rfl⟩
      (hdb3 ▸ Invalidated.single _ [true, true]) (List.mem_singleton.2 rfl) hactive
      (by decide) hQ
  have hframe := (RunQueryInternal_versions db3 [true, true]).1 [true, false] (by decide)
  refine ⟨_, _, CQ3, hrun, r1, ⟨?_, ?_, ?_, ?_, ?_, ?_⟩, hframe.trans c1, c3, c2⟩
  · intro X
    rw [s1]
    exact hE3 X
  · rw [s2, d2, h2]
  · rw [s4, d3, h3]
  · rw [s5, d4, h4]
  · rw [s6, d5, h5]
  · rw [s7, d6, h6]

/-- C33 (amended). For every database, every query and every iterator `It`:
* an iterator that is valid before `RunQuery` is valid after it;
* an iterator that is valid after `RunQuery` was valid before it, or it is an iterator of the
  mask of the query and holds the successor modulo `2 ^ 32` of the version number the query
  was stored with; for an iterator that was valid in a reachable state `db0` from which a run
  with fewer than `2 ^ 32 - 1` rebuilds of its query leads to the database, this does not
  happen, and `IsValid` has the same value before and after `RunQuery`;
* when the cached query of the mask is stored with a valid version, `RunQuery` returns the
  database as it is and an iterator that holds the stored query;
* when `RunQuery` has returned an iterator with a master record, the same query run again
  right after it returns the same query object, the same database and the same iterator. -/
theorem C33_run_query_keeps_iterators (db : UMantleDB) (Query : FMantleComponentQuery)
    (It : FMantleIterator) :
    (It.IsValid db.MasterRecord = true →
        It.IsValid (db.RunQuery Query).2.1.MasterRecord = true) ∧
      (It.IsValid (db.RunQuery Query).2.1.MasterRecord = true →
        It.IsValid db.MasterRecord = true ∨
          (It.LocalCache.QueryArchetype = (db.RunQuery Query).1.CachedArchetype ∧
            It.LocalCache.Version.VersionNumber =
              (db.StoredNumber It.LocalCache.QueryArchetype + 1) % 2 ^ 32)) ∧
      (∀ (db0 : UMantleDB) (k : Nat), Reachable db0 → It.IsValid db0.MasterRecord = true →
        RunWith It.LocalCache.QueryArchetype db0 db k → k + 1 < 2 ^ 32 →
        It.IsValid (db.RunQuery Query).2.1.MasterRecord = It.IsValid db.MasterRecord) ∧
      (∀ CQ, db.MasterRecord.CachedQueries.Find (db.RunQuery Query).1.CachedArchetype = some CQ →
        CQ.Version.bIsValid = true →
        (db.RunQuery Query).2 = (db, { LocalCache := CQ, bHasMasterRecord := true })) ∧
      ((db.RunQuery Query).2.2.bHasMasterRecord = true →
        (db.RunQuery Query).2.1.RunQuery (db.RunQuery Query).1 = db.RunQuery Query) := by
  have hM : (2 : Nat) ^ 32 = 4294967296 := by norm_num
  obtain ⟨Q, hQ⟩ : ∃ Q, Q = (db.RunQuery Query).1.CachedArchetype := ⟨_, rfl⟩
  have hrun : (db.RunQuery Query).2 = db.RunQueryInternal Q := by rw [hQ]; rfl
  have hfwd : It.IsValid db.MasterRecord = true →
      It.IsValid (db.RunQueryInternal Q).1.MasterRecord = true := by
    intro hv
    obtain ⟨r1, r2⟩ := RunQueryInternal_versions db Q
    by_cases hT : It.LocalCache.QueryArchetype = Q
    · obtain ⟨hflag, CQ, f, v, n⟩ := (IsValid_eq_true_iff It db.MasterRecord).1 hv
      rcases r2 with ⟨CQ', _, _, h3⟩ | ⟨hinvalid, _⟩
      · rw [h3]
        exact hv
      · rw [hT] at f
        rw [hinvalid CQ f] at v
        cases v
    · rw [IsValid_of_Find_eq It db.MasterRecord _ (r1 _ hT)]
      exact hv
  have hback : It.IsValid (db.RunQueryInternal Q).1.MasterRecord = true →
      It.IsValid db.MasterRecord = true ∨
        (It.LocalCache.QueryArchetype = Q ∧
          It.LocalCache.Version.VersionNumber =
            (db.StoredNumber It.LocalCache.QueryArchetype + 1) % 2 ^ 32) := by
    intro hv
    rcases RunQueryInternal_step db Q It.LocalCache.QueryArchetype with hk | ⟨CQ1, c1, _, c3⟩
    · exact Or.inl (IsValid_of_number_kept It hk hv)
    · by_cases hT : It.LocalCache.QueryArchetype = Q
      · obtain ⟨_, CQ, f, _, n⟩ := (IsValid_eq_true_iff It _).1 hv
        rw [c1] at f
        injection f with f
        subst f
        exact Or.inr ⟨hT, n.symm.trans c3⟩
      · left
        rw [← IsValid_of_Find_eq It db.MasterRecord _
          ((RunQueryInternal_versions db Q).1 _ hT)]
        exact hv
  rw [hrun, ← hQ]
  refine ⟨hfwd, hback, fun db0 k hreach hv0 hrunw hlt => ?_, fun CQ hf hv => ?_, fun hflag => ?_⟩
  · cases hv : It.IsValid db.MasterRecord with
    | true => exact hfwd hv
    | false =>
      cases hv1 : It.IsValid (db.RunQueryInternal Q).1.MasterRecord with
      | false => rfl
      | true =>
        exfalso
        rcases hback hv1 with h | ⟨_, hnum⟩
        · rw [hv] at h
          cases h
        · obtain ⟨_, r, hle, hn, _⟩ := RunWith_number hreach hrunw
          obtain ⟨_, CQ0, f0, _, n0⟩ := (IsValid_eq_true_iff It db0.MasterRecord).1 hv0
          have e0 : db0.StoredNumber It.LocalCache.QueryArchetype =
              It.LocalCache.Version.VersionNumber := (StoredNumber_of_Find f0).trans n0
          rw [hM] at hlt hnum
          omega
  · exact RunQueryInternal_cached db Q CQ hf hv
  · have hsame := RunQueryInternal_store db Q
    have hQ1 : (if (db.RunQuery Query).1.CachedArchetype.length = 0 then
          ({ (db.RunQuery Query).1 with
            CachedArchetype :=
              (db.RunQueryInternal Q).1.FillArchetype
                (ZeroBits (db.RunQueryInternal Q).1.MasterRecord.ComponentInfoMap.length)
                (db.RunQuery Query).1.RequiredComponents } : FMantleComponentQuery)
        else (db.RunQuery Query).1) = (db.RunQuery Query).1 := by
      split
      · rename_i hlen
        have hreq : (db.RunQuery Query).1.RequiredComponents = Query.RequiredComponents := by
          unfold UMantleDB.RunQuery
          simp only
          split <;> rfl
        have hcomp : (db.RunQuery Query).1.CachedArchetype =
            db.FillArchetype (ZeroBits db.MasterRecord.ComponentInfoMap.length)
              Query.RequiredComponents := by
          unfold UMantleDB.RunQuery at hlen ⊢
          simp only at hlen ⊢
          split
          · rfl
          · rename_i hne
            rw [if_neg hne] at hlen
            exact absurd hlen hne
        rw [hsame.2.2.2.2.1, FillArchetype_congr _ db hsame.2.2.2.2.1, hreq, ← hcomp]
      · rfl
    show ((if (db.RunQuery Query).1.CachedArchetype.length = 0 then _ else _ :
        FMantleComponentQuery),
      (db.RunQueryInternal Q).1.RunQueryInternal
        (if (db.RunQuery Query).1.CachedArchetype.length = 0 then _ else _ :
          FMantleComponentQuery).CachedArchetype) = _
    rw [hQ1, ← hQ]
    have hpair : db.RunQuery Query = ((db.RunQuery Query).1, db.RunQueryInternal Q) := by
      rw [← hrun]
    rw [hpair]
    simp only
    congr 1
    obtain ⟨_, r2⟩ := RunQueryInternal_versions db Q
    rcases r2 with ⟨CQ, _, _, h3⟩ | ⟨_, CQ1, hf1, ⟨hver, hit⟩ | ⟨_, hit⟩⟩
    · rw [h3]
      exact h3
    · have hv1 : CQ1.Version.bIsValid = true := by
        rw [hver]
        rfl
      rw [RunQueryInternal_cached _ Q CQ1 hf1 hv1]
      exact Prod.ext rfl hit.symm
    · rw [hit] at hflag
      cases hflag

/-- C33 (amended) on the database with two archetypes: the iterator of the query for
`Position` is valid before and after the query for `Velocity` is run, and the query for
`Position` run again returns the same iterator and leaves the database as it is. -/
theorem C33_run_query_keeps_iterators_witness :
    TwoTypeQueryPosition.2.IsValid TwoTypeQueryPosition.1.MasterRecord = true ∧
      TwoTypeQueryPosition.2.IsValid
        (TwoTypeQueryPosition.1.RunQuery
          { RequiredComponents := ["Velocity"] }).2.1.MasterRecord = true ∧
      (TwoTypeDB.RunQuery { RequiredComponents := ["Position"] }).2.1.RunQuery
          (TwoTypeDB.RunQuery { RequiredComponents := ["Position"] }).1 =
        TwoTypeDB.RunQuery { RequiredComponents := ["Position"] } :=
  ⟨by decide,
    (C33_run_query_keeps_iterators TwoTypeQueryPosition.1 { RequiredComponents := ["Velocity"] }
      TwoTypeQueryPosition.2).1 (by decide),
    (C33_run_query_keeps_iterators TwoTypeDB { RequiredComponents := ["Position"] }
      TwoTypeQueryPosition.2).2.2.2.2 (by decide)⟩

/-- C33 as written fails when the 32-bit version number of a cached query wraps around. The
iterator of the query for `Position` is taken in the database with two archetypes, where the
query is stored with the version number 2. Then `AddEntities` with a `Position` template and
zero entities is called `2 ^ 32 - 1` times, each call rebuilding the cached query, which
brings its version number to 1; then `AddEntities` with templates for `Position` and
`Velocity` and zero entities invalidates the query without rebuilding it. In this reachable
state the iterator is not valid; `RunQuery` for `Position` rebuilds the query, which gets the
version number 2 again, and the iterator is valid after the call. -/
theorem C33_run_query_revalidates_after_wraparound :
    TwoTypeQueryPosition.2.IsValid TwoTypeQueryPosition.1.MasterRecord = true ∧
      ∃ db db1 It1,
        AddNothingRun (2 ^ 32 - 1) TwoTypeQueryPosition.1 = .ok db ∧
        db.AddEntities 0 [⟨"Position", 0⟩, ⟨"Velocity", 0⟩] 0 = .ok (db1, It1) ∧
        Reachable db1 ∧
        TwoTypeQueryPosition.2.IsValid db1.MasterRecord = false ∧
        TwoTypeQueryPosition.2.IsValid
          (db1.RunQuery { RequiredComponents := ["Position"] }).2.1.MasterRecord = true := by
  obtain ⟨CQ, hCQ, hver⟩ : ∃ CQ,
      TwoTypeQueryPosition.1.MasterRecord.CachedQueries.Find [true, false] = some CQ ∧
        CQ.Version = { VersionNumber := 2, bIsValid := true } := ⟨_, rfl, rfl⟩
  obtain ⟨db, CQd, hrun, hinv, hJ, hQd, _, hnd⟩ :=
    AddNothingRun_version (2 ^ 32 - 1) TwoTypeQueryPosition.1 CQ
      TwoTypeQueryPosition_reachable.inv TwoTypeQueryPosition_lookups hCQ
      (by rw [hver]) (by rw [hver]; decide)
  have hnd1 : CQd.Version.VersionNumber = 1 := by
    rw [hnd, hver]
    decide
  obtain ⟨db1, It1, CQ1, hadd, hinv1, hJ1, hQ1, hv1, hn1⟩ := AddBoth_step db hinv hJ CQd hQd
  have hreach1 : Reachable db1 :=
    Reachable.add _ _ _ _ _ _
      (AddNothingRun_reachable _ _ _ TwoTypeQueryPosition_reachable hrun) hadd
  have hmask : TwoTypeQueryPosition.2.LocalCache.QueryArchetype = [true, false] := by decide
  have hnum : TwoTypeQueryPosition.2.LocalCache.Version.VersionNumber = 2 := by decide
  have hflag : TwoTypeQueryPosition.2.bHasMasterRecord = true := by decide
  refine ⟨by decide, db, db1, It1, hrun, hadd, hreach1, ?_, ?_⟩
  · refine IsValid_eq_false_of _ _ (fun CQx hx => ?_)
    rw [hmask, hQ1] at hx
    injection hx with hx
    rw [← hx]
    exact Or.inl hv1
  · have hfill : (db1.RunQuery { RequiredComponents := ["Position"] }).1.CachedArchetype =
        [true, false] := Fill_lookups hJ1
    rw [RunQuery_eq, hfill]
    obtain ⟨l, hl0⟩ : ∃ l, TwoTypeDB.ScratchLoop [true, false] TwoTypeDB.ActiveArchetypes =
        some l := ⟨_, rfl⟩
    have hl : db1.ScratchLoop [true, false] db1.ActiveArchetypes = some l := by
      rw [hJ1.2.1, ← hl0]
      exact ScratchLoop_congr [true, false] _ (fun X _ _ => hJ1.1 X)
    obtain ⟨CQ2, c1, c2⟩ := RunQueryInternal_valid db1 [true, false] hinv1 l hl
    obtain ⟨_, r2⟩ := RunQueryInternal_versions db1 [true, false]
    rw [IsValid_eq_true_iff]
    refine ⟨hflag, CQ2, by rw [hmask]; exact c1, c2, ?_⟩
    rcases r2 with ⟨CQ', f', v', _⟩ | ⟨_, CQ3, hf3, ⟨hver3, _⟩ | ⟨hver3, _⟩⟩
    · rw [hQ1] at f'
      have f2 := Option.some.inj f'
      rw [← f2, hv1] at v'
      cases v'
    · rw [c1] at hf3
      have hf4 := Option.some.inj hf3
      rw [hf4, hver3, hQ1, hnum]
      show (CQ1.Version.VersionNumber + 1) % 2 ^ 32 = 2
      rw [hn1, hnd1]
      decide
    · rw [c1] at hf3
      have hf4 := Option.some.inj hf3
      rw [hf4, hver3, hQ1] at c2
      simp only [Option.getD_some] at c2
      rw [hv1] at c2
      cases c2

/-! ## C31: a new archetype is entered into the cached queries it matches -/

theorem Step_active {db db1 : UMantleDB} (hreach : Reachable db) (h : Step db db1)
    (A : TBitArray) (hA : A ∈ db.ActiveArchetypes) : A ∈ db1.ActiveArchetypes :=
  (Step_grows (Reachable_shape hreach) h).1.subset hA

theorem ScanQuery_mem (db : UMantleDB) (Q A : TBitArray) (e : FMantleDBEntry)
    (hA : A ∈ db.ActiveArchetypes) (hsup : BitwiseAND A Q = Q)
    (he : db.EntriesByArchetype.Find A = some e) :
    (A, e.ScanEntityIds) ∈ db.ScanQuery Q := by
  unfold UMantleDB.ScanQuery
  refine List.mem_map.2 ⟨A, List.mem_filter.2 ⟨hA, decide_eq_true hsup⟩, ?_⟩
  rw [he]
  rfl

/-- C31: the back-fill when an archetype is created. Let the cached query of the mask `Q` be
stored, and let `A` be a superset of `Q` that has no entry yet. Then `GetOrCreateEntry` for
`A`
* records `Q` in the list of matching queries of the cached entry of `A`,
* stores the query with the same content and version number and a version that is not valid,
  so that no iterator of `Q` is valid in the database it returns,
* and appends `A` to the list of active archetypes.
In a reachable state, after `AddEntities` or `UpdateEntities` that creates `A` in this way,
every iterator of `Q` that was valid before the call is not valid, and `A` is active. And in
every reachable state in which `A` is active, `A` stays active with every call, and the
iterator that `RunQuery` returns for a query of the mask `Q`, when it carries a master record,
lists `A` with the entity ids of the non-empty chunks of its entry. -/
theorem C31_backfill_on_creation (db : UMantleDB) (A Q : TBitArray) (CQ : FMantleCachedQuery)
    (hQ : db.MasterRecord.CachedQueries.Find Q = some CQ)
    (hnew : db.EntriesByArchetype.Find A = none)
    (hsup : BitwiseAND A Q = Q) :
    (∃ CE, (db.GetOrCreateEntry A).1.MasterRecord.CachedEntries.Find A = some CE ∧
        Q ∈ CE.MatchingQueries) ∧
      (db.GetOrCreateEntry A).1.MasterRecord.CachedQueries.Find Q =
        some { CQ with Version := CQ.Version.Invalidate } ∧
      (∀ It : FMantleIterator, It.LocalCache.QueryArchetype = Q →
        It.IsValid (db.GetOrCreateEntry A).1.MasterRecord = false) ∧
      (db.GetOrCreateEntry A).1.ActiveArchetypes = db.ActiveArchetypes ++ [A] ∧
      (Reachable db →
        (∀ (fuel : Nat) (S : List FInstancedStruct) (n : Nat) (db1 : UMantleDB)
            (It1 : FMantleIterator),
          db.FillArchetype (ZeroBits db.MasterRecord.ComponentInfoMap.length)
            (S.map (fun p => p.TypeName)) = A →
          db.AddEntities fuel S n = .ok (db1, It1) →
          A ∈ db1.ActiveArchetypes ∧
            ∀ It : FMantleIterator, It.LocalCache.QueryArchetype = Q →
              It.IsValid db.MasterRecord = true → It.IsValid db1.MasterRecord = false) ∧
        (∀ (fuel : Nat) (ids : List FGuid) (S : List FInstancedStruct)
            (R : List (Option FString)) (db1 : UMantleDB) (It1 : FMantleIterator)
            (Old : TBitArray),
          db.UpdateEntities fuel ids S R = .ok (db1, It1) →
          (∀ id ∈ ids, ∀ E, db.MasterRecord.EntitiesById.Find id = some E → E.Archetype = Old) →
          db.FillArchetype Old (S.map (fun p => p.TypeName)) (R.filterMap id) = A →
          A ∈ db1.ActiveArchetypes →
          ∀ It : FMantleIterator, It.LocalCache.QueryArchetype = Q →
            It.IsValid db.MasterRecord = true → It.IsValid db1.MasterRecord = false)) ∧
      (∀ db2 : UMantleDB, Reachable db2 → A ∈ db2.ActiveArchetypes →
        (∀ db3, Step db2 db3 → A ∈ db3.ActiveArchetypes) ∧
        ∀ Query : FMantleComponentQuery, (db2.RunQuery Query).1.CachedArchetype = Q →
          (db2.RunQuery Query).2.2.bHasMasterRecord = true →
          ∃ e, db2.EntriesByArchetype.Find A = some e ∧
            (A, e.ScanEntityIds) ∈ (db2.RunQuery Query).2.2.Snapshot) := by
  obtain ⟨_, _, n3, _, _, _, _, _, n9, CE1, m1, _, _, m4⟩ := GetOrCreateEntry_new db A hnew
  have hfind : (db.GetOrCreateEntry A).1.MasterRecord.CachedQueries.Find Q =
      some { CQ with Version := CQ.Version.Invalidate } := by
    rw [n9 Q, hQ]
    simp only [Option.map_some']
    rw [if_pos hsup]
  refine ⟨⟨CE1, ?_, (m4 Q).2 (Or.inr ⟨hsup, CQ, hQ⟩)⟩, hfind, fun It hIt => ?_, n3,
    fun hreach => ⟨fun fuel S n db1 It1 hA hadd => ?_,
      fun fuel ids S R db1 It1 Old hupd hold hA hact It hIt hv => ?_⟩,
    fun db2 hreach2 hact => ⟨fun db3 hstep => Step_active hreach2 hstep A hact,
      fun Query hmask hflag => ?_⟩⟩
  · rw [m1 A, if_pos rfl]
  · refine IsValid_eq_false_of It _ (fun CQx hx => ?_)
    rw [hIt, hfind] at hx
    have hx1 := Option.some.inj hx
    rw [← hx1]
    exact Or.inl rfl
  · constructor
    · obtain ⟨_, db2, _, hact2, _, hdb1⟩ := AddEntities_trace hreach.inv hadd
      rw [hdb1, (RunQueryInternal_store _ _).2.1, (Invalidated.single db2 _).1.2.1, hact2, hA,
        n3]
      exact List.mem_append_right _ (List.mem_singleton.2 rfl)
    · intro It hIt hv
      refine (Valid_iterator_invalidated db hreach It hv).1 fuel S n db1 It1 hadd ?_
      rw [hA, hIt]
      exact hsup
  · have hne : db1 ≠ db := by
      intro h
      rw [h] at hact
      have := (Reachable_shape hreach).active_entry A hact
      rw [hnew] at this
      cases this
    refine (Valid_iterator_invalidated db hreach It hv).2.2 fuel ids S R db1 It1 Old hupd hne
      hold (Or.inr ?_)
    rw [hA, hIt]
    exact hsup
  · have hsome := (Reachable_shape hreach2).active_entry A hact
    cases he : db2.EntriesByArchetype.Find A with
    | none =>
      rw [he] at hsome
      cases hsome
    | some e =>
      refine ⟨e, rfl, ?_⟩
      rw [RunQuery_eq] at hflag ⊢
      rw [(RunQueryInternal_snapshot db2 _ hreach2.inv).1 hflag, hmask]
      exact ScanQuery_mem db2 Q A e hact hsup he

theorem TwoTypeQueryAll_reachable : Reachable TwoTypeQueryAll.1 :=
  Reachable.query TwoTypeDB { RequiredComponents := [] } TwoTypeDB_reachable

/-- C31 on the database with two archetypes in which the query requiring nothing is cached:
when the entry of the archetype with a `Velocity` alone is created, the iterator of that query
is not valid in the database after the creation; after `AddEntities` has created the
archetype with one entity, the iterator is not valid and the query run again lists the new
archetype with the new entity, which has the id 6. -/
theorem C31_backfill_on_creation_witness :
    TwoTypeQueryAll.2.IsValid TwoTypeQueryAll.1.MasterRecord = true ∧
      TwoTypeQueryAll.2.IsValid
        (TwoTypeQueryAll.1.GetOrCreateEntry [false, true]).1.MasterRecord = false ∧
      ∃ db1 It1, TwoTypeQueryAll.1.AddEntities 1 [⟨"Velocity", 5⟩] 1 = .ok (db1, It1) ∧
        TwoTypeQueryAll.2.IsValid db1.MasterRecord = false ∧
        ([false, true], [[6]]) ∈ (db1.RunQuery { RequiredComponents := [] }).2.2.Snapshot := by
  obtain ⟨CQ, hCQ⟩ : ∃ CQ,
      TwoTypeQueryAll.1.MasterRecord.CachedQueries.Find [false, false] = some CQ := ⟨_, rfl⟩
  have h := C31_backfill_on_creation TwoTypeQueryAll.1 [false, true] [false, false] CQ hCQ rfl
    (by decide)
  obtain ⟨db1, It1, hadd, hscan⟩ : ∃ db1 It1,
      TwoTypeQueryAll.1.AddEntities 1 [⟨"Velocity", 5⟩] 1 = .ok (db1, It1) ∧
      ([false, true], [[6]]) ∈ (db1.RunQuery { RequiredComponents := [] }).2.2.Snapshot :=
    ⟨_, _, rfl, by decide⟩
  exact ⟨by decide, h.2.2.1 _ (by decide), db1, It1, hadd,
    ((h.2.2.2.2.1 TwoTypeQueryAll_reachable).1 1 [⟨"Velocity", 5⟩] 1 db1 It1 (by decide)
      hadd).2 _ (by decide) (by decide), hscan⟩

/-! ## The stacks of available chunks are kept in shape by every operation -/

theorem AddComponentsLoop_fields (Old k : Nat) : ∀ (Components : List FInstancedStruct)
    (c : FMantleDBChunk) (Out : FMantleCachedEntry) (c1 : FMantleDBChunk)
    (Out1 : FMantleCachedEntry),
      FMantleDBChunk.AddComponentsLoop Old k Components c Out = .ok (c1, Out1) →
      c1.ChunkId = c.ChunkId ∧ c1.TotalCapacity = c.TotalCapacity ∧ c1.EntityIds = c.EntityIds
  | [], c, Out, c1, Out1, h => by
    rw [FMantleDBChunk.AddComponentsLoop] at h
    injection h with h
    rw [← (Prod.mk.inj h).1]
    exact ⟨rfl, rfl, rfl⟩
  | p :: rest, c, Out, c1, Out1, h => by
    rw [FMantleDBChunk.AddComponentsLoop] at h
    split at h
    · cases h
    · split at h
      · cases h
      · obtain ⟨a1, a2, a3⟩ := AddComponentsLoop_fields Old k rest _ _ c1 Out1 h
        exact ⟨a1, a2, a3⟩

theorem Chunk_AddEntities_fields {c : FMantleDBChunk} {mr : FMantleDBMasterRecord}
    {Components : List FInstancedStruct} {n : Nat} {Out : FMantleCachedEntry} {k : Nat}
    {c1 : FMantleDBChunk} {mr1 : FMantleDBMasterRecord} {Out1 : FMantleCachedEntry}
    (h : c.AddEntities mr Components n Out = .ok (k, c1, mr1, Out1)) :
    c1.ChunkId = c.ChunkId ∧ c1.TotalCapacity = c.TotalCapacity ∧ c1.Archetype = c.Archetype ∧
      c1.EntityIds.length = c.EntityIds.length + k ∧
      (IsZero c.Archetype = false → k = min n c.GetRemainingCapacity) ∧
      mr1.ComponentInfoMap = mr.ComponentInfoMap ∧
      mr1.ChunkComponentBlobSize = mr.ChunkComponentBlobSize := by
  have harch := (Chunk_AddEntities_frame h).1
  unfold FMantleDBChunk.AddEntities at h
  split at h
  · rename_i hn
    cases h
    refine ⟨rfl, rfl, rfl, rfl, fun _ => ?_, rfl, rfl⟩
    have : n = 0 := Nat.le_zero.1 hn
    rw [this, Nat.zero_min]
  · split at h
    · rename_i hz
      cases h
      obtain ⟨r1, _, _, r4, r5, _, _⟩ := RegisterEntities_spec c mr n Out
      refine ⟨by rw [r1], by rw [r1], harch, ?_, fun hnz => ?_, r4, r5⟩
      · rw [r1]
        simp
      · rw [hz] at hnz
        cases hnz
    · simp only at h
      split at h
      · cases h
      · rename_i c2 Out2 heq
        cases h
        obtain ⟨r1, _, _, r4, r5, _, _⟩ :=
          RegisterEntities_spec c.MaybeAllocateBlob mr
            (min n c.MaybeAllocateBlob.GetRemainingCapacity) Out
        obtain ⟨a1, a2, a3⟩ := AddComponentsLoop_fields _ _ _ _ _ _ _ heq
        refine ⟨?_, ?_, harch, ?_, fun _ => rfl, r4, r5⟩
        · rw [a1, r1]
          rfl
        · rw [a2, r1]
          rfl
        · rw [a3, r1]
          simp
          rfl

/-- A chunk of an entry in shape is replaced by one with the same id, archetype and capacity
that holds no more entities, and its id is pushed on the stack at most when the chunk was
without remaining capacity and now has some: the entry stays in shape. -/
theorem StackShape_update {e e1 : FMantleDBEntry} {Id : FGuid} {c c1 : FMantleDBChunk}
    (hs : StackShape e) (hfind : e.Chunks.Find Id = some c)
    (h1 : c1.ChunkId = c.ChunkId) (h2 : c1.Archetype = c.Archetype)
    (h3 : c1.TotalCapacity = c.TotalCapacity) (h4 : c1.EntityIds.length ≤ c.EntityIds.length)
    (ha : e1.Archetype = e.Archetype) (hc : e1.Chunks = e.Chunks.Add Id c1)
    (hst : e1.AvailableChunkIds = e.AvailableChunkIds ∨
      (e1.AvailableChunkIds = Id :: e.AvailableChunkIds ∧ c.GetRemainingCapacity = 0 ∧
        0 < c1.GetRemainingCapacity)) :
    StackShape e1 := by
  have hfind1 : ∀ k, e1.Chunks.Find k = if k = Id then some c1 else e.Chunks.Find k := by
    intro k
    rw [hc, TMap.Find_Add]
  have hroom : ∀ k ∈ e.AvailableChunkIds,
      ∃ c2, e1.Chunks.Find k = some c2 ∧ 0 < c2.GetRemainingCapacity := by
    intro k hk
    obtain ⟨c2, f2, r2⟩ := hs.stack_room k hk
    rw [hfind1]
    by_cases hkI : k = Id
    · rw [if_pos hkI]
      refine ⟨c1, rfl, ?_⟩
      rw [hkI, hfind] at f2
      cases f2
      unfold FMantleDBChunk.GetRemainingCapacity at r2 ⊢
      omega
    · rw [if_neg hkI]
      exact ⟨c2, f2, r2⟩
  refine ⟨fun k c2 hk => ?_, fun k c2 hk => ?_, fun k c2 hk => ?_, ?_, ?_⟩
  · rw [hfind1] at hk
    by_cases hkI : k = Id
    · rw [if_pos hkI] at hk
      cases hk
      rw [h1, hkI]
      exact hs.chunk_id Id c hfind
    · rw [if_neg hkI] at hk
      exact hs.chunk_id k c2 hk
  · rw [hfind1] at hk
    rw [ha]
    by_cases hkI : k = Id
    · rw [if_pos hkI] at hk
      cases hk
      rw [h2]
      exact hs.chunk_archetype Id c hfind
    · rw [if_neg hkI] at hk
      exact hs.chunk_archetype k c2 hk
  · rw [hfind1] at hk
    by_cases hkI : k = Id
    · rw [if_pos hkI] at hk
      cases hk
      have := hs.chunk_bound Id c hfind
      omega
    · rw [if_neg hkI] at hk
      exact hs.chunk_bound k c2 hk
  · rcases hst with hst | ⟨hst, hfull, _⟩
    · rw [hst]
      exact hs.stack_nodup
    · rw [hst]
      refine List.nodup_cons.2 ⟨fun hmem => ?_, hs.stack_nodup⟩
      obtain ⟨c2, f2, r2⟩ := hs.stack_room Id hmem
      rw [hfind] at f2
      cases f2
      omega
  · rcases hst with hst | ⟨hst, _, hnow⟩
    · rw [hst]
      exact hroom
    · rw [hst]
      intro k hk
      rcases List.mem_cons.1 hk with hk1 | hk1
      · rw [hk1, hfind1, if_pos rfl]
        exact ⟨c1, rfl, hnow⟩
      · exact hroom k hk1

theorem RemoveEntity_fields {c : FMantleDBChunk} {Entry : FMantleDBEntry}
    {mr : FMantleDBMasterRecord} {ToRemove : FMantleEntity} {b : Bool}
    {c1 : FMantleDBChunk} {Entry1 : FMantleDBEntry} {mr1 : FMantleDBMasterRecord}
    (h : c.RemoveEntity Entry mr ToRemove b = .ok (c1, Entry1, mr1)) :
    c1.ChunkId = c.ChunkId ∧ c1.Archetype = c.Archetype ∧
      c1.TotalCapacity = c.TotalCapacity ∧ c1.EntityIds.length ≤ c.EntityIds.length ∧
      Entry1.Archetype = Entry.Archetype ∧ Entry1.Chunks = Entry.Chunks ∧
      (Entry1.AvailableChunkIds = Entry.AvailableChunkIds ∨
        (Entry1.AvailableChunkIds = c.ChunkId :: Entry.AvailableChunkIds ∧
          c.GetRemainingCapacity = 0 ∧
          (c.EntityIds.length ≤ c.TotalCapacity → 0 < c1.GetRemainingCapacity))) ∧
      mr1.ComponentInfoMap = mr.ComponentInfoMap ∧
      mr1.ChunkComponentBlobSize = mr.ChunkComponentBlobSize := by
  have hmake : ∀ (full : Prop) [Decidable full] (c2 : FMantleDBChunk),
      (full → c.GetRemainingCapacity = 0 ∧
        (c.EntityIds.length ≤ c.TotalCapacity → 0 < c2.GetRemainingCapacity)) →
      (if full then Entry.MakeAvailable c.ChunkId else Entry).Archetype = Entry.Archetype ∧
        (if full then Entry.MakeAvailable c.ChunkId else Entry).Chunks = Entry.Chunks ∧
        ((if full then Entry.MakeAvailable c.ChunkId else Entry).AvailableChunkIds =
            Entry.AvailableChunkIds ∨
          ((if full then Entry.MakeAvailable c.ChunkId else Entry).AvailableChunkIds =
              c.ChunkId :: Entry.AvailableChunkIds ∧
            c.GetRemainingCapacity = 0 ∧
            (c.EntityIds.length ≤ c.TotalCapacity → 0 < c2.GetRemainingCapacity))) := by
    intro full _ c2 hfull
    by_cases hf : full
    · rw [if_pos hf]
      unfold FMantleDBEntry.MakeAvailable
      split
      · exact ⟨rfl, rfl, Or.inl rfl⟩
      · exact ⟨rfl, rfl, Or.inr ⟨rfl, hfull hf⟩⟩
    · rw [if_neg hf]
      exact ⟨rfl, rfl, Or.inl rfl⟩
  unfold FMantleDBChunk.RemoveEntity at h
  split at h
  · cases h
    exact ⟨rfl, rfl, rfl, le_refl _, rfl, rfl, Or.inl rfl, rfl, rfl⟩
  · rename_i hidx
    simp only at h
    have hlen : ((c.EntityIds.set ToRemove.Index
        (c.EntityIds.getD (c.EntityIds.length - 1) 0)).dropLast).length =
        c.EntityIds.length - 1 := by
      rw [List.length_dropLast, List.length_set]
    split at h
    · split at h
      · cases h
        refine ⟨rfl, rfl, rfl, ?_, rfl, rfl, Or.inl rfl, rfl, rfl⟩
        show ((c.EntityIds.set _ _).dropLast).length ≤ _
        rw [hlen]
        exact Nat.sub_le _ _
      · rename_i hlast hpos
        cases h
        obtain ⟨m1, m2, m3⟩ := hmake ((c.GetRemainingCapacity == 0) = true)
          ({ c with EntityIds := (c.EntityIds.set ToRemove.Index
              (c.EntityIds.getD (c.EntityIds.length - 1) 0)).dropLast }).DeallocateBlob
          (fun hfull => ⟨by simpa using hfull, fun hb => by
            show 0 < c.TotalCapacity - ((c.EntityIds.set _ _).dropLast).length
            rw [hlen]
            omega⟩)
        refine ⟨rfl, rfl, rfl, ?_, m1, m2, m3, rfl, rfl⟩
        show ((c.EntityIds.set _ _).dropLast).length ≤ _
        rw [hlen]
        exact Nat.sub_le _ _
    · split at h
      · cases h
      · cases h
        obtain ⟨m1, m2, m3⟩ := hmake
          ((c.GetRemainingCapacity == 0) = true ∧
            ({ c with
              EntityIds := (c.EntityIds.set ToRemove.Index
                (c.EntityIds.getD (c.EntityIds.length - 1) 0)).dropLast,
              Blob := FMantleDBChunk.CopySlot
                { c with EntityIds := (c.EntityIds.set ToRemove.Index
                    (c.EntityIds.getD (c.EntityIds.length - 1) 0)).dropLast }
                (c.EntityIds.length - 1) ToRemove.Index } :
              FMantleDBChunk).GetRemainingCapacity > 0)
          { c with
            EntityIds := (c.EntityIds.set ToRemove.Index
              (c.EntityIds.getD (c.EntityIds.length - 1) 0)).dropLast,
            Blob := FMantleDBChunk.CopySlot
              { c with EntityIds := (c.EntityIds.set ToRemove.Index
                  (c.EntityIds.getD (c.EntityIds.length - 1) 0)).dropLast }
              (c.EntityIds.length - 1) ToRemove.Index }
          (fun hfull => ⟨by simpa using hfull.1, fun _ => hfull.2⟩)
        refine ⟨rfl, rfl, rfl, ?_, m1, m2, m3, rfl, rfl⟩
        show ((c.EntityIds.set _ _).dropLast).length ≤ _
        rw [hlen]
        exact Nat.sub_le _ _

/-- A chunk of the entry has an entity removed and is stored back under its id: the stack of
the entry stays in shape. -/
theorem RemoveEntity_stack {c : FMantleDBChunk} {Entry : FMantleDBEntry}
    {mr : FMantleDBMasterRecord} {ToRemove : FMantleEntity} {b : Bool}
    {c1 : FMantleDBChunk} {Entry1 : FMantleDBEntry} {mr1 : FMantleDBMasterRecord} {Id : FGuid}
    (hfind : Entry.Chunks.Find Id = some c)
    (h : c.RemoveEntity Entry mr ToRemove b = .ok (c1, Entry1, mr1))
    (hs : EntryStack Entry) :
    EntryStack { Entry1 with Chunks := Entry1.Chunks.Add Id c1 } ∧
      mr1.ComponentInfoMap = mr.ComponentInfoMap ∧
      mr1.ChunkComponentBlobSize = mr.ChunkComponentBlobSize := by
  obtain ⟨f1, f2, f3, f4, f5, f6, f7, f8, f9⟩ := RemoveEntity_fields h
  refine ⟨fun hnb => ?_, f8, f9⟩
  have hnb0 : IsZero Entry.Archetype = false := by
    rw [← f5]
    exact hnb
  have hs0 := hs hnb0
  have hid := hs0.chunk_id Id c hfind
  refine StackShape_update hs0 hfind f1 f2 f3 f4 f5 (by show Entry1.Chunks.Add Id c1 = _; rw [f6])
    ?_
  rcases f7 with f7 | ⟨f7, g1, g2⟩
  · exact Or.inl f7
  · right
    rw [hid] at f7
    exact ⟨f7, g1, g2 (hs0.chunk_bound Id c hfind)⟩

theorem CopyOldColumns_ids (OldChunk : FMantleDBChunk) (Entity : FMantleEntity)
    (i j : Nat) : ∀ (l : List (FString × FMantleComponentInfo)) (acc acc1 : FMantleDBChunk.TakeAcc),
      FMantleDBChunk.CopyOldColumns OldChunk Entity i j l acc = .ok acc1 →
      acc1.Chunk.ChunkId = acc.Chunk.ChunkId ∧
        acc1.Chunk.TotalCapacity = acc.Chunk.TotalCapacity
  | [], acc, acc1, h => by
    rw [FMantleDBChunk.CopyOldColumns] at h
    cases h
    exact ⟨rfl, rfl⟩
  | (T, Info) :: rest, acc, acc1, h => by
    rw [FMantleDBChunk.CopyOldColumns] at h
    split at h
    · exact CopyOldColumns_ids OldChunk Entity i j rest acc acc1 h
    · split at h
      · cases h
      · split at h
        · cases h
        · split at h
          · cases h
          · have r := CopyOldColumns_ids OldChunk Entity i j rest _ acc1 h
            exact ⟨r.1, r.2⟩

theorem WriteNewColumns_ids (i j : Nat) : ∀ (l : List FInstancedStruct)
    (acc acc1 : FMantleDBChunk.TakeAcc),
      FMantleDBChunk.WriteNewColumns i j l acc = .ok acc1 →
      acc1.Chunk.ChunkId = acc.Chunk.ChunkId ∧
        acc1.Chunk.TotalCapacity = acc.Chunk.TotalCapacity
  | [], acc, acc1, h => by
    rw [FMantleDBChunk.WriteNewColumns] at h
    cases h
    exact ⟨rfl, rfl⟩
  | p :: rest, acc, acc1, h => by
    rw [FMantleDBChunk.WriteNewColumns] at h
    split at h
    · cases h
    · split at h
      · cases h
      · have r := WriteNewColumns_ids i j rest _ acc1 h
        exact ⟨r.1, r.2⟩

theorem TakeEntityData_fields {c OldChunk : FMantleDBChunk} {Entity : FMantleEntity}
    {Components : List FInstancedStruct} {Out : FMantleCachedEntry} {j : Nat}
    {c1 : FMantleDBChunk} {Out1 : FMantleCachedEntry}
    (h : c.TakeEntityData OldChunk Entity Components Out j = .ok (c1, Out1)) :
    c1.ChunkId = c.ChunkId ∧ c1.TotalCapacity = c.TotalCapacity ∧
      c1.Archetype = c.Archetype ∧ c1.EntityIds = c.EntityIds := by
  unfold FMantleDBChunk.TakeEntityData at h
  simp only at h
  split at h
  · cases h
  · rename_i acc1 h1
    split at h
    · cases h
    · rename_i acc2 h2
      split at h
      · cases h
        obtain ⟨a1, a2⟩ := CopyOldColumns_ids _ _ _ _ _ _ _ h1
        obtain ⟨a3, a4⟩ := CopyOldColumns_Archetype _ _ _ _ _ _ _ h1
        obtain ⟨b1, b2⟩ := WriteNewColumns_ids _ _ _ _ _ h2
        obtain ⟨b3, b4⟩ := WriteNewColumns_Archetype _ _ _ _ _ h2
        exact ⟨b1.trans a1, b2.trans a2, b3.trans a3, b4.trans a4⟩
      · cases h

theorem Chunk_TakeEntitiesLoop_stack (Components : List FInstancedStruct)
    (j : Nat) : ∀ (ids : List FGuid) (c : FMantleDBChunk) (TF : FMantleDBEntry)
      (mr : FMantleDBMasterRecord) (Out : FMantleCachedEntry) (s : Nat)
      (c1 : FMantleDBChunk) (TF1 : FMantleDBEntry) (mr1 : FMantleDBMasterRecord)
      (Out1 : FMantleCachedEntry) (s1 : Nat),
      FMantleDBChunk.TakeEntitiesLoop Components j ids c TF mr Out s =
        .ok (c1, TF1, mr1, Out1, s1) →
      EntryStack TF →
      c1.ChunkId = c.ChunkId ∧ c1.TotalCapacity = c.TotalCapacity ∧
        c1.Archetype = c.Archetype ∧
        (c.EntityIds.length ≤ c.TotalCapacity → c1.EntityIds.length ≤ c1.TotalCapacity) ∧
        EntryStack TF1 ∧ mr1.ComponentInfoMap = mr.ComponentInfoMap ∧
        mr1.ChunkComponentBlobSize = mr.ChunkComponentBlobSize
  | [], c, TF, mr, Out, s, c1, TF1, mr1, Out1, s1, h, hs => by
    rw [FMantleDBChunk.TakeEntitiesLoop] at h
    cases h
    exact ⟨rfl, rfl, rfl, id, hs, rfl, rfl⟩
  | Id :: rest, c, TF, mr, Out, s, c1, TF1, mr1, Out1, s1, h, hs => by
    rw [FMantleDBChunk.TakeEntitiesLoop] at h
    split at h
    · rename_i hroom
      split at h
      · exact Chunk_TakeEntitiesLoop_stack Components j rest c TF mr Out _ _ _ _ _ _ h hs
      · rename_i Entity hE
        split at h
        · exact Chunk_TakeEntitiesLoop_stack Components j rest c TF mr Out _ _ _ _ _ _ h hs
        · rename_i OldChunk hOld
          split at h
          · cases h
          · rename_i c2 Out2 hdata
            split at h
            · cases h
            · rename_i OldChunk1 TF2 mr2 hrem
              obtain ⟨k1, k2, k3⟩ := RemoveEntity_stack hOld hrem hs
              obtain ⟨d1, d2, d3, d4⟩ := TakeEntityData_fields hdata
              obtain ⟨r1, r2, r3, r4, r5, r6, r7⟩ :=
                Chunk_TakeEntitiesLoop_stack Components j rest _ _ _ _ _ _ _ _ _ _ h k1
              refine ⟨r1.trans d1, r2.trans d2, r3.trans d3, fun _ => r4 ?_, r5, r6.trans k2,
                r7.trans k3⟩
              show (c2.EntityIds ++ [Entity.Id]).length ≤ c2.TotalCapacity
              rw [List.length_append, d4, d2]
              unfold FMantleDBChunk.GetRemainingCapacity at hroom
              simp only [List.length_singleton]
              omega
    · cases h
      exact ⟨rfl, rfl, rfl, id, hs, rfl, rfl⟩

theorem TakeBareLoop_stack : ∀ (ids : List FGuid) (c : FMantleDBChunk)
      (TF : FMantleDBEntry) (mr : FMantleDBMasterRecord) (s : Nat)
      (c1 : FMantleDBChunk) (TF1 : FMantleDBEntry) (mr1 : FMantleDBMasterRecord) (s1 : Nat),
      FMantleDBChunk.TakeBareLoop ids c TF mr s = .ok (c1, TF1, mr1, s1) →
      EntryStack TF →
      c1.ChunkId = c.ChunkId ∧ c1.TotalCapacity = c.TotalCapacity ∧
        c1.Archetype = c.Archetype ∧ EntryStack TF1 ∧
        mr1.ComponentInfoMap = mr.ComponentInfoMap ∧
        mr1.ChunkComponentBlobSize = mr.ChunkComponentBlobSize
  | [], c, TF, mr, s, c1, TF1, mr1, s1, h, hs => by
    rw [FMantleDBChunk.TakeBareLoop] at h
    cases h
    exact ⟨rfl, rfl, rfl, hs, rfl, rfl⟩
  | Id :: rest, c, TF, mr, s, c1, TF1, mr1, s1, h, hs => by
    rw [FMantleDBChunk.TakeBareLoop] at h
    split at h
    · exact TakeBareLoop_stack rest c TF mr _ _ _ _ _ h hs
    · rename_i Entity hE
      split at h
      · exact TakeBareLoop_stack rest c TF mr _ _ _ _ _ h hs
      · rename_i OldChunk hOld
        split at h
        · cases h
        · rename_i OldChunk1 TF2 mr2 hrem
          obtain ⟨k1, k2, k3⟩ := RemoveEntity_stack hOld hrem hs
          obtain ⟨r1, r2, r3, r4, r5, r6⟩ := TakeBareLoop_stack rest _ _ _ _ _ _ _ _ h k1
          exact ⟨r1, r2, r3, r4, r5.trans k2, r6.trans k3⟩

theorem Chunk_TakeEntities_stack {c : FMantleDBChunk} {ids : List FGuid}
    {TF : FMantleDBEntry} {mr : FMantleDBMasterRecord} {Components : List FInstancedStruct}
    {Out : FMantleCachedEntry} {k : Nat} {c1 : FMantleDBChunk} {TF1 : FMantleDBEntry}
    {mr1 : FMantleDBMasterRecord} {Out1 : FMantleCachedEntry}
    (h : c.TakeEntities ids TF mr Components Out = .ok (k, c1, TF1, mr1, Out1))
    (hs : EntryStack TF) :
    c1.ChunkId = c.ChunkId ∧ c1.TotalCapacity = c.TotalCapacity ∧
      c1.Archetype = c.Archetype ∧
      (IsZero c.Archetype = false → c.EntityIds.length ≤ c.TotalCapacity →
        c1.EntityIds.length ≤ c1.TotalCapacity) ∧
      EntryStack TF1 ∧ mr1.ComponentInfoMap = mr.ComponentInfoMap ∧
      mr1.ChunkComponentBlobSize = mr.ChunkComponentBlobSize := by
  unfold FMantleDBChunk.TakeEntities at h
  split at h
  · cases h
    exact ⟨rfl, rfl, rfl, fun _ hb => hb, hs, rfl, rfl⟩
  · split at h
    · rename_i hz
      unfold FMantleDBChunk.TakeBareArchetypeEntities at h
      simp only at h
      split at h
      · cases h
      · rename_i c2 TF2 mr2 s2 hloop
        obtain ⟨r1, r2, r3, r4, r5, r6⟩ := TakeBareLoop_stack _ _ _ _ _ _ _ _ _ hloop hs
        split at h <;>
        · cases h
          exact ⟨r1, r2, r3, (fun hnz => by rw [hz] at hnz; cases hnz), r4, r5, r6⟩
    · simp only at h
      split at h
      · cases h
      · rename_i c2 TF2 mr2 Out2 s2 hloop
        obtain ⟨r1, r2, r3, r4, r5, r6, r7⟩ :=
          Chunk_TakeEntitiesLoop_stack _ _ _ _ _ _ _ _ _ _ _ _ _ hloop hs
        split at h <;>
        · cases h
          exact ⟨r1, r2, r3, fun _ hb => r4 hb, r5, r6, r7⟩

theorem GetAvailableChunk_archetype {e : FMantleDBEntry} {mr : FMantleDBMasterRecord}
    {Id : FGuid} {c : FMantleDBChunk} {e1 : FMantleDBEntry} {mr1 : FMantleDBMasterRecord}
    (h : e.GetAvailableChunk mr = .ok (Id, c, e1, mr1)) :
    e1.Archetype = e.Archetype ∧ mr1.ComponentInfoMap = mr.ComponentInfoMap ∧
      mr1.ChunkComponentBlobSize = mr.ChunkComponentBlobSize := by
  unfold FMantleDBEntry.GetAvailableChunk at h
  simp only at h
  split at h
  · cases h
    exact ⟨rfl, rfl, rfl⟩
  · split at h
    · cases h
    · cases h
      exact ⟨rfl, rfl, rfl⟩

/-- `GetAvailableChunk` on an entry in shape: the chunk on top of the stack is handed out,
which has remaining capacity, and the entry stays as it is; or the stack is empty and a new
chunk is constructed, stored and pushed. -/
theorem GetAvailableChunk_stack {e : FMantleDBEntry} {mr : FMantleDBMasterRecord}
    {Id : FGuid} {c : FMantleDBChunk} {e1 : FMantleDBEntry} {mr1 : FMantleDBMasterRecord}
    (h : e.GetAvailableChunk mr = .ok (Id, c, e1, mr1)) (hs : StackShape e) :
    HeadShape e1 Id c ∧
      ((e1 = e ∧ mr1 = mr ∧ 0 < c.GetRemainingCapacity) ∨
        (e.AvailableChunkIds = [] ∧ e1.AllChunkIds = e.AllChunkIds ++ [Id] ∧
          FMantleDBChunk.Ctor Id e.Archetype mr.NewGuid.2 = .ok c)) := by
  unfold FMantleDBEntry.GetAvailableChunk at h
  simp only at h
  cases hst : e.AvailableChunkIds with
  | nil =>
    rw [hst] at h
    rw [FMantleDBEntry.FindExistingChunk] at h
    simp only at h
    split at h
    · cases h
    · rename_i c0 hctor
      cases h
      obtain ⟨f1, f2, f3, _⟩ := Ctor_fields hctor
      refine ⟨⟨fun k c2 hk => ?_, fun k c2 hk => ?_, fun k c2 hk => ?_, List.nodup_singleton _,
        rfl, TMap.Find_Add_self _ _ _, fun k hk => by cases hk⟩, Or.inr ⟨rfl, rfl, hctor⟩⟩
      · have hk' : (e.Chunks.Add mr.NewGuid.1 c).Find k = some c2 := hk
        rw [TMap.Find_Add] at hk'
        by_cases hkI : k = mr.NewGuid.1
        · rw [if_pos hkI] at hk'
          cases hk'
          rw [f1, hkI]
        · rw [if_neg hkI] at hk'
          exact hs.chunk_id k c2 hk'
      · have hk' : (e.Chunks.Add mr.NewGuid.1 c).Find k = some c2 := hk
        rw [TMap.Find_Add] at hk'
        by_cases hkI : k = mr.NewGuid.1
        · rw [if_pos hkI] at hk'
          cases hk'
          exact f2
        · rw [if_neg hkI] at hk'
          exact hs.chunk_archetype k c2 hk'
      · have hk' : (e.Chunks.Add mr.NewGuid.1 c).Find k = some c2 := hk
        rw [TMap.Find_Add] at hk'
        by_cases hkI : k = mr.NewGuid.1
        · rw [if_pos hkI] at hk'
          cases hk'
          rw [f3]
          exact Nat.zero_le _
        · rw [if_neg hkI] at hk'
          exact hs.chunk_bound k c2 hk'
  | cons Top rest =>
    obtain ⟨c0, hc0, hroom⟩ := hs.stack_room Top (by rw [hst]; exact List.mem_cons_self _ _)
    rw [hst] at h
    rw [FMantleDBEntry.FindExistingChunk] at h
    simp only [hc0] at h
    cases h
    have he : ({ e with AvailableChunkIds := Id :: rest } : FMantleDBEntry) = e := by
      rw [← hst]
    rw [he]
    refine ⟨⟨hs.chunk_id, hs.chunk_archetype, hs.chunk_bound, hs.stack_nodup, by rw [hst]; rfl,
      hc0, fun k hk => hs.stack_room k ?_⟩, Or.inl ⟨rfl, rfl, hroom⟩⟩
    rw [hst] at hk ⊢
    exact List.mem_cons_of_mem _ hk

/-- The chunk handed out is stored back, with the same id and archetype and within its
capacity, and is popped from the stack when it is full: the entry is in shape. -/
theorem Store_stack {e1 : FMantleDBEntry} {Id : FGuid} {c c1 : FMantleDBChunk}
    (hh : HeadShape e1 Id c) (hnb : IsZero e1.Archetype = false)
    (h1 : c1.ChunkId = c.ChunkId) (h2 : c1.Archetype = c.Archetype)
    (h3 : c1.EntityIds.length ≤ c1.TotalCapacity) :
    StackShape (FMantleDBEntry.PopIfFull { e1 with Chunks := e1.Chunks.Add Id c1 } c1) := by
  obtain ⟨rest, hst⟩ : ∃ rest, e1.AvailableChunkIds = Id :: rest := by
    have hhead := hh.head
    cases hl : e1.AvailableChunkIds with
    | nil => rw [hl] at hhead; cases hhead
    | cons a rest =>
      rw [hl] at hhead
      cases hhead
      exact ⟨rest, rfl⟩
  have hnd := hh.stack_nodup
  rw [hst] at hnd
  obtain ⟨hnotin, hndrest⟩ := List.nodup_cons.1 hnd
  have hfind1 : ∀ k, (e1.Chunks.Add Id c1).Find k =
      if k = Id then some c1 else e1.Chunks.Find k := fun k => TMap.Find_Add _ _ _ _
  have hrest : ∀ k ∈ rest, ∃ c2, (e1.Chunks.Add Id c1).Find k = some c2 ∧
      0 < c2.GetRemainingCapacity := by
    intro k hk
    have hkI : k ≠ Id := fun h => hnotin (h ▸ hk)
    rw [hfind1, if_neg hkI]
    exact hh.rest_room k (by rw [hst]; exact hk)
  have hid : ∀ k c2, (e1.Chunks.Add Id c1).Find k = some c2 → c2.ChunkId = k := by
    intro k c2 hk
    rw [hfind1] at hk
    by_cases hkI : k = Id
    · rw [if_pos hkI] at hk
      cases hk
      rw [h1, hkI]
      exact hh.chunk_id Id c hh.found
    · rw [if_neg hkI] at hk
      exact hh.chunk_id k c2 hk
  have harch : ∀ k c2, (e1.Chunks.Add Id c1).Find k = some c2 → c2.Archetype = e1.Archetype := by
    intro k c2 hk
    rw [hfind1] at hk
    by_cases hkI : k = Id
    · rw [if_pos hkI] at hk
      cases hk
      rw [h2]
      exact hh.chunk_archetype Id c hh.found
    · rw [if_neg hkI] at hk
      exact hh.chunk_archetype k c2 hk
  have hbound : ∀ k c2, (e1.Chunks.Add Id c1).Find k = some c2 →
      c2.EntityIds.length ≤ c2.TotalCapacity := by
    intro k c2 hk
    rw [hfind1] at hk
    by_cases hkI : k = Id
    · rw [if_pos hkI] at hk
      cases hk
      exact h3
    · rw [if_neg hkI] at hk
      exact hh.chunk_bound k c2 hk
  unfold FMantleDBEntry.PopIfFull
  split
  · refine ⟨hid, harch, hbound, ?_, ?_⟩
    · show (e1.AvailableChunkIds.tail).Nodup
      rw [hst]
      exact hndrest
    · show ∀ k ∈ e1.AvailableChunkIds.tail, _
      rw [hst]
      exact hrest
  · rename_i hnopop
    have hroom1 : 0 < c1.GetRemainingCapacity := by
      by_contra hc
      exact hnopop ⟨Nat.le_of_not_lt hc, hnb⟩
    refine ⟨hid, harch, hbound, hh.stack_nodup, ?_⟩
    show ∀ k ∈ e1.AvailableChunkIds, _
    rw [hst]
    intro k hk
    rcases List.mem_cons.1 hk with hk1 | hk1
    · rw [hk1, hfind1, if_pos rfl]
      exact ⟨c1, rfl, hroom1⟩
    · exact hrest k hk1

theorem Entry_AddEntities_stack (Components : List FInstancedStruct) :
    ∀ (fuel : Nat) (e : FMantleDBEntry) (mr : FMantleDBMasterRecord) (n : Nat)
      (Out : FMantleCachedEntry) (e1 : FMantleDBEntry) (mr1 : FMantleDBMasterRecord)
      (Out1 : FMantleCachedEntry),
      FMantleDBEntry.AddEntities fuel e mr Components n Out = .ok (e1, mr1, Out1) →
      IsZero e.Archetype = false → StackShape e →
      StackShape e1 ∧ e1.Archetype = e.Archetype
  | fuel, e, mr, 0, Out, e1, mr1, Out1, h, _, hs => by
    cases fuel <;>
    · rw [FMantleDBEntry.AddEntities] at h
      cases h
      exact ⟨hs, rfl⟩
  | 0, e, mr, n + 1, Out, e1, mr1, Out1, h, _, _ => by
    rw [FMantleDBEntry.AddEntities] at h
    cases h
  | fuel + 1, e, mr, n + 1, Out, e1, mr1, Out1, h, hnb, hs => by
    rw [FMantleDBEntry.AddEntities] at h
    split at h
    · cases h
    · rename_i Id c e2 mr2 hget
      obtain ⟨g1, _⟩ := GetAvailableChunk_stack hget hs
      obtain ⟨ga, _, _⟩ := GetAvailableChunk_archetype hget
      split at h
      · cases h
      · rename_i Added c3 mr3 Out3 hadd
        obtain ⟨a1, a2, a3, a4, a5, _, _⟩ := Chunk_AddEntities_fields hadd
        have hcarch : c.Archetype = e.Archetype :=
          (g1.chunk_archetype Id c g1.found).trans ga
        have hk := a5 (by rw [hcarch]; exact hnb)
        have hb := g1.chunk_bound Id c g1.found
        have hb3 : c3.EntityIds.length ≤ c3.TotalCapacity := by
          rw [a4, a2, hk]
          unfold FMantleDBChunk.GetRemainingCapacity
          omega
        have hstore := Store_stack g1 (by rw [ga]; exact hnb) a1 a3 hb3
        obtain ⟨r1, r2⟩ := Entry_AddEntities_stack Components fuel _ _ _ _ _ _ _ h
          (by rw [(PopIfFull_frame2 _ _).1]; exact (show e2.Archetype = _ from ga) ▸ hnb) hstore
        exact ⟨r1, r2.trans ((PopIfFull_frame2 _ _).1.trans ga)⟩

theorem Entry_TakeEntitiesLoop_stack (EntityIds : List FGuid)
    (Components : List FInstancedStruct) :
    ∀ (fuel n : Nat) (e TF : FMantleDBEntry) (mr : FMantleDBMasterRecord)
      (Out : FMantleCachedEntry) (e1 TF1 : FMantleDBEntry) (mr1 : FMantleDBMasterRecord)
      (Out1 : FMantleCachedEntry),
      FMantleDBEntry.TakeEntitiesLoop EntityIds Components fuel n e TF mr Out =
        .ok (e1, TF1, mr1, Out1) →
      EntryStack e → EntryStack TF →
      EntryStack e1 ∧ EntryStack TF1
  | fuel, 0, e, TF, mr, Out, e1, TF1, mr1, Out1, h, hs, hsT => by
    cases fuel <;>
    · rw [FMantleDBEntry.TakeEntitiesLoop] at h
      cases h
      exact ⟨hs, hsT⟩
  | 0, n + 1, e, TF, mr, Out, e1, TF1, mr1, Out1, h, _, _ => by
    rw [FMantleDBEntry.TakeEntitiesLoop] at h
    cases h
  | fuel + 1, n + 1, e, TF, mr, Out, e1, TF1, mr1, Out1, h, hs, hsT => by
    rw [FMantleDBEntry.TakeEntitiesLoop] at h
    split at h
    · cases h
    · rename_i Id c e2 mr2 hget
      obtain ⟨ga, _, _⟩ := GetAvailableChunk_archetype hget
      split at h
      · cases h
      · simp only at h
        split at h
        · cases h
        · rename_i Taken c3 TF3 mr3 Out3 htake
          obtain ⟨a1, a2, a3, a4, a5, _, _⟩ := Chunk_TakeEntities_stack htake hsT
          refine Entry_TakeEntitiesLoop_stack EntityIds Components fuel _ _ _ _ _ _ _ _ _ h ?_ a5
          intro hnb
          have hnb2 : IsZero e2.Archetype = false := by
            rw [← (PopIfFull_frame2 { e2 with Chunks := e2.Chunks.Add Id c3 } c3).1]
            exact hnb
          have hnb0 : IsZero e.Archetype = false := by
            rw [← ga]
            exact hnb2
          obtain ⟨g1, _⟩ := GetAvailableChunk_stack hget (hs hnb0)
          have hcarch : c.Archetype = e2.Archetype := g1.chunk_archetype Id c g1.found
          exact Store_stack g1 hnb2 a1 a3
            (a4 (by rw [hcarch]; exact hnb2) (g1.chunk_bound Id c g1.found))

/-! ## The stacks of available chunks are in shape in every reachable state -/

theorem Entry_AddEntities_archetype (Components : List FInstancedStruct) :
    ∀ (fuel : Nat) (e : FMantleDBEntry) (mr : FMantleDBMasterRecord) (n : Nat)
      (Out : FMantleCachedEntry) (e1 : FMantleDBEntry) (mr1 : FMantleDBMasterRecord)
      (Out1 : FMantleCachedEntry),
      FMantleDBEntry.AddEntities fuel e mr Components n Out = .ok (e1, mr1, Out1) →
      e1.Archetype = e.Archetype
  | fuel, e, mr, 0, Out, e1, mr1, Out1, h => by
    cases fuel <;>
    · rw [FMantleDBEntry.AddEntities] at h
      cases h
      rfl
  | 0, e, mr, n + 1, Out, e1, mr1, Out1, h => by
    rw [FMantleDBEntry.AddEntities] at h
    cases h
  | fuel + 1, e, mr, n + 1, Out, e1, mr1, Out1, h => by
    rw [FMantleDBEntry.AddEntities] at h
    split at h
    · cases h
    · rename_i Id c e2 mr2 hget
      obtain ⟨ga, _, _⟩ := GetAvailableChunk_archetype hget
      split at h
      · cases h
      · have r := Entry_AddEntities_archetype Components fuel _ _ _ _ _ _ _ h
        exact r.trans ((PopIfFull_frame2 _ _).1.trans ga)

theorem StackInv_same {db db1 : UMantleDB} (h : SameStore db db1) (hs : StackInv db) :
    StackInv db1 := by
  intro X e he
  rw [h.1] at he
  exact hs X e he

theorem EntryStack_Ctor (A : TBitArray) (mr : FMantleDBMasterRecord) :
    EntryStack (FMantleDBEntry.Ctor A mr) :=
  fun _ => ⟨(fun _ _ h => by cases h), (fun _ _ h => by cases h), (fun _ _ h => by cases h),
    List.nodup_nil, (fun _ h => by cases h)⟩

theorem GetOrCreateEntry_stack (db : UMantleDB) (A : TBitArray) (hs : StackInv db) :
    StackInv (db.GetOrCreateEntry A).1 := by
  cases hf : db.EntriesByArchetype.Find A with
  | some e =>
    rw [GetOrCreateEntry_old db A e hf]
    exact hs
  | none =>
    obtain ⟨_, n2, _⟩ := GetOrCreateEntry_new db A hf
    intro X e he
    rw [n2, TMap.Find_Add] at he
    by_cases hX : X = A
    · rw [if_pos hX] at he
      cases he
      exact EntryStack_Ctor _ _
    · rw [if_neg hX] at he
      exact hs X e he

theorem Replace_stack (db : UMantleDB) (A : TBitArray) (e1 : FMantleDBEntry)
    (mr1 : FMantleDBMasterRecord) (hs : StackInv db) (h1 : EntryStack e1) :
    StackInv { db with EntriesByArchetype := db.EntriesByArchetype.Add A e1,
                       MasterRecord := mr1 } := by
  intro X e he
  have he' : (db.EntriesByArchetype.Add A e1).Find X = some e := he
  rw [TMap.Find_Add] at he'
  by_cases hX : X = A
  · rw [if_pos hX] at he'
    cases he'
    exact h1
  · rw [if_neg hX] at he'
    exact hs X e he'

theorem AddEntities_stack {db db1 : UMantleDB} {fuel : Nat} {S : List FInstancedStruct}
    {n : Nat} {It : FMantleIterator} (hs : StackInv db)
    (h : db.AddEntities fuel S n = .ok (db1, It)) : StackInv db1 := by
  unfold UMantleDB.AddEntities at h
  simp only at h
  generalize db.FillArchetype (ZeroBits db.MasterRecord.ComponentInfoMap.length)
    (S.map (fun p => p.TypeName)) = A at h
  have g1 := GetOrCreateEntry_stack db A hs
  have g3 : (db.GetOrCreateEntry A).1.EntriesByArchetype.Find A =
      some (db.GetOrCreateEntry A).2 := by
    cases hf : db.EntriesByArchetype.Find A with
    | some e => rw [GetOrCreateEntry_old db A e hf]; exact hf
    | none =>
      obtain ⟨n1, n2, _⟩ := GetOrCreateEntry_new db A hf
      rw [n2, n1, TMap.Find_Add_self]
  generalize db.GetOrCreateEntry A = g at h g1 g3
  cases hadd : g.2.AddEntities fuel g.1.MasterRecord S n { Archetype := A } with
  | error f => rw [hadd] at h; cases h
  | ok res =>
    obtain ⟨e1, mr1, Out⟩ := res
    rw [hadd] at h
    simp only at h
    have harch := Entry_AddEntities_archetype S fuel _ _ _ _ _ _ _ hadd
    have he1 : EntryStack e1 := by
      intro hnb
      rw [harch] at hnb
      exact (Entry_AddEntities_stack S fuel _ _ _ _ _ _ _ hadd hnb (g1 A g.2 g3 hnb)).1
    have r1 := Replace_stack g.1 A e1 mr1 g1 he1
    have hdb1 : db1 = ((UMantleDB.EntryWasModified
        { g.1 with EntriesByArchetype := g.1.EntriesByArchetype.Add A e1, MasterRecord := mr1 }
        A).RunQueryInternal A).1 := by
      rw [← RefreshCachedQuery_eq]
      split at h
      · injection h with h
        exact (congrArg Prod.fst h).symm
      · injection h with h
        exact (congrArg Prod.fst h).symm
    have hsame := SameStore_trans (EntryWasModified_same
      { g.1 with EntriesByArchetype := g.1.EntriesByArchetype.Add A e1, MasterRecord := mr1 } A)
      (RunQueryInternal_store _ A)
    rw [hdb1]
    exact StackInv_same hsame r1

theorem RemoveEntitiesLoop_stack : ∀ (ids : List FGuid) (db : UMantleDB) (M : List TBitArray)
    (db1 : UMantleDB) (M1 : List TBitArray),
    UMantleDB.RemoveEntitiesLoop ids db M = .ok (db1, M1) → StackInv db → StackInv db1
  | [], db, M, db1, M1, h, hs => by
    rw [UMantleDB.RemoveEntitiesLoop] at h
    cases h
    exact hs
  | Id :: rest, db, M, db1, M1, h, hs => by
    rw [UMantleDB.RemoveEntitiesLoop] at h
    split at h
    · exact RemoveEntitiesLoop_stack rest db M db1 M1 h hs
    · split at h
      · exact RemoveEntitiesLoop_stack rest db M db1 M1 h hs
      · rename_i Entity hE
        split at h
        · exact RemoveEntitiesLoop_stack rest db M db1 M1 h hs
        · rename_i Entry hEntry
          split at h
          · exact RemoveEntitiesLoop_stack rest db M db1 M1 h hs
          · rename_i Chunk hChunk
            split at h
            · cases h
            · rename_i Chunk1 Entry1 mr1 hrem
              obtain ⟨k1, _, _⟩ := RemoveEntity_stack hChunk hrem (hs _ _ hEntry)
              exact RemoveEntitiesLoop_stack rest _ _ db1 M1 h
                (Replace_stack db Entity.Archetype
                  { Entry1 with Chunks := Entry1.Chunks.Add Entity.ChunkId Chunk1 }
                  (mr1.RemoveEntity Entity.Id) hs k1)

theorem RemoveEntities_stack {db db1 : UMantleDB} {ids : List FGuid} (hs : StackInv db)
    (h : db.RemoveEntities ids = .ok db1) : StackInv db1 := by
  unfold UMantleDB.RemoveEntities at h
  split at h
  · cases h
  · rename_i db2 M hloop
    cases h
    exact StackInv_same (Invalidated.foldl M db2).1
      (RemoveEntitiesLoop_stack ids db [] db2 M hloop hs)

theorem UpdateEntities_stack {db db1 : UMantleDB} {fuel : Nat} {ids : List FGuid}
    {S : List FInstancedStruct} {R : List (Option FString)} {It : FMantleIterator}
    (hs : StackInv db) (h : db.UpdateEntities fuel ids S R = .ok (db1, It)) :
    StackInv db1 := by
  unfold UMantleDB.UpdateEntities at h
  have hexit : ∀ {x : UMantleDB × FMantleIterator}, x = (db, {}) →
      Except.ok x = (Except.ok (db1, It) : Except Failure (UMantleDB × FMantleIterator)) →
      StackInv db1 := by
    intro x hx hh
    injection hh with hh
    rw [hx] at hh
    have h1 : db1 = db := (congrArg Prod.fst hh).symm
    rw [h1]
    exact hs
  split at h
  · exact hexit rfl h
  · split at h
    · exact hexit rfl h
    · rename_i Old Valid hcollect
      split at h
      · exact hexit rfl h
      · simp only at h
        split at h
        · exact hexit rfl h
        · rename_i hne
          split at h
          · exact hexit rfl h
          · rename_i OldEntry hOld
            generalize db.FillArchetype Old (S.map (fun p => p.TypeName)) (R.filterMap id) = New
              at h hne
            have g1 := GetOrCreateEntry_stack db New hs
            have g3 : (db.GetOrCreateEntry New).1.EntriesByArchetype.Find New =
                some (db.GetOrCreateEntry New).2 := by
              cases hf : db.EntriesByArchetype.Find New with
              | some e => rw [GetOrCreateEntry_old db New e hf]; exact hf
              | none =>
                obtain ⟨n1, n2, _⟩ := GetOrCreateEntry_new db New hf
                rw [n2, n1, TMap.Find_Add_self]
            generalize db.GetOrCreateEntry New = g at h g1 g3
            split at h
            · cases h
            · rename_i NewEntry1 OldEntry1 mr1 Out htake
              obtain ⟨a1, a2⟩ := Entry_TakeEntitiesLoop_stack Valid S fuel _ _ _ _ _ _ _ _ _
                htake (g1 New g.2 g3) (hs Old OldEntry hOld)
              have r1 := Replace_stack g.1 Old OldEntry1 mr1 g1 a2
              have q1 := Replace_stack
                { g.1 with EntriesByArchetype := g.1.EntriesByArchetype.Add Old OldEntry1,
                           MasterRecord := mr1 }
                New NewEntry1 mr1 r1 a1
              have hsame := SameStore_trans (SameStore_trans
                (EntryWasModified_same
                  { g.1 with
                    EntriesByArchetype :=
                      (g.1.EntriesByArchetype.Add Old OldEntry1).Add New NewEntry1,
                    MasterRecord := mr1 } Old)
                (EntryWasModified_same _ New)) (RunQueryInternal_store _ New)
              have hdb1 : db1 = (((UMantleDB.EntryWasModified
                  { g.1 with
                    EntriesByArchetype :=
                      (g.1.EntriesByArchetype.Add Old OldEntry1).Add New NewEntry1,
                    MasterRecord := mr1 } Old).EntryWasModified New).RunQueryInternal New).1 := by
                rw [← RefreshCachedQuery_eq]
                split at h
                · injection h with h
                  exact (congrArg Prod.fst h).symm
                · injection h with h
                  exact (congrArg Prod.fst h).symm
              rw [hdb1]
              exact StackInv_same hsame q1

theorem Initialize_stack {db db1 : UMantleDB} {ComponentTypes : List (Option UScriptStruct)}
    {ChunkSizeBytes : Int} (hs : StackInv db)
    (h : db.Initialize ComponentTypes ChunkSizeBytes = .ok db1) : StackInv db1 := by
  unfold UMantleDB.Initialize at h
  split at h
  · injection h with h
    rw [← h]
    exact hs
  · split at h
    · cases h
    · simp only at h
      have hs0 : StackInv
          { db with
            MasterRecord :=
              { db.MasterRecord with
                ChunkComponentBlobSize := ChunkSizeBytes,
                ComponentInfoMap :=
                  UMantleDB.RegisterComponentTypes ComponentTypes 0
                    db.MasterRecord.ComponentInfoMap } } := hs
      split at h
      · injection h with h
        rw [← h]
        exact hs0
      · injection h with h
        rw [← h]
        exact GetOrCreateEntry_stack _ _ hs0

/-- Every reachable state satisfies the invariant of the stacks of available chunks. -/
theorem Reachable_stack {db : UMantleDB} (h : Reachable db) : StackInv db := by
  induction h with
  | fresh => exact fun _ _ h => by cases h
  | init db db1 T B _ h ih => exact Initialize_stack ih h
  | add db db1 fuel S n It _ h ih => exact AddEntities_stack ih h
  | remove db db1 ids _ h ih => exact RemoveEntities_stack ih h
  | update db db1 fuel ids S R It _ h ih => exact UpdateEntities_stack ih h
  | query db Query _ ih =>
    rw [RunQuery_eq]
    exact StackInv_same (RunQueryInternal_store db _) ih

/-! ## C35: the stack of available chunks and the loop of `FMantleDBEntry::AddEntities` -/

theorem BytesPerEntity_congr {mr1 mr : FMantleDBMasterRecord}
    (h : mr1.ComponentInfoMap = mr.ComponentInfoMap) (A : TBitArray) :
    FMantleDBChunk.BytesPerEntity A mr1 = FMantleDBChunk.BytesPerEntity A mr := by
  unfold FMantleDBChunk.BytesPerEntity
  rw [PresentTypes_congr h]

theorem CtorCapacity_congr {mr1 mr : FMantleDBMasterRecord}
    (h1 : mr1.ComponentInfoMap = mr.ComponentInfoMap)
    (h2 : mr1.ChunkComponentBlobSize = mr.ChunkComponentBlobSize) (A : TBitArray) :
    FMantleDBChunk.CtorCapacity A mr1 = FMantleDBChunk.CtorCapacity A mr := by
  unfold FMantleDBChunk.CtorCapacity FMantleDBChunk.BytesPerEntity
    FMantleDBChunk.MaxPossibleAlignmentPadding
  rw [PresentTypes_congr h1, h2]

/-- A chunk made by the constructor for an archetype with a valid component type has the
capacity `CtorCapacity`, which is positive. -/
theorem Ctor_total {Id : FGuid} {A : TBitArray} {mr : FMantleDBMasterRecord}
    {c : FMantleDBChunk} (h : FMantleDBChunk.Ctor Id A mr = .ok c)
    (hB : 0 < FMantleDBChunk.BytesPerEntity A mr) :
    c.TotalCapacity = FMantleDBChunk.CtorCapacity A mr ∧
      0 < FMantleDBChunk.CtorCapacity A mr ∧ c.EntityIds = [] := by
  unfold FMantleDBChunk.Ctor at h
  rw [if_pos hB] at h
  simp only at h
  unfold FMantleDBChunk.CtorCapacity
  split at h
  · cases h
  · rename_i hT
    cases h
    refine ⟨rfl, ?_, rfl⟩
    generalize Int.tdiv (mr.ChunkComponentBlobSize -
      FMantleDBChunk.MaxPossibleAlignmentPadding A mr) (FMantleDBChunk.BytesPerEntity A mr) = T
      at hT ⊢
    omega

theorem AddComponentsLoop_error (k m : Nat) :
    ∀ (S : List FInstancedStruct) (c : FMantleDBChunk) (Out : FMantleCachedEntry),
      FMantleDBChunk.AddComponentsLoop k m S c Out ≠ .error .OutOfFuel
  | [], c, Out => by
    rw [FMantleDBChunk.AddComponentsLoop]
    exact fun h => by cases h
  | p :: rest, c, Out => by
    rw [FMantleDBChunk.AddComponentsLoop]
    split
    · exact fun h => by cases h
    · split
      · exact fun h => by cases h
      · exact AddComponentsLoop_error k m rest _ _

theorem Chunk_AddEntities_error (c : FMantleDBChunk) (mr : FMantleDBMasterRecord)
    (S : List FInstancedStruct) (n : Nat) (Out : FMantleCachedEntry) :
    c.AddEntities mr S n Out ≠ .error .OutOfFuel := by
  unfold FMantleDBChunk.AddEntities
  split
  · exact fun h => by cases h
  · split
    · exact fun h => by cases h
    · simp only
      split
      · rename_i f hf
        intro h
        injection h with h
        rw [h] at hf
        exact AddComponentsLoop_error _ _ _ _ _ hf
      · exact fun h => by cases h

theorem PopIfFull_all (e : FMantleDBEntry) (c : FMantleDBChunk) :
    (e.PopIfFull c).AllChunkIds = e.AllChunkIds := by
  unfold FMantleDBEntry.PopIfFull
  split <;> rfl

/-- The loop of `FMantleDBEntry::AddEntities` on an entry with components whose archetype has
a valid component type: with a fuel of at least the number of entities the loop ends, and
when it ends without a fatal error the chunks it has made are few. -/
theorem Entry_AddEntities_bound (S : List FInstancedStruct) :
    ∀ (fuel : Nat) (e : FMantleDBEntry) (mr : FMantleDBMasterRecord) (n : Nat)
      (Out : FMantleCachedEntry),
      n ≤ fuel → IsZero e.Archetype = false → StackShape e →
      0 < FMantleDBChunk.BytesPerEntity e.Archetype mr →
      FMantleDBEntry.AddEntities fuel e mr S n Out ≠ .error .OutOfFuel ∧
        ∀ e1 mr1 Out1, FMantleDBEntry.AddEntities fuel e mr S n Out = .ok (e1, mr1, Out1) →
          ∃ New, e1.AllChunkIds = e.AllChunkIds ++ New ∧
            (New = [] ∨ 0 < FMantleDBChunk.CtorCapacity e.Archetype mr) ∧
            New.length * FMantleDBChunk.CtorCapacity e.Archetype mr ≤
              n + FMantleDBChunk.CtorCapacity e.Archetype mr - 1
  | fuel, e, mr, 0, Out, _, _, _, _ => by
    have h0 : FMantleDBEntry.AddEntities fuel e mr S 0 Out = .ok (e, mr, Out) := by
      cases fuel <;> rw [FMantleDBEntry.AddEntities]
    rw [h0]
    refine ⟨(fun h => by cases h), fun e1 mr1 Out1 h => ?_⟩
    cases h
    exact ⟨[], (List.append_nil _).symm, Or.inl rfl, by simp⟩
  | 0, e, mr, n + 1, Out, hfuel, _, _, _ => by omega
  | fuel + 1, e, mr, n + 1, Out, hfuel, hnb, hs, hB => by
    rw [FMantleDBEntry.AddEntities]
    cases hget : e.GetAvailableChunk mr with
    | error f =>
      simp only
      obtain ⟨msg, hm⟩ := GetAvailableChunk_error hget
      rw [hm]
      exact ⟨(fun h => by cases h), fun _ _ _ h => by cases h⟩
    | ok r =>
      obtain ⟨Id, c, e2, mr2⟩ := r
      simp only
      obtain ⟨g1, g2⟩ := GetAvailableChunk_stack hget hs
      obtain ⟨ga, gb, gc⟩ := GetAvailableChunk_archetype hget
      cases hadd : c.AddEntities mr2 S (n + 1) Out with
      | error f =>
        simp only
        refine ⟨fun h => ?_, fun _ _ _ h => by cases h⟩
        injection h with h
        rw [h] at hadd
        exact Chunk_AddEntities_error _ _ _ _ _ hadd
      | ok r2 =>
        obtain ⟨Added, c3, mr3, Out3⟩ := r2
        simp only
        obtain ⟨a1, a2, a3, a4, a5, a6, a7⟩ := Chunk_AddEntities_fields hadd
        have hcarch : c.Archetype = e.Archetype :=
          (g1.chunk_archetype Id c g1.found).trans ga
        have hk := a5 (by rw [hcarch]; exact hnb)
        have hb := g1.chunk_bound Id c g1.found
        have hb3 : c3.EntityIds.length ≤ c3.TotalCapacity := by
          rw [a4, a2, hk]
          unfold FMantleDBChunk.GetRemainingCapacity
          omega
        have hstore := Store_stack g1 (by rw [ga]; exact hnb) a1 a3 hb3
        have harch2 : (FMantleDBEntry.PopIfFull
            { e2 with Chunks := e2.Chunks.Add Id c3 } c3).Archetype = e.Archetype :=
          (PopIfFull_frame2 _ _).1.trans ga
        have hall2 : (FMantleDBEntry.PopIfFull
            { e2 with Chunks := e2.Chunks.Add Id c3 } c3).AllChunkIds = e2.AllChunkIds :=
          PopIfFull_all _ _
        have hreg : mr3.ComponentInfoMap = mr.ComponentInfoMap := a6.trans gb
        have hbud : mr3.ChunkComponentBlobSize = mr.ChunkComponentBlobSize := a7.trans gc
        have hcap : FMantleDBChunk.CtorCapacity (FMantleDBEntry.PopIfFull
            { e2 with Chunks := e2.Chunks.Add Id c3 } c3).Archetype mr3 =
            FMantleDBChunk.CtorCapacity e.Archetype mr := by
          rw [harch2]
          exact CtorCapacity_congr hreg hbud _
        have hB3 : 0 < FMantleDBChunk.BytesPerEntity (FMantleDBEntry.PopIfFull
            { e2 with Chunks := e2.Chunks.Add Id c3 } c3).Archetype mr3 := by
          rw [harch2, BytesPerEntity_congr hreg]
          exact hB
        have hroom : 0 < c.GetRemainingCapacity ∧
            (e2.AllChunkIds = e.AllChunkIds ∨
              (e2.AllChunkIds = e.AllChunkIds ++ [Id] ∧
                c.GetRemainingCapacity = FMantleDBChunk.CtorCapacity e.Archetype mr ∧
                0 < FMantleDBChunk.CtorCapacity e.Archetype mr)) := by
          rcases g2 with ⟨q1, _, q3⟩ | ⟨_, q2, q3⟩
          · exact ⟨q3, Or.inl (by rw [q1])⟩
          · have hBn : 0 < FMantleDBChunk.BytesPerEntity e.Archetype mr.NewGuid.2 := by
              rw [BytesPerEntity_congr (show mr.NewGuid.2.ComponentInfoMap = mr.ComponentInfoMap
                from rfl)]
              exact hB
            obtain ⟨t1, t2, t3⟩ := Ctor_total q3 hBn
            have hcn : FMantleDBChunk.CtorCapacity e.Archetype mr.NewGuid.2 =
                FMantleDBChunk.CtorCapacity e.Archetype mr := CtorCapacity_congr rfl rfl _
            rw [hcn] at t1 t2
            have hr : c.GetRemainingCapacity = FMantleDBChunk.CtorCapacity e.Archetype mr := by
              unfold FMantleDBChunk.GetRemainingCapacity
              rw [t3, t1]
              rfl
            exact ⟨by rw [hr]; exact t2, Or.inr ⟨q2, hr, t2⟩⟩
        obtain ⟨hpos, hcase⟩ := hroom
        have hA1 : 1 ≤ Added := by omega
        have hA2 : Added ≤ n + 1 := by omega
        obtain ⟨i1, i2⟩ := Entry_AddEntities_bound S fuel
          (FMantleDBEntry.PopIfFull { e2 with Chunks := e2.Chunks.Add Id c3 } c3) mr3
          (n + 1 - Added) Out3 (by omega) (by rw [harch2]; exact hnb) hstore hB3
        refine ⟨i1, fun e1 mr1 Out1 h => ?_⟩
        obtain ⟨New, n1, n2, n3⟩ := i2 e1 mr1 Out1 h
        rw [hall2] at n1
        rw [hcap] at n2 n3
        rcases hcase with q | ⟨q, hr, hc0⟩
        · refine ⟨New, by rw [n1, q], n2, ?_⟩
          omega
        · refine ⟨Id :: New, by rw [n1, q, List.append_assoc]; rfl, Or.inr hc0, ?_⟩
          rw [List.length_cons, Nat.succ_mul]
          rw [hr] at hk
          by_cases hle : n + 1 ≤ FMantleDBChunk.CtorCapacity e.Archetype mr
          · have hL : New.length = 0 := by
              by_contra hne
              have := Nat.le_mul_of_pos_left (FMantleDBChunk.CtorCapacity e.Archetype mr)
                (Nat.pos_of_ne_zero hne)
              omega
            rw [hL]
            omega
          · omega

/-- A chunk with remaining capacity of an archetype with components takes at least one
entity when it is asked for at least one. -/
theorem Chunk_AddEntities_accepts {c : FMantleDBChunk} {mr : FMantleDBMasterRecord}
    {S : List FInstancedStruct} {n : Nat} {Out : FMantleCachedEntry} {k : Nat}
    {c1 : FMantleDBChunk} {mr1 : FMantleDBMasterRecord} {Out1 : FMantleCachedEntry}
    (h : c.AddEntities mr S (n + 1) Out = .ok (k, c1, mr1, Out1))
    (hnb : IsZero c.Archetype = false) (hroom : 0 < c.GetRemainingCapacity) :
    1 ≤ k ∧ k = min (n + 1) c.GetRemainingCapacity := by
  have hk := (Chunk_AddEntities_fields h).2.2.2.2.1 hnb
  exact ⟨by omega, hk⟩

/-- In the loop of `FMantleDBEntry::TakeEntities` on an entry with components whose archetype
has no valid component type and whose stack is empty, every pass makes a chunk without
capacity, takes nothing and pops the chunk: the loop does not end, whatever the fuel. -/
theorem Entry_TakeEntitiesLoop_no_capacity (EntityIds : List FGuid)
    (S : List FInstancedStruct) (n : Nat) (TF : FMantleDBEntry) (Out : FMantleCachedEntry)
    (hlen : ¬ EntityIds.length < n + 1) :
    ∀ (fuel : Nat) (e : FMantleDBEntry) (mr : FMantleDBMasterRecord),
      e.AvailableChunkIds = [] → IsZero e.Archetype = false →
      ¬ FMantleDBChunk.BytesPerEntity e.Archetype mr > 0 →
      FMantleDBEntry.TakeEntitiesLoop EntityIds S fuel (n + 1) e TF mr Out = .error .OutOfFuel
  | 0, e, mr, _, _, _ => by rw [FMantleDBEntry.TakeEntitiesLoop]
  | fuel + 1, e, mr, hst, hnb, hB => by
    have hBn : ¬ FMantleDBChunk.BytesPerEntity e.Archetype mr.NewGuid.2 > 0 := by
      rw [BytesPerEntity_congr (show mr.NewGuid.2.ComponentInfoMap = mr.ComponentInfoMap
        from rfl)]
      exact hB
    obtain ⟨c, hc⟩ : ∃ c : FMantleDBChunk, c =
        { ChunkId := mr.NewGuid.1, Archetype := e.Archetype,
          ComponentTypeInfo := FMantleDBChunk.PresentTypes e.Archetype mr.NewGuid.2 } :=
      ⟨_, rfl⟩
    obtain ⟨e1, he1⟩ : ∃ e1 : FMantleDBEntry, e1 =
        { e with
          AvailableChunkIds := [mr.NewGuid.1],
          Chunks := e.Chunks.Add mr.NewGuid.1 c,
          AllChunkIds := e.AllChunkIds ++ [mr.NewGuid.1] } := ⟨_, rfl⟩
    have hget : e.GetAvailableChunk mr = .ok (mr.NewGuid.1, c, e1, mr.NewGuid.2) := by
      unfold FMantleDBEntry.GetAvailableChunk
      simp only
      rw [hst, FMantleDBEntry.FindExistingChunk]
      simp only
      unfold FMantleDBChunk.Ctor
      rw [if_neg hBn]
      simp only [he1, hc]
    have hcap : c.GetRemainingCapacity = 0 := by rw [hc]; rfl
    have hcarch : c.Archetype = e.Archetype := by rw [hc]
    obtain ⟨Id, rest, hd⟩ : ∃ Id rest,
        EntityIds.drop (EntityIds.length - (n + 1)) = Id :: rest := by
      cases hdrop : EntityIds.drop (EntityIds.length - (n + 1)) with
      | nil =>
        have hl := congrArg List.length hdrop
        rw [List.length_drop] at hl
        simp only [List.length_nil] at hl
        omega
      | cons Id rest => exact ⟨Id, rest, rfl⟩
    have htake : c.TakeEntities (EntityIds.drop (EntityIds.length - (n + 1))) TF mr.NewGuid.2 S
        Out = .ok (0, c.MaybeAllocateBlob, TF, mr.NewGuid.2, Out) := by
      unfold FMantleDBChunk.TakeEntities
      rw [hd, if_neg (by simp), hcarch, hnb]
      simp only [Bool.false_eq_true, if_false]
      rw [FMantleDBChunk.TakeEntitiesLoop]
      have hcap0 : ¬ c.MaybeAllocateBlob.GetRemainingCapacity > 0 := by
        have : c.MaybeAllocateBlob.GetRemainingCapacity = c.GetRemainingCapacity := rfl
        rw [this, hcap]
        exact Nat.lt_irrefl 0
      rw [if_neg hcap0]
      simp
    rw [Entry_TakeEntitiesLoop_pass EntityIds S n (n + 1) e TF mr Out _ c _ e1 TF _ _ Out 0
      hget hlen htake rfl fuel]
    have hpop : FMantleDBEntry.PopIfFull
        { e1 with Chunks := e1.Chunks.Add mr.NewGuid.1 c.MaybeAllocateBlob }
        c.MaybeAllocateBlob =
        { e1 with Chunks := e1.Chunks.Add mr.NewGuid.1 c.MaybeAllocateBlob,
                  AvailableChunkIds := [] } := by
      unfold FMantleDBEntry.PopIfFull
      have hcap1 : c.MaybeAllocateBlob.GetRemainingCapacity ≤ 0 := by
        have : c.MaybeAllocateBlob.GetRemainingCapacity = c.GetRemainingCapacity := rfl
        rw [this, hcap]
      have he1a : e1.Archetype = e.Archetype := by rw [he1]
      have he1s : e1.AvailableChunkIds = [mr.NewGuid.1] := by rw [he1]
      rw [if_pos ⟨hcap1, he1a ▸ hnb⟩]
      simp only [he1s, List.tail_cons]
    rw [hpop]
    have he1a : e1.Archetype = e.Archetype := by rw [he1]
    exact Entry_TakeEntitiesLoop_no_capacity EntityIds S n TF Out hlen fuel _ _ rfl
      (he1a ▸ hnb) (by
        show ¬ FMantleDBChunk.BytesPerEntity e1.Archetype mr.NewGuid.2 > 0
        rw [he1a]
        exact hBn)

theorem ZeroTagDB_reachable : Reachable ZeroTagDB := by
  obtain ⟨db0, db1, It, h0, h1, h2⟩ : ∃ db0 db1 It,
      ({} : UMantleDB).Initialize [some ⟨"Tag", 0, 1⟩] 1024 = .ok db0 ∧
      db0.AddEntities 1 [] 1 = .ok (db1, It) ∧ ZeroTagDB = db1 :=
    ⟨_, _, _, rfl, rfl, rfl⟩
  rw [h2]
  exact Reachable.add _ _ _ _ _ _ (Reachable.init _ _ _ _ Reachable.fresh h0) h1

/-- The part of C35 that the code keeps: in every reachable state the
stack of available chunks of an entry with components names no chunk twice, and every id on
it names a chunk of the entry with remaining capacity. A chunk handed out by
`GetAvailableChunk` has remaining capacity, and takes at least one entity when asked for at
least one, if it comes from the stack or if the archetype has a component type of positive
size (so that the constructor computes a capacity). For such an archetype the loop of
`FMantleDBEntry::AddEntities` ends within `n` passes (it does not run out of a fuel of at
least `n`), and when it ends without a fatal error it has appended at most
`ceil(n / capacity)` chunks, `capacity` being the capacity the constructor computes. -/
theorem C35_available_pool (db : UMantleDB) (hreach : Reachable db) (X : TBitArray)
    (e : FMantleDBEntry) (he : db.EntriesByArchetype.Find X = some e)
    (hnb : IsZero X = false) :
    e.AvailableChunkIds.Nodup ∧
      (∀ Id ∈ e.AvailableChunkIds,
        ∃ c, e.Chunks.Find Id = some c ∧ 0 < c.GetRemainingCapacity) ∧
      (∀ mr Id c e1 mr1, e.GetAvailableChunk mr = .ok (Id, c, e1, mr1) →
        (e.AvailableChunkIds ≠ [] ∨ 0 < FMantleDBChunk.BytesPerEntity X mr) →
        0 < c.GetRemainingCapacity ∧
          ∀ S n Out k c1 mr2 Out1,
            c.AddEntities mr1 S (n + 1) Out = .ok (k, c1, mr2, Out1) →
            1 ≤ k ∧ k = min (n + 1) c.GetRemainingCapacity) ∧
      ∀ mr S n Out fuel, n ≤ fuel → 0 < FMantleDBChunk.BytesPerEntity X mr →
        FMantleDBEntry.AddEntities fuel e mr S n Out ≠ .error .OutOfFuel ∧
          ∀ e1 mr1 Out1,
            FMantleDBEntry.AddEntities fuel e mr S n Out = .ok (e1, mr1, Out1) →
            ∃ New, e1.AllChunkIds = e.AllChunkIds ++ New ∧
              New.length ≤
                (n + FMantleDBChunk.CtorCapacity X mr - 1) / FMantleDBChunk.CtorCapacity X mr := by
  have harch : e.Archetype = X := (hreach.inv.entry_wf X e he).1
  have hnbe : IsZero e.Archetype = false := by rw [harch]; exact hnb
  have hs : StackShape e := Reachable_stack hreach X e he hnbe
  refine ⟨hs.stack_nodup, hs.stack_room, ?_, ?_⟩
  · intro mr Id c e1 mr1 hget hor
    obtain ⟨g1, g2⟩ := GetAvailableChunk_stack hget hs
    obtain ⟨ga, _, _⟩ := GetAvailableChunk_archetype hget
    have hcarch : c.Archetype = e.Archetype := (g1.chunk_archetype Id c g1.found).trans ga
    have hroom : 0 < c.GetRemainingCapacity := by
      rcases g2 with ⟨_, _, q3⟩ | ⟨q1, _, q3⟩
      · exact q3
      · rcases hor with hne | hB
        · exact absurd q1 hne
        · have hBn : 0 < FMantleDBChunk.BytesPerEntity e.Archetype mr.NewGuid.2 := by
            rw [harch, BytesPerEntity_congr (show mr.NewGuid.2.ComponentInfoMap =
              mr.ComponentInfoMap from rfl)]
            exact hB
          obtain ⟨t1, t2, t3⟩ := Ctor_total q3 hBn
          unfold FMantleDBChunk.GetRemainingCapacity
          rw [t3, t1]
          exact t2
    exact ⟨hroom, fun S n Out k c1 mr2 Out1 hadd =>
      Chunk_AddEntities_accepts hadd (by rw [hcarch]; exact hnbe) hroom⟩
  · intro mr S n Out fuel hfuel hB
    obtain ⟨b1, b2⟩ := Entry_AddEntities_bound S fuel e mr n Out hfuel hnbe hs
      (by rw [harch]; exact hB)
    refine ⟨b1, fun e1 mr1 Out1 h => ?_⟩
    obtain ⟨New, n1, n2, n3⟩ := b2 e1 mr1 Out1 h
    rw [harch] at n2 n3
    refine ⟨New, n1, ?_⟩
    rcases n2 with hnil | hc
    · rw [hnil]
      exact Nat.zero_le _
    · exact (Nat.le_div_iff_mul_le hc).2 n3

/-- The available chunks at work: after `CrampedDB` has got an entity with a `Position` and a `Big`, the entry
of that archetype holds one full chunk of capacity 1 and its stack is empty; the loop of
`FMantleDBEntry::AddEntities` for 3 more entities ends with a fuel of 3 and appends the
chunks 5, 7 and 9, which are `ceil(3 / 1)` chunks. -/
theorem C35_available_pool_witness :
    ∃ db It e, CrampedDB.AddEntities 1 [⟨"Position", 1⟩, ⟨"Big", 2⟩] 1 = .ok (db, It) ∧
      Reachable db ∧ db.EntriesByArchetype.Find [true, true] = some e ∧
      IsZero ([true, true] : TBitArray) = false ∧
      e.AvailableChunkIds = [] ∧ e.AllChunkIds = [3] ∧
      FMantleDBChunk.CtorCapacity [true, true] db.MasterRecord = 1 ∧
      (∃ e1 mr1 Out1,
        FMantleDBEntry.AddEntities 3 e db.MasterRecord [⟨"Position", 1⟩, ⟨"Big", 2⟩] 3
          { Archetype := [true, true] } = .ok (e1, mr1, Out1) ∧
        e1.AllChunkIds = [3, 5, 7, 9]) ∧
      FMantleDBEntry.AddEntities 3 e db.MasterRecord [⟨"Position", 1⟩, ⟨"Big", 2⟩] 3
          { Archetype := [true, true] } ≠ .error .OutOfFuel ∧
      ∀ e1 mr1 Out1,
        FMantleDBEntry.AddEntities 3 e db.MasterRecord [⟨"Position", 1⟩, ⟨"Big", 2⟩] 3
          { Archetype := [true, true] } = .ok (e1, mr1, Out1) →
        ∃ New, e1.AllChunkIds = e.AllChunkIds ++ New ∧
          New.length ≤ (3 + FMantleDBChunk.CtorCapacity [true, true] db.MasterRecord - 1) /
            FMantleDBChunk.CtorCapacity [true, true] db.MasterRecord := by
  obtain ⟨db, It, e, hadd, he⟩ : ∃ db It e,
      CrampedDB.AddEntities 1 [⟨"Position", 1⟩, ⟨"Big", 2⟩] 1 = .ok (db, It) ∧
      db.EntriesByArchetype.Find [true, true] = some e := ⟨_, _, _, rfl, rfl⟩
  have hreach : Reachable db := Reachable.add _ _ _ _ _ _ CrampedDB_reachable hadd
  have h := (C35_available_pool db hreach [true, true] e he (by decide)).2.2.2
    db.MasterRecord [⟨"Position", 1⟩, ⟨"Big", 2⟩] 3 { Archetype := [true, true] } 3
    (Nat.le_refl 3)
  obtain ⟨hdb, hIt⟩ : db = ((CrampedDB.AddEntities 1 [⟨"Position", 1⟩, ⟨"Big", 2⟩] 1).toOption.map
      Prod.fst).getD {} ∧ It = ((CrampedDB.AddEntities 1 [⟨"Position", 1⟩, ⟨"Big", 2⟩]
      1).toOption.map Prod.snd).getD {} := by
    rw [hadd]
    exact ⟨rfl, rfl⟩
  have he2 : e = (db.EntriesByArchetype.Find [true, true]).getD { Archetype := [] } := by
    rw [he]
    rfl
  have hB : 0 < FMantleDBChunk.BytesPerEntity [true, true] db.MasterRecord := by
    rw [hdb]
    decide
  refine ⟨db, It, e, hadd, hreach, he, by decide, ?_, ?_, ?_, ?_, (h hB).1, (h hB).2⟩
  · rw [he2, hdb]
    rfl
  · rw [he2, hdb]
    rfl
  · rw [hdb]
    rfl
  · rw [he2, hdb]
    exact ⟨_, _, _, rfl, rfl⟩

/-- C35, a defect of the code: a chunk handed out by `GetAvailableChunk` need not accept an
entity, and the loop that relies on it need not end. `ZeroTagDB` is a reachable state whose
registry holds a `Tag` type of 0 bytes, and the entity 2 is live without components. After
`AddEntities` with a `Tag` template and zero entities the state is reachable too and has an
entry with components for the archetype of the `Tag`; `GetAvailableChunk` on that entry
hands out a new chunk without remaining capacity (the constructor computes no capacity for an
archetype without a valid component type: the check `TotalCapacity <= 0` of lines 74-78 is
inside `if (BytesPerEntity > 0)`), which takes none of the entities it is asked to
take. So `UpdateEntities`, giving the entity 2 a `Tag`, never returns: the loop of
`FMantleDBEntry::TakeEntities` makes a chunk in every pass and runs out of every fuel. -/
theorem C35_chunk_without_capacity_is_handed_out :
    Reachable ZeroTagDB ∧ ZeroTagDB.HasEntity 2 = true ∧
      (∃ db It e TF, ZeroTagDB.AddEntities 0 [⟨"Tag", 0⟩] 0 = .ok (db, It) ∧ Reachable db ∧
        db.EntriesByArchetype.Find [true] = some e ∧ IsZero ([true] : TBitArray) = false ∧
        db.EntriesByArchetype.Find [false] = some TF ∧
        ∃ Id c e1 mr1, e.GetAvailableChunk db.MasterRecord = .ok (Id, c, e1, mr1) ∧
          c.GetRemainingCapacity = 0 ∧
          ∃ c1 TF1 mr2 Out1,
            c.TakeEntities [2] TF mr1 [⟨"Tag", 0⟩] { Archetype := [true] } =
              .ok (0, c1, TF1, mr2, Out1)) ∧
      ∀ fuel, ZeroTagDB.UpdateEntities fuel [2] [⟨"Tag", 0⟩] [] = .error .OutOfFuel := by
  refine ⟨ZeroTagDB_reachable, by decide, ?_, fun fuel => ?_⟩
  · obtain ⟨db, It, hadd, hrest⟩ : ∃ db It,
        ZeroTagDB.AddEntities 0 [⟨"Tag", 0⟩] 0 = .ok (db, It) ∧
        ∃ e TF, db.EntriesByArchetype.Find [true] = some e ∧
          db.EntriesByArchetype.Find [false] = some TF ∧
          ∃ Id c e1 mr1, e.GetAvailableChunk db.MasterRecord = .ok (Id, c, e1, mr1) ∧
            c.GetRemainingCapacity = 0 ∧
            ∃ c1 TF1 mr2 Out1,
              c.TakeEntities [2] TF mr1 [⟨"Tag", 0⟩] { Archetype := [true] } =
                .ok (0, c1, TF1, mr2, Out1) :=
      ⟨_, _, rfl, _, _, rfl, rfl, _, _, _, _, rfl, rfl, _, _, _, _, rfl⟩
    obtain ⟨e, TF, h1, h2, h3⟩ := hrest
    exact ⟨db, It, e, TF, hadd, Reachable.add _ _ _ _ _ _ ZeroTagDB_reachable hadd, h1,
      by decide, h2, h3⟩
  · refine UpdateEntities_failure ZeroTagDB fuel [2] [⟨"Tag", 0⟩] [] [false] [2]
      ((ZeroTagDB.GetEntry [false]).getD { Archetype := [] }) .OutOfFuel (by decide) rfl
      (by decide) (by decide) rfl ?_
    show FMantleDBEntry.TakeEntitiesLoop [2] [⟨"Tag", 0⟩] fuel 1
      (ZeroTagDB.GetOrCreateEntry [true]).2
      ((ZeroTagDB.GetEntry [false]).getD { Archetype := [] })
      (ZeroTagDB.GetOrCreateEntry [true]).1.MasterRecord { Archetype := [true] } = _
    exact Entry_TakeEntitiesLoop_no_capacity [2] [⟨"Tag", 0⟩] 0 _ _ (by decide) fuel _ _ rfl
      (by decide) (by decide)

/-! ## What `AddEntities` records in the cached entry it returns -/

theorem ColumnView_length (c : FMantleDBChunk) (T : FString) (s k : Nat) :
    (c.ColumnView T s k).length = k := by
  unfold FMantleDBChunk.ColumnView
  rw [List.length_map, List.length_range]

theorem AppendView_Find_eq (m : TMap FString (List (List Payload))) (T T1 : FString)
    (v : List Payload) :
    (FMantleDBChunk.AppendView m T v).Find T1 =
      if T1 = T then some ((m.Find T).getD [] ++ [v]) else m.Find T1 := by
  unfold FMantleDBChunk.AppendView
  rw [TMap.Find_Add]

/-- The loop of `FMantleDBChunk::AddEntities` over templates of pairwise different types
records one view of `k` slots for every template and touches no other column. -/
theorem AddComponentsLoop_views (Old k : Nat) :
    ∀ (S : List FInstancedStruct) (c : FMantleDBChunk) (Out : FMantleCachedEntry)
      (c1 : FMantleDBChunk) (Out1 : FMantleCachedEntry),
      FMantleDBChunk.AddComponentsLoop Old k S c Out = .ok (c1, Out1) →
      (S.map (fun p => p.TypeName)).Nodup →
      Out1.ChunkedEntityIds = Out.ChunkedEntityIds ∧ Out1.Archetype = Out.Archetype ∧
      (∀ T, T ∉ S.map (fun p => p.TypeName) →
        Out1.ChunkedComponents.Find T = Out.ChunkedComponents.Find T) ∧
      ∀ p ∈ S, ∃ view : List Payload, view.length = k ∧
        Out1.ChunkedComponents.Find p.TypeName =
          some ((Out.ChunkedComponents.Find p.TypeName).getD [] ++ [view])
  | [], c, Out, c1, Out1, h, _ => by
    rw [FMantleDBChunk.AddComponentsLoop] at h
    cases h
    exact ⟨rfl, rfl, (fun _ _ => rfl), (fun p hp => by cases hp)⟩
  | q :: rest, c, Out, c1, Out1, h, hnd => by
    rw [FMantleDBChunk.AddComponentsLoop] at h
    rw [List.map_cons, List.nodup_cons] at hnd
    split at h
    · cases h
    · split at h
      · cases h
      · obtain ⟨r1, r2, r3, r4⟩ := AddComponentsLoop_views Old k rest _ _ c1 Out1 h hnd.2
        refine ⟨r1, r2, fun T hT => ?_, fun p hp => ?_⟩
        · rw [List.map_cons, List.mem_cons, not_or] at hT
          rw [r3 T hT.2]
          show (FMantleDBChunk.AppendView _ _ _).Find T = _
          rw [AppendView_Find_eq, if_neg hT.1]
        · rcases List.mem_cons.1 hp with hpq | hp'
          · rw [hpq, r3 _ hnd.1]
            have key : ∀ (m : TMap FString (List (List Payload))) (T : FString)
                (v : List Payload), v.length = k →
                ∃ view : List Payload, view.length = k ∧
                  (FMantleDBChunk.AppendView m T v).Find T =
                    some ((m.Find T).getD [] ++ [view]) :=
              fun m T v hv => ⟨v, hv, by rw [AppendView_Find_eq, if_pos rfl]⟩
            exact key _ _ _ (ColumnView_length _ _ _ _)
          · obtain ⟨view, hv, hf⟩ := r4 p hp'
            refine ⟨view, hv, ?_⟩
            rw [hf]
            have hne : p.TypeName ≠ q.TypeName := by
              intro heq
              exact hnd.1 (heq ▸ List.mem_map.2 ⟨p, hp', rfl⟩)
            show some ((((FMantleDBChunk.AppendView _ _ _).Find p.TypeName).getD []) ++ _) = _
            rw [AppendView_Find_eq, if_neg hne]

/-- The records after the loop of `RegisterEntities`: every id handed out is recorded with the
archetype of the chunk, the records of older ids are kept, and every recorded id is older
than the next guid. -/
theorem RegisterEntitiesLoop_records (Offset : Nat) :
    ∀ (Count EntityIndex : Nat) (c : FMantleDBChunk) (mr : FMantleDBMasterRecord),
      (∀ Id E, mr.EntitiesById.Find Id = some E → Id < mr.NextGuid) →
      (∀ Id E, (FMantleDBChunk.RegisterEntitiesLoop Offset Count EntityIndex c
          mr).2.EntitiesById.Find Id = some E →
        Id < (FMantleDBChunk.RegisterEntitiesLoop Offset Count EntityIndex c mr).2.NextGuid) ∧
      (∀ Id, Id < mr.NextGuid →
        (FMantleDBChunk.RegisterEntitiesLoop Offset Count EntityIndex c
          mr).2.EntitiesById.Find Id = mr.EntitiesById.Find Id) ∧
      ∀ Id, mr.NextGuid ≤ Id → Id < mr.NextGuid + Count →
        ∃ E, (FMantleDBChunk.RegisterEntitiesLoop Offset Count EntityIndex c
          mr).2.EntitiesById.Find Id = some E ∧ E.Archetype = c.Archetype
  | 0, EntityIndex, c, mr, hlt => by
    rw [FMantleDBChunk.RegisterEntitiesLoop]
    exact ⟨hlt, (fun _ _ => rfl), (fun Id h1 h2 => by omega)⟩
  | Count + 1, EntityIndex, c, mr, hlt => by
    rw [FMantleDBChunk.RegisterEntitiesLoop]
    have hfind : ∀ Id, (mr.RegisterEntity c.Archetype c.ChunkId
        (Offset + EntityIndex)).2.EntitiesById.Find Id =
        if Id = mr.NextGuid then
          some { Id := mr.NextGuid, Archetype := c.Archetype, ChunkId := c.ChunkId,
                 Index := Offset + EntityIndex }
        else mr.EntitiesById.Find Id := by
      intro Id
      show (TMap.Add mr.EntitiesById mr.NextGuid _).Find Id = _
      rw [TMap.Find_Add]
      rfl
    have hnext : (mr.RegisterEntity c.Archetype c.ChunkId (Offset + EntityIndex)).2.NextGuid =
        mr.NextGuid + 1 := rfl
    have hlt1 : ∀ Id E, (mr.RegisterEntity c.Archetype c.ChunkId
        (Offset + EntityIndex)).2.EntitiesById.Find Id = some E →
        Id < (mr.RegisterEntity c.Archetype c.ChunkId (Offset + EntityIndex)).2.NextGuid := by
      intro Id E hE
      rw [hnext]
      rw [hfind] at hE
      split at hE
      · rename_i heq
        rw [heq]
        exact Nat.lt_succ_self _
      · exact Nat.lt_succ_of_lt (hlt Id E hE)
    obtain ⟨i1, i2, i3⟩ := RegisterEntitiesLoop_records Offset Count (EntityIndex + 1)
      { c with EntityIds := c.EntityIds ++
          [(mr.RegisterEntity c.Archetype c.ChunkId (Offset + EntityIndex)).1] }
      (mr.RegisterEntity c.Archetype c.ChunkId (Offset + EntityIndex)).2 hlt1
    refine ⟨i1, fun Id hId => ?_, fun Id h1 h2 => ?_⟩
    · rw [i2 Id (by rw [hnext]; omega), hfind, if_neg (Nat.ne_of_lt hId)]
    · by_cases hId : Id = mr.NextGuid
      · refine ⟨{ Id := mr.NextGuid, Archetype := c.Archetype, ChunkId := c.ChunkId,
                  Index := Offset + EntityIndex }, ?_, rfl⟩
        rw [i2 Id (by rw [hnext, hId]; exact Nat.lt_succ_self _), hfind, if_pos hId]
      · have hId2 : mr.NextGuid < Id := Nat.lt_of_le_of_ne h1 (fun h => hId h.symm)
        exact i3 Id (by rw [hnext]; omega) (by rw [hnext]; omega)

theorem RegisterEntities_record (c : FMantleDBChunk) (mr : FMantleDBMasterRecord) (n : Nat)
    (Out : FMantleCachedEntry) :
    (c.RegisterEntities mr n Out).2.1 =
      (FMantleDBChunk.RegisterEntitiesLoop c.EntityIds.length n 0 c mr).2 := by
  unfold FMantleDBChunk.RegisterEntities
  simp only
  split <;> rfl

/-- One call of `FMantleDBChunk::AddEntities` that is asked for at least one entity, with
templates of pairwise different types (and none for a bare archetype): it records one view of
`k` new ids and one view of `k` slots for every template, `k` being the count it returns. -/
theorem Chunk_AddEntities_views {c : FMantleDBChunk} {mr : FMantleDBMasterRecord}
    {S : List FInstancedStruct} {n : Nat} {Out : FMantleCachedEntry} {k : Nat}
    {c1 : FMantleDBChunk} {mr1 : FMantleDBMasterRecord} {Out1 : FMantleCachedEntry}
    (h : c.AddEntities mr S (n + 1) Out = .ok (k, c1, mr1, Out1))
    (hS : (S.map (fun p => p.TypeName)).Nodup)
    (hnb : S = [] ∨ IsZero c.Archetype = false)
    (hlt : ∀ Id E, mr.EntitiesById.Find Id = some E → Id < mr.NextGuid) :
    Out1.ChunkedEntityIds = Out.ChunkedEntityIds ++ [List.range' mr.NextGuid k] ∧
      Out1.Archetype = Out.Archetype ∧ mr1.NextGuid = mr.NextGuid + k ∧ k ≤ n + 1 ∧
      (∀ T, T ∉ S.map (fun p => p.TypeName) →
        Out1.ChunkedComponents.Find T = Out.ChunkedComponents.Find T) ∧
      (∀ p ∈ S, ∃ view : List Payload, view.length = k ∧
        Out1.ChunkedComponents.Find p.TypeName =
          some ((Out.ChunkedComponents.Find p.TypeName).getD [] ++ [view])) ∧
      (∀ Id E, mr1.EntitiesById.Find Id = some E → Id < mr1.NextGuid) ∧
      (∀ Id, Id < mr.NextGuid → mr1.EntitiesById.Find Id = mr.EntitiesById.Find Id) ∧
      ∀ Id, mr.NextGuid ≤ Id → Id < mr.NextGuid + k →
        ∃ E, mr1.EntitiesById.Find Id = some E ∧ E.Archetype = c.Archetype := by
  unfold FMantleDBChunk.AddEntities at h
  rw [if_neg (by omega)] at h
  by_cases hz : IsZero c.Archetype = true
  · rw [if_pos hz] at h
    simp only at h
    have hnil : S = [] := by
      rcases hnb with h1 | h1
      · exact h1
      · rw [hz] at h1
        cases h1
    obtain ⟨_, r2, r3, _⟩ := RegisterEntities_spec c mr (n + 1) Out
    obtain ⟨q1, q2, q3⟩ := RegisterEntitiesLoop_records c.EntityIds.length (n + 1) 0 c mr hlt
    rw [← RegisterEntities_record c mr (n + 1) Out] at q1 q2 q3
    injection h with h
    simp only [Prod.mk.injEq] at h
    obtain ⟨h1, -, h3, h4⟩ := h
    rw [← h1, ← h3, ← h4, r2]
    refine ⟨rfl, rfl, r3, Nat.le_refl _, (fun _ _ => rfl), ?_, q1, q2, q3⟩
    intro p hp
    rw [hnil] at hp
    cases hp
  · rw [if_neg hz] at h
    simp only at h
    split at h
    · cases h
    · rename_i c2 Out2 hloop
      obtain ⟨_, r2, r3, _⟩ := RegisterEntities_spec c.MaybeAllocateBlob mr
        (min (n + 1) c.MaybeAllocateBlob.GetRemainingCapacity) Out
      obtain ⟨q1, q2, q3⟩ := RegisterEntitiesLoop_records c.MaybeAllocateBlob.EntityIds.length
        (min (n + 1) c.MaybeAllocateBlob.GetRemainingCapacity) 0 c.MaybeAllocateBlob mr hlt
      rw [← RegisterEntities_record c.MaybeAllocateBlob mr _ Out] at q1 q2 q3
      obtain ⟨v1, v2, v3, v4⟩ := AddComponentsLoop_views _ _ S _ _ c2 Out2 hloop hS
      rw [r2] at v1 v2 v3 v4
      injection h with h
      simp only [Prod.mk.injEq] at h
      obtain ⟨h1, -, h3, h4⟩ := h
      rw [← h1, ← h3, ← h4]
      exact ⟨v1, v2, r3, Nat.min_le_left _ _, v3, v4, q1, q2, q3⟩

theorem GetAvailableChunk_guid {e : FMantleDBEntry} {mr : FMantleDBMasterRecord}
    {Id : FGuid} {c : FMantleDBChunk} {e1 : FMantleDBEntry} {mr1 : FMantleDBMasterRecord}
    (h : e.GetAvailableChunk mr = .ok (Id, c, e1, mr1)) :
    mr.NextGuid ≤ mr1.NextGuid ∧ mr1.EntitiesById = mr.EntitiesById := by
  unfold FMantleDBEntry.GetAvailableChunk at h
  simp only at h
  split at h
  · cases h
    exact ⟨Nat.le_refl _, rfl⟩
  · split at h
    · cases h
    · cases h
      exact ⟨Nat.le_succ _, rfl⟩

/-- What the loop of `FMantleDBEntry::AddEntities` has recorded when it ends without error,
for templates of pairwise different types (and none for a bare archetype): the new entity-id
views hold `n` ids in all, pairwise different, each handed out by the guid source during the
call and recorded with the archetype of the entry; the records of older ids are kept; and
every template has got one view per entity-id view, of the same length. -/
theorem Entry_AddEntities_views (X : TBitArray) (S : List FInstancedStruct)
    (hS : (S.map (fun p => p.TypeName)).Nodup) (hnb : S = [] ∨ IsZero X = false) :
    ∀ (fuel : Nat) (e : FMantleDBEntry) (mr : FMantleDBMasterRecord) (n : Nat)
      (Out : FMantleCachedEntry) (e1 : FMantleDBEntry) (mr1 : FMantleDBMasterRecord)
      (Out1 : FMantleCachedEntry),
      FMantleDBEntry.AddEntities fuel e mr S n Out = .ok (e1, mr1, Out1) →
      EntryWf X e → (∀ Id E, mr.EntitiesById.Find Id = some E → Id < mr.NextGuid) →
      ∃ views : List (List FGuid),
        Out1.ChunkedEntityIds = Out.ChunkedEntityIds ++ views ∧
        Out1.Archetype = Out.Archetype ∧
        (views.map List.length).sum = n ∧ views.flatten.Nodup ∧
        (∀ Id ∈ views.flatten, mr.NextGuid ≤ Id ∧ Id < mr1.NextGuid ∧
          ∃ E, mr1.EntitiesById.Find Id = some E ∧ E.Archetype = X) ∧
        mr.NextGuid ≤ mr1.NextGuid ∧
        (∀ Id E, mr1.EntitiesById.Find Id = some E → Id < mr1.NextGuid) ∧
        (∀ Id, Id < mr.NextGuid → mr1.EntitiesById.Find Id = mr.EntitiesById.Find Id) ∧
        (∀ T, T ∉ S.map (fun p => p.TypeName) →
          Out1.ChunkedComponents.Find T = Out.ChunkedComponents.Find T) ∧
        ∀ p ∈ S, ∃ cols : List (List Payload),
          cols.map List.length = views.map List.length ∧
          (Out1.ChunkedComponents.Find p.TypeName).getD [] =
            (Out.ChunkedComponents.Find p.TypeName).getD [] ++ cols ∧
          ((0 < n ∨ (Out.ChunkedComponents.Find p.TypeName).isSome = true) →
            (Out1.ChunkedComponents.Find p.TypeName).isSome = true)
  | fuel, e, mr, 0, Out, e1, mr1, Out1, h, _, hlt => by
    have h0 : FMantleDBEntry.AddEntities fuel e mr S 0 Out = .ok (e, mr, Out) := by
      cases fuel <;> rw [FMantleDBEntry.AddEntities]
    rw [h0] at h
    cases h
    refine ⟨[], (List.append_nil _).symm, rfl, rfl, List.nodup_nil, (fun Id hId => by cases hId),
      Nat.le_refl _, hlt, (fun _ _ => rfl), (fun _ _ => rfl), fun p _ => ⟨[], rfl, ?_, ?_⟩⟩
    · rw [List.append_nil]
    · rintro (h1 | h1)
      · exact absurd h1 (Nat.lt_irrefl 0)
      · exact h1
  | 0, e, mr, n + 1, Out, e1, mr1, Out1, h, _, _ => by
    rw [FMantleDBEntry.AddEntities] at h
    cases h
  | fuel + 1, e, mr, n + 1, Out, e1, mr1, Out1, h, hwf, hlt => by
    rw [FMantleDBEntry.AddEntities] at h
    split at h
    · cases h
    · rename_i Id c e2 mr2 hget
      obtain ⟨g1, g2, _, _⟩ := GetAvailableChunk_frame hget hwf
      obtain ⟨u1, u2⟩ := GetAvailableChunk_guid hget
      have hlt2 : ∀ Id E, mr2.EntitiesById.Find Id = some E → Id < mr2.NextGuid := by
        intro k E hE
        rw [u2] at hE
        exact Nat.lt_of_lt_of_le (hlt k E hE) u1
      split at h
      · cases h
      · rename_i Added c3 mr3 Out3 hadd
        obtain ⟨a1, _, _⟩ := Chunk_AddEntities_frame hadd
        obtain ⟨v1, v2, v3, v4, v5, v6, v7, v8, v9⟩ := Chunk_AddEntities_views hadd hS
          (by rw [g2]; exact hnb) hlt2
        obtain ⟨p1, p2⟩ := PopIfFull_frame2 { e2 with Chunks := e2.Chunks.Add Id c3 } c3
        have hwf3 : EntryWf X
            (FMantleDBEntry.PopIfFull { e2 with Chunks := e2.Chunks.Add Id c3 } c3) :=
          EntryWf_store g1 Id c3 (a1.trans g2) p1 p2
        obtain ⟨views, w1, w2, w3, w4, w5, w6, w7, w8, w9, w10⟩ :=
          Entry_AddEntities_views X S hS hnb fuel _ _ _ _ _ _ _ h hwf3 v7
        refine ⟨List.range' mr2.NextGuid Added :: views, ?_, w2.trans v2, ?_, ?_, ?_,
          Nat.le_trans u1 (Nat.le_trans (by omega) w6), w7, ?_, ?_, ?_⟩
        · rw [w1, v1, List.append_assoc]
          rfl
        · rw [List.map_cons, List.sum_cons, w3, List.length_range']
          omega
        · rw [List.flatten_cons, List.nodup_append]
          refine ⟨List.nodup_range' _ _, w4, List.disjoint_left.2 (fun a ha hb => ?_)⟩
          have hb1 := (w5 a hb).1
          have ha1 := (List.mem_range'_1.1 ha).2
          omega
        · intro k hk
          rw [List.flatten_cons, List.mem_append] at hk
          rcases hk with hk | hk
          · obtain ⟨k1, k2⟩ := List.mem_range'_1.1 hk
            obtain ⟨E, hE, hEa⟩ := v9 k k1 k2
            refine ⟨Nat.le_trans u1 k1, Nat.lt_of_lt_of_le (by omega) w6, E, ?_, hEa.trans g2⟩
            rw [w8 k (by omega)]
            exact hE
          · obtain ⟨k1, k2, k3⟩ := w5 k hk
            exact ⟨Nat.le_trans u1 (Nat.le_trans (by omega) k1), k2, k3⟩
        · intro k hk
          rw [w8 k (by omega), v8 k (Nat.lt_of_lt_of_le hk u1), u2]
        · intro T hT
          rw [w9 T hT, v5 T hT]
        · intro p hp
          obtain ⟨view, hv, hf⟩ := v6 p hp
          obtain ⟨cols, c1, c2, c3⟩ := w10 p hp
          refine ⟨view :: cols, ?_, ?_, fun _ => c3 (Or.inr (by rw [hf]; rfl))⟩
          · rw [List.map_cons, List.map_cons, c1, hv, List.length_range']
          · rw [c2, hf]
            simp

theorem PopIfFull_types (e : FMantleDBEntry) (c : FMantleDBChunk) :
    (e.PopIfFull c).ComponentTypes = e.ComponentTypes := by
  unfold FMantleDBEntry.PopIfFull
  split <;> rfl

/-- `GetAvailableChunk` on an entry whose chunks have the columns of the archetype, when the
constructor can make a chunk: it hands out a chunk, the chunks have the columns of the
archetype afterwards too, and a chunk it has made is empty and has the capacity of the
constructor. -/
theorem GetAvailableChunk_columns {A : TBitArray} {e : FMantleDBEntry}
    {mr : FMantleDBMasterRecord} {Chunk : FMantleDBChunk} (hA : e.Archetype = A)
    (hcols : ∀ Id c, e.Chunks.Find Id = some c →
      c.ComponentTypeInfo = FMantleDBChunk.PresentTypes A mr)
    (hctor : FMantleDBChunk.Ctor 0 A mr = .ok Chunk) :
    ∃ Id c e1 mr1, e.GetAvailableChunk mr = .ok (Id, c, e1, mr1) ∧
      e1.ComponentTypes = e.ComponentTypes ∧
      c.ComponentTypeInfo = FMantleDBChunk.PresentTypes A mr ∧
      (∀ Id1 c1, e1.Chunks.Find Id1 = some c1 →
        c1.ComponentTypeInfo = FMantleDBChunk.PresentTypes A mr) ∧
      (e.AvailableChunkIds = [] → c.EntityIds = [] ∧ c.TotalCapacity = Chunk.TotalCapacity) := by
  unfold FMantleDBEntry.GetAvailableChunk
  simp only
  cases hfind : (FMantleDBEntry.FindExistingChunk e.Chunks e.AvailableChunkIds).1 with
  | some r =>
    obtain ⟨Top, c⟩ := r
    simp only
    have hc := FindExistingChunk_mem _ _ _ _ hfind
    refine ⟨_, _, _, _, rfl, rfl, hcols Top c hc, hcols, fun hst => ?_⟩
    rw [hst, FMantleDBEntry.FindExistingChunk] at hfind
    cases hfind
  | none =>
    simp only
    obtain ⟨c, hc, hcap⟩ := @Ctor_congr mr.NewGuid.2 mr rfl rfl 0 A Chunk hctor mr.NewGuid.1
    rw [hA, hc]
    simp only
    have hf := Ctor_fields hc
    have hpt : c.ComponentTypeInfo = FMantleDBChunk.PresentTypes A mr := by
      rw [hf.2.2.2]
      exact PresentTypes_congr rfl A
    refine ⟨_, _, _, _, rfl, rfl, hpt, fun Id1 c1 h1 => ?_, fun _ => ⟨hf.2.2.1, hcap⟩⟩
    have h1' : (e.Chunks.Add mr.NewGuid.1 c).Find Id1 = some c1 := h1
    rw [TMap.Find_Add] at h1'
    split at h1'
    · injection h1' with h1'
      rw [← h1']
      exact hpt
    · exact hcols Id1 c1 h1'

/-- The loop of `FMantleDBEntry::AddEntities` on an entry with components whose stack is in
shape and whose chunks have the columns of the archetype, with templates that have a column
and a constructor that gives a capacity of at least one: with a fuel of at least `n` the loop
ends without error, and the chunks have the columns of the archetype afterwards too. -/
theorem Entry_AddEntities_ok (A : TBitArray) (S : List FInstancedStruct)
    (hnb : IsZero A = false) :
    ∀ (fuel : Nat) (e : FMantleDBEntry) (mr : FMantleDBMasterRecord) (n : Nat)
      (Out : FMantleCachedEntry),
      n ≤ fuel → e.Archetype = A → StackShape e →
      (∀ Id c, e.Chunks.Find Id = some c →
        c.ComponentTypeInfo = FMantleDBChunk.PresentTypes A mr) →
      (∀ p ∈ S, ∃ Info, (FMantleDBChunk.PresentTypes A mr).Find p.TypeName = some Info) →
      (∃ Chunk, FMantleDBChunk.Ctor 0 A mr = .ok Chunk ∧ 1 ≤ Chunk.TotalCapacity) →
      ∃ e1 mr1 Out1, FMantleDBEntry.AddEntities fuel e mr S n Out = .ok (e1, mr1, Out1) ∧
        e1.ComponentTypes = e.ComponentTypes ∧ e1.Archetype = A ∧
        (∀ Id c, e1.Chunks.Find Id = some c →
          c.ComponentTypeInfo = FMantleDBChunk.PresentTypes A mr) ∧
        mr1.ComponentInfoMap = mr.ComponentInfoMap ∧
        mr1.ChunkComponentBlobSize = mr.ChunkComponentBlobSize
  | fuel, e, mr, 0, Out, _, hA, _, hcols, _, _ => by
    have h0 : FMantleDBEntry.AddEntities fuel e mr S 0 Out = .ok (e, mr, Out) := by
      cases fuel <;> rw [FMantleDBEntry.AddEntities]
    exact ⟨e, mr, Out, h0, rfl, hA, hcols, rfl, rfl⟩
  | 0, e, mr, n + 1, Out, hfuel, _, _, _, _, _ => by omega
  | fuel + 1, e, mr, n + 1, Out, hfuel, hA, hs, hcols, hS, hctor => by
    obtain ⟨Chunk, hC, hcap⟩ := hctor
    obtain ⟨Id, c, e2, mr2, hget, t1, t2, t3, t4⟩ := GetAvailableChunk_columns hA hcols hC
    obtain ⟨g1, g2⟩ := GetAvailableChunk_stack hget hs
    obtain ⟨ga, gb, gc⟩ := GetAvailableChunk_archetype hget
    have hcarch : c.Archetype = A := ((g1.chunk_archetype Id c g1.found).trans ga).trans hA
    have hroom : 0 < c.GetRemainingCapacity := by
      rcases g2 with ⟨_, _, q3⟩ | ⟨q1, _, _⟩
      · exact q3
      · obtain ⟨x1, x2⟩ := t4 q1
        unfold FMantleDBChunk.GetRemainingCapacity
        rw [x1, x2]
        exact hcap
    obtain ⟨c3, mr3, Out3, hadd, s1, s2, s3, s4, s5, _, _, _, _, s10, s11, _⟩ :=
      Chunk_AddEntities_spec c mr2 S (n + 1) Out (Nat.succ_pos n) (by rw [hcarch]; exact hnb)
        (by rw [t2]; exact hS)
    have hb := g1.chunk_bound Id c g1.found
    have hb3 : c3.EntityIds.length ≤ c3.TotalCapacity := by
      rw [s1, s3, List.length_append, List.length_range']
      unfold FMantleDBChunk.GetRemainingCapacity
      omega
    have hnb2 : IsZero e2.Archetype = false := by rw [ga, hA]; exact hnb
    have hstore := Store_stack g1 hnb2 s5 s4 hb3
    have hreg : mr3.ComponentInfoMap = mr.ComponentInfoMap := s10.trans gb
    have hbud : mr3.ChunkComponentBlobSize = mr.ChunkComponentBlobSize := s11.trans gc
    have hpt : FMantleDBChunk.PresentTypes A mr3 = FMantleDBChunk.PresentTypes A mr :=
      PresentTypes_congr hreg A
    obtain ⟨Chunk3, hC3, hcap3⟩ := @Ctor_congr mr3 mr hreg hbud 0 A Chunk hC 0
    obtain ⟨e1, mr1, Out1, hrun, r1, r2, r3, r4, r5⟩ := Entry_AddEntities_ok A S hnb fuel
      (FMantleDBEntry.PopIfFull { e2 with Chunks := e2.Chunks.Add Id c3 } c3) mr3
      (n + 1 - min (n + 1) c.GetRemainingCapacity) Out3 (by omega)
      ((PopIfFull_frame2 _ _).1.trans (ga.trans hA)) hstore
      (by
        intro Id1 c1 h1
        rw [(PopIfFull_frame2 _ _).2] at h1
        have h1' : (e2.Chunks.Add Id c3).Find Id1 = some c1 := h1
        rw [TMap.Find_Add] at h1'
        rw [hpt]
        split at h1'
        · injection h1' with h1'
          rw [← h1', s2]
          exact t2
        · exact t3 Id1 c1 h1')
      (by rw [hpt]; exact hS) ⟨Chunk3, hC3, by rw [hcap3]; exact hcap⟩
    refine ⟨e1, mr1, Out1, ?_, ?_, r2, ?_, r4.trans hreg, r5.trans hbud⟩
    · rw [FMantleDBEntry.AddEntities, hget]
      simp only
      rw [hadd]
      exact hrun
    · rw [r1, PopIfFull_types]
      exact t1
    · intro Id1 c1 h1
      rw [← hpt]
      exact r3 Id1 c1 h1

/-! ## C34: the iterator `AddEntities` returns -/

/-- `AddEntities` for `n >= 1` entities in a reachable well-formed store, with templates of
pairwise different valid registered types whose archetype has a chunk capacity of at least
one, and fuel for `n` passes: the call returns a valid iterator with one cached entry, of the
archetype of the templates, and what the entry holds is as `Entry_AddEntities_views` says. -/
theorem AddEntities_many (db : UMantleDB) (S : List FInstancedStruct) (n fuel : Nat)
    (A : TBitArray) (hreach : Reachable db) (hstore : StoreOk db) (hpool : PoolOk db)
    (hA : db.FillArchetype (ZeroBits db.MasterRecord.ComponentInfoMap.length)
      (S.map (fun p => p.TypeName)) = A)
    (hS : (S.map (fun p => p.TypeName)).Nodup)
    (hreg : ∀ p ∈ S, ∃ Info, db.MasterRecord.ComponentInfoMap.Find p.TypeName = some Info ∧
      FMantleDBChunk.ValidateComponentInfo Info = true)
    (hcap : S = [] ∨
      ∃ Chunk, FMantleDBChunk.Ctor 0 A db.MasterRecord = .ok Chunk ∧ 1 ≤ Chunk.TotalCapacity)
    (hn : 1 ≤ n) (hfuel : n ≤ fuel) :
    ∃ db1 It CE,
      db.AddEntities fuel S n = .ok (db1, It) ∧ It.IsValid db1.MasterRecord = true ∧
      It.LocalCache.MatchingEntries = [CE] ∧ It.LocalCache.QueryArchetype = A ∧
      CE.Archetype = A ∧
      (CE.ChunkedEntityIds.map List.length).sum = n ∧ CE.ChunkedEntityIds.flatten.Nodup ∧
      (∀ Id ∈ CE.ChunkedEntityIds.flatten,
        db.HasEntity Id = false ∧ db1.HasEntity Id = true ∧
        (db1.MasterRecord.EntitiesById.Find Id).map (fun E => E.Archetype) = some A) ∧
      (∀ Id, db.HasEntity Id = true → db1.HasEntity Id = true) ∧
      (∀ T, CE.ChunkedComponents.Contains T = true ↔ T ∈ S.map (fun p => p.TypeName)) ∧
      ∀ p ∈ S, ∃ cols, CE.ChunkedComponents.Find p.TypeName = some cols ∧
        cols.map List.length = CE.ChunkedEntityIds.map List.length := by
  have hinv := hreach.inv
  obtain ⟨g1, g2, g3, g4, g5, g6, g7, g8, g9⟩ := GetOrCreateEntry_inv db A hinv
  obtain ⟨p1, p2, p3, p4⟩ := GetOrCreateEntry_pool db S A hstore hpool hA hreg
  have hcolsS := (PresentTypes_templates db S A hstore.registry hA hreg).1
  have hPT : FMantleDBChunk.PresentTypes A (db.GetOrCreateEntry A).1.MasterRecord =
      FMantleDBChunk.PresentTypes A db.MasterRecord := PresentTypes_congr g5 A
  have hwf := g1.entry_wf A _ g2
  have hbare : ∀ p ∈ S, IsZero A = false := by
    intro p hp
    obtain ⟨Info, h1, _⟩ := hreg p hp
    rw [← hA]
    exact FillArchetype_not_bare db _ hstore.registry p.TypeName (List.mem_map.2 ⟨p, hp, rfl⟩)
      Info h1
  have hnbOr : S = [] ∨ IsZero A = false := by
    cases S with
    | nil => exact Or.inl rfl
    | cons p rest => exact Or.inr (hbare p (List.mem_cons_self _ _))
  -- the loop of the entry ends without error
  have hrun : ∃ e2 mr2 Out1,
      (db.GetOrCreateEntry A).2.AddEntities fuel (db.GetOrCreateEntry A).1.MasterRecord S n
        { Archetype := A } = .ok (e2, mr2, Out1) ∧
      ∀ Id Chunk, e2.Chunks.Find Id = some Chunk → Chunk.EntityIds ≠ [] →
        ∀ T ∈ e2.ComponentTypes, ∃ Info, Chunk.ComponentTypeInfo.Find T = some Info := by
    by_cases hz : IsZero A = true
    · have hnil : S = [] := by
        rcases hnbOr with h | h
        · exact h
        · rw [hz] at h
          cases h
      obtain ⟨n, rfl⟩ : ∃ k, n = k + 1 := ⟨n - 1, by omega⟩
      obtain ⟨fuel, rfl⟩ : ∃ k, fuel = k + 1 := ⟨fuel - 1, by omega⟩
      obtain ⟨s1, _⟩ := GetOrCreateEntry_shape db A (Reachable_shape hreach)
      have hz2 : IsZero (db.GetOrCreateEntry A).2.Archetype = true := by rw [hwf.1]; exact hz
      obtain ⟨e1, mr1, Id, c, ids, hadd, _⟩ :=
        Entry_AddEntities_single (db.GetOrCreateEntry A).1.MasterRecord.ComponentInfoMap
          (db.GetOrCreateEntry A).2 (db.GetOrCreateEntry A).1.MasterRecord S n fuel
          { Archetype := A } hz2 (by rw [hwf.1]; exact hwf) (s1.entries A _ g2) rfl
      obtain ⟨_, hgrow, _⟩ := Entry_AddEntities_shape _ S (fuel + 1) _ _ _ _ _ _ _ hadd
        (s1.entries A _ g2) rfl
      refine ⟨_, _, _, hadd, fun Id1 Chunk _ _ T hT => ?_⟩
      rw [hgrow.2.1] at hT
      obtain ⟨Info, hInfo⟩ := p3 T hT
      rw [PresentTypes_bare A _ hz] at hInfo
      cases hInfo
    · have hnb : IsZero A = false := by
        cases h : IsZero A with
        | true => exact absurd h hz
        | false => rfl
      have hctor : ∃ Chunk, FMantleDBChunk.Ctor 0 A (db.GetOrCreateEntry A).1.MasterRecord =
          .ok Chunk ∧ 1 ≤ Chunk.TotalCapacity := by
        rcases hcap with hnil | ⟨Chunk, hC, hc1⟩
        · have hAz : A = ZeroBits db.MasterRecord.ComponentInfoMap.length := by
            rw [← hA, hnil]
            rfl
          rw [hAz, IsZero_ZeroBits] at hnb
          cases hnb
        · obtain ⟨Chunk1, h1, h2⟩ :=
            @Ctor_congr (db.GetOrCreateEntry A).1.MasterRecord db.MasterRecord g5 g6 0 A Chunk
              hC 0
          exact ⟨Chunk1, h1, h2 ▸ hc1⟩
      have hs : StackShape (db.GetOrCreateEntry A).2 :=
        GetOrCreateEntry_stack db A (Reachable_stack hreach) A _ g2 (by rw [hwf.1]; exact hnb)
      obtain ⟨e2, mr2, Out1, hadd, r1, _, r3, _, _⟩ := Entry_AddEntities_ok A S hnb fuel
        (db.GetOrCreateEntry A).2 (db.GetOrCreateEntry A).1.MasterRecord n { Archetype := A }
        hfuel hwf.1 hs
        (by
          intro Id c hc
          rw [hPT]
          exact (p1.chunks Id c hc).columns)
        (by rw [hPT]; exact hcolsS) hctor
      refine ⟨e2, mr2, Out1, hadd, fun Id1 Chunk hf _ T hT => ?_⟩
      rw [r3 Id1 Chunk hf, hPT]
      rw [r1] at hT
      exact p3 T hT
  obtain ⟨e2, mr2, Out1, hadd, hcols2⟩ := hrun
  obtain ⟨db3, hdb3, hmod, d1, d2, d3, d4, _, _, hres⟩ :=
    AddEntities_explicit db fuel S n A hinv hA e2 mr2 Out1 hadd
  obtain ⟨_, ⟨s1, s2, _, s4, s5, _⟩, _⟩ := RunQueryInternal_inv db3 A hmod
  -- the rebuild of the cached query succeeds
  have hfresh : ∀ X ∈ db3.ActiveArchetypes, BitwiseAND X A = A →
      (db3.FreshEntry X).2 = true := by
    intro X hX _
    by_cases hXA : X = A
    · rw [hXA]
      refine FreshEntry_ok db3 A e2 ?_ hcols2
      rw [d1]
      exact TMap.Find_Add_self _ _ _
    · have hXdb : X ∈ db.ActiveArchetypes := by
        rw [d2] at hX
        cases hf : db.EntriesByArchetype.Find A with
        | some e =>
          rw [GetOrCreateEntry_old db A e hf] at hX
          exact hX
        | none =>
          rw [(GetOrCreateEntry_new db A hf).2.2.1] at hX
          rcases List.mem_append.1 hX with h | h
          · exact h
          · exact absurd (List.mem_singleton.1 h) hXA
      obtain ⟨e, he⟩ := hpool.active_entry X hXdb
      refine FreshEntry_ok db3 X e ?_ ?_
      · rw [d1, TMap.Find_Add_of_ne _ _ _ _ hXA, g3 X hXA]
        exact he
      · intro Id Chunk hf _ T hT
        rw [((hstore.entries X e he).chunks Id Chunk hf).columns]
        exact hpool.entry_types X e he T hT
  obtain ⟨l, hl⟩ := ScratchLoop_ok db3 A db3.ActiveArchetypes hfresh
  obtain ⟨CQ, hCQ, hCQv⟩ := RunQueryInternal_valid db3 A hmod l hl
  -- what the cached entry holds
  have hlt : ∀ Id E, (db.GetOrCreateEntry A).1.MasterRecord.EntitiesById.Find Id = some E →
      Id < (db.GetOrCreateEntry A).1.MasterRecord.NextGuid := by
    intro Id E hE
    rw [g4] at hE
    rw [g7]
    exact hpool.ids_lt Id E hE
  obtain ⟨views, w1, w2, w3, w4, w5, _, _, w8, w9, w10⟩ :=
    Entry_AddEntities_views A S hS hnbOr fuel _ _ _ _ _ _ _ hadd hwf hlt
  have hviews : Out1.ChunkedEntityIds = views := by
    rw [w1]
    rfl
  have hrec : (db3.RunQueryInternal A).1.MasterRecord.EntitiesById = mr2.EntitiesById := by
    rw [s4, d3]
  refine ⟨_, _, Out1, hres, ?_, rfl, rfl, w2, by rw [hviews]; exact w3,
    by rw [hviews]; exact w4, ?_, ?_, ?_, ?_⟩
  · rw [IsValid_eq_true_iff]
    exact ⟨rfl, CQ, hCQ, hCQv, by
      show _ = (((db3.RunQueryInternal A).1.MasterRecord.CachedQueries.Find A).getD
        {}).Version.VersionNumber
      rw [hCQ]
      rfl⟩
  · intro Id hId
    rw [hviews] at hId
    obtain ⟨k1, _, E, hE, hEa⟩ := w5 Id hId
    rw [g7] at k1
    refine ⟨?_, ?_, ?_⟩
    · rw [HasEntity_eq_false_iff]
      right
      cases hf : db.MasterRecord.EntitiesById.Find Id with
      | none => rfl
      | some E0 => exact absurd (hpool.ids_lt Id E0 hf) (Nat.not_lt.2 k1)
    · rw [HasEntity_eq_true_iff]
      refine ⟨?_, E, by rw [hrec]; exact hE⟩
      intro h0
      have hpos := hpool.guid_pos
      rw [h0] at k1
      exact absurd hpos (Nat.not_lt.2 k1)
    · rw [hrec, hE, Option.map_some', hEa]
  · intro Id hId
    rw [HasEntity_eq_true_iff] at hId ⊢
    obtain ⟨h0, E, hE⟩ := hId
    refine ⟨h0, E, ?_⟩
    rw [hrec, w8 Id (by rw [g7]; exact hpool.ids_lt Id E hE), g4]
    exact hE
  · intro T
    constructor
    · intro hT
      by_contra hmem
      have h1 := w9 T hmem
      unfold TMap.Contains at hT
      rw [h1] at hT
      cases hT
    · intro hT
      obtain ⟨p, hp, rfl⟩ := List.mem_map.1 hT
      obtain ⟨_, _, _, c3⟩ := w10 p hp
      exact c3 (Or.inl hn)
  · intro p hp
    obtain ⟨cols, c1, c2, c3⟩ := w10 p hp
    have hsome := c3 (Or.inl hn)
    cases hf : Out1.ChunkedComponents.Find p.TypeName with
    | none =>
      rw [hf] at hsome
      cases hsome
    | some cols1 =>
      rw [hf] at c2
      have hc : cols1 = cols := by
        have c2' : cols1 = ([] : List (List Payload)) ++ cols := c2
        rw [c2', List.nil_append]
      exact ⟨cols1, rfl, by rw [hc, hviews]; exact c1⟩

/-- C34, with the conditions the code needs: in a reachable well-formed store (`StoreOk`,
`PoolOk`), for templates `S` of pairwise different registered types, each valid (non-empty
name, positive size and alignment), such that `S` is empty or the chunk capacity of the
archetype of `S` is at least one, for every `n >= 1` and fuel for `n` passes: `AddEntities`
returns a valid iterator that holds exactly one cached entry, of the archetype of `S`; the
entity-id views of the entry hold `n` ids in all, pairwise different, none of which was live
before the call and all of which are live afterwards, in the archetype of `S`; the entry has
a column for a type exactly when the type is one of `S`; and the column of every type of `S`
has one view per entity-id view, of the same length. -/
theorem C34_add_entities_iterator (db : UMantleDB) (S : List FInstancedStruct) (n fuel : Nat)
    (hreach : Reachable db) (hstore : StoreOk db) (hpool : PoolOk db)
    (hS : (S.map (fun p => p.TypeName)).Nodup)
    (hreg : ∀ p ∈ S, ∃ Info, db.MasterRecord.ComponentInfoMap.Find p.TypeName = some Info ∧
      FMantleDBChunk.ValidateComponentInfo Info = true)
    (hcap : S = [] ∨
      ∃ Chunk,
        FMantleDBChunk.Ctor 0
            (db.FillArchetype (ZeroBits db.MasterRecord.ComponentInfoMap.length)
              (S.map (fun p => p.TypeName)))
            db.MasterRecord = .ok Chunk ∧
          1 ≤ Chunk.TotalCapacity)
    (hn : 1 ≤ n) (hfuel : n ≤ fuel) :
    ∃ db1 It CE,
      db.AddEntities fuel S n = .ok (db1, It) ∧ It.IsValid db1.MasterRecord = true ∧
      It.LocalCache.MatchingEntries = [CE] ∧
      CE.Archetype = db.FillArchetype (ZeroBits db.MasterRecord.ComponentInfoMap.length)
        (S.map (fun p => p.TypeName)) ∧
      (CE.ChunkedEntityIds.map List.length).sum = n ∧ CE.ChunkedEntityIds.flatten.Nodup ∧
      (∀ Id ∈ CE.ChunkedEntityIds.flatten,
        db.HasEntity Id = false ∧ db1.HasEntity Id = true ∧
        (db1.MasterRecord.EntitiesById.Find Id).map (fun E => E.Archetype) =
          some (db.FillArchetype (ZeroBits db.MasterRecord.ComponentInfoMap.length)
            (S.map (fun p => p.TypeName)))) ∧
      (∀ T, CE.ChunkedComponents.Contains T = true ↔ T ∈ S.map (fun p => p.TypeName)) ∧
      ∀ p ∈ S, ∃ cols, CE.ChunkedComponents.Find p.TypeName = some cols ∧
        cols.map List.length = CE.ChunkedEntityIds.map List.length := by
  obtain ⟨db1, It, CE, h1, h2, h3, _, h5, h6, h7, h8, _, h10, h11⟩ :=
    AddEntities_many db S n fuel _ hreach hstore hpool rfl hS hreg hcap hn hfuel
  exact ⟨db1, It, CE, h1, h2, h3, h5, h6, h7, h8, h10, h11⟩

/-- C34 on `TwoTypeDB`, where the entity 2 has a `Position` already: `AddEntities` with a
`Position` template and `n = 3` returns a valid iterator with one cached entry; its one
entity-id view holds the new ids 5, 6 and 7 (not the id 2), and its one column, of the
`Position`, has one view of three slots that hold the template. -/
theorem C34_add_entities_iterator_witness :
    ∃ db1 It, TwoTypeDB.AddEntities 3 [⟨"Position", 30⟩] 3 = .ok (db1, It) ∧
      It.IsValid db1.MasterRecord = true ∧
      It.LocalCache.MatchingEntries.map
          (fun CE => (CE.Archetype, CE.ChunkedEntityIds, CE.ChunkedComponents)) =
        [([true, false], [[5, 6, 7]], [("Position", [[30, 30, 30]])])] ∧
      TwoTypeDB.HasEntity 2 = true ∧ TwoTypeDB.HasEntity 5 = false ∧
      db1.HasEntity 5 = true ∧ db1.HasEntity 6 = true ∧ db1.HasEntity 7 = true := by
  obtain ⟨db1, It, CE, h1, h2, hone, _, _, _, h7, _⟩ :=
    C34_add_entities_iterator TwoTypeDB [⟨"Position", 30⟩] 3 3 TwoTypeDB_reachable
      TwoTypeDB_store TwoTypeDB_pool (by decide)
      (by
        intro p hp
        rw [List.mem_singleton.1 hp]
        exact ⟨⟨"Position", 0, 12, 4⟩, by decide, by decide⟩)
      (Or.inr ⟨_, rfl, by decide⟩) (by decide) (le_refl _)
  obtain ⟨r, hr, hv⟩ : ∃ r, TwoTypeDB.AddEntities 3 [⟨"Position", 30⟩] 3 = .ok r ∧
      r.2.LocalCache.MatchingEntries.map
          (fun CE => (CE.Archetype, CE.ChunkedEntityIds, CE.ChunkedComponents)) =
        [([true, false], [[5, 6, 7]], [("Position", [[30, 30, 30]])])] := ⟨_, rfl, rfl⟩
  have hr2 : r = (db1, It) := by
    rw [hr] at h1
    injection h1
  rw [hr2] at hv
  have hCE : It.LocalCache.MatchingEntries.map (fun CE => CE.ChunkedEntityIds) =
      [[[5, 6, 7]]] := by
    have := congrArg (List.map (fun x : TBitArray × List (List FGuid) ×
      TMap FString (List (List Payload)) => x.2.1)) hv
    simpa using this
  have hmem : ∀ Id ∈ [5, 6, 7], Id ∈ CE.ChunkedEntityIds.flatten := by
    rw [hone] at hCE
    simp only [List.map_cons, List.map_nil, List.cons.injEq, and_true] at hCE
    rw [hCE]
    intro Id hId
    simpa using hId
  exact ⟨db1, It, h1, h2, hv, by decide, (h7 5 (hmem 5 (by decide))).1,
    (h7 5 (hmem 5 (by decide))).2.1, (h7 6 (hmem 6 (by decide))).2.1,
    (h7 7 (hmem 7 (by decide))).2.1⟩

/-- C34 as written fails for a registered type that does not fit into a chunk, and for a
registered type of 0 bytes: with a chunk byte budget of 1024 and a registered type of 2000
bytes, `AddEntities` with a payload of that type ends in the fatal error of the chunk
constructor and returns no iterator; in `ZeroTagDB`, `AddEntities` with a `Tag` payload ends
in the fatal error of the lookup of the component info. -/
theorem C34_oversize_type_returns_no_iterator :
    (∃ db0, ({} : UMantleDB).Initialize [some ⟨"Big", 2000, 16⟩] 1024 = .ok db0 ∧
      db0.MasterRecord.ComponentInfoMap.Contains "Big" = true ∧
      ∀ fuel, db0.AddEntities (fuel + 1) [⟨"Big", 7⟩] 2 =
        .error (.Fatal "MantleDB does not support entity size.")) ∧
      Reachable ZeroTagDB ∧ ZeroTagDB.MasterRecord.ComponentInfoMap.Contains "Tag" = true ∧
      ∀ fuel, ZeroTagDB.AddEntities (fuel + 1) [⟨"Tag", 0⟩] 2 =
        .error (.Fatal "AddEntities: ComponentInfo is invalid.") :=
  ⟨⟨_, rfl, rfl, fun _ => rfl⟩, ZeroTagDB_reachable, rfl, fun _ => rfl⟩

/-! ## The loop of `FMantleDBEntry::TakeEntities` in a well-formed store -/

theorem GetAvailableChunk_new {e : FMantleDBEntry} {mr : FMantleDBMasterRecord}
    {Id : FGuid} {c : FMantleDBChunk} {e1 : FMantleDBEntry} {mr1 : FMantleDBMasterRecord}
    (h : e.GetAvailableChunk mr = .ok (Id, c, e1, mr1)) (hst : e.AvailableChunkIds = []) :
    Id = mr.NextGuid ∧ mr1 = mr.NewGuid.2 ∧
      FMantleDBChunk.Ctor Id e.Archetype mr.NewGuid.2 = .ok c ∧
      e1.Archetype = e.Archetype ∧ e1.Chunks = e.Chunks.Add Id c := by
  unfold FMantleDBEntry.GetAvailableChunk at h
  simp only at h
  rw [hst, FMantleDBEntry.FindExistingChunk] at h
  simp only at h
  split at h
  · cases h
  · rename_i c0 hctor
    cases h
    exact ⟨rfl, rfl, hctor, rfl, rfl⟩

/-- `GetAvailableChunk` on the entry of `B` in a well-formed store, when the stack of the
entry is in shape and the constructor gives a capacity of at least one: a chunk with
remaining capacity is handed out, the store is well formed with the chunk stored under its
id, and no entity is touched. -/
theorem GetAvailableChunk_store (db : UMantleDB) (A B : TBitArray) (hAB : A ≠ B)
    (TF e : FMantleDBEntry) (mr : FMantleDBMasterRecord)
    (hok : StoreOk (db.WithEntries A B TF e mr)) (hs : StackShape e)
    (hctor : ∃ Chunk, FMantleDBChunk.Ctor 0 B mr = .ok Chunk ∧ 1 ≤ Chunk.TotalCapacity) :
    ∃ cid c e2 mr2, e.GetAvailableChunk mr = .ok (cid, c, e2, mr2) ∧
      HeadShape e2 cid c ∧ 0 < c.GetRemainingCapacity ∧ e2.Archetype = B ∧
      StoreOk (db.WithEntries A B TF { e2 with Chunks := e2.Chunks.Add cid c } mr2) ∧
      (∀ k, Untouched (db.WithEntries A B TF e mr)
        (db.WithEntries A B TF { e2 with Chunks := e2.Chunks.Add cid c } mr2) k) ∧
      mr2.ComponentInfoMap = mr.ComponentInfoMap ∧
      mr2.ChunkComponentBlobSize = mr.ChunkComponentBlobSize ∧
      mr2.EntitiesById = mr.EntitiesById := by
  obtain ⟨Chunk, hC, hcap⟩ := hctor
  have hB : EntryOk B mr e := hok.entries B e (by rw [WithEntries_Find, if_pos rfl])
  have hA : EntryOk A mr TF :=
    hok.entries A TF (by rw [WithEntries_Find, if_neg hAB, if_pos rfl])
  obtain ⟨cid, c, e2, mr2, hget, _, t2, _, t4⟩ :=
    GetAvailableChunk_columns hB.archetype_eq (fun Id c hc => (hB.chunks Id c hc).columns) hC
  obtain ⟨g1, g2⟩ := GetAvailableChunk_stack hget hs
  obtain ⟨ga, gb, gc⟩ := GetAvailableChunk_archetype hget
  obtain ⟨_, gu⟩ := GetAvailableChunk_guid hget
  have hroom : 0 < c.GetRemainingCapacity := by
    rcases g2 with ⟨_, _, q3⟩ | ⟨q1, _, _⟩
    · exact q3
    · obtain ⟨x1, x2⟩ := t4 q1
      unfold FMantleDBChunk.GetRemainingCapacity
      rw [x1, x2]
      exact hcap
  have hpair : StoreOk (db.WithEntries A B TF { e2 with Chunks := e2.Chunks.Add cid c } mr2) ∧
      ∀ k, Untouched (db.WithEntries A B TF e mr)
        (db.WithEntries A B TF { e2 with Chunks := e2.Chunks.Add cid c } mr2) k := by
    rcases g2 with ⟨q1, q2, _⟩ | ⟨q1, _, _⟩
    · -- the chunk comes from the stack
      have hfind : e.Chunks.Find cid = some c := by
        have := g1.found
        rw [q1] at this
        exact this
      rw [q1, q2]
      exact StoreOk_sim db A B TF e { e with Chunks := e.Chunks.Add cid c } mr rfl
        (by
          show (e.Chunks.Add cid c).map _ = _
          rw [TMap.keys_Add, if_pos (TMap.Contains_of_Find hfind)])
        (by
          intro id
          show _ ∨ ∃ C C1, _ ∧ (e.Chunks.Add cid c).Find id = some C1 ∧ _
          rw [TMap.Find_Add]
          by_cases hid : id = cid
          · rw [if_pos hid, hid]
            exact Or.inr ⟨c, c, hfind, rfl, rfl, rfl, rfl, rfl, rfl, fun h => h⟩
          · rw [if_neg hid]
            cases h : e.Chunks.Find id with
            | none => exact Or.inl ⟨rfl, rfl⟩
            | some C => exact Or.inr ⟨C, C, rfl, rfl, rfl, rfl, rfl, rfl, rfl, fun h => h⟩)
        hok
    · -- the chunk is new
      obtain ⟨n1, n2, n3, n4, n5⟩ := GetAvailableChunk_new hget q1
      obtain ⟨f1, f2, f3, f4⟩ := Ctor_fields n3
      have hnone : e.Chunks.Find cid = none := by
        cases hf : e.Chunks.Find cid with
        | none => rfl
        | some C =>
          have hlt := (hB.chunks cid C hf).id_lt
          rw [n1] at hlt
          exact absurd hlt (Nat.lt_irrefl _)
      have hchunk : ChunkOk B mr2 cid c := by
        refine ⟨f1, f2.trans hB.archetype_eq, ?_, fun hne => absurd f3 hne, ?_⟩
        · rw [f4, hB.archetype_eq, n2]
        · rw [n1, n2]
          exact Nat.lt_succ_self _
      have hle : mr.NextGuid ≤ mr2.NextGuid := by
        rw [n2]
        exact Nat.le_succ _
      have hB1 : EntryOk B mr2 e2 := EntryOk.store (hB.mono gb hle) n4 n5 hchunk
      have hB2 : EntryOk B mr2 { e2 with Chunks := e2.Chunks.Add cid c } :=
        EntryOk.store hB1 rfl rfl hchunk
      obtain ⟨k1, k2, k3⟩ := @empty_chunk_sound (db.WithEntries A B TF e mr)
        (db.WithEntries A B TF { e2 with Chunks := e2.Chunks.Add cid c } mr2) B cid c
        (by
          intro k
          show mr2.EntitiesById.Find k = mr.EntitiesById.Find k
          rw [gu])
        gb
        (by rw [WithEntries_GetChunk, if_pos rfl]; exact hnone) f3
        (by
          intro X ChunkId
          rw [WithEntries_GetChunk, WithEntries_GetChunk]
          by_cases hX : X = B
          · rw [if_pos hX, if_pos hX]
            show (e2.Chunks.Add cid c).Find ChunkId = _
            rw [TMap.Find_Add, n5, TMap.Find_Add]
            by_cases hid : ChunkId = cid
            · rw [if_pos hid, if_pos (show X = B ∧ ChunkId = cid from ⟨hX, hid⟩)]
            · rw [if_neg (show ¬ (X = B ∧ ChunkId = cid) from fun h => hid h.2), if_neg hid,
                if_neg hid]
          · rw [if_neg (show ¬ (X = B ∧ ChunkId = cid) from fun h => hX h.1), if_neg hX,
              if_neg hX])
        hok.keyed hok.located
      refine ⟨StoreOk_WithEntries (by rw [gb]; exact hok.registry) k1 k2 (hA.mono gb hle) hB2
        ?_, k3⟩
      intro X e0 hXA hXB hf
      exact (hok.entries X e0 (by rw [WithEntries_Find, if_neg hXB, if_neg hXA]; exact hf)).mono
        gb hle

  exact ⟨cid, c, e2, mr2, hget, g1, hroom, ga.trans hB.archetype_eq, hpair.1, hpair.2, gb, gc,
    gu⟩

theorem drop_take_length {α : Type} (l : List α) (r : Nat) :
    l.drop (l.take r).length = l.drop r := by
  rw [List.length_take]
  by_cases h : r ≤ l.length
  · rw [Nat.min_eq_left h]
  · rw [Nat.min_eq_right (by omega), List.drop_eq_nil_of_le (Nat.le_refl _),
      List.drop_eq_nil_of_le (by omega)]

/-- The loop of `FMantleDBEntry::TakeEntities` in a well-formed store, for pairwise different
live entities of the archetype `A` that move to the archetype `B`, which has components and
a chunk capacity of at least one: with a fuel of at least the number of entities the loop
ends without error, the store is well formed afterwards, every entity of the list is
migrated, and no other entity is touched. -/
theorem Entry_TakeEntitiesLoop_spec (db : UMantleDB) (A B : TBitArray) (hAB : A ≠ B)
    (hnb : IsZero B = false) (S : List FInstancedStruct) (EntityIds : List FGuid)
    (hnd : EntityIds.Nodup) :
    ∀ (fuel m : Nat) (e TF : FMantleDBEntry) (mr : FMantleDBMasterRecord)
      (Out : FMantleCachedEntry),
      m ≤ fuel → m ≤ EntityIds.length →
      StoreOk (db.WithEntries A B TF e mr) → StackShape e →
      MigrationCols mr A B S →
      (∃ Chunk, FMantleDBChunk.Ctor 0 B mr = .ok Chunk ∧ 1 ≤ Chunk.TotalCapacity) →
      (∀ id ∈ EntityIds.drop (EntityIds.length - m),
        ∃ E, mr.EntitiesById.Find id = some E ∧ E.Archetype = A) →
      ∃ e1 TF1 mr1 Out1,
        FMantleDBEntry.TakeEntitiesLoop EntityIds S fuel m e TF mr Out =
          .ok (e1, TF1, mr1, Out1) ∧
        StoreOk (db.WithEntries A B TF1 e1 mr1) ∧
        (∀ id ∈ EntityIds.drop (EntityIds.length - m),
          Migrated (db.WithEntries A B TF e mr) (db.WithEntries A B TF1 e1 mr1) B S id) ∧
        (∀ id, id ∉ EntityIds.drop (EntityIds.length - m) →
          Untouched (db.WithEntries A B TF e mr) (db.WithEntries A B TF1 e1 mr1) id) ∧
        mr1.ComponentInfoMap = mr.ComponentInfoMap ∧
        mr1.ChunkComponentBlobSize = mr.ChunkComponentBlobSize
  | fuel, 0, e, TF, mr, Out, _, _, hok, _, _, _, _ => by
    have h0 : FMantleDBEntry.TakeEntitiesLoop EntityIds S fuel 0 e TF mr Out =
        .ok (e, TF, mr, Out) := by
      cases fuel <;> rw [FMantleDBEntry.TakeEntitiesLoop]
    refine ⟨e, TF, mr, Out, h0, hok, fun id hid => ?_, fun id _ => Untouched.refl _ _, rfl, rfl⟩
    rw [Nat.sub_zero, List.drop_eq_nil_of_le (Nat.le_refl _)] at hid
    cases hid
  | 0, m + 1, e, TF, mr, Out, hfuel, _, _, _, _, _, _ => by omega
  | fuel + 1, m + 1, e, TF, mr, Out, hfuel, hlen, hok, hs, hcols, hctor, hlive => by
    obtain ⟨rem, hrem⟩ : ∃ rem, rem = EntityIds.drop (EntityIds.length - (m + 1)) := ⟨_, rfl⟩
    rw [← hrem] at hlive ⊢
    have hremlen : rem.length = m + 1 := by
      rw [hrem, List.length_drop]
      omega
    have hremne : rem ≠ [] := by
      intro h
      rw [h] at hremlen
      cases hremlen
    have hremnd : rem.Nodup := by
      rw [hrem]
      exact hnd.sublist (List.drop_sublist _ _)
    obtain ⟨cid, c, e2, mr2, hget, g1, hroom, garch, hok0, hun0, gb, gc, gu⟩ :=
      GetAvailableChunk_store db A B hAB TF e mr hok hs hctor
    obtain ⟨c1, TF1, mr3, Out3, htake, s1, s2, hok1, _, hmig1, hun1, s8, s9, _, _, _, _⟩ :=
      Chunk_TakeEntities_spec db A B hAB S e2 cid rem c TF mr2 Out (hcols.congr_record gb)
        hok0 hnb hremne hremnd
        (by
          intro id hid
          rw [gu]
          exact hlive id hid)
    -- the entry after the pop of a full chunk
    obtain ⟨p1, p2⟩ := PopIfFull_frame2 { e2 with Chunks := e2.Chunks.Add cid c1 } c1
    obtain ⟨hok2, hun2⟩ := StoreOk_sim db A B TF1 { e2 with Chunks := e2.Chunks.Add cid c1 }
      (FMantleDBEntry.PopIfFull { e2 with Chunks := e2.Chunks.Add cid c1 } c1) mr3 p1
      (by rw [p2])
      (by
        intro id
        rw [p2]
        cases h : ({ e2 with Chunks := e2.Chunks.Add cid c1 } : FMantleDBEntry).Chunks.Find id with
        | none => exact Or.inl ⟨rfl, rfl⟩
        | some C => exact Or.inr ⟨C, C, rfl, rfl, rfl, rfl, rfl, rfl, rfl, fun h => h⟩)
      hok1
    have hB1 : EntryOk B mr3 { e2 with Chunks := e2.Chunks.Add cid c1 } :=
      hok1.entries B _ (by rw [WithEntries_Find, if_pos rfl])
    have hc1 : ChunkOk B mr3 cid c1 := hB1.chunks cid c1 (TMap.Find_Add_self _ _ _)
    have hcid : c.ChunkId = cid := g1.chunk_id cid c g1.found
    have hcarch : c.Archetype = B := (g1.chunk_archetype cid c g1.found).trans garch
    have hb := g1.chunk_bound cid c g1.found
    have hb3 : c1.EntityIds.length ≤ c1.TotalCapacity := by
      rw [s1, s2, List.length_append, List.length_take]
      unfold FMantleDBChunk.GetRemainingCapacity
      omega
    have hstack := Store_stack g1 (by rw [garch]; exact hnb) (hc1.id_eq.trans hcid.symm)
      (hc1.archetype_eq.trans hcarch.symm) hb3
    -- the pass takes at least one entity
    obtain ⟨t, ht⟩ : ∃ t, t = (rem.take c.GetRemainingCapacity).length := ⟨_, rfl⟩
    have htpos : 1 ≤ t := by
      rw [ht, List.length_take, hremlen]
      omega
    have htle : t ≤ m + 1 := by
      rw [ht, List.length_take, hremlen]
      exact Nat.min_le_right _ _
    have hdrop : EntityIds.drop (EntityIds.length - (m + 1 - t)) =
        rem.drop c.GetRemainingCapacity := by
      rw [← drop_take_length rem, ← ht, hrem, List.drop_drop]
      congr 1
      omega
    have hreg3 : mr3.ComponentInfoMap = mr.ComponentInfoMap := s8.trans gb
    have hbud3 : mr3.ChunkComponentBlobSize = mr.ChunkComponentBlobSize := s9.trans gc
    obtain ⟨Chunk, hC, hcap⟩ := hctor
    obtain ⟨Chunk3, hC3, hcap3⟩ := @Ctor_congr mr3 mr hreg3 hbud3 0 B Chunk hC 0
    -- the entities that are left are untouched so far
    have hsplit : rem = rem.take c.GetRemainingCapacity ++ rem.drop c.GetRemainingCapacity :=
      (List.take_append_drop _ _).symm
    have hdisj : ∀ id, id ∈ rem.take c.GetRemainingCapacity →
        id ∈ rem.drop c.GetRemainingCapacity → False := by
      intro id h1 h2
      have hnd2 := hremnd
      rw [hsplit, List.nodup_append] at hnd2
      exact List.disjoint_left.1 hnd2.2.2 h1 h2
    have hbefore : ∀ id, id ∉ rem.take c.GetRemainingCapacity →
        Untouched (db.WithEntries A B TF e mr)
          (db.WithEntries A B TF1
            (FMantleDBEntry.PopIfFull { e2 with Chunks := e2.Chunks.Add cid c1 } c1) mr3) id :=
      fun id hid => ((hun0 id).trans (hun1 id hid)).trans (hun2 id)
    obtain ⟨e1, TF2, mr1, Out1, hrun, r1, r2, r3, r4, r5⟩ :=
      Entry_TakeEntitiesLoop_spec db A B hAB hnb S EntityIds hnd fuel (m + 1 - t)
        (FMantleDBEntry.PopIfFull { e2 with Chunks := e2.Chunks.Add cid c1 } c1) TF1 mr3 Out3
        (by omega) (by omega) hok2 hstack (hcols.congr_record hreg3)
        ⟨Chunk3, hC3, by rw [hcap3]; exact hcap⟩
        (by
          intro id hid
          rw [hdrop] at hid
          have hmem : id ∈ rem := List.mem_of_mem_drop hid
          obtain ⟨E, hE, hEa⟩ := hlive id hmem
          have hu := (hbefore id (fun h => hdisj id h hid)).1
          have hu' : (mr3.EntitiesById.Find id).map (fun E => E.Archetype) =
              (mr.EntitiesById.Find id).map (fun E => E.Archetype) := hu
          rw [hE] at hu'
          cases hf : mr3.EntitiesById.Find id with
          | none =>
            rw [hf] at hu'
            cases hu'
          | some E3 =>
            rw [hf] at hu'
            simp only [Option.map_some', Option.some.injEq] at hu'
            exact ⟨E3, rfl, hu'.trans hEa⟩)
    rw [hdrop] at r2 r3
    refine ⟨e1, TF2, mr1, Out1, ?_, r1, fun id hid => ?_, fun id hid => ?_, r4.trans hreg3,
      r5.trans hbud3⟩
    · rw [Entry_TakeEntitiesLoop_pass EntityIds S m (m + 1 - t) e TF mr Out cid c c1 e2 TF1 mr2
        mr3 Out3 t hget (by omega) (by rw [← hrem, ht]; exact htake) rfl fuel]
      exact hrun
    · rw [hsplit, List.mem_append] at hid
      rcases hid with hid | hid
      · have hm1 : Migrated (db.WithEntries A B TF e mr)
            (db.WithEntries A B TF1 { e2 with Chunks := e2.Chunks.Add cid c1 } mr3) B S id :=
          Migrated.after_untouched (hun0 id) gb (hmig1 id hid)
        exact (hm1.then_untouched (hun2 id)).then_untouched
          (r3 id (fun h => hdisj id hid h))
      · exact Migrated.after_untouched (hbefore id (fun h => hdisj id h hid)) hreg3 (r2 id hid)
    · have h1 : id ∉ rem.take c.GetRemainingCapacity :=
        fun h => hid (List.mem_of_mem_take h)
      have h2 : id ∉ rem.drop c.GetRemainingCapacity :=
        fun h => hid (List.mem_of_mem_drop h)
      exact (hbefore id h1).trans (r3 id h2)

/-! ## `UpdateEntities` in a well-formed store -/

theorem CollectValidEntities_all (mr : FMantleDBMasterRecord) (A : TBitArray)
    (hA : A.length ≠ 0) :
    ∀ (ids : List FGuid) (Old : TBitArray) (Valid : List FGuid),
      (∀ id ∈ ids, ∃ E, mr.EntitiesById.Find id = some E ∧ E.Archetype = A) →
      (Old = A ∨ (Old.length = 0 ∧ ids ≠ [])) →
      UMantleDB.CollectValidEntities mr ids Old Valid = some (A, Valid ++ ids)
  | [], Old, Valid, _, hOld => by
    rcases hOld with h | ⟨_, h⟩
    · rw [UMantleDB.CollectValidEntities, h, List.append_nil]
    · exact absurd rfl h
  | id0 :: rest, Old, Valid, hl, hOld => by
    obtain ⟨E, hE, hEa⟩ := hl id0 (List.mem_cons_self _ _)
    have hrest : ∀ id ∈ rest, ∃ E, mr.EntitiesById.Find id = some E ∧ E.Archetype = A :=
      fun id hid => hl id (List.mem_cons_of_mem _ hid)
    rw [UMantleDB.CollectValidEntities, hE]
    simp only
    rw [if_neg (by rw [hEa]; exact hA)]
    by_cases hO : Old.length = 0
    · rw [if_pos hO, hEa,
        CollectValidEntities_all mr A hA rest A (Valid ++ [id0]) hrest (Or.inl rfl),
        List.append_assoc]
      rfl
    · have hOA : Old = A := by
        rcases hOld with h | ⟨h, _⟩
        · exact h
        · exact absurd h hO
      rw [if_neg hO, if_neg (by rw [hEa, hOA]; exact not_not.2 rfl),
        CollectValidEntities_all mr A hA rest Old (Valid ++ [id0]) hrest (Or.inl hOA),
        List.append_assoc]
      rfl

/-- `UpdateEntities` in a well-formed store whose stacks of available chunks are in shape,
for pairwise different live entities of one archetype `A` that move to an archetype `B` with
components and a chunk capacity of at least one: with a fuel of at least the number of
entities the call returns, every entity of the list is migrated, and no other entity is
touched. -/
theorem UpdateEntities_migrates (db : UMantleDB) (fuel : Nat) (ids : List FGuid)
    (S : List FInstancedStruct) (R : List (Option FString)) (A B : TBitArray)
    (hstore : StoreOk db) (hstack : StackInv db)
    (hids : ids ≠ []) (hnd : ids.Nodup)
    (hlive : ∀ id ∈ ids, ∃ E, db.MasterRecord.EntitiesById.Find id = some E ∧ E.Archetype = A)
    (hAlen : A.length ≠ 0)
    (hB : db.FillArchetype A (S.map (fun p => p.TypeName)) (R.filterMap id) = B)
    (hAB : A ≠ B) (hnb : IsZero B = false)
    (hcols : MigrationCols db.MasterRecord A B S)
    (hcap : ∃ Chunk, FMantleDBChunk.Ctor 0 B db.MasterRecord = .ok Chunk ∧
      1 ≤ Chunk.TotalCapacity)
    (hfuel : ids.length ≤ fuel) :
    ∃ db1 It, db.UpdateEntities fuel ids S R = .ok (db1, It) ∧
      (∀ id ∈ ids, Migrated db db1 B S id) ∧ ∀ id, id ∉ ids → Untouched db db1 id := by
  -- the entry of the old archetype
  obtain ⟨id0, rest, hcons⟩ : ∃ id0 rest, ids = id0 :: rest := by
    cases ids with
    | nil => exact absurd rfl hids
    | cons a l => exact ⟨a, l, rfl⟩
  obtain ⟨OldEntry, hOld⟩ : ∃ OldEntry, db.EntriesByArchetype.Find A = some OldEntry := by
    obtain ⟨E, hE, hEa⟩ := hlive id0 (by rw [hcons]; exact List.mem_cons_self _ _)
    obtain ⟨Chunk, h1, _⟩ := hstore.located.record_located id0 E hE
    rw [hEa] at h1
    obtain ⟨e, he, _⟩ := (GetChunk_eq_some_iff db A E.ChunkId Chunk).1 h1
    exact ⟨e, he⟩
  -- the entry of the new archetype
  obtain ⟨g, hg⟩ : ∃ g, g = db.GetOrCreateEntry B := ⟨_, rfl⟩
  have hgfacts : g.1.EntriesByArchetype.Find B = some g.2 ∧
      (∀ X, X ≠ B → g.1.EntriesByArchetype.Find X = db.EntriesByArchetype.Find X) ∧
      g.1.MasterRecord.EntitiesById = db.MasterRecord.EntitiesById ∧
      g.1.MasterRecord.ComponentInfoMap = db.MasterRecord.ComponentInfoMap ∧
      g.1.MasterRecord.ChunkComponentBlobSize = db.MasterRecord.ChunkComponentBlobSize ∧
      g.1.MasterRecord.NextGuid = db.MasterRecord.NextGuid ∧
      (∀ k, g.2.Chunks.Find k = (db.GetChunk B k)) ∧
      EntryOk B g.1.MasterRecord g.2 := by
    rw [hg]
    cases hf : db.EntriesByArchetype.Find B with
    | some e =>
      rw [GetOrCreateEntry_old db B e hf]
      refine ⟨hf, fun _ _ => rfl, rfl, rfl, rfl, rfl, fun k => ?_, hstore.entries B e hf⟩
      unfold UMantleDB.GetChunk
      rw [hf]
    | none =>
      obtain ⟨n1, n2, _, _, n5, n6, n7, n8, _⟩ := GetOrCreateEntry_new db B hf
      refine ⟨by rw [n2, n1, TMap.Find_Add_self], fun X hX => by
        rw [n2, TMap.Find_Add_of_ne _ _ _ _ hX], n5, n6, n7, n8, fun k => ?_, ?_⟩
      · rw [n1]
        unfold UMantleDB.GetChunk
        rw [hf]
        rfl
      · rw [n1]
        exact ⟨rfl, List.nodup_nil, (fun Id c h => by cases h)⟩
  obtain ⟨g2, g3, g4, g5, g6, g7, g8, g9⟩ := hgfacts
  have hsg : StackShape g.2 := by
    have hinv : StackInv g.1 := by
      rw [hg]
      exact GetOrCreateEntry_stack db B hstack
    exact hinv B g.2 g2 (by rw [g9.archetype_eq]; exact hnb)
  -- the store with the two entries
  have hFindA : g.1.EntriesByArchetype.Find A = some OldEntry := by
    rw [g3 A hAB]
    exact hOld
  obtain ⟨v1, v2, v3⟩ := @view_sound db (g.1.WithEntries A B OldEntry g.2 g.1.MasterRecord)
    (fun k => by
      show g.1.MasterRecord.EntitiesById.Find k = _
      rw [g4])
    g5
    (by
      intro X ChunkId
      have hsame : (g.1.WithEntries A B OldEntry g.2 g.1.MasterRecord).GetChunk X ChunkId =
          db.GetChunk X ChunkId := by
        rw [WithEntries_GetChunk]
        by_cases hXB : X = B
        · rw [if_pos hXB, hXB]
          exact g8 ChunkId
        · rw [if_neg hXB]
          by_cases hXA : X = A
          · rw [if_pos hXA, hXA]
            unfold UMantleDB.GetChunk
            rw [hOld]
          · rw [if_neg hXA]
            unfold UMantleDB.GetChunk
            rw [g3 X hXB]
      rw [hsame]
      cases h : db.GetChunk X ChunkId with
      | none => exact Or.inl ⟨rfl, rfl⟩
      | some C => exact Or.inr ⟨C, C, rfl, rfl, rfl, rfl, rfl⟩)
    hstore.keyed hstore.located
  have hok : StoreOk (g.1.WithEntries A B OldEntry g.2 g.1.MasterRecord) :=
    StoreOk_WithEntries (by rw [g5]; exact hstore.registry) v1 v2
      ((hstore.entries A OldEntry hOld).mono g5 (le_of_eq g7.symm)) g9
      (fun X e hXA hXB hf =>
        (hstore.entries X e (by rw [← g3 X hXB]; exact hf)).mono g5 (le_of_eq g7.symm))
  obtain ⟨Chunk, hC, hcap1⟩ := hcap
  obtain ⟨Chunk1, hC1, hcapeq⟩ := @Ctor_congr g.1.MasterRecord db.MasterRecord g5 g6 0 B Chunk hC 0
  obtain ⟨e1, TF1, mr1, Out1, hrun, _, r2, r3, r4, _⟩ :=
    Entry_TakeEntitiesLoop_spec g.1 A B hAB hnb S ids hnd fuel ids.length g.2 OldEntry
      g.1.MasterRecord { Archetype := B } hfuel (Nat.le_refl _) hok hsg
      (hcols.congr_record g5) ⟨Chunk1, hC1, by rw [hcapeq]; exact hcap1⟩
      (by
        intro id hid
        rw [Nat.sub_self, List.drop_zero] at hid
        rw [g4]
        exact hlive id hid)
  rw [Nat.sub_self, List.drop_zero] at r2 r3
  -- the call
  obtain ⟨db2, hdb2⟩ : ∃ db2, db2 = g.1.WithEntries A B TF1 e1 mr1 := ⟨_, rfl⟩
  obtain ⟨db3, hdb3⟩ : ∃ db3, db3 =
      (((db2.EntryWasModified A).EntryWasModified B).RefreshCachedQuery B).1 := ⟨_, rfl⟩
  have hsame : SameStore db2 db3 := by
    rw [hdb3, RefreshCachedQuery_eq]
    exact SameStore_trans (SameStore_trans (EntryWasModified_same db2 A)
      (EntryWasModified_same _ B)) (RunQueryInternal_store _ B)
  have hun3 : ∀ k, Untouched db2 db3 k := by
    intro k
    obtain ⟨q1, _, _, q4, q5, _, _⟩ := hsame
    exact ⟨by rw [q4], fun T => GetComponent_congr q1 q4 q5 T k⟩
  have hres : ∃ It, db.UpdateEntities fuel ids S R = .ok (db3, It) := by
    unfold UMantleDB.UpdateEntities
    rw [if_neg (by rw [hcons]; exact Nat.succ_ne_zero _),
      CollectValidEntities_all db.MasterRecord A hAlen ids [] [] hlive
        (Or.inr ⟨rfl, hids⟩)]
    simp only [List.nil_append]
    rw [if_neg (by rw [hcons]; exact Nat.succ_ne_zero _), hB, if_neg (fun h => hAB h.symm)]
    unfold UMantleDB.GetEntry
    rw [hOld]
    simp only
    rw [← hg]
    have hrun' : g.2.TakeEntities fuel ids OldEntry g.1.MasterRecord S { Archetype := B } =
        .ok (e1, TF1, mr1, Out1) := hrun
    rw [hrun']
    simp only
    have hd : ({ g.1 with
        EntriesByArchetype := (g.1.EntriesByArchetype.Add A TF1).Add B e1,
        MasterRecord := mr1 } : UMantleDB) = db2 := by
      rw [hdb2]
      rfl
    rw [hd, ← hdb3]
    split
    · exact ⟨_, rfl⟩
    · exact ⟨_, rfl⟩
  obtain ⟨It, hIt⟩ := hres
  refine ⟨db3, It, hIt, fun id hid => ?_, fun id hid => ?_⟩
  · have hm : Migrated db db2 B S id := by
      rw [hdb2]
      exact Migrated.after_untouched (v3 id) g5 (r2 id hid)
    exact hm.then_untouched (hun3 id)
  · have hu : Untouched db db2 id := by
      rw [hdb2]
      exact (v3 id).trans (r3 id hid)
    exact hu.trans (hun3 id)

/-! ## C37: a payload for a component the entities have already -/

/-- The column of the type `T` in a chunk of the archetype `X`: there is one exactly when the
type is valid and its bit is set. -/
theorem PresentTypes_Find (X : TBitArray) (mr : FMantleDBMasterRecord)
    (hok : RegistryOk mr.ComponentInfoMap) (T : FString) (Info : FMantleComponentInfo)
    (hfind : mr.ComponentInfoMap.Find T = some Info) :
    (FMantleDBChunk.PresentTypes X mr).Find T =
      if (FMantleDBChunk.ValidateComponentInfo Info && GetBit X Info.ArchetypeIndex) = true
      then some Info else none := by
  have hmem : (T, Info) ∈ mr.ComponentInfoMap := TMap.Find_mem hfind
  have hnd : ((FMantleDBChunk.PresentTypes X mr).map (fun p => p.1)).Nodup :=
    hok.keys_nodup.sublist ((List.filter_sublist _).map _)
  by_cases hp : (FMantleDBChunk.ValidateComponentInfo Info && GetBit X Info.ArchetypeIndex) = true
  · rw [if_pos hp]
    exact TMap.Find_of_mem _ T Info hnd (List.mem_filter.2 ⟨hmem, hp⟩)
  · rw [if_neg hp]
    cases hf : (FMantleDBChunk.PresentTypes X mr).Find T with
    | none => rfl
    | some Info1 =>
      have h1 := List.mem_filter.1 (TMap.Find_mem hf)
      have h2 := hok.find_mem _ h1.1
      have h3 : mr.ComponentInfoMap.Find T = some Info1 := h2
      rw [hfind] at h3
      injection h3 with h3
      rw [← h3] at h1
      exact absurd h1.2 hp

/-- The bit of a registered type in the archetype `FillArchetype` computes from `A`, the
names to add and the names to remove, when no name is both added and removed. -/
theorem FillArchetype_bits (db : UMantleDB) (A : TBitArray) (Add Remove : List FString)
    (hok : RegistryOk db.MasterRecord.ComponentInfoMap)
    (hlen : db.MasterRecord.ComponentInfoMap.length ≤ A.length)
    (hdisj : ∀ T ∈ Remove, T ∉ Add)
    (T : FString) (Info : FMantleComponentInfo)
    (hfind : db.MasterRecord.ComponentInfoMap.Find T = some Info) :
    (T ∈ Add → GetBit (db.FillArchetype A Add Remove) Info.ArchetypeIndex = true) ∧
      (T ∉ Add → GetBit (db.FillArchetype A Add Remove) Info.ArchetypeIndex = true →
        GetBit A Info.ArchetypeIndex = true) := by
  have hmem : (T, Info) ∈ db.MasterRecord.ComponentInfoMap := TMap.Find_mem hfind
  have hlt : ∀ nm Info1, db.MasterRecord.ComponentInfoMap.Find nm = some Info1 →
      Info1.ArchetypeIndex < A.length :=
    fun nm Info1 h => Nat.lt_of_lt_of_le (hok.find_index_lt nm Info1 h) hlen
  have hname : ∀ nm Info1, db.MasterRecord.ComponentInfoMap.Find nm = some Info1 →
      Info1.ArchetypeIndex = Info.ArchetypeIndex → nm = T := by
    intro nm Info1 h1 h2
    have := hok.index_inj (nm, Info1) (TMap.Find_mem h1) (T, Info) hmem h2
    exact congrArg Prod.fst this
  have hbit : GetBit (db.FillArchetype A Add Remove) Info.ArchetypeIndex =
      if ∃ nm ∈ Remove, ∃ Info1, db.MasterRecord.ComponentInfoMap.Find nm = some Info1 ∧
          Info1.ArchetypeIndex = Info.ArchetypeIndex then false
      else if ∃ nm ∈ Add, ∃ Info1, db.MasterRecord.ComponentInfoMap.Find nm = some Info1 ∧
          Info1.ArchetypeIndex = Info.ArchetypeIndex then true
      else GetBit A Info.ArchetypeIndex := by
    unfold UMantleDB.FillArchetype
    rw [FillArchetypeLoop_bit db.MasterRecord false Info.ArchetypeIndex Remove _
      (fun nm Info1 h => by rw [FillArchetypeLoop_length]; exact hlt nm Info1 h),
      FillArchetypeLoop_bit db.MasterRecord true Info.ArchetypeIndex Add A hlt]
  constructor
  · intro hT
    rw [hbit, if_neg, if_pos ⟨T, hT, Info, hfind, rfl⟩]
    rintro ⟨nm, h1, Info1, h2, h3⟩
    have := hname nm Info1 h2 h3
    rw [this] at h1
    exact hdisj T h1 hT
  · intro hT hb
    rw [hbit] at hb
    split at hb
    · cases hb
    · split at hb
      · rename_i hex
        obtain ⟨nm, h1, Info1, h2, h3⟩ := hex
        have := hname nm Info1 h2 h3
        rw [this] at h1
        exact absurd h1 hT
      · exact hb

/-- The columns a migration needs are there when the new archetype is the one `FillArchetype`
computes from the old one, the payloads are of pairwise different valid registered types,
and no type is both added and removed. A payload may be of a type the old archetype has
already. -/
theorem MigrationCols_of_fill (db : UMantleDB) (A : TBitArray) (S : List FInstancedStruct)
    (Remove : List FString) (hok : RegistryOk db.MasterRecord.ComponentInfoMap)
    (hlen : db.MasterRecord.ComponentInfoMap.length ≤ A.length)
    (hS : (S.map (fun p => p.TypeName)).Nodup)
    (hreg : ∀ p ∈ S, ∃ Info, db.MasterRecord.ComponentInfoMap.Find p.TypeName = some Info ∧
      FMantleDBChunk.ValidateComponentInfo Info = true)
    (hdisj : ∀ T ∈ Remove, T ∉ S.map (fun p => p.TypeName)) :
    MigrationCols db.MasterRecord A
      (db.FillArchetype A (S.map (fun p => p.TypeName)) Remove) S := by
  refine ⟨hS, ?_, ?_, ?_, ?_⟩
  · intro p hp
    obtain ⟨Info, hfind, hvalid⟩ := hreg p hp
    have hb := (FillArchetype_bits db A _ Remove hok hlen hdisj p.TypeName Info hfind).1
      (List.mem_map.2 ⟨p, hp, rfl⟩)
    refine ⟨⟨Info, ?_⟩, ?_⟩
    · rw [PresentTypes_Find _ _ hok p.TypeName Info hfind, if_pos (by rw [hvalid, hb]; rfl)]
    · unfold FMantleDBMasterRecord.ArchetypeHasComponent
      rw [hfind]
      exact hb
  · intro q hq
    obtain ⟨hq1, hq2⟩ := List.mem_filter.1 hq
    rw [Bool.and_eq_true] at hq2
    have hfind := hok.find_mem q hq1
    by_cases hT : q.1 ∈ S.map (fun p => p.TypeName)
    · exact Or.inr hT
    · left
      have hb := (FillArchetype_bits db A _ Remove hok hlen hdisj q.1 q.2 hfind).2 hT hq2.2
      exact List.mem_map.2 ⟨q, List.mem_filter.2 ⟨hq1, by rw [hq2.1, hb]; rfl⟩, rfl⟩
  · intro q hq Info hInfo
    have h1 := (List.mem_filter.1 hq).1
    have h2 := (List.mem_filter.1 (TMap.Find_mem hInfo)).1
    have h3 := hok.find_mem q h1
    have h4 : db.MasterRecord.ComponentInfoMap.Find q.1 = some Info := hok.find_mem _ h2
    rw [h3] at h4
    injection h4 with h4
    rw [h4]
  · intro T hT hB
    unfold FMantleDBMasterRecord.ArchetypeHasComponent at hB ⊢
    cases hfind : db.MasterRecord.ComponentInfoMap.Find T with
    | none =>
      rw [hfind] at hB
      cases hB
    | some Info =>
      rw [hfind] at hB
      simp only at hB ⊢
      have hb := (FillArchetype_bits db A _ Remove hok hlen hdisj T Info hfind).2 hT hB
      refine ⟨hb, ?_⟩
      rw [PresentTypes_Find _ _ hok T Info hfind, PresentTypes_Find _ _ hok T Info hfind, hB, hb]

/-- C37: in a reachable well-formed store, let `ids` be pairwise different live entities of
one archetype `A`, `S` payloads of pairwise different valid registered types, none of which
is also removed, such that the archetype `B` that `FillArchetype` computes differs from `A`
and has a chunk capacity of at least one. Then `UpdateEntities` returns (with a fuel of at
least the number of entities), and afterwards every entity of the list is of the archetype
`B` and holds, for every payload of `S`, the payload: also when the entity had a component
of that type before the call, whose old value is then overwritten and not carried over. A
component of `B` without a payload holds the value it held before the call. -/
theorem C37_overlapping_payload_overwrites (db : UMantleDB) (hreach : Reachable db)
    (hstore : StoreOk db) (fuel : Nat) (ids : List FGuid) (S : List FInstancedStruct)
    (R : List (Option FString)) (A : TBitArray)
    (hids : ids ≠ []) (hnd : ids.Nodup)
    (hlive : ∀ k ∈ ids, ∃ E, db.MasterRecord.EntitiesById.Find k = some E ∧ E.Archetype = A)
    (hlen : db.MasterRecord.ComponentInfoMap.length ≤ A.length)
    (hne : S ≠ []) (hS : (S.map (fun p => p.TypeName)).Nodup)
    (hreg : ∀ p ∈ S, ∃ Info, db.MasterRecord.ComponentInfoMap.Find p.TypeName = some Info ∧
      FMantleDBChunk.ValidateComponentInfo Info = true)
    (hdisj : ∀ T ∈ R.filterMap id, T ∉ S.map (fun p => p.TypeName))
    (hAB : db.FillArchetype A (S.map (fun p => p.TypeName)) (R.filterMap id) ≠ A)
    (hcap : ∃ Chunk,
      FMantleDBChunk.Ctor 0 (db.FillArchetype A (S.map (fun p => p.TypeName)) (R.filterMap id))
        db.MasterRecord = .ok Chunk ∧ 1 ≤ Chunk.TotalCapacity)
    (hfuel : ids.length ≤ fuel) :
    ∃ db1 It, db.UpdateEntities fuel ids S R = .ok (db1, It) ∧
      ∀ k ∈ ids,
        (db1.MasterRecord.EntitiesById.Find k).map (fun E => E.Archetype) =
          some (db.FillArchetype A (S.map (fun p => p.TypeName)) (R.filterMap id)) ∧
        (∀ p ∈ S, db1.GetComponent p.TypeName k = some p.Memory) ∧
        ∀ T, T ∉ S.map (fun p => p.TypeName) →
          db1.GetComponent T k =
            if db.MasterRecord.ArchetypeHasComponent
                (db.FillArchetype A (S.map (fun p => p.TypeName)) (R.filterMap id)) T = true
            then db.GetComponent T k else none := by
  have hcols := MigrationCols_of_fill db A S (R.filterMap id) hstore.registry hlen hS hreg hdisj
  obtain ⟨p0, rest, hcons⟩ : ∃ p0 rest, S = p0 :: rest := by
    cases S with
    | nil => exact absurd rfl hne
    | cons a l => exact ⟨a, l, rfl⟩
  have hp0 : p0 ∈ S := by rw [hcons]; exact List.mem_cons_self _ _
  obtain ⟨Info0, hfind0, _⟩ := hreg p0 hp0
  have hnb : IsZero (db.FillArchetype A (S.map (fun p => p.TypeName)) (R.filterMap id)) =
      false := by
    have hb := (hcols.added p0 hp0).2
    unfold FMantleDBMasterRecord.ArchetypeHasComponent at hb
    rw [hfind0] at hb
    exact IsZero_eq_false_of_bit _ Info0.ArchetypeIndex hb
  have hA0 : A.length ≠ 0 := by
    have h1 := hstore.registry.find_index_lt p0.TypeName Info0 hfind0
    omega
  obtain ⟨db1, It, hrun, hmig, _⟩ := UpdateEntities_migrates db fuel ids S R A _ hstore
    (Reachable_stack hreach) hids hnd hlive hA0 rfl (fun h => hAB h.symm) hnb hcols hcap hfuel
  exact ⟨db1, It, hrun, fun k hk => hmig k hk⟩

/-- C37 on `TwoTypeDB`, where the entity 2 has the position 10 and no velocity:
`UpdateEntities` with a `Position` payload 99 and a `Velocity` payload 5 moves the entity to
the archetype with both types, and afterwards its position is 99, not 10, and its velocity
is 5. -/
theorem C37_overlapping_payload_overwrites_witness :
    TwoTypeDB.GetComponent "Position" 2 = some 10 ∧
      TwoTypeDB.GetComponent "Velocity" 2 = none ∧
      ∃ db1 It,
        TwoTypeDB.UpdateEntities 1 [2] [⟨"Position", 99⟩, ⟨"Velocity", 5⟩] [] =
          .ok (db1, It) ∧
        (db1.MasterRecord.EntitiesById.Find 2).map (fun E => E.Archetype) =
          some [true, true] ∧
        db1.GetComponent "Position" 2 = some 99 ∧ db1.GetComponent "Velocity" 2 = some 5 := by
  obtain ⟨db1, It, hrun, h⟩ :=
    C37_overlapping_payload_overwrites TwoTypeDB TwoTypeDB_reachable TwoTypeDB_store 1 [2]
      [⟨"Position", 99⟩, ⟨"Velocity", 5⟩] [] [true, false] (by decide) (by decide)
      (by
        intro id hid
        rw [List.mem_singleton.1 hid]
        exact ⟨⟨2, [true, false], 1, 0⟩, by decide, rfl⟩)
      (by decide) (by decide) (by decide)
      (by
        intro p hp
        rcases List.mem_cons.1 hp with h | h
        · rw [h]
          exact ⟨⟨"Position", 0, 12, 4⟩, by decide, by decide⟩
        · rw [List.mem_singleton.1 h]
          exact ⟨⟨"Velocity", 1, 12, 4⟩, by decide, by decide⟩)
      (by
        intro T hT
        cases hT)
      (by decide) ⟨_, rfl, by decide⟩ (by decide)
  obtain ⟨h1, h2, _⟩ := h 2 (List.mem_singleton.2 rfl)
  exact ⟨by decide, by decide, db1, It, hrun, h1.trans (by decide),
    h2 ⟨"Position", 99⟩ (by decide), h2 ⟨"Velocity", 5⟩ (by decide)⟩

end Mantle
